import Mathlib

/-!
# libdivecomputer: ring-buffer dive retrieval

A shallow embedding of the Oceanic dive-retrieval engine
(`oceanic_common.c`, `oceanic_vtpro.c`) and of the primitives it uses.

Conventions of the embedding:

* a byte is a `Nat`; every byte that the transport delivers is reduced
  modulo 256 when it is stored;
* an `unsigned int` is a `Nat` below `2^32`; every C addition, subtraction
  and multiplication is followed by an explicit reduction modulo `2^32`
  (`u32`, `usub`);
* a heap buffer is a `List Nat`; every access is bounds-checked and an access
  outside the buffer ends the run with `Outcome.fault`;
* the functions of `ringbuffer.c` are defined for pointers inside the ring
  only; a call with a pointer outside the ring ends the run with
  `Outcome.fault`;
* loops are driven by a fuel counter; running out of fuel ends the run with
  `Outcome.diverge`.
-/

set_option linter.all false

namespace Divecomputer

/-! ## Status codes and machine arithmetic -/

/-- The status taxonomy `device_status_t`; `IO_ERROR` stands for
`DEVICE_STATUS_IO`. -/
inductive device_status_t
  | SUCCESS
  | UNSUPPORTED
  | TYPE_MISMATCH
  | ERROR
  | MEMORY
  | IO_ERROR
  | TIMEOUT
  | PROTOCOL
  | CANCELLED
  deriving DecidableEq, Repr

open device_status_t

/-- Page size of the Oceanic family, `#define PAGESIZE 0x10`. -/
def PAGESIZE : Nat := 0x10

/-- Reduction of a natural number to an `unsigned int`. -/
def u32 (x : Nat) : Nat := x % 4294967296

/-- Subtraction of two `unsigned int` values, wrapping on underflow. -/
def usub (a b : Nat) : Nat := (a + (4294967296 - b % 4294967296)) % 4294967296

/-! ## Ring-buffer arithmetic (`ringbuffer.h`) -/

/-- Modelled from the spec: `ringbuffer_distance` of `ringbuffer.c`, which is not
among the sources. "`distance(a, b, empty_is_full)`: `(b - a) mod L`, but when
`a == b` returns `L` if `empty_is_full` else `0`", with `L = hi - lo`. The
argument order is the one of the call sites,
`ringbuffer_distance (a, b, mode, begin, end)`. -/
def ringbuffer_distance (a b : Nat) (mode : Bool) (lo hi : Nat) : Nat :=
  if a = b then (if mode then hi - lo else 0)
  else (((b : Int) - (a : Int)) % ((hi : Int) - (lo : Int))).toNat

/-- Modelled from the spec: `ringbuffer_increment` of `ringbuffer.c`, which is not
among the sources. "`increment(a, n)`: `lo + ((a - lo + n) mod L)`", with
`L = hi - lo`; the call sites pass `ringbuffer_increment (a, n, begin, end)`. -/
def ringbuffer_increment (a n lo hi : Nat) : Nat :=
  lo + (((a : Int) - (lo : Int) + (n : Int)) % ((hi : Int) - (lo : Int))).toNat

/-- Modelled from the spec: the domain of the functions of `ringbuffer.c`, which is
not among the sources. "Both are defined only for `a, b ∈ [lo, hi)`; callers
must enforce." A call outside the domain ends the run with a fault. -/
def ringbuffer_defined (a lo hi : Nat) : Bool := decide (lo ≤ a ∧ a < hi)

/-! ## The Oceanic device (`oceanic_common.h`) -/

/-- The memory layout descriptor `oceanic_common_layout_t`. -/
structure oceanic_common_layout_t where
  memsize : Nat
  cf_devinfo : Nat
  cf_pointers : Nat
  rb_logbook_begin : Nat
  rb_logbook_end : Nat
  rb_profile_begin : Nat
  rb_profile_end : Nat
  pt_mode_global : Nat
  pt_mode_logbook : Nat
  deriving DecidableEq, Repr

/-- The base object `device_t`: the identity of the backend table. -/
structure device_t where
  backend : Nat
  deriving DecidableEq, Repr

/-- The device object `oceanic_common_device_t`; `layout` is a pointer that
`oceanic_common_device_init` sets to `NULL`. -/
structure oceanic_common_device_t where
  base : device_t
  fingerprint : List Nat
  layout : Option oceanic_common_layout_t
  multipage : Nat
  deriving DecidableEq, Repr

/-- `sizeof (device->fingerprint)`, that is `PAGESIZE / 2`. -/
def FP_SIZE : Nat := PAGESIZE / 2

/-- `oceanic_common_device_init`: zero fingerprint, no layout, `multipage = 1`. -/
def oceanic_common_device_init (backend : Nat) : oceanic_common_device_t :=
  { base := { backend := backend }
    fingerprint := List.replicate FP_SIZE 0
    layout := none
    multipage := 1 }

/-- `oceanic_common_device_set_fingerprint (abstract, data, size)`. The byte
array `data` holds at least `size` bytes; `memcpy` copies the first
`sizeof (device->fingerprint)` of them. -/
def oceanic_common_device_set_fingerprint (device : oceanic_common_device_t)
    (data : List Nat) (size : Nat) : device_status_t × oceanic_common_device_t :=
  if size ≠ 0 ∧ size ≠ FP_SIZE then
    (ERROR, device)
  else if size ≠ 0 then
    (SUCCESS, { device with fingerprint := data.take FP_SIZE })
  else
    (SUCCESS, { device with fingerprint := List.replicate FP_SIZE 0 })

/-! ## Byte primitives (`array.h`) -/

/-- Modelled from the spec: `array_uint16_le` of `array.c`, which is not among the
sources ("endian decoders over byte slices, zero-extension into machine
width"). `data` is the byte array starting at the pointer passed in C; the
result is an `unsigned short`. -/
def array_uint16_le (data : List Nat) : Nat :=
  (data.getD 0 0 + data.getD 1 0 * 256) % 65536

/-- Modelled from the spec: `array_uint16_be` of `array.c`, which is not among the
sources; the big-endian counterpart of `array_uint16_le`. -/
def array_uint16_be (data : List Nat) : Nat :=
  (data.getD 0 0 * 256 + data.getD 1 0) % 65536

/-- Modelled from the spec: `array_isequal` of `array.c`, which is not among the
sources: whether all `size` bytes equal `value` ("if all bytes equal `0xFF`"). -/
def array_isequal (data : List Nat) (size value : Nat) : Bool :=
  (List.range size).all (fun i => data.getD i 0 == value)

/-! ## Heap buffers -/

/-- A heap buffer of `size` bytes; a cell is `none` while its content is
indeterminate (fresh from `malloc`). -/
structure Buffer where
  size : Nat
  cell : Nat → Option Nat

/-- A fresh buffer, as returned by `malloc (n)`. -/
def Buffer.malloc (n : Nat) : Buffer := ⟨n, fun _ => none⟩

/-- Whether the `n` bytes at `pos` lie inside the buffer and are all determinate. -/
def Buffer.readable (b : Buffer) (pos n : Nat) : Bool :=
  decide (pos + n ≤ b.size) && (List.range n).all (fun i => (b.cell (pos + i)).isSome)

/-- The `n` bytes at `pos`. -/
def Buffer.load (b : Buffer) (pos n : Nat) : List Nat :=
  (List.range n).map (fun i => (b.cell (pos + i)).getD 0)

/-- Whether the `n` bytes at `pos` lie inside the buffer. -/
def Buffer.writable (b : Buffer) (pos n : Nat) : Bool := decide (pos + n ≤ b.size)

/-- Store `n` bytes, given by index, at `pos`. -/
def Buffer.store (b : Buffer) (pos n : Nat) (data : Nat → Option Nat) : Buffer :=
  ⟨b.size, fun i => if pos ≤ i ∧ i < pos + n then data (i - pos) else b.cell i⟩

/-- The effect of `memmove (b + dst, b + src, n)` inside one buffer. -/
def Buffer.memmove (b : Buffer) (dst src n : Nat) : Buffer :=
  b.store dst n (fun i => b.cell (src + i))

/-- Whether the ranges of `memcpy (b + dst, b + src, n)` overlap. -/
def overlaps (dst src n : Nat) : Bool :=
  decide (dst < src + n ∧ src < dst + n)

/-- Store the answer of a successful `device_read` of `n` bytes at `pos`. -/
def Buffer.fill (b : Buffer) (pos n : Nat) (data : List Nat) : Buffer :=
  b.store pos n (fun i => some (data.getD i 0 % 256))

/-! ## Events, collaborators and outcomes -/

/-- What the engine does to the outside world, in order: progress and device-info
events handed to the listener, `device_read` requests, callback invocations. -/
inductive Event
  | progress (current maximum : Nat)
  | devinfo (model firmware serial : Nat)
  | read (address size : Nat)
  | dive (data fingerprint : List Nat)
  deriving DecidableEq, Repr

/-- The collaborators of the engine. `device_read` and `callback` may depend on
everything that happened before (the trace so far). `device_read trace address
size` gives the status and, on success, the `size` answer bytes. `malloc_ok n`
tells whether `malloc (n)` returns a non-null pointer. `bcd2dec` is the helper
of `utils.c`, which is not among the sources. -/
structure Env where
  device_read : List Event → Nat → Nat → device_status_t × List Nat
  callback : Option (List Event → List Nat → List Nat → Bool)
  malloc_ok : Nat → Bool
  bcd2dec : Nat → Nat

/-- How a run ends: the function returns a status, or it performs an invalid
memory access or fails an assertion, or it runs out of fuel. -/
inductive Outcome
  | returned (rc : device_status_t)
  | fault
  | diverge
  deriving DecidableEq, Repr

/-- The result of a run: how it ended and everything it did. -/
structure Run where
  outcome : Outcome
  trace : List Event
  deriving DecidableEq, Repr

/-- One step of a loop: go on with a new state, or end the whole run. -/
inductive Step (σ : Type)
  | next (s : σ)
  | stop (r : Run)

/-- The `device_read` requests of a trace, as `(address, size)`. -/
def reads : List Event → List (Nat × Nat)
  | [] => []
  | Event.read a n :: t => (a, n) :: reads t
  | _ :: t => reads t

/-- The callback invocations of a trace, as `(data, fingerprint)`. -/
def dives : List Event → List (List Nat × List Nat)
  | [] => []
  | Event.dive d f :: t => (d, f) :: dives t
  | _ :: t => dives t

/-! ## The Oceanic engine (`oceanic_common.c`) -/

/-- `RB_LOGBOOK_DISTANCE (a, b, l)`. -/
def RB_LOGBOOK_DISTANCE (a b : Nat) (l : oceanic_common_layout_t) : Nat :=
  u32 (ringbuffer_distance a b false l.rb_logbook_begin l.rb_logbook_end)

/-- `RB_LOGBOOK_INCR (a, b, l)`. -/
def RB_LOGBOOK_INCR (a b : Nat) (l : oceanic_common_layout_t) : Nat :=
  u32 (ringbuffer_increment a b l.rb_logbook_begin l.rb_logbook_end)

/-- `RB_PROFILE_DISTANCE (a, b, l)`. -/
def RB_PROFILE_DISTANCE (a b : Nat) (l : oceanic_common_layout_t) : Nat :=
  u32 (ringbuffer_distance a b false l.rb_profile_begin l.rb_profile_end)

/-- `RB_PROFILE_INCR (a, b, l)`. -/
def RB_PROFILE_INCR (a b : Nat) (l : oceanic_common_layout_t) : Nat :=
  u32 (ringbuffer_increment a b l.rb_profile_begin l.rb_profile_end)

/-- `ifloor (x, n)`: round down to the next lower multiple. -/
def ifloor (x n : Nat) : Nat := u32 ((x / n) * n)

/-- `iceil (x, n)`: round up to the next higher multiple. -/
def iceil (x n : Nat) : Nat := u32 ((usub (u32 (x + n)) 1 / n) * n)

/-- `get_profile_first (data, layout)`; `data` is the logbook entry. -/
def get_profile_first (data : List Nat) (layout : oceanic_common_layout_t) : Nat :=
  let value :=
    if layout.pt_mode_logbook = 0 then array_uint16_le (data.drop 5)
    else array_uint16_le (data.drop 4)
  if layout.memsize > 0x10000 then u32 ((value &&& 0x1FFF) * PAGESIZE)
  else u32 ((value &&& 0x0FFF) * PAGESIZE)

/-- `get_profile_last (data, layout)`; `data` is the logbook entry. -/
def get_profile_last (data : List Nat) (layout : oceanic_common_layout_t) : Nat :=
  let value :=
    if layout.pt_mode_logbook = 0 then array_uint16_le (data.drop 6) >>> 4
    else array_uint16_le (data.drop 6)
  if layout.memsize > 0x10000 then u32 ((value &&& 0x1FFF) * PAGESIZE)
  else u32 ((value &&& 0x0FFF) * PAGESIZE)

/-- The begin/end/count pointers and the page window that
`oceanic_common_device_foreach` computes from the two logbook pointers
(lines 208-263). -/
structure Window where
  entry_begin : Nat
  entry_end : Nat
  entry_size : Nat
  full : Bool
  page_begin : Nat
  page_end : Nat
  page_size : Nat
  unaligned : Bool
  deriving DecidableEq, Repr

/-- Lines 208-263 of `oceanic_common_device_foreach`: convert the first/last
pointers to begin/end/count pointers and align them to page boundaries. -/
def logbook_window (layout : oceanic_common_layout_t)
    (rb_logbook_first rb_logbook_last : Nat) : Window :=
  let L := usub layout.rb_logbook_end layout.rb_logbook_begin
  -- One of the pointers is outside the valid ringbuffer area.
  let outside : Prop :=
    rb_logbook_first < layout.rb_logbook_begin ∨
    rb_logbook_first ≥ layout.rb_logbook_end ∨
    rb_logbook_last < layout.rb_logbook_begin ∨
    rb_logbook_last ≥ layout.rb_logbook_end
  let entry_begin := if outside then layout.rb_logbook_begin else rb_logbook_first
  let entry_end :=
    if outside then layout.rb_logbook_begin
    else if layout.pt_mode_global = 0 then RB_LOGBOOK_INCR rb_logbook_last (PAGESIZE / 2) layout
    else rb_logbook_last
  let entry_size :=
    if outside then 0
    else if layout.pt_mode_global = 0 then
      u32 (RB_LOGBOOK_DISTANCE rb_logbook_first rb_logbook_last layout + PAGESIZE / 2)
    else if rb_logbook_first = rb_logbook_last then L
    else RB_LOGBOOK_DISTANCE rb_logbook_first rb_logbook_last layout
  -- Check whether the ringbuffer is full.
  let full : Bool := decide (entry_size = L)
  -- Align the pointers to page boundaries.
  let page_begin := if full then iceil entry_end PAGESIZE else ifloor entry_begin PAGESIZE
  let page_end := iceil entry_end PAGESIZE
  let page_size :=
    if full then entry_size
    else u32 (u32 (entry_size + usub entry_begin page_begin) + usub page_end entry_end)
  { entry_begin := entry_begin
    entry_end := entry_end
    entry_size := entry_size
    full := full
    page_begin := page_begin
    page_end := page_end
    page_size := page_size
    -- Check whether the last entry is not aligned to a page boundary.
    unaligned := decide (entry_end ≠ page_end) }

/-- Handle the ringbuffer wrap point (lines 299-300 and 449-450): a read address
at the begin of the ring continues at its end. -/
def wrap_point (rb_begin rb_end address : Nat) : Nat :=
  if address = rb_begin then rb_end else address

/-- Calculate the optimal packet size (lines 303-307 and 453-457):
`PAGESIZE * multipage`, shortened at the begin of the ringbuffer and at the end
of the `limit` bytes that are wanted. -/
def packet_size (rb_begin multipage address nbytes limit : Nat) : Nat :=
  let len := u32 (PAGESIZE * multipage)
  let len := if u32 (rb_begin + len) > address then usub address rb_begin else len
  if u32 (nbytes + len) > limit then usub limit nbytes else len

/-- The variables of the logbook download loop (lines 281-377). -/
structure LogState where
  logbooks : Buffer
  begin_ : Nat
  nbytes : Nat
  current : Nat
  offset : Nat
  address : Nat
  progress_current : Nat
  trace : List Event

/-- The entry scan, lines 351-372: step `current` backwards over the downloaded
entries until it reaches `offset` or `begin`, or until an uninitialized entry
or the fingerprint is found. Gives `(current, begin, abort)`; `none` when an
entry outside the determinate part of the buffer is inspected, `some none` when
the fuel runs out. -/
def scan_entries (logbooks : Buffer) (fingerprint : List Nat) (offset : Nat) :
    Nat → Nat → Nat → Option (Option (Nat × Nat × Bool))
  | fuel, current, begin_ =>
    if ¬ (current ≠ offset ∧ current ≠ begin_) then some (some (current, begin_, false))
    else match fuel with
      | 0 => some none
      | fuel + 1 =>
        let current := usub current (PAGESIZE / 2)
        if ¬ logbooks.readable current (PAGESIZE / 2) then none
        else
          let entry := logbooks.load current (PAGESIZE / 2)
          if array_isequal entry (PAGESIZE / 2) 0xFF then
            some (some (current, u32 (current + PAGESIZE / 2), true))
          else if entry = fingerprint then
            some (some (current, u32 (current + PAGESIZE / 2), true))
          else scan_entries logbooks fingerprint offset fuel current begin_

/-- The special treatment of a full ringbuffer that is not aligned to page
boundaries, lines 328-345: after the first packet move the oldest entries to
the start and the newest entries to the end of the buffer, after the last
packet set the offset to zero. Gives the buffer and the offset; `none` when a
copy leaves the buffer or the ranges of `memcpy` overlap. -/
def logbook_fixup (w : Window) (logbooks : Buffer) (nbytes len offset : Nat) :
    Option (Buffer × Nat) :=
  if w.full ∧ w.unaligned then
    if nbytes = 0 then
      let oldest := usub w.page_end w.entry_end
      let newest := usub len oldest
      -- Move the oldest entries down to the start of the buffer.
      if ¬ logbooks.writable 0 oldest ∨ ¬ logbooks.writable (offset + newest) oldest ∨
          overlaps 0 (offset + newest) oldest then none
      else
        let logbooks := logbooks.memmove 0 (offset + newest) oldest
        -- Move the newest entries up to the end of the buffer.
        if ¬ logbooks.writable (offset + oldest) newest ∨
            ¬ logbooks.writable offset newest then none
        else some (logbooks.memmove (offset + oldest) offset newest, u32 (offset + oldest))
    else if u32 (nbytes + len) = w.page_size then some (logbooks, 0)
    else some (logbooks, offset)
  else some (logbooks, offset)

/-- One iteration of the logbook download loop, lines 298-376: read one packet,
apply the full-ringbuffer fix-up, scan the new entries. Gives the new state
and the `abort` flag. -/
def logbook_page (env : Env) (layout : oceanic_common_layout_t) (multipage : Nat)
    (fingerprint : List Nat) (w : Window) (progress_maximum scanfuel : Nat)
    (s : LogState) : Step (LogState × Bool) :=
  -- Handle the ringbuffer wrap point.
  let address := wrap_point layout.rb_logbook_begin layout.rb_logbook_end s.address
  -- Calculate the optimal packet size.
  let len := packet_size layout.rb_logbook_begin multipage address s.nbytes w.page_size
  -- Move to the start of the current page.
  let address := usub address len
  let offset := usub s.offset len
  -- Read the logbook page.
  let (rc, data) := env.device_read s.trace address len
  let trace := s.trace ++ [Event.read address len]
  if rc ≠ SUCCESS then Step.stop ⟨Outcome.returned rc, trace⟩
  else if ¬ s.logbooks.writable offset len then Step.stop ⟨Outcome.fault, trace⟩
  else
    let logbooks := s.logbooks.fill offset len data
    -- Update and emit a progress event.
    let progress_current := u32 (s.progress_current + len)
    let trace := trace ++ [Event.progress progress_current progress_maximum]
    -- The special treatment of a full, unaligned ringbuffer.
    match logbook_fixup w logbooks s.nbytes len offset with
    | none => Step.stop ⟨Outcome.fault, trace⟩
    | some (logbooks, offset) =>
      let nbytes := u32 (s.nbytes + len)
      -- Process the logbook entries.
      match scan_entries logbooks fingerprint offset scanfuel s.current s.begin_ with
      | none => Step.stop ⟨Outcome.fault, trace⟩
      | some none => Step.stop ⟨Outcome.diverge, trace⟩
      | some (some (current, begin_, abort)) =>
        Step.next
          ({ logbooks := logbooks, begin_ := begin_, nbytes := nbytes, current := current,
             offset := offset, address := address, progress_current := progress_current,
             trace := trace }, abort)

/-- The logbook download loop, lines 297-377: `while (nbytes < page_size)`, left
early when the scan sets `abort`. The scan of every iteration gets the fuel
`scanfuel`. -/
def logbook_loop (env : Env) (layout : oceanic_common_layout_t) (multipage : Nat)
    (fingerprint : List Nat) (w : Window) (progress_maximum scanfuel : Nat) :
    Nat → LogState → Step LogState
  | fuel, s =>
    if ¬ (s.nbytes < w.page_size) then Step.next s
    else match fuel with
      | 0 => Step.stop ⟨Outcome.diverge, s.trace⟩
      | fuel + 1 =>
        match logbook_page env layout multipage fingerprint w progress_maximum scanfuel s with
        | Step.stop r => Step.stop r
        | Step.next (s, abort) =>
          if abort then Step.next s
          else logbook_loop env layout multipage fingerprint w progress_maximum scanfuel fuel s

/-- The variables of the profile download loop (lines 403-496). -/
structure ProfState where
  profiles : Buffer
  remaining : Nat
  available : Nat
  previous : Nat
  current : Nat
  offset : Nat
  address : Nat
  progress_current : Nat
  trace : List Event

/-- The variables of the packet loop of one dive (lines 446-476). -/
structure ReadState where
  profiles : Buffer
  nbytes : Nat
  offset : Nat
  address : Nat
  progress_current : Nat
  trace : List Event

/-- The packet loop of one dive, lines 447-476:
`while (nbytes < rb_entry_size)` read one more packet backwards. -/
def profile_read (env : Env) (layout : oceanic_common_layout_t) (multipage : Nat)
    (progress_maximum remaining rb_entry_size : Nat) : Nat → ReadState → Step ReadState
  | fuel, s =>
    if ¬ (s.nbytes < rb_entry_size) then Step.next s
    else match fuel with
      | 0 => Step.stop ⟨Outcome.diverge, s.trace⟩
      | fuel + 1 =>
        -- Handle the ringbuffer wrap point.
        let address := wrap_point layout.rb_profile_begin layout.rb_profile_end s.address
        -- Calculate the optimal packet size.
        let len := packet_size layout.rb_profile_begin multipage address s.nbytes remaining
        -- Move to the start of the current page.
        let address := usub address len
        let offset := usub s.offset len
        -- Read the profile page.
        let (rc, data) := env.device_read s.trace address len
        let trace := s.trace ++ [Event.read address len]
        if rc ≠ SUCCESS then Step.stop ⟨Outcome.returned rc, trace⟩
        else if ¬ s.profiles.writable offset len then Step.stop ⟨Outcome.fault, trace⟩
        else
          let profiles := s.profiles.fill offset len data
          -- Update and emit a progress event.
          let progress_current := u32 (s.progress_current + len)
          let trace := trace ++ [Event.progress progress_current progress_maximum]
          profile_read env layout multipage progress_maximum remaining rb_entry_size fuel
            { profiles := profiles, nbytes := u32 (s.nbytes + len), offset := offset,
              address := address, progress_current := progress_current, trace := trace }

/-- The end of one iteration of the profile download loop, lines 478-495: after
the packets of the dive have been read (state `r`), prepend the logbook entry
at `current` to the profile data and hand the dive to the callback. Gives the
new state and whether the callback asked to stop. -/
def profile_deliver (env : Env) (logbooks : Buffer)
    (current rb_entry_first rb_entry_size : Nat) (s : ProfState) (r : ReadState) :
    Step (ProfState × Bool) :=
  let available := usub r.nbytes rb_entry_size
  let remaining := usub s.remaining rb_entry_size
  let previous := rb_entry_first
  -- Prepend the logbook entry to the profile data.
  if available ≠ 0 ∧
      (r.offset < PAGESIZE / 2 ∨
       ¬ r.profiles.writable (r.offset - PAGESIZE / 2) available ∨
       ¬ r.profiles.writable r.offset available) then
    Step.stop ⟨Outcome.fault, r.trace⟩
  else
    let profiles :=
      if available ≠ 0 then r.profiles.memmove (r.offset - PAGESIZE / 2) r.offset available
      else r.profiles
    let offset := usub r.offset (PAGESIZE / 2)
    if ¬ profiles.writable (offset + available) (PAGESIZE / 2) then
      Step.stop ⟨Outcome.fault, r.trace⟩
    else
      let profiles :=
        profiles.store (offset + available) (PAGESIZE / 2) (fun i => logbooks.cell (current + i))
      let s1 : ProfState :=
        { profiles := profiles, remaining := remaining, available := available,
          previous := previous, current := current, offset := offset,
          address := r.address, progress_current := r.progress_current,
          trace := r.trace }
      match env.callback with
      | none => Step.next (s1, false)
      | some callback =>
        let size := u32 (rb_entry_size + PAGESIZE / 2)
        if ¬ profiles.readable (offset + available) size then
          Step.stop ⟨Outcome.fault, r.trace⟩
        else
          let data := profiles.load (offset + available) size
          let fp := profiles.load (offset + available) (PAGESIZE / 2)
          let trace := r.trace ++ [Event.dive data fp]
          Step.next ({ s1 with trace := trace }, ! callback r.trace data fp)

/-- One iteration of the profile download loop, lines 420-495, for the logbook
entry in front of `current`. Gives the new state and whether the callback asked
to stop. -/
def profile_dive (env : Env) (layout : oceanic_common_layout_t) (multipage : Nat)
    (logbooks : Buffer) (progress_maximum readfuel : Nat) (s : ProfState) :
    Step (ProfState × Bool) :=
  -- Move to the start of the current entry.
  let current := usub s.current (PAGESIZE / 2)
  -- Get the profile pointers.
  if ¬ logbooks.readable current (PAGESIZE / 2) then Step.stop ⟨Outcome.fault, s.trace⟩
  else
    let entry := logbooks.load current (PAGESIZE / 2)
    let rb_entry_first := get_profile_first entry layout
    let rb_entry_last := get_profile_last entry layout
    let rb_entry_end := RB_PROFILE_INCR rb_entry_last PAGESIZE layout
    let rb_entry_size := u32 (RB_PROFILE_DISTANCE rb_entry_first rb_entry_last layout + PAGESIZE)
    if ¬ (ringbuffer_defined rb_entry_first layout.rb_profile_begin layout.rb_profile_end ∧
        ringbuffer_defined rb_entry_last layout.rb_profile_begin layout.rb_profile_end) then
      Step.stop ⟨Outcome.fault, s.trace⟩
    -- Make sure the profiles are continuous.
    else if rb_entry_end ≠ s.previous then Step.stop ⟨Outcome.returned ERROR, s.trace⟩
    -- Make sure the profile size is valid.
    else if rb_entry_size > s.remaining then Step.stop ⟨Outcome.returned ERROR, s.trace⟩
    else
      -- Read the profile data.
      match profile_read env layout multipage progress_maximum s.remaining rb_entry_size readfuel
          { profiles := s.profiles, nbytes := s.available, offset := s.offset,
            address := s.address, progress_current := s.progress_current,
            trace := s.trace } with
      | Step.stop r => Step.stop r
      | Step.next r =>
        profile_deliver env logbooks current rb_entry_first rb_entry_size s r

/-- The profile download loop, lines 419-496: `while (current != begin)`. When
the callback asks to stop the function returns `SUCCESS`. -/
def profile_loop (env : Env) (layout : oceanic_common_layout_t) (multipage : Nat)
    (logbooks : Buffer) (begin_ progress_maximum readfuel : Nat) :
    Nat → ProfState → Step ProfState
  | fuel, s =>
    if ¬ (s.current ≠ begin_) then Step.next s
    else match fuel with
      | 0 => Step.stop ⟨Outcome.diverge, s.trace⟩
      | fuel + 1 =>
        match profile_dive env layout multipage logbooks progress_maximum readfuel s with
        | Step.stop r => Step.stop r
        | Step.next (s, stop) =>
          if stop then Step.stop ⟨Outcome.returned SUCCESS, s.trace⟩
          else profile_loop env layout multipage logbooks begin_ progress_maximum readfuel fuel s

/-- The bytes a successful `device_read` leaves in a local array of `n` bytes. -/
def local_array (n : Nat) (data : List Nat) : List Nat :=
  (List.range n).map (fun i => data.getD i 0 % 256)

/-- What the first part of `oceanic_common_device_foreach` hands on: the two
logbook pointers, the progress counter and the trace so far. -/
structure Header where
  rb_logbook_first : Nat
  rb_logbook_last : Nat
  progress_current : Nat
  trace : List Event

/-- The value of `progress.maximum` set at line 169. -/
def progress_maximum_initial (layout : oceanic_common_layout_t) : Nat :=
  u32 (u32 (2 * PAGESIZE + usub layout.rb_profile_end layout.rb_profile_begin)
    + usub layout.rb_logbook_end layout.rb_logbook_begin)

/-- Lines 167-206 of `oceanic_common_device_foreach`: read the device id and the
pointers page and get the two logbook pointers. The progress counter starts at
zero (`DEVICE_PROGRESS_INITIALIZER`). -/
def foreach_header (env : Env) (layout : oceanic_common_layout_t) : Step Header :=
  -- Enable progress notifications.
  let progress_current := 0
  let progress_maximum := progress_maximum_initial layout
  let trace := [Event.progress progress_current progress_maximum]
  -- Read the device id.
  let (rc, data) := env.device_read trace layout.cf_devinfo PAGESIZE
  let trace := trace ++ [Event.read layout.cf_devinfo PAGESIZE]
  if rc ≠ SUCCESS then Step.stop ⟨Outcome.returned rc, trace⟩
  else
    let id := local_array PAGESIZE data
    -- Update and emit a progress event.
    let progress_current := u32 (progress_current + PAGESIZE)
    let trace := trace ++ [Event.progress progress_current progress_maximum]
    -- Emit a device info event.
    let model := array_uint16_be (id.drop 8)
    let serial :=
      if layout.pt_mode_global = 0 then
        u32 (env.bcd2dec (id.getD 10 0) * 10000 + env.bcd2dec (id.getD 11 0) * 100
          + env.bcd2dec (id.getD 12 0))
      else u32 (id.getD 11 0 * 10000 + id.getD 12 0 * 100 + id.getD 13 0)
    let trace := trace ++ [Event.devinfo model 0 serial]
    -- Read the pointer data.
    let (rc, data) := env.device_read trace layout.cf_pointers PAGESIZE
    let trace := trace ++ [Event.read layout.cf_pointers PAGESIZE]
    if rc ≠ SUCCESS then Step.stop ⟨Outcome.returned rc, trace⟩
    else
      let pointers := local_array PAGESIZE data
      -- Get the logbook pointers.
      Step.next
        { rb_logbook_first := array_uint16_le (pointers.drop 4)
          rb_logbook_last := array_uint16_le (pointers.drop 6)
          progress_current := progress_current
          trace := trace }

/-- The position of the first valid entry in the fresh logbook buffer (lines
281-286). -/
def window_begin (w : Window) : Nat :=
  if ¬ w.full then u32 (0 + usub w.entry_begin w.page_begin) else 0

/-- The position behind the last valid entry in the logbook buffer (lines
282-286). -/
def window_end (w : Window) : Nat :=
  if ¬ w.full then usub w.page_size (usub w.page_end w.entry_end) else w.page_size

/-- The value of `progress.maximum` set at line 267. -/
def progress_maximum_logbook (layout : oceanic_common_layout_t) (w : Window) : Nat :=
  u32 (u32 (2 * PAGESIZE + usub layout.rb_profile_end layout.rb_profile_begin) + w.page_size)

/-- Lines 208-377 of `oceanic_common_device_foreach`: compute the page window,
allocate the logbook buffer and download the logbook ringbuffer backwards. -/
def foreach_logbooks (env : Env) (device : oceanic_common_device_t)
    (layout : oceanic_common_layout_t) (fuel : Nat) (h : Header) : Step LogState :=
  -- Convert to begin/end/count pointers and align to page boundaries.
  let w := logbook_window layout h.rb_logbook_first h.rb_logbook_last
  -- Update and emit a progress event.
  let progress_current := u32 (h.progress_current + PAGESIZE)
  let progress_maximum := progress_maximum_logbook layout w
  let trace := h.trace ++ [Event.progress progress_current progress_maximum]
  -- Memory buffer for the logbook entries.
  if ¬ env.malloc_ok w.page_size then Step.stop ⟨Outcome.returned MEMORY, trace⟩
  else
    logbook_loop env layout device.multipage device.fingerprint w progress_maximum fuel fuel
      { logbooks := Buffer.malloc w.page_size, begin_ := window_begin w, nbytes := 0,
        current := window_end w, offset := w.page_size, address := w.page_end,
        progress_current := progress_current, trace := trace }

/-- What the profile download loop starts with: the value of `progress.maximum`
set at line 394 and the variables of the loop. -/
structure ProfStart where
  progress_maximum : Nat
  state : ProfState

/-- Lines 379-418 of `oceanic_common_device_foreach`: with the logbook entries in
`[begin, end)` of the linear buffer, leave when there are no dives, otherwise
calculate the total amount of profile bytes from the pointers in the first and
last logbook entry and allocate the profile buffer. -/
def profile_start (env : Env) (layout : oceanic_common_layout_t) (end_ : Nat) (s : LogState) :
    Step ProfStart :=
  -- Exit if there are no (new) dives.
  if s.begin_ = end_ then Step.stop ⟨Outcome.returned SUCCESS, s.trace⟩
  else if ¬ s.logbooks.readable s.begin_ (PAGESIZE / 2) ∨ end_ < PAGESIZE / 2 ∨
      ¬ s.logbooks.readable (end_ - PAGESIZE / 2) (PAGESIZE / 2) then
    Step.stop ⟨Outcome.fault, s.trace⟩
  else
    -- Calculate the total amount of bytes in the profile ringbuffer.
    let rb_profile_first := get_profile_first (s.logbooks.load s.begin_ (PAGESIZE / 2)) layout
    let rb_profile_last :=
      get_profile_last (s.logbooks.load (end_ - PAGESIZE / 2) (PAGESIZE / 2)) layout
    let rb_profile_end := RB_PROFILE_INCR rb_profile_last PAGESIZE layout
    let rb_profile_size :=
      u32 (RB_PROFILE_DISTANCE rb_profile_first rb_profile_last layout + PAGESIZE)
    let progress_maximum := u32 (s.progress_current + rb_profile_size)
    -- Memory buffer for the profile data.
    let total := u32 (rb_profile_size + usub end_ s.begin_)
    if ¬ (ringbuffer_defined rb_profile_first layout.rb_profile_begin layout.rb_profile_end ∧
        ringbuffer_defined rb_profile_last layout.rb_profile_begin layout.rb_profile_end) then
      Step.stop ⟨Outcome.fault, s.trace⟩
    else if ¬ env.malloc_ok total then Step.stop ⟨Outcome.returned MEMORY, s.trace⟩
    else
      Step.next
        { progress_maximum := progress_maximum
          state :=
            { profiles := Buffer.malloc total, remaining := rb_profile_size, available := 0,
              previous := rb_profile_end, current := end_, offset := total,
              address := rb_profile_end, progress_current := s.progress_current,
              trace := s.trace } }

/-- Lines 379-501 of `oceanic_common_device_foreach`: with the logbook entries in
`[begin, end)` of the linear buffer, download the profiles backwards and hand
every dive to the callback. -/
def foreach_profiles (env : Env) (device : oceanic_common_device_t)
    (layout : oceanic_common_layout_t) (fuel end_ : Nat) (s : LogState) : Run :=
  match profile_start env layout end_ s with
  | Step.stop r => r
  | Step.next p =>
    match profile_loop env layout device.multipage s.logbooks s.begin_ p.progress_maximum
        fuel fuel p.state with
    | Step.stop r => r
    | Step.next s => ⟨Outcome.returned SUCCESS, s.trace⟩

/-- `oceanic_common_device_foreach (abstract, callback, userdata)`. The callback
and the transport are in `env`; `fuel` bounds the number of iterations of every
loop. A device without layout fails the assertion at line 163. -/
def oceanic_common_device_foreach (env : Env) (device : oceanic_common_device_t)
    (fuel : Nat) : Run :=
  match device.layout with
  | none => ⟨Outcome.fault, []⟩
  | some layout =>
    match foreach_header env layout with
    | Step.stop r => r
    | Step.next h =>
      match foreach_logbooks env device layout fuel h with
      | Step.stop r => r
      | Step.next s =>
        foreach_profiles env device layout fuel
          (window_end (logbook_window layout h.rb_logbook_first h.rb_logbook_last)) s

/-- The layout `oceanic_vtpro_layout` of `oceanic_vtpro.c`. -/
def oceanic_vtpro_layout : oceanic_common_layout_t :=
  { memsize := 0x8000
    cf_devinfo := 0x0000
    cf_pointers := 0x0040
    rb_logbook_begin := 0x0240
    rb_logbook_end := 0x0440
    rb_profile_begin := 0x0440
    rb_profile_end := 0x8000
    pt_mode_global := 0
    pt_mode_logbook := 0 }

/-- The layout `oceanic_wisdom_layout` of `oceanic_vtpro.c`. -/
def oceanic_wisdom_layout : oceanic_common_layout_t :=
  { memsize := 0x8000
    cf_devinfo := 0x0000
    cf_pointers := 0x0040
    rb_logbook_begin := 0x03D0
    rb_logbook_end := 0x05D0
    rb_profile_begin := 0x05D0
    rb_profile_end := 0x8000
    pt_mode_global := 0
    pt_mode_logbook := 0 }

/-- `#define MULTIPAGE 4` of `oceanic_vtpro.c`. -/
def MULTIPAGE : Nat := 4

/-- A transport that serves the fixed memory image `M`: every read succeeds and
gives the bytes at `address, address + 1, ...`. -/
def image_read (M : Nat → Nat) : List Event → Nat → Nat → device_status_t × List Nat :=
  fun _ address size => (SUCCESS, (List.range size).map (fun i => M (address + i)))

/-- The collaborators of a run against the memory image `M` with the given
callback; every allocation succeeds. -/
def image_env (M : Nat → Nat) (callback : Option (List Event → List Nat → List Nat → Bool)) :
    Env :=
  { device_read := image_read M
    callback := callback
    malloc_ok := fun _ => true
    bcd2dec := fun x => (x >>> 4) * 10 + (x &&& 0x0F) }

/-- An Oceanic VTPro device, as `oceanic_vtpro_device_open` leaves it, with the
given stored fingerprint. -/
def vtpro_device (fingerprint : List Nat) : oceanic_common_device_t :=
  { base := { backend := 0 }
    fingerprint := fingerprint
    layout := some oceanic_vtpro_layout
    multipage := MULTIPAGE }

/-! ## A small memory image -/

/-- A small layout in the style of `oceanic_vtpro_layout`: a logbook ring of four
entries at `[0x20, 0x40)` and a profile ring at `[0x40, 0x100)`. -/
def sample_layout : oceanic_common_layout_t :=
  { memsize := 0x100
    cf_devinfo := 0x00
    cf_pointers := 0x10
    rb_logbook_begin := 0x20
    rb_logbook_end := 0x40
    rb_profile_begin := 0x40
    rb_profile_end := 0x100
    pt_mode_global := 0
    pt_mode_logbook := 0 }

/-- The first 64 bytes of `sample_image`: the device-info page, the pointers page
(`first = 0x28`, `last = 0x20`: a full logbook ring that is not page-aligned)
and four logbook entries. In time order the dives are `A0` (profile pages 4-5),
`A1` (page 6), `A2` (pages 7-9) and `A3` (pages 10-11); the newest entry `A3`
sits at `0x20`, the oldest entry `A0` at `0x28`. -/
def sample_header : List Nat :=
  [0x00, 0x00, 0x00, 0x00, 0x00, 0x00, 0x00, 0x00, 0x12, 0x34, 0x01, 0x02, 0x03, 0x00, 0x00, 0x00,
   0x00, 0x00, 0x00, 0x00, 0x28, 0x00, 0x20, 0x00, 0x00, 0x00, 0x00, 0x00, 0x00, 0x00, 0x00, 0x00,
   0xA3, 0x01, 0x02, 0x03, 0x04, 0x0A, 0xB0, 0x00, 0xA0, 0x01, 0x02, 0x03, 0x04, 0x04, 0x50, 0x00,
   0xA1, 0x01, 0x02, 0x03, 0x04, 0x06, 0x60, 0x00, 0xA2, 0x01, 0x02, 0x03, 0x04, 0x07, 0x90, 0x00]

/-- A memory image for `sample_layout`: `sample_header`, then a profile ring in
which every byte holds its own address. -/
def sample_image (address : Nat) : Nat :=
  if address < 0x40 then sample_header.getD address 0 else address

/-- A device with `sample_layout`, the given stored fingerprint and multipage
factor. -/
def sample_device (fingerprint : List Nat) (multipage : Nat) : oceanic_common_device_t :=
  { base := { backend := 0 }
    fingerprint := fingerprint
    layout := some sample_layout
    multipage := multipage }

/-- A callback that always asks for more dives. -/
def accept_all : Option (List Event → List Nat → List Nat → Bool) :=
  some (fun _ _ _ => true)

/-! ## Well-formed layouts and read requests -/

/-- A well-formed layout and multipage factor: the addresses of the two header pages and the ring bounds are multiples of `PAGESIZE`, both rings are non-empty, `multipage ≥ 1`, and all sizes are at most `2^30`, so that no `unsigned int` computation of the engine wraps around. -/
structure LayoutOk (l : oceanic_common_layout_t) (multipage : Nat) : Prop where
  devinfo : l.cf_devinfo % PAGESIZE = 0
  pointers : l.cf_pointers % PAGESIZE = 0
  lb : l.rb_logbook_begin % PAGESIZE = 0
  le : l.rb_logbook_end % PAGESIZE = 0
  pb : l.rb_profile_begin % PAGESIZE = 0
  pe : l.rb_profile_end % PAGESIZE = 0
  logbook : l.rb_logbook_begin < l.rb_logbook_end
  profile : l.rb_profile_begin < l.rb_profile_end
  mp1 : 1 ≤ multipage
  le32 : l.rb_logbook_end ≤ 1073741824
  pe32 : l.rb_profile_end ≤ 1073741824
  mp32 : PAGESIZE * multipage ≤ 1073741824

/-- What is asked of a `device_read` request `(address, size)`: address and size are multiples of `PAGESIZE`, the size is non-zero and at most `PAGESIZE * multipage`, and the request is one of the two header pages or lies inside the logbook ring or inside the profile ring. -/
def ReadOk (l : oceanic_common_layout_t) (multipage : Nat) (r : Nat × Nat) : Prop :=
  r.1 % PAGESIZE = 0 ∧ r.2 % PAGESIZE = 0 ∧ 0 < r.2 ∧ r.2 ≤ PAGESIZE * multipage ∧
  (r = (l.cf_devinfo, PAGESIZE) ∨ r = (l.cf_pointers, PAGESIZE) ∨
   (l.rb_logbook_begin ≤ r.1 ∧ r.1 + r.2 ≤ l.rb_logbook_end) ∨
   (l.rb_profile_begin ≤ r.1 ∧ r.1 + r.2 ≤ l.rb_profile_end))

/-- Every `device_read` request of a trace satisfies `P`. -/
def AllReads (P : Nat × Nat → Prop) (t : List Event) : Prop := ∀ r ∈ reads t, P r

/-- The address invariant of the logbook download loop. -/
structure LogAddrInv (l : oceanic_common_layout_t) (w : Window) (s : LogState) : Prop where
  addr_al : s.address % PAGESIZE = 0
  addr_lo : l.rb_logbook_begin ≤ s.address
  addr_hi : s.address ≤ l.rb_logbook_end
  nb_al : s.nbytes % PAGESIZE = 0
  nb_le : s.nbytes ≤ w.page_size

/-- The address invariant of the packet loop of one dive. -/
structure ReadAddrInv (l : oceanic_common_layout_t) (remaining : Nat) (s : ReadState) : Prop where
  addr_al : s.address % PAGESIZE = 0
  addr_lo : l.rb_profile_begin ≤ s.address
  addr_hi : s.address ≤ l.rb_profile_end
  nb_al : s.nbytes % PAGESIZE = 0
  nb_le : s.nbytes ≤ remaining

/-- The address invariant of the profile download loop. -/
structure ProfAddrInv (l : oceanic_common_layout_t) (s : ProfState) : Prop where
  addr_al : s.address % PAGESIZE = 0
  addr_lo : l.rb_profile_begin ≤ s.address
  addr_hi : s.address ≤ l.rb_profile_end
  rem_al : s.remaining % PAGESIZE = 0
  rem_32 : s.remaining ≤ 1073741824 + 64
  av_al : s.available % PAGESIZE = 0
  av_le : s.available ≤ s.remaining

/-! ## Blocks handed to the callback -/

/-- The address `x` of a walk through the ring `[lo, hi)`, taken back into the ring once. -/
def ring_wrap (lo hi x : Nat) : Nat := if x < hi then x else x - (hi - lo)

/-- The content invariant of the packet loop of one dive: the `nbytes` bytes at `offset` are the ring bytes from `address` on, and they end at `prev`. -/
structure ReadInv (M : Nat → Nat) (l : oceanic_common_layout_t) (remaining prev : Nat)
    (r : ReadState) : Prop where
  addr_lo : l.rb_profile_begin ≤ r.address
  addr_hi : r.address < l.rb_profile_end
  nb_le : r.nbytes ≤ remaining
  off32 : r.offset < 4294967296
  size32 : r.profiles.size < 4294967296
  link : r.address + r.nbytes = prev ∨
    r.address + r.nbytes = prev + (l.rb_profile_end - l.rb_profile_begin)
  cont : ∀ j < r.nbytes, r.profiles.cell (r.offset + j)
    = some (M (ring_wrap l.rb_profile_begin l.rb_profile_end (r.address + j)) % 256)

/-- Every callback invocation of a trace satisfies `P`. -/
def AllDives (P : List Nat × List Nat → Prop) (t : List Event) : Prop := ∀ d ∈ dives t, P d

/-- What is asked of a block `(data, fingerprint)` handed to the callback: there is a logbook entry of `PAGESIZE / 2` bytes with profile pointers inside the profile ring such that the fingerprint is the entry and the data are the entry followed by the `distance (first, last) + PAGESIZE` bytes of the image `M` at the ring addresses `first, first + 1, ...`, taken modulo the profile ring. -/
def DiveOk (M : Nat → Nat) (l : oceanic_common_layout_t) (d : List Nat × List Nat) : Prop :=
  ∃ entry : List Nat, entry.length = PAGESIZE / 2 ∧ d.2 = entry ∧
    ringbuffer_defined (get_profile_first entry l) l.rb_profile_begin l.rb_profile_end = true ∧
    ringbuffer_defined (get_profile_last entry l) l.rb_profile_begin l.rb_profile_end = true ∧
    d.1 = entry ++ (List.range (ringbuffer_distance (get_profile_first entry l)
        (get_profile_last entry l) false l.rb_profile_begin l.rb_profile_end + PAGESIZE)).map
      (fun j => M (ringbuffer_increment (get_profile_first entry l) j
        l.rb_profile_begin l.rb_profile_end) % 256)

/-- The content invariant of the profile download loop: the `available` bytes at `offset` are the ring bytes from `address` on, and they end at `previous`. -/
structure ProfInv (M : Nat → Nat) (l : oceanic_common_layout_t) (s : ProfState) : Prop where
  addr_lo : l.rb_profile_begin ≤ s.address
  addr_hi : s.address < l.rb_profile_end
  rem_le : s.remaining ≤ l.rb_profile_end - l.rb_profile_begin
  av_le : s.available ≤ s.remaining
  off32 : s.offset < 4294967296
  size32 : s.profiles.size < 4294967296
  prev_lo : l.rb_profile_begin ≤ s.previous
  prev_hi : s.previous < l.rb_profile_end
  link : s.address + s.available = s.previous ∨
    s.address + s.available = s.previous + (l.rb_profile_end - l.rb_profile_begin)
  cont : ∀ j < s.available, s.profiles.cell (s.offset + j)
    = some (M (ring_wrap l.rb_profile_begin l.rb_profile_end (s.address + j)) % 256)

/-! ## Profile continuity -/

/-- The state of the profile download loop after `k` complete iterations, each of
which ended with the callback asking for more; `none` when the loop has
ended before. -/
def profile_steps (env : Env) (layout : oceanic_common_layout_t) (multipage : Nat)
    (logbooks : Buffer) (begin_ progress_maximum readfuel : Nat) :
    Nat → ProfState → Option ProfState
  | 0, s => some s
  | k + 1, s =>
    if s.current = begin_ then none
    else match profile_dive env layout multipage logbooks progress_maximum readfuel s with
      | Step.next (s', false) =>
        profile_steps env layout multipage logbooks begin_ progress_maximum readfuel k s'
      | _ => none

/-- The logbook state and the state of the profile download loop of a run of
`oceanic_common_device_foreach` after `k` complete iterations of the profile
loop; `none` when the run has ended before. -/
def foreach_profile_state (env : Env) (device : oceanic_common_device_t) (fuel k : Nat) :
    Option (LogState × ProfState) :=
  match device.layout with
  | none => none
  | some layout =>
    match foreach_header env layout with
    | Step.stop _ => none
    | Step.next h =>
      match foreach_logbooks env device layout fuel h with
      | Step.stop _ => none
      | Step.next s =>
        match profile_start env layout
            (window_end (logbook_window layout h.rb_logbook_first h.rb_logbook_last)) s with
        | Step.stop _ => none
        | Step.next p =>
          match profile_steps env layout device.multipage s.logbooks s.begin_
              p.progress_maximum fuel k p.state with
          | none => none
          | some st => some (s, st)

/-- Whether the checks of lines 429-443 reject the logbook entry in front of
`current`: the entry can be read and its pointers lie in the profile ring, but
the profiles are not continuous or the profile size exceeds the remaining
bytes. -/
def entry_rejected (layout : oceanic_common_layout_t) (logbooks : Buffer) (begin_ : Nat)
    (s : ProfState) : Bool :=
  let current := usub s.current (PAGESIZE / 2)
  let entry := logbooks.load current (PAGESIZE / 2)
  let rb_entry_first := get_profile_first entry layout
  let rb_entry_last := get_profile_last entry layout
  decide (s.current ≠ begin_) && logbooks.readable current (PAGESIZE / 2) &&
  ringbuffer_defined rb_entry_first layout.rb_profile_begin layout.rb_profile_end &&
  ringbuffer_defined rb_entry_last layout.rb_profile_begin layout.rb_profile_end &&
  (decide (RB_PROFILE_INCR rb_entry_last PAGESIZE layout ≠ s.previous) ||
   decide (u32 (RB_PROFILE_DISTANCE rb_entry_first rb_entry_last layout + PAGESIZE)
      > s.remaining))

/-- The dives of a list are continuous, starting at the address `previous`: the
end `increment (entry_last, PAGESIZE)` of every dive is the start of the dive
delivered before it, and `previous` for the first one. The entry of a dive is
its fingerprint argument. -/
inductive DiveChain (layout : oceanic_common_layout_t) :
    Nat → List (List Nat × List Nat) → Prop
  | nil (previous : Nat) : DiveChain layout previous []
  | cons (previous : Nat) (d : List Nat × List Nat) (ds : List (List Nat × List Nat)) :
    RB_PROFILE_INCR (get_profile_last d.2 layout) PAGESIZE layout = previous →
    DiveChain layout (get_profile_first d.2 layout) ds →
    DiveChain layout previous (d :: ds)

/-- The start address of the last dive of a continuous list that starts at
`previous`. -/
def chain_end (layout : oceanic_common_layout_t) : Nat → List (List Nat × List Nat) → Nat
  | previous, [] => previous
  | _, d :: ds => chain_end layout (get_profile_first d.2 layout) ds

/-- The chain invariant of the profile loop. -/
def ChainInv (env : Env) (l : oceanic_common_layout_t) (prev0 : Nat) (s : ProfState) : Prop :=
  (env.callback = none → dives s.trace = []) ∧
  (env.callback ≠ none →
    DiveChain l prev0 (dives s.trace) ∧ chain_end l prev0 (dives s.trace) = s.previous)

/-- The trace of a step, whether it goes on or ends the run. -/
def Step.trace_of {σ : Type} (f : σ → List Event) : Step σ → List Event
  | Step.stop r => r.trace
  | Step.next s => f s

/-- The value of `rb_profile_end` (line 388) in a run of
`oceanic_common_device_foreach`, the address the newest profile ends at; `none`
when the run ends before the profile loop. -/
def profile_end_addr (env : Env) (device : oceanic_common_device_t) (fuel : Nat) : Option Nat :=
  (foreach_profile_state env device fuel 0).map (fun p => p.2.previous)

/-- Whether a run of `oceanic_common_device_foreach` completes `k` iterations of
the profile loop and the checks of lines 429-443 then reject the next entry. -/
def foreach_rejects (env : Env) (device : oceanic_common_device_t) (fuel k : Nat) : Bool :=
  match device.layout, foreach_profile_state env device fuel k with
  | some layout, some (sl, s) => entry_rejected layout sl.logbooks sl.begin_ s
  | _, _ => false

/-- `sample_image` with a profile chain that is broken at the entry `A1`: the
last pointer of `A1` is page 5 instead of page 6. -/
def broken_image (address : Nat) : Nat :=
  if address = 0x36 then 0x50 else sample_image address

/-! ## The logbook entries of the image -/

/-- The ring address that belongs to index 0 of the logbook buffer: buffer index
`i` holds the byte at `logbook_base + i`, taken back into the ring. -/
def logbook_base (l : oceanic_common_layout_t) (w : Window) : Nat :=
  if w.full then w.entry_end
  else w.page_end + (l.rb_logbook_end - l.rb_logbook_begin) - w.page_size

/-- The facts about the page window of logbook pointers that lie inside the ring
and are multiples of `PAGESIZE / 2`. -/
structure WindowOk (l : oceanic_common_layout_t) (w : Window) : Prop where
  ee_le : w.entry_end ≤ w.page_end
  pad : w.page_end - w.entry_end = 0 ∨ w.page_end - w.entry_end = 8
  pe16 : w.page_end % 16 = 0
  e_lo : l.rb_logbook_begin ≤ w.entry_end
  e_hi : w.entry_end < l.rb_logbook_end
  e8 : w.entry_end % 8 = 0
  d_lo : 8 ≤ w.entry_size
  d8 : w.entry_size % 8 = 0
  d_hi : w.entry_size ≤ l.rb_logbook_end - l.rb_logbook_begin
  full : w.full = true ↔ w.entry_size = l.rb_logbook_end - l.rb_logbook_begin
  unal : w.unaligned = true ↔ w.page_end - w.entry_end ≠ 0
  wend : window_end w = window_begin w + w.entry_size
  wbeg : window_begin w = 0 ∨ window_begin w = 8
  wbeg_full : w.entry_size = l.rb_logbook_end - l.rb_logbook_begin → window_begin w = 0
  ps : w.page_size = window_begin w + w.entry_size +
    (if w.entry_size = l.rb_logbook_end - l.rb_logbook_begin then 0
     else w.page_end - w.entry_end)
  ps_le : w.page_size ≤ l.rb_logbook_end - l.rb_logbook_begin
  ps16 : w.page_size % 16 = 0

/-- The two logbook pointers `(first, last)` that the header part of
`oceanic_common_device_foreach` decodes from the pointers page of the memory
image `M` (lines 197-206). -/
def image_pointers (M : Nat → Nat) (layout : oceanic_common_layout_t) : Nat × Nat :=
  let pointers := local_array PAGESIZE (image_read M [] layout.cf_pointers PAGESIZE).2
  (array_uint16_le (pointers.drop 4), array_uint16_le (pointers.drop 6))

/-! ## The serial port and the VTPro transport (`oceanic_vtpro.c`) -/

/-- `#define MAXRETRIES 2` of `oceanic_vtpro.c` and `suunto_common2.c`. -/
def MAXRETRIES : Nat := 2

/-- `#define ACK 0x5A` of `oceanic_vtpro.c`. -/
def ACK : Nat := 0x5A

/-- `#define NAK 0xA5` of `oceanic_vtpro.c`. -/
def NAK : Nat := 0xA5

/-- `#define END 0x51` of `oceanic_vtpro.c`. -/
def END : Nat := 0x51

/-- The macro `EXITCODE (rc)` of `oceanic_vtpro.c`: `-1` is an I/O error, every
other return value of a serial call that did not transfer all bytes is a
timeout. -/
def EXITCODE (rc : Int) : device_status_t := if rc = -1 then IO_ERROR else TIMEOUT

/-- The value of an `int` after the conversion to `unsigned int` that the
comparison with an `unsigned int` applies. -/
def to_unsigned (n : Int) : Nat := (n % 4294967296).toNat

/-- What a serial backend does to the port, in order: `serial_write` calls with
the bytes offered and `serial_read` calls with the number of bytes asked for. -/
inductive SerialEvent
  | write (data : List Nat)
  | read (size : Nat)
  deriving DecidableEq, Repr

/-- The collaborators of a serial backend (`serial.c` and `device.c` are not
among the sources). Each may depend on everything that happened before (the
trace so far). `serial_write trace data` is the return value of
`serial_write`; `serial_read trace size` is the return value of `serial_read`
and the bytes received; `cancelled trace` is `device_is_cancelled`. -/
structure Port where
  serial_write : List SerialEvent → List Nat → Int
  serial_read : List SerialEvent → Nat → Int × List Nat
  cancelled : List SerialEvent → Bool

/-- The content of the byte array `buf` after `serial_read (port, buf, size)`
returned `n` with the bytes `data`: the first `n` bytes, at most `size`, are
replaced. -/
def received (buf : List Nat) (size : Nat) (n : Int) (data : List Nat) : List Nat :=
  (List.range buf.length).map (fun i =>
    if i < size ∧ (i : Int) < n then data.getD i 0 % 256 else buf.getD i 0)

/-- The number of `serial_write` calls of a trace. -/
def writes : List SerialEvent → Nat
  | [] => 0
  | SerialEvent.write _ :: t => writes t + 1
  | SerialEvent.read _ :: t => writes t

/-- `oceanic_vtpro_send (device, command, csize)`, started after `trace`: gives
the status and the trace. -/
def oceanic_vtpro_send (port : Port) (trace : List SerialEvent) (command : List Nat)
    (csize : Nat) : device_status_t × List SerialEvent :=
  if port.cancelled trace then (CANCELLED, trace)
  else
    -- Send the command to the dive computer.
    let n := port.serial_write trace (command.take csize)
    let trace := trace ++ [SerialEvent.write (command.take csize)]
    if to_unsigned n ≠ csize then (EXITCODE n, trace)
    else
      -- Receive the response (ACK/NAK) of the dive computer.
      let (n, data) := port.serial_read trace 1
      let response := received [NAK] 1 n data
      let trace := trace ++ [SerialEvent.read 1]
      if n ≠ 1 then (EXITCODE n, trace)
      -- Verify the response of the dive computer.
      else if response ≠ [ACK] then (PROTOCOL, trace)
      else (SUCCESS, trace)

/-- The retry loop of `oceanic_vtpro_transfer`, lines 146-155:
`while ((rc = oceanic_vtpro_send (...)) != DEVICE_STATUS_SUCCESS)`. Gives the
status with which the loop is left (`SUCCESS`) or the function returns, and
the trace; `none` when the fuel runs out. -/
def vtpro_send_retry (port : Port) (command : List Nat) (csize : Nat) :
    Nat → Nat → List SerialEvent → Option (device_status_t × List SerialEvent)
  | 0, _, _ => none
  | fuel + 1, nretries, trace =>
    let (rc, trace) := oceanic_vtpro_send port trace command csize
    if ¬ (rc ≠ SUCCESS) then some (rc, trace)
    else if rc ≠ TIMEOUT ∧ rc ≠ PROTOCOL then some (rc, trace)
    -- Abort if the maximum number of retries is reached.
    else if nretries ≥ MAXRETRIES then some (rc, trace)
    else vtpro_send_retry port command csize fuel (u32 (nretries + 1)) trace

/-- The result of a call of a serial backend: how it ended, everything it did to
the port, and the content of its output array. -/
structure SerialRun where
  outcome : Outcome
  trace : List SerialEvent
  answer : List Nat
  deriving DecidableEq, Repr

/-- `oceanic_vtpro_transfer (device, command, csize, answer, asize)`, started
after `trace`; `answer` is the content of the answer array before the call and
`fuel` bounds the iterations of the retry loop. -/
def oceanic_vtpro_transfer (port : Port) (fuel : Nat) (trace : List SerialEvent)
    (command : List Nat) (csize : Nat) (answer : List Nat) (asize : Nat) : SerialRun :=
  match vtpro_send_retry port command csize fuel 0 trace with
  | none => ⟨Outcome.diverge, trace, answer⟩
  | some (rc, trace) =>
    if rc ≠ SUCCESS then ⟨Outcome.returned rc, trace, answer⟩
    else
      -- Receive the answer of the dive computer.
      let (n, data) := port.serial_read trace asize
      let answer := received answer asize n data
      let trace := trace ++ [SerialEvent.read asize]
      if to_unsigned n ≠ asize then ⟨Outcome.returned (EXITCODE n), trace, answer⟩
      else ⟨Outcome.returned SUCCESS, trace, answer⟩

/-- `oceanic_vtpro_init (device)`, started after `trace`. The comparisons of the
`int` return values with `sizeof` convert to `size_t`; such a value equals the
size exactly when the `int` does. -/
def oceanic_vtpro_init (port : Port) (trace : List SerialEvent) :
    device_status_t × List SerialEvent :=
  -- Send the command to the dive computer.
  let command := [0xAA, 0x00]
  let n := port.serial_write trace command
  let trace := trace ++ [SerialEvent.write command]
  if n ≠ 2 then (EXITCODE n, trace)
  else
    -- Receive the answer of the dive computer.
    let (n, data) := port.serial_read trace 13
    let answer := received (List.replicate 13 0) 13 n data
    let trace := trace ++ [SerialEvent.read 13]
    if n ≠ 13 then (EXITCODE n, trace)
    -- Verify the answer.
    else if answer ≠ [0x4D, 0x4F, 0x44, 0x2D, 0x2D, 0x4F, 0x4B,
        0x5F, 0x56, 0x32, 0x2E, 0x30, 0x30] then (PROTOCOL, trace)
    else (SUCCESS, trace)

/-- Modelled from the spec: `checksum_add_uint8` of `checksum.c`, which is not
among the sources. "Checksums, all over a byte slice with an initial
accumulator: `sum8`: wrapping 8-bit sum." -/
def checksum_add_uint8 (data : List Nat) (size init : Nat) : Nat :=
  (data.take size).foldl (fun acc b => (acc + b) % 256) (init % 256)

/-- The identity of the backend table `oceanic_vtpro_device_backend`. -/
def oceanic_vtpro_device_backend : Nat := 0

/-- `device_is_oceanic_vtpro (abstract)` for a device that is not `NULL`. -/
def device_is_oceanic_vtpro (device : oceanic_common_device_t) : Bool :=
  decide (device.base.backend = oceanic_vtpro_device_backend)

/-- The variables of the loops of `oceanic_vtpro_device_read`; `data` holds the
bytes stored to the output array so far. -/
structure PageState where
  nbytes : Nat
  address : Nat
  offset : Nat
  data : List Nat
  deriving DecidableEq, Repr

/-- The `for` loop of `oceanic_vtpro_device_read`, lines 493-508, with `count`
packets to go: verify the checksum of every packet of the answer and copy its
page to the output. Gives whether all checksums matched, and the state. -/
def vtpro_pages (answer : List Nat) : Nat → PageState → Bool × PageState
  | 0, s => (true, s)
  | count + 1, s =>
    -- Verify the checksum of the answer.
    let crc := answer.getD (s.offset + PAGESIZE) 0
    let ccrc := checksum_add_uint8 (answer.drop s.offset) PAGESIZE 0x00
    if crc ≠ ccrc then (false, s)
    else
      vtpro_pages answer count
        { nbytes := u32 (s.nbytes + PAGESIZE)
          address := u32 (s.address + PAGESIZE)
          offset := u32 (s.offset + (PAGESIZE + 1))
          data := s.data ++ (answer.drop s.offset).take PAGESIZE }

/-- The number of packets of one transfer of `oceanic_vtpro_device_read`, lines
474-476: the pages that are left, at most `MULTIPAGE`. -/
def vtpro_npackets (size nbytes : Nat) : Nat :=
  let npackets := usub size nbytes / PAGESIZE
  if npackets > MULTIPAGE then MULTIPAGE else npackets

/-- The command of one transfer of `oceanic_vtpro_device_read`, lines 479-487:
read the pages `first` to `last`. -/
def vtpro_read_command (address npackets : Nat) : List Nat :=
  let first := address / PAGESIZE
  let last := usub (u32 (first + npackets)) 1
  [0x34,
    (first >>> 8) &&& 0xFF, -- high
    first &&& 0xFF, -- low
    (last >>> 8) &&& 0xFF, -- high
    last &&& 0xFF, -- low
    0x00]

/-- The `while` loop of `oceanic_vtpro_device_read`, lines 472-509; `fuel` bounds
its iterations and `retryfuel` the iterations of the retry loop of every
transfer. -/
def vtpro_read_loop (port : Port) (size retryfuel : Nat) :
    Nat → List SerialEvent → PageState → SerialRun
  | fuel, trace, s =>
    if ¬ (s.nbytes < size) then ⟨Outcome.returned SUCCESS, trace, s.data⟩
    else match fuel with
      | 0 => ⟨Outcome.diverge, trace, s.data⟩
      | fuel + 1 =>
        -- Calculate the number of packages.
        let npackets := vtpro_npackets size s.nbytes
        -- Read the package.
        let command := vtpro_read_command s.address npackets
        let r := oceanic_vtpro_transfer port retryfuel trace command 6
          (List.replicate ((PAGESIZE + 1) * MULTIPAGE) 0) (u32 ((PAGESIZE + 1) * npackets))
        if r.outcome ≠ Outcome.returned SUCCESS then ⟨r.outcome, r.trace, s.data⟩
        else
          match vtpro_pages r.answer npackets { s with offset := 0 } with
          | (false, s) => ⟨Outcome.returned PROTOCOL, r.trace, s.data⟩
          | (true, s) => vtpro_read_loop port size retryfuel fuel r.trace s

/-- `oceanic_vtpro_device_read (abstract, address, data, size)`, started after
`trace`; the answer of the run is the content stored to `data`, and `fuel`
bounds the iterations of every loop. A failed assertion ends the run with a
fault. -/
def oceanic_vtpro_device_read (port : Port) (device : oceanic_common_device_t) (fuel : Nat)
    (trace : List SerialEvent) (address size : Nat) : SerialRun :=
  if ¬ device_is_oceanic_vtpro device then ⟨Outcome.returned TYPE_MISMATCH, trace, []⟩
  else if ¬ (address % PAGESIZE = 0) then ⟨Outcome.fault, trace, []⟩
  else if ¬ (size % PAGESIZE = 0) then ⟨Outcome.fault, trace, []⟩
  else
    -- The data transmission is split in packages of maximum $PAGESIZE bytes.
    vtpro_read_loop port size fuel fuel trace
      { nbytes := 0, address := address, offset := 0, data := [] }

/-! ## The Suunto transport (`suunto_common2.c`) -/

/-- What the Suunto engine does to the outside world, in order: progress and
device-info events, calls of the `packet` function of the backend, callback
invocations. -/
inductive SuuntoEvent
  | progress (current maximum : Nat)
  | devinfo (model firmware serial : Nat)
  | packet (command : List Nat) (asize size : Nat)
  | dive (data fingerprint : List Nat)
  deriving DecidableEq, Repr

/-- The collaborators of the Suunto engine. `packet` is the function pointer
`BACKEND (abstract)->packet`, `none` for `NULL`; `packet trace command asize
size` gives the status and the content of the answer array. The callback may
be `NULL` as well. Both may depend on everything that happened before. -/
structure SuuntoEnv where
  packet : Option (List SuuntoEvent → List Nat → Nat → Nat → device_status_t × List Nat)
  callback : Option (List SuuntoEvent → List Nat → List Nat → Bool)

/-- The result of a call of the Suunto transport: how it ended, what it did, and
the content of the answer array. -/
structure SuuntoRun where
  outcome : Outcome
  trace : List SuuntoEvent
  answer : List Nat
  deriving DecidableEq, Repr

/-- The number of `packet` calls of a trace. -/
def packets : List SuuntoEvent → Nat
  | [] => 0
  | SuuntoEvent.packet _ _ _ :: t => packets t + 1
  | _ :: t => packets t

/-- The retry loop of `suunto_common2_transfer`, lines 72-83:
`while ((rc = BACKEND (abstract)->packet (...)) != DEVICE_STATUS_SUCCESS)`.
Gives the status with which the loop is left or the function returns; `none`
when the fuel runs out. -/
def suunto_packet_retry
    (packet : List SuuntoEvent → List Nat → Nat → Nat → device_status_t × List Nat)
    (command : List Nat) (csize asize size : Nat) :
    Nat → Nat → List SuuntoEvent → Option (device_status_t × List SuuntoEvent × List Nat)
  | 0, _, _ => none
  | fuel + 1, nretries, trace =>
    let (rc, answer) := packet trace (command.take csize) asize size
    let trace := trace ++ [SuuntoEvent.packet (command.take csize) asize size]
    if ¬ (rc ≠ SUCCESS) then some (rc, trace, answer)
    -- Automatically discard a corrupted packet, and request a new one.
    else if rc ≠ TIMEOUT ∧ rc ≠ PROTOCOL then some (rc, trace, answer)
    -- Abort if the maximum number of retries is reached.
    else if nretries ≥ MAXRETRIES then some (rc, trace, answer)
    else suunto_packet_retry packet command csize asize size fuel (u32 (nretries + 1)) trace

/-- `suunto_common2_transfer (abstract, command, csize, answer, asize, size)`,
started after `trace`; `answer` is the content of the answer array before the
call and `fuel` bounds the iterations of the retry loop. A failed assertion
ends the run with a fault. -/
def suunto_common2_transfer (env : SuuntoEnv) (fuel : Nat) (trace : List SuuntoEvent)
    (command : List Nat) (csize : Nat) (answer : List Nat) (asize size : Nat) : SuuntoRun :=
  if ¬ (asize ≥ u32 (size + 4)) then ⟨Outcome.fault, trace, answer⟩
  else match env.packet with
    | none => ⟨Outcome.returned UNSUPPORTED, trace, answer⟩
    | some packet =>
      match suunto_packet_retry packet command csize asize size fuel 0 trace with
      | none => ⟨Outcome.diverge, trace, answer⟩
      | some (rc, trace, answer) => ⟨Outcome.returned rc, trace, answer⟩

/-- The result of the `oceanic_vtpro_send` that follows `k` sends which were
retried, with the first of them started after `trace`. -/
def vtpro_attempt (port : Port) (command : List Nat) (csize : Nat) :
    Nat → List SerialEvent → device_status_t × List SerialEvent
  | 0, trace => oceanic_vtpro_send port trace command csize
  | k + 1, trace =>
    vtpro_attempt port command csize k (oceanic_vtpro_send port trace command csize).2

/-- The result of the `packet` call that follows `k` calls which were retried,
with the first of them made after `trace`: the status, the trace and the
answer. -/
def suunto_attempt
    (packet : List SuuntoEvent → List Nat → Nat → Nat → device_status_t × List Nat)
    (command : List Nat) (csize asize size : Nat) :
    Nat → List SuuntoEvent → device_status_t × List SuuntoEvent × List Nat
  | 0, trace =>
    ((packet trace (command.take csize) asize size).1,
     trace ++ [SuuntoEvent.packet (command.take csize) asize size],
     (packet trace (command.take csize) asize size).2)
  | k + 1, trace =>
    suunto_attempt packet command csize asize size k
      (trace ++ [SuuntoEvent.packet (command.take csize) asize size])

/-- A port whose `serial_write` accepts no byte and returns `0`, and on which
nothing is received. -/
def stalled_port : Port :=
  { serial_write := fun _ _ => 0
    serial_read := fun _ _ => (0, [])
    cancelled := fun _ => false }

/-- A port whose `serial_write` fails with `-1`. -/
def broken_port : Port :=
  { serial_write := fun _ _ => -1
    serial_read := fun _ _ => (0, [])
    cancelled := fun _ => false }

/-- A port that accepts every command and answers the first two of them with
`NAK`, the later ones with `ACK`; every answer that is asked for arrives in
full length (zero bytes). -/
def nak_port : Port :=
  { serial_write := fun _ data => data.length
    serial_read := fun trace size =>
      if size = 1 then (1, [if writes trace ≤ 2 then NAK else ACK])
      else (size, List.replicate size 0)
    cancelled := fun _ => false }

/-- A Suunto backend whose `packet` function times out twice and then answers. -/
def timeout_env : SuuntoEnv :=
  { packet := some (fun trace _ asize _ =>
      if packets trace < 2 then (TIMEOUT, List.replicate asize 0)
      else (SUCCESS, List.replicate asize 0))
    callback := none }

/-- A port that acknowledges every command; the answer to the first command does
not arrive (receive timeout, `0` bytes), the answers to all later commands
arrive in full length (zero bytes, a page with a matching checksum). -/
def flaky_port : Port :=
  { serial_write := fun _ data => data.length
    serial_read := fun trace size =>
      if size = 1 then (1, [ACK])
      else if writes trace ≤ 1 then (0, [])
      else (size, List.replicate size 0)
    cancelled := fun _ => false }

/-! ## The Suunto engine (`suunto_common2.c`) -/

/-- `#define SZ_VERSION 0x04`. -/
def SZ_VERSION : Nat := 0x04

/-- `#define SZ_MEMORY 0x8000`. -/
def SZ_MEMORY : Nat := 0x8000

/-- `#define SZ_PACKET 0x78`. -/
def SZ_PACKET : Nat := 0x78

/-- `#define SZ_MINIMUM 8`. -/
def SZ_MINIMUM : Nat := 8

/-- `#define FP_OFFSET 0x15`. -/
def FP_OFFSET : Nat := 0x15

/-- `#define RB_PROFILE_BEGIN 0x019A` of `suunto_common2.c`. -/
def Suunto.RB_PROFILE_BEGIN : Nat := 0x019A

/-- `#define RB_PROFILE_END SZ_MEMORY - 2` of `suunto_common2.c`. The macro has no
parentheses; it is used in sums, differences and as a function argument only,
where the expansion has the value of the parenthesized one. -/
def Suunto.RB_PROFILE_END : Nat := SZ_MEMORY - 2

/-- `RB_PROFILE_DISTANCE (a, b, m)` of `suunto_common2.c`. -/
def Suunto.RB_PROFILE_DISTANCE (a b : Nat) (m : Bool) : Nat :=
  u32 (ringbuffer_distance a b m Suunto.RB_PROFILE_BEGIN Suunto.RB_PROFILE_END)

/-- Modelled from the spec: `array_uint24_be` of `array.c`, which is not among the
sources ("endian decoders over byte slices, zero-extension into machine
width"). -/
def array_uint24_be (data : List Nat) : Nat :=
  (data.getD 0 0 * 65536 + data.getD 1 0 * 256 + data.getD 2 0) % 16777216

/-- Modelled from the spec: `array_uint32_be` of `array.c`, which is not among the
sources ("endian decoders over byte slices, zero-extension into machine
width"). -/
def array_uint32_be (data : List Nat) : Nat :=
  (data.getD 0 0 * 16777216 + data.getD 1 0 * 65536 + data.getD 2 0 * 256 + data.getD 3 0)
    % 4294967296

/-- Modelled from the spec: `array_uint32_le` of `array.c`, which is not among the
sources ("endian decoders over byte slices, zero-extension into machine
width"). -/
def array_uint32_le (data : List Nat) : Nat :=
  (data.getD 0 0 + data.getD 1 0 * 256 + data.getD 2 0 * 65536 + data.getD 3 0 * 16777216)
    % 4294967296

/-- Modelled from the spec: `checksum_xor_uint8` of `checksum.c`, which is not
among the sources. "Checksums, all over a byte slice with an initial
accumulator: `xor8`: bytewise XOR." -/
def checksum_xor_uint8 (data : List Nat) (size init : Nat) : Nat :=
  (data.take size).foldl (fun acc b => (acc ^^^ b) % 256) (init % 256)

/-- The device object `suunto_common2_device_t`. The struct is declared in
`suunto_common2.h`, which is not among the sources; the length of the list
`fingerprint` stands for `sizeof (device->fingerprint)`. -/
structure suunto_common2_device_t where
  base : device_t
  fingerprint : List Nat
  deriving DecidableEq, Repr

/-- `suunto_common2_device_version (abstract, data, size)`, started after `trace`;
`data` is the content of the output array before the call, the answer of the
run its content afterwards. -/
def suunto_common2_device_version (env : SuuntoEnv) (fuel : Nat) (trace : List SuuntoEvent)
    (data : List Nat) (size : Nat) : SuuntoRun :=
  if size < SZ_VERSION then ⟨Outcome.returned MEMORY, trace, data⟩
  else
    let r := suunto_common2_transfer env fuel trace [0x0F, 0x00, 0x00, 0x0F] 4
      (List.replicate (SZ_VERSION + 4) 0) (SZ_VERSION + 4) 4
    if r.outcome ≠ Outcome.returned SUCCESS then ⟨r.outcome, r.trace, data⟩
    else
      ⟨Outcome.returned SUCCESS, r.trace,
        ((local_array (SZ_VERSION + 4) r.answer).drop 3).take SZ_VERSION ++ data.drop SZ_VERSION⟩

/-- The `while` loop of `suunto_common2_device_read`, lines 146-169; `data` holds
the bytes stored to the output array so far. -/
def suunto_read_loop (env : SuuntoEnv) (size retryfuel : Nat) :
    Nat → List SuuntoEvent → Nat → Nat → List Nat → SuuntoRun
  | fuel, trace, nbytes, address, data =>
    if ¬ (nbytes < size) then ⟨Outcome.returned SUCCESS, trace, data⟩
    else match fuel with
      | 0 => ⟨Outcome.diverge, trace, data⟩
      | fuel + 1 =>
        -- Calculate the package size.
        let len := usub size nbytes
        let len := if len > SZ_PACKET then SZ_PACKET else len
        -- Read the package.
        let command := [0x05, 0x00, 0x03,
          (address >>> 8) &&& 0xFF, -- high
          address &&& 0xFF, -- low
          len % 256, -- count
          0] -- CRC
        let command := command.set 6 (checksum_xor_uint8 command 6 0x00)
        let r := suunto_common2_transfer env retryfuel trace command 7
          (List.replicate (SZ_PACKET + 7) 0) (u32 (len + 7)) len
        if r.outcome ≠ Outcome.returned SUCCESS then ⟨r.outcome, r.trace, data⟩
        else
          suunto_read_loop env size retryfuel fuel r.trace (u32 (nbytes + len))
            (u32 (address + len))
            (data ++ ((local_array (SZ_PACKET + 7) r.answer).drop 6).take len)

/-- `suunto_common2_device_read (abstract, address, data, size)`, started after
`trace`; the answer of the run holds the bytes stored to `data`, and `fuel`
bounds the iterations of every loop. -/
def suunto_common2_device_read (env : SuuntoEnv) (fuel : Nat) (trace : List SuuntoEvent)
    (address size : Nat) : SuuntoRun :=
  -- The data transmission is split in packages of maximum $SZ_PACKET bytes.
  suunto_read_loop env size fuel fuel trace 0 address []

/-- A zero-initialized array of `n` bytes. -/
def Buffer.zeros (n : Nat) : Buffer := ⟨n, fun _ => some 0⟩

/-- One step of a loop of the Suunto engine: go on with a new state, or end the
whole run. -/
inductive SuuntoStep (σ : Type)
  | next (s : σ)
  | stop (r : SuuntoRun)

/-- The variables of the dive loop of `suunto_common2_device_foreach` (lines
300-389). -/
structure SuuntoState where
  data : Buffer
  remaining : Nat
  available : Nat
  current : Nat
  previous : Nat
  address : Nat
  offset : Nat
  progress_current : Nat
  trace : List SuuntoEvent

/-- The variables of the packet loop of one dive (lines 318-359). -/
structure SuuntoReadState where
  data : Buffer
  nbytes : Nat
  offset : Nat
  address : Nat
  progress_current : Nat
  trace : List SuuntoEvent

/-- Calculate the package size (lines 326-330 of `suunto_common2.c`): try with
the largest possible size `SZ_PACKET` first, and adjust when the end of the
ringbuffer or the end of the profile data is reached. -/
def suunto_packet_size (address nbytes remaining : Nat) : Nat :=
  let len := SZ_PACKET
  let len :=
    if u32 (Suunto.RB_PROFILE_BEGIN + len) > address
    then usub address Suunto.RB_PROFILE_BEGIN -- End of ringbuffer.
    else len
  if u32 (nbytes + len) > remaining
  then usub remaining nbytes -- End of profile.
  else len

/-- The extra bytes of a read (lines 342-344 of `suunto_common2.c`): always read
at least the minimum amount of bytes. -/
def suunto_extra (len : Nat) : Nat :=
  if len < SZ_MINIMUM then usub SZ_MINIMUM len else 0

/-- The packet loop of one dive, lines 318-359: `while (nbytes < size)` read one
more packet backwards. -/
def suunto_dive_read (env : SuuntoEnv) (progress_maximum remaining size retryfuel : Nat) :
    Nat → SuuntoReadState → SuuntoStep SuuntoReadState
  | fuel, s =>
    if ¬ (s.nbytes < size) then SuuntoStep.next s
    else match fuel with
      | 0 => SuuntoStep.stop ⟨Outcome.diverge, s.trace, []⟩
      | fuel + 1 =>
        -- Handle the ringbuffer wrap point.
        let address := wrap_point Suunto.RB_PROFILE_BEGIN Suunto.RB_PROFILE_END s.address
        -- Calculate the package size.
        let len := suunto_packet_size address s.nbytes remaining
        -- Move to the begin of the current package.
        let offset := usub s.offset len
        let address := usub address len
        -- Always read at least the minimum amount of bytes.
        let extra := suunto_extra len
        -- Read the package.
        let r := suunto_common2_device_read env retryfuel s.trace (usub address extra)
          (u32 (len + extra))
        if r.outcome ≠ Outcome.returned SUCCESS then SuuntoStep.stop ⟨r.outcome, r.trace, []⟩
        else if offset < extra ∨ ¬ s.data.writable (offset - extra) (u32 (len + extra)) then
          SuuntoStep.stop ⟨Outcome.fault, r.trace, []⟩
        else
          let data := s.data.fill (offset - extra) (u32 (len + extra)) r.answer
          -- Update and emit a progress event.
          let progress_current := u32 (s.progress_current + len)
          let trace := r.trace ++ [SuuntoEvent.progress progress_current progress_maximum]
          -- Next package.
          suunto_dive_read env progress_maximum remaining size retryfuel fuel
            { data := data, nbytes := u32 (s.nbytes + len), offset := offset,
              address := address, progress_current := progress_current, trace := trace }

/-- One iteration of the dive loop of `suunto_common2_device_foreach`, lines
310-388. Gives the new state and whether the callback asked to stop. A
pointer outside the profile ring (where the ring functions are not defined)
and a read outside the array `data` end the run with a fault. -/
def suunto_dive (env : SuuntoEnv) (device : suunto_common2_device_t)
    (model progress_maximum retryfuel readfuel : Nat) (s : SuuntoState) :
    SuuntoStep (SuuntoState × Bool) :=
  if ¬ (ringbuffer_defined s.current Suunto.RB_PROFILE_BEGIN Suunto.RB_PROFILE_END ∧
      ringbuffer_defined s.previous Suunto.RB_PROFILE_BEGIN Suunto.RB_PROFILE_END) then
    SuuntoStep.stop ⟨Outcome.fault, s.trace, []⟩
  else
    -- Calculate the size of the current dive.
    let size := Suunto.RB_PROFILE_DISTANCE s.current s.previous true
    if size < 4 ∨ size > s.remaining then
      SuuntoStep.stop ⟨Outcome.returned ERROR, s.trace, []⟩
    else
      match suunto_dive_read env progress_maximum s.remaining size retryfuel readfuel
          { data := s.data, nbytes := s.available, offset := s.offset, address := s.address,
            progress_current := s.progress_current, trace := s.trace } with
      | SuuntoStep.stop r => SuuntoStep.stop r
      | SuuntoStep.next r =>
        -- The last package of the current dive contains the previous and next
        -- pointers (in a continuous memory area).
        let remaining := usub s.remaining size
        let available := usub r.nbytes size
        let p := r.offset + available
        if ¬ r.data.readable p 4 then SuuntoStep.stop ⟨Outcome.fault, r.trace, []⟩
        else
          let prev := array_uint16_le (r.data.load p 2)
          let next := array_uint16_le (r.data.load (p + 2) 2)
          if next ≠ s.previous then SuuntoStep.stop ⟨Outcome.returned ERROR, r.trace, []⟩
          else
            -- Next dive.
            let previous := s.current
            let current := prev
            let fp_offset := if model = 0x15 then u32 (FP_OFFSET + 6) else FP_OFFSET
            if ¬ r.data.readable (p + fp_offset) device.fingerprint.length then
              SuuntoStep.stop ⟨Outcome.fault, r.trace, []⟩
            else if r.data.load (p + fp_offset) device.fingerprint.length = device.fingerprint then
              SuuntoStep.stop ⟨Outcome.returned SUCCESS, r.trace, []⟩
            else
              let s1 : SuuntoState :=
                { data := r.data, remaining := remaining, available := available,
                  current := current, previous := previous, address := r.address,
                  offset := r.offset, progress_current := r.progress_current,
                  trace := r.trace }
              match env.callback with
              | none => SuuntoStep.next (s1, false)
              | some callback =>
                if ¬ r.data.readable (p + 4) (usub size 4) then
                  SuuntoStep.stop ⟨Outcome.fault, r.trace, []⟩
                else
                  let dive := r.data.load (p + 4) (usub size 4)
                  let fp := r.data.load (p + fp_offset) device.fingerprint.length
                  let trace := r.trace ++ [SuuntoEvent.dive dive fp]
                  SuuntoStep.next ({ s1 with trace := trace }, ! callback r.trace dive fp)

/-- The dive loop of `suunto_common2_device_foreach`, lines 309-389:
`while (remaining)`. When the fingerprint is found or the callback asks to
stop the function returns `SUCCESS`. -/
def suunto_dive_loop (env : SuuntoEnv) (device : suunto_common2_device_t)
    (model progress_maximum retryfuel readfuel : Nat) : Nat → SuuntoState → SuuntoRun
  | fuel, s =>
    if ¬ (s.remaining ≠ 0) then ⟨Outcome.returned SUCCESS, s.trace, []⟩
    else match fuel with
      | 0 => ⟨Outcome.diverge, s.trace, []⟩
      | fuel + 1 =>
        match suunto_dive env device model progress_maximum retryfuel readfuel s with
        | SuuntoStep.stop r => r
        | SuuntoStep.next (s, stop) =>
          if stop then ⟨Outcome.returned SUCCESS, s.trace, []⟩
          else suunto_dive_loop env device model progress_maximum retryfuel readfuel fuel s

/-- The value of `progress.maximum` set at line 232 of `suunto_common2.c`. -/
def suunto_progress_maximum : Nat :=
  Suunto.RB_PROFILE_END - Suunto.RB_PROFILE_BEGIN + 8 + SZ_VERSION
    + (if SZ_MINIMUM > 4 then SZ_MINIMUM else 4)

/-- `suunto_common2_device_foreach (abstract, callback, userdata)`. The callback
and the `packet` function of the backend are in `env`; `fuel` bounds the
number of iterations of every loop. The answer of the run is empty. -/
def suunto_common2_device_foreach (env : SuuntoEnv) (device : suunto_common2_device_t)
    (fuel : Nat) : SuuntoRun :=
  -- Enable progress notifications.
  let progress_current := 0
  let progress_maximum := suunto_progress_maximum
  let trace := [SuuntoEvent.progress progress_current progress_maximum]
  -- Read the version info.
  let r := suunto_common2_device_version env fuel trace (List.replicate SZ_VERSION 0) SZ_VERSION
  if r.outcome ≠ Outcome.returned SUCCESS then ⟨r.outcome, r.trace, []⟩
  else
    let version := r.answer
    -- Update and emit a progress event.
    let progress_current := u32 (progress_current + SZ_VERSION)
    let trace := r.trace ++ [SuuntoEvent.progress progress_current progress_maximum]
    -- Read the serial number.
    let r := suunto_common2_device_read env fuel trace 0x0023
      (if SZ_MINIMUM > 4 then SZ_MINIMUM else 4)
    if r.outcome ≠ Outcome.returned SUCCESS then ⟨r.outcome, r.trace, []⟩
    else
      let serial := r.answer
      -- Update and emit a progress event.
      let progress_current := u32 (progress_current + (if SZ_MINIMUM > 4 then SZ_MINIMUM else 4))
      let trace := r.trace ++ [SuuntoEvent.progress progress_current progress_maximum]
      -- Emit a device info event.
      let model := version.getD 0 0
      let trace := trace ++
        [SuuntoEvent.devinfo model (array_uint24_be (version.drop 1)) (array_uint32_be serial)]
      -- Read the header bytes.
      let r := suunto_common2_device_read env fuel trace 0x0190 8
      if r.outcome ≠ Outcome.returned SUCCESS then ⟨r.outcome, r.trace, []⟩
      else
        let header := r.answer
        -- Obtain the pointers from the header.
        let last := array_uint16_le (header.drop 0)
        let count := array_uint16_le (header.drop 2)
        let end_ := array_uint16_le (header.drop 4)
        let begin_ := array_uint16_le (header.drop 6)
        if ¬ (ringbuffer_defined begin_ Suunto.RB_PROFILE_BEGIN Suunto.RB_PROFILE_END ∧
            ringbuffer_defined end_ Suunto.RB_PROFILE_BEGIN Suunto.RB_PROFILE_END) then
          ⟨Outcome.fault, r.trace, []⟩
        else
          -- Calculate the total amount of bytes.
          let remaining := Suunto.RB_PROFILE_DISTANCE begin_ end_ (decide (count ≠ 0))
          -- Update and emit a progress event.
          let progress_maximum := usub progress_maximum
            (usub (Suunto.RB_PROFILE_END - Suunto.RB_PROFILE_BEGIN) remaining)
          let progress_current := u32 (progress_current + 8)
          let trace := r.trace ++ [SuuntoEvent.progress progress_current progress_maximum]
          -- The ring buffer is traversed backwards to retrieve the most recent
          -- dives first.
          suunto_dive_loop env device model progress_maximum fuel fuel fuel
            { data := Buffer.zeros (SZ_MINIMUM + Suunto.RB_PROFILE_END - Suunto.RB_PROFILE_BEGIN)
              remaining := remaining
              available := 0
              current := last
              previous := end_
              address := end_
              offset := u32 (remaining + SZ_MINIMUM)
              progress_current := progress_current
              trace := trace }

/-! ## The Aladin extraction (`uwatec_aladin.c`) -/

/-- `#define UWATEC_ALADIN_MEMORY_SIZE 2048` of `uwatec_aladin.h`. -/
def UWATEC_ALADIN_MEMORY_SIZE : Nat := 2048

/-- `#define HEADER 4` of `uwatec_aladin.c`. -/
def HEADER : Nat := 4

/-- `#define RB_PROFILE_BEGIN 0x000` of `uwatec_aladin.c`. -/
def Aladin.RB_PROFILE_BEGIN : Nat := 0x000

/-- `#define RB_PROFILE_END 0x600` of `uwatec_aladin.c`. -/
def Aladin.RB_PROFILE_END : Nat := 0x600

/-- `RB_PROFILE_NEXT (a)` of `uwatec_aladin.c`. -/
def Aladin.RB_PROFILE_NEXT (a : Nat) : Nat :=
  u32 (ringbuffer_increment a 1 Aladin.RB_PROFILE_BEGIN Aladin.RB_PROFILE_END)

/-- `RB_PROFILE_DISTANCE (a, b)` of `uwatec_aladin.c`. -/
def Aladin.RB_PROFILE_DISTANCE (a b : Nat) : Nat :=
  u32 (ringbuffer_distance a b false Aladin.RB_PROFILE_BEGIN Aladin.RB_PROFILE_END)

/-- The identity of the backend table `uwatec_aladin_device_backend`. -/
def uwatec_aladin_device_backend : Nat := 1

/-- The device object `uwatec_aladin_device_t`, without the port and the system
time. -/
structure uwatec_aladin_device_t where
  base : device_t
  timestamp : Nat
  devtime : Nat
  deriving DecidableEq, Repr

/-- `device_is_uwatec_aladin (abstract)` for a device that is not `NULL`. -/
def device_is_uwatec_aladin (device : uwatec_aladin_device_t) : Bool :=
  decide (device.base.backend = uwatec_aladin_device_backend)

/-- Modelled from the spec: `array_reverse_bytes` of `array.c`, which is not among
the sources: the byte order of the array is reversed ("the dive-timestamp
converted from big-endian to little-endian"). -/
def array_reverse_bytes (data : List Nat) : List Nat := data.reverse

/-- The byte `data[i]` of the memory image. -/
def image_byte (data : List Nat) (i : Nat) : Nat := data.getD i 0 % 256

/-- The bytes `data[pos], ..., data[pos + n - 1]` of the memory image. -/
def image_bytes (data : List Nat) (pos n : Nat) : List Nat :=
  (List.range n).map (fun i => image_byte data (pos + i))

/-- The search for a start marker in the profile ringbuffer, lines 376-386 of
`uwatec_aladin.c`: the `do ... while (current != eop)` loop. Gives `current`,
`previous` and `len`; `none` when `RB_PROFILE_DISTANCE` is called with a
pointer outside the profile ring, `some none` when the fuel runs out. -/
def aladin_search (data : List Nat) (eop : Nat) :
    Nat → Nat → Nat → Option (Option (Nat × Nat × Nat))
  | 0, _, _ => some none
  | fuel + 1, current, previous =>
    let current := if current = Aladin.RB_PROFILE_BEGIN then Aladin.RB_PROFILE_END else current
    let current := usub current 1
    if image_byte data (HEADER + current) = 0xFF then
      if ¬ (ringbuffer_defined current Aladin.RB_PROFILE_BEGIN Aladin.RB_PROFILE_END ∧
          ringbuffer_defined previous Aladin.RB_PROFILE_BEGIN Aladin.RB_PROFILE_END) then none
      else some (some (current, current, Aladin.RB_PROFILE_DISTANCE current previous))
    else if ¬ (current ≠ eop) then some (some (current, previous, 0))
    else aladin_search data eop fuel current previous

/-- Lines 388-404 of `uwatec_aladin.c`: when a start marker was found
(`len >= 1`), skip it, set the profile length in the buffer and copy the
profile data behind the 18 bytes of the buffer. Gives `len` and the used part
of the buffer; `none` when `RB_PROFILE_NEXT` is called with a pointer outside
the profile ring. -/
def aladin_profile (data buffer : List Nat) (current len : Nat) : Option (Nat × List Nat) :=
  if len ≥ 1 then
    -- Skip the start marker.
    let len := usub len 1
    if ¬ ringbuffer_defined current Aladin.RB_PROFILE_BEGIN Aladin.RB_PROFILE_END then none
    else
      let begin_ := Aladin.RB_PROFILE_NEXT current
      -- Set the profile length.
      let buffer := buffer.take 16 ++ [len &&& 0xFF, (len >>> 8) &&& 0xFF]
      -- Copy the profile data.
      if u32 (begin_ + len) > Aladin.RB_PROFILE_END then
        let a := usub Aladin.RB_PROFILE_END begin_
        let b := usub (u32 (begin_ + len)) Aladin.RB_PROFILE_END
        some (len, buffer ++ image_bytes data (HEADER + begin_) a ++ image_bytes data HEADER b)
      else some (len, buffer ++ image_bytes data (HEADER + begin_) len)
  else some (len, buffer)

/-- The variables of the dive loop of `uwatec_aladin_extract_dives` (lines
345-421). -/
structure AladinState where
  i : Nat
  profiles : Bool
  previous : Nat
  current : Nat
  trace : List Event

/-- The head of one iteration of the dive loop, lines 356-371: the 18 bytes of the
buffer in front of the profile data, with the serial number, the type, the
logbook entry number `i` (counted backwards from `eol`) with its timestamp
converted to little endian, and a profile length of zero. -/
def aladin_buffer (data : List Nat) (eol i : Nat) : List Nat :=
  -- Get the offset to the current logbook entry.
  let offset := u32 (u32 ((usub (u32 (eol + 37)) i % 37) * 12) + Aladin.RB_PROFILE_END)
  -- Copy the serial number, type and logbook data to the buffer and set the
  -- profile length to zero.
  let buffer := image_bytes data (HEADER + 0x07ed) 3 ++ image_bytes data (HEADER + 0x07bc) 1
    ++ image_bytes data (HEADER + offset) 12 ++ [0, 0]
  -- Convert the timestamp from the Aladin (big endian) to the Memomouse
  -- format (little endian).
  buffer.take 11 ++ array_reverse_bytes ((buffer.drop 11).take 4) ++ buffer.drop 15

/-- The end of one iteration of the dive loop, lines 414-420: leave when the dive
is not newer than the timestamp of the device, otherwise hand the dive to the
callback. Gives the state and whether the function returns `SUCCESS` at
once. -/
def aladin_deliver (callback : Option (List Event → List Nat → List Nat → Bool))
    (device : Option uwatec_aladin_device_t) (buffer : List Nat) (len : Nat)
    (s : AladinState) : AladinState × Bool :=
  -- Automatically abort when a dive is older than the provided timestamp.
  let timestamp := array_uint32_le (buffer.drop 11)
  if device.isSome ∧ timestamp ≤ (device.map (fun d => d.timestamp)).getD 0 then (s, true)
  else match callback with
    | none => (s, false)
    | some callback =>
      let dive := buffer.take (u32 (len + 18))
      let fp := (buffer.drop 11).take 4
      ({ s with trace := s.trace ++ [Event.dive dive fp] }, ! callback s.trace dive fp)

/-- One iteration of the dive loop of `uwatec_aladin_extract_dives`, lines
356-420. Gives the new state, with `i` incremented, and whether the function
returns `SUCCESS` at once. A ring pointer outside the profile ring ends the
run with a fault. -/
def aladin_dive (callback : Option (List Event → List Nat → List Nat → Bool))
    (device : Option uwatec_aladin_device_t) (data : List Nat) (eol eop searchfuel : Nat)
    (s : AladinState) : Step (AladinState × Bool) :=
  let buffer := aladin_buffer data eol s.i
  if ¬ s.profiles then
    Step.next (aladin_deliver callback device buffer 0 { s with i := u32 (s.i + 1) })
  else
    -- Search the profile ringbuffer for a start marker.
    match aladin_search data eop searchfuel s.current s.previous with
    | none => Step.stop ⟨Outcome.fault, s.trace⟩
    | some none => Step.stop ⟨Outcome.diverge, s.trace⟩
    | some (some (current, previous, len)) =>
      match aladin_profile data buffer current len with
      | none => Step.stop ⟨Outcome.fault, s.trace⟩
      | some (len, buffer) =>
        -- Once the end of the profile ringbuffer is reached, there is no need
        -- to keep scanning the ringbuffer.
        let profiles := if current = eop then false else s.profiles
        Step.next (aladin_deliver callback device buffer len
          { i := u32 (s.i + 1), profiles := profiles, previous := previous,
            current := current, trace := s.trace })

/-- The dive loop of `uwatec_aladin_extract_dives`, lines 355-421:
`for (i = 0; i < ndives; ++i)`. -/
def aladin_dive_loop (callback : Option (List Event → List Nat → List Nat → Bool))
    (device : Option uwatec_aladin_device_t) (data : List Nat) (ndives eol eop searchfuel : Nat) :
    Nat → AladinState → Run
  | fuel, s =>
    if ¬ (s.i < ndives) then ⟨Outcome.returned SUCCESS, s.trace⟩
    else match fuel with
      | 0 => ⟨Outcome.diverge, s.trace⟩
      | fuel + 1 =>
        match aladin_dive callback device data eol eop searchfuel s with
        | Step.stop r => r
        | Step.next (s, stop) =>
          if stop then ⟨Outcome.returned SUCCESS, s.trace⟩
          else aladin_dive_loop callback device data ndives eol eop searchfuel fuel s

/-- `uwatec_aladin_extract_dives (abstract, data, size, callback, userdata)`;
`device` is `none` for a `NULL` device, the list `data` holds the `size` bytes
of the array, and `fuel` bounds the number of iterations of every loop. A
ring pointer outside the profile ring ends the run with a fault. -/
def uwatec_aladin_extract_dives (callback : Option (List Event → List Nat → List Nat → Bool))
    (device : Option uwatec_aladin_device_t) (data : List Nat) (fuel : Nat) : Run :=
  if device.isSome ∧ ¬ (device.map device_is_uwatec_aladin).getD false then
    ⟨Outcome.returned TYPE_MISMATCH, []⟩
  else if data.length < UWATEC_ALADIN_MEMORY_SIZE then ⟨Outcome.returned ERROR, []⟩
  else
    -- The logbook ring buffer can store up to 37 dives.
    let ndives := array_uint16_be (image_bytes data (HEADER + 0x7f2) 2)
    let ndives := if ndives > 37 then 37 else ndives
    -- Get the index to the newest logbook entry.
    let eol := (image_byte data (HEADER + 0x7f4) + 37 - 1) % 37
    -- Get the end of the profile ring buffer.
    let last := u32 (image_byte data (HEADER + 0x7f6) +
      ((((image_byte data (HEADER + 0x7f7)) &&& 0x0F) >>> 1) <<< 8))
    if ¬ ringbuffer_defined last Aladin.RB_PROFILE_BEGIN Aladin.RB_PROFILE_END then
      ⟨Outcome.fault, []⟩
    else
      let eop := Aladin.RB_PROFILE_NEXT last
      -- Start scanning the profile ringbuffer.
      aladin_dive_loop callback device data ndives eol eop fuel fuel
        { i := 0, profiles := true, previous := eop, current := eop, trace := [] }

/-! ## Callback stop -/

/-- The callback invocations of a trace of the Suunto engine, as
`(data, fingerprint)`. -/
def suunto_dives : List SuuntoEvent → List (List Nat × List Nat)
  | [] => []
  | SuuntoEvent.dive d f :: t => (d, f) :: suunto_dives t
  | _ :: t => suunto_dives t

/-- A callback that asks for more dives the first time and declines every later
dive. -/
def accept_first : Option (List Event → List Nat → List Nat → Bool) :=
  some (fun pre _ _ => (dives pre).isEmpty)

/-- A callback of the Suunto engine that asks for more dives the first time and
declines every later dive. -/
def suunto_accept_first : Option (List SuuntoEvent → List Nat → List Nat → Bool) :=
  some (fun pre _ _ => (suunto_dives pre).isEmpty)

/-- The arguments of the last event of a trace, when this is a callback
invocation. -/
def last_dive (t : List Event) : List Nat × List Nat :=
  match t.getLast? with
  | some (Event.dive d f) => (d, f)
  | _ => ([], [])

/-- The arguments of the last event of a trace of the Suunto engine, when this is
a callback invocation. -/
def suunto_last_dive (t : List SuuntoEvent) : List Nat × List Nat :=
  match t.getLast? with
  | some (SuuntoEvent.dive d f) => (d, f)
  | _ => ([], [])

/-- A Suunto backend that serves the memory image `M`: a read command
`05 00 03 hi lo len crc` is answered with the bytes at the address behind a
header of six bytes, every other command with zero bytes. -/
def suunto_image_env (M : Nat → Nat)
    (callback : Option (List SuuntoEvent → List Nat → List Nat → Bool)) : SuuntoEnv :=
  { packet := some (fun _ command asize _ =>
      if command.getD 0 0 = 0x05 then
        (SUCCESS, (List.range asize).map (fun i =>
          if 6 ≤ i then M (command.getD 3 0 * 256 + command.getD 4 0 + (i - 6)) else 0))
      else (SUCCESS, List.replicate asize 0))
    callback := callback }

/-- A small Suunto memory image: the header at `0x0190` has `last = 0x01EA`,
`count = 3`, `end = 0x0212` and `begin = 0x019A`; three dives of 40 bytes
occupy `[0x019A, 0x01C2)`, `[0x01C2, 0x01EA)` and `[0x01EA, 0x0212)`, each
starting with its `prev` and `next` pointers. Every other byte holds the low
byte of its address. -/
def suunto_sample (a : Nat) : Nat :=
  if a = 0x0190 then 0xEA else if a = 0x0191 then 0x01
  else if a = 0x0192 then 0x03 else if a = 0x0193 then 0x00
  else if a = 0x0194 then 0x12 else if a = 0x0195 then 0x02
  else if a = 0x0196 then 0x9A else if a = 0x0197 then 0x01
  else if a = 0x019A then 0x9A else if a = 0x019B then 0x01
  else if a = 0x019C then 0xC2 else if a = 0x019D then 0x01
  else if a = 0x01C2 then 0x9A else if a = 0x01C3 then 0x01
  else if a = 0x01C4 then 0xEA else if a = 0x01C5 then 0x01
  else if a = 0x01EA then 0xC2 else if a = 0x01EB then 0x01
  else if a = 0x01EC then 0x12 else if a = 0x01ED then 0x02
  else a % 256

/-- A Suunto device with a zero fingerprint of seven bytes. -/
def suunto_device : suunto_common2_device_t :=
  { base := { backend := 2 }, fingerprint := [0, 0, 0, 0, 0, 0, 0] }

/-- A small Aladin memory image of 2048 bytes: `ndives = 5`, the newest logbook
entry is slot 0, the newest profile ends at ring offset `0x10`, and start
markers `0xFF` sit at the ring offsets `0x0C` and `0x08`. -/
def aladin_sample : List Nat :=
  (List.range 2048).map (fun i =>
    if i = HEADER + 0x7f2 then 0
    else if i = HEADER + 0x7f3 then 5
    else if i = HEADER + 0x7f4 then 1
    else if i = HEADER + 0x7f6 then 0x10
    else if i = HEADER + 0x7f7 then 0
    else if i = HEADER + 0x0C then 0xFF
    else if i = HEADER + 0x08 then 0xFF
    else i % 251)

/-- No event of the trace is `bad` after the events in front of it. -/
def NoneBad {α : Type} (bad : List α → α → Prop) (t : List α) : Prop :=
  ∀ pre e post, t = pre ++ e :: post → ¬ bad pre e

/-- A `bad` event, if there is one, is the last event of the trace, and then `ok`
holds. -/
def EndsBad {α : Type} (bad : List α → α → Prop) (t : List α) (ok : Prop) : Prop :=
  ∀ pre e post, t = pre ++ e :: post → bad pre e → post = [] ∧ ok

/-- The dive callback declines the event `e` after the trace `pre`: `e` is a
callback invocation and the callback returns false. -/
def declined (callback : Option (List Event → List Nat → List Nat → Bool)) (pre : List Event)
    (e : Event) : Prop :=
  ∃ cb d f, callback = some cb ∧ e = Event.dive d f ∧ cb pre d f = false

/-- The dive callback of the Suunto engine declines the event `e` after the trace
`pre`. -/
def suunto_declined (callback : Option (List SuuntoEvent → List Nat → List Nat → Bool))
    (pre : List SuuntoEvent) (e : SuuntoEvent) : Prop :=
  ∃ cb d f, callback = some cb ∧ e = SuuntoEvent.dive d f ∧ cb pre d f = false

/-! ## Progress events -/

/-- The progress events of a trace, as `(current, maximum)`. -/
def progress_events : List Event → List (Nat × Nat)
  | [] => []
  | Event.progress c m :: t => (c, m) :: progress_events t
  | _ :: t => progress_events t

/-- A run of progress events that all carry the maximum `pm`, with values of
`current` that do not decrease and lie between `c` and `c'`. -/
def Segment (c c' pm : Nat) (ext : List (Nat × Nat)) : Prop :=
  c ≤ c' ∧ (∀ p ∈ ext, p.2 = pm ∧ c ≤ p.1 ∧ p.1 ≤ c') ∧ ext.Pairwise (fun p q => p.1 ≤ q.1)

/-- The progress events of the trace `t` are those of `base`, followed by a
segment with the maximum `pm` that starts at `c0` and has arrived at `c`. -/
def SegInv (base : List (Nat × Nat)) (c0 pm c : Nat) (t : List Event) : Prop :=
  ∃ ext, progress_events t = base ++ ext ∧ Segment c0 c pm ext

/-- The progress events of a trace of the Suunto engine, as
`(current, maximum)`. -/
def suunto_progress_events : List SuuntoEvent → List (Nat × Nat)
  | [] => []
  | SuuntoEvent.progress c m :: t => (c, m) :: suunto_progress_events t
  | _ :: t => suunto_progress_events t

/-- The progress events of the trace `t` of the Suunto engine are those of `base`,
followed by events that all carry the maximum `pm`. -/
def SuuntoMaxInv (base : List (Nat × Nat)) (pm : Nat) (t : List SuuntoEvent) : Prop :=
  ∃ ext, suunto_progress_events t = base ++ ext ∧ ∀ p ∈ ext, p.2 = pm

/-! ## The fix-up of a full, unaligned ring -/

/-- The first iteration of the logbook download loop of `foreach_logbooks`
(lines 298-376, entered with the start values of lines 267-295): the first
packet is read, the fix-up of lines 328-345 is applied and the new entries are
scanned. -/
def foreach_first_chunk (env : Env) (device : oceanic_common_device_t)
    (layout : oceanic_common_layout_t) (fuel : Nat) (h : Header) : Step (LogState × Bool) :=
  let w := logbook_window layout h.rb_logbook_first h.rb_logbook_last
  let progress_current := u32 (h.progress_current + PAGESIZE)
  let progress_maximum := progress_maximum_logbook layout w
  let trace := h.trace ++ [Event.progress progress_current progress_maximum]
  logbook_page env layout device.multipage device.fingerprint w progress_maximum fuel
    { logbooks := Buffer.malloc w.page_size, begin_ := window_begin w, nbytes := 0,
      current := window_end w, offset := w.page_size, address := w.page_end,
      progress_current := progress_current, trace := trace }

/-- The value of `rb_entry_size` for a logbook entry (line 427): the length of the
profile of the dive, `distance (first, last) + PAGESIZE`. -/
def rb_entry_size (layout : oceanic_common_layout_t) (entry : List Nat) : Nat :=
  u32 (RB_PROFILE_DISTANCE (get_profile_first entry layout) (get_profile_last entry layout) layout
    + PAGESIZE)

/-- The value of `rb_entry_end` for a logbook entry (line 426): the address behind
the profile of the dive, `increment (last, PAGESIZE)`. -/
def rb_entry_end (layout : oceanic_common_layout_t) (entry : List Nat) : Nat :=
  RB_PROFILE_INCR (get_profile_last entry layout) PAGESIZE layout

/-- The loop of `oceanic_common_match`, lines 94-97, with `count` iterations to go
and the index `i` of the bytes that `pattern` and `string` point at. -/
def match_loop (pattern string : List Nat) : Nat → Nat → Nat
  | 0, _ => 1
  | count + 1, i =>
    if pattern.getD i 0 ≠ 0 ∧ pattern.getD i 0 ≠ string.getD i 0 then 0
    else match_loop pattern string count (i + 1)

/-- `oceanic_common_match (pattern, string, n)`; the lists hold the bytes of the
two arrays. -/
def oceanic_common_match (pattern string : List Nat) (n : Nat) : Nat :=
  match_loop pattern string n 0

/-- The array `oceanic_vtpro_version`, the string `"VTPRO  r\0\0  256K"` with its
terminating zero. -/
def oceanic_vtpro_version : List Nat :=
  [0x56, 0x54, 0x50, 0x52, 0x4F, 0x20, 0x20, 0x72, 0x00, 0x00, 0x20, 0x20, 0x32, 0x35, 0x36, 0x4B,
   0x00]

/-- The array `oceanic_wisdom_version`, the string `"WISDOM r\0\0  256K"` with its
terminating zero. -/
def oceanic_wisdom_version : List Nat :=
  [0x57, 0x49, 0x53, 0x44, 0x4F, 0x4D, 0x20, 0x72, 0x00, 0x00, 0x20, 0x20, 0x32, 0x35, 0x36, 0x4B,
   0x00]

/-- Modelled from the spec: `checksum_add_uint4` of `checksum.c`, which is not
among the sources. "Checksums, all over a byte slice with an initial
accumulator: `sum_nibbles`: accumulate the 4-bit nibbles"; the accumulator is
an `unsigned char`. -/
def checksum_add_uint4 (data : List Nat) (size init : Nat) : Nat :=
  (data.take size).foldl (fun acc b => (acc + ((b &&& 0xF0) >>> 4) + (b &&& 0x0F)) % 256)
    (init % 256)

/-- The `for` loop of `oceanic_vtpro_device_version`, lines 428-451, with `count`
iterations to go: obtain the two halves of the device identification string.
Gives the run with the content of the output array `data`. -/
def vtpro_version_parts (port : Port) (fuel : Nat) :
    Nat → Nat → List SerialEvent → List Nat → SerialRun
  | 0, _, trace, data => ⟨Outcome.returned SUCCESS, trace, data⟩
  | count + 1, i, trace, data =>
    let command := [0x72, 0x03, (i * 0x10) % 256, 0x00]
    let r := oceanic_vtpro_transfer port fuel trace command 4
      (List.replicate (PAGESIZE / 2 + 2) 0) (PAGESIZE / 2 + 2)
    if r.outcome ≠ Outcome.returned SUCCESS then ⟨r.outcome, r.trace, data⟩
    else
      -- Verify the checksum of the answer.
      let crc := r.answer.getD (PAGESIZE / 2) 0
      let ccrc := checksum_add_uint4 r.answer (PAGESIZE / 2) 0x00
      if crc ≠ ccrc then ⟨Outcome.returned PROTOCOL, r.trace, data⟩
      -- Verify the last byte of the answer.
      else if r.answer.getD (PAGESIZE / 2 + 1) 0 ≠ END then
        ⟨Outcome.returned PROTOCOL, r.trace, data⟩
      else
        -- Append the answer to the output buffer.
        let pos := i * PAGESIZE / 2
        vtpro_version_parts port fuel count (i + 1) r.trace
          (data.take pos ++ r.answer.take (PAGESIZE / 2) ++ data.drop (pos + PAGESIZE / 2))

/-- `oceanic_vtpro_device_version (abstract, data, size)`, started after `trace`;
`data` is the content of the output array before the call, the answer of the
run its content afterwards. -/
def oceanic_vtpro_device_version (port : Port) (device : oceanic_common_device_t) (fuel : Nat)
    (trace : List SerialEvent) (data : List Nat) (size : Nat) : SerialRun :=
  if ¬ device_is_oceanic_vtpro device then ⟨Outcome.returned TYPE_MISMATCH, trace, data⟩
  else if size < PAGESIZE then ⟨Outcome.returned MEMORY, trace, data⟩
  else
    -- Switch the device into download mode.
    let r := oceanic_vtpro_transfer port fuel trace [0x88, 0x00] 2
      (List.replicate (PAGESIZE / 2 + 1) 0) (PAGESIZE / 2 + 1)
    if r.outcome ≠ Outcome.returned SUCCESS then ⟨r.outcome, r.trace, data⟩
    else
      -- Verify the checksum of the answer.
      let crc := r.answer.getD (PAGESIZE / 2) 0
      let ccrc := checksum_add_uint4 r.answer (PAGESIZE / 2) 0x00
      if crc ≠ ccrc then ⟨Outcome.returned PROTOCOL, r.trace, data⟩
      -- Obtain the device identification string.
      else vtpro_version_parts port fuel 2 0 r.trace data

/-- `oceanic_vtpro_quit (device)`, started after `trace`. -/
def oceanic_vtpro_quit (port : Port) (fuel : Nat) (trace : List SerialEvent) : SerialRun :=
  let r := oceanic_vtpro_transfer port fuel trace [0x6A, 0x05, 0xA5, 0x00] 4 [0] 1
  if r.outcome ≠ Outcome.returned SUCCESS then r
  -- Verify the last byte of the answer.
  else if r.answer.getD 0 0 ≠ END then ⟨Outcome.returned PROTOCOL, r.trace, r.answer⟩
  else r

/-- `oceanic_vtpro_calibrate (device)`, started after `trace`; the two calls of
`serial_set_timeout` leave no event. -/
def oceanic_vtpro_calibrate (port : Port) (fuel : Nat) (trace : List SerialEvent) : SerialRun :=
  let r := oceanic_vtpro_transfer port fuel trace [0x18, 0x00] 2 [0, 0] 2
  if r.outcome ≠ Outcome.returned SUCCESS then r
  -- Verify the last byte of the answer.
  else if r.answer.getD 1 0 ≠ 0x00 then ⟨Outcome.returned PROTOCOL, r.trace, r.answer⟩
  else r

/-- The device object `oceanic_vtpro_device_t`, without the port. -/
structure oceanic_vtpro_device_t where
  base : oceanic_common_device_t
  version : List Nat
  deriving DecidableEq, Repr

/-- What the calls of `oceanic_vtpro_device_open` into `stdlib.h` and `serial.c`
(not among the sources) give: whether `malloc` succeeds and the return values
of `serial_open`, `serial_configure`, `serial_set_timeout`, `serial_set_dtr`
and `serial_set_rts`. -/
structure SerialSetup where
  malloc_ok : Bool
  serial_open : Int
  serial_configure : Int
  serial_set_timeout : Int
  serial_set_dtr : Int
  serial_set_rts : Int
  deriving DecidableEq, Repr

/-- The result of `oceanic_vtpro_device_open`: the status, the device stored to
`*out` (`none` when nothing is stored) and what was done to the port. -/
structure OpenRun where
  outcome : Outcome
  device : Option oceanic_vtpro_device_t
  trace : List SerialEvent
  deriving DecidableEq, Repr

/-- `oceanic_vtpro_device_open (out, name)`; `out_null` says whether `out` is
`NULL`, and `fuel` bounds the iterations of every retry loop. -/
def oceanic_vtpro_device_open (out_null : Bool) (setup : SerialSetup) (port : Port)
    (fuel : Nat) : OpenRun :=
  if out_null then ⟨Outcome.returned ERROR, none, []⟩
  -- Allocate memory.
  else if ¬ setup.malloc_ok then ⟨Outcome.returned MEMORY, none, []⟩
  else
    -- Initialize the base class.
    let base := oceanic_common_device_init oceanic_vtpro_device_backend
    -- Override the base class values.
    let base := { base with multipage := MULTIPAGE }
    -- Set the default values.
    let version := List.replicate PAGESIZE 0
    -- Open the device.
    if setup.serial_open = -1 then ⟨Outcome.returned IO_ERROR, none, []⟩
    -- Set the serial communication protocol (9600 8N1).
    else if setup.serial_configure = -1 then ⟨Outcome.returned IO_ERROR, none, []⟩
    -- Set the timeout for receiving data (3000 ms).
    else if setup.serial_set_timeout = -1 then ⟨Outcome.returned IO_ERROR, none, []⟩
    -- Set the DTR and RTS lines.
    else if setup.serial_set_dtr = -1 ∨ setup.serial_set_rts = -1 then
      ⟨Outcome.returned IO_ERROR, none, []⟩
    else
      -- Initialize the data cable (MOD mode).
      let status := oceanic_vtpro_init port []
      if status.1 ≠ SUCCESS then ⟨Outcome.returned status.1, none, status.2⟩
      else
        -- Switch the device from surface mode into download mode.
        let r := oceanic_vtpro_device_version port base fuel status.2 version PAGESIZE
        if r.outcome ≠ Outcome.returned SUCCESS then ⟨r.outcome, none, r.trace⟩
        else
          let version := r.answer
          -- Calibrate the device.
          let c := oceanic_vtpro_calibrate port fuel r.trace
          if c.outcome ≠ Outcome.returned SUCCESS then ⟨c.outcome, none, c.trace⟩
          else
            -- Override the base class values.
            let layout :=
              if oceanic_common_match oceanic_wisdom_version version PAGESIZE ≠ 0
              then oceanic_wisdom_layout else oceanic_vtpro_layout
            ⟨Outcome.returned SUCCESS,
              some { base := { base with layout := some layout }, version := version }, c.trace⟩

/-- The bytes of the last `serial_write` of a trace. -/
def last_write (trace : List SerialEvent) : List Nat :=
  trace.foldl (fun acc e => match e with
    | SerialEvent.write data => data
    | SerialEvent.read _ => acc) []

/-- A data cable with a dive computer that identifies itself with the 16 bytes
`version`: every write is complete and every command is acknowledged; the
cable answers `MOD--OK_V2.00`, the command `88 00` is answered with the first
half of the version and its checksum, the command `72 03 i0 00` with half `i`
of the version, its checksum and the end byte, and the calibration with two
zero bytes. -/
def vtpro_cable (version : List Nat) : Port :=
  { serial_write := fun _ data => data.length
    serial_read := fun trace size =>
      if size = 1 then (1, [ACK])
      else if size = 13 then (13, "MOD--OK_V2.00".toList.map Char.toNat)
      else if size = 9 then (9, version.take 8 ++ [checksum_add_uint4 version 8 0])
      else if size = 10 then
        let part := (version.drop ((last_write trace).getD 2 0 / 2)).take 8
        (10, part ++ [checksum_add_uint4 part 8 0, END])
      else (size, List.replicate size 0)
    cancelled := fun _ => false }

/-- A port on which every write is complete and the 13 bytes `answer` arrive when
13 bytes are read. -/
def init_port (answer : List Nat) : Port :=
  { serial_write := fun _ data => data.length
    serial_read := fun _ size => (size, answer.take size)
    cancelled := fun _ => false }

/-! ## The engine on a VTPro device -/

/-- The content of the serial trace after the `device_read` requests of the engine
trace `events`, when the port had the trace `start` before: every request ran
`oceanic_vtpro_device_read`. -/
def vtpro_serial_trace (port : Port) (device : oceanic_common_device_t) (fuel : Nat)
    (start : List SerialEvent) (events : List Event) : List SerialEvent :=
  events.foldl (fun serial e => match e with
    | Event.read address size =>
      (oceanic_vtpro_device_read port device fuel serial address size).trace
    | _ => serial) start

/-- Modelled from the spec: `device_read` of `device.c`, which is not among the
sources, on a VTPro device ("`read(addr, out, size)`: flat address space
access", a "virtual-dispatch surface"): the call goes to the `read` entry of
the backend table, which is `oceanic_vtpro_device_read`. A run of that
function which does not return has no status; `vtpro_device_foreach` ends the
whole run at such a request. -/
def vtpro_read (port : Port) (device : oceanic_common_device_t) (fuel : Nat)
    (start : List SerialEvent) : List Event → Nat → Nat → device_status_t × List Nat :=
  fun events address size =>
    let r := oceanic_vtpro_device_read port device fuel
      (vtpro_serial_trace port device fuel start events) address size
    match r.outcome with
    | Outcome.returned rc => (rc, r.answer)
    | _ => (ERROR, r.answer)

/-- The first `device_read` request of the engine trace for which
`oceanic_vtpro_device_read` does not return (a failed assertion, or no fuel
left): the outcome of that run and the events up to the request. -/
def vtpro_abnormal (port : Port) (device : oceanic_common_device_t) (fuel : Nat)
    (start : List SerialEvent) : List Event → List Event → Option Run
  | _, [] => none
  | pre, Event.read address size :: rest =>
    match (oceanic_vtpro_device_read port device fuel
        (vtpro_serial_trace port device fuel start pre) address size).outcome with
    | Outcome.returned _ =>
      vtpro_abnormal port device fuel start (pre ++ [Event.read address size]) rest
    | outcome => some ⟨outcome, pre ++ [Event.read address size]⟩
  | pre, e :: rest => vtpro_abnormal port device fuel start (pre ++ [e]) rest

/-- The result of a run of the engine on a VTPro device: how it ended, what the
engine did, and the serial trace at the end. -/
structure VtproRun where
  outcome : Outcome
  trace : List Event
  serial : List SerialEvent
  deriving DecidableEq, Repr

/-- `oceanic_common_device_foreach` on a VTPro device whose port has the serial
trace `start` so far: the `foreach` entry of the backend table
`oceanic_vtpro_device_backend`, with every `device_read` of the engine served
by `oceanic_vtpro_device_read`. -/
def vtpro_device_foreach (port : Port) (device : oceanic_common_device_t)
    (callback : Option (List Event → List Nat → List Nat → Bool)) (malloc_ok : Nat → Bool)
    (bcd2dec : Nat → Nat) (fuel : Nat) (start : List SerialEvent) : VtproRun :=
  let env : Env :=
    { device_read := vtpro_read port device fuel start
      callback := callback
      malloc_ok := malloc_ok
      bcd2dec := bcd2dec }
  let run := oceanic_common_device_foreach env device fuel
  let run := match vtpro_abnormal port device fuel start [] run.trace with
    | some r => r
    | none => run
  ⟨run.outcome, run.trace, vtpro_serial_trace port device fuel start run.trace⟩

/-- A port whose device has the cancel flag set, with a cable on which every write
is complete and zero bytes arrive. -/
def cancelled_port : Port :=
  { serial_write := fun _ data => data.length
    serial_read := fun _ size => (size, List.replicate size 0)
    cancelled := fun _ => true }

/-! ## Closing a device and the Aladin backend table -/

/-- The result of a `close` function: how it ended, what it did to the port before
closing it, whether `serial_close` was called and whether the device was
freed. -/
structure CloseRun where
  outcome : Outcome
  trace : List SerialEvent
  closed : Bool
  freed : Bool
  deriving DecidableEq, Repr

/-- `oceanic_vtpro_device_close (abstract)`, started after `trace`; `serial_close`
is the return value of the function of that name. The status of
`oceanic_vtpro_quit` is ignored. -/
def oceanic_vtpro_device_close (port : Port) (device : oceanic_vtpro_device_t) (fuel : Nat)
    (trace : List SerialEvent) (serial_close : Int) : CloseRun :=
  if ¬ device_is_oceanic_vtpro device.base then
    ⟨Outcome.returned TYPE_MISMATCH, trace, false, false⟩
  else
    -- Switch the device back to surface mode.
    let q := oceanic_vtpro_quit port fuel trace
    match q.outcome with
    | Outcome.returned _ =>
      -- Close the device.
      if serial_close = -1 then ⟨Outcome.returned IO_ERROR, q.trace, true, true⟩
      -- Free memory.
      else ⟨Outcome.returned SUCCESS, q.trace, true, true⟩
    | outcome => ⟨outcome, q.trace, false, false⟩

/-- `uwatec_aladin_device_close (abstract)`; `serial_close` is the return value of
the function of that name. -/
def uwatec_aladin_device_close (device : uwatec_aladin_device_t) (trace : List SerialEvent)
    (serial_close : Int) : CloseRun :=
  if ¬ device_is_uwatec_aladin device then ⟨Outcome.returned TYPE_MISMATCH, trace, false, false⟩
  -- Close the device.
  else if serial_close = -1 then ⟨Outcome.returned IO_ERROR, trace, true, true⟩
  -- Free memory.
  else ⟨Outcome.returned SUCCESS, trace, true, true⟩

/-- `uwatec_aladin_device_set_fingerprint (abstract, data, size)`: gives the status
and the device afterwards. -/
def uwatec_aladin_device_set_fingerprint (device : uwatec_aladin_device_t) (data : List Nat)
    (size : Nat) : device_status_t × uwatec_aladin_device_t :=
  if ¬ device_is_uwatec_aladin device then (TYPE_MISMATCH, device)
  else if size ≠ 0 ∧ size ≠ 4 then (ERROR, device)
  else if size ≠ 0 then (SUCCESS, { device with timestamp := array_uint32_le data })
  else (SUCCESS, { device with timestamp := 0 })

/-- The events that a dump function hands to the listener with
`device_event_emit`. -/
inductive DeviceEvent
  | waiting
  | progress (current maximum : Nat)
  | devinfo (model firmware serial : Nat)
  | clock (systime : Int) (devtime : Nat)
  deriving DecidableEq, Repr

/-- What the dump functions get from code that is not among the sources: whether
`dc_buffer_clear`, `dc_buffer_reserve` and `dc_buffer_new` succeed, the value
of `dc_datetime_now ()`, and the function `checksum_add_uint16` of
`checksum.c`. -/
structure DumpEnv where
  dc_buffer_clear : Bool
  dc_buffer_reserve : Bool
  dc_buffer_new : Bool
  dc_datetime_now : Int
  checksum_add_uint16 : List Nat → Nat → Nat → Nat

/-- The result of a dump function: how it ended, what it did to the port, the
events it emitted and the content of the buffer. -/
structure DumpRun where
  outcome : Outcome
  trace : List SerialEvent
  events : List DeviceEvent
  buffer : List Nat
  deriving DecidableEq, Repr

/-- Modelled from the spec: `array_reverse_bits` of `array.c`, which is not among
the sources. "Bit reversal: reverse the bit order within each byte, in
place." -/
def array_reverse_bits (data : List Nat) (size : Nat) : List Nat :=
  (data.take size).map (fun b =>
    (List.range 8).foldl (fun acc k => acc + ((b >>> k) &&& 1) <<< (7 - k)) 0) ++ data.drop size

/-- What the header loop of a dump function hands on: the trace, the events and
the answer array; or the run has ended. -/
inductive DumpStep
  | next (trace : List SerialEvent) (events : List DeviceEvent) (answer : List Nat)
  | stop (outcome : Outcome) (trace : List SerialEvent) (events : List DeviceEvent)

/-- The header loop of `uwatec_aladin_device_dump`, lines 220-235:
`for (unsigned int i = 0; i < 4;)`. -/
def aladin_header_loop (port : Port) :
    Nat → Nat → List SerialEvent → List DeviceEvent → List Nat → DumpStep
  | fuel, i, trace, events, answer =>
    if ¬ (i < 4) then DumpStep.next trace events answer
    else match fuel with
      | 0 => DumpStep.stop Outcome.diverge trace events
      | fuel + 1 =>
        if port.cancelled trace then DumpStep.stop (Outcome.returned CANCELLED) trace events
        else
          let (rc, data) := port.serial_read trace 1
          let answer := answer.take i ++ received (answer.drop i) 1 rc data
          let trace := trace ++ [SerialEvent.read 1]
          if rc ≠ 1 then DumpStep.stop (Outcome.returned (EXITCODE rc)) trace events
          else if answer.getD i 0 = (if i < 3 then 0x55 else 0x00) then
            aladin_header_loop port fuel (u32 (i + 1)) trace events answer -- Continue.
          else
            aladin_header_loop port fuel 0 trace (events ++ [DeviceEvent.waiting]) answer -- Reset.

/-- The result of `uwatec_aladin_device_dump`: the run, the device afterwards and
the value of its field `systime`. -/
structure AladinDump where
  run : DumpRun
  device : uwatec_aladin_device_t
  systime : Int
  deriving DecidableEq, Repr

/-- `uwatec_aladin_device_dump (abstract, buffer)`, started after `trace`; `buffer`
is the content of the buffer before the call, `systime` the value of
`device->systime`, and `fuel` bounds the iterations of the header loop. -/
def uwatec_aladin_device_dump (env : DumpEnv) (port : Port) (device : uwatec_aladin_device_t)
    (systime : Int) (fuel : Nat) (trace : List SerialEvent) (buffer : List Nat) : AladinDump :=
  if ¬ device_is_uwatec_aladin device then
    ⟨⟨Outcome.returned TYPE_MISMATCH, trace, [], buffer⟩, device, systime⟩
  -- Erase the current contents of the buffer and pre-allocate the required
  -- amount of memory.
  else if ¬ env.dc_buffer_clear then
    ⟨⟨Outcome.returned MEMORY, trace, [], buffer⟩, device, systime⟩
  else if ¬ env.dc_buffer_reserve then
    ⟨⟨Outcome.returned MEMORY, trace, [], []⟩, device, systime⟩
  else
    -- Enable progress notifications.
    let progress_current := 0
    let progress_maximum := UWATEC_ALADIN_MEMORY_SIZE + 2
    let events := [DeviceEvent.progress progress_current progress_maximum]
    let answer := List.replicate (UWATEC_ALADIN_MEMORY_SIZE + 2) 0
    -- Receive the header of the package.
    match aladin_header_loop port fuel 0 trace events answer with
    | DumpStep.stop outcome trace events => ⟨⟨outcome, trace, events, []⟩, device, systime⟩
    | DumpStep.next trace events answer =>
      -- Fetch the current system time.
      let now := env.dc_datetime_now
      -- Update and emit a progress event.
      let progress_current := u32 (progress_current + 4)
      let events := events ++ [DeviceEvent.progress progress_current progress_maximum]
      -- Receive the remaining part of the package.
      let (rc, data) := port.serial_read trace (UWATEC_ALADIN_MEMORY_SIZE + 2 - 4)
      let answer := answer.take 4 ++
        received (answer.drop 4) (UWATEC_ALADIN_MEMORY_SIZE + 2 - 4) rc data
      let trace := trace ++ [SerialEvent.read (UWATEC_ALADIN_MEMORY_SIZE + 2 - 4)]
      if rc ≠ ((UWATEC_ALADIN_MEMORY_SIZE + 2 - 4 : Nat) : Int) then
        ⟨⟨Outcome.returned (EXITCODE rc), trace, events, []⟩, device, systime⟩
      else
        -- Update and emit a progress event.
        let progress_current := u32 (progress_current + (UWATEC_ALADIN_MEMORY_SIZE + 2 - 4))
        let events := events ++ [DeviceEvent.progress progress_current progress_maximum]
        -- Reverse the bit order.
        let answer := array_reverse_bits answer (UWATEC_ALADIN_MEMORY_SIZE + 2)
        -- Verify the checksum of the package.
        let crc := array_uint16_le (answer.drop UWATEC_ALADIN_MEMORY_SIZE)
        let ccrc := env.checksum_add_uint16 answer UWATEC_ALADIN_MEMORY_SIZE 0x0000 % 65536
        if ccrc ≠ crc then ⟨⟨Outcome.returned PROTOCOL, trace, events, []⟩, device, systime⟩
        else
          -- Store the clock calibration values.
          let devtime := array_uint32_be (answer.drop (HEADER + 0x7f8))
          -- Emit a clock event.
          let events := events ++ [DeviceEvent.clock now devtime]
          ⟨⟨Outcome.returned SUCCESS, trace, events, answer.take UWATEC_ALADIN_MEMORY_SIZE⟩,
            { device with devtime := devtime }, now⟩

/-- The result of `uwatec_aladin_device_foreach`: how it ended, what it did to the
port, the events it emitted, the device and its field `systime` afterwards,
and what `uwatec_aladin_extract_dives` did. -/
structure AladinForeach where
  outcome : Outcome
  trace : List SerialEvent
  events : List DeviceEvent
  device : uwatec_aladin_device_t
  systime : Int
  dives : List Event
  deriving DecidableEq, Repr

/-- `uwatec_aladin_device_foreach (abstract, callback, userdata)`, started after
`trace`; the buffer is new, and `fuel` bounds the iterations of every loop. -/
def uwatec_aladin_device_foreach (env : DumpEnv) (port : Port)
    (callback : Option (List Event → List Nat → List Nat → Bool))
    (device : uwatec_aladin_device_t) (systime : Int) (fuel : Nat) (trace : List SerialEvent) :
    AladinForeach :=
  if ¬ device_is_uwatec_aladin device then
    ⟨Outcome.returned TYPE_MISMATCH, trace, [], device, systime, []⟩
  else if ¬ env.dc_buffer_new then ⟨Outcome.returned MEMORY, trace, [], device, systime, []⟩
  else
    let d := uwatec_aladin_device_dump env port device systime fuel trace []
    if d.run.outcome ≠ Outcome.returned SUCCESS then
      ⟨d.run.outcome, d.run.trace, d.run.events, d.device, d.systime, []⟩
    else
      -- Emit a device info event.
      let data := d.run.buffer
      let devinfo := DeviceEvent.devinfo (data.getD (HEADER + 0x7bc) 0) 0
        (array_uint24_be (data.drop (HEADER + 0x7ed)))
      let r := uwatec_aladin_extract_dives callback (some d.device) data fuel
      ⟨r.outcome, d.run.trace, d.run.events ++ [devinfo], d.device, d.systime, r.trace⟩

/-! ## The Mares Nemo dump -/

/-- `#define PACKETSIZE 0x20` of `mares_nemo.c`. -/
def PACKETSIZE : Nat := 0x20

/-- The layout descriptor `mares_common_layout_t`; the struct is declared in
`mares_common.h`, which is not among the sources, and the field names are
those of the comments in the initializer of `mares_nemo_layout`. -/
structure mares_common_layout_t where
  memsize : Nat
  rb_profile_begin : Nat
  rb_profile_end : Nat
  rb_freedives_begin : Nat
  rb_freedives_end : Nat
  deriving DecidableEq, Repr

/-- The layout `mares_nemo_layout` of `mares_nemo.c`. -/
def mares_nemo_layout : mares_common_layout_t :=
  { memsize := 0x4000
    rb_profile_begin := 0x0070
    rb_profile_end := 0x3400
    rb_freedives_begin := 0x3400
    rb_freedives_end := 0x4000 }

/-- The fields of the device object `mares_common_device_t` that `mares_nemo.c`
uses; `layout` is a pointer. -/
structure mares_common_device_t where
  base : device_t
  layout : Option mares_common_layout_t
  deriving DecidableEq, Repr

/-- The header loop of `mares_nemo_device_dump`, lines 184-195:
`for (unsigned int i = 0; i < 20;)`. The answer of the step is the variable
`header`. -/
def mares_header_loop (port : Port) (events : List DeviceEvent) :
    Nat → Nat → List SerialEvent → Nat → DumpStep
  | fuel, i, trace, header =>
    if ¬ (i < 20) then DumpStep.next trace events [header]
    else match fuel with
      | 0 => DumpStep.stop Outcome.diverge trace events
      | fuel + 1 =>
        let (n, data) := port.serial_read trace 1
        let header := (received [header] 1 n data).getD 0 0
        let trace := trace ++ [SerialEvent.read 1]
        if n ≠ 1 then DumpStep.stop (Outcome.returned (EXITCODE n)) trace events
        else if header = 0xEE then
          mares_header_loop port events fuel (u32 (i + 1)) trace header -- Continue.
        else mares_header_loop port events fuel 0 trace header -- Reset.

/-- The packet loop of `mares_nemo_device_dump`, lines 202-241:
`while (nbytes < device->base.layout->memsize)`. -/
def mares_packet_loop (port : Port) (memsize progress_maximum : Nat) :
    Nat → Nat → Nat → List SerialEvent → List DeviceEvent → List Nat → DumpRun
  | fuel, nbytes, progress_current, trace, events, buffer =>
    if ¬ (nbytes < memsize) then ⟨Outcome.returned SUCCESS, trace, events, buffer⟩
    else match fuel with
      | 0 => ⟨Outcome.diverge, trace, events, buffer⟩
      | fuel + 1 =>
        -- Read the packet.
        let (n, data) := port.serial_read trace ((PACKETSIZE + 1) * 2)
        let packet := received (List.replicate ((PACKETSIZE + 1) * 2) 0) ((PACKETSIZE + 1) * 2)
          n data
        let trace := trace ++ [SerialEvent.read ((PACKETSIZE + 1) * 2)]
        if n ≠ (((PACKETSIZE + 1) * 2 : Nat) : Int) then
          ⟨Outcome.returned (EXITCODE n), trace, events, buffer⟩
        else
          -- Verify the checksums of the packet.
          let crc1 := packet.getD PACKETSIZE 0
          let crc2 := packet.getD (PACKETSIZE * 2 + 1) 0
          let ccrc1 := checksum_add_uint8 packet PACKETSIZE 0x00
          let ccrc2 := checksum_add_uint8 (packet.drop (PACKETSIZE + 1)) PACKETSIZE 0x00
          let appended : Option (List Nat) :=
            if crc1 = ccrc1 ∧ crc2 = ccrc2 then
              -- Both packets have a correct checksum.
              if packet.take PACKETSIZE ≠ (packet.drop (PACKETSIZE + 1)).take PACKETSIZE then none
              else some (packet.take PACKETSIZE)
            else if crc1 = ccrc1 then
              -- Only the first packet has a correct checksum.
              some (packet.take PACKETSIZE)
            else if crc2 = ccrc2 then
              -- Only the second packet has a correct checksum.
              some ((packet.drop (PACKETSIZE + 1)).take PACKETSIZE)
            else none
          match appended with
          | none => ⟨Outcome.returned PROTOCOL, trace, events, buffer⟩
          | some bytes =>
            -- Update and emit a progress event.
            let progress_current := u32 (progress_current + PACKETSIZE)
            let events := events ++ [DeviceEvent.progress progress_current progress_maximum]
            mares_packet_loop port memsize progress_maximum fuel (u32 (nbytes + PACKETSIZE))
              progress_current trace events (buffer ++ bytes)

/-- `mares_nemo_device_dump (abstract, buffer)`, started after `trace`; `buffer` is
the content of the buffer before the call and `fuel` bounds the iterations of
every loop. A device without layout fails the assertion at line 168. -/
def mares_nemo_device_dump (env : DumpEnv) (port : Port) (device : mares_common_device_t)
    (fuel : Nat) (trace : List SerialEvent) (buffer : List Nat) : DumpRun :=
  match device.layout with
  | none => ⟨Outcome.fault, trace, [], buffer⟩
  | some layout =>
    -- Erase the current contents of the buffer and pre-allocate the required
    -- amount of memory.
    if ¬ env.dc_buffer_clear then ⟨Outcome.returned MEMORY, trace, [], buffer⟩
    else if ¬ env.dc_buffer_reserve then ⟨Outcome.returned MEMORY, trace, [], []⟩
    else
      -- Enable progress notifications.
      let progress_current := 0
      let progress_maximum := u32 (layout.memsize + 20)
      let events := [DeviceEvent.progress progress_current progress_maximum]
      -- Receive the header of the package.
      match mares_header_loop port events fuel 0 trace 0x00 with
      | DumpStep.stop outcome trace events => ⟨outcome, trace, events, []⟩
      | DumpStep.next trace events _ =>
        -- Update and emit a progress event.
        let progress_current := u32 (progress_current + 20)
        let events := events ++ [DeviceEvent.progress progress_current progress_maximum]
        mares_packet_loop port layout.memsize progress_maximum fuel 0 progress_current trace
          events []

/-- A Mares Nemo data stream on a device whose cancel flag is set: single bytes
read are `0xEE`, and a packet read gives twice the same 32 zero bytes with
their checksums. -/
def nemo_stream : Port :=
  { serial_write := fun _ data => data.length
    serial_read := fun _ size => if size = 1 then (1, [0xEE]) else (size, List.replicate size 0)
    cancelled := fun _ => true }

/-- A Mares Nemo device as `mares_nemo_device_open` leaves it; the identity of the
backend table `mares_nemo_device_backend` is 3. -/
def nemo_device : mares_common_device_t :=
  { base := { backend := 3 }, layout := some mares_nemo_layout }

/-- Collaborators of a dump with which every buffer operation succeeds; the
checksum is the wrapping 16-bit sum of the bytes. -/
def dump_env : DumpEnv :=
  { dc_buffer_clear := true
    dc_buffer_reserve := true
    dc_buffer_new := true
    dc_datetime_now := 1000
    checksum_add_uint16 := fun data size init =>
      (data.take size).foldl (fun acc b => (acc + b) % 65536) (init % 65536) }

/-! ## Cancel checks in the dump loops -/

/-- Every `serial_read` of one byte among the events `ext`, which follow the
serial trace `trace`, was made with the cancel flag clear. -/
def HeadChecked (port : Port) (trace ext : List SerialEvent) : Prop :=
  ∀ pre post, ext = pre ++ SerialEvent.read 1 :: post → port.cancelled (trace ++ pre) = false

/-- The serial trace of a step of a dump function. -/
def DumpStep.serial : DumpStep → List SerialEvent
  | DumpStep.next trace _ _ => trace
  | DumpStep.stop _ trace _ => trace

/-- The outcome with which a step of a dump function ends the run, if it does. -/
def DumpStep.ended : DumpStep → Option Outcome
  | DumpStep.next _ _ _ => none
  | DumpStep.stop outcome _ _ => some outcome

/-! ## The dive loop of the Suunto engine, block by block -/

/-- What `suunto_common2_device_foreach` has when the dive loop starts (lines
230-308): the model byte, the value of `progress.maximum`, the four pointers of
the header and the variables of the loop. -/
structure SuuntoHead where
  model : Nat
  progress_maximum : Nat
  last : Nat
  count : Nat
  end_ : Nat
  begin_ : Nat
  state : SuuntoState

/-- Lines 230-308 of `suunto_common2_device_foreach`: everything in front of the
dive loop. -/
def suunto_foreach_head (env : SuuntoEnv) (fuel : Nat) : SuuntoStep SuuntoHead :=
  -- Enable progress notifications.
  let progress_current := 0
  let progress_maximum := suunto_progress_maximum
  let trace := [SuuntoEvent.progress progress_current progress_maximum]
  -- Read the version info.
  let r := suunto_common2_device_version env fuel trace (List.replicate SZ_VERSION 0) SZ_VERSION
  if r.outcome ≠ Outcome.returned SUCCESS then SuuntoStep.stop ⟨r.outcome, r.trace, []⟩
  else
    let version := r.answer
    -- Update and emit a progress event.
    let progress_current := u32 (progress_current + SZ_VERSION)
    let trace := r.trace ++ [SuuntoEvent.progress progress_current progress_maximum]
    -- Read the serial number.
    let r := suunto_common2_device_read env fuel trace 0x0023
      (if SZ_MINIMUM > 4 then SZ_MINIMUM else 4)
    if r.outcome ≠ Outcome.returned SUCCESS then SuuntoStep.stop ⟨r.outcome, r.trace, []⟩
    else
      let serial := r.answer
      -- Update and emit a progress event.
      let progress_current := u32 (progress_current + (if SZ_MINIMUM > 4 then SZ_MINIMUM else 4))
      let trace := r.trace ++ [SuuntoEvent.progress progress_current progress_maximum]
      -- Emit a device info event.
      let model := version.getD 0 0
      let trace := trace ++
        [SuuntoEvent.devinfo model (array_uint24_be (version.drop 1)) (array_uint32_be serial)]
      -- Read the header bytes.
      let r := suunto_common2_device_read env fuel trace 0x0190 8
      if r.outcome ≠ Outcome.returned SUCCESS then SuuntoStep.stop ⟨r.outcome, r.trace, []⟩
      else
        let header := r.answer
        -- Obtain the pointers from the header.
        let last := array_uint16_le (header.drop 0)
        let count := array_uint16_le (header.drop 2)
        let end_ := array_uint16_le (header.drop 4)
        let begin_ := array_uint16_le (header.drop 6)
        if ¬ (ringbuffer_defined begin_ Suunto.RB_PROFILE_BEGIN Suunto.RB_PROFILE_END ∧
            ringbuffer_defined end_ Suunto.RB_PROFILE_BEGIN Suunto.RB_PROFILE_END) then
          SuuntoStep.stop ⟨Outcome.fault, r.trace, []⟩
        else
          -- Calculate the total amount of bytes.
          let remaining := Suunto.RB_PROFILE_DISTANCE begin_ end_ (decide (count ≠ 0))
          -- Update and emit a progress event.
          let progress_maximum := usub progress_maximum
            (usub (Suunto.RB_PROFILE_END - Suunto.RB_PROFILE_BEGIN) remaining)
          let progress_current := u32 (progress_current + 8)
          let trace := r.trace ++ [SuuntoEvent.progress progress_current progress_maximum]
          SuuntoStep.next
            { model := model
              progress_maximum := progress_maximum
              last := last
              count := count
              end_ := end_
              begin_ := begin_
              state :=
                { data := Buffer.zeros (SZ_MINIMUM + Suunto.RB_PROFILE_END - Suunto.RB_PROFILE_BEGIN)
                  remaining := remaining
                  available := 0
                  current := last
                  previous := end_
                  address := end_
                  offset := u32 (remaining + SZ_MINIMUM)
                  progress_current := progress_current
                  trace := trace } }

/-- What one iteration of the dive loop knows of its dive block at line 370: the
size of the dive, the state of the packet loop after the block has been read,
the position `p` of the block in the array `data`, and the fields `prev` and
`next` of the block. -/
structure SuuntoBlock where
  size : Nat
  read : SuuntoReadState
  p : Nat
  prev : Nat
  next : Nat

/-- Lines 310-370 of one iteration of the dive loop: the size of the dive, the
packet loop, and the two pointers at the start of the block. -/
def suunto_block (env : SuuntoEnv) (progress_maximum retryfuel readfuel : Nat)
    (s : SuuntoState) : SuuntoStep SuuntoBlock :=
  if ¬ (ringbuffer_defined s.current Suunto.RB_PROFILE_BEGIN Suunto.RB_PROFILE_END ∧
      ringbuffer_defined s.previous Suunto.RB_PROFILE_BEGIN Suunto.RB_PROFILE_END) then
    SuuntoStep.stop ⟨Outcome.fault, s.trace, []⟩
  else
    -- Calculate the size of the current dive.
    let size := Suunto.RB_PROFILE_DISTANCE s.current s.previous true
    if size < 4 ∨ size > s.remaining then
      SuuntoStep.stop ⟨Outcome.returned ERROR, s.trace, []⟩
    else
      match suunto_dive_read env progress_maximum s.remaining size retryfuel readfuel
          { data := s.data, nbytes := s.available, offset := s.offset, address := s.address,
            progress_current := s.progress_current, trace := s.trace } with
      | SuuntoStep.stop r => SuuntoStep.stop r
      | SuuntoStep.next r =>
        let available := usub r.nbytes size
        let p := r.offset + available
        if ¬ r.data.readable p 4 then SuuntoStep.stop ⟨Outcome.fault, r.trace, []⟩
        else
          SuuntoStep.next
            { size := size
              read := r
              p := p
              prev := array_uint16_le (r.data.load p 2)
              next := array_uint16_le (r.data.load (p + 2) 2) }

/-- Lines 371-388 of one iteration of the dive loop, for the block `b` read by the
iteration that started in the state `s`: the continuity check, the step to the
next dive, the comparison with the fingerprint and the callback. -/
def suunto_finish (env : SuuntoEnv) (device : suunto_common2_device_t) (model : Nat)
    (s : SuuntoState) (b : SuuntoBlock) : SuuntoStep (SuuntoState × Bool) :=
  if b.next ≠ s.previous then SuuntoStep.stop ⟨Outcome.returned ERROR, b.read.trace, []⟩
  else
    -- Next dive.
    let previous := s.current
    let current := b.prev
    let fp_offset := if model = 0x15 then u32 (FP_OFFSET + 6) else FP_OFFSET
    if ¬ b.read.data.readable (b.p + fp_offset) device.fingerprint.length then
      SuuntoStep.stop ⟨Outcome.fault, b.read.trace, []⟩
    else if b.read.data.load (b.p + fp_offset) device.fingerprint.length = device.fingerprint then
      SuuntoStep.stop ⟨Outcome.returned SUCCESS, b.read.trace, []⟩
    else
      let s1 : SuuntoState :=
        { data := b.read.data, remaining := usub s.remaining b.size,
          available := usub b.read.nbytes b.size,
          current := current, previous := previous, address := b.read.address,
          offset := b.read.offset, progress_current := b.read.progress_current,
          trace := b.read.trace }
      match env.callback with
      | none => SuuntoStep.next (s1, false)
      | some callback =>
        if ¬ b.read.data.readable (b.p + 4) (usub b.size 4) then
          SuuntoStep.stop ⟨Outcome.fault, b.read.trace, []⟩
        else
          let dive := b.read.data.load (b.p + 4) (usub b.size 4)
          let fp := b.read.data.load (b.p + fp_offset) device.fingerprint.length
          let trace := b.read.trace ++ [SuuntoEvent.dive dive fp]
          SuuntoStep.next ({ s1 with trace := trace }, ! callback b.read.trace dive fp)

/-- The state of the dive loop after `k` complete iterations that started in the
state `s0`; `none` when the loop has ended before. -/
def suunto_steps (env : SuuntoEnv) (device : suunto_common2_device_t)
    (model progress_maximum retryfuel readfuel : Nat) (s0 : SuuntoState) :
    Nat → Option SuuntoState
  | 0 => some s0
  | k + 1 =>
    match suunto_steps env device model progress_maximum retryfuel readfuel s0 k with
    | none => none
    | some s =>
      if ¬ (s.remaining ≠ 0) then none
      else match suunto_dive env device model progress_maximum retryfuel readfuel s with
        | SuuntoStep.next (s', false) => some s'
        | _ => none

/-- Iteration `k` of the dive loop of a run of `suunto_common2_device_foreach`,
when the run gets that far and reads the block: what the run had in front of
the loop, the state in which the iteration starts, and the block it reads. -/
def suunto_iteration (env : SuuntoEnv) (device : suunto_common2_device_t) (fuel k : Nat) :
    Option (SuuntoHead × SuuntoState × SuuntoBlock) :=
  match suunto_foreach_head env fuel with
  | SuuntoStep.stop _ => none
  | SuuntoStep.next h =>
    match suunto_steps env device h.model h.progress_maximum fuel fuel h.state k with
    | none => none
    | some s =>
      if ¬ (s.remaining ≠ 0) then none
      else match suunto_block env h.progress_maximum fuel fuel s with
        | SuuntoStep.stop _ => none
        | SuuntoStep.next b => some (h, s, b)

/-- The value of `fp_offset` of lines 380-382. -/
def suunto_fp_offset (model : Nat) : Nat :=
  if model = 0x15 then u32 (FP_OFFSET + 6) else FP_OFFSET

/-- What can be told of an iteration of the dive loop: the header pointers `last`
and `end`, the variables `previous` and `current` and the trace when the
iteration starts, the size of the dive, the trace when the block has been read,
the fields `prev` and `next` of the block, the bytes at `p + fp_offset` that
are compared with the fingerprint and the `size - 4` bytes at `p + 4` (`none`
when they do not lie inside the array `data`). -/
structure SuuntoView where
  last : Nat
  end_ : Nat
  previous : Nat
  current : Nat
  before : List SuuntoEvent
  size : Nat
  trace : List SuuntoEvent
  prev : Nat
  next : Nat
  fingerprint : Option (List Nat)
  data : Option (List Nat)
  deriving DecidableEq, Repr, Inhabited

/-- The view of iteration `k` of the dive loop of a run, see `suunto_iteration`. -/
def suunto_view (env : SuuntoEnv) (device : suunto_common2_device_t) (fuel k : Nat) :
    Option SuuntoView :=
  (suunto_iteration env device fuel k).map (fun i =>
    { last := i.1.last
      end_ := i.1.end_
      previous := i.2.1.previous
      current := i.2.1.current
      before := i.2.1.trace
      size := i.2.2.size
      trace := i.2.2.read.trace
      prev := i.2.2.prev
      next := i.2.2.next
      fingerprint :=
        if i.2.2.read.data.readable (i.2.2.p + suunto_fp_offset i.1.model)
            device.fingerprint.length
        then some (i.2.2.read.data.load (i.2.2.p + suunto_fp_offset i.1.model)
          device.fingerprint.length)
        else none
      data :=
        if i.2.2.read.data.readable (i.2.2.p + 4) (usub i.2.2.size 4)
        then some (i.2.2.read.data.load (i.2.2.p + 4) (usub i.2.2.size 4))
        else none })

/-- The trace of the state in which iteration `k` of the dive loop of a run
starts, when the run gets that far. -/
def suunto_trace_at (env : SuuntoEnv) (device : suunto_common2_device_t) (fuel k : Nat) :
    Option (List SuuntoEvent) :=
  match suunto_foreach_head env fuel with
  | SuuntoStep.stop _ => none
  | SuuntoStep.next h =>
    (suunto_steps env device h.model h.progress_maximum fuel fuel h.state k).map
      (fun s => s.trace)

/-- `suunto_sample` with a broken chain: the `next` field of the second dive
block, at `0x01C4`, holds `0x01C2` (the `prev` field of the block read before
it) instead of `0x01EA`. -/
def suunto_broken (a : Nat) : Nat :=
  if a = 0x01C4 then 0xC2 else suunto_sample a

/-! ## The Aladin logbook slots and dive blocks -/

/-- The number of dives at lines 329-331 of `uwatec_aladin.c`: the big-endian
16-bit value at `HEADER + 0x7f2`, at most 37. -/
def aladin_ndives (data : List Nat) : Nat :=
  min (array_uint16_be (image_bytes data (HEADER + 0x7f2) 2)) 37

/-- The index `eol` of the newest logbook entry, line 336 of `uwatec_aladin.c`. -/
def aladin_eol (data : List Nat) : Nat :=
  (image_byte data (HEADER + 0x7f4) + 37 - 1) % 37

/-- The argument of `RB_PROFILE_NEXT` at lines 341-342 of `uwatec_aladin.c`: the
pointer to the last byte of the last profile. -/
def aladin_last (data : List Nat) : Nat :=
  u32 (image_byte data (HEADER + 0x7f6) +
    ((((image_byte data (HEADER + 0x7f7)) &&& 0x0F) >>> 1) <<< 8))

/-- The 12 bytes of the logbook slot that belongs to the `i`-th dive, counted
from the newest: the slot `(eol + 37 - i) mod 37` behind the profile ring. -/
def aladin_slot (data : List Nat) (i : Nat) : List Nat :=
  image_bytes data (HEADER + 0x600 + 12 * ((aladin_eol data + 37 - i) % 37)) 12

/-- The timestamp of the `i`-th dive, counted from the newest: the big-endian
32-bit value in the bytes 7 to 10 of its logbook slot. -/
def aladin_slot_timestamp (data : List Nat) (i : Nat) : Nat :=
  array_uint32_be ((aladin_slot data i).drop 7)

/-- What is asked of the `i`-th block `(block, fingerprint)` handed to the
callback: with `len` the 16-bit little-endian value in the bytes 16 and 17, the
block has `len + 18` bytes; it starts with the 3 serial bytes at
`HEADER + 0x7ed` and the type byte at `HEADER + 0x7bc`; then come the 12 bytes
of the logbook slot with the bytes 7 to 10 reversed; the 32-bit little-endian
value in the bytes 11 to 14 is the timestamp of the slot; behind the length
come `len` bytes of the profile ring, starting one past a position `m` that
holds the start marker `0xFF` and wrapping from `0x600` to 0; and the
fingerprint is the bytes 11 to 14 of the block. -/
def AladinBlockOk (data : List Nat) (i : Nat) (d : List Nat × List Nat) : Prop :=
  d.1.length = d.1.getD 16 0 + 256 * d.1.getD 17 0 + 18 ∧
  d.1.take 3 = image_bytes data (HEADER + 0x7ed) 3 ∧
  d.1.getD 3 0 = image_byte data (HEADER + 0x7bc) ∧
  (d.1.drop 4).take 12 =
    (aladin_slot data i).take 7 ++ (((aladin_slot data i).drop 7).take 4).reverse
      ++ (aladin_slot data i).drop 11 ∧
  array_uint32_le (d.1.drop 11) = aladin_slot_timestamp data i ∧
  (∃ m, m < 0x600 ∧
    (1 ≤ d.1.getD 16 0 + 256 * d.1.getD 17 0 → image_byte data (HEADER + m) = 0xFF) ∧
    ∀ j, j < d.1.getD 16 0 + 256 * d.1.getD 17 0 →
      d.1.getD (18 + j) 0 = image_byte data (HEADER + (m + 1 + j) % 0x600)) ∧
  d.2 = (d.1.drop 11).take 4

/-- The pointer `current` of the search loop, one step back: lines 377-379. -/
def aladin_back (current : Nat) : Nat :=
  usub (if current = Aladin.RB_PROFILE_BEGIN then Aladin.RB_PROFILE_END else current) 1

/-! ## The Aladin buffer -/

/-- The offset of the logbook entry of iteration `i`, line 360 of
`uwatec_aladin.c`. -/
def aladin_offset (eol i : Nat) : Nat :=
  u32 (u32 ((usub (u32 (eol + 37)) i % 37) * 12) + Aladin.RB_PROFILE_END)

/-! ## The dives of the Aladin extraction -/

/-- What is asked of the dive number `j` of a trace: it is a dive block as
described, and when there is a device, its timestamp, which is the timestamp of
the logbook slot, is newer than the timestamp of the device. -/
def AladinGood (device : Option uwatec_aladin_device_t) (data : List Nat) (j : Nat)
    (d : List Nat × List Nat) : Prop :=
  AladinBlockOk data j d ∧ array_uint32_le d.2 = aladin_slot_timestamp data j ∧
    ∀ dev, device = some dev → dev.timestamp < array_uint32_le d.2

/-! ## An Aladin image with dated slots -/

/-- The image `aladin_sample` with a newest logbook slot that is newer than the
others: the first byte of its timestamp is `0xF0`. -/
def aladin_dated : List Nat := aladin_sample.set (HEADER + 0x600 + 7) 0xF0

/-! ## The VTPro page read as seen on the port -/

/-- One transfer of `oceanic_vtpro_device_read` as it is seen on the port: the
command that was acknowledged, the size of the answer that was asked for, the
return value of the `serial_read` of the answer and the answer array after
it. -/
structure PageTransfer where
  command : List Nat
  asize : Nat
  n : Int
  answer : List Nat
  deriving DecidableEq, Repr

/-- The transfers of the events `events`, which came after the trace `pre` on
the port `port`: every read of more than the one byte of an acknowledgement is
the answer read of a transfer; its command is the last write before it
(`command` when there was none among the events). -/
def vtpro_transfers (port : Port) :
    List SerialEvent → List Nat → List SerialEvent → List PageTransfer
  | _, _, [] => []
  | pre, _, SerialEvent.write d :: t =>
    vtpro_transfers port (pre ++ [SerialEvent.write d]) d t
  | pre, command, SerialEvent.read n :: t =>
    if n = 1 then vtpro_transfers port (pre ++ [SerialEvent.read n]) command t
    else
      { command := command
        asize := n
        n := (port.serial_read pre n).1
        answer := received (List.replicate ((PAGESIZE + 1) * MULTIPAGE) 0) n
          (port.serial_read pre n).1 (port.serial_read pre n).2 } ::
        vtpro_transfers port (pre ++ [SerialEvent.read n]) command t

/-- The number of transfers that a read of `size` bytes takes:
`ceil(size / (PAGESIZE*MULTIPAGE))`. -/
def vtpro_ntransfers (size : Nat) : Nat :=
  (size + (PAGESIZE * MULTIPAGE - 1)) / (PAGESIZE * MULTIPAGE)

/-- The first page of transfer `k` of a read that starts at page `first`. -/
def vtpro_first (first k : Nat) : Nat := first + MULTIPAGE * k

/-- The last page of transfer `k` of a read of `count` pages that starts at page
`first`: `MULTIPAGE` pages are asked for, or the pages that are left. -/
def vtpro_last (first count k : Nat) : Nat :=
  min (first + MULTIPAGE * k + (MULTIPAGE - 1)) (first + count - 1)

/-- The page-read command `34, hi(first), lo(first), hi(last), lo(last), 00`, with
the high and the low byte of the 16-bit page numbers. -/
def vtpro_page_command (first last : Nat) : List Nat :=
  [0x34, first / 256 % 256, first % 256, last / 256 % 256, last % 256, 0x00]

/-- The payload of page `i` of the answer of a transfer: sixteen bytes out of
every seventeen. -/
def vtpro_payload (t : PageTransfer) (i : Nat) : List Nat :=
  (t.answer.drop ((PAGESIZE + 1) * i)).take PAGESIZE

/-- The payloads of all pages of the answer of a transfer, in their order. -/
def vtpro_payloads (t : PageTransfer) : List Nat :=
  (List.range (t.asize / (PAGESIZE + 1))).flatMap (vtpro_payload t)

/-- Page `i` of the answer of the transfer arrived, and its seventeenth byte
differs from the 8-bit sum of its sixteen payload bytes. -/
def vtpro_bad_page (t : PageTransfer) (i : Nat) : Prop :=
  to_unsigned t.n = t.asize ∧ i < t.asize / (PAGESIZE + 1) ∧
    t.answer.getD ((PAGESIZE + 1) * i + PAGESIZE) 0 ≠ (vtpro_payload t i).sum % 256

/-- A port in front of the memory image `image`: every command is acknowledged,
and the answer to `34 first_hi first_lo last_hi last_lo 00` is the pages `first`
to `last` of the image, each followed by the 8-bit sum of its bytes. -/
def memory_port (image : List Nat) : Port :=
  { serial_write := fun _ data => data.length
    serial_read := fun trace size =>
      if size = 1 then (1, [ACK])
      else
        let command := last_write trace
        let first := 256 * command.getD 1 0 + command.getD 2 0
        let last := 256 * command.getD 3 0 + command.getD 4 0
        let answer := (List.range (last + 1 - first)).flatMap (fun i =>
          (image.drop (PAGESIZE * (first + i))).take PAGESIZE ++
            [checksum_add_uint8 (image.drop (PAGESIZE * (first + i))) PAGESIZE 0])
        ((answer.take size).length, answer.take size)
    cancelled := fun _ => false }

/-- A port that acknowledges every command and answers with bytes `1` only: the
seventeenth byte of a page is `1`, the sum of its payload `16`. -/
def garbled_port : Port :=
  { serial_write := fun _ data => data.length
    serial_read := fun _ size =>
      if size = 1 then (1, [ACK]) else (size, List.replicate size 1)
    cancelled := fun _ => false }

/-- A memory image of 256 bytes, byte `i` being `i`. -/
def page_image : List Nat := List.range 256

/-- The events of the sends of one command: writes of the command and reads of
the one byte of the acknowledgement. -/
def SendEvents (command : List Nat) (events : List SerialEvent) : Prop :=
  ∀ e ∈ events, e = SerialEvent.write command ∨ e = SerialEvent.read 1

/-! ## The Mares dump as seen on the port -/

/-- One `serial_read` as it is seen on the port: the size asked for, the return
value, and the content of a zeroed array of that size after the call. -/
structure PortRead where
  size : Nat
  n : Int
  bytes : List Nat
  deriving DecidableEq, Repr

/-- The reads among the events `events`, which came after the trace `pre` on the
port `port`, in their order. -/
def port_reads (port : Port) : List SerialEvent → List SerialEvent → List PortRead
  | _, [] => []
  | pre, SerialEvent.write d :: t => port_reads port (pre ++ [SerialEvent.write d]) t
  | pre, SerialEvent.read k :: t =>
    { size := k
      n := (port.serial_read pre k).1
      bytes := received (List.replicate k 0) k (port.serial_read pre k).1
        (port.serial_read pre k).2 } ::
      port_reads port (pre ++ [SerialEvent.read k]) t

/-- The first copy of a received pair: the first `PACKETSIZE` bytes. -/
def nemo_first (r : PortRead) : List Nat := r.bytes.take PACKETSIZE

/-- The second copy of a received pair: the `PACKETSIZE` bytes behind the checksum
of the first copy. -/
def nemo_second (r : PortRead) : List Nat := (r.bytes.drop (PACKETSIZE + 1)).take PACKETSIZE

/-- The byte behind the first copy is the 8-bit sum of the copy. -/
def nemo_first_ok (r : PortRead) : Bool :=
  decide (r.bytes.getD PACKETSIZE 0 = (nemo_first r).sum % 256)

/-- The byte behind the second copy is the 8-bit sum of the copy. -/
def nemo_second_ok (r : PortRead) : Bool :=
  decide (r.bytes.getD (PACKETSIZE * 2 + 1) 0 = (nemo_second r).sum % 256)

/-- Neither checksum of the pair matches, or both match and the copies differ. -/
def nemo_rejected (r : PortRead) : Bool :=
  (! nemo_first_ok r && ! nemo_second_ok r) ||
    (nemo_first_ok r && nemo_second_ok r && decide (nemo_first r ≠ nemo_second r))

/-- What a pair adds to the buffer: nothing when it did not arrive in full or is
rejected, otherwise the first copy when its checksum matches and the second
copy when only that one matches. -/
def nemo_block (r : PortRead) : List Nat :=
  if r.n = (((PACKETSIZE + 1) * 2 : Nat) : Int) ∧ nemo_rejected r = false then
    (if nemo_first_ok r then nemo_first r else nemo_second r)
  else []

/-- A read of one byte that arrived and gave `0xEE`. -/
def nemo_sync (r : PortRead) : Prop := r.n = 1 ∧ r.bytes = [0xEE]

/-- A Mares Nemo data stream: single bytes read are `0xEE`, and a packet read gives
the 32 bytes `1, 2, ..., 32` with their checksum and a second copy of them
whose checksum byte is damaged. -/
def nemo_damaged : Port :=
  { serial_write := fun _ data => data.length
    serial_read := fun _ size =>
      if size = 1 then (1, [0xEE])
      else (size, (List.range 32).map (fun i => i + 1) ++ [16] ++
        (List.range 32).map (fun i => i + 1) ++ [17])
    cancelled := fun _ => false }

/-! ## The Aladin header as seen on the port -/

/-- The number of bytes that the reads of a trace asked for. -/
def asked : List SerialEvent → Nat
  | [] => 0
  | SerialEvent.write _ :: t => asked t
  | SerialEvent.read k :: t => k + asked t

/-- A port on which the byte stream `stream` is received: a read gives the next
bytes of the stream, as many as are asked for and are left. The cancel flag is
never set. -/
def stream_port (stream : List Nat) : Port :=
  { serial_write := fun _ data => data.length
    serial_read := fun trace size =>
      ((((stream.drop (asked trace)).take size).length : Nat),
        (stream.drop (asked trace)).take size)
    cancelled := fun _ => false }

/-- The byte that the header loop of `uwatec_aladin_device_dump` expects at the
match position `i` (line 229): `i < 3 ? 0x55 : 0x00`. -/
def aladin_expected (i : Nat) : Nat := if i < 3 then 0x55 else 0x00

/-- The match position after the header bytes `bytes`, when it was `i` before
them: a byte that matches moves it on, any other byte sets it back to 0. -/
def aladin_position : Nat → List Nat → Nat
  | i, [] => i
  | i, b :: t => aladin_position (if b = aladin_expected i then i + 1 else 0) t

/-- The number of header bytes among `bytes` that did not match the expected byte
at the match position they met, when the position was `i` before them. -/
def aladin_mismatches : Nat → List Nat → Nat
  | _, [] => 0
  | i, b :: t =>
    if b = aladin_expected i then aladin_mismatches (i + 1) t
    else aladin_mismatches 0 t + 1

/-- The header is not complete before the last of the bytes `bytes`: every one of
them meets a match position below 4. -/
def aladin_unfinished : Nat → List Nat → Bool
  | _, [] => true
  | i, b :: t => decide (i < 4) && aladin_unfinished (if b = aladin_expected i then i + 1 else 0) t

/-- The number of `WAITING` events among the events. -/
def waitings : List DeviceEvent → Nat
  | [] => 0
  | DeviceEvent.waiting :: t => waitings t + 1
  | _ :: t => waitings t

/-- The header bytes that were received: the bytes of the reads of one byte that
arrived. -/
def header_bytes (reads : List PortRead) : List Nat :=
  (reads.filter (fun r => decide (r.size = 1) && decide (r.n = 1))).map
    (fun r => r.bytes.getD 0 0)

/-- The events of a step of a dump function. -/
def DumpStep.emitted : DumpStep → List DeviceEvent
  | DumpStep.next _ events _ => events
  | DumpStep.stop _ _ events => events

/-! ## An Aladin image with two dives -/

/-- The image `aladin_sample` with two dives instead of five: both have a start
marker in the profile ring. -/
def aladin_pair : List Nat := aladin_sample.set (HEADER + 0x7f3) 2

/-! ## The Aladin profile scan -/

/-- The number of times the body of the search loop of lines 376-386 of
`uwatec_aladin.c` runs when it is entered with `current`, counted up to
`fuel`: the loop of `aladin_search` with a counter. -/
def aladin_search_steps (data : List Nat) (eop : Nat) : Nat → Nat → Nat
  | 0, _ => 0
  | fuel + 1, current =>
    let current := if current = Aladin.RB_PROFILE_BEGIN then Aladin.RB_PROFILE_END else current
    let current := usub current 1
    if image_byte data (HEADER + current) = 0xFF then 1
    else if ¬ (current ≠ eop) then 1
    else aladin_search_steps data eop fuel current + 1

/-- The state of the dive loop of `uwatec_aladin_extract_dives` after `k`
iterations that went on; `none` when the loop has ended before. -/
def aladin_steps (callback : Option (List Event → List Nat → List Nat → Bool))
    (device : Option uwatec_aladin_device_t) (data : List Nat) (ndives eol eop searchfuel : Nat) :
    Nat → AladinState → Option AladinState
  | 0, s => some s
  | k + 1, s =>
    if ¬ (s.i < ndives) then none
    else match aladin_dive callback device data eol eop searchfuel s with
      | Step.stop _ => none
      | Step.next (s, stop) =>
        if stop then none
        else aladin_steps callback device data ndives eol eop searchfuel k s

/-- The number of search steps of the iteration that starts in the state `s`:
none when there is no such iteration or when the scan of the profile ring is
over. -/
def aladin_count (data : List Nat) (ndives eop searchfuel : Nat) : Option AladinState → Nat
  | some s =>
    if s.i < ndives ∧ s.profiles = true then aladin_search_steps data eop searchfuel s.current
    else 0
  | none => 0

/-- The state in which `uwatec_aladin_extract_dives` enters its dive loop, line
354. -/
def aladin_start (data : List Nat) : AladinState :=
  { i := 0, profiles := true, previous := Aladin.RB_PROFILE_NEXT (aladin_last data),
    current := Aladin.RB_PROFILE_NEXT (aladin_last data), trace := [] }

/-- The state of `uwatec_aladin_extract_dives` before the iteration `k` of its
dive loop; `none` when the function has returned before. -/
def aladin_state (callback : Option (List Event → List Nat → List Nat → Bool))
    (device : Option uwatec_aladin_device_t) (data : List Nat) (fuel k : Nat) :
    Option AladinState :=
  aladin_steps callback device data (aladin_ndives data) (aladin_eol data)
    (Aladin.RB_PROFILE_NEXT (aladin_last data)) fuel k (aladin_start data)

/-- The number of search steps of the iteration `k` of the dive loop of
`uwatec_aladin_extract_dives`. -/
def aladin_scanned (callback : Option (List Event → List Nat → List Nat → Bool))
    (device : Option uwatec_aladin_device_t) (data : List Nat) (fuel k : Nat) : Nat :=
  aladin_count data (aladin_ndives data) (Aladin.RB_PROFILE_NEXT (aladin_last data)) fuel
    (aladin_state callback device data fuel k)

/-- An Aladin image of 2048 bytes with one dive, whose only start marker sits at
`eop`: the pointer to the last profile byte is `0x0F`, the marker at the ring
offset `0x10`. -/
def aladin_ring : List Nat :=
  (List.replicate 2048 0).set (HEADER + 0x7f3) 1 |>.set (HEADER + 0x7f4) 1
    |>.set (HEADER + 0x7f6) 0x0F |>.set (HEADER + 0x10) 0xFF

/-- The place of the profile ring at which the search loop that is entered with
`current` ends: the steps of the loop back from `current`. -/
def aladin_scan_end (data : List Nat) (eop searchfuel current : Nat) : Nat :=
  (current + 0x600 - aladin_search_steps data eop searchfuel current) % 0x600

/-- The invariant of the dive loop of the Aladin extraction: the pointers lie
inside the profile ring; while the ring is scanned, `previous` is `current`;
and when the scan is over, `current` is `eop`. -/
def AladinScanInv (eop : Nat) (s : AladinState) : Prop :=
  s.current < 0x600 ∧ s.previous < 0x600 ∧ (s.profiles = true → s.previous = s.current) ∧
    (s.profiles = false → s.current = eop)

/-- The steps that are left to the search loops of the dive loop: the way from
`current` back to `eop`, a whole turn when `current` is `eop`, and nothing when
the scan is over. -/
def aladin_budget (eop : Nat) (s : AladinState) : Nat :=
  if s.profiles = true then (aladin_back s.current + 0x600 - eop) % 0x600 + 1 else 0

/-! ## The Suunto packet loop, read by read -/

/-- One read of the packet loop of a dive (lines 318-359 of `suunto_common2.c`):
the address `address - extra` that is read, the value of `offset` behind line
334 (the read stores to `data + offset - extra`), the values of `len` and
`extra`, and the size `len + extra` of the read. -/
structure SuuntoPacketRead where
  address : Nat
  offset : Nat
  len : Nat
  extra : Nat
  size : Nat
  deriving DecidableEq, Repr

/-- The reads of the packet loop of one dive, in their order: the loop of
`suunto_dive_read`, with the calls of `suunto_common2_device_read` written
down. -/
def suunto_dive_reads (env : SuuntoEnv) (progress_maximum remaining size retryfuel : Nat) :
    Nat → SuuntoReadState → List SuuntoPacketRead
  | fuel, s =>
    if ¬ (s.nbytes < size) then []
    else match fuel with
      | 0 => []
      | fuel + 1 =>
        let address := wrap_point Suunto.RB_PROFILE_BEGIN Suunto.RB_PROFILE_END s.address
        let len := suunto_packet_size address s.nbytes remaining
        let offset := usub s.offset len
        let address := usub address len
        let extra := suunto_extra len
        let r := suunto_common2_device_read env retryfuel s.trace (usub address extra)
          (u32 (len + extra))
        { address := usub address extra, offset := offset, len := len, extra := extra,
          size := u32 (len + extra) } ::
          (if r.outcome ≠ Outcome.returned SUCCESS then []
          else if offset < extra ∨ ¬ s.data.writable (offset - extra) (u32 (len + extra)) then []
          else
            let data := s.data.fill (offset - extra) (u32 (len + extra)) r.answer
            let progress_current := u32 (s.progress_current + len)
            let trace := r.trace ++ [SuuntoEvent.progress progress_current progress_maximum]
            suunto_dive_reads env progress_maximum remaining size retryfuel fuel
              { data := data, nbytes := u32 (s.nbytes + len), offset := offset,
                address := address, progress_current := progress_current, trace := trace })

/-- The reads of the iteration of the dive loop that starts in the state `s`: none
when the size check of lines 311-315 ends the run. -/
def suunto_block_reads (env : SuuntoEnv) (progress_maximum retryfuel readfuel : Nat)
    (s : SuuntoState) : List SuuntoPacketRead :=
  if ¬ (ringbuffer_defined s.current Suunto.RB_PROFILE_BEGIN Suunto.RB_PROFILE_END ∧
      ringbuffer_defined s.previous Suunto.RB_PROFILE_BEGIN Suunto.RB_PROFILE_END) then []
  else
    let size := Suunto.RB_PROFILE_DISTANCE s.current s.previous true
    if size < 4 ∨ size > s.remaining then []
    else
      suunto_dive_reads env progress_maximum s.remaining size retryfuel readfuel
        { data := s.data, nbytes := s.available, offset := s.offset, address := s.address,
          progress_current := s.progress_current, trace := s.trace }

/-- The reads of iteration `k` of the dive loop of a run of
`suunto_common2_device_foreach`; none when the run does not get that far. -/
def suunto_reads (env : SuuntoEnv) (device : suunto_common2_device_t) (fuel k : Nat) :
    List SuuntoPacketRead :=
  match suunto_foreach_head env fuel with
  | SuuntoStep.stop _ => []
  | SuuntoStep.next h =>
    match suunto_steps env device h.model h.progress_maximum fuel fuel h.state k with
    | none => []
    | some s =>
      if ¬ (s.remaining ≠ 0) then []
      else suunto_block_reads env h.progress_maximum fuel fuel s

/-- The bounds of a read of the packet loop: at least one new byte, a size of
`max (len, SZ_MINIMUM)` that is at most `SZ_PACKET`, and a target
`[offset - extra, offset + len)` inside the array `data`. -/
def SuuntoReadOk (r : SuuntoPacketRead) : Prop :=
  1 ≤ r.len ∧ r.size = r.len + r.extra ∧ r.size = max r.len SZ_MINIMUM ∧ r.size ≤ SZ_PACKET ∧
    r.extra ≤ r.offset ∧
    r.offset + r.len ≤ SZ_MINIMUM + Suunto.RB_PROFILE_END - Suunto.RB_PROFILE_BEGIN

/-- The invariant of the packet loop of a dive, with `remaining` bytes of the
profile ring left: the bytes read are not more than those, `offset` has gone
down by as much as `nbytes` has gone up, the address lies in the ring, and the
array `data` has its size. -/
def SuuntoReadInv (remaining : Nat) (s : SuuntoReadState) : Prop :=
  s.data.size = SZ_MINIMUM + Suunto.RB_PROFILE_END - Suunto.RB_PROFILE_BEGIN ∧
    s.nbytes ≤ remaining ∧ s.offset + s.nbytes = remaining + SZ_MINIMUM ∧
    Suunto.RB_PROFILE_BEGIN ≤ s.address ∧ s.address ≤ Suunto.RB_PROFILE_END

/-- The invariant of the dive loop of `suunto_common2_device_foreach`. -/
def SuuntoInv (s : SuuntoState) : Prop :=
  s.remaining ≤ Suunto.RB_PROFILE_END - Suunto.RB_PROFILE_BEGIN ∧
    SuuntoReadInv s.remaining
      { data := s.data, nbytes := s.available, offset := s.offset, address := s.address,
        progress_current := s.progress_current, trace := s.trace }

/-- A Suunto memory image with a full profile ring and a newest dive of four
bytes: the header at `0x0190` has `last = 0x01FC`, `count = 1`, `end = 0x0200`
and `begin = 0x0200`; the dive block at `0x01FC` holds `prev = 0` and
`next = 0x0200`. Every other byte is zero. -/
def suunto_short (a : Nat) : Nat :=
  if a = 0x0190 then 0xFC else if a = 0x0191 then 0x01
  else if a = 0x0192 then 0x01 else if a = 0x0193 then 0x00
  else if a = 0x0194 then 0x00 else if a = 0x0195 then 0x02
  else if a = 0x0196 then 0x00 else if a = 0x0197 then 0x02
  else if a = 0x01FE then 0x00 else if a = 0x01FF then 0x02
  else 0

/-! ## The Oceanic loops, write by write -/

/-- The positions of the entries that the entry scan of lines 351-372 examines,
in order: the loop of `scan_entries` with a log of every `current` at which
`array_isequal` and `memcmp` are called. -/
def scan_reads (logbooks : Buffer) (fingerprint : List Nat) (offset : Nat) :
    Nat → Nat → Nat → List Nat
  | fuel, current, begin_ =>
    if ¬ (current ≠ offset ∧ current ≠ begin_) then []
    else match fuel with
      | 0 => []
      | fuel + 1 =>
        let current := usub current (PAGESIZE / 2)
        current ::
          (if ¬ logbooks.readable current (PAGESIZE / 2) then []
          else
            let entry := logbooks.load current (PAGESIZE / 2)
            if array_isequal entry (PAGESIZE / 2) 0xFF then []
            else if entry = fingerprint then []
            else scan_reads logbooks fingerprint offset fuel current begin_)

/-- The state in which `foreach_logbooks` enters the logbook loop, lines
281-296. -/
def logbook_initial (device : oceanic_common_device_t) (layout : oceanic_common_layout_t)
    (h : Header) : LogState :=
  let w := logbook_window layout h.rb_logbook_first h.rb_logbook_last
  { logbooks := Buffer.malloc w.page_size, begin_ := window_begin w, nbytes := 0,
    current := window_end w, offset := w.page_size, address := w.page_end,
    progress_current := u32 (h.progress_current + PAGESIZE),
    trace := h.trace ++ [Event.progress (u32 (h.progress_current + PAGESIZE))
      (progress_maximum_logbook layout w)] }

/-- The state of the logbook loop after `k` iterations that went on; `none` when
the loop has ended before. -/
def logbook_steps (env : Env) (layout : oceanic_common_layout_t) (multipage : Nat)
    (fingerprint : List Nat) (w : Window) (progress_maximum scanfuel : Nat) :
    Nat → LogState → Option LogState
  | 0, s => some s
  | k + 1, s =>
    if ¬ (s.nbytes < w.page_size) then none
    else match logbook_page env layout multipage fingerprint w progress_maximum scanfuel s with
      | Step.stop _ => none
      | Step.next (s, abort) =>
        if abort then none
        else logbook_steps env layout multipage fingerprint w progress_maximum scanfuel k s

/-- The state of `foreach_logbooks` before the iteration `k` of its logbook loop;
`none` when the function has left the loop before. -/
def logbook_state (env : Env) (device : oceanic_common_device_t)
    (layout : oceanic_common_layout_t) (fuel : Nat) (h : Header) (k : Nat) : Option LogState :=
  let w := logbook_window layout h.rb_logbook_first h.rb_logbook_last
  if ¬ env.malloc_ok w.page_size then none
  else logbook_steps env layout device.multipage device.fingerprint w
    (progress_maximum_logbook layout w) fuel k (logbook_initial device layout h)

/-- The fill invariant of the logbook download loop for a good window, whatever
`device_read` answers: the buffer has `page_size` bytes, the bytes from
`offset` to the end of the buffer are determinate, with a full, unaligned ring
also the first entry of the buffer once a packet has been read, and `current`
is at `offset`, but not outside the valid entries. -/
structure LogFill (l : oceanic_common_layout_t) (w : Window) (s : LogState) : Prop where
  addr : LogAddrInv l w s
  size : s.logbooks.size = w.page_size
  off : s.offset + s.nbytes = w.page_size +
      (if w.full = true ∧ w.unaligned = true ∧ 0 < s.nbytes then 8 else 0) ∨
    (s.offset = 0 ∧ s.nbytes = w.page_size)
  filled : ∀ i, s.offset ≤ i → i < w.page_size → (s.logbooks.cell i).isSome = true
  low : w.full = true → w.unaligned = true → 0 < s.nbytes →
    ∀ i, i < 8 → (s.logbooks.cell i).isSome = true
  begin_ : s.begin_ = window_begin w
  cur : s.current = max (min s.offset (window_end w)) (window_begin w)

/-- What the logbook download loop leaves behind for a good window, whatever
`device_read` answers: the valid entries `[begin, end)` of the buffer are whole
entries and determinate. -/
structure LogDone (w : Window) (s : LogState) : Prop where
  le : s.begin_ ≤ window_end w
  al : (window_end w - s.begin_) % 8 = 0
  size : s.logbooks.size = w.page_size
  filled : ∀ i, s.begin_ ≤ i → i < window_end w → (s.logbooks.cell i).isSome = true

/-- The number of bytes asked for by the `device_read` requests of a trace. -/
def read_total (t : List Event) : Nat := ((reads t).map (fun r => r.2)).sum

/-- The writes of the packet loop of one dive, lines 447-476, in order: the loop
of `profile_read` with a log of `(offset, len)` for every packet, `offset`
being the value before line 460 takes `len` off; the packet goes to
`[offset - len, offset)` of the buffer. -/
def profile_read_log (env : Env) (layout : oceanic_common_layout_t) (multipage : Nat)
    (progress_maximum remaining rb_entry_size : Nat) : Nat → ReadState → List (Nat × Nat)
  | fuel, s =>
    if ¬ (s.nbytes < rb_entry_size) then []
    else match fuel with
      | 0 => []
      | fuel + 1 =>
        let address := wrap_point layout.rb_profile_begin layout.rb_profile_end s.address
        let len := packet_size layout.rb_profile_begin multipage address s.nbytes remaining
        let address := usub address len
        let offset := usub s.offset len
        let (rc, data) := env.device_read s.trace address len
        let trace := s.trace ++ [Event.read address len]
        (s.offset, len) ::
          (if rc ≠ SUCCESS then []
          else if ¬ s.profiles.writable offset len then []
          else
            let profiles := s.profiles.fill offset len data
            let progress_current := u32 (s.progress_current + len)
            let trace := trace ++ [Event.progress progress_current progress_maximum]
            profile_read_log env layout multipage progress_maximum remaining rb_entry_size fuel
              { profiles := profiles, nbytes := u32 (s.nbytes + len), offset := offset,
                address := address, progress_current := progress_current, trace := trace })

/-- The fill invariant of the packet loop of one dive, whatever `device_read`
answers: the buffer has `total` bytes, `offset` is the number of bytes that
are still to come, `remaining - nbytes` for the profiles and `D` for the
logbook entries, the `nbytes` bytes at `offset` are determinate, and the bytes
asked for so far and the profile bytes still to come add up to `C`. -/
structure ReadFill (l : oceanic_common_layout_t) (remaining D total C : Nat)
    (r : ReadState) : Prop where
  addr : ReadAddrInv l remaining r
  size : r.profiles.size = total
  off : r.offset = remaining - r.nbytes + D
  filled : ∀ j, j < r.nbytes → (r.profiles.cell (r.offset + j)).isSome = true
  bytes : read_total r.trace + (remaining - r.nbytes) = C

/-- The fill invariant of the profile download loop, whatever `device_read`
answers: the buffer has `total` bytes, `offset` is the number of bytes that
are still to come, `remaining - available` for the profiles and
`current - begin` for the logbook entries, the `available` bytes at `offset`
are determinate, the logbook entries in front of `current` are determinate,
and the bytes asked for so far and the profile bytes still to come add up to
the bytes asked for before the loop (`R0`) and `rb_profile_size` (`S`). -/
structure ProfFill (l : oceanic_common_layout_t) (logbooks : Buffer)
    (begin_ total S R0 : Nat) (s : ProfState) : Prop where
  addr : ProfAddrInv l s
  size : s.profiles.size = total
  cur_lo : begin_ ≤ s.current
  cur8 : (s.current - begin_) % 8 = 0
  cur32 : s.current < 4294967296
  off : s.offset = s.remaining - s.available + (s.current - begin_)
  tot : s.remaining + (s.current - begin_) ≤ total
  tot32 : total < 4294967296
  rem_le : s.remaining ≤ S
  filled : ∀ j, j < s.available → (s.profiles.cell (s.offset + j)).isSome = true
  entries : ∀ i, begin_ ≤ i → i < s.current → (logbooks.cell i).isSome = true
  lsize : s.current ≤ logbooks.size
  bytes : read_total s.trace + (s.remaining - s.available) = R0 + S

/-- The state in which the logbook part of a run over `sample_image` with
`multipage = 1` hands over to the profile part: the pointers `first = 0x28`,
`last = 0x20`, a full ring of four entries. -/
def sample_logstate : LogState :=
  match foreach_logbooks (image_env sample_image accept_all)
      (sample_device [0, 0, 0, 0, 0, 0, 0, 0] 1) sample_layout 32
      { rb_logbook_first := 0x28, rb_logbook_last := 0x20, progress_current := 16,
        trace := [] } with
  | Step.next s => s
  | Step.stop r =>
    { logbooks := Buffer.malloc 0, begin_ := 0, nbytes := 0, current := 0, offset := 0,
      address := 0, progress_current := 0, trace := r.trace }

/-! ## Ring arithmetic: properties -/

/-- For in-range arguments the distance is the difference, wrapped once. -/
theorem ringbuffer_distance_eq (a b lo hi : Nat) (mode : Bool)
    (ha : lo ≤ a ∧ a < hi) (hb : lo ≤ b ∧ b < hi) :
    ringbuffer_distance a b mode lo hi =
      if a = b then (if mode then hi - lo else 0)
      else if a < b then b - a else hi - lo - (a - b) := by
  unfold ringbuffer_distance
  by_cases hab : a = b
  · simp [hab]
  · simp only [hab, if_false]
    by_cases hlt : a < b
    · simp only [hlt, if_true]
      have h1 : ((b : Int) - (a : Int)) % ((hi : Int) - (lo : Int)) = (b : Int) - (a : Int) :=
        Int.emod_eq_of_lt (by omega) (by omega)
      rw [h1]; omega
    · simp only [hlt, if_false]
      have h1 : ((b : Int) - (a : Int)) % ((hi : Int) - (lo : Int))
          = (b : Int) - (a : Int) + ((hi : Int) - (lo : Int)) := by
        rw [← Int.add_emod_self]
        exact Int.emod_eq_of_lt (by omega) (by omega)
      rw [h1]; omega

/-- For an in-range start and a step of at most one ring length the increment
wraps at most once. -/
theorem ringbuffer_increment_eq (a n lo hi : Nat)
    (ha : lo ≤ a ∧ a < hi) (hn : n ≤ hi - lo) :
    ringbuffer_increment a n lo hi =
      if a + n < hi then a + n else a + n - (hi - lo) := by
  unfold ringbuffer_increment
  by_cases hlt : a + n < hi
  · simp only [hlt, if_true]
    have h1 : ((a : Int) - (lo : Int) + (n : Int)) % ((hi : Int) - (lo : Int))
        = (a : Int) - (lo : Int) + (n : Int) :=
      Int.emod_eq_of_lt (by omega) (by omega)
    rw [h1]; omega
  · simp only [hlt, if_false]
    have h1 : ((a : Int) - (lo : Int) + (n : Int)) % ((hi : Int) - (lo : Int))
        = (a : Int) - (lo : Int) + (n : Int) - ((hi : Int) - (lo : Int)) := by
      have h2 : (a : Int) - (lo : Int) + (n : Int)
          = ((a : Int) - (lo : Int) + (n : Int) - ((hi : Int) - (lo : Int)))
              + ((hi : Int) - (lo : Int)) := by ring
      rw [h2, Int.add_emod_self]
      have h3 := Int.emod_eq_of_lt
        (show (0 : Int) ≤ (a : Int) - (lo : Int) + (n : Int) - ((hi : Int) - (lo : Int)) by omega)
        (show (a : Int) - (lo : Int) + (n : Int) - ((hi : Int) - (lo : Int))
            < (hi : Int) - (lo : Int) by omega)
      rw [h3]; ring
    rw [h1]; omega

/-- Claim C1. Ring arithmetic over `[lo, hi)` with `L = hi - lo > 0`: for all
`a, b` in the ring and every flag, the distance lies in `[0, L]`, is
`(b - a) mod L` when `a ≠ b`, is `L` when `a = b` and the flag is set, is `0`
when `a = b` and the flag is clear; and incrementing `a` by the distance to `b`
(flag clear) gives `b`. -/
theorem ring_arithmetic (lo hi a b : Nat) (full : Bool)
    (hL : lo < hi) (ha : lo ≤ a ∧ a < hi) (hb : lo ≤ b ∧ b < hi) :
    ringbuffer_distance a b full lo hi ≤ hi - lo ∧
    (a ≠ b → (ringbuffer_distance a b full lo hi : Int)
        = ((b : Int) - (a : Int)) % (((hi - lo : Nat) : Int))) ∧
    (a = b → full = true → ringbuffer_distance a b full lo hi = hi - lo) ∧
    (a = b → full = false → ringbuffer_distance a b full lo hi = 0) ∧
    ringbuffer_increment a (ringbuffer_distance a b false lo hi) lo hi = b := by
  refine ⟨?_, ?_, ?_, ?_, ?_⟩
  · rw [ringbuffer_distance_eq a b lo hi full ha hb]
    split_ifs <;> omega
  · intro hab
    have hcast : (((hi - lo : Nat) : Int)) = (hi : Int) - (lo : Int) := by omega
    rw [hcast]
    unfold ringbuffer_distance
    simp only [hab, if_false]
    apply Int.toNat_of_nonneg
    exact Int.emod_nonneg _ (by omega)
  · intro hab hf
    simp [ringbuffer_distance, hab, hf]
  · intro hab hf
    simp [ringbuffer_distance, hab, hf]
  · have hd := ringbuffer_distance_eq a b lo hi false ha hb
    have hle : ringbuffer_distance a b false lo hi ≤ hi - lo := by
      rw [hd]; split_ifs <;> omega
    rw [ringbuffer_increment_eq a _ lo hi ha hle, hd]
    split_ifs <;> omega

/-- Witness of `ring_arithmetic` on the VTPro logbook ring `[0x240, 0x440)`. -/
theorem ring_arithmetic_witness :
    ringbuffer_distance 0x438 0x240 true 0x240 0x440 ≤ 0x440 - 0x240 ∧
    ringbuffer_increment 0x438 (ringbuffer_distance 0x438 0x240 false 0x240 0x440)
      0x240 0x440 = 0x240 :=
  have h := ring_arithmetic 0x240 0x440 0x438 0x240 true (by decide) (by decide) (by decide)
  ⟨h.1, h.2.2.2.2⟩

/-! ## Traces and the header -/

/-- Out-of-range pointers give an empty window at the start of the logbook ring. -/
theorem window_empty (layout : oceanic_common_layout_t) (first last : Nat)
    (hb : layout.rb_logbook_begin % PAGESIZE = 0) (hb32 : layout.rb_logbook_begin < 4294967296)
    (hout : first < layout.rb_logbook_begin ∨ first ≥ layout.rb_logbook_end ∨
        last < layout.rb_logbook_begin ∨ last ≥ layout.rb_logbook_end) :
    (logbook_window layout first last).page_size = 0 ∧
    (logbook_window layout first last).entry_begin = layout.rb_logbook_begin ∧
    (logbook_window layout first last).entry_end = layout.rb_logbook_begin ∧
    (logbook_window layout first last).page_begin = layout.rb_logbook_begin ∧
    (logbook_window layout first last).page_end = layout.rb_logbook_begin := by
  unfold logbook_window
  simp only [hout, if_true]
  have hP : PAGESIZE = 16 := rfl
  rw [hP] at hb ⊢
  have hc : iceil layout.rb_logbook_begin 16 = layout.rb_logbook_begin := by
    unfold iceil usub u32; omega
  have hf : ifloor layout.rb_logbook_begin 16 = layout.rb_logbook_begin := by
    unfold ifloor u32; omega
  rw [hc, hf]
  refine ⟨?_, trivial, trivial, ?_, ?_⟩
  · split_ifs with h
    · rfl
    · simp only [usub, u32]; omega
  · split_ifs <;> rfl
  · rfl


/-- The reads of a concatenated trace. -/
theorem reads_append (t u : List Event) : reads (t ++ u) = reads t ++ reads u := by
  induction t with
  | nil => rfl
  | cons e t ih => cases e <;> simp [reads, ih]

/-- The callback invocations of a concatenated trace. -/
theorem dives_append (t u : List Event) : dives (t ++ u) = dives t ++ dives u := by
  induction t with
  | nil => rfl
  | cons e t ih => cases e <;> simp [dives, ih]

/-- The first part of `foreach` issues exactly the two header reads. -/
theorem foreach_header_trace (env : Env) (layout : oceanic_common_layout_t) (h : Header)
    (hhead : foreach_header env layout = Step.next h) :
    reads h.trace = [(layout.cf_devinfo, PAGESIZE), (layout.cf_pointers, PAGESIZE)] ∧
    dives h.trace = [] := by
  unfold foreach_header at hhead
  simp only at hhead
  split_ifs at hhead <;> simp only [Step.next.injEq, reduceCtorEq] at hhead <;>
    subst hhead <;> simp [reads, dives]

/-! ## The fingerprint -/

/-- Claim C2. `oceanic_common_device_set_fingerprint` returns `ERROR` exactly when
`size` is neither 0 nor 8; on `ERROR` the device (and so the stored
fingerprint) is unchanged; for size 0 the stored fingerprint becomes eight zero
bytes, for size 8 it becomes the eight supplied bytes; in both cases the result
is `SUCCESS` and base, layout and multipage are unchanged. -/
theorem set_fingerprint_contract (device : oceanic_common_device_t) (data : List Nat)
    (size : Nat) (hdata : data.length = size) :
    ((oceanic_common_device_set_fingerprint device data size).1 = ERROR
        ↔ (size ≠ 0 ∧ size ≠ 8)) ∧
    ((oceanic_common_device_set_fingerprint device data size).1 = ERROR →
        (oceanic_common_device_set_fingerprint device data size).2 = device) ∧
    (size = 0 →
        oceanic_common_device_set_fingerprint device data size
          = (SUCCESS, { device with fingerprint := [0, 0, 0, 0, 0, 0, 0, 0] })) ∧
    (size = 8 →
        oceanic_common_device_set_fingerprint device data size
          = (SUCCESS, { device with fingerprint := data })) := by
  unfold oceanic_common_device_set_fingerprint
  have hfp : FP_SIZE = 8 := rfl
  rw [hfp]
  by_cases h0 : size = 0
  · subst h0
    refine ⟨?_, ?_, ?_, ?_⟩
    · simp
    · simp
    · intro _; simp [List.replicate]
    · intro h; omega
  · by_cases h8 : size = 8
    · subst h8
      refine ⟨?_, ?_, ?_, ?_⟩
      · simp
      · simp
      · intro h; omega
      · intro _
        have : List.take 8 data = data := List.take_of_length_le (by omega)
        simp [this]
    · refine ⟨?_, ?_, ?_, ?_⟩
      · simp [h0, h8]
      · simp [h0, h8]
      · intro h; omega
      · intro h; omega

/-- Witness of `set_fingerprint_contract`: eight bytes are stored as they are. -/
theorem set_fingerprint_contract_witness :
    oceanic_common_device_set_fingerprint (oceanic_common_device_init 0)
        [1, 2, 3, 4, 5, 6, 7, 8] 8
      = (SUCCESS, { oceanic_common_device_init 0 with
                      fingerprint := [1, 2, 3, 4, 5, 6, 7, 8] }) :=
  (set_fingerprint_contract (oceanic_common_device_init 0) [1, 2, 3, 4, 5, 6, 7, 8] 8
    (by decide)).2.2.2 rfl

/-! ## The logbook window -/

/-- Claim C3. Empty logbook: when the header part of `foreach` has read the two
pages and one of the two logbook pointers lies outside
`[rb_logbook_begin, rb_logbook_end)`, `oceanic_common_device_foreach` returns
`SUCCESS`, never invokes the callback and issues exactly the two reads of the
device-info page and of the pointers page. The logbook ring starts on a page
boundary and the (empty) allocation succeeds. -/
theorem foreach_empty_logbook (env : Env) (device : oceanic_common_device_t)
    (layout : oceanic_common_layout_t) (fuel : Nat) (h : Header)
    (hlayout : device.layout = some layout)
    (hb : layout.rb_logbook_begin % PAGESIZE = 0)
    (hb32 : layout.rb_logbook_begin < 4294967296)
    (hmalloc : env.malloc_ok 0 = true)
    (hhead : foreach_header env layout = Step.next h)
    (hout : h.rb_logbook_first < layout.rb_logbook_begin ∨
      h.rb_logbook_first ≥ layout.rb_logbook_end ∨
      h.rb_logbook_last < layout.rb_logbook_begin ∨
      h.rb_logbook_last ≥ layout.rb_logbook_end) :
    (oceanic_common_device_foreach env device fuel).outcome = Outcome.returned SUCCESS ∧
    dives (oceanic_common_device_foreach env device fuel).trace = [] ∧
    reads (oceanic_common_device_foreach env device fuel).trace
      = [(layout.cf_devinfo, PAGESIZE), (layout.cf_pointers, PAGESIZE)] := by
  obtain ⟨hps, hb1, hb2, hb3, hb4⟩ :=
    window_empty layout h.rb_logbook_first h.rb_logbook_last hb hb32 hout
  obtain ⟨hr, hd⟩ := foreach_header_trace env layout h hhead
  have hwe : window_end (logbook_window layout h.rb_logbook_first h.rb_logbook_last) = 0 := by
    unfold window_end
    rw [hps, hb2, hb4]
    split_ifs <;> simp only [usub, u32] <;> omega
  have hwb : window_begin (logbook_window layout h.rb_logbook_first h.rb_logbook_last) = 0 := by
    unfold window_begin
    rw [hb1, hb3]
    split_ifs <;> simp only [usub, u32] <;> omega
  have hlog : foreach_logbooks env device layout fuel h = Step.next
      { logbooks := Buffer.malloc 0, begin_ := 0, nbytes := 0, current := 0, offset := 0,
        address := layout.rb_logbook_begin,
        progress_current := u32 (h.progress_current + PAGESIZE),
        trace := h.trace ++ [Event.progress (u32 (h.progress_current + PAGESIZE))
          (progress_maximum_logbook layout
            (logbook_window layout h.rb_logbook_first h.rb_logbook_last))] } := by
    unfold foreach_logbooks
    simp only [hps, hmalloc, hwe, hwb, hb4, not_true_eq_false, if_false]
    cases fuel <;> simp [logbook_loop, hps]
  unfold oceanic_common_device_foreach
  simp only [hlayout, hhead, hlog, hwe]
  simp [foreach_profiles, profile_start, reads_append, dives_append, hr, hd, reads, dives]

/-- Witness of `foreach_empty_logbook`: a VTPro whose memory is all `0xFF`, so
that both pointers are `0xFFFF`. -/
theorem foreach_empty_logbook_witness :
    (oceanic_common_device_foreach (image_env (fun _ => 0xFF) none)
        (vtpro_device [0, 0, 0, 0, 0, 0, 0, 0]) 0).outcome = Outcome.returned SUCCESS ∧
    dives (oceanic_common_device_foreach (image_env (fun _ => 0xFF) none)
        (vtpro_device [0, 0, 0, 0, 0, 0, 0, 0]) 0).trace = [] ∧
    reads (oceanic_common_device_foreach (image_env (fun _ => 0xFF) none)
        (vtpro_device [0, 0, 0, 0, 0, 0, 0, 0]) 0).trace
      = [(0x0000, 0x10), (0x0040, 0x10)] :=
  foreach_empty_logbook (image_env (fun _ => 0xFF) none) (vtpro_device [0, 0, 0, 0, 0, 0, 0, 0])
    oceanic_vtpro_layout 0
    { rb_logbook_first := 0xFFFF
      rb_logbook_last := 0xFFFF
      progress_current := 16
      trace := [Event.progress 0 0x7DE0, Event.read 0 16, Event.progress 16 0x7DE0,
                Event.devinfo 0xFFFF 0 1666665, Event.read 0x40 16] }
    rfl (by decide) (by decide) rfl rfl (by decide)

/-- Claim C4. `FIRST_LAST` normalisation: for in-range pointers and
`pt_mode_global = 0` the engine computes `begin = first`,
`end = increment (last, PAGESIZE / 2)`,
`size = distance (first, last) + PAGESIZE / 2` and `full = (size == L)`; for the
VTPro layout with `first = 0x240`, `last = 0x438` it computes `size = 0x200`,
`full = true`, `unaligned = false` and `page_size = 0x200`. -/
theorem foreach_first_last (layout : oceanic_common_layout_t) (first last : Nat)
    (hmode : layout.pt_mode_global = 0)
    (hfirst : layout.rb_logbook_begin ≤ first ∧ first < layout.rb_logbook_end)
    (hlast : layout.rb_logbook_begin ≤ last ∧ last < layout.rb_logbook_end)
    (h32 : layout.rb_logbook_end + PAGESIZE / 2 < 4294967296) :
    ((logbook_window layout first last).entry_begin = first ∧
     (logbook_window layout first last).entry_end
        = ringbuffer_increment last (PAGESIZE / 2) layout.rb_logbook_begin layout.rb_logbook_end ∧
     (logbook_window layout first last).entry_size
        = ringbuffer_distance first last false layout.rb_logbook_begin layout.rb_logbook_end
            + PAGESIZE / 2 ∧
     (logbook_window layout first last).full
        = decide ((logbook_window layout first last).entry_size
            = layout.rb_logbook_end - layout.rb_logbook_begin)) ∧
    ((logbook_window oceanic_vtpro_layout 0x240 0x438).entry_size = 0x200 ∧
     (logbook_window oceanic_vtpro_layout 0x240 0x438).full = true ∧
     (logbook_window oceanic_vtpro_layout 0x240 0x438).unaligned = false ∧
     (logbook_window oceanic_vtpro_layout 0x240 0x438).page_size = 0x200) := by
  have hout : ¬ (first < layout.rb_logbook_begin ∨ first ≥ layout.rb_logbook_end ∨
      last < layout.rb_logbook_begin ∨ last ≥ layout.rb_logbook_end) := by omega
  have hP : PAGESIZE / 2 = 8 := rfl
  rw [hP] at h32
  have hL : usub layout.rb_logbook_end layout.rb_logbook_begin
      = layout.rb_logbook_end - layout.rb_logbook_begin := by
    unfold usub; omega
  have hd := ringbuffer_distance_eq first last layout.rb_logbook_begin layout.rb_logbook_end
    false hfirst hlast
  have hdle : ringbuffer_distance first last false layout.rb_logbook_begin layout.rb_logbook_end
      < layout.rb_logbook_end - layout.rb_logbook_begin := by
    rw [hd]; simp only [Bool.false_eq_true, if_false]; split_ifs <;> omega
  have hi : ringbuffer_increment last 8 layout.rb_logbook_begin layout.rb_logbook_end
      < layout.rb_logbook_end := by
    unfold ringbuffer_increment
    have := Int.emod_lt_of_pos ((last : Int) - (layout.rb_logbook_begin : Int) + ((8 : Nat) : Int))
      (show (0 : Int) < (layout.rb_logbook_end : Int) - (layout.rb_logbook_begin : Int) by omega)
    omega
  have hsz : (logbook_window layout first last).entry_size
      = ringbuffer_distance first last false layout.rb_logbook_begin layout.rb_logbook_end + 8 := by
    simp only [logbook_window, hout, hmode, if_true, if_false, RB_LOGBOOK_DISTANCE, hP, u32]
    omega
  refine ⟨⟨?_, ?_, ?_, ?_⟩, ?_⟩
  · simp only [logbook_window, hout, if_false]
  · simp only [logbook_window, hout, hmode, if_true, if_false, RB_LOGBOOK_INCR, hP, u32]
    omega
  · rw [hP]; exact hsz
  · simp only [logbook_window, hL]
  · decide

/-- Witness of `foreach_first_last` on the VTPro layout with the pointers
`0x240` and `0x438`. -/
theorem foreach_first_last_witness :
    (logbook_window oceanic_vtpro_layout 0x240 0x438).entry_begin = 0x240 ∧
    (logbook_window oceanic_vtpro_layout 0x240 0x438).entry_end
      = ringbuffer_increment 0x438 (PAGESIZE / 2) 0x240 0x440 :=
  have h := foreach_first_last oceanic_vtpro_layout 0x240 0x438 rfl (by decide) (by decide)
    (by decide)
  ⟨h.1.1, h.1.2.1⟩

/-- Claim C5. `BEGIN_END` normalisation: for in-range pointers and
`pt_mode_global ≠ 0` the engine computes `begin = first`, `end = last` and
`size = distance (first, last)`, except that for `first = last` it sets
`size = L`; then `full` holds, and the size is never zero. -/
theorem foreach_begin_end (layout : oceanic_common_layout_t) (first last : Nat)
    (hmode : layout.pt_mode_global ≠ 0)
    (hfirst : layout.rb_logbook_begin ≤ first ∧ first < layout.rb_logbook_end)
    (hlast : layout.rb_logbook_begin ≤ last ∧ last < layout.rb_logbook_end)
    (h32 : layout.rb_logbook_end < 4294967296) :
    (logbook_window layout first last).entry_begin = first ∧
    (logbook_window layout first last).entry_end = last ∧
    (first ≠ last →
      (logbook_window layout first last).entry_size
        = ringbuffer_distance first last false layout.rb_logbook_begin layout.rb_logbook_end) ∧
    (first = last →
      (logbook_window layout first last).entry_size
        = layout.rb_logbook_end - layout.rb_logbook_begin) ∧
    (logbook_window layout first last).full
      = decide ((logbook_window layout first last).entry_size
          = layout.rb_logbook_end - layout.rb_logbook_begin) ∧
    (first = last → (logbook_window layout first last).full = true) ∧
    (logbook_window layout first last).entry_size ≠ 0 := by
  have hout : ¬ (first < layout.rb_logbook_begin ∨ first ≥ layout.rb_logbook_end ∨
      last < layout.rb_logbook_begin ∨ last ≥ layout.rb_logbook_end) := by omega
  have hL : usub layout.rb_logbook_end layout.rb_logbook_begin
      = layout.rb_logbook_end - layout.rb_logbook_begin := by
    unfold usub; omega
  have hd := ringbuffer_distance_eq first last layout.rb_logbook_begin layout.rb_logbook_end
    false hfirst hlast
  simp only [Bool.false_eq_true, if_false] at hd
  have hsz : (logbook_window layout first last).entry_size
      = if first = last then layout.rb_logbook_end - layout.rb_logbook_begin
        else ringbuffer_distance first last false layout.rb_logbook_begin
          layout.rb_logbook_end := by
    simp only [logbook_window, hout, hmode, if_false, RB_LOGBOOK_DISTANCE, hL, u32]
    split_ifs with h
    · rfl
    · rw [hd]; simp only [h, if_false]; split_ifs <;> omega
  have hfull : (logbook_window layout first last).full
      = decide ((logbook_window layout first last).entry_size
          = layout.rb_logbook_end - layout.rb_logbook_begin) := by
    simp only [logbook_window, hL]
  refine ⟨?_, ?_, ?_, ?_, hfull, ?_, ?_⟩
  · simp only [logbook_window, hout, if_false]
  · simp only [logbook_window, hout, hmode, if_false]
  · intro h; rw [hsz]; simp only [h, if_false]
  · intro h; rw [hsz]; simp only [h, if_true]
  · intro h; rw [hfull, hsz]; simp only [h, if_true, decide_True]
  · rw [hsz, hd]; split_ifs <;> omega

/-- Witness of `foreach_begin_end`: a `BEGIN_END` variant of the VTPro layout with
both pointers at `0x300`. -/
theorem foreach_begin_end_witness :
    (logbook_window { oceanic_vtpro_layout with pt_mode_global := 1 } 0x300 0x300).entry_size
      = 0x440 - 0x240 ∧
    (logbook_window { oceanic_vtpro_layout with pt_mode_global := 1 } 0x300 0x300).full = true :=
  have h := foreach_begin_end { oceanic_vtpro_layout with pt_mode_global := 1 } 0x300 0x300
    (by decide) (by decide) (by decide) (by decide)
  ⟨h.2.2.2.1 rfl, h.2.2.2.2.2.1 rfl⟩

/-! ## Page-aligned reads -/

/-- An `unsigned int` value is not changed by the reduction. -/
theorem u32_eq (x : Nat) (h : x < 4294967296) : u32 x = x := Nat.mod_eq_of_lt h

/-- The reduction gives an `unsigned int`. -/
theorem u32_lt (x : Nat) : u32 x < 4294967296 := Nat.mod_lt _ (by decide)

/-- Unsigned subtraction without underflow. -/
theorem usub_eq (a b : Nat) (hb : b ≤ a) (ha : a < 4294967296) : usub a b = a - b := by
  unfold usub; omega

/-- Unsigned subtraction gives an `unsigned int`. -/
theorem usub_lt (a b : Nat) : usub a b < 4294967296 := Nat.mod_lt _ (by decide)

/-- `iceil` without overflow. -/
theorem iceil_eq (x : Nat) (h : x + 16 < 4294967296) : iceil x 16 = (x + 15) / 16 * 16 := by
  unfold iceil
  rw [u32_eq (x + 16) (by omega), usub_eq (x + 16) 1 (by omega) (by omega)]
  have : x + 16 - 1 = x + 15 := by omega
  rw [this]
  exact u32_eq _ (by omega)

/-- `ifloor` without overflow. -/
theorem ifloor_eq (x : Nat) (h : x < 4294967296) : ifloor x 16 = x / 16 * 16 := by
  unfold ifloor
  exact u32_eq _ (by omega)

/-- The window of in-range pointers, in closed form. -/
theorem window_in_range (l : oceanic_common_layout_t) (first last : Nat)
    (hfirst : l.rb_logbook_begin ≤ first ∧ first < l.rb_logbook_end)
    (hlast : l.rb_logbook_begin ≤ last ∧ last < l.rb_logbook_end)
    (hL : 8 ≤ l.rb_logbook_end - l.rb_logbook_begin)
    (h32 : l.rb_logbook_end ≤ 1073741824) :
    ∃ e d : Nat,
      (logbook_window l first last).entry_begin = first ∧
      (logbook_window l first last).entry_end = e ∧
      (logbook_window l first last).entry_size = d ∧
      (logbook_window l first last).full = decide (d = l.rb_logbook_end - l.rb_logbook_begin) ∧
      (logbook_window l first last).page_end = (e + 15) / 16 * 16 ∧
      (logbook_window l first last).page_begin
        = (if d = l.rb_logbook_end - l.rb_logbook_begin then (e + 15) / 16 * 16
           else first / 16 * 16) ∧
      (logbook_window l first last).page_size
        = (if d = l.rb_logbook_end - l.rb_logbook_begin then d
           else d + (first - first / 16 * 16) + ((e + 15) / 16 * 16 - e)) ∧
      (logbook_window l first last).unaligned = decide (e ≠ (e + 15) / 16 * 16) ∧
      l.rb_logbook_begin ≤ e ∧ e < l.rb_logbook_end ∧
      d ≤ l.rb_logbook_end - l.rb_logbook_begin + 8 ∧
      (l.pt_mode_global = 0 →
        e = (if last + 8 < l.rb_logbook_end then last + 8
             else last + 8 - (l.rb_logbook_end - l.rb_logbook_begin)) ∧
        d = (if first = last then 0 else if first < last then last - first
             else l.rb_logbook_end - l.rb_logbook_begin - (first - last)) + 8) ∧
      (l.pt_mode_global ≠ 0 →
        e = last ∧
        d = (if first = last then l.rb_logbook_end - l.rb_logbook_begin
             else if first < last then last - first
             else l.rb_logbook_end - l.rb_logbook_begin - (first - last))) := by
  have hP : PAGESIZE = 16 := rfl
  have hP2 : PAGESIZE / 2 = 8 := rfl
  have hout : ¬ (first < l.rb_logbook_begin ∨ first ≥ l.rb_logbook_end ∨
      last < l.rb_logbook_begin ∨ last ≥ l.rb_logbook_end) := by omega
  have hd := ringbuffer_distance_eq first last l.rb_logbook_begin l.rb_logbook_end
    false hfirst hlast
  have hi := ringbuffer_increment_eq last 8 l.rb_logbook_begin l.rb_logbook_end hlast hL
  simp only [Bool.false_eq_true, if_false] at hd
  have hLs : usub l.rb_logbook_end l.rb_logbook_begin = l.rb_logbook_end - l.rb_logbook_begin :=
    usub_eq _ _ (by omega) (by omega)
  -- the entry pointers
  obtain ⟨e, d, he, hd', hebound, hdbound, hm0, hm1⟩ : ∃ e d : Nat,
      (logbook_window l first last).entry_end = e ∧
      (logbook_window l first last).entry_size = d ∧
      (l.rb_logbook_begin ≤ e ∧ e < l.rb_logbook_end) ∧
      d ≤ l.rb_logbook_end - l.rb_logbook_begin + 8 ∧
      (l.pt_mode_global = 0 →
        e = (if last + 8 < l.rb_logbook_end then last + 8
             else last + 8 - (l.rb_logbook_end - l.rb_logbook_begin)) ∧
        d = (if first = last then 0 else if first < last then last - first
             else l.rb_logbook_end - l.rb_logbook_begin - (first - last)) + 8) ∧
      (l.pt_mode_global ≠ 0 →
        e = last ∧
        d = (if first = last then l.rb_logbook_end - l.rb_logbook_begin
             else if first < last then last - first
             else l.rb_logbook_end - l.rb_logbook_begin - (first - last))) := by
    by_cases hmode : l.pt_mode_global = 0
    · refine ⟨_, _, rfl, rfl, ?_, ?_, ?_, ?_⟩
      · simp only [logbook_window, hout, hmode, if_true, if_false, RB_LOGBOOK_INCR, hP2, hi]
        rw [u32_eq _ (by split_ifs <;> omega)]
        split_ifs <;> omega
      · simp only [logbook_window, hout, hmode, if_true, if_false, RB_LOGBOOK_DISTANCE, hP2, hd]
        rw [u32_eq (if first = last then 0 else if first < last then last - first
             else l.rb_logbook_end - l.rb_logbook_begin - (first - last)) (by split_ifs <;> omega)]
        rw [u32_eq _ (by split_ifs <;> omega)]
        split_ifs <;> omega
      · intro _
        simp only [logbook_window, hout, hmode, if_true, if_false, RB_LOGBOOK_INCR,
          RB_LOGBOOK_DISTANCE, hP2, hi, hd]
        rw [u32_eq (if last + 8 < l.rb_logbook_end then last + 8
             else last + 8 - (l.rb_logbook_end - l.rb_logbook_begin)) (by split_ifs <;> omega)]
        rw [u32_eq (if first = last then 0 else if first < last then last - first
             else l.rb_logbook_end - l.rb_logbook_begin - (first - last)) (by split_ifs <;> omega)]
        rw [u32_eq _ (by split_ifs <;> omega)]
        exact ⟨rfl, rfl⟩
      · intro h; exact absurd hmode h
    · refine ⟨_, _, rfl, rfl, ?_, ?_, ?_, ?_⟩
      · simp only [logbook_window, hout, hmode, if_false]
        omega
      · simp only [logbook_window, hout, hmode, if_false, RB_LOGBOOK_DISTANCE, hd, hLs]
        rw [u32_eq (if first = last then 0 else if first < last then last - first
             else l.rb_logbook_end - l.rb_logbook_begin - (first - last)) (by split_ifs <;> omega)]
        split_ifs <;> omega
      · intro h; exact absurd h hmode
      · intro _
        simp only [logbook_window, hout, hmode, if_false, RB_LOGBOOK_DISTANCE, hd, hLs]
        rw [u32_eq (if first = last then 0 else if first < last then last - first
             else l.rb_logbook_end - l.rb_logbook_begin - (first - last)) (by split_ifs <;> omega)]
        refine ⟨trivial, ?_⟩
        split_ifs <;> rfl
  have hbeg : (logbook_window l first last).entry_begin = first := by
    simp only [logbook_window, hout, if_false]
  have hce : iceil e 16 = (e + 15) / 16 * 16 := iceil_eq e (by omega)
  have hff : ifloor first 16 = first / 16 * 16 := ifloor_eq first (by omega)
  have hfull : (logbook_window l first last).full
      = decide (d = l.rb_logbook_end - l.rb_logbook_begin) := by
    rw [← hd']; simp only [logbook_window, hLs]
  have hpe : (logbook_window l first last).page_end = (e + 15) / 16 * 16 := by
    rw [← hce, ← he]; simp only [logbook_window, hP]
  have hpb : (logbook_window l first last).page_begin
      = (if d = l.rb_logbook_end - l.rb_logbook_begin then (e + 15) / 16 * 16
         else first / 16 * 16) := by
    rw [← hce, ← hff, ← he, ← hd']
    simp only [logbook_window, hLs, hP, hout, if_false, decide_eq_true_eq]
  have hps : (logbook_window l first last).page_size
      = (if d = l.rb_logbook_end - l.rb_logbook_begin then d
         else d + (first - first / 16 * 16) + ((e + 15) / 16 * 16 - e)) := by
    have h1 : (logbook_window l first last).page_size
        = if (logbook_window l first last).full then (logbook_window l first last).entry_size
          else u32 (u32 ((logbook_window l first last).entry_size
              + usub (logbook_window l first last).entry_begin
                  (logbook_window l first last).page_begin)
            + usub (logbook_window l first last).page_end
                (logbook_window l first last).entry_end) := by
      simp only [logbook_window, hLs, hP, hout, if_false, decide_eq_true_eq]
    rw [h1, hfull, hd', hbeg, hpb, hpe, he]
    by_cases hf : d = l.rb_logbook_end - l.rb_logbook_begin
    · simp only [hf, decide_True, if_true]
    · simp only [hf, decide_False, if_false, Bool.false_eq_true]
      rw [usub_eq first _ (by omega) (by omega), usub_eq _ e (by omega) (by omega),
        u32_eq (d + (first - first / 16 * 16)) (by omega), u32_eq _ (by omega)]
  have hun : (logbook_window l first last).unaligned = decide (e ≠ (e + 15) / 16 * 16) := by
    rw [← hce, ← he]; simp only [logbook_window, hP]
  exact ⟨e, d, hbeg, he, hd', hfull, hpe, hpb, hps, hun, hebound.1, hebound.2, hdbound, hm0, hm1⟩

/-- For a page-aligned logbook ring the page window is page-aligned and lies in the ring. -/
theorem window_aligned (l : oceanic_common_layout_t) (first last : Nat)
    (hlb : l.rb_logbook_begin % PAGESIZE = 0) (hle : l.rb_logbook_end % PAGESIZE = 0)
    (hlog : l.rb_logbook_begin < l.rb_logbook_end)
    (h32 : l.rb_logbook_end ≤ 1073741824) :
    (logbook_window l first last).page_size % PAGESIZE = 0 ∧
    (logbook_window l first last).page_end % PAGESIZE = 0 ∧
    l.rb_logbook_begin ≤ (logbook_window l first last).page_end ∧
    (logbook_window l first last).page_end ≤ l.rb_logbook_end ∧
    (logbook_window l first last).page_size ≤ 1073741824 + 64 := by
  have hP : PAGESIZE = 16 := rfl
  rw [hP] at hlb hle ⊢
  by_cases hout : first < l.rb_logbook_begin ∨ first ≥ l.rb_logbook_end ∨
      last < l.rb_logbook_begin ∨ last ≥ l.rb_logbook_end
  · obtain ⟨h1, _, _, _, h5⟩ := window_empty l first last (by rw [hP]; exact hlb) (by omega) hout
    rw [h1, h5]; omega
  · have hfirst : l.rb_logbook_begin ≤ first ∧ first < l.rb_logbook_end := by omega
    have hlast : l.rb_logbook_begin ≤ last ∧ last < l.rb_logbook_end := by omega
    obtain ⟨e, d, _, _, _, _, hpe, _, hps, _, he1, he2, hdb, hm0, hm1⟩ :=
      window_in_range l first last hfirst hlast (by omega) h32
    rw [hpe, hps]
    refine ⟨?_, by omega, by omega, by omega, ?_⟩
    · by_cases hf : d = l.rb_logbook_end - l.rb_logbook_begin
      · simp only [hf, if_true]; omega
      · simp only [hf, if_false]
        by_cases hmode : l.pt_mode_global = 0
        · obtain ⟨h1, h2⟩ := hm0 hmode
          split_ifs at h1 h2 <;> omega
        · obtain ⟨h1, h2⟩ := hm1 hmode
          split_ifs at h2 <;> omega
    · split_ifs <;> omega

/-- The packet size is positive, at most `PAGESIZE * multipage`, stays inside the ring and inside the wanted bytes, and is page-aligned when its inputs are. -/
theorem packet_size_spec (rb_begin mp address nbytes limit : Nat)
    (hmp : 1 ≤ mp) (h16 : PAGESIZE * mp ≤ 1073741824)
    (haddr : rb_begin < address) (ha32 : address ≤ 1073741824)
    (hn : nbytes < limit) (hl : limit ≤ 1073741824 + 64) :
    0 < packet_size rb_begin mp address nbytes limit ∧
    packet_size rb_begin mp address nbytes limit ≤ PAGESIZE * mp ∧
    packet_size rb_begin mp address nbytes limit ≤ address - rb_begin ∧
    nbytes + packet_size rb_begin mp address nbytes limit ≤ limit ∧
    (rb_begin % PAGESIZE = 0 → address % PAGESIZE = 0 → nbytes % PAGESIZE = 0 →
      limit % PAGESIZE = 0 → packet_size rb_begin mp address nbytes limit % PAGESIZE = 0) := by
  have hP : PAGESIZE = 16 := rfl
  rw [hP] at h16 ⊢
  unfold packet_size
  simp only [hP, u32, usub]
  obtain ⟨m, hm⟩ : ∃ m, m = 16 * mp := ⟨_, rfl⟩
  rw [← hm] at h16 ⊢
  refine ⟨?_, ?_, ?_, ?_, ?_⟩
  all_goals (split_ifs <;> omega)

/-- Appending a good read keeps a trace good. -/
theorem allReads_read (P : Nat × Nat → Prop) (t : List Event) (a n : Nat)
    (h : AllReads P t) (hp : P (a, n)) : AllReads P (t ++ [Event.read a n]) := by
  intro r hr
  rw [reads_append] at hr
  simp only [reads, List.mem_append, List.mem_singleton] at hr
  rcases hr with hr | hr
  · exact h r hr
  · rw [hr]; exact hp

/-- A progress event is not a read. -/
theorem allReads_progress (P : Nat × Nat → Prop) (t : List Event) (a n : Nat)
    (h : AllReads P t) : AllReads P (t ++ [Event.progress a n]) := by
  intro r hr
  rw [reads_append] at hr
  simp only [reads, List.append_nil] at hr
  exact h r hr

/-- One iteration of the logbook loop issues a good read and keeps the invariant. -/
theorem logbook_page_reads (env : Env) (l : oceanic_common_layout_t) (mp : Nat)
    (fp : List Nat) (w : Window) (pm sf : Nat) (s : LogState)
    (hok : LayoutOk l mp) (hw : w.page_size % PAGESIZE = 0) (hw32 : w.page_size ≤ 1073741824 + 64)
    (hinv : LogAddrInv l w s) (hlt : s.nbytes < w.page_size)
    (hreads : AllReads (ReadOk l mp) s.trace) :
    match logbook_page env l mp fp w pm sf s with
    | Step.stop r => AllReads (ReadOk l mp) r.trace
    | Step.next (s', _) => LogAddrInv l w s' ∧ AllReads (ReadOk l mp) s'.trace := by
  have hP : PAGESIZE = 16 := rfl
  obtain ⟨a1, a2, a3, a4, a5⟩ := hinv
  obtain ⟨_, _, k1, k2, _, _, k3, _, k4, k5, _, k6⟩ := hok
  have hwp : l.rb_logbook_begin < wrap_point l.rb_logbook_begin l.rb_logbook_end s.address ∧
      wrap_point l.rb_logbook_begin l.rb_logbook_end s.address ≤ l.rb_logbook_end ∧
      wrap_point l.rb_logbook_begin l.rb_logbook_end s.address % 16 = 0 := by
    unfold wrap_point; rw [hP] at *; split_ifs <;> omega
  obtain ⟨p1, p2, p3, p4, p5⟩ := packet_size_spec l.rb_logbook_begin mp
    (wrap_point l.rb_logbook_begin l.rb_logbook_end s.address) s.nbytes w.page_size
    k4 k6 hwp.1 (by omega) hlt hw32
  have p5' := p5 k1 (by rw [hP]; exact hwp.2.2) a4 hw
  unfold logbook_page
  simp only []
  generalize packet_size l.rb_logbook_begin mp
    (wrap_point l.rb_logbook_begin l.rb_logbook_end s.address) s.nbytes w.page_size = len at *
  generalize wrap_point l.rb_logbook_begin l.rb_logbook_end s.address = addr at *
  have hsub : usub addr len = addr - len := usub_eq _ _ (by omega) (by omega)
  have hnb : u32 (s.nbytes + len) = s.nbytes + len := u32_eq _ (by omega)
  have hrd : AllReads (ReadOk l mp) (s.trace ++ [Event.read (usub addr len) len]) := by
    apply allReads_read _ _ _ _ hreads
    rw [hsub]
    refine ⟨?_, p5', p1, p2, Or.inr (Or.inr (Or.inl ⟨?_, ?_⟩))⟩
    · rw [hP] at *; simp only; omega
    · simp only; omega
    · simp only; omega
  have hrp : ∀ a b, AllReads (ReadOk l mp)
      (s.trace ++ [Event.read (usub addr len) len] ++ [Event.progress a b]) :=
    fun a b => allReads_progress _ _ a b hrd
  split_ifs with c1 c2
  · exact hrd
  · generalize logbook_fixup w _ s.nbytes len (usub s.offset len) = fx
    rcases fx with _ | ⟨lb', off'⟩
    · exact hrp _ _
    · simp only
      generalize scan_entries lb' fp off' sf s.current s.begin_ = sc
      rcases sc with _ | _ | ⟨cur, bg, ab⟩
      · exact hrp _ _
      · exact hrp _ _
      · simp only
        refine ⟨⟨?_, ?_, ?_, ?_, ?_⟩, hrp _ _⟩
        · simp only [hsub]; rw [hP] at *; omega
        · simp only [hsub]; omega
        · simp only [hsub]; omega
        · simp only [hnb]; rw [hP] at *; omega
        · simp only [hnb]; omega
  · exact hrd

/-- The logbook loop issues good reads only. -/
theorem logbook_loop_reads (env : Env) (l : oceanic_common_layout_t) (mp : Nat)
    (fp : List Nat) (w : Window) (pm sf : Nat)
    (hok : LayoutOk l mp) (hw : w.page_size % PAGESIZE = 0) (hw32 : w.page_size ≤ 1073741824 + 64) :
    ∀ (fuel : Nat) (s : LogState), LogAddrInv l w s → AllReads (ReadOk l mp) s.trace →
    match logbook_loop env l mp fp w pm sf fuel s with
    | Step.stop r => AllReads (ReadOk l mp) r.trace
    | Step.next s' => AllReads (ReadOk l mp) s'.trace := by
  intro fuel
  induction fuel with
  | zero =>
    intro s hinv hreads
    unfold logbook_loop
    split_ifs <;> exact hreads
  | succ n ih =>
    intro s hinv hreads
    unfold logbook_loop
    split_ifs with hc
    · have hpage := logbook_page_reads env l mp fp w pm sf s hok hw hw32 hinv hc hreads
      simp only
      generalize logbook_page env l mp fp w pm sf s = pg at hpage
      rcases pg with ⟨s', ab⟩ | r
      · simp only at hpage ⊢
        split_ifs
        · exact hpage.2
        · exact ih s' hpage.1 hpage.2
      · exact hpage
    · exact hreads

/-- A callback invocation is not a read. -/
theorem allReads_dive (P : Nat × Nat → Prop) (t : List Event) (d f : List Nat)
    (h : AllReads P t) : AllReads P (t ++ [Event.dive d f]) := by
  intro r hr
  rw [reads_append] at hr
  simp only [reads, List.append_nil] at hr
  exact h r hr

/-- The packet loop of one dive issues good reads only and ends with enough bytes. -/
theorem profile_read_reads (env : Env) (l : oceanic_common_layout_t) (mp : Nat)
    (pm remaining size : Nat)
    (hok : LayoutOk l mp) (hrem : remaining % PAGESIZE = 0) (hrem32 : remaining ≤ 1073741824 + 64)
    (hsize : size ≤ remaining) :
    ∀ (fuel : Nat) (s : ReadState), ReadAddrInv l remaining s →
      AllReads (ReadOk l mp) s.trace →
    match profile_read env l mp pm remaining size fuel s with
    | Step.stop r => AllReads (ReadOk l mp) r.trace
    | Step.next s' => ReadAddrInv l remaining s' ∧ AllReads (ReadOk l mp) s'.trace ∧
        size ≤ s'.nbytes := by
  have hP : PAGESIZE = 16 := rfl
  obtain ⟨_, _, _, _, k1, k2, _, k3, k4, _, k5, k6⟩ := hok
  intro fuel
  induction fuel with
  | zero =>
    intro s hinv hreads
    unfold profile_read
    split_ifs with hc
    · exact hreads
    · exact ⟨hinv, hreads, by omega⟩
  | succ n ih =>
    intro s hinv hreads
    obtain ⟨a1, a2, a3, a4, a5⟩ := hinv
    unfold profile_read
    split_ifs with hc
    · have hwp : l.rb_profile_begin < wrap_point l.rb_profile_begin l.rb_profile_end s.address ∧
          wrap_point l.rb_profile_begin l.rb_profile_end s.address ≤ l.rb_profile_end ∧
          wrap_point l.rb_profile_begin l.rb_profile_end s.address % 16 = 0 := by
        unfold wrap_point; rw [hP] at *; split_ifs <;> omega
      obtain ⟨p1, p2, p3, p4, p5⟩ := packet_size_spec l.rb_profile_begin mp
        (wrap_point l.rb_profile_begin l.rb_profile_end s.address) s.nbytes remaining
        k4 k6 hwp.1 (by omega) (by omega) hrem32
      have p5' := p5 k1 (by rw [hP]; exact hwp.2.2) a4 hrem
      simp only []
      generalize packet_size l.rb_profile_begin mp
        (wrap_point l.rb_profile_begin l.rb_profile_end s.address) s.nbytes remaining = len at *
      generalize wrap_point l.rb_profile_begin l.rb_profile_end s.address = addr at *
      have hsub : usub addr len = addr - len := usub_eq _ _ (by omega) (by omega)
      have hnb : u32 (s.nbytes + len) = s.nbytes + len := u32_eq _ (by omega)
      have hrd : AllReads (ReadOk l mp) (s.trace ++ [Event.read (usub addr len) len]) := by
        apply allReads_read _ _ _ _ hreads
        rw [hsub]
        refine ⟨?_, p5', p1, p2, Or.inr (Or.inr (Or.inr ⟨?_, ?_⟩))⟩
        · rw [hP] at *; simp only; omega
        · simp only; omega
        · simp only; omega
      split_ifs with c1 c2
      · exact hrd
      · apply ih
        · refine ⟨?_, ?_, ?_, ?_, ?_⟩
          · simp only [hsub]; rw [hP] at *; omega
          · simp only [hsub]; omega
          · simp only [hsub]; omega
          · simp only [hnb]; rw [hP] at *; omega
          · simp only [hnb]; omega
        · exact allReads_progress _ _ _ _ hrd
      · exact hrd
    · exact ⟨⟨a1, a2, a3, a4, a5⟩, hreads, by omega⟩

/-- Delivering a dive issues no read and keeps the invariant. -/
theorem profile_deliver_reads (env : Env) (l : oceanic_common_layout_t) (mp : Nat)
    (logbooks : Buffer) (current first size : Nat) (s : ProfState) (r : ReadState)
    (hs : ProfAddrInv l s) (hr : ReadAddrInv l s.remaining r)
    (hreads : AllReads (ReadOk l mp) r.trace)
    (hsz : size ≤ r.nbytes) (hsz16 : size % PAGESIZE = 0) :
    match profile_deliver env logbooks current first size s r with
    | Step.stop r' => AllReads (ReadOk l mp) r'.trace
    | Step.next (s', _) => ProfAddrInv l s' ∧ AllReads (ReadOk l mp) s'.trace := by
  have hP : PAGESIZE = 16 := rfl
  obtain ⟨a1, a2, a3, a4, a5⟩ := hr
  obtain ⟨_, _, _, b4, b5, _, _⟩ := hs
  have h1 : usub r.nbytes size = r.nbytes - size := usub_eq _ _ hsz (by omega)
  have h2 : usub s.remaining size = s.remaining - size := usub_eq _ _ (by omega) (by omega)
  have hinv : ∀ (p : Buffer) (o pc : Nat) (t : List Event), ProfAddrInv l
      { profiles := p, remaining := usub s.remaining size, available := usub r.nbytes size,
        previous := first, current := current, offset := o, address := r.address,
        progress_current := pc, trace := t } := by
    intro p o pc t
    rw [hP] at hsz16 a4 b4
    refine ⟨a1, a2, a3, ?_, ?_, ?_, ?_⟩
    · simp only [h2, hP]; omega
    · simp only [h2]; omega
    · simp only [h1, hP]; omega
    · simp only [h1, h2]; omega
  unfold profile_deliver
  simp only []
  split_ifs
  all_goals first | exact hreads | skip
  all_goals rcases env.callback with _ | cb
  all_goals simp only []
  all_goals first
    | exact hreads
    | exact ⟨hinv _ _ _ _, hreads⟩
    | exact ⟨hinv _ _ _ _, allReads_dive _ _ _ _ hreads⟩

/-- `get_profile_first` gives a multiple of `PAGESIZE`. -/
theorem get_profile_first_aligned (data : List Nat) (l : oceanic_common_layout_t) :
    get_profile_first data l % PAGESIZE = 0 := by
  have hP : PAGESIZE = 16 := rfl
  unfold get_profile_first
  simp only [hP, u32]
  split_ifs <;> omega

/-- `get_profile_last` gives a multiple of `PAGESIZE`. -/
theorem get_profile_last_aligned (data : List Nat) (l : oceanic_common_layout_t) :
    get_profile_last data l % PAGESIZE = 0 := by
  have hP : PAGESIZE = 16 := rfl
  unfold get_profile_last
  simp only [hP, u32]
  split_ifs <;> omega

/-- Size and end of a dive whose pointers are aligned and inside the profile ring. -/
theorem profile_pointers_aligned (l : oceanic_common_layout_t) (first last : Nat)
    (hpb : l.rb_profile_begin % PAGESIZE = 0) (hpe : l.rb_profile_end % PAGESIZE = 0)
    (hpe32 : l.rb_profile_end ≤ 1073741824)
    (hf : first % PAGESIZE = 0) (hl : last % PAGESIZE = 0)
    (hfr : ringbuffer_defined first l.rb_profile_begin l.rb_profile_end = true)
    (hlr : ringbuffer_defined last l.rb_profile_begin l.rb_profile_end = true) :
    u32 (RB_PROFILE_DISTANCE first last l + PAGESIZE) % PAGESIZE = 0 ∧
    u32 (RB_PROFILE_DISTANCE first last l + PAGESIZE) ≤ l.rb_profile_end - l.rb_profile_begin ∧
    RB_PROFILE_INCR last PAGESIZE l % PAGESIZE = 0 ∧
    l.rb_profile_begin ≤ RB_PROFILE_INCR last PAGESIZE l ∧
    RB_PROFILE_INCR last PAGESIZE l < l.rb_profile_end := by
  have hP : PAGESIZE = 16 := rfl
  simp only [hP] at hpb hpe hf hl ⊢
  simp only [ringbuffer_defined, decide_eq_true_eq] at hfr hlr
  have hd := ringbuffer_distance_eq first last l.rb_profile_begin l.rb_profile_end false hfr hlr
  have hi := ringbuffer_increment_eq last 16 l.rb_profile_begin l.rb_profile_end hlr (by omega)
  simp only [Bool.false_eq_true, if_false] at hd
  have hdb : ringbuffer_distance first last false l.rb_profile_begin l.rb_profile_end
      ≤ l.rb_profile_end - l.rb_profile_begin - 16 ∧
      ringbuffer_distance first last false l.rb_profile_begin l.rb_profile_end % 16 = 0 := by
    rw [hd]; split_ifs <;> omega
  have hib : ringbuffer_increment last 16 l.rb_profile_begin l.rb_profile_end % 16 = 0 ∧
      l.rb_profile_begin ≤ ringbuffer_increment last 16 l.rb_profile_begin l.rb_profile_end ∧
      ringbuffer_increment last 16 l.rb_profile_begin l.rb_profile_end < l.rb_profile_end := by
    rw [hi]; split_ifs <;> omega
  unfold RB_PROFILE_DISTANCE RB_PROFILE_INCR
  generalize ringbuffer_distance first last false l.rb_profile_begin l.rb_profile_end = d at *
  generalize ringbuffer_increment last 16 l.rb_profile_begin l.rb_profile_end = e at *
  rw [u32_eq d (by omega), u32_eq (d + 16) (by omega), u32_eq e (by omega)]
  omega

/-- One iteration of the profile loop issues good reads only. -/
theorem profile_dive_reads (env : Env) (l : oceanic_common_layout_t) (mp : Nat)
    (logbooks : Buffer) (pm rf : Nat) (s : ProfState)
    (hok : LayoutOk l mp) (hs : ProfAddrInv l s) (hreads : AllReads (ReadOk l mp) s.trace) :
    match profile_dive env l mp logbooks pm rf s with
    | Step.stop r' => AllReads (ReadOk l mp) r'.trace
    | Step.next (s', _) => ProfAddrInv l s' ∧ AllReads (ReadOk l mp) s'.trace := by
  unfold profile_dive
  simp only []
  split_ifs with c1 c2 c3 c4
  all_goals try exact hreads
  -- the packets of the dive
  obtain ⟨q1, q2, _, _, _⟩ := profile_pointers_aligned l _ _ hok.pb hok.pe hok.pe32
    (get_profile_first_aligned (logbooks.load (usub s.current (PAGESIZE / 2)) (PAGESIZE / 2)) l)
    (get_profile_last_aligned (logbooks.load (usub s.current (PAGESIZE / 2)) (PAGESIZE / 2)) l)
    c2.1 c2.2
  have hrd := profile_read_reads env l mp pm s.remaining _ hok hs.rem_al hs.rem_32
    (Nat.le_of_not_gt c4) rf
    { profiles := s.profiles, nbytes := s.available, offset := s.offset,
      address := s.address, progress_current := s.progress_current, trace := s.trace }
    ⟨hs.addr_al, hs.addr_lo, hs.addr_hi, hs.av_al, hs.av_le⟩ hreads
  generalize profile_read env l mp pm s.remaining _ rf _ = pr at hrd
  rcases pr with r | r'
  · simp only at hrd ⊢
    exact profile_deliver_reads env l mp logbooks _ _ _ s r hs hrd.1 hrd.2.1 hrd.2.2 q1
  · exact hrd

/-- The profile loop issues good reads only. -/
theorem profile_loop_reads (env : Env) (l : oceanic_common_layout_t) (mp : Nat)
    (logbooks : Buffer) (bg pm rf : Nat) (hok : LayoutOk l mp) :
    ∀ (fuel : Nat) (s : ProfState), ProfAddrInv l s → AllReads (ReadOk l mp) s.trace →
    match profile_loop env l mp logbooks bg pm rf fuel s with
    | Step.stop r => AllReads (ReadOk l mp) r.trace
    | Step.next s' => AllReads (ReadOk l mp) s'.trace := by
  intro fuel
  induction fuel with
  | zero =>
    intro s hinv hreads
    unfold profile_loop
    split_ifs <;> exact hreads
  | succ n ih =>
    intro s hinv hreads
    unfold profile_loop
    split_ifs with hc
    · have hd := profile_dive_reads env l mp logbooks pm rf s hok hinv hreads
      simp only
      generalize profile_dive env l mp logbooks pm rf s = pd at hd
      rcases pd with ⟨s', ab⟩ | r
      · simp only at hd ⊢
        split_ifs
        · exact hd.2
        · exact ih s' hd.1 hd.2
      · exact hd
    · exact hreads

/-- The header part issues the two page reads. -/
theorem foreach_header_reads (env : Env) (l : oceanic_common_layout_t) (mp : Nat)
    (hok : LayoutOk l mp) :
    match foreach_header env l with
    | Step.stop r => AllReads (ReadOk l mp) r.trace
    | Step.next h => AllReads (ReadOk l mp) h.trace := by
  have hP : PAGESIZE = 16 := rfl
  have h1 : ReadOk l mp (l.cf_devinfo, PAGESIZE) :=
    ⟨hok.devinfo, Nat.mod_self _, Nat.zero_lt_succ _, by have := hok.mp1; rw [hP]; omega, Or.inl rfl⟩
  have h2 : ReadOk l mp (l.cf_pointers, PAGESIZE) :=
    ⟨hok.pointers, Nat.mod_self _, Nat.zero_lt_succ _, by have := hok.mp1; rw [hP]; omega, Or.inr (Or.inl rfl)⟩
  have h0 : ∀ a b, AllReads (ReadOk l mp) [Event.progress a b] := by
    intro a b r hr; simp [reads] at hr
  have hdev : ∀ (t : List Event) (a b c : Nat), AllReads (ReadOk l mp) t →
      AllReads (ReadOk l mp) (t ++ [Event.devinfo a b c]) := by
    intro t a b c h r hr
    rw [reads_append] at hr
    simp only [reads, List.append_nil] at hr
    exact h r hr
  unfold foreach_header
  simp only []
  split_ifs
  all_goals first
    | exact allReads_read _ _ _ _ (h0 _ _) h1
    | exact allReads_read _ _ _ _ (hdev _ _ _ _
        (allReads_progress _ _ _ _ (allReads_read _ _ _ _ (h0 _ _) h1))) h2

/-- The logbook part issues good reads only. -/
theorem foreach_logbooks_reads (env : Env) (device : oceanic_common_device_t)
    (l : oceanic_common_layout_t) (fuel : Nat) (h : Header)
    (hok : LayoutOk l device.multipage)
    (hreads : AllReads (ReadOk l device.multipage) h.trace) :
    match foreach_logbooks env device l fuel h with
    | Step.stop r => AllReads (ReadOk l device.multipage) r.trace
    | Step.next s => AllReads (ReadOk l device.multipage) s.trace := by
  obtain ⟨w1, w2, w3, w4, w5⟩ := window_aligned l h.rb_logbook_first h.rb_logbook_last
    hok.lb hok.le hok.logbook hok.le32
  unfold foreach_logbooks
  simp only []
  split_ifs
  · exact logbook_loop_reads env l device.multipage device.fingerprint _ _ _ hok w1 w5 fuel _
      ⟨w2, w3, w4, Nat.zero_mod _, Nat.zero_le _⟩ (allReads_progress _ _ _ _ hreads)
  · exact allReads_progress _ _ _ _ hreads

/-- The profile loop starts with the trace of the logbook part and with the
address invariant. -/
theorem profile_start_addr (env : Env) (l : oceanic_common_layout_t) (mp end_ : Nat)
    (s : LogState) (hok : LayoutOk l mp) :
    match profile_start env l end_ s with
    | Step.stop r => r.trace = s.trace
    | Step.next p => p.state.trace = s.trace ∧ ProfAddrInv l p.state := by
  unfold profile_start
  simp only []
  split_ifs with c1 c2 c3 c4
  all_goals try rfl
  obtain ⟨q1, q2, q3, q4, q5⟩ := profile_pointers_aligned l _ _ hok.pb hok.pe hok.pe32
    (get_profile_first_aligned (s.logbooks.load s.begin_ (PAGESIZE / 2)) l)
    (get_profile_last_aligned (s.logbooks.load (end_ - PAGESIZE / 2) (PAGESIZE / 2)) l)
    c3.1 c3.2
  exact ⟨rfl, q3, q4, Nat.le_of_lt q5, q1, by have := hok.pe32; simp only; omega,
    Nat.zero_mod _, Nat.zero_le _⟩

/-- The profile part issues good reads only. -/
theorem foreach_profiles_reads (env : Env) (device : oceanic_common_device_t)
    (l : oceanic_common_layout_t) (fuel end_ : Nat) (s : LogState)
    (hok : LayoutOk l device.multipage)
    (hreads : AllReads (ReadOk l device.multipage) s.trace) :
    AllReads (ReadOk l device.multipage) (foreach_profiles env device l fuel end_ s).trace := by
  have hst := profile_start_addr env l device.multipage end_ s hok
  unfold foreach_profiles
  generalize profile_start env l end_ s = ps at hst
  rcases ps with p | r
  · simp only at hst ⊢
    have hl := profile_loop_reads env l device.multipage s.logbooks s.begin_
      p.progress_maximum fuel hok fuel p.state hst.2 (by rw [hst.1]; exact hreads)
    generalize profile_loop env l device.multipage s.logbooks s.begin_ _ fuel fuel _ = pl at hl
    rcases pl with s' | r
    · exact hl
    · exact hl
  · simp only at hst ⊢
    rw [hst]; exact hreads

/-- Claim C6. `oceanic_common_device_foreach` issues only page-aligned reads: for a
well-formed layout (header pages and ring bounds multiples of `PAGESIZE`) and
`multipage ≥ 1`, every `device_read` of a run, however it ends, has an address
that is a multiple of `PAGESIZE` and a size that is a non-zero multiple of
`PAGESIZE` not exceeding `PAGESIZE * multipage`, and it is one of the two header
pages or lies inside the logbook ring or inside the profile ring, so it crosses
neither end of the ring. -/
theorem foreach_reads_aligned (env : Env) (device : oceanic_common_device_t)
    (layout : oceanic_common_layout_t) (fuel : Nat)
    (hlayout : device.layout = some layout)
    (hok : LayoutOk layout device.multipage) :
    ∀ r ∈ reads (oceanic_common_device_foreach env device fuel).trace,
      ReadOk layout device.multipage r := by
  have hh := foreach_header_reads env layout device.multipage hok
  unfold oceanic_common_device_foreach
  simp only [hlayout]
  generalize foreach_header env layout = hd at hh
  rcases hd with h | r
  · simp only at hh ⊢
    have hl := foreach_logbooks_reads env device layout fuel h hok hh
    generalize foreach_logbooks env device layout fuel h = lg at hl
    rcases lg with s | r
    · exact foreach_profiles_reads env device layout fuel _ s hok hl
    · exact hl
  · exact hh

/-- Witness of `foreach_reads_aligned`: the run over `sample_image` with
`multipage = 4` issues six reads, all of them page-aligned. -/
theorem foreach_reads_aligned_witness :
    reads (oceanic_common_device_foreach (image_env sample_image accept_all)
        (sample_device [0, 0, 0, 0, 0, 0, 0, 0] 4) 20).trace
      = [(0x00, 0x10), (0x10, 0x10), (0x20, 0x10), (0x30, 0x10), (0x80, 0x40), (0x40, 0x40)] ∧
    ∀ r ∈ reads (oceanic_common_device_foreach (image_env sample_image accept_all)
        (sample_device [0, 0, 0, 0, 0, 0, 0, 0] 4) 20).trace,
      ReadOk sample_layout 4 r :=
  ⟨by decide!,
   foreach_reads_aligned (image_env sample_image accept_all)
     (sample_device [0, 0, 0, 0, 0, 0, 0, 0] 4) sample_layout 20 rfl
     ⟨by decide, by decide, by decide, by decide, by decide, by decide, by decide, by decide,
      by decide, by decide, by decide, by decide⟩⟩

/-! ## Reassembly of the dives -/

/-- The cells of a buffer after a `device_read` answer was stored. -/
theorem fill_cell (b : Buffer) (pos n : Nat) (data : List Nat) (i : Nat) :
    (b.fill pos n data).cell i
      = if pos ≤ i ∧ i < pos + n then some (data.getD (i - pos) 0 % 256) else b.cell i := rfl

/-- The cells of a buffer after a store. -/
theorem store_cell (b : Buffer) (pos n : Nat) (f : Nat → Option Nat) (i : Nat) :
    (b.store pos n f).cell i = if pos ≤ i ∧ i < pos + n then f (i - pos) else b.cell i := rfl

/-- The cells of a buffer after `memmove`. -/
theorem memmove_cell (b : Buffer) (dst src n i : Nat) :
    (b.memmove dst src n).cell i
      = if dst ≤ i ∧ i < dst + n then b.cell (src + (i - dst)) else b.cell i := rfl

/-- Storing an answer keeps the size of a buffer. -/
theorem fill_size (b : Buffer) (pos n : Nat) (data : List Nat) :
    (b.fill pos n data).size = b.size := rfl

/-- A store keeps the size of a buffer. -/
theorem store_size (b : Buffer) (pos n : Nat) (f : Nat → Option Nat) :
    (b.store pos n f).size = b.size := rfl

/-- `memmove` keeps the size of a buffer. -/
theorem memmove_size (b : Buffer) (dst src n : Nat) : (b.memmove dst src n).size = b.size := rfl

/-- The bytes that a fixed memory image delivers. -/
theorem image_read_data (M : Nat → Nat) (t : List Event) (a n i : Nat) (h : i < n) :
    (image_read M t a n).2.getD i 0 = M (a + i) := by
  simp [image_read, List.getD_eq_getElem?_getD, List.getElem?_map, List.getElem?_range h]

/-- A fixed memory image always delivers. -/
theorem image_read_ok (M : Nat → Nat) (t : List Event) (a n : Nat) :
    (image_read M t a n).1 = SUCCESS := rfl

/-- Loading determinate cells gives their values. -/
theorem load_eq_map (b : Buffer) (pos n : Nat) (f : Nat → Nat)
    (h : ∀ i < n, b.cell (pos + i) = some (f i)) :
    b.load pos n = (List.range n).map f := by
  unfold Buffer.load
  apply List.map_congr_left
  intro i hi
  rw [h i (List.mem_range.mp hi)]
  rfl

/-- A load splits into two adjacent loads. -/
theorem load_append (b : Buffer) (pos m n : Nat) :
    b.load pos (m + n) = b.load pos m ++ b.load (pos + m) n := by
  unfold Buffer.load
  rw [List.range_add, List.map_append, List.map_map]
  congr 1
  apply List.map_congr_left
  intro i _
  simp [Nat.add_assoc]

/-- A load of `n` bytes has length `n`. -/
theorem load_length (b : Buffer) (pos n : Nat) : (b.load pos n).length = n := by
  simp [Buffer.load]

/-- A readable cell holds the loaded value. -/
theorem readable_cell (b : Buffer) (pos n i : Nat) (h : b.readable pos n = true) (hi : i < n) :
    b.cell (pos + i) = some ((b.load pos n).getD i 0) := by
  unfold Buffer.readable at h
  simp only [Bool.and_eq_true, decide_eq_true_eq, List.all_eq_true, List.mem_range] at h
  have h2 := h.2 i hi
  unfold Buffer.load
  rw [List.getD_eq_getElem?_getD, List.getElem?_map, List.getElem?_range hi]
  cases hc : b.cell (pos + i) with
  | none => rw [hc] at h2; simp at h2
  | some v => simp [hc]

/-- A read is not a callback invocation. -/
theorem allDives_read (P : List Nat × List Nat → Prop) (t : List Event) (a n : Nat)
    (h : AllDives P t) : AllDives P (t ++ [Event.read a n]) := by
  intro r hr
  rw [dives_append] at hr
  simp only [dives, List.append_nil] at hr
  exact h r hr

/-- A progress event is not a callback invocation. -/
theorem allDives_progress (P : List Nat × List Nat → Prop) (t : List Event) (a n : Nat)
    (h : AllDives P t) : AllDives P (t ++ [Event.progress a n]) := by
  intro r hr
  rw [dives_append] at hr
  simp only [dives, List.append_nil] at hr
  exact h r hr

/-- Appending a good dive keeps a trace good. -/
theorem allDives_dive (P : List Nat × List Nat → Prop) (t : List Event) (d f : List Nat)
    (h : AllDives P t) (hp : P (d, f)) : AllDives P (t ++ [Event.dive d f]) := by
  intro r hr
  rw [dives_append] at hr
  simp only [dives, List.mem_append, List.mem_singleton] at hr
  rcases hr with hr | hr
  · exact h r hr
  · rw [hr]; exact hp

/-- The packet loop of one dive keeps the content invariant and ends with enough bytes. -/
theorem profile_read_content (M : Nat → Nat) (env : Env) (l : oceanic_common_layout_t) (mp : Nat)
    (pm remaining size prev : Nat) (P : List Nat × List Nat → Prop)
    (hread : env.device_read = image_read M)
    (hok : LayoutOk l mp) (hrem : remaining ≤ l.rb_profile_end - l.rb_profile_begin)
    (hsize : size ≤ remaining) (hprev : l.rb_profile_begin ≤ prev) :
    ∀ (fuel : Nat) (s : ReadState), ReadInv M l remaining prev s → AllDives P s.trace →
    match profile_read env l mp pm remaining size fuel s with
    | Step.stop r => AllDives P r.trace
    | Step.next s' => ReadInv M l remaining prev s' ∧ AllDives P s'.trace ∧
        size ≤ s'.nbytes := by
  obtain ⟨_, _, _, _, _, _, _, k3, k4, _, k5, k6⟩ := hok
  intro fuel
  induction fuel with
  | zero =>
    intro s hinv hd
    unfold profile_read
    split_ifs with hc
    · exact hd
    · exact ⟨hinv, hd, by omega⟩
  | succ n ih =>
    intro s hinv hd
    obtain ⟨a1, a2, a3, a4, a7, a5, a6⟩ := hinv
    unfold profile_read
    split_ifs with hc
    · have hwp : l.rb_profile_begin < wrap_point l.rb_profile_begin l.rb_profile_end s.address ∧
          wrap_point l.rb_profile_begin l.rb_profile_end s.address ≤ l.rb_profile_end ∧
          (wrap_point l.rb_profile_begin l.rb_profile_end s.address = s.address ∨
           (s.address = l.rb_profile_begin ∧
            wrap_point l.rb_profile_begin l.rb_profile_end s.address = l.rb_profile_end)) := by
        unfold wrap_point; split_ifs <;> omega
      obtain ⟨p1, p2, p3, p4, _⟩ := packet_size_spec l.rb_profile_begin mp
        (wrap_point l.rb_profile_begin l.rb_profile_end s.address) s.nbytes remaining
        k4 k6 hwp.1 (by omega) (by omega) (by omega)
      simp only [hread]
      generalize packet_size l.rb_profile_begin mp
        (wrap_point l.rb_profile_begin l.rb_profile_end s.address) s.nbytes remaining = len at *
      generalize wrap_point l.rb_profile_begin l.rb_profile_end s.address = addr at *
      have hsub : usub addr len = addr - len := usub_eq _ _ (by omega) (by omega)
      have hnb : u32 (s.nbytes + len) = s.nbytes + len := u32_eq _ (by omega)
      simp only [image_read_ok, ne_eq, not_true_eq_false, if_false]
      split_ifs with c2
      · -- the write is inside the buffer
        have hw : usub s.offset len + len ≤ s.profiles.size := by
          simpa [Buffer.writable] using c2
        have hoff : len ≤ s.offset ∧ usub s.offset len = s.offset - len := by
          unfold usub at hw ⊢; omega
        apply ih
        · refine ⟨?_, ?_, ?_, ?_, ?_, ?_, ?_⟩
          · simp only [hsub]; omega
          · simp only [hsub]; omega
          · simp only [hnb]; omega
          · simp only [hoff.2]; omega
          · simp only [fill_size]; exact a7
          · simp only [hsub, hnb]; omega
          · intro j hj
            simp only [hnb] at hj
            simp only [hsub, hoff.2, fill_cell]
            by_cases hjl : j < len
            · have hc1 : s.offset - len ≤ s.offset - len + j ∧
                  s.offset - len + j < s.offset - len + len := by omega
              rw [if_pos hc1, image_read_data M _ _ _ _ (by omega)]
              have e1 : s.offset - len + j - (s.offset - len) = j := by omega
              have e2 : ring_wrap l.rb_profile_begin l.rb_profile_end (addr - len + j)
                  = addr - len + j := by
                unfold ring_wrap; rw [if_pos (by omega)]
              rw [e1, e2]
            · have hc1 : ¬ (s.offset - len ≤ s.offset - len + j ∧
                  s.offset - len + j < s.offset - len + len) := by omega
              rw [if_neg hc1]
              have e1 : s.offset - len + j = s.offset + (j - len) := by omega
              rw [e1, a6 (j - len) (by omega)]
              have e2 : ring_wrap l.rb_profile_begin l.rb_profile_end (s.address + (j - len))
                  = ring_wrap l.rb_profile_begin l.rb_profile_end (addr - len + j) := by
                unfold ring_wrap
                split_ifs <;> omega
              rw [e2]
        · exact allDives_progress _ _ _ _ (allDives_read _ _ _ _ hd)
      · exact allDives_read _ _ _ _ hd
    · exact ⟨⟨a1, a2, a3, a4, a7, a5, a6⟩, hd, by omega⟩

/-- A wrapped walk agrees with `ringbuffer_increment`. -/
theorem ring_wrap_increment (lo hi first x j : Nat) (hf : lo ≤ first ∧ first < hi)
    (hj : j ≤ hi - lo) (hx : x = first ∨ x = first + (hi - lo))
    (hxj : x + j < hi + (hi - lo)) :
    ring_wrap lo hi (x + j) = ringbuffer_increment first j lo hi := by
  rw [ringbuffer_increment_eq first j lo hi hf hj]
  unfold ring_wrap
  split_ifs <;> omega

/-- The block assembled for the callback is the logbook entry followed by the profile bytes of the image. -/
theorem deliver_core (M : Nat → Nat) (l : oceanic_common_layout_t)
    (logbooks p1 : Buffer) (entry : List Nat)
    (current size first last av off addr nbytes : Nat)
    (hent : logbooks.readable current 8 = true)
    (hentry : logbooks.load current 8 = entry)
    (hfirst : get_profile_first entry l = first)
    (hlast : get_profile_last entry l = last)
    (hfr : ringbuffer_defined first l.rb_profile_begin l.rb_profile_end = true)
    (hlr : ringbuffer_defined last l.rb_profile_begin l.rb_profile_end = true)
    (hsize : size = ringbuffer_distance first last false l.rb_profile_begin l.rb_profile_end + 16)
    (hav : av + size = nbytes) (hnb : nbytes ≤ l.rb_profile_end - l.rb_profile_begin)
    (hoff8 : 8 ≤ off) (ha2 : addr < l.rb_profile_end)
    (hlink : addr + av = first ∨ addr + av = first + (l.rb_profile_end - l.rb_profile_begin))
    (hp1b : ∀ j, av ≤ j → j < nbytes → p1.cell (off + j)
      = some (M (ring_wrap l.rb_profile_begin l.rb_profile_end (addr + j)) % 256)) :
    DiveOk M l
      ((p1.store (off - 8 + av) 8 (fun i => logbooks.cell (current + i))).load
          (off - 8 + av) (8 + size),
       (p1.store (off - 8 + av) 8 (fun i => logbooks.cell (current + i))).load
          (off - 8 + av) 8) := by
  subst hentry hfirst hlast
  have hfr' := hfr
  simp only [ringbuffer_defined, decide_eq_true_eq] at hfr'
  have he : (p1.store (off - 8 + av) 8 (fun i => logbooks.cell (current + i))).load
      (off - 8 + av) 8 = logbooks.load current 8 := by
    rw [load_eq_map _ _ _ (fun i => (logbooks.load current 8).getD i 0)]
    · symm
      exact load_eq_map _ _ _ _ (fun i hi => readable_cell logbooks current 8 i hent hi)
    · intro i hi
      rw [store_cell, if_pos (by omega)]
      have : off - 8 + av + i - (off - 8 + av) = i := by omega
      rw [this]
      exact readable_cell logbooks current 8 i hent hi
  refine ⟨logbooks.load current 8, load_length _ _ _, he, hfr, hlr, ?_⟩
  simp only
  rw [load_append, he]
  have hP : PAGESIZE = 16 := rfl
  rw [hP, ← hsize]
  congr 1
  apply load_eq_map
  intro j hj
  rw [store_cell, if_neg (by omega)]
  have e1 : off - 8 + av + 8 + j = off + (av + j) := by omega
  rw [e1, hp1b (av + j) (by omega) (by omega)]
  have e2 : addr + (av + j) = addr + av + j := by omega
  rw [e2, ring_wrap_increment l.rb_profile_begin l.rb_profile_end _ (addr + av) j hfr'
    (by omega) hlink (by omega)]

/-- Delivering a dive hands a good block to the callback and keeps the content invariant. -/
theorem profile_deliver_content (M : Nat → Nat) (env : Env) (l : oceanic_common_layout_t)
    (logbooks : Buffer) (current size : Nat) (s : ProfState) (r : ReadState)
    (hL : 16 ≤ l.rb_profile_end - l.rb_profile_begin) (hpe : l.rb_profile_end ≤ 1073741824)
    (hs : ProfInv M l s) (hr : ReadInv M l s.remaining s.previous r)
    (hd : AllDives (DiveOk M l) r.trace)
    (hent : logbooks.readable current (PAGESIZE / 2) = true)
    (hfr : ringbuffer_defined (get_profile_first (logbooks.load current (PAGESIZE / 2)) l)
      l.rb_profile_begin l.rb_profile_end = true)
    (hlr : ringbuffer_defined (get_profile_last (logbooks.load current (PAGESIZE / 2)) l)
      l.rb_profile_begin l.rb_profile_end = true)
    (hend : ringbuffer_increment (get_profile_last (logbooks.load current (PAGESIZE / 2)) l)
      16 l.rb_profile_begin l.rb_profile_end = s.previous)
    (hsize : size = ringbuffer_distance (get_profile_first (logbooks.load current (PAGESIZE / 2)) l)
      (get_profile_last (logbooks.load current (PAGESIZE / 2)) l) false
      l.rb_profile_begin l.rb_profile_end + 16)
    (hsz : size ≤ r.nbytes) (hszr : size ≤ s.remaining) :
    match profile_deliver env logbooks current
      (get_profile_first (logbooks.load current (PAGESIZE / 2)) l) size s r with
    | Step.stop r' => AllDives (DiveOk M l) r'.trace
    | Step.next (s', _) => ProfInv M l s' ∧ AllDives (DiveOk M l) s'.trace := by
  have hP2 : PAGESIZE / 2 = 8 := rfl
  obtain ⟨a1, a2, a3, a4, a7, a5, a6⟩ := hr
  obtain ⟨_, _, b3, _, _, _, b7, b8, _, _⟩ := hs
  have hfr' := hfr
  have hlr' := hlr
  simp only [ringbuffer_defined, decide_eq_true_eq] at hfr' hlr'
  have hdist := ringbuffer_distance_eq _ _ l.rb_profile_begin l.rb_profile_end false hfr' hlr'
  have hinc := ringbuffer_increment_eq _ 16 l.rb_profile_begin l.rb_profile_end hlr' hL
  simp only [Bool.false_eq_true, if_false] at hdist
  rw [hdist] at hsize
  rw [hinc] at hend
  generalize hentry : logbooks.load current (PAGESIZE / 2) = entry at *
  generalize hfirst : get_profile_first entry l = first at *
  generalize hlast : get_profile_last entry l = last at *
  have hdistb : ringbuffer_distance first last false l.rb_profile_begin l.rb_profile_end + 16
      = size := by rw [hdist, hsize]
  -- the new pointer is reached
  have hlink : r.address + (r.nbytes - size) = first ∨
      r.address + (r.nbytes - size) = first + (l.rb_profile_end - l.rb_profile_begin) := by
    rw [← hend] at a5
    split_ifs at a5 hsize <;> omega
  have h1 : usub r.nbytes size = r.nbytes - size := usub_eq _ _ hsz (by omega)
  have h2 : usub s.remaining size = s.remaining - size := usub_eq _ _ hszr (by omega)
  unfold profile_deliver
  simp only [h1, h2, hP2]
  by_cases c1 : r.nbytes - size ≠ 0 ∧ (r.offset < 8 ∨
      ¬ r.profiles.writable (r.offset - 8) (r.nbytes - size) = true ∨
      ¬ r.profiles.writable r.offset (r.nbytes - size) = true)
  · rw [if_pos c1]; exact hd
  rw [if_neg c1]
  obtain ⟨p1, hp1, hp1s, hp1b, hp1a⟩ : ∃ p1 : Buffer,
      (if r.nbytes - size ≠ 0 then r.profiles.memmove (r.offset - 8) r.offset (r.nbytes - size)
        else r.profiles) = p1 ∧ p1.size = r.profiles.size ∧
      (∀ j, r.nbytes - size ≤ j → p1.cell (r.offset + j) = r.profiles.cell (r.offset + j)) ∧
      (∀ j < r.nbytes - size, p1.cell (r.offset - 8 + j) = r.profiles.cell (r.offset + j)) := by
    refine ⟨_, rfl, ?_, ?_, ?_⟩
    · split_ifs <;> rfl
    · intro j hj
      split_ifs
      · rw [memmove_cell, if_neg (by omega)]
      · rfl
    · intro j hj
      have hav : r.nbytes - size ≠ 0 := by omega
      have h8 : 8 ≤ r.offset := by
        by_contra hcon
        exact c1 ⟨hav, Or.inl (by omega)⟩
      rw [if_pos hav, memmove_cell, if_pos (by omega)]
      congr 1
      omega
  rw [hp1]
  by_cases c2 : p1.writable (usub r.offset 8 + (r.nbytes - size)) 8 = true
  · rw [if_neg (not_not.mpr c2)]
    have hoff8 : 8 ≤ r.offset ∧ usub r.offset 8 = r.offset - 8 := by
      have : usub r.offset 8 + (r.nbytes - size) + 8 ≤ p1.size := by
        simpa [Buffer.writable] using c2
      unfold usub at this ⊢
      omega
    rw [hoff8.2]
    have hinv : ∀ (c pc : Nat) (t : List Event), ProfInv M l
        { profiles := p1.store (r.offset - 8 + (r.nbytes - size)) 8
            (fun i => logbooks.cell (current + i)),
          remaining := s.remaining - size, available := r.nbytes - size, previous := first,
          current := c, offset := r.offset - 8, address := r.address,
          progress_current := pc, trace := t } := by
      intro c pc t
      refine ⟨a1, a2, ?_, ?_, ?_, ?_, hfr'.1, hfr'.2, hlink, ?_⟩
      · simp only; omega
      · simp only; omega
      · simp only; omega
      · simp only [store_size, hp1s]; exact a7
      · intro j hj
        simp only at hj ⊢
        rw [store_cell, if_neg (by omega), hp1a j hj, a6 j (by omega)]
    have hdive : DiveOk M l
        ((p1.store (r.offset - 8 + (r.nbytes - size)) 8
            (fun i => logbooks.cell (current + i))).load
          (r.offset - 8 + (r.nbytes - size)) (u32 (size + 8)),
         (p1.store (r.offset - 8 + (r.nbytes - size)) 8
            (fun i => logbooks.cell (current + i))).load
          (r.offset - 8 + (r.nbytes - size)) 8) := by
      have e : u32 (size + 8) = 8 + size := by rw [u32_eq _ (by omega)]; omega
      rw [e]
      rw [hP2] at hentry hent
      exact deliver_core M l logbooks p1 entry current size first last (r.nbytes - size)
        r.offset r.address r.nbytes hent hentry hfirst hlast hfr hlr hdistb.symm (by omega)
        (by omega) hoff8.1 a2 hlink (fun j hj1 hj2 => by rw [hp1b j hj1, a6 j hj2])
    rcases env.callback with _ | cb
    · exact ⟨hinv _ _ _, hd⟩
    · simp only
      split_ifs
      · exact ⟨hinv _ _ _, allDives_dive _ _ _ _ hd hdive⟩
      · exact hd
  · rw [if_pos c2]; exact hd

/-- Size and end of a dive whose pointers lie inside the profile ring, without wrap-around. -/
theorem profile_size_eq (l : oceanic_common_layout_t) (first last : Nat)
    (hL : 16 ≤ l.rb_profile_end - l.rb_profile_begin) (hpe : l.rb_profile_end ≤ 1073741824)
    (hfr : l.rb_profile_begin ≤ first ∧ first < l.rb_profile_end)
    (hlr : l.rb_profile_begin ≤ last ∧ last < l.rb_profile_end) :
    u32 (RB_PROFILE_DISTANCE first last l + PAGESIZE)
      = ringbuffer_distance first last false l.rb_profile_begin l.rb_profile_end + 16 ∧
    RB_PROFILE_INCR last PAGESIZE l
      = ringbuffer_increment last 16 l.rb_profile_begin l.rb_profile_end ∧
    ringbuffer_distance first last false l.rb_profile_begin l.rb_profile_end + 16
      ≤ l.rb_profile_end - l.rb_profile_begin + 16 := by
  have hP : PAGESIZE = 16 := rfl
  have hdist := ringbuffer_distance_eq first last l.rb_profile_begin l.rb_profile_end false hfr hlr
  have hinc := ringbuffer_increment_eq last 16 l.rb_profile_begin l.rb_profile_end hlr hL
  simp only [Bool.false_eq_true, if_false] at hdist
  have hdb : ringbuffer_distance first last false l.rb_profile_begin l.rb_profile_end
      ≤ l.rb_profile_end - l.rb_profile_begin := by
    rw [hdist]; split_ifs <;> omega
  have hib : ringbuffer_increment last 16 l.rb_profile_begin l.rb_profile_end
      < l.rb_profile_end := by
    rw [hinc]; split_ifs <;> omega
  unfold RB_PROFILE_DISTANCE RB_PROFILE_INCR
  rw [hP]
  generalize ringbuffer_distance first last false l.rb_profile_begin l.rb_profile_end = d at *
  generalize ringbuffer_increment last 16 l.rb_profile_begin l.rb_profile_end = e at *
  rw [u32_eq d (by omega), u32_eq (d + 16) (by omega), u32_eq e (by omega)]
  exact ⟨rfl, rfl, by omega⟩

/-- One iteration of the profile loop delivers a good block and keeps the content invariant. -/
theorem profile_dive_content (M : Nat → Nat) (env : Env) (l : oceanic_common_layout_t)
    (mp : Nat) (logbooks : Buffer) (pm rf : Nat) (s : ProfState)
    (hread : env.device_read = image_read M) (hok : LayoutOk l mp)
    (hs : ProfInv M l s) (hd : AllDives (DiveOk M l) s.trace) :
    match profile_dive env l mp logbooks pm rf s with
    | Step.stop r' => AllDives (DiveOk M l) r'.trace
    | Step.next (s', _) => ProfInv M l s' ∧ AllDives (DiveOk M l) s'.trace := by
  have hP : PAGESIZE = 16 := rfl
  have hL : 16 ≤ l.rb_profile_end - l.rb_profile_begin := by
    have h1 := hok.pb; have h2 := hok.pe; have h3 := hok.profile
    rw [hP] at h1 h2; omega
  unfold profile_dive
  simp only []
  split_ifs with c1 c2 c3 c4
  all_goals try exact hd
  have hfr := c2.1
  have hlr := c2.2
  have hfr' := hfr
  have hlr' := hlr
  simp only [ringbuffer_defined, decide_eq_true_eq] at hfr' hlr'
  have hpe := hok.pe32
  obtain ⟨hsize, hinc, _⟩ := profile_size_eq l _ _ hL hpe hfr' hlr'
  have hend : ringbuffer_increment
        (get_profile_last (logbooks.load (usub s.current (PAGESIZE / 2)) (PAGESIZE / 2)) l) 16
        l.rb_profile_begin l.rb_profile_end = s.previous := by
    rw [← hinc]; exact not_not.mp c3
  rw [hsize] at c4 ⊢
  have hrd := profile_read_content M env l mp pm s.remaining
    (ringbuffer_distance
      (get_profile_first (logbooks.load (usub s.current (PAGESIZE / 2)) (PAGESIZE / 2)) l)
      (get_profile_last (logbooks.load (usub s.current (PAGESIZE / 2)) (PAGESIZE / 2)) l) false
      l.rb_profile_begin l.rb_profile_end + 16)
    s.previous (DiveOk M l) hread hok hs.rem_le
    (Nat.le_of_not_gt c4) hs.prev_lo rf
    { profiles := s.profiles, nbytes := s.available, offset := s.offset,
      address := s.address, progress_current := s.progress_current, trace := s.trace }
    ⟨hs.addr_lo, hs.addr_hi, hs.av_le, hs.off32, hs.size32, hs.link, hs.cont⟩ hd
  generalize profile_read env l mp pm s.remaining _ rf _ = pr at hrd
  rcases pr with r | r'
  · simp only at hrd ⊢
    exact profile_deliver_content M env l logbooks _ _ s r hL hpe hs hrd.1 hrd.2.1 c1 hfr hlr
      hend rfl hrd.2.2 (Nat.le_of_not_gt c4)
  · exact hrd

/-- The profile loop delivers good blocks only. -/
theorem profile_loop_content (M : Nat → Nat) (env : Env) (l : oceanic_common_layout_t)
    (mp : Nat) (logbooks : Buffer) (bg pm rf : Nat)
    (hread : env.device_read = image_read M) (hok : LayoutOk l mp) :
    ∀ (fuel : Nat) (s : ProfState), ProfInv M l s → AllDives (DiveOk M l) s.trace →
    match profile_loop env l mp logbooks bg pm rf fuel s with
    | Step.stop r => AllDives (DiveOk M l) r.trace
    | Step.next s' => AllDives (DiveOk M l) s'.trace := by
  intro fuel
  induction fuel with
  | zero =>
    intro s hinv hd
    unfold profile_loop
    split_ifs <;> exact hd
  | succ n ih =>
    intro s hinv hd
    unfold profile_loop
    split_ifs with hc
    · have hdv := profile_dive_content M env l mp logbooks pm rf s hread hok hinv hd
      simp only
      generalize profile_dive env l mp logbooks pm rf s = pd at hdv
      rcases pd with ⟨s', ab⟩ | r
      · simp only at hdv ⊢
        split_ifs
        · exact hdv.2
        · exact ih s' hdv.1 hdv.2
      · exact hdv
    · exact hd

/-- A read is not a callback invocation. -/
theorem dives_read (t : List Event) (a n : Nat) : dives (t ++ [Event.read a n]) = dives t := by
  rw [dives_append]; simp [dives]

/-- A progress event is not a callback invocation. -/
theorem dives_progress (t : List Event) (a n : Nat) :
    dives (t ++ [Event.progress a n]) = dives t := by
  rw [dives_append]; simp [dives]

/-- A device-info event is not a callback invocation. -/
theorem dives_devinfo (t : List Event) (a b c : Nat) :
    dives (t ++ [Event.devinfo a b c]) = dives t := by
  rw [dives_append]; simp [dives]

/-- The header part never invokes the callback. -/
theorem foreach_header_dives (env : Env) (l : oceanic_common_layout_t) :
    match foreach_header env l with
    | Step.stop r => dives r.trace = []
    | Step.next h => dives h.trace = [] := by
  unfold foreach_header
  simp only []
  split_ifs <;> simp [dives_read, dives_progress, dives_devinfo, dives]

/-- One iteration of the logbook loop never invokes the callback. -/
theorem logbook_page_dives (env : Env) (l : oceanic_common_layout_t) (mp : Nat)
    (fp : List Nat) (w : Window) (pm sf : Nat) (s : LogState) :
    match logbook_page env l mp fp w pm sf s with
    | Step.stop r => dives r.trace = dives s.trace
    | Step.next (s', _) => dives s'.trace = dives s.trace := by
  unfold logbook_page
  simp only []
  split_ifs
  · simp only [dives_read]
  · generalize logbook_fixup w _ s.nbytes _ _ = fx
    rcases fx with _ | ⟨lb', off'⟩
    · simp only [dives_read, dives_progress]
    · simp only
      generalize scan_entries lb' fp off' sf s.current s.begin_ = sc
      rcases sc with _ | _ | ⟨cur, bg, ab⟩ <;> simp only [dives_read, dives_progress]
  · simp only [dives_read]

/-- The logbook loop never invokes the callback. -/
theorem logbook_loop_dives (env : Env) (l : oceanic_common_layout_t) (mp : Nat)
    (fp : List Nat) (w : Window) (pm sf : Nat) :
    ∀ (fuel : Nat) (s : LogState),
    match logbook_loop env l mp fp w pm sf fuel s with
    | Step.stop r => dives r.trace = dives s.trace
    | Step.next s' => dives s'.trace = dives s.trace := by
  intro fuel
  induction fuel with
  | zero =>
    intro s
    unfold logbook_loop
    split_ifs <;> rfl
  | succ n ih =>
    intro s
    unfold logbook_loop
    split_ifs with hc
    · have hpage := logbook_page_dives env l mp fp w pm sf s
      simp only
      generalize logbook_page env l mp fp w pm sf s = pg at hpage
      rcases pg with ⟨s', ab⟩ | r
      · simp only at hpage ⊢
        split_ifs
        · exact hpage
        · have := ih s'
          generalize logbook_loop env l mp fp w pm sf n s' = lp at this
          rcases lp with s'' | r
          · simp only at this ⊢; rw [this, hpage]
          · simp only at this ⊢; rw [this, hpage]
      · exact hpage
    · rfl

/-- The logbook part never invokes the callback. -/
theorem foreach_logbooks_dives (env : Env) (device : oceanic_common_device_t)
    (l : oceanic_common_layout_t) (fuel : Nat) (h : Header) (hh : dives h.trace = []) :
    match foreach_logbooks env device l fuel h with
    | Step.stop r => dives r.trace = []
    | Step.next s => dives s.trace = [] := by
  unfold foreach_logbooks
  simp only []
  split_ifs
  · have := logbook_loop_dives env l device.multipage device.fingerprint
      (logbook_window l h.rb_logbook_first h.rb_logbook_last)
      (progress_maximum_logbook l (logbook_window l h.rb_logbook_first h.rb_logbook_last))
      fuel fuel
      { logbooks := Buffer.malloc (logbook_window l h.rb_logbook_first h.rb_logbook_last).page_size,
        begin_ := window_begin (logbook_window l h.rb_logbook_first h.rb_logbook_last),
        nbytes := 0,
        current := window_end (logbook_window l h.rb_logbook_first h.rb_logbook_last),
        offset := (logbook_window l h.rb_logbook_first h.rb_logbook_last).page_size,
        address := (logbook_window l h.rb_logbook_first h.rb_logbook_last).page_end,
        progress_current := u32 (h.progress_current + PAGESIZE),
        trace := h.trace ++ [Event.progress (u32 (h.progress_current + PAGESIZE))
          (progress_maximum_logbook l (logbook_window l h.rb_logbook_first h.rb_logbook_last))] }
    generalize logbook_loop env l device.multipage device.fingerprint _ _ fuel fuel _ = lp at this
    rcases lp with s | r
    · simp only at this ⊢; rw [this, dives_progress, hh]
    · simp only at this ⊢; rw [this, dives_progress, hh]
  · simp only [dives_progress, hh]

/-- The profile loop starts with the content invariant. -/
theorem profile_start_content (M : Nat → Nat) (env : Env) (l : oceanic_common_layout_t)
    (mp end_ : Nat) (s : LogState) (hok : LayoutOk l mp) :
    match profile_start env l end_ s with
    | Step.stop _ => True
    | Step.next p => ProfInv M l p.state := by
  unfold profile_start
  simp only []
  split_ifs with c1 c2 c3 c4
  all_goals try trivial
  obtain ⟨q1, q2, q3, q4, q5⟩ := profile_pointers_aligned l _ _ hok.pb hok.pe hok.pe32
    (get_profile_first_aligned (s.logbooks.load s.begin_ (PAGESIZE / 2)) l)
    (get_profile_last_aligned (s.logbooks.load (end_ - PAGESIZE / 2) (PAGESIZE / 2)) l)
    c3.1 c3.2
  exact ⟨q4, q5, q2, Nat.zero_le _, u32_lt _, u32_lt _, q4, q5, Or.inl rfl,
    fun j hj => absurd hj (Nat.not_lt_zero j)⟩

/-- The profile part delivers good blocks only. -/
theorem foreach_profiles_content (M : Nat → Nat) (env : Env) (device : oceanic_common_device_t)
    (l : oceanic_common_layout_t) (fuel end_ : Nat) (s : LogState)
    (hread : env.device_read = image_read M)
    (hok : LayoutOk l device.multipage)
    (hd : dives s.trace = []) :
    AllDives (DiveOk M l) (foreach_profiles env device l fuel end_ s).trace := by
  have hnil : AllDives (DiveOk M l) s.trace := by
    intro d hdm; rw [hd] at hdm; simp at hdm
  have hst := profile_start_addr env l device.multipage end_ s hok
  have hsc := profile_start_content M env l device.multipage end_ s hok
  unfold foreach_profiles
  generalize profile_start env l end_ s = ps at hst hsc
  rcases ps with p | r
  · simp only at hst hsc ⊢
    have hl := profile_loop_content M env l device.multipage s.logbooks s.begin_
      p.progress_maximum fuel hread hok fuel p.state hsc (by rw [hst.1]; exact hnil)
    generalize profile_loop env l device.multipage s.logbooks s.begin_ _ fuel fuel _ = pl at hl
    rcases pl with s' | r
    · exact hl
    · exact hl
  · simp only at hst ⊢
    rw [hst]; exact hnil

/-- Claim C7. Reassembly: run against a transport that serves a fixed memory image
`M`, for a well-formed layout and every `multipage ≥ 1`, every block handed to
the callback, however the run ends, consists of a logbook entry of
`PAGESIZE / 2` bytes, which is also the fingerprint argument, followed by
`entry_size = distance (entry_first, entry_last) + PAGESIZE` bytes that are the
bytes of `M` at the profile-ring addresses `entry_first, entry_first + 1, ...`
taken modulo the profile ring, where `entry_first` and `entry_last` are the
profile pointers of that entry. -/
theorem foreach_reassembly (M : Nat → Nat) (env : Env) (device : oceanic_common_device_t)
    (layout : oceanic_common_layout_t) (fuel : Nat)
    (hread : env.device_read = image_read M)
    (hlayout : device.layout = some layout)
    (hok : LayoutOk layout device.multipage) :
    ∀ d ∈ dives (oceanic_common_device_foreach env device fuel).trace, DiveOk M layout d := by
  have hnil : ∀ t, dives t = [] → AllDives (DiveOk M layout) t := by
    intro t ht d hdm; rw [ht] at hdm; simp at hdm
  have hh := foreach_header_dives env layout
  unfold oceanic_common_device_foreach
  simp only [hlayout]
  generalize foreach_header env layout = hd at hh
  rcases hd with h | r
  · simp only at hh ⊢
    have hl := foreach_logbooks_dives env device layout fuel h hh
    generalize foreach_logbooks env device layout fuel h = lg at hl
    rcases lg with s | r
    · exact foreach_profiles_content M env device layout fuel _ s hread hok hl
    · exact hnil _ hl
  · exact hnil _ hh

/-- The sample layout is well-formed for `multipage = 4`. -/
theorem sample_layout_ok : LayoutOk sample_layout 4 :=
  ⟨by decide, by decide, by decide, by decide, by decide, by decide, by decide, by decide,
   by decide, by decide, by decide, by decide⟩

/-- Witness of `foreach_reassembly`: the run over `sample_image` with
`multipage = 4` hands four blocks to the callback, all of them well assembled. -/
theorem foreach_reassembly_witness :
    (dives (oceanic_common_device_foreach (image_env sample_image accept_all)
        (sample_device [0, 0, 0, 0, 0, 0, 0, 0] 4) 20).trace).length = 4 ∧
    ∀ d ∈ dives (oceanic_common_device_foreach (image_env sample_image accept_all)
        (sample_device [0, 0, 0, 0, 0, 0, 0, 0] 4) 20).trace,
      DiveOk sample_image sample_layout d :=
  ⟨by decide!,
   foreach_reassembly sample_image (image_env sample_image accept_all)
     (sample_device [0, 0, 0, 0, 0, 0, 0, 0] 4) sample_layout 20 rfl rfl sample_layout_ok⟩

/-! ## Profile continuity: properties -/

/-- A continuous list stays continuous when a dive is appended that ends where the last dive of the list starts. -/
theorem diveChain_append (l : oceanic_common_layout_t) (d : List Nat × List Nat) :
    ∀ (ds : List (List Nat × List Nat)) (prev : Nat),
    DiveChain l prev ds →
    RB_PROFILE_INCR (get_profile_last d.2 l) PAGESIZE l = chain_end l prev ds →
    DiveChain l prev (ds ++ [d]) := by
  intro ds
  induction ds with
  | nil =>
    intro prev _ h
    simp only [chain_end] at h
    exact DiveChain.cons _ _ _ h (DiveChain.nil _)
  | cons e es ih =>
    intro prev hc h
    simp only [chain_end] at h
    cases hc with
    | cons _ _ _ h1 h2 => exact DiveChain.cons _ _ _ h1 (ih _ h2 h)

/-- After a dive is appended, the list ends at the start of that dive. -/
theorem chain_end_append (l : oceanic_common_layout_t) (d : List Nat × List Nat) :
    ∀ (ds : List (List Nat × List Nat)) (prev : Nat),
    chain_end l prev (ds ++ [d]) = get_profile_first d.2 l := by
  intro ds
  induction ds with
  | nil => intro prev; rfl
  | cons e es ih =>
    intro prev
    rw [List.cons_append]
    simp only [chain_end]
    exact ih _

/-- Reading profile data never invokes the callback. -/
theorem profile_read_dives (env : Env) (l : oceanic_common_layout_t) (mp : Nat)
    (pm remaining size : Nat) :
    ∀ (fuel : Nat) (s : ReadState),
    dives ((profile_read env l mp pm remaining size fuel s).trace_of ReadState.trace)
      = dives s.trace := by
  intro fuel
  induction fuel with
  | zero =>
    intro s
    unfold profile_read
    split_ifs <;> rfl
  | succ n ih =>
    intro s
    unfold profile_read
    split_ifs with hc
    · simp only []
      split_ifs
      · simp only [Step.trace_of, dives_read]
      · rw [ih]; simp only [dives_read, dives_progress]
      · simp only [Step.trace_of, dives_read]
    · rfl

/-- The eight bytes read back from where a logbook entry was stored are the entry. -/
theorem store_load_entry (p1 logbooks : Buffer) (pos current : Nat)
    (hent : logbooks.readable current 8 = true) :
    (p1.store pos 8 (fun i => logbooks.cell (current + i))).load pos 8
      = logbooks.load current 8 := by
  rw [load_eq_map _ _ _ (fun i => (logbooks.load current 8).getD i 0)]
  · symm
    exact load_eq_map _ _ _ _ (fun i hi => readable_cell logbooks current 8 i hent hi)
  · intro i hi
    rw [store_cell, if_pos (by omega)]
    have : pos + i - pos = i := by omega
    rw [this]
    exact readable_cell logbooks current 8 i hent hi

/-- Delivering a dive whose end is the start of the previous one keeps the chain invariant and hands at most one block to the callback. -/
theorem profile_deliver_chain (env : Env) (l : oceanic_common_layout_t) (logbooks : Buffer)
    (current size prev0 : Nat) (s : ProfState) (r : ReadState)
    (hent : logbooks.readable current (PAGESIZE / 2) = true)
    (hend : RB_PROFILE_INCR (get_profile_last (logbooks.load current (PAGESIZE / 2)) l)
      PAGESIZE l = s.previous)
    (hinv : ChainInv env l prev0 s) (hr : dives r.trace = dives s.trace) :
    match profile_deliver env logbooks current
      (get_profile_first (logbooks.load current (PAGESIZE / 2)) l) size s r with
    | Step.stop r' => dives r'.trace = dives s.trace
    | Step.next (s', _) => ChainInv env l prev0 s' ∧
        (dives s'.trace).length ≤ (dives s.trace).length + 1 := by
  have hP2 : PAGESIZE / 2 = 8 := rfl
  rw [hP2] at hent hend ⊢
  have hnone : ∀ s' : ProfState, env.callback = none → s'.trace = r.trace →
      ChainInv env l prev0 s' ∧ (dives s'.trace).length ≤ (dives s.trace).length + 1 := by
    intro s' hcb ht
    refine ⟨⟨fun _ => by rw [ht, hr]; exact hinv.1 hcb, fun h => absurd hcb h⟩, ?_⟩
    rw [ht, hr]; omega
  have hsome : ∀ (s' : ProfState) (data fp : List Nat), env.callback ≠ none →
      fp = logbooks.load current 8 →
      s'.previous = get_profile_first (logbooks.load current 8) l →
      s'.trace = r.trace ++ [Event.dive data fp] →
      ChainInv env l prev0 s' ∧ (dives s'.trace).length ≤ (dives s.trace).length + 1 := by
    intro s' data fp hne hfp hp ht
    obtain ⟨hc1, hc2⟩ := hinv.2 hne
    refine ⟨⟨fun h => absurd h hne, fun _ => ?_⟩, ?_⟩
    · rw [ht, hp]
      simp only [dives_append, dives, hr]
      exact ⟨diveChain_append l _ _ _ hc1 (by rw [hc2, hfp]; exact hend),
        by rw [chain_end_append, hfp]⟩
    · rw [ht]
      simp only [dives_append, dives, hr, List.length_append, List.length_singleton]
      omega
  unfold profile_deliver
  simp only [hP2]
  split_ifs
  all_goals first | exact hr | skip
  all_goals rcases hcb : env.callback with _ | cb
  all_goals simp only []
  all_goals first
    | exact hr
    | exact hnone _ hcb rfl
    | exact hsome _ _ _ (by rw [hcb]; simp) (store_load_entry _ _ _ _ hent) rfl rfl

/-- One iteration of the profile loop keeps the chain invariant and hands at most one block to the callback. -/
theorem profile_dive_chain (env : Env) (l : oceanic_common_layout_t) (mp : Nat)
    (logbooks : Buffer) (pm rf prev0 : Nat) (s : ProfState) (hinv : ChainInv env l prev0 s) :
    match profile_dive env l mp logbooks pm rf s with
    | Step.stop r' => dives r'.trace = dives s.trace
    | Step.next (s', _) => ChainInv env l prev0 s' ∧
        (dives s'.trace).length ≤ (dives s.trace).length + 1 := by
  unfold profile_dive
  simp only []
  split_ifs with c1 c2 c3 c4
  all_goals try rfl
  have hrd := profile_read_dives env l mp pm s.remaining
    (u32 (RB_PROFILE_DISTANCE
      (get_profile_first (logbooks.load (usub s.current (PAGESIZE / 2)) (PAGESIZE / 2)) l)
      (get_profile_last (logbooks.load (usub s.current (PAGESIZE / 2)) (PAGESIZE / 2)) l) l
      + PAGESIZE)) rf
    { profiles := s.profiles, nbytes := s.available, offset := s.offset,
      address := s.address, progress_current := s.progress_current, trace := s.trace }
  generalize profile_read env l mp pm s.remaining _ rf _ = pr at hrd
  rcases pr with r | r'
  · simp only [Step.trace_of] at hrd ⊢
    exact profile_deliver_chain env l logbooks _ _ prev0 s r c1 (not_not.mp c3) hinv hrd
  · exact hrd

/-- Under the chain invariant the dives delivered so far are continuous. -/
theorem chainInv_chain (env : Env) (l : oceanic_common_layout_t) (prev0 : Nat) (s : ProfState)
    (h : ChainInv env l prev0 s) : DiveChain l prev0 (dives s.trace) := by
  by_cases hc : env.callback = none
  · rw [h.1 hc]; exact DiveChain.nil _
  · exact (h.2 hc).1

/-- The dives delivered by the profile loop are continuous, however the loop ends. -/
theorem profile_loop_chain (env : Env) (l : oceanic_common_layout_t) (mp : Nat)
    (logbooks : Buffer) (bg pm rf prev0 : Nat) :
    ∀ (fuel : Nat) (s : ProfState), ChainInv env l prev0 s →
    DiveChain l prev0
      (dives ((profile_loop env l mp logbooks bg pm rf fuel s).trace_of ProfState.trace)) := by
  intro fuel
  induction fuel with
  | zero =>
    intro s hinv
    unfold profile_loop
    split_ifs <;> exact chainInv_chain env l prev0 s hinv
  | succ n ih =>
    intro s hinv
    unfold profile_loop
    split_ifs with hc
    · have hdv := profile_dive_chain env l mp logbooks pm rf prev0 s hinv
      simp only
      generalize profile_dive env l mp logbooks pm rf s = pd at hdv
      rcases pd with ⟨s', ab⟩ | r
      · simp only at hdv ⊢
        split_ifs
        · exact chainInv_chain env l prev0 s' hdv.1
        · exact ih s' hdv.1
      · simp only [Step.trace_of] at hdv ⊢
        rw [hdv]; exact chainInv_chain env l prev0 s hinv
    · exact chainInv_chain env l prev0 s hinv

/-- The preparation of the profile loop adds nothing to the trace. -/
theorem profile_start_trace (env : Env) (l : oceanic_common_layout_t) (end_ : Nat)
    (s : LogState) :
    match profile_start env l end_ s with
    | Step.stop r => r.trace = s.trace
    | Step.next p => p.state.trace = s.trace := by
  unfold profile_start
  simp only []
  split_ifs
  all_goals rfl

/-- After `k` complete iterations the profile loop goes on from the state reached, with the fuel that is left. -/
theorem profile_steps_loop (env : Env) (l : oceanic_common_layout_t) (mp : Nat)
    (logbooks : Buffer) (bg pm rf : Nat) :
    ∀ (k : Nat) (s0 s : ProfState) (fuel : Nat),
    profile_steps env l mp logbooks bg pm rf k s0 = some s →
    profile_loop env l mp logbooks bg pm rf (k + fuel) s0
      = profile_loop env l mp logbooks bg pm rf fuel s := by
  intro k
  induction k with
  | zero =>
    intro s0 s fuel h
    simp only [profile_steps, Option.some.injEq] at h
    rw [h, Nat.zero_add]
  | succ n ih =>
    intro s0 s fuel h
    unfold profile_steps at h
    split_ifs at h with hc
    have e : n + 1 + fuel = (n + fuel) + 1 := by omega
    rw [e]
    conv => lhs; unfold profile_loop
    rw [if_neg (by simpa using hc)]
    simp only
    generalize profile_dive env l mp logbooks pm rf s0 = pd at h
    rcases pd with ⟨s', ab⟩ | r
    · cases ab
      · simp only at h ⊢
        simp only [Bool.false_eq_true, if_false]
        exact ih s' s fuel h
      · simp only [reduceCtorEq] at h
    · simp only [reduceCtorEq] at h

/-- The chain invariant holds after `k` complete iterations, and at most `k` blocks were handed to the callback. -/
theorem profile_steps_chain (env : Env) (l : oceanic_common_layout_t) (mp : Nat)
    (logbooks : Buffer) (bg pm rf prev0 : Nat) :
    ∀ (k : Nat) (s0 s : ProfState),
    profile_steps env l mp logbooks bg pm rf k s0 = some s → ChainInv env l prev0 s0 →
    ChainInv env l prev0 s ∧ (dives s.trace).length ≤ (dives s0.trace).length + k := by
  intro k
  induction k with
  | zero =>
    intro s0 s h hinv
    simp only [profile_steps, Option.some.injEq] at h
    subst h
    exact ⟨hinv, Nat.le_refl _⟩
  | succ n ih =>
    intro s0 s h hinv
    unfold profile_steps at h
    split_ifs at h with hc
    have hdv := profile_dive_chain env l mp logbooks pm rf prev0 s0 hinv
    generalize profile_dive env l mp logbooks pm rf s0 = pd at h hdv
    rcases pd with ⟨s', ab⟩ | r
    · cases ab
      · simp only at h hdv
        obtain ⟨h1, h2⟩ := ih s' s h hdv.1
        exact ⟨h1, by omega⟩
      · simp only [reduceCtorEq] at h
    · simp only [reduceCtorEq] at h

/-- An iteration of the profile loop that rejects its entry returns `ERROR` with the trace unchanged. -/
theorem entry_rejected_dive (env : Env) (l : oceanic_common_layout_t) (mp : Nat)
    (logbooks : Buffer) (bg pm rf : Nat) (s : ProfState)
    (h : entry_rejected l logbooks bg s = true) :
    s.current ≠ bg ∧
    profile_dive env l mp logbooks pm rf s = Step.stop ⟨Outcome.returned ERROR, s.trace⟩ := by
  unfold entry_rejected at h
  simp only [Bool.and_eq_true, Bool.or_eq_true, decide_eq_true_eq] at h
  obtain ⟨⟨⟨⟨h1, h2⟩, h3⟩, h4⟩, h5⟩ := h
  refine ⟨h1, ?_⟩
  unfold profile_dive
  simp only []
  rw [if_neg (by simpa using h2), if_neg (by simp [h3, h4])]
  rcases h5 with h5 | h5
  · rw [if_pos h5]
  · split_ifs
    · rfl
    · rfl

/-- When the entry after `k` complete iterations is rejected, the profile loop returns `ERROR` with the trace of that moment. -/
theorem entry_rejected_loop (env : Env) (l : oceanic_common_layout_t) (mp : Nat)
    (logbooks : Buffer) (bg pm rf k fuel : Nat) (s0 s : ProfState)
    (hk : k < fuel)
    (hs : profile_steps env l mp logbooks bg pm rf k s0 = some s)
    (h : entry_rejected l logbooks bg s = true) :
    profile_loop env l mp logbooks bg pm rf fuel s0
      = Step.stop ⟨Outcome.returned ERROR, s.trace⟩ := by
  obtain ⟨m, rfl⟩ : ∃ m, fuel = k + (m + 1) := ⟨fuel - k - 1, by omega⟩
  rw [profile_steps_loop env l mp logbooks bg pm rf k s0 s (m + 1) hs]
  obtain ⟨h1, h2⟩ := entry_rejected_dive env l mp logbooks bg pm rf s h
  unfold profile_loop
  rw [if_neg (by simpa using h1)]
  simp only [h2]

/-- Claim C10. Profile continuity of `oceanic_common_device_foreach`, for every transport and callback: the blocks handed to the callback form a continuous chain that starts at `rb_profile_end` (line 388): `increment (entry_last, PAGESIZE)` of every delivered dive equals `entry_first` of the dive delivered just before it, and `rb_profile_end` for the first delivered dive; a run that ends before the profile loop delivers nothing. And when after `k` complete iterations of the profile loop the next entry, with both pointers in the profile ring, fails this equality or has a size above the remaining profile bytes, the run returns `ERROR` with the trace it had on reaching that entry: neither this entry nor an older one is delivered, and at most `k` blocks were delivered at all. -/
theorem foreach_continuity (env : Env) (device : oceanic_common_device_t)
    (layout : oceanic_common_layout_t) (fuel : Nat)
    (hlayout : device.layout = some layout) :
    (∀ e, profile_end_addr env device fuel = some e →
      DiveChain layout e (dives (oceanic_common_device_foreach env device fuel).trace)) ∧
    (profile_end_addr env device fuel = none →
      dives (oceanic_common_device_foreach env device fuel).trace = []) ∧
    (∀ k, k < fuel → foreach_rejects env device fuel k = true →
      (oceanic_common_device_foreach env device fuel).outcome = Outcome.returned ERROR ∧
      (foreach_profile_state env device fuel k).map (fun p => p.2.trace)
        = some (oceanic_common_device_foreach env device fuel).trace ∧
      (dives (oceanic_common_device_foreach env device fuel).trace).length ≤ k) := by
  have hh := foreach_header_dives env layout
  unfold profile_end_addr foreach_rejects foreach_profile_state oceanic_common_device_foreach
  simp only [hlayout]
  generalize foreach_header env layout = hd at hh
  rcases hd with h | r
  swap
  · simp only [Option.map_none']
    exact ⟨fun e he => absurd he (by simp), fun _ => hh, fun k _ hf => absurd hf (by simp)⟩
  simp only at hh ⊢
  have hl := foreach_logbooks_dives env device layout fuel h hh
  generalize foreach_logbooks env device layout fuel h = lg at hl
  rcases lg with sl | r
  swap
  · simp only [Option.map_none']
    exact ⟨fun e he => absurd he (by simp), fun _ => hl, fun k _ hf => absurd hf (by simp)⟩
  simp only at hl ⊢
  have hst := profile_start_trace env layout
    (window_end (logbook_window layout h.rb_logbook_first h.rb_logbook_last)) sl
  unfold foreach_profiles
  generalize profile_start env layout _ sl = ps at hst
  rcases ps with p | r
  swap
  · simp only [Option.map_none']
    simp only at hst
    exact ⟨fun e he => absurd he (by simp), fun _ => by rw [hst]; exact hl,
      fun k _ hf => absurd hf (by simp)⟩
  simp only [profile_steps, Option.map_some'] at hst ⊢
  have hd0 : dives p.state.trace = [] := by rw [hst]; exact hl
  have hinv : ChainInv env layout p.state.previous p.state :=
    ⟨fun _ => hd0, fun _ => by rw [hd0]; exact ⟨DiveChain.nil _, rfl⟩⟩
  refine ⟨?_, fun hn => absurd hn (by simp), ?_⟩
  · intro e he
    simp only [Option.some.injEq] at he
    subst he
    have hc := profile_loop_chain env layout device.multipage sl.logbooks sl.begin_
      p.progress_maximum fuel p.state.previous fuel p.state hinv
    generalize profile_loop env layout device.multipage sl.logbooks sl.begin_
      p.progress_maximum fuel fuel p.state = pl at hc
    rcases pl with s' | r
    · exact hc
    · exact hc
  · intro k hk hrej
    generalize hps : profile_steps env layout device.multipage sl.logbooks sl.begin_
      p.progress_maximum fuel k p.state = st at hrej
    rcases st with _ | s
    · simp at hrej
    simp only at hrej
    rw [entry_rejected_loop env layout device.multipage sl.logbooks sl.begin_
      p.progress_maximum fuel k fuel p.state s hk hps hrej]
    simp only [Option.map_some', true_and]
    have := (profile_steps_chain env layout device.multipage sl.logbooks sl.begin_
      p.progress_maximum fuel p.state.previous k p.state s hps hinv).2
    rw [hd0] at this
    simpa using this

/-- Witness of `foreach_continuity`: over `broken_image` the run delivers the two newest dives, which are continuous from `rb_profile_end = 0xC0`, rejects the third entry and returns `ERROR`. -/
theorem foreach_continuity_witness :
    DiveChain sample_layout 0xC0
      (dives (oceanic_common_device_foreach (image_env broken_image accept_all)
        (sample_device [0, 0, 0, 0, 0, 0, 0, 0] 4) 20).trace) ∧
    (oceanic_common_device_foreach (image_env broken_image accept_all)
        (sample_device [0, 0, 0, 0, 0, 0, 0, 0] 4) 20).outcome = Outcome.returned ERROR ∧
    (dives (oceanic_common_device_foreach (image_env broken_image accept_all)
        (sample_device [0, 0, 0, 0, 0, 0, 0, 0] 4) 20).trace).length ≤ 2 :=
  ⟨(foreach_continuity (image_env broken_image accept_all)
      (sample_device [0, 0, 0, 0, 0, 0, 0, 0] 4) sample_layout 20 rfl).1 0xC0 (by decide!),
   ((foreach_continuity (image_env broken_image accept_all)
      (sample_device [0, 0, 0, 0, 0, 0, 0, 0] 4) sample_layout 20 rfl).2.2 2 (by decide)
      (by decide!)).1,
   ((foreach_continuity (image_env broken_image accept_all)
      (sample_device [0, 0, 0, 0, 0, 0, 0, 0] 4) sample_layout 20 rfl).2.2 2 (by decide)
      (by decide!)).2.2⟩

/-! ## The fingerprint cut -/

/-- Delivering a dive adds nothing to the callback invocations without a callback, and otherwise one block whose fingerprint is the logbook entry. -/
theorem profile_deliver_dives (env : Env) (logbooks : Buffer)
    (current first size : Nat) (s : ProfState) (r : ReadState)
    (hent : logbooks.readable current (PAGESIZE / 2) = true) :
    match profile_deliver env logbooks current first size s r with
    | Step.stop r' => dives r'.trace = dives r.trace
    | Step.next (s', _) =>
      (env.callback = none ∧ dives s'.trace = dives r.trace) ∨
      (env.callback ≠ none ∧ ∃ data, dives s'.trace
        = dives r.trace ++ [(data, logbooks.load current (PAGESIZE / 2))]) := by
  have hP2 : PAGESIZE / 2 = 8 := rfl
  rw [hP2] at hent ⊢
  unfold profile_deliver
  simp only [hP2]
  split_ifs
  all_goals first | rfl | skip
  all_goals rcases hcb : env.callback with _ | cb
  all_goals simp only []
  all_goals first
    | rfl
    | exact Or.inl ⟨trivial, trivial⟩
    | exact Or.inl ⟨rfl, rfl⟩
    | exact Or.inr ⟨by simp, _, by
        simp only [dives_append, dives]
        rw [store_load_entry _ _ _ _ hent]⟩

/-- One iteration of the profile loop that goes on has read its logbook entry and added at most one block, whose fingerprint is that entry. -/
theorem profile_dive_dives (env : Env) (l : oceanic_common_layout_t) (mp : Nat)
    (logbooks : Buffer) (pm rf : Nat) (s : ProfState) :
    match profile_dive env l mp logbooks pm rf s with
    | Step.stop r' => dives r'.trace = dives s.trace
    | Step.next (s', _) =>
      logbooks.readable (usub s.current (PAGESIZE / 2)) (PAGESIZE / 2) = true ∧
      ((env.callback = none ∧ dives s'.trace = dives s.trace) ∨
       (env.callback ≠ none ∧ ∃ data, dives s'.trace = dives s.trace ++
          [(data, logbooks.load (usub s.current (PAGESIZE / 2)) (PAGESIZE / 2))])) := by
  unfold profile_dive
  simp only []
  split_ifs with c1 c2 c3 c4
  all_goals try rfl
  have hrd := profile_read_dives env l mp pm s.remaining
    (u32 (RB_PROFILE_DISTANCE
      (get_profile_first (logbooks.load (usub s.current (PAGESIZE / 2)) (PAGESIZE / 2)) l)
      (get_profile_last (logbooks.load (usub s.current (PAGESIZE / 2)) (PAGESIZE / 2)) l) l
      + PAGESIZE)) rf
    { profiles := s.profiles, nbytes := s.available, offset := s.offset,
      address := s.address, progress_current := s.progress_current, trace := s.trace }
  generalize profile_read env l mp pm s.remaining _ rf _ = pr at hrd
  rcases pr with r | r'
  · simp only [Step.trace_of] at hrd ⊢
    have hd := profile_deliver_dives env logbooks (usub s.current (PAGESIZE / 2))
      (get_profile_first (logbooks.load (usub s.current (PAGESIZE / 2)) (PAGESIZE / 2)) l)
      (u32 (RB_PROFILE_DISTANCE
        (get_profile_first (logbooks.load (usub s.current (PAGESIZE / 2)) (PAGESIZE / 2)) l)
        (get_profile_last (logbooks.load (usub s.current (PAGESIZE / 2)) (PAGESIZE / 2)) l) l
        + PAGESIZE)) s r c1
    generalize profile_deliver env logbooks _ _ _ s r = pd at hd
    rcases pd with ⟨s', ab⟩ | r'
    · simp only at hd ⊢
      rw [hrd] at hd
      exact ⟨c1, hd⟩
    · simp only at hd ⊢
      rw [hd, hrd]
  · exact hrd

/-- The profile loop only appends to the callback invocations, and appends nothing without a callback. -/
theorem profile_loop_prefix (env : Env) (l : oceanic_common_layout_t) (mp : Nat)
    (logbooks : Buffer) (bg pm rf : Nat) :
    ∀ (fuel : Nat) (s : ProfState),
    ∃ more, dives ((profile_loop env l mp logbooks bg pm rf fuel s).trace_of ProfState.trace)
      = dives s.trace ++ more ∧ (env.callback = none → more = []) := by
  intro fuel
  induction fuel with
  | zero =>
    intro s
    unfold profile_loop
    split_ifs <;> exact ⟨[], by simp [Step.trace_of], fun _ => rfl⟩
  | succ n ih =>
    intro s
    unfold profile_loop
    split_ifs with hc
    · have hdv := profile_dive_dives env l mp logbooks pm rf s
      simp only
      generalize profile_dive env l mp logbooks pm rf s = pd at hdv
      rcases pd with ⟨s', ab⟩ | r
      · simp only at hdv ⊢
        obtain ⟨_, hdv⟩ := hdv
        split_ifs
        · rcases hdv with ⟨h1, h2⟩ | ⟨h1, data, h2⟩
          · exact ⟨[], by simp [Step.trace_of, h2], fun _ => rfl⟩
          · exact ⟨_, by simp only [Step.trace_of]; exact h2, fun hn => absurd hn h1⟩
        · obtain ⟨more, h3, h4⟩ := ih s'
          rcases hdv with ⟨h1, h2⟩ | ⟨h1, data, h2⟩
          · exact ⟨more, by rw [h3, h2], h4⟩
          · exact ⟨(data, logbooks.load (usub s.current (PAGESIZE / 2)) (PAGESIZE / 2)) :: more,
              by rw [h3, h2]; simp, fun hn => absurd hn h1⟩
      · simp only [Step.trace_of] at hdv ⊢
        exact ⟨[], by simp [hdv], fun _ => rfl⟩
    · exact ⟨[], by simp [Step.trace_of], fun _ => rfl⟩

/-- The first block the profile loop hands to the callback carries the logbook entry in front of the initial `current`. -/
theorem profile_loop_first (env : Env) (l : oceanic_common_layout_t) (mp : Nat)
    (logbooks : Buffer) (bg pm rf fuel : Nat) (s : ProfState)
    (d : List Nat × List Nat) (rest : List (List Nat × List Nat))
    (hs : dives s.trace = [])
    (hd : dives ((profile_loop env l mp logbooks bg pm rf fuel s).trace_of ProfState.trace)
      = d :: rest) :
    s.current ≠ bg ∧
    logbooks.readable (usub s.current (PAGESIZE / 2)) (PAGESIZE / 2) = true ∧
    d.2 = logbooks.load (usub s.current (PAGESIZE / 2)) (PAGESIZE / 2) := by
  rcases fuel with _ | n
  · unfold profile_loop at hd
    split_ifs at hd <;> simp [Step.trace_of, hs] at hd
  unfold profile_loop at hd
  split_ifs at hd with hc
  swap
  · simp [Step.trace_of, hs] at hd
  refine ⟨hc, ?_⟩
  have hdv := profile_dive_dives env l mp logbooks pm rf s
  simp only at hd
  generalize profile_dive env l mp logbooks pm rf s = pd at hdv hd
  rcases pd with ⟨s', ab⟩ | r
  · simp only at hdv hd
    obtain ⟨hrd, hdv⟩ := hdv
    refine ⟨hrd, ?_⟩
    obtain ⟨more, h3, h4⟩ := profile_loop_prefix env l mp logbooks bg pm rf n s'
    rcases hdv with ⟨h1, h2⟩ | ⟨h1, data, h2⟩
    · exfalso
      split_ifs at hd
      · simp [Step.trace_of, h2, hs] at hd
      · rw [h3, h2, hs, h4 h1] at hd
        simp at hd
    · rw [hs, List.nil_append] at h2
      split_ifs at hd
      · simp only [Step.trace_of, h2, List.cons.injEq] at hd
        rw [← hd.1]
      · rw [h3, h2, List.singleton_append, List.cons.injEq] at hd
        rw [← hd.1]
  · simp [Step.trace_of, hdv, hs] at hd

/-- The end of the valid entries in the logbook buffer: at most 15 bytes of padding lie behind it, and in a full ring it is the buffer size. -/
theorem window_end_spec (l : oceanic_common_layout_t) (first last : Nat) (w : Window)
    (hw : w = logbook_window l first last)
    (hlb : l.rb_logbook_begin % PAGESIZE = 0) (hle : l.rb_logbook_end % PAGESIZE = 0)
    (hlog : l.rb_logbook_begin < l.rb_logbook_end)
    (h32 : l.rb_logbook_end ≤ 1073741824)
    (hps : 0 < w.page_size) :
    usub w.page_end w.entry_end ≤ 15 ∧
    (w.unaligned = true ↔ usub w.page_end w.entry_end ≠ 0) ∧
    (w.full = false → window_end w + usub w.page_end w.entry_end = w.page_size) ∧
    (w.full = true → window_end w = w.page_size ∧ window_begin w = 0 ∧
      w.page_size = l.rb_logbook_end - l.rb_logbook_begin) ∧
    window_begin w ≤ window_end w := by
  have hP : PAGESIZE = 16 := rfl
  rw [hP] at hlb hle
  subst hw
  by_cases hout : first < l.rb_logbook_begin ∨ first ≥ l.rb_logbook_end ∨
      last < l.rb_logbook_begin ∨ last ≥ l.rb_logbook_end
  · obtain ⟨h1, _, _, _, h5⟩ := window_empty l first last (by rw [hP]; exact hlb) (by omega) hout
    omega
  · have hfirst : l.rb_logbook_begin ≤ first ∧ first < l.rb_logbook_end := by omega
    have hlast : l.rb_logbook_begin ≤ last ∧ last < l.rb_logbook_end := by omega
    obtain ⟨e, d, hb, hee, hd, hfull, hpe, hpb, hpsz, hun, he1, he2, hdb, hm0, hm1⟩ :=
      window_in_range l first last hfirst hlast (by omega) h32
    have hpad : usub ((e + 15) / 16 * 16) e = (e + 15) / 16 * 16 - e :=
      usub_eq _ _ (by omega) (by omega)
    have hfl : usub first (first / 16 * 16) = first - first / 16 * 16 :=
      usub_eq _ _ (by omega) (by omega)
    unfold window_end window_begin
    rw [hpsz] at hps ⊢
    simp only [hfull, hpe, hee, hpb, hb, hun, hpad, decide_eq_true_eq, decide_eq_false_iff_not,
      Nat.zero_add]
    refine ⟨by omega, ?_, ?_, ?_, ?_⟩
    · omega
    · intro hf
      simp only [hf, if_false, not_false_eq_true, if_true]
      rw [usub_eq _ _ (by omega) (by omega)]
      omega
    · intro hf
      simp only [hf, if_true, not_true_eq_false, if_false]
      exact ⟨trivial, trivial, trivial⟩
    · by_cases hf : d = l.rb_logbook_end - l.rb_logbook_begin
      · simp only [hf, if_true, not_true_eq_false, if_false]; omega
      · simp only [hf, if_false, not_false_eq_true, if_true, hfl]
        rw [usub_eq _ _ (by omega) (by omega), u32_eq _ (by omega)]
        omega

/-- What a completed entry scan tells: `current` moved down in steps of eight through determinate cells; without `abort` it stopped at `offset` or `begin`, with `abort` the new `begin` is the entry behind `current`. -/
theorem scan_entries_spec (lb : Buffer) (fp : List Nat) (off : Nat)
    (hsize : lb.size ≤ 1073741824 + 64) :
    ∀ (sf cur bg cur' bg' : Nat) (ab : Bool), cur < 4294967296 →
    scan_entries lb fp off sf cur bg = some (some (cur', bg', ab)) →
    ∃ j, cur' + 8 * j = cur ∧ (∀ i, cur' ≤ i → i < cur → lb.cell i ≠ none) ∧
      (ab = false → bg' = bg ∧ (cur' = off ∨ cur' = bg)) ∧
      (ab = true → bg' = cur' + 8 ∧ 1 ≤ j) := by
  have hP2 : PAGESIZE / 2 = 8 := rfl
  have hexit : ∀ cur bg cur' bg' : Nat, ∀ ab : Bool, ¬(cur ≠ off ∧ cur ≠ bg) →
      some (some (cur, bg, false)) = some (some (cur', bg', ab)) →
      ∃ j, cur' + 8 * j = cur ∧ (∀ i, cur' ≤ i → i < cur → lb.cell i ≠ none) ∧
        (ab = false → bg' = bg ∧ (cur' = off ∨ cur' = bg)) ∧
        (ab = true → bg' = cur' + 8 ∧ 1 ≤ j) := by
    intro cur bg cur' bg' ab hc h
    simp only [Option.some.injEq, Prod.mk.injEq] at h
    obtain ⟨h1, h2, h3⟩ := h
    subst h1 h2 h3
    exact ⟨0, by omega, fun i h1 h2 => by omega, fun _ => ⟨rfl, by omega⟩,
      fun h => by simp at h⟩
  intro sf
  induction sf with
  | zero =>
    intro cur bg cur' bg' ab hcur h
    unfold scan_entries at h
    split_ifs at h with hc
    · simp at h
    · exact hexit _ _ _ _ _ hc h
  | succ n ih =>
    intro cur bg cur' bg' ab hcur h
    unfold scan_entries at h
    simp only [] at h
    rw [hP2] at h
    split_ifs at h with hc hr h1 h2
    rotate_right
    · exact hexit _ _ _ _ _ hc h
    all_goals
      have hsz : usub cur 8 + 8 ≤ lb.size := by
        simp only [Buffer.readable, Bool.and_eq_true, decide_eq_true_eq] at hr
        exact hr.1
      have h8 : 8 ≤ cur := by
        by_contra hlt
        have : usub cur 8 = cur + 4294967288 := by unfold usub; omega
        omega
      have hu : usub cur 8 = cur - 8 := usub_eq _ _ h8 hcur
      have hcells : ∀ i, cur - 8 ≤ i → i < cur → lb.cell i ≠ none := by
        intro i hi1 hi2
        have := readable_cell lb (usub cur 8) 8 (i - (cur - 8)) hr (by omega)
        rw [hu] at this
        have e : cur - 8 + (i - (cur - 8)) = i := by omega
        rw [e] at this
        rw [this]; simp
    · simp only [Option.some.injEq, Prod.mk.injEq] at h
      obtain ⟨e1, e2, e3⟩ := h
      subst e1 e2 e3
      refine ⟨1, by omega, fun i h1 h2 => hcells i (by omega) (by omega),
        fun h => by simp at h, fun _ => ⟨?_, by omega⟩⟩
      rw [hu]; exact u32_eq _ (by omega)
    · simp only [Option.some.injEq, Prod.mk.injEq] at h
      obtain ⟨e1, e2, e3⟩ := h
      subst e1 e2 e3
      refine ⟨1, by omega, fun i h1 h2 => hcells i (by omega) (by omega),
        fun h => by simp at h, fun _ => ⟨?_, by omega⟩⟩
      rw [hu]; exact u32_eq _ (by omega)
    · obtain ⟨j, hj1, hj2, hj3, hj4⟩ := ih (usub cur 8) bg cur' bg' ab (by omega) h
      rw [hu] at hj1 hj2
      refine ⟨j + 1, by omega, fun i h1 h2 => ?_, hj3, fun h => ⟨(hj4 h).1, by omega⟩⟩
      by_cases hi : i < cur - 8
      · exact hj2 i h1 hi
      · exact hcells i (by omega) h2

/-- The shape of an iteration of the logbook loop that goes on: the packet, the read, the fix-up and the scan it consists of, and the address invariant. -/
theorem logbook_page_next (env : Env) (l : oceanic_common_layout_t) (mp : Nat)
    (fp : List Nat) (w : Window) (pm sf : Nat) (s s' : LogState) (ab : Bool)
    (hok : LayoutOk l mp) (hw : w.page_size % PAGESIZE = 0)
    (hw32 : w.page_size ≤ 1073741824 + 64)
    (hinv : LogAddrInv l w s) (hlt : s.nbytes < w.page_size)
    (hsize : s.logbooks.size ≤ 1073741824 + 64) (hoff : s.offset < 4294967296)
    (h : logbook_page env l mp fp w pm sf s = Step.next (s', ab)) :
    ∃ len addr, addr = wrap_point l.rb_logbook_begin l.rb_logbook_end s.address ∧
      len = packet_size l.rb_logbook_begin mp addr s.nbytes w.page_size ∧
      0 < len ∧ len % 16 = 0 ∧ len ≤ 16 * mp ∧ s.nbytes + len ≤ w.page_size ∧
      l.rb_logbook_begin + len ≤ addr ∧ addr ≤ l.rb_logbook_end ∧
      len ≤ s.offset ∧ s.offset ≤ s.logbooks.size ∧
      s'.address = addr - len ∧ s'.nbytes = s.nbytes + len ∧
      (env.device_read s.trace (addr - len) len).1 = SUCCESS ∧
      logbook_fixup w
        (s.logbooks.fill (s.offset - len) len (env.device_read s.trace (addr - len) len).2)
        s.nbytes len (s.offset - len) = some (s'.logbooks, s'.offset) ∧
      scan_entries s'.logbooks fp s'.offset sf s.current s.begin_
        = some (some (s'.current, s'.begin_, ab)) ∧
      s'.trace = s.trace ++ [Event.read (addr - len) len]
        ++ [Event.progress s'.progress_current pm] ∧
      s'.progress_current = u32 (s.progress_current + len) ∧
      LogAddrInv l w s' := by
  have hP : PAGESIZE = 16 := rfl
  obtain ⟨a1, a2, a3, a4, a5⟩ := hinv
  obtain ⟨_, _, k1, k2, _, _, k3, _, k4, k5, _, k6⟩ := hok
  have hwp : l.rb_logbook_begin < wrap_point l.rb_logbook_begin l.rb_logbook_end s.address ∧
      wrap_point l.rb_logbook_begin l.rb_logbook_end s.address ≤ l.rb_logbook_end ∧
      wrap_point l.rb_logbook_begin l.rb_logbook_end s.address % 16 = 0 := by
    unfold wrap_point; rw [hP] at *; split_ifs <;> omega
  obtain ⟨p1, p2, p3, p4, p5⟩ := packet_size_spec l.rb_logbook_begin mp
    (wrap_point l.rb_logbook_begin l.rb_logbook_end s.address) s.nbytes w.page_size
    k4 k6 hwp.1 (by omega) hlt hw32
  have p5' := p5 k1 (by rw [hP]; exact hwp.2.2) a4 hw
  unfold logbook_page at h
  simp only [] at h
  generalize hlen : packet_size l.rb_logbook_begin mp
    (wrap_point l.rb_logbook_begin l.rb_logbook_end s.address) s.nbytes w.page_size = len at *
  generalize haddr : wrap_point l.rb_logbook_begin l.rb_logbook_end s.address = addr at *
  have hsub : usub addr len = addr - len := usub_eq _ _ (by omega) (by omega)
  have hnb : u32 (s.nbytes + len) = s.nbytes + len := u32_eq _ (by omega)
  split_ifs at h with c1 c2
  have hwr : usub s.offset len + len ≤ s.logbooks.size := by
    simpa [Buffer.writable] using c2
  have hlo : len ≤ s.offset := by
    by_contra hc
    have : usub s.offset len = s.offset + (4294967296 - len) := by unfold usub; omega
    omega
  have hsubo : usub s.offset len = s.offset - len := usub_eq _ _ hlo hoff
  rw [hsub, hsubo, hnb] at h
  rw [hsubo] at hwr
  generalize hfx : logbook_fixup w _ s.nbytes len (s.offset - len) = fx at h
  rcases fx with _ | ⟨lb', off'⟩
  · simp at h
  simp only at h
  generalize hsc : scan_entries lb' fp off' sf s.current s.begin_ = sc at h
  rcases sc with _ | _ | ⟨cur, bg, ab'⟩
  · simp at h
  · simp at h
  simp only [Step.next.injEq, Prod.mk.injEq] at h
  obtain ⟨h1, h2⟩ := h
  subst h1 h2
  refine ⟨len, addr, rfl, hlen.symm, p1, ?_, ?_, p4, by omega, hwp.2.1, hlo, by omega, rfl, rfl,
    by rw [hsub] at c1; simpa using c1, hfx, hsc, rfl, rfl, ⟨?_, ?_, ?_, ?_, ?_⟩⟩
  · rw [hP] at p5'; exact p5'
  · rw [hP] at p2; exact p2
  · simp only; rw [hP] at *; omega
  · simp only; omega
  · simp only; omega
  · simp only; rw [hP] at *; omega
  · simp only; omega

/-- An iteration of the logbook loop whose read, fix-up and scan succeed gives the corresponding state. -/
theorem logbook_page_intro (env : Env) (l : oceanic_common_layout_t) (mp : Nat)
    (fp : List Nat) (w : Window) (pm sf : Nat) (s : LogState) (len addr : Nat)
    (lb1 : Buffer) (off1 cur bg : Nat) (ab : Bool)
    (haddr : addr = wrap_point l.rb_logbook_begin l.rb_logbook_end s.address)
    (hlen : len = packet_size l.rb_logbook_begin mp addr s.nbytes w.page_size)
    (h1 : len ≤ addr) (h2 : addr < 4294967296) (h3 : len ≤ s.offset)
    (h4 : s.offset ≤ s.logbooks.size) (h5 : s.offset < 4294967296)
    (h6 : s.nbytes + len < 4294967296)
    (hread : (env.device_read s.trace (addr - len) len).1 = SUCCESS)
    (hfix : logbook_fixup w
        (s.logbooks.fill (s.offset - len) len (env.device_read s.trace (addr - len) len).2)
        s.nbytes len (s.offset - len) = some (lb1, off1))
    (hscan : scan_entries lb1 fp off1 sf s.current s.begin_ = some (some (cur, bg, ab))) :
    logbook_page env l mp fp w pm sf s = Step.next
      ({ logbooks := lb1, begin_ := bg, nbytes := s.nbytes + len, current := cur,
         offset := off1, address := addr - len,
         progress_current := u32 (s.progress_current + len),
         trace := s.trace ++ [Event.read (addr - len) len]
           ++ [Event.progress (u32 (s.progress_current + len)) pm] }, ab) := by
  unfold logbook_page
  simp only []
  rw [← haddr, ← hlen, usub_eq _ _ h1 h2, usub_eq _ _ h3 h5, u32_eq _ h6]
  rw [if_neg (by simpa using hread), if_neg (by simp [Buffer.writable]; omega)]
  rw [hfix]
  simp only
  rw [hscan]

/-- The scan does nothing when `current` is at `offset` or at `begin`. -/
theorem scan_entries_stuck (lb : Buffer) (fp : List Nat) (off sf cur bg : Nat)
    (h : cur = off ∨ cur = bg) :
    scan_entries lb fp off sf cur bg = some (some (cur, bg, false)) := by
  unfold scan_entries
  rw [if_pos (by omega)]

/-- A scan that starts away from `offset` and `begin` and completes has inspected the entry in front of `current`. -/
theorem scan_entries_first (lb : Buffer) (fp : List Nat) (off sf cur bg : Nat)
    (r : Nat × Nat × Bool) (h1 : cur ≠ off) (h2 : cur ≠ bg)
    (h : scan_entries lb fp off sf cur bg = some (some r)) :
    ∃ k, sf = k + 1 ∧ lb.readable (usub cur (PAGESIZE / 2)) (PAGESIZE / 2) = true := by
  unfold scan_entries at h
  rw [if_neg (by simp [h1, h2])] at h
  rcases sf with _ | k
  · simp at h
  · refine ⟨k, rfl, ?_⟩
    simp only [] at h
    by_contra hc
    rw [if_pos hc] at h
    simp at h

/-- A scan that looks for the very entry in front of `current` stops there. -/
theorem scan_entries_abort (lb : Buffer) (off k cur bg : Nat) (h1 : cur ≠ off) (h2 : cur ≠ bg)
    (hr : lb.readable (usub cur (PAGESIZE / 2)) (PAGESIZE / 2) = true) :
    scan_entries lb (lb.load (usub cur (PAGESIZE / 2)) (PAGESIZE / 2)) off (k + 1) cur bg
      = some (some (usub cur (PAGESIZE / 2),
          u32 (usub cur (PAGESIZE / 2) + PAGESIZE / 2), true)) := by
  unfold scan_entries
  rw [if_neg (by simp [h1, h2])]
  simp only []
  rw [if_neg (by simp [hr])]
  split_ifs <;> rfl

/-- After the first packet the fix-up leaves the buffer alone. -/
theorem logbook_fixup_later (w : Window) (lb lb' : Buffer) (nbytes len off off' : Nat)
    (hn : nbytes ≠ 0) (h : logbook_fixup w lb nbytes len off = some (lb', off')) :
    lb' = lb ∧ (off' = 0 ∨ off' = off) := by
  unfold logbook_fixup at h
  rw [if_neg hn] at h
  split_ifs at h <;> simp only [Option.some.injEq, Prod.mk.injEq] at h <;>
    exact ⟨h.1.symm, by omega⟩

/-- Every iteration of the logbook loop that goes on ends with a scan from the old `current` and `begin`. -/
theorem logbook_page_scan (env : Env) (l : oceanic_common_layout_t) (mp : Nat)
    (fp : List Nat) (w : Window) (pm sf : Nat) (s s' : LogState) (ab : Bool)
    (h : logbook_page env l mp fp w pm sf s = Step.next (s', ab)) :
    ∃ lb' off', scan_entries lb' fp off' sf s.current s.begin_
      = some (some (s'.current, s'.begin_, ab)) := by
  unfold logbook_page at h
  simp only [] at h
  split_ifs at h with c1 c2
  generalize logbook_fixup w _ s.nbytes _ _ = fx at h
  rcases fx with _ | ⟨lb', off'⟩
  · simp at h
  simp only at h
  generalize hsc : scan_entries lb' fp off' sf s.current s.begin_ = sc at h
  rcases sc with _ | _ | ⟨cur, bg, ab'⟩
  · simp at h
  · simp at h
  simp only [Step.next.injEq, Prod.mk.injEq] at h
  obtain ⟨h1, h2⟩ := h
  subst h1 h2
  exact ⟨lb', off', hsc⟩

/-- When `current` has reached `begin`, the logbook loop leaves `begin` alone. -/
theorem logbook_loop_stuck (env : Env) (l : oceanic_common_layout_t) (mp : Nat)
    (fp : List Nat) (w : Window) (pm sf : Nat) :
    ∀ (fuel : Nat) (s sl : LogState), s.current = s.begin_ →
    logbook_loop env l mp fp w pm sf fuel s = Step.next sl → sl.begin_ = s.begin_ := by
  intro fuel
  induction fuel with
  | zero =>
    intro s sl hs h
    unfold logbook_loop at h
    split_ifs at h
    simp only [Step.next.injEq] at h; rw [← h]
  | succ n ih =>
    intro s sl hs h
    unfold logbook_loop at h
    split_ifs at h with hc
    · simp only at h
      generalize hpg : logbook_page env l mp fp w pm sf s = pg at h
      rcases pg with ⟨s', ab⟩ | r
      · simp only at h
        obtain ⟨lb', off', hsc⟩ := logbook_page_scan env l mp fp w pm sf s s' ab hpg
        rw [scan_entries_stuck lb' fp off' sf s.current s.begin_ (Or.inr hs)] at hsc
        simp only [Option.some.injEq, Prod.mk.injEq] at hsc
        obtain ⟨e1, e2, e3⟩ := hsc
        rw [← e3] at h
        simp only [Bool.false_eq_true, if_false] at h
        rw [ih s' sl (by rw [← e1, ← e2]; exact hs) h, ← e2]
      · simp at h
    · simp only [Step.next.injEq] at h; rw [← h]

/-- After the first packet the logbook loop writes below `offset` only. -/
theorem logbook_loop_persist (env : Env) (l : oceanic_common_layout_t) (mp : Nat)
    (fp : List Nat) (w : Window) (pm sf e : Nat)
    (hok : LayoutOk l mp) (hw : w.page_size % PAGESIZE = 0)
    (hw32 : w.page_size ≤ 1073741824 + 64) :
    ∀ (fuel : Nat) (s sl : LogState), LogAddrInv l w s → 0 < s.nbytes → s.offset ≤ e →
    s.logbooks.size = w.page_size → s.offset < 4294967296 →
    logbook_loop env l mp fp w pm sf fuel s = Step.next sl →
    ∀ i, e ≤ i → sl.logbooks.cell i = s.logbooks.cell i := by
  intro fuel
  induction fuel with
  | zero =>
    intro s sl hinv hnb hoff hsz ho32 h
    unfold logbook_loop at h
    split_ifs at h
    simp only [Step.next.injEq] at h
    intro i _; rw [← h]
  | succ n ih =>
    intro s sl hinv hnb hoff hsz ho32 h
    unfold logbook_loop at h
    split_ifs at h with hc
    · simp only at h
      generalize hpg : logbook_page env l mp fp w pm sf s = pg at h
      rcases pg with ⟨s', ab⟩ | r
      · simp only at h
        obtain ⟨len, addr, _, _, q1, q2, q3, q4, q5, q6, q7, q8, q9, q10, q11, hfx, hsc, q12,
          _, hinv'⟩ := logbook_page_next env l mp fp w pm sf s s' ab hok hw hw32 hinv hc
            (by omega) ho32 hpg
        obtain ⟨f1, f2⟩ := logbook_fixup_later w _ _ _ _ _ _ (by omega) hfx
        have hcell : ∀ i, e ≤ i → s'.logbooks.cell i = s.logbooks.cell i := by
          intro i hi
          rw [f1, fill_cell, if_neg (by omega)]
        split_ifs at h
        · simp only [Step.next.injEq] at h
          intro i hi; rw [← h]; exact hcell i hi
        · intro i hi
          rw [ih s' sl hinv' (by omega) (by omega) (by rw [f1, fill_size]; exact hsz)
            (by omega) h i hi]
          exact hcell i hi
      · simp at h
    · simp only [Step.next.injEq] at h
      intro i _; rw [← h]

/-- The first iteration of the logbook loop, when there are entries: the newest entry is inspected; unless the loop is left here, later packets cannot overwrite it; and a run that looks for this entry as fingerprint stops at once. -/
theorem logbook_first_page (env : Env) (l : oceanic_common_layout_t) (mp : Nat)
    (fp : List Nat) (w : Window) (first last pm sf : Nat) (s s1 : LogState) (ab : Bool)
    (hw : w = logbook_window l first last) (hok : LayoutOk l mp)
    (hnb : s.nbytes = 0) (hoff : s.offset = w.page_size)
    (hlb : s.logbooks = Buffer.malloc w.page_size)
    (hcur : s.current = window_end w) (hbg : s.begin_ = window_begin w)
    (haddr : s.address = w.page_end)
    (hps : 0 < w.page_size) (hne : window_end w ≠ window_begin w)
    (h : logbook_page env l mp fp w pm sf s = Step.next (s1, ab)) :
    8 ≤ window_end w ∧ s1.logbooks.readable (window_end w - 8) 8 = true ∧
    s1.logbooks.size = w.page_size ∧ LogAddrInv l w s1 ∧ 0 < s1.nbytes ∧
    s1.offset < 4294967296 ∧
    (ab = false → s1.offset ≤ window_end w - 8 ∨ w.page_size ≤ s1.nbytes) ∧
    (∃ a n x, s1.trace = s.trace ++ [Event.read a n] ++ [Event.progress x pm] ∧
      l.rb_logbook_begin ≤ a ∧ a + n ≤ l.rb_logbook_end) ∧
    (∀ env2 : Env, env2.device_read = env.device_read →
      ∃ s2, logbook_page env2 l mp (s1.logbooks.load (window_end w - 8) 8) w pm sf s
          = Step.next (s2, true) ∧
        s2.begin_ = window_end w ∧ s2.trace = s1.trace) := by
  have hP : PAGESIZE = 16 := rfl
  have hP2 : PAGESIZE / 2 = 8 := rfl
  have hle32 := hok.le32
  obtain ⟨w1, w2, w3, w4, w5⟩ := window_aligned l first last hok.lb hok.le hok.logbook hok.le32
  rw [← hw] at w1 w2 w3 w4 w5
  obtain ⟨e1, e2, e3, e4, e5⟩ := window_end_spec l first last w hw hok.lb hok.le hok.logbook
    hok.le32 hps
  have hinv : LogAddrInv l w s :=
    ⟨by rw [haddr]; exact w2, by rw [haddr]; exact w3, by rw [haddr]; exact w4,
     by rw [hnb]; rfl, by rw [hnb]; omega⟩
  obtain ⟨len, addr, ha, hl, q1, q2, q3, q4, q5, q6, q7, q8, q9, q10, q11, hfx, hsc, q12, q13,
    hinv'⟩ := logbook_page_next env l mp fp w pm sf s s1 ab hok w1 w5 hinv (by omega)
      (by rw [hlb]; exact w5) (by omega) h
  rw [hP] at w1
  rw [hnb] at q4 q10 hfx
  rw [hoff] at q7 hfx
  rw [hcur, hbg] at hsc
  rw [hlb] at hfx
  generalize hE : window_end w = E at *
  generalize hB : window_begin w = B at *
  generalize hpad : usub w.page_end w.entry_end = pad at *
  generalize hps' : w.page_size = ps at *
  -- the buffer and the offset after the fix-up
  have hfix : s1.logbooks.size = ps ∧ s1.offset < E ∧ s1.offset < 4294967296 ∧
      (s1.offset ≤ E - 8 ∨ ps ≤ len ∨
        (w.full = true ∧ E = ps ∧ B = 0 ∧ ps < s1.offset + 8 ∧ len < ps ∧
          s1.logbooks.cell (ps - len - 1) = none) ∨
        (s1.offset = ps - len ∧ ∀ i, i < ps - len → s1.logbooks.cell i = none)) := by
    unfold logbook_fixup at hfx
    by_cases hfu : w.full = true ∧ w.unaligned = true
    · rw [if_pos hfu, if_pos rfl] at hfx
      simp only [hpad] at hfx
      obtain ⟨f1, f2, f3⟩ := e4 hfu.1
      have hp0 : pad ≠ 0 := e2.mp hfu.2
      have hnew : usub len pad = len - pad := usub_eq _ _ (by omega) (by omega)
      rw [hnew] at hfx
      split_ifs at hfx with c1 c2
      simp only [Option.some.injEq, Prod.mk.injEq] at hfx
      obtain ⟨g1, g2⟩ := hfx
      have ho : s1.offset = ps - len + pad := by
        rw [← g2]; exact u32_eq _ (by omega)
      refine ⟨by rw [← g1]; rfl, by omega, by omega, ?_⟩
      by_cases h8 : 8 ≤ len - pad
      · left; omega
      by_cases hlen : ps ≤ len
      · right; left; exact hlen
      right; right; left
      refine ⟨hfu.1, f1, f2, by omega, by omega, ?_⟩
      rw [← g1, memmove_cell, if_neg (by omega), memmove_cell, if_neg (by omega),
        fill_cell, if_neg (by omega)]
      rfl
    · rw [if_neg hfu] at hfx
      simp only [Option.some.injEq, Prod.mk.injEq] at hfx
      obtain ⟨g1, g2⟩ := hfx
      have hEr : ps - 15 ≤ E ∧ E ≤ ps := by
        rcases hf : w.full with _ | _
        · have := e3 hf; omega
        · have := (e4 hf).1; omega
      refine ⟨by rw [← g1]; rfl, by omega, by omega, ?_⟩
      right; right; right
      refine ⟨g2.symm, fun i hi => ?_⟩
      rw [← g1, fill_cell, if_neg (by omega)]
      rfl
  obtain ⟨hsz, hoE, ho32, hcases⟩ := hfix
  have hEle : E ≤ ps := by
    rcases hf : w.full with _ | _
    · have := e3 hf; omega
    · have := (e4 hf).1; omega
  -- the first step of the scan
  obtain ⟨k, hk, hrd⟩ := scan_entries_first _ _ _ _ _ _ _ (by omega) hne hsc
  rw [hP2] at hrd
  have hrsz : usub E 8 + 8 ≤ s1.logbooks.size := by
    simp only [Buffer.readable, Bool.and_eq_true, decide_eq_true_eq] at hrd
    exact hrd.1
  have h8 : 8 ≤ E := by
    by_contra hlt
    have : usub E 8 = E + 4294967288 := by unfold usub; omega
    omega
  have hu : usub E 8 = E - 8 := usub_eq _ _ h8 (by omega)
  rw [hu] at hrd
  refine ⟨h8, hrd, hsz, hinv', by omega, ho32, ?_,
    ⟨addr - len, len, s1.progress_current, q12, by omega, by omega⟩, ?_⟩
  · intro hab
    subst hab
    rcases hcases with c | c | ⟨c1, c2, c3, c4, c5, c6⟩ | ⟨c1, c2⟩
    · left; exact c
    · right; omega
    · exfalso
      obtain ⟨j, j1, j2, j3, _⟩ := scan_entries_spec s1.logbooks fp s1.offset (by omega)
        sf E B s1.current s1.begin_ false (by omega) hsc
      obtain ⟨_, j4⟩ := j3 rfl
      rcases j4 with j4 | j4
      · omega
      · exact j2 (ps - len - 1) (by omega) (by omega) c6
    · left
      have hc := readable_cell s1.logbooks (E - 8) 8 0 hrd (by omega)
      by_contra hgt
      rw [Nat.add_zero, c2 (E - 8) (by omega)] at hc
      simp at hc
  · intro env2 henv
    refine ⟨_, logbook_page_intro env2 l mp _ w pm sf s len addr s1.logbooks s1.offset
      (usub E 8) (u32 (usub E 8 + 8)) true ha (by rw [hps']; exact hl) (by omega)
      (by omega) (by omega) (by rw [hlb, hoff]; exact Nat.le_refl _) (by omega) (by omega)
      (by rw [henv]; exact q11) (by rw [henv, hnb, hoff, hlb]; exact hfx) ?_, ?_, ?_⟩
    · rw [hcur, hbg, hk, ← hu]
      exact scan_entries_abort s1.logbooks s1.offset k E B (by omega) hne
        (by rw [hP2, hu]; exact hrd)
    · simp only
      rw [hu]; exact u32_eq _ (by omega) |>.trans (by omega)
    · simp only
      rw [q12, q13]

/-- Buffers with the same cells from `pos` on give the same bytes. -/
theorem load_congr (b b' : Buffer) (pos n : Nat)
    (h : ∀ i, pos ≤ i → b.cell i = b'.cell i) : b.load pos n = b'.load pos n := by
  unfold Buffer.load
  apply List.map_congr_left
  intro i _
  rw [h (pos + i) (by omega)]

/-- Nothing can be read from a fresh buffer. -/
theorem malloc_not_readable (n pos : Nat) : (Buffer.malloc n).readable pos 8 = false := by
  by_contra hc
  have hr : (Buffer.malloc n).readable pos 8 = true := by simpa using hc
  have := readable_cell (Buffer.malloc n) pos 8 0 hr (by omega)
  simp [Buffer.malloc] at this

/-- The logbook loop ends when all bytes are there. -/
theorem logbook_loop_done (env : Env) (l : oceanic_common_layout_t) (mp : Nat)
    (fp : List Nat) (w : Window) (pm sf fuel : Nat) (s : LogState)
    (h : ¬ s.nbytes < w.page_size) :
    logbook_loop env l mp fp w pm sf fuel s = Step.next s := by
  unfold logbook_loop
  rw [if_pos h]

/-- If the logbook loop of one run leaves entries to deliver, the loop of a run whose fingerprint is the newest of them ends after one packet without entries. -/
theorem logbook_loop_cut (env env2 : Env) (l : oceanic_common_layout_t) (mp : Nat)
    (fp0 : List Nat) (w : Window) (first last pm fuel : Nat) (s0 sl : LogState)
    (hw : w = logbook_window l first last) (hok : LayoutOk l mp)
    (henv : env2.device_read = env.device_read)
    (c1 : s0.nbytes = 0) (c2 : s0.offset = w.page_size)
    (c3 : s0.logbooks = Buffer.malloc w.page_size)
    (c4 : s0.current = window_end w) (c5 : s0.begin_ = window_begin w)
    (c6 : s0.address = w.page_end)
    (h1 : logbook_loop env l mp fp0 w pm fuel fuel s0 = Step.next sl)
    (hb : sl.begin_ ≠ window_end w)
    (hr : sl.logbooks.readable (usub (window_end w) 8) 8 = true) :
    ∃ s2, logbook_loop env2 l mp (sl.logbooks.load (usub (window_end w) 8) 8) w pm fuel fuel s0
        = Step.next s2 ∧
      s2.begin_ = window_end w ∧
      ∃ a n x, s2.trace = s0.trace ++ [Event.read a n] ++ [Event.progress x pm] ∧
        l.rb_logbook_begin ≤ a ∧ a + n ≤ l.rb_logbook_end := by
  obtain ⟨w1, w2, w3, w4, w5⟩ := window_aligned l first last hok.lb hok.le hok.logbook hok.le32
  rw [← hw] at w1 w2 w3 w4 w5
  have hne : window_end w ≠ window_begin w := by
    intro he
    have := logbook_loop_stuck env l mp fp0 w _ fuel fuel s0 sl (by rw [c4, c5, he]) h1
    rw [c5, ← he] at this
    exact hb this
  unfold logbook_loop at h1
  split_ifs at h1 with hc
  swap
  · simp only [Step.next.injEq] at h1
    rw [← h1, c3, malloc_not_readable] at hr
    simp at hr
  rcases fuel with _ | n
  · simp at h1
  simp only at h1
  generalize hpg : logbook_page env l mp fp0 w pm (n + 1) s0 = pg at h1
  rcases pg with ⟨s1, ab⟩ | r
  swap
  · simp at h1
  simp only at h1
  obtain ⟨p1, p2, p3, p4, p5, p6, p7, ⟨a, m, x, p8, p9, p10⟩, p11⟩ :=
    logbook_first_page env l mp fp0 w first last pm (n + 1) s0 s1 ab hw hok c1 c2 c3 c4 c5 c6
      (by rw [c1] at hc; exact hc) hne hpg
  have hE32 : window_end w < 4294967296 := by
    have : window_end w - 8 + 8 ≤ s1.logbooks.size := by
      simp only [Buffer.readable, Bool.and_eq_true, decide_eq_true_eq] at p2
      exact p2.1
    omega
  have hu : usub (window_end w) 8 = window_end w - 8 := usub_eq _ _ p1 hE32
  have hload : sl.logbooks.load (window_end w - 8) 8 = s1.logbooks.load (window_end w - 8) 8 := by
    rcases ab with _ | _
    · simp only [Bool.false_eq_true, if_false] at h1
      rcases p7 rfl with q | q
      · exact load_congr _ _ _ _ (logbook_loop_persist env l mp fp0 w pm (n + 1)
          (window_end w - 8) hok w1 w5 n s1 sl p4 p5 q p3 p6 h1)
      · rw [logbook_loop_done _ _ _ _ _ _ _ _ _ (by omega)] at h1
        simp only [Step.next.injEq] at h1
        rw [h1]
    · simp only [if_true, Step.next.injEq] at h1
      rw [h1]
  obtain ⟨s2, q1, q2, q3⟩ := p11 env2 henv
  refine ⟨s2, ?_, q2, a, m, x, by rw [q3, p8], p9, p10⟩
  rw [hu, hload]
  unfold logbook_loop
  rw [if_neg (by simpa using hc)]
  simp only [q1, if_true]

/-- If the logbook part of one run leaves entries to deliver, the logbook part of a run whose fingerprint is the newest of them reads one packet and leaves none. -/
theorem foreach_logbooks_cut (env env2 : Env) (device : oceanic_common_device_t)
    (layout : oceanic_common_layout_t) (fuel : Nat) (h : Header) (sl : LogState)
    (fp : List Nat) (hok : LayoutOk layout device.multipage)
    (henv : env2.device_read = env.device_read) (hmalloc : env2.malloc_ok = env.malloc_ok)
    (h1 : foreach_logbooks env device layout fuel h = Step.next sl)
    (hb : sl.begin_ ≠ window_end (logbook_window layout h.rb_logbook_first h.rb_logbook_last))
    (hr : sl.logbooks.readable
      (usub (window_end (logbook_window layout h.rb_logbook_first h.rb_logbook_last))
        (PAGESIZE / 2)) (PAGESIZE / 2) = true)
    (hfp : fp = sl.logbooks.load
      (usub (window_end (logbook_window layout h.rb_logbook_first h.rb_logbook_last))
        (PAGESIZE / 2)) (PAGESIZE / 2)) :
    ∃ s2, foreach_logbooks env2 { device with fingerprint := fp } layout fuel h
        = Step.next s2 ∧
      s2.begin_ = window_end (logbook_window layout h.rb_logbook_first h.rb_logbook_last) ∧
      dives s2.trace = dives h.trace ∧
      ∃ a n, reads s2.trace = reads h.trace ++ [(a, n)] ∧
        layout.rb_logbook_begin ≤ a ∧ a + n ≤ layout.rb_logbook_end := by
  have hP2 : PAGESIZE / 2 = 8 := rfl
  unfold foreach_logbooks at h1 ⊢
  simp only [] at h1 ⊢
  rw [hmalloc]
  rw [hP2] at hr hfp
  split_ifs at h1 ⊢ with hm
  obtain ⟨s2, q1, q2, a, n, x, q3, q4, q5⟩ := logbook_loop_cut env env2 layout device.multipage
    device.fingerprint _ h.rb_logbook_first h.rb_logbook_last _ fuel _ sl rfl hok henv
    rfl rfl rfl rfl rfl rfl h1 hb hr
  refine ⟨s2, by rw [hfp]; exact q1, q2, ?_, a, n, ?_, q4, q5⟩
  · rw [q3]
    simp only [dives_append, dives, List.append_nil]
  · rw [q3]
    simp only [reads_append, reads, List.append_nil]

/-- The profile loop starts at the end of the entries, and only when there are entries. -/
theorem profile_start_current (env : Env) (l : oceanic_common_layout_t) (end_ : Nat)
    (s : LogState) :
    match profile_start env l end_ s with
    | Step.stop _ => True
    | Step.next p => p.state.current = end_ ∧ s.begin_ ≠ end_ := by
  unfold profile_start
  simp only []
  split_ifs with c1
  all_goals trivial

/-- The first block the profile part hands to the callback carries the newest logbook entry of the buffer. -/
theorem foreach_profiles_first (env : Env) (device : oceanic_common_device_t)
    (l : oceanic_common_layout_t) (fuel end_ : Nat) (s : LogState) (d : List Nat × List Nat)
    (hs : dives s.trace = [])
    (hd : (dives (foreach_profiles env device l fuel end_ s).trace).head? = some d) :
    s.begin_ ≠ end_ ∧
    s.logbooks.readable (usub end_ (PAGESIZE / 2)) (PAGESIZE / 2) = true ∧
    d.2 = s.logbooks.load (usub end_ (PAGESIZE / 2)) (PAGESIZE / 2) := by
  have hst := profile_start_trace env l end_ s
  have hsc := profile_start_current env l end_ s
  unfold foreach_profiles at hd
  generalize profile_start env l end_ s = ps at hst hsc hd
  rcases ps with p | r
  · simp only at hst hsc hd
    have hl := profile_loop_first env l device.multipage s.logbooks s.begin_
      p.progress_maximum fuel fuel p.state d
    generalize profile_loop env l device.multipage s.logbooks s.begin_
      p.progress_maximum fuel fuel p.state = pl at hl hd
    have hd' : (dives (pl.trace_of ProfState.trace)).head? = some d := by
      rcases pl with s' | r
      · exact hd
      · exact hd
    rcases hds : dives (pl.trace_of ProfState.trace) with _ | ⟨d0, rest⟩
    · rw [hds] at hd'; simp at hd'
    · rw [hds] at hd'
      simp only [List.head?_cons, Option.some.injEq] at hd'
      subst hd'
      obtain ⟨_, h2, h3⟩ := hl rest (by rw [hst]; exact hs) hds
      rw [hsc.1] at h2 h3
      exact ⟨hsc.2, h2, h3⟩
  · simp only at hst hd
    rw [hst, hs] at hd
    simp at hd

/-- The header part depends on the transport and on `bcd2dec` only. -/
theorem foreach_header_congr (env env2 : Env) (l : oceanic_common_layout_t)
    (henv : env2.device_read = env.device_read) (hbcd : env2.bcd2dec = env.bcd2dec) :
    foreach_header env2 l = foreach_header env l := by
  unfold foreach_header
  rw [henv, hbcd]

/-- The fingerprint cut for any two sets of collaborators that differ in the callback only. -/
theorem fingerprint_cut_env (env env2 : Env) (device : oceanic_common_device_t)
    (layout : oceanic_common_layout_t) (fuel : Nat) (d : List Nat × List Nat)
    (hlayout : device.layout = some layout) (hok : LayoutOk layout device.multipage)
    (henv : env2.device_read = env.device_read) (hmalloc : env2.malloc_ok = env.malloc_ok)
    (hbcd : env2.bcd2dec = env.bcd2dec)
    (hfirst : (dives (oceanic_common_device_foreach env device fuel).trace).head? = some d) :
    (oceanic_common_device_foreach env2
      (oceanic_common_device_set_fingerprint device d.2 (PAGESIZE / 2)).2 fuel).outcome
      = Outcome.returned SUCCESS ∧
    dives (oceanic_common_device_foreach env2
      (oceanic_common_device_set_fingerprint device d.2 (PAGESIZE / 2)).2 fuel).trace = [] ∧
    ∃ a n, reads (oceanic_common_device_foreach env2
        (oceanic_common_device_set_fingerprint device d.2 (PAGESIZE / 2)).2 fuel).trace
        = [(layout.cf_devinfo, PAGESIZE), (layout.cf_pointers, PAGESIZE), (a, n)] ∧
      layout.rb_logbook_begin ≤ a ∧ a + n ≤ layout.rb_logbook_end := by
  have hset : (oceanic_common_device_set_fingerprint device d.2 (PAGESIZE / 2)).2
      = { device with fingerprint := d.2.take FP_SIZE } := rfl
  rw [hset]
  have hh := foreach_header_dives env layout
  unfold oceanic_common_device_foreach at hfirst ⊢
  simp only [hlayout] at hfirst ⊢
  rw [foreach_header_congr env env2 layout henv hbcd]
  generalize hhd : foreach_header env layout = hd at hh hfirst
  rcases hd with h | r
  swap
  · simp only at hh hfirst; rw [hh] at hfirst; simp at hfirst
  simp only at hh hfirst ⊢
  obtain ⟨hreads, _⟩ := foreach_header_trace env layout h hhd
  have hl := foreach_logbooks_dives env device layout fuel h hh
  generalize hlg : foreach_logbooks env device layout fuel h = lg at hl hfirst
  rcases lg with sl | r
  swap
  · simp only at hl hfirst; rw [hl] at hfirst; simp at hfirst
  simp only at hl hfirst
  obtain ⟨f1, f2, f3⟩ := foreach_profiles_first env device layout fuel _ sl d hl hfirst
  have hlen : d.2.take FP_SIZE = d.2 := by
    rw [f3]; exact List.take_of_length_le (by rw [load_length]; decide)
  obtain ⟨s2, g1, g2, g3, a, n, g4, g5, g6⟩ := foreach_logbooks_cut env env2 device layout fuel h
    sl (d.2.take FP_SIZE) hok henv hmalloc hlg f1 f2 (by rw [hlen]; exact f3)
  simp only [hlayout] at g1
  rw [g1]
  simp only
  unfold foreach_profiles profile_start
  rw [if_pos g2]
  simp only
  refine ⟨trivial, by rw [g3, hh], a, n, ?_, g5, g6⟩
  rw [g4, hreads]
  rfl

/-- Claim C9. Fingerprint cut: if a run of `oceanic_common_device_foreach` over the memory image `M` hands at least one dive to its callback, and the fingerprint `d.2` of the first dive is stored with `oceanic_common_device_set_fingerprint`, then a second run over `M` with the same fuel, for a well-formed layout and any callback, returns `SUCCESS`, invokes the callback zero times, and reads only the two header pages and one packet inside the logbook ring, so no profile data. -/
theorem fingerprint_cut (M : Nat → Nat)
    (callback callback2 : Option (List Event → List Nat → List Nat → Bool))
    (device : oceanic_common_device_t) (layout : oceanic_common_layout_t) (fuel : Nat)
    (d : List Nat × List Nat)
    (hlayout : device.layout = some layout) (hok : LayoutOk layout device.multipage)
    (hfirst : (dives (oceanic_common_device_foreach (image_env M callback) device fuel).trace).head?
      = some d) :
    (oceanic_common_device_foreach (image_env M callback2)
      (oceanic_common_device_set_fingerprint device d.2 (PAGESIZE / 2)).2 fuel).outcome
      = Outcome.returned SUCCESS ∧
    dives (oceanic_common_device_foreach (image_env M callback2)
      (oceanic_common_device_set_fingerprint device d.2 (PAGESIZE / 2)).2 fuel).trace = [] ∧
    ∃ a n, reads (oceanic_common_device_foreach (image_env M callback2)
        (oceanic_common_device_set_fingerprint device d.2 (PAGESIZE / 2)).2 fuel).trace
        = [(layout.cf_devinfo, PAGESIZE), (layout.cf_pointers, PAGESIZE), (a, n)] ∧
      layout.rb_logbook_begin ≤ a ∧ a + n ≤ layout.rb_logbook_end :=
  fingerprint_cut_env (image_env M callback) (image_env M callback2) device layout fuel d
    hlayout hok rfl rfl rfl hfirst

/-- Witness of `fingerprint_cut`: the first run over `sample_image` hands the dive of entry `A3` to the callback first; with this entry as fingerprint the second run returns `SUCCESS` without a dive. -/
theorem fingerprint_cut_witness :
    (dives (oceanic_common_device_foreach (image_env sample_image accept_all)
      (sample_device [0, 0, 0, 0, 0, 0, 0, 0] 4) 20).trace).head?
      = some ([0xA3, 1, 2, 3, 4, 0x0A, 0xB0, 0] ++ (List.range 32).map (fun i => 0xA0 + i),
          [0xA3, 1, 2, 3, 4, 0x0A, 0xB0, 0]) ∧
    (oceanic_common_device_foreach (image_env sample_image accept_all)
      (oceanic_common_device_set_fingerprint (sample_device [0, 0, 0, 0, 0, 0, 0, 0] 4)
        [0xA3, 1, 2, 3, 4, 0x0A, 0xB0, 0] (PAGESIZE / 2)).2 20).outcome
      = Outcome.returned SUCCESS ∧
    dives (oceanic_common_device_foreach (image_env sample_image accept_all)
      (oceanic_common_device_set_fingerprint (sample_device [0, 0, 0, 0, 0, 0, 0, 0] 4)
        [0xA3, 1, 2, 3, 4, 0x0A, 0xB0, 0] (PAGESIZE / 2)).2 20).trace = [] :=
  ⟨by decide!,
   (fingerprint_cut sample_image accept_all accept_all (sample_device [0, 0, 0, 0, 0, 0, 0, 0] 4)
     sample_layout 20
     ([0xA3, 1, 2, 3, 4, 0x0A, 0xB0, 0] ++ (List.range 32).map (fun i => 0xA0 + i),
       [0xA3, 1, 2, 3, 4, 0x0A, 0xB0, 0]) rfl sample_layout_ok (by decide!)).1,
   (fingerprint_cut sample_image accept_all accept_all (sample_device [0, 0, 0, 0, 0, 0, 0, 0] 4)
     sample_layout 20
     ([0xA3, 1, 2, 3, 4, 0x0A, 0xB0, 0] ++ (List.range 32).map (fun i => 0xA0 + i),
       [0xA3, 1, 2, 3, 4, 0x0A, 0xB0, 0]) rfl sample_layout_ok (by decide!)).2.1⟩

/-! ## The logbook buffer: entries -/

/-- The page window of logbook pointers that lie inside the ring and are multiples of `PAGESIZE / 2`. -/
theorem window_entries_spec (l : oceanic_common_layout_t) (first last : Nat) (w : Window)
    (hw : w = logbook_window l first last)
    (hlb : l.rb_logbook_begin % PAGESIZE = 0) (hle : l.rb_logbook_end % PAGESIZE = 0)
    (hlog : l.rb_logbook_begin < l.rb_logbook_end)
    (h32 : l.rb_logbook_end ≤ 1073741824)
    (hfirst : l.rb_logbook_begin ≤ first ∧ first < l.rb_logbook_end)
    (hlast : l.rb_logbook_begin ≤ last ∧ last < l.rb_logbook_end)
    (hf8 : first % 8 = 0) (hl8 : last % 8 = 0) :
    ∃ pad : Nat, w.page_end = w.entry_end + pad ∧ (pad = 0 ∨ pad = 8) ∧
      (w.entry_end + pad) % 16 = 0 ∧
      l.rb_logbook_begin ≤ w.entry_end ∧ w.entry_end < l.rb_logbook_end ∧
      w.entry_end % 8 = 0 ∧
      8 ≤ w.entry_size ∧ w.entry_size % 8 = 0 ∧
      w.entry_size ≤ l.rb_logbook_end - l.rb_logbook_begin ∧
      w.full = decide (w.entry_size = l.rb_logbook_end - l.rb_logbook_begin) ∧
      w.unaligned = decide (pad ≠ 0) ∧
      window_end w = window_begin w + w.entry_size ∧
      (window_begin w = 0 ∨ window_begin w = 8) ∧
      (w.entry_size = l.rb_logbook_end - l.rb_logbook_begin → window_begin w = 0) ∧
      w.page_size = window_begin w + w.entry_size +
        (if w.entry_size = l.rb_logbook_end - l.rb_logbook_begin then 0 else pad) ∧
      w.page_size ≤ l.rb_logbook_end - l.rb_logbook_begin ∧
      w.page_size % 16 = 0 := by
  have hP : PAGESIZE = 16 := rfl
  rw [hP] at hlb hle
  subst hw
  obtain ⟨e, d, hb, hee, hd, hfull, hpe, hpb, hpsz, hun, he1, he2, hdb, hm0, hm1⟩ :=
    window_in_range l first last hfirst hlast (by omega) h32
  have hpad : usub ((e + 15) / 16 * 16) e = (e + 15) / 16 * 16 - e :=
    usub_eq _ _ (by omega) (by omega)
  have hfl : usub first (first / 16 * 16) = first - first / 16 * 16 :=
    usub_eq _ _ (by omega) (by omega)
  have hed : e % 8 = 0 ∧ 8 ≤ d ∧ d % 8 = 0 ∧ d ≤ l.rb_logbook_end - l.rb_logbook_begin ∧
      (d ≠ l.rb_logbook_end - l.rb_logbook_begin →
        d + (first - first / 16 * 16) + ((e + 15) / 16 * 16 - e)
          ≤ l.rb_logbook_end - l.rb_logbook_begin ∧
        (d + (first - first / 16 * 16) + ((e + 15) / 16 * 16 - e)) % 16 = 0) := by
    by_cases hmode : l.pt_mode_global = 0
    · obtain ⟨h1, h2⟩ := hm0 hmode
      split_ifs at h1 h2 <;> omega
    · obtain ⟨h1, h2⟩ := hm1 hmode
      split_ifs at h2 <;> omega
  obtain ⟨g1, g2, g3, g4, g5⟩ := hed
  refine ⟨(e + 15) / 16 * 16 - e, ?_, by omega, by rw [hee]; omega, by rw [hee]; exact he1,
    by rw [hee]; exact he2, by rw [hee]; exact g1, by rw [hd]; exact g2, by rw [hd]; exact g3,
    by rw [hd]; exact g4, by rw [hfull, hd], ?_, ?_, ?_, ?_, ?_, ?_, ?_⟩
  · rw [hpe, hee]; omega
  · rw [hun]
    congr 1
    apply propext
    constructor <;> intro h <;> omega
  all_goals
    simp only [window_end, window_begin, hfull, hpe, hee, hpb, hb, hd, hpsz, hpad,
      decide_eq_true_eq, Nat.zero_add]
    by_cases hf : d = l.rb_logbook_end - l.rb_logbook_begin
    · simp only [hf, if_true, not_true_eq_false, if_false]
      first | omega | simp
    · have g5' := g5 hf
      simp only [hf, if_false, not_false_eq_true, if_true, hfl]
      try rw [usub_eq _ _ (by omega) (by omega)]
      try rw [u32_eq _ (by omega)]
      first | omega | simp

/-- Logbook pointers inside the ring that are multiples of `PAGESIZE / 2` give a good window. -/
theorem windowOk_of_pointers (l : oceanic_common_layout_t) (first last mp : Nat)
    (hok : LayoutOk l mp)
    (hfirst : l.rb_logbook_begin ≤ first ∧ first < l.rb_logbook_end)
    (hlast : l.rb_logbook_begin ≤ last ∧ last < l.rb_logbook_end)
    (hf8 : first % 8 = 0) (hl8 : last % 8 = 0) :
    WindowOk l (logbook_window l first last) := by
  obtain ⟨pad, h1, h2, h3, h4, h5, h6, h7, h8, h9, h10, h11, h12, h13, h14, h15, h16, h17⟩ :=
    window_entries_spec l first last _ rfl hok.lb hok.le hok.logbook hok.le32 hfirst hlast hf8 hl8
  have hpad : (logbook_window l first last).page_end - (logbook_window l first last).entry_end
      = pad := by omega
  refine ⟨by omega, by omega, by omega, h4, h5, h6, h7, h8, h9, by rw [h10]; simp,
    by rw [h11, hpad]; simp, h12, h13, h14, by rw [hpad]; exact h15, h16, h17⟩

/-- The end of the valid entries in the buffer belongs to the ring address `entry_end`, one turn up. -/
theorem logbook_base_spec (l : oceanic_common_layout_t) (w : Window) (hw : WindowOk l w)
    (hlb : l.rb_logbook_begin < l.rb_logbook_end) :
    logbook_base l w + window_end w
      = w.entry_end + (l.rb_logbook_end - l.rb_logbook_begin) ∧
    l.rb_logbook_begin ≤ logbook_base l w := by
  obtain ⟨a1, a2, a3, a4, a5, a6, a7, a8, a9, a10, a11, a12, a13, a14, a15, a16, a17⟩ := hw
  unfold logbook_base
  by_cases hf : w.entry_size = l.rb_logbook_end - l.rb_logbook_begin
  · rw [if_pos (a10.mpr hf)]
    have := a14 hf
    omega
  · rw [if_neg (by rw [a10]; exact hf)]
    rw [if_neg hf] at a15
    omega

/-- Determinate cells inside the buffer can be read. -/
theorem readable_of_cells (b : Buffer) (pos n : Nat) (hsz : pos + n ≤ b.size)
    (h : ∀ i < n, ∃ v, b.cell (pos + i) = some v) : b.readable pos n = true := by
  unfold Buffer.readable
  simp only [Bool.and_eq_true, decide_eq_true_eq, List.all_eq_true, List.mem_range]
  refine ⟨hsz, fun i hi => ?_⟩
  obtain ⟨v, hv⟩ := h i hi
  rw [hv]; rfl

/-- The facts about a good window in additive form. -/
theorem windowOk_arith (l : oceanic_common_layout_t) (w : Window) (hw : WindowOk l w)
    (hlog : l.rb_logbook_begin < l.rb_logbook_end) :
    ∃ L pad fx : Nat, l.rb_logbook_end - l.rb_logbook_begin = L ∧
      l.rb_logbook_begin + L = l.rb_logbook_end ∧
      w.entry_end + pad = w.page_end ∧ (pad = 0 ∨ pad = 8) ∧
      (if w.full = true ∧ w.unaligned = true then 8 else 0) = fx ∧ (fx = 0 ∨ fx = 8) ∧
      (fx = 8 ↔ (w.full = true ∧ w.unaligned = true)) ∧
      window_end w = window_begin w + w.entry_size ∧
      (window_begin w = 0 ∨ window_begin w = 8) ∧
      8 ≤ w.entry_size ∧ w.entry_size % 8 = 0 ∧ w.entry_size ≤ L ∧
      window_end w ≤ w.page_size ∧ w.page_size ≤ window_end w + 8 ∧
      (fx = 8 → w.page_size = L ∧ window_end w = L ∧ window_begin w = 0 ∧ pad = 8) ∧
      w.page_size ≤ L ∧ w.page_size % 16 = 0 ∧
      logbook_base l w + window_end w = w.entry_end + L ∧
      l.rb_logbook_begin ≤ logbook_base l w ∧
      l.rb_logbook_begin ≤ w.entry_end ∧ w.entry_end < l.rb_logbook_end ∧
      w.entry_end % 8 = 0 ∧ w.page_end % 16 = 0 ∧
      (w.full = true → w.page_size = L ∧ window_begin w = 0 ∧ logbook_base l w = w.entry_end) ∧
      (w.full = false → logbook_base l w + w.page_size = w.page_end + L ∧
        window_end w + pad = w.page_size) := by
  obtain ⟨hb1, hb2⟩ := logbook_base_spec l w hw hlog
  obtain ⟨w1, w2, w3, w4, w5, w6, w7, w8, w9, w10, w11, w12, w13, w14, w15, w16, w17⟩ := hw
  have hfx : ∀ fx, (if w.full = true ∧ w.unaligned = true then 8 else 0) = fx →
      (fx = 0 ∨ fx = 8) ∧ (fx = 8 ↔ (w.full = true ∧ w.unaligned = true)) := by
    intro fx h
    rw [← h]
    split_ifs with h' <;> simp [h']
  obtain ⟨f1, f2⟩ := hfx _ rfl
  refine ⟨_, w.page_end - w.entry_end, _, rfl, by omega, by omega, w2, rfl, f1, f2, w12, w13, w7,
    w8, w9, ?_, ?_, ?_, w16, w17, hb1, hb2, w4, w5, w6, w3, ?_, ?_⟩
  · split_ifs at w15 <;> omega
  · split_ifs at w15 <;> omega
  · intro h
    obtain ⟨h1, h2⟩ := f2.mp h
    have h3 := w10.mp h1
    have h4 := w11.mp h2
    have h5 := w14 h3
    rw [if_pos h3] at w15
    omega
  · intro h1
    have h3 := w10.mp h1
    have h5 := w14 h3
    rw [if_pos h3] at w15
    refine ⟨by omega, h5, ?_⟩
    unfold logbook_base
    rw [if_pos h1]
  · intro h1
    have h3 : ¬ w.entry_size = l.rb_logbook_end - l.rb_logbook_begin := by
      rw [← w10, h1]; simp
    rw [if_neg h3] at w15
    unfold logbook_base
    rw [if_neg (by rw [h1]; simp)]
    omega

/-- Over a memory image the header part goes on with the pointers of the pointers page. -/
theorem foreach_header_image (M : Nat → Nat) (env : Env) (l : oceanic_common_layout_t)
    (hread : env.device_read = image_read M) :
    ∃ h, foreach_header env l = Step.next h ∧
      h.rb_logbook_first = (image_pointers M l).1 ∧
      h.rb_logbook_last = (image_pointers M l).2 := by
  unfold foreach_header
  simp only [hread, image_read, ne_eq, not_true_eq_false, if_false]
  exact ⟨_, rfl, rfl, rfl⟩

/-- A byte of a byte array is below 256, also behind its end. -/
theorem getD_byte (entry : List Nat) (hbyte : ∀ b ∈ entry, b < 256) (i : Nat) :
    entry.getD i 0 < 256 := by
  by_cases h : i < entry.length
  · rw [List.getD_eq_getElem _ _ h]
    exact hbyte _ (List.getElem_mem h)
  · rw [List.getD_eq_default _ _ (by omega)]
    decide

/-- The little-endian decoder at offset `n` of a byte array. -/
theorem uint16_le_drop (entry : List Nat) (hbyte : ∀ b ∈ entry, b < 256) (n : Nat) :
    array_uint16_le (entry.drop n) = entry.getD n 0 + 256 * entry.getD (n + 1) 0 := by
  unfold array_uint16_le
  have h0 := getD_byte entry hbyte n
  have h1 := getD_byte entry hbyte (n + 1)
  simp only [List.getD_eq_getElem?_getD, List.getElem?_drop, Nat.add_zero] at *
  omega

/-- A masked page number times the page size fits an `unsigned int`. -/
theorem u32_masked (v m : Nat) (hm : m ≤ 0x1FFF) : u32 ((v &&& m) * PAGESIZE) = (v &&& m) * PAGESIZE := by
  have h : v &&& m ≤ m := Nat.and_le_right
  apply u32_eq
  simp only [PAGESIZE]
  omega

/-- Claim C12. Oceanic pointer extraction: for every 8-byte logbook entry, with
`mask = 0x1FFF` when `memsize > 0x10000` and `0x0FFF` otherwise, in PACKED12
mode (`pt_mode_logbook = 0`) `get_profile_first` is
`(u16_le (entry + 5) & mask) * PAGESIZE` and `get_profile_last` is
`((u16_le (entry + 6) >> 4) & mask) * PAGESIZE`; in PADDED16 mode
(`pt_mode_logbook ≠ 0`) they are `(u16_le (entry + 4) & mask) * PAGESIZE` and
`(u16_le (entry + 6) & mask) * PAGESIZE`. The little-endian value at offset
`n` is written out as `entry[n] + 256 * entry[n + 1]`. -/
theorem profile_pointer_formulas (entry : List Nat) (layout : oceanic_common_layout_t)
    (hlen : entry.length = PAGESIZE / 2) (hbyte : ∀ b ∈ entry, b < 256) :
    (layout.pt_mode_logbook = 0 →
      get_profile_first entry layout =
        ((entry.getD 5 0 + 256 * entry.getD 6 0) &&&
          (if layout.memsize > 0x10000 then 0x1FFF else 0x0FFF)) * PAGESIZE ∧
      get_profile_last entry layout =
        (((entry.getD 6 0 + 256 * entry.getD 7 0) >>> 4) &&&
          (if layout.memsize > 0x10000 then 0x1FFF else 0x0FFF)) * PAGESIZE) ∧
    (layout.pt_mode_logbook ≠ 0 →
      get_profile_first entry layout =
        ((entry.getD 4 0 + 256 * entry.getD 5 0) &&&
          (if layout.memsize > 0x10000 then 0x1FFF else 0x0FFF)) * PAGESIZE ∧
      get_profile_last entry layout =
        ((entry.getD 6 0 + 256 * entry.getD 7 0) &&&
          (if layout.memsize > 0x10000 then 0x1FFF else 0x0FFF)) * PAGESIZE) := by
  have e4 := uint16_le_drop entry hbyte 4
  have e5 := uint16_le_drop entry hbyte 5
  have e6 := uint16_le_drop entry hbyte 6
  refine ⟨fun hm => ⟨?_, ?_⟩, fun hm => ⟨?_, ?_⟩⟩
  all_goals
    simp only [get_profile_first, get_profile_last, hm, if_true, if_false, e4, e5, e6]
    split_ifs <;> exact u32_masked _ _ (by decide)

/-- Witness of C12: the entry `A3` of the sample image in the VTPro layout
(PACKED12, `memsize = 0x8000`): profile pages `0x0A` to `0x0B`. -/
theorem profile_pointer_formulas_witness :
    (get_profile_first [0xA3, 1, 2, 3, 4, 0x0A, 0xB0, 0] oceanic_vtpro_layout = 0xA0 ∧
     get_profile_last [0xA3, 1, 2, 3, 4, 0x0A, 0xB0, 0] oceanic_vtpro_layout = 0xB0) := by
  have h := (profile_pointer_formulas [0xA3, 1, 2, 3, 4, 0x0A, 0xB0, 0] oceanic_vtpro_layout
    (by decide) (by decide)).1 (by decide)
  exact ⟨h.1.trans (by decide), h.2.trans (by decide)⟩

/-- Counterexample to C13: in the VTPro layout, whose profile ring is
`[0x440, 0x8000)`, the logbook entry `01 00 00 00 00 00 00 00` gives the
addresses `first = 0` and `last = 0`, which lie below `rb_profile_begin`. -/
theorem profile_pointer_range_counterexample :
    get_profile_first [1, 0, 0, 0, 0, 0, 0, 0] oceanic_vtpro_layout = 0 ∧
    get_profile_last [1, 0, 0, 0, 0, 0, 0, 0] oceanic_vtpro_layout = 0 ∧
    ¬ (oceanic_vtpro_layout.rb_profile_begin ≤
        get_profile_first [1, 0, 0, 0, 0, 0, 0, 0] oceanic_vtpro_layout ∧
       get_profile_first [1, 0, 0, 0, 0, 0, 0, 0] oceanic_vtpro_layout <
        oceanic_vtpro_layout.rb_profile_end) ∧
    ¬ (oceanic_vtpro_layout.rb_profile_begin ≤
        get_profile_last [1, 0, 0, 0, 0, 0, 0, 0] oceanic_vtpro_layout ∧
       get_profile_last [1, 0, 0, 0, 0, 0, 0, 0] oceanic_vtpro_layout <
        oceanic_vtpro_layout.rb_profile_end) := by
  decide

/-- Claim C13, amended. Oceanic pointer extraction range: for every logbook
entry and for both pointer modes, the addresses returned by
`get_profile_first` and `get_profile_last` are multiples of `PAGESIZE` and at
most `mask * PAGESIZE`, that is below `0x10000`, or below `0x20000` when
`memsize > 0x10000`; nothing relates them to the profile ring of the
layout. -/
theorem profile_pointer_range (entry : List Nat) (layout : oceanic_common_layout_t) :
    get_profile_first entry layout % PAGESIZE = 0 ∧
    get_profile_last entry layout % PAGESIZE = 0 ∧
    get_profile_first entry layout ≤
      (if layout.memsize > 0x10000 then 0x1FFF else 0x0FFF) * PAGESIZE ∧
    get_profile_last entry layout ≤
      (if layout.memsize > 0x10000 then 0x1FFF else 0x0FFF) * PAGESIZE := by
  refine ⟨?_, ?_, ?_, ?_⟩
  · unfold get_profile_first
    split_ifs <;> rw [u32_masked _ _ (by decide)] <;> simp [PAGESIZE]
  · unfold get_profile_last
    split_ifs <;> rw [u32_masked _ _ (by decide)] <;> simp [PAGESIZE]
  · unfold get_profile_first
    split_ifs <;> rw [u32_masked _ _ (by decide)] <;>
      exact Nat.mul_le_mul_right _ Nat.and_le_right
  · unfold get_profile_last
    split_ifs <;> rw [u32_masked _ _ (by decide)] <;>
      exact Nat.mul_le_mul_right _ Nat.and_le_right

/-- Counterexample to C14: for the VTPro layout and the pointers `first = 0x244`,
`last = 0x43C` the page-aligned end of the logbook window is not `0x440`. -/
theorem vtpro_unaligned_counterexample :
    (logbook_window oceanic_vtpro_layout 0x244 0x43C).page_end ≠ 0x440 := by
  decide

/-- Claim C14, amended. Oceanic full + unaligned scenario: for the VTPro layout
(logbook `[0x240, 0x440)`, FIRST_LAST) and the pointers `first = 0x244`,
`last = 0x43C` the engine computes `end = increment (last, PAGESIZE / 2) = 0x244`,
`size = 0x200`, `full = true` and `unaligned = true`, and the page-aligned end
of the logbook window is `page_end = page_begin = ceil (0x244) = 0x250`, with
`page_size = 0x200`. -/
theorem vtpro_unaligned_window :
    (logbook_window oceanic_vtpro_layout 0x244 0x43C).entry_end = 0x244 ∧
    (logbook_window oceanic_vtpro_layout 0x244 0x43C).entry_size = 0x200 ∧
    (logbook_window oceanic_vtpro_layout 0x244 0x43C).full = true ∧
    (logbook_window oceanic_vtpro_layout 0x244 0x43C).unaligned = true ∧
    (logbook_window oceanic_vtpro_layout 0x244 0x43C).page_end = 0x250 ∧
    (logbook_window oceanic_vtpro_layout 0x244 0x43C).page_begin = 0x250 ∧
    (logbook_window oceanic_vtpro_layout 0x244 0x43C).page_size = 0x200 := by
  decide

/-! ## The transports: failed writes and retries -/

/-- Counterexample to C20: `serial_write` accepts `0` of the bytes of the
command, and `oceanic_vtpro_send` and `oceanic_vtpro_init` return `TIMEOUT`,
not `IO`. -/
theorem short_write_counterexample :
    oceanic_vtpro_send stalled_port [] [0x6A, 0x08, 0x00, 0x00] 4 =
      (TIMEOUT, [SerialEvent.write [0x6A, 0x08, 0x00, 0x00]]) ∧
    oceanic_vtpro_init stalled_port [] = (TIMEOUT, [SerialEvent.write [0xAA, 0x00]]) := by
  decide

/-- Claim C20, amended. A failed write: whenever `serial_write` returns a value
`n` other than the command length, `oceanic_vtpro_send` (when the device is
not cancelled) and `oceanic_vtpro_init` return `EXITCODE (n)` right after the
write: `IO` when `n = -1`, and `TIMEOUT` for every other `n`, in particular
for a short write `0 <= n < csize`. -/
theorem short_write_status (port : Port) (trace : List SerialEvent) (command : List Nat)
    (csize : Nat) :
    (port.cancelled trace = false →
      to_unsigned (port.serial_write trace (command.take csize)) ≠ csize →
      oceanic_vtpro_send port trace command csize =
        ((if port.serial_write trace (command.take csize) = -1 then IO_ERROR else TIMEOUT),
         trace ++ [SerialEvent.write (command.take csize)])) ∧
    (port.serial_write trace [0xAA, 0x00] ≠ 2 →
      oceanic_vtpro_init port trace =
        ((if port.serial_write trace [0xAA, 0x00] = -1 then IO_ERROR else TIMEOUT),
         trace ++ [SerialEvent.write [0xAA, 0x00]])) := by
  constructor
  · intro hc hn
    simp only [oceanic_vtpro_send, hc, Bool.false_eq_true, if_false, ne_eq, hn,
      not_false_eq_true, if_true, EXITCODE]
  · intro hn
    simp only [oceanic_vtpro_init, ne_eq, hn, not_false_eq_true, if_true, EXITCODE]

/-- Witness of C20: a `serial_write` that fails with `-1` gives `IO`, in
`oceanic_vtpro_send` and in `oceanic_vtpro_init`. -/
theorem short_write_status_witness :
    oceanic_vtpro_send broken_port [] [0x6A, 0x08, 0x00, 0x00] 4 =
      (IO_ERROR, [SerialEvent.write [0x6A, 0x08, 0x00, 0x00]]) ∧
    oceanic_vtpro_init broken_port [] = (IO_ERROR, [SerialEvent.write [0xAA, 0x00]]) :=
  ⟨(short_write_status broken_port [] [0x6A, 0x08, 0x00, 0x00] 4).1 (by decide) (by decide),
   (short_write_status broken_port [] [0x6A, 0x08, 0x00, 0x00] 4).2 (by decide)⟩

/-- The `serial_write` calls of a trace that is put together. -/
theorem writes_append (t u : List SerialEvent) : writes (t ++ u) = writes t + writes u := by
  induction t with
  | nil => simp [writes]
  | cons e t ih => cases e <;> simp [writes, ih] <;> omega

/-- The `packet` calls of a trace that is put together. -/
theorem packets_append (t u : List SuuntoEvent) : packets (t ++ u) = packets t + packets u := by
  induction t with
  | nil => simp [packets]
  | cons e t ih => cases e <;> simp [packets, ih] <;> omega

/-- One `oceanic_vtpro_send` writes at most once. -/
theorem send_writes (port : Port) (trace : List SerialEvent) (command : List Nat) (csize : Nat) :
    writes (oceanic_vtpro_send port trace command csize).2 ≤ writes trace + 1 := by
  unfold oceanic_vtpro_send
  by_cases c0 : port.cancelled trace = true
  · simp [c0]
  · simp only [c0, if_false]
    by_cases c1 : to_unsigned (port.serial_write trace (command.take csize)) ≠ csize
    · simp [c1, writes_append, writes]
    · simp only [c1, if_false]
      split_ifs <;> simp [writes_append, writes]

/-- The retry loop of `oceanic_vtpro_transfer` after `k` retried sends: when the
next send does not ask for a retry, or the retries are used up, the loop ends
with the result of that send. -/
theorem send_retry_spec (port : Port) (command : List Nat) (csize : Nat) :
    ∀ (k fuel nretries : Nat) (trace : List SerialEvent),
      k < fuel → nretries + k ≤ MAXRETRIES →
      (∀ i < k, (vtpro_attempt port command csize i trace).1 = TIMEOUT ∨
        (vtpro_attempt port command csize i trace).1 = PROTOCOL) →
      (((vtpro_attempt port command csize k trace).1 ≠ TIMEOUT ∧
        (vtpro_attempt port command csize k trace).1 ≠ PROTOCOL) ∨
        nretries + k = MAXRETRIES) →
      vtpro_send_retry port command csize fuel nretries trace =
        some (vtpro_attempt port command csize k trace) := by
  intro k
  induction k with
  | zero =>
    intro fuel nretries trace hf hn _ hk
    obtain ⟨fuel, rfl⟩ : ∃ f, fuel = f + 1 := ⟨fuel - 1, by omega⟩
    simp only [vtpro_send_retry, vtpro_attempt] at *
    rcases hrc : oceanic_vtpro_send port trace command csize with ⟨rc, t1⟩
    rw [hrc] at hk
    simp only at hk ⊢
    by_cases h1 : rc = SUCCESS
    · simp [h1]
    · rcases hk with ⟨h2, h3⟩ | h2
      · simp [h1, h2, h3]
      · have : nretries ≥ MAXRETRIES := by omega
        simp only [ne_eq, h1, not_false_eq_true, not_true_eq_false, if_false, this, if_true,
          ite_self]
  | succ k ih =>
    intro fuel nretries trace hf hn hfail hk
    obtain ⟨fuel, rfl⟩ : ∃ f, fuel = f + 1 := ⟨fuel - 1, by omega⟩
    have h0 := hfail 0 (by omega)
    simp only [vtpro_send_retry, vtpro_attempt] at *
    rcases hrc : oceanic_vtpro_send port trace command csize with ⟨rc, t1⟩
    rw [hrc] at h0 hk
    simp only at h0 hk ⊢
    have h1 : rc ≠ SUCCESS := by rcases h0 with h | h <;> rw [h] <;> decide
    have h2 : ¬ (rc ≠ TIMEOUT ∧ rc ≠ PROTOCOL) := by
      rcases h0 with h | h <;> rw [h] <;> decide
    have h3 : ¬ (nretries ≥ MAXRETRIES) := by omega
    simp only [ne_eq, h1, not_false_eq_true, not_true_eq_false, if_false, h2, h3]
    have hu : u32 (nretries + 1) = nretries + 1 := u32_eq _ (by simp only [MAXRETRIES] at hn; omega)
    rw [hu]
    apply ih fuel (nretries + 1) t1 (by omega) (by omega)
    · intro i hi
      have := hfail (i + 1) (by omega)
      simp only [vtpro_attempt, hrc] at this
      exact this
    · rcases hk with h | h
      · exact Or.inl h
      · exact Or.inr (by omega)

/-- The retry loop of `oceanic_vtpro_transfer` ends when it has fuel for the
retries that are left, and it never writes more often than that. -/
theorem send_retry_bound (port : Port) (command : List Nat) (csize : Nat) :
    ∀ (fuel nretries : Nat) (trace : List SerialEvent),
      nretries ≤ MAXRETRIES → MAXRETRIES + 1 ≤ fuel + nretries →
      ∃ rc t, vtpro_send_retry port command csize fuel nretries trace = some (rc, t) ∧
        writes t + nretries ≤ writes trace + (MAXRETRIES + 1) := by
  intro fuel
  induction fuel with
  | zero => intro nretries trace h1 h2; omega
  | succ fuel ih =>
    intro nretries trace h1 h2
    have hw := send_writes port trace command csize
    simp only [vtpro_send_retry]
    rcases hrc : oceanic_vtpro_send port trace command csize with ⟨rc, t1⟩
    rw [hrc] at hw
    simp only at hw ⊢
    by_cases c1 : ¬ (rc ≠ SUCCESS)
    · rw [if_pos c1]; exact ⟨rc, t1, rfl, by omega⟩
    rw [if_neg c1]
    by_cases c2 : rc ≠ TIMEOUT ∧ rc ≠ PROTOCOL
    · rw [if_pos c2]; exact ⟨rc, t1, rfl, by omega⟩
    rw [if_neg c2]
    by_cases c3 : nretries ≥ MAXRETRIES
    · rw [if_pos c3]; exact ⟨rc, t1, rfl, by omega⟩
    rw [if_neg c3]
    · have hu : u32 (nretries + 1) = nretries + 1 :=
        u32_eq _ (by simp only [MAXRETRIES] at h1; omega)
      rw [hu]
      obtain ⟨rc2, t2, e, hb⟩ := ih (nretries + 1) t1 (by omega) (by omega)
      exact ⟨rc2, t2, e, by omega⟩

/-- The trace of the `packet` call that follows `k` retried ones. -/
theorem suunto_attempt_packets
    (packet : List SuuntoEvent → List Nat → Nat → Nat → device_status_t × List Nat)
    (command : List Nat) (csize asize size : Nat) :
    ∀ (k : Nat) (trace : List SuuntoEvent),
      packets (suunto_attempt packet command csize asize size k trace).2.1 =
        packets trace + (k + 1) := by
  intro k
  induction k with
  | zero => intro trace; simp [suunto_attempt, packets_append, packets]
  | succ k ih =>
    intro trace
    simp only [suunto_attempt]
    rw [ih]
    simp [packets_append, packets]
    omega

/-- The retry loop of `suunto_common2_transfer` after `k` retried calls: when the
next call does not ask for a retry, or the retries are used up, the loop ends
with the result of that call. -/
theorem packet_retry_spec
    (packet : List SuuntoEvent → List Nat → Nat → Nat → device_status_t × List Nat)
    (command : List Nat) (csize asize size : Nat) :
    ∀ (k fuel nretries : Nat) (trace : List SuuntoEvent),
      k < fuel → nretries + k ≤ MAXRETRIES →
      (∀ i < k, (suunto_attempt packet command csize asize size i trace).1 = TIMEOUT ∨
        (suunto_attempt packet command csize asize size i trace).1 = PROTOCOL) →
      (((suunto_attempt packet command csize asize size k trace).1 ≠ TIMEOUT ∧
        (suunto_attempt packet command csize asize size k trace).1 ≠ PROTOCOL) ∨
        nretries + k = MAXRETRIES) →
      suunto_packet_retry packet command csize asize size fuel nretries trace =
        some (suunto_attempt packet command csize asize size k trace) := by
  intro k
  induction k with
  | zero =>
    intro fuel nretries trace hf hn _ hk
    obtain ⟨fuel, rfl⟩ : ∃ f, fuel = f + 1 := ⟨fuel - 1, by omega⟩
    simp only [suunto_packet_retry, suunto_attempt] at *
    rcases hrc : packet trace (command.take csize) asize size with ⟨rc, ans⟩
    rw [hrc] at hk
    simp only at hk ⊢
    by_cases h1 : rc = SUCCESS
    · simp [h1]
    · rcases hk with ⟨h2, h3⟩ | h2
      · simp [h1, h2, h3]
      · have : nretries ≥ MAXRETRIES := by omega
        simp only [ne_eq, h1, not_false_eq_true, not_true_eq_false, if_false, this, if_true,
          ite_self]
  | succ k ih =>
    intro fuel nretries trace hf hn hfail hk
    obtain ⟨fuel, rfl⟩ : ∃ f, fuel = f + 1 := ⟨fuel - 1, by omega⟩
    have h0 := hfail 0 (by omega)
    simp only [suunto_packet_retry, suunto_attempt] at *
    rcases hrc : packet trace (command.take csize) asize size with ⟨rc, ans⟩
    rw [hrc] at h0
    simp only at h0 hk ⊢
    have h1 : rc ≠ SUCCESS := by rcases h0 with h | h <;> rw [h] <;> decide
    have h2 : ¬ (rc ≠ TIMEOUT ∧ rc ≠ PROTOCOL) := by
      rcases h0 with h | h <;> rw [h] <;> decide
    have h3 : ¬ (nretries ≥ MAXRETRIES) := by omega
    simp only [ne_eq, h1, not_false_eq_true, not_true_eq_false, if_false, h2, h3]
    have hu : u32 (nretries + 1) = nretries + 1 := u32_eq _ (by simp only [MAXRETRIES] at hn; omega)
    rw [hu]
    apply ih fuel (nretries + 1) _ (by omega) (by omega)
    · intro i hi
      have := hfail (i + 1) (by omega)
      simp only [suunto_attempt] at this
      exact this
    · rcases hk with h | h
      · exact Or.inl h
      · exact Or.inr (by omega)

/-- The retry loop of `suunto_common2_transfer` ends when it has fuel for the
retries that are left, and it never calls `packet` more often than that. -/
theorem packet_retry_bound
    (packet : List SuuntoEvent → List Nat → Nat → Nat → device_status_t × List Nat)
    (command : List Nat) (csize asize size : Nat) :
    ∀ (fuel nretries : Nat) (trace : List SuuntoEvent),
      nretries ≤ MAXRETRIES → MAXRETRIES + 1 ≤ fuel + nretries →
      ∃ rc t a, suunto_packet_retry packet command csize asize size fuel nretries trace
          = some (rc, t, a) ∧
        packets t + nretries ≤ packets trace + (MAXRETRIES + 1) := by
  intro fuel
  induction fuel with
  | zero => intro nretries trace h1 h2; omega
  | succ fuel ih =>
    intro nretries trace h1 h2
    simp only [suunto_packet_retry]
    rcases hrc : packet trace (command.take csize) asize size with ⟨rc, ans⟩
    simp only
    by_cases c1 : ¬ (rc ≠ SUCCESS)
    · rw [if_pos c1]; exact ⟨rc, _, ans, rfl, by simp [packets_append, packets]; omega⟩
    rw [if_neg c1]
    by_cases c2 : rc ≠ TIMEOUT ∧ rc ≠ PROTOCOL
    · rw [if_pos c2]; exact ⟨rc, _, ans, rfl, by simp [packets_append, packets]; omega⟩
    rw [if_neg c2]
    by_cases c3 : nretries ≥ MAXRETRIES
    · rw [if_pos c3]; exact ⟨rc, _, ans, rfl, by simp [packets_append, packets]; omega⟩
    rw [if_neg c3]
    · have hu : u32 (nretries + 1) = nretries + 1 :=
        u32_eq _ (by simp only [MAXRETRIES] at h1; omega)
      rw [hu]
      obtain ⟨rc2, t2, a2, e, hb⟩ := ih (nretries + 1)
        (trace ++ [SuuntoEvent.packet (command.take csize) asize size]) (by omega) (by omega)
      refine ⟨rc2, t2, a2, e, ?_⟩
      simp [packets_append, packets] at hb
      omega

/-- `oceanic_vtpro_transfer` once the retry loop has ended with `(rc, t)`. -/
theorem vtpro_transfer_of_retry (port : Port) (fuel : Nat) (trace : List SerialEvent)
    (command : List Nat) (csize : Nat) (answer : List Nat) (asize : Nat)
    (rc : device_status_t) (t : List SerialEvent)
    (h : vtpro_send_retry port command csize fuel 0 trace = some (rc, t)) :
    (rc ≠ SUCCESS →
      oceanic_vtpro_transfer port fuel trace command csize answer asize =
        ⟨Outcome.returned rc, t, answer⟩) ∧
    (rc = SUCCESS →
      (oceanic_vtpro_transfer port fuel trace command csize answer asize).trace =
        t ++ [SerialEvent.read asize] ∧
      (oceanic_vtpro_transfer port fuel trace command csize answer asize).outcome =
        (if to_unsigned (port.serial_read t asize).1 ≠ asize
          then Outcome.returned (EXITCODE (port.serial_read t asize).1)
          else Outcome.returned SUCCESS) ∧
      (oceanic_vtpro_transfer port fuel trace command csize answer asize).answer =
        received answer asize (port.serial_read t asize).1 (port.serial_read t asize).2) := by
  constructor
  · intro hrc
    simp only [oceanic_vtpro_transfer, h, ne_eq, hrc, not_false_eq_true, if_true]
  · intro hrc
    simp only [oceanic_vtpro_transfer, h, ne_eq, hrc, not_true_eq_false, if_false]
    split_ifs <;> exact ⟨rfl, rfl, rfl⟩

/-- Claim C18. Retry bound: let the first `k` command exchanges, started after
`trace`, fail with `TIMEOUT` or `PROTOCOL`. `oceanic_vtpro_transfer` and
`suunto_common2_transfer` never make more than `MAXRETRIES + 1` attempts
(writes of the command, calls of `packet`). When `k <= MAXRETRIES` and the
next exchange succeeds (for the VTPro: the send is acknowledged and the answer
arrives in full length) they return `SUCCESS`; when `k > MAXRETRIES` they
return the `TIMEOUT` or `PROTOCOL` status of attempt number `MAXRETRIES + 1`,
right after that attempt; and when `k <= MAXRETRIES` and the next exchange
gives a status other than `SUCCESS`, `TIMEOUT` and `PROTOCOL`, that status is
returned unchanged right after the attempt that produced it. An exchange of
the VTPro is one `oceanic_vtpro_send`, an exchange of the Suunto one call of
the `packet` function of the backend. -/
theorem transfer_retry_bound :
    (∀ (port : Port) (command : List Nat) (csize : Nat) (answer : List Nat) (asize : Nat)
        (trace : List SerialEvent) (fuel k : Nat),
      MAXRETRIES + 1 ≤ fuel →
      (∀ i < k, (vtpro_attempt port command csize i trace).1 = TIMEOUT ∨
        (vtpro_attempt port command csize i trace).1 = PROTOCOL) →
      writes (oceanic_vtpro_transfer port fuel trace command csize answer asize).trace
        ≤ writes trace + (MAXRETRIES + 1) ∧
      (k ≤ MAXRETRIES → (vtpro_attempt port command csize k trace).1 = SUCCESS →
        to_unsigned (port.serial_read (vtpro_attempt port command csize k trace).2 asize).1
          = asize →
        (oceanic_vtpro_transfer port fuel trace command csize answer asize).outcome
          = Outcome.returned SUCCESS) ∧
      (MAXRETRIES < k →
        ((oceanic_vtpro_transfer port fuel trace command csize answer asize).outcome
            = Outcome.returned TIMEOUT ∨
         (oceanic_vtpro_transfer port fuel trace command csize answer asize).outcome
            = Outcome.returned PROTOCOL) ∧
        oceanic_vtpro_transfer port fuel trace command csize answer asize =
          ⟨Outcome.returned (vtpro_attempt port command csize MAXRETRIES trace).1,
           (vtpro_attempt port command csize MAXRETRIES trace).2, answer⟩) ∧
      (k ≤ MAXRETRIES → (vtpro_attempt port command csize k trace).1 ≠ SUCCESS →
        (vtpro_attempt port command csize k trace).1 ≠ TIMEOUT →
        (vtpro_attempt port command csize k trace).1 ≠ PROTOCOL →
        oceanic_vtpro_transfer port fuel trace command csize answer asize =
          ⟨Outcome.returned (vtpro_attempt port command csize k trace).1,
           (vtpro_attempt port command csize k trace).2, answer⟩)) ∧
    (∀ (env : SuuntoEnv)
        (packet : List SuuntoEvent → List Nat → Nat → Nat → device_status_t × List Nat)
        (command : List Nat) (csize : Nat) (answer : List Nat) (asize size : Nat)
        (trace : List SuuntoEvent) (fuel k : Nat),
      env.packet = some packet → asize ≥ u32 (size + 4) → MAXRETRIES + 1 ≤ fuel →
      (∀ i < k, (suunto_attempt packet command csize asize size i trace).1 = TIMEOUT ∨
        (suunto_attempt packet command csize asize size i trace).1 = PROTOCOL) →
      packets (suunto_common2_transfer env fuel trace command csize answer asize size).trace
        ≤ packets trace + (MAXRETRIES + 1) ∧
      (k ≤ MAXRETRIES → (suunto_attempt packet command csize asize size k trace).1 = SUCCESS →
        (suunto_common2_transfer env fuel trace command csize answer asize size).outcome
          = Outcome.returned SUCCESS) ∧
      (MAXRETRIES < k →
        ((suunto_common2_transfer env fuel trace command csize answer asize size).outcome
            = Outcome.returned TIMEOUT ∨
         (suunto_common2_transfer env fuel trace command csize answer asize size).outcome
            = Outcome.returned PROTOCOL) ∧
        suunto_common2_transfer env fuel trace command csize answer asize size =
          ⟨Outcome.returned (suunto_attempt packet command csize asize size MAXRETRIES trace).1,
           (suunto_attempt packet command csize asize size MAXRETRIES trace).2.1,
           (suunto_attempt packet command csize asize size MAXRETRIES trace).2.2⟩) ∧
      (k ≤ MAXRETRIES → (suunto_attempt packet command csize asize size k trace).1 ≠ SUCCESS →
        (suunto_attempt packet command csize asize size k trace).1 ≠ TIMEOUT →
        (suunto_attempt packet command csize asize size k trace).1 ≠ PROTOCOL →
        suunto_common2_transfer env fuel trace command csize answer asize size =
          ⟨Outcome.returned (suunto_attempt packet command csize asize size k trace).1,
           (suunto_attempt packet command csize asize size k trace).2.1,
           (suunto_attempt packet command csize asize size k trace).2.2⟩)) := by
  constructor
  · intro port command csize answer asize trace fuel k hfuel hfail
    refine ⟨?_, ?_, ?_, ?_⟩
    · obtain ⟨rc, t, e, hb⟩ := send_retry_bound port command csize fuel 0 trace
        (by decide) (by omega)
      have h := vtpro_transfer_of_retry port fuel trace command csize answer asize rc t e
      by_cases hrc : rc = SUCCESS
      · rw [(h.2 hrc).1]
        simp only [writes_append, writes]
        omega
      · rw [h.1 hrc]
        simp only
        omega
    · intro hk hs hr
      have e := send_retry_spec port command csize k fuel 0 trace (by omega) (by omega) hfail
        (Or.inl (by rw [hs]; decide))
      rcases hat : vtpro_attempt port command csize k trace with ⟨rc, t⟩
      rw [hat] at e hs hr
      simp only at hs hr
      have h := vtpro_transfer_of_retry port fuel trace command csize answer asize rc t e
      rw [(h.2 hs).2.1]
      simp only [ne_eq, hr, not_true_eq_false, if_false]
    · intro hk
      have h2 := hfail MAXRETRIES hk
      have e := send_retry_spec port command csize MAXRETRIES fuel 0 trace (by omega)
        (by omega) (fun i hi => hfail i (by omega)) (Or.inr (by omega))
      rcases hat : vtpro_attempt port command csize MAXRETRIES trace with ⟨rc, t⟩
      rw [hat] at e h2
      simp only at h2 ⊢
      have h := vtpro_transfer_of_retry port fuel trace command csize answer asize rc t e
      have hrc : rc ≠ SUCCESS := by rcases h2 with h | h <;> rw [h] <;> decide
      rw [h.1 hrc]
      refine ⟨?_, rfl⟩
      rcases h2 with h | h
      · exact Or.inl (by rw [h])
      · exact Or.inr (by rw [h])
    · intro hk h1 h2 h3
      have e := send_retry_spec port command csize k fuel 0 trace (by omega) (by omega) hfail
        (Or.inl ⟨h2, h3⟩)
      rcases hat : vtpro_attempt port command csize k trace with ⟨rc, t⟩
      rw [hat] at e h1
      simp only at h1 ⊢
      exact (vtpro_transfer_of_retry port fuel trace command csize answer asize rc t e).1 h1
  · intro env packet command csize answer asize size trace fuel k hp has hfuel hfail
    have hun : ∀ r, suunto_packet_retry packet command csize asize size fuel 0 trace = some r →
        suunto_common2_transfer env fuel trace command csize answer asize size =
          ⟨Outcome.returned r.1, r.2.1, r.2.2⟩ := by
      intro r e
      simp only [suunto_common2_transfer, has, not_true_eq_false, if_false, hp, e]
    refine ⟨?_, ?_, ?_, ?_⟩
    · obtain ⟨rc, t, a, e, hb⟩ := packet_retry_bound packet command csize asize size fuel 0 trace
        (by decide) (by omega)
      rw [hun _ e]
      simp only
      omega
    · intro hk hs
      have e := packet_retry_spec packet command csize asize size k fuel 0 trace (by omega)
        (by omega) hfail (Or.inl (by rw [hs]; decide))
      rw [hun _ e, hs]
    · intro hk
      have h2 := hfail MAXRETRIES hk
      have e := packet_retry_spec packet command csize asize size MAXRETRIES fuel 0 trace
        (by omega) (by omega) (fun i hi => hfail i (by omega)) (Or.inr (by omega))
      rw [hun _ e]
      refine ⟨?_, rfl⟩
      rcases h2 with h | h
      · exact Or.inl (by rw [h])
      · exact Or.inr (by rw [h])
    · intro hk h1 h2 h3
      have e := packet_retry_spec packet command csize asize size k fuel 0 trace (by omega)
        (by omega) hfail (Or.inl ⟨h2, h3⟩)
      exact hun _ e

/-- Witness of C18: a VTPro port that answers `NAK`, `NAK`, `ACK` and a Suunto
backend that times out twice (`k = 2`): both transfers return `SUCCESS`. -/
theorem transfer_retry_bound_witness :
    (oceanic_vtpro_transfer nak_port 3 [] [0x6A, 0x08, 0x00, 0x00] 4 [0] 1).outcome
      = Outcome.returned SUCCESS ∧
    (suunto_common2_transfer timeout_env 3 [] [0x0F, 0x00, 0x00, 0x0F] 4
      [0, 0, 0, 0, 0, 0, 0, 0] 8 4).outcome = Outcome.returned SUCCESS :=
  ⟨(transfer_retry_bound.1 nak_port [0x6A, 0x08, 0x00, 0x00] 4 [0] 1 [] 3 2 (by decide)
      (by decide)).2.1 (by decide) (by decide) (by decide),
   (transfer_retry_bound.2 timeout_env
      (fun trace _ asize _ =>
        if packets trace < 2 then (TIMEOUT, List.replicate asize 0)
        else (SUCCESS, List.replicate asize 0))
      [0x0F, 0x00, 0x00, 0x0F] 4 [0, 0, 0, 0, 0, 0, 0, 0] 8 4 [] 3 2 rfl (by decide) (by decide)
      (by decide)).2.1 (by decide) (by decide)⟩

/-- Counterexample to C19: the device acknowledges the page-read command, the
answer does not arrive, and `oceanic_vtpro_device_read` returns `TIMEOUT` after
one single exchange (one write of the command), although the port would have
answered a repeated command in full. -/
theorem vtpro_read_retry_counterexample :
    oceanic_vtpro_device_read flaky_port (vtpro_device [0, 0, 0, 0, 0, 0, 0, 0]) 4 [] 0 16 =
      ⟨Outcome.returned TIMEOUT,
       [SerialEvent.write [0x34, 0, 0, 0, 0, 0], SerialEvent.read 1, SerialEvent.read 17],
       []⟩ ∧
    oceanic_vtpro_device_read flaky_port (vtpro_device [0, 0, 0, 0, 0, 0, 0, 0]) 4
      [SerialEvent.write [0x34, 0, 0, 0, 0, 0], SerialEvent.read 1, SerialEvent.read 17] 0 16 =
      ⟨Outcome.returned SUCCESS,
       [SerialEvent.write [0x34, 0, 0, 0, 0, 0], SerialEvent.read 1, SerialEvent.read 17,
        SerialEvent.write [0x34, 0, 0, 0, 0, 0], SerialEvent.read 1, SerialEvent.read 17],
       [0, 0, 0, 0, 0, 0, 0, 0, 0, 0, 0, 0, 0, 0, 0, 0]⟩ := by
  decide

/-- An acknowledged send: the result of `oceanic_vtpro_send` when the device is
not cancelled, the command is written in full and one byte `ACK` arrives. -/
theorem send_acknowledged (port : Port) (trace : List SerialEvent) (command : List Nat)
    (csize : Nat) (hcan : port.cancelled trace = false)
    (hwrite : to_unsigned (port.serial_write trace (command.take csize)) = csize)
    (hack : port.serial_read (trace ++ [SerialEvent.write (command.take csize)]) 1
      = (1, [ACK])) :
    oceanic_vtpro_send port trace command csize =
      (SUCCESS, trace ++ [SerialEvent.write (command.take csize), SerialEvent.read 1]) := by
  have hrec : received [NAK] 1 1 [ACK] = [ACK] := by decide
  simp only [oceanic_vtpro_send, hcan, hwrite, hack, hrec, Bool.false_eq_true, if_false, ne_eq,
    not_true_eq_false, List.append_assoc, List.singleton_append]

/-- The first iteration of the `while` loop of `oceanic_vtpro_device_read`: a
failed transfer and a checksum that does not match end the run. -/
theorem vtpro_read_first (port : Port) (size retryfuel fuel : Nat) (trace : List SerialEvent)
    (s : PageState) (h : s.nbytes < size) :
    ((oceanic_vtpro_transfer port retryfuel trace
        (vtpro_read_command s.address (vtpro_npackets size s.nbytes)) 6
        (List.replicate ((PAGESIZE + 1) * MULTIPAGE) 0)
        (u32 ((PAGESIZE + 1) * vtpro_npackets size s.nbytes))).outcome
        ≠ Outcome.returned SUCCESS →
      vtpro_read_loop port size retryfuel (fuel + 1) trace s =
        ⟨(oceanic_vtpro_transfer port retryfuel trace
          (vtpro_read_command s.address (vtpro_npackets size s.nbytes)) 6
          (List.replicate ((PAGESIZE + 1) * MULTIPAGE) 0)
          (u32 ((PAGESIZE + 1) * vtpro_npackets size s.nbytes))).outcome,
         (oceanic_vtpro_transfer port retryfuel trace
          (vtpro_read_command s.address (vtpro_npackets size s.nbytes)) 6
          (List.replicate ((PAGESIZE + 1) * MULTIPAGE) 0)
          (u32 ((PAGESIZE + 1) * vtpro_npackets size s.nbytes))).trace, s.data⟩) ∧
    ((oceanic_vtpro_transfer port retryfuel trace
        (vtpro_read_command s.address (vtpro_npackets size s.nbytes)) 6
        (List.replicate ((PAGESIZE + 1) * MULTIPAGE) 0)
        (u32 ((PAGESIZE + 1) * vtpro_npackets size s.nbytes))).outcome
        = Outcome.returned SUCCESS →
      (vtpro_pages (oceanic_vtpro_transfer port retryfuel trace
        (vtpro_read_command s.address (vtpro_npackets size s.nbytes)) 6
        (List.replicate ((PAGESIZE + 1) * MULTIPAGE) 0)
        (u32 ((PAGESIZE + 1) * vtpro_npackets size s.nbytes))).answer
        (vtpro_npackets size s.nbytes) { s with offset := 0 }).1 = false →
      (vtpro_read_loop port size retryfuel (fuel + 1) trace s).outcome
        = Outcome.returned PROTOCOL ∧
      (vtpro_read_loop port size retryfuel (fuel + 1) trace s).trace =
        (oceanic_vtpro_transfer port retryfuel trace
          (vtpro_read_command s.address (vtpro_npackets size s.nbytes)) 6
          (List.replicate ((PAGESIZE + 1) * MULTIPAGE) 0)
          (u32 ((PAGESIZE + 1) * vtpro_npackets size s.nbytes))).trace) := by
  generalize hr : oceanic_vtpro_transfer port retryfuel trace
        (vtpro_read_command s.address (vtpro_npackets size s.nbytes)) 6
        (List.replicate ((PAGESIZE + 1) * MULTIPAGE) 0)
        (u32 ((PAGESIZE + 1) * vtpro_npackets size s.nbytes)) = r
  rw [vtpro_read_loop]
  simp only [h, not_true_eq_false, if_false, hr]
  constructor
  · intro hne
    rw [if_pos hne]
  · intro he hpg
    rw [if_neg (not_not.mpr he)]
    rcases hp : vtpro_pages r.answer (vtpro_npackets size s.nbytes)
      { nbytes := s.nbytes, address := s.address, offset := 0, data := s.data } with ⟨ok, s'⟩
    rw [hp] at hpg
    simp only at hpg
    subst hpg
    exact ⟨rfl, rfl⟩

/-- Claim C19, amended. No retry behind the acknowledgement (VTPro): when the
device acknowledges the page-read command of the first transfer of
`oceanic_vtpro_device_read` and then the answer is short (`serial_read` returns
`n` other than the answer size) or the checksum of one of its pages does not
match, `oceanic_vtpro_device_read` returns at once, with `EXITCODE (n)`
(`TIMEOUT`, or `IO` for `n = -1`) or with `PROTOCOL`: the command has been
written once and the exchange is not repeated. Only a send that fails with
`TIMEOUT` or `PROTOCOL` (no `ACK`) is repeated, see C18. -/
theorem vtpro_read_no_retry (port : Port) (device : oceanic_common_device_t) (fuel : Nat)
    (trace : List SerialEvent) (address size : Nat)
    (hdev : device_is_oceanic_vtpro device = true)
    (haddr : address % PAGESIZE = 0) (hsize : size % PAGESIZE = 0) (hpos : 0 < size)
    (hfuel : 0 < fuel)
    (hcan : port.cancelled trace = false)
    (hwrite : to_unsigned (port.serial_write trace
      (vtpro_read_command address (vtpro_npackets size 0))) = 6)
    (hack : port.serial_read (trace ++
      [SerialEvent.write (vtpro_read_command address (vtpro_npackets size 0))]) 1 = (1, [ACK])) :
    (to_unsigned (port.serial_read (trace ++
        [SerialEvent.write (vtpro_read_command address (vtpro_npackets size 0)),
         SerialEvent.read 1]) (u32 ((PAGESIZE + 1) * vtpro_npackets size 0))).1
        ≠ u32 ((PAGESIZE + 1) * vtpro_npackets size 0) →
      oceanic_vtpro_device_read port device fuel trace address size =
        ⟨Outcome.returned (EXITCODE (port.serial_read (trace ++
          [SerialEvent.write (vtpro_read_command address (vtpro_npackets size 0)),
           SerialEvent.read 1]) (u32 ((PAGESIZE + 1) * vtpro_npackets size 0))).1),
         trace ++ [SerialEvent.write (vtpro_read_command address (vtpro_npackets size 0)),
           SerialEvent.read 1, SerialEvent.read (u32 ((PAGESIZE + 1) * vtpro_npackets size 0))],
         []⟩) ∧
    (to_unsigned (port.serial_read (trace ++
        [SerialEvent.write (vtpro_read_command address (vtpro_npackets size 0)),
         SerialEvent.read 1]) (u32 ((PAGESIZE + 1) * vtpro_npackets size 0))).1
        = u32 ((PAGESIZE + 1) * vtpro_npackets size 0) →
      (vtpro_pages (received (List.replicate ((PAGESIZE + 1) * MULTIPAGE) 0)
          (u32 ((PAGESIZE + 1) * vtpro_npackets size 0))
          (port.serial_read (trace ++
            [SerialEvent.write (vtpro_read_command address (vtpro_npackets size 0)),
             SerialEvent.read 1]) (u32 ((PAGESIZE + 1) * vtpro_npackets size 0))).1
          (port.serial_read (trace ++
            [SerialEvent.write (vtpro_read_command address (vtpro_npackets size 0)),
             SerialEvent.read 1]) (u32 ((PAGESIZE + 1) * vtpro_npackets size 0))).2)
        (vtpro_npackets size 0)
        { nbytes := 0, address := address, offset := 0, data := [] }).1 = false →
      (oceanic_vtpro_device_read port device fuel trace address size).outcome =
        Outcome.returned PROTOCOL ∧
      (oceanic_vtpro_device_read port device fuel trace address size).trace =
        trace ++ [SerialEvent.write (vtpro_read_command address (vtpro_npackets size 0)),
          SerialEvent.read 1, SerialEvent.read (u32 ((PAGESIZE + 1) * vtpro_npackets size 0))]) := by
  obtain ⟨fuel, rfl⟩ : ∃ f, fuel = f + 1 := ⟨fuel - 1, by omega⟩
  generalize hcmd : vtpro_read_command address (vtpro_npackets size 0) = cmd at *
  generalize hasz : u32 ((PAGESIZE + 1) * vtpro_npackets size 0) = asize at *
  generalize hzero : List.replicate ((PAGESIZE + 1) * MULTIPAGE) 0 = zeros at *
  have hlen : cmd.take 6 = cmd := by
    rw [← hcmd]; simp [vtpro_read_command]
  have hsend := send_acknowledged port trace cmd 6 hcan (by rw [hlen]; exact hwrite)
    (by rw [hlen]; exact hack)
  rw [hlen] at hsend
  have hretry : vtpro_send_retry port cmd 6 (fuel + 1) 0 trace
      = some (SUCCESS, trace ++ [SerialEvent.write cmd, SerialEvent.read 1]) := by
    simp only [vtpro_send_retry, hsend, ne_eq, not_true_eq_false, not_false_eq_true, if_true]
  have htr := (vtpro_transfer_of_retry port (fuel + 1) trace cmd 6 zeros asize
    SUCCESS _ hretry).2 rfl
  have hfirst := vtpro_read_first port size (fuel + 1) fuel trace
    { nbytes := 0, address := address, offset := 0, data := [] } hpos
  simp only [hcmd, hasz, hzero] at hfirst
  have hun : oceanic_vtpro_device_read port device (fuel + 1) trace address size =
      vtpro_read_loop port size (fuel + 1) (fuel + 1) trace
        { nbytes := 0, address := address, offset := 0, data := [] } := by
    simp only [oceanic_vtpro_device_read, hdev, haddr, hsize, not_true_eq_false, if_false]
  rw [hun]
  generalize hr : oceanic_vtpro_transfer port (fuel + 1) trace cmd 6 zeros asize = r at *
  obtain ⟨r1, r2, r3⟩ := htr
  constructor
  · intro hn
    rw [if_pos hn] at r2
    have hne : r.outcome ≠ Outcome.returned SUCCESS := by
      rw [r2]
      unfold EXITCODE
      split_ifs <;> decide
    rw [hfirst.1 hne, r1, r2]
    simp only [List.append_assoc, List.cons_append, List.nil_append]
  · intro hn hpg
    rw [if_neg (not_not.mpr hn)] at r2
    rw [r3] at hfirst
    have := hfirst.2 r2 hpg
    rw [r1] at this
    simp only [List.append_assoc, List.cons_append, List.nil_append] at this
    exact this

/-- Witness of C19: on `flaky_port` the answer to the first page-read command
does not arrive, and the read of page 0 returns `TIMEOUT` after one write. -/
theorem vtpro_read_no_retry_witness :
    oceanic_vtpro_device_read flaky_port (vtpro_device [0, 0, 0, 0, 0, 0, 0, 0]) 4 [] 0 16 =
      ⟨Outcome.returned TIMEOUT,
       [SerialEvent.write [0x34, 0, 0, 0, 0, 0], SerialEvent.read 1, SerialEvent.read 17],
       []⟩ :=
  (vtpro_read_no_retry flaky_port (vtpro_device [0, 0, 0, 0, 0, 0, 0, 0]) 4 [] 0 16
    (by decide) (by decide) (by decide) (by decide) (by decide) (by decide) (by decide)
    (by decide)).1 (by decide)

/-! ## Callback stop: properties -/

/-- The empty trace has no bad event. -/
theorem noneBad_nil {α : Type} (bad : List α → α → Prop) : NoneBad bad [] := by
  intro pre e post h
  simp at h

/-- Splitting a trace with one more event: the split lies in the old trace, or
the new event is the one that is split off. -/
theorem split_snoc {α : Type} (t pre post : List α) (e x : α)
    (h : t ++ [x] = pre ++ e :: post) :
    (post = [] ∧ pre = t ∧ e = x) ∨ (∃ post', post = post' ++ [x] ∧ t = pre ++ e :: post') := by
  rcases List.eq_nil_or_concat post with hp | ⟨post', y, hp⟩
  · subst hp
    have h' : t ++ [x] = pre ++ [e] := h
    have := List.append_inj' h' rfl
    exact Or.inl ⟨rfl, this.1.symm, by simpa using this.2.symm⟩
  · rw [List.concat_eq_append] at hp
    subst hp
    have h' : t ++ [x] = (pre ++ e :: post') ++ [y] := by
      rw [h]; simp
    have := List.append_inj' h' rfl
    refine Or.inr ⟨post', ?_, this.1⟩
    have hxy : x = y := by simpa using this.2
    rw [hxy]

/-- One more event that is not bad keeps the trace free of bad events. -/
theorem noneBad_snoc {α : Type} (bad : List α → α → Prop) (t : List α) (x : α)
    (ht : NoneBad bad t) (hx : ¬ bad t x) : NoneBad bad (t ++ [x]) := by
  intro pre e post h
  rcases split_snoc t pre post e x h with ⟨_, h2, h3⟩ | ⟨post', _, h2⟩
  · subst h2; subst h3; exact hx
  · exact ht pre e post' h2

/-- More events none of which can be bad keep the trace free of bad events. -/
theorem noneBad_append {α : Type} (bad : List α → α → Prop) (ext : List α)
    (hext : ∀ x ∈ ext, ∀ pre, ¬ bad pre x) :
    ∀ t, NoneBad bad t → NoneBad bad (t ++ ext) := by
  induction ext with
  | nil => intro t ht; simpa using ht
  | cons x ext ih =>
    intro t ht
    have h1 := noneBad_snoc bad t x ht (hext x (List.mem_cons_self _ _) t)
    have h2 := ih (fun y hy => hext y (List.mem_cons_of_mem _ hy)) (t ++ [x]) h1
    simpa using h2

/-- A trace without bad events ends any way one likes. -/
theorem endsBad_of_noneBad {α : Type} (bad : List α → α → Prop) (t : List α) (ok : Prop)
    (ht : NoneBad bad t) : EndsBad bad t ok := by
  intro pre e post h hb
  exact absurd hb (ht pre e post h)

/-- After a trace without bad events, one more event is the last one. -/
theorem endsBad_snoc {α : Type} (bad : List α → α → Prop) (t : List α) (x : α) (ok : Prop)
    (ht : NoneBad bad t) (hok : ok) : EndsBad bad (t ++ [x]) ok := by
  intro pre e post h hb
  rcases split_snoc t pre post e x h with ⟨h1, _, _⟩ | ⟨post', _, h2⟩
  · exact ⟨h1, hok⟩
  · exact absurd hb (ht pre e post' h2)

/-- A trace without callback invocations has no declined event. -/
theorem noneBad_of_dives (callback : Option (List Event → List Nat → List Nat → Bool))
    (t : List Event) (h : dives t = []) : NoneBad (declined callback) t := by
  intro pre e post ht hb
  obtain ⟨cb, d, f, _, he, _⟩ := hb
  subst he
  rw [ht, dives_append] at h
  simp [dives] at h

/-- A read request is never declined. -/
theorem declined_read (callback : Option (List Event → List Nat → List Nat → Bool))
    (pre : List Event) (a n : Nat) : ¬ declined callback pre (Event.read a n) := by
  rintro ⟨cb, d, f, _, he, _⟩
  cases he

/-- A progress event is never declined. -/
theorem declined_progress (callback : Option (List Event → List Nat → List Nat → Bool))
    (pre : List Event) (a n : Nat) : ¬ declined callback pre (Event.progress a n) := by
  rintro ⟨cb, d, f, _, he, _⟩
  cases he

/-- The packet loop of one dive keeps the trace free of declined events. -/
theorem profile_read_stop (env : Env) (l : oceanic_common_layout_t) (mp : Nat)
    (pm remaining size : Nat) :
    ∀ (fuel : Nat) (s : ReadState), NoneBad (declined env.callback) s.trace →
      NoneBad (declined env.callback)
        ((profile_read env l mp pm remaining size fuel s).trace_of ReadState.trace) := by
  intro fuel
  induction fuel with
  | zero =>
    intro s hs
    unfold profile_read
    split_ifs <;> simpa [Step.trace_of] using hs
  | succ fuel ih =>
    intro s hs
    unfold profile_read
    split_ifs with hc
    · simp only []
      have hr := noneBad_snoc _ _ (Event.read
          (usub (wrap_point l.rb_profile_begin l.rb_profile_end s.address)
            (packet_size l.rb_profile_begin mp
              (wrap_point l.rb_profile_begin l.rb_profile_end s.address) s.nbytes remaining))
          (packet_size l.rb_profile_begin mp
            (wrap_point l.rb_profile_begin l.rb_profile_end s.address) s.nbytes remaining))
        hs (declined_read _ _ _ _)
      split_ifs
      all_goals first
        | exact hr
        | (apply ih
           have h2 := noneBad_snoc _ _ (Event.progress (u32 (s.progress_current +
              packet_size l.rb_profile_begin mp
                (wrap_point l.rb_profile_begin l.rb_profile_end s.address) s.nbytes remaining)) pm)
              hr (declined_progress _ _ _ _)
           simpa using h2)
    · exact hs

/-- A callback invocation that the callback accepts is not declined. -/
theorem declined_accept (callback : Option (List Event → List Nat → List Nat → Bool))
    (cb : List Event → List Nat → List Nat → Bool) (hcb : callback = some cb)
    (pre : List Event) (d f : List Nat) (h : (! cb pre d f) = false) :
    ¬ declined callback pre (Event.dive d f) := by
  rintro ⟨cb', d', f', h1, he, h2⟩
  rw [hcb] at h1
  cases h1
  cases he
  rw [h2] at h
  cases h

/-- The delivery of a dive keeps the trace free of declined events, unless the
callback declines the dive, which then is the last event. -/
theorem profile_deliver_stop (env : Env) (logbooks : Buffer)
    (current first size : Nat) (s : ProfState) (r : ReadState)
    (hr : NoneBad (declined env.callback) r.trace) :
    match profile_deliver env logbooks current first size s r with
    | Step.stop r' => NoneBad (declined env.callback) r'.trace
    | Step.next (s', stop) =>
      (stop = false → NoneBad (declined env.callback) s'.trace) ∧
      (stop = true → EndsBad (declined env.callback) s'.trace True) := by
  unfold profile_deliver
  simp only []
  split_ifs
  all_goals first | exact hr | skip
  all_goals rcases hcb : env.callback with _ | cb
  all_goals simp only []
  all_goals rw [hcb] at hr
  all_goals first
    | exact hr
    | exact ⟨fun _ => hr, fun h => by cases h⟩
    | exact ⟨fun h => noneBad_snoc _ _ _ hr (declined_accept _ cb rfl _ _ _ h),
        fun _ => endsBad_snoc _ _ _ True hr trivial⟩

/-- One iteration of the profile loop keeps the trace free of declined events,
unless the callback declines the dive, which then is the last event. -/
theorem profile_dive_stop (env : Env) (l : oceanic_common_layout_t) (mp : Nat)
    (logbooks : Buffer) (pm rf : Nat) (s : ProfState)
    (hs : NoneBad (declined env.callback) s.trace) :
    match profile_dive env l mp logbooks pm rf s with
    | Step.stop r' => NoneBad (declined env.callback) r'.trace
    | Step.next (s', stop) =>
      (stop = false → NoneBad (declined env.callback) s'.trace) ∧
      (stop = true → EndsBad (declined env.callback) s'.trace True) := by
  unfold profile_dive
  simp only []
  split_ifs with c1 c2 c3 c4
  all_goals try exact hs
  have hrd := profile_read_stop env l mp pm s.remaining
    (u32 (RB_PROFILE_DISTANCE
      (get_profile_first (logbooks.load (usub s.current (PAGESIZE / 2)) (PAGESIZE / 2)) l)
      (get_profile_last (logbooks.load (usub s.current (PAGESIZE / 2)) (PAGESIZE / 2)) l) l
      + PAGESIZE)) rf
    { profiles := s.profiles, nbytes := s.available, offset := s.offset,
      address := s.address, progress_current := s.progress_current, trace := s.trace } hs
  generalize profile_read env l mp pm s.remaining _ rf _ = pr at hrd
  rcases pr with r | r'
  · simp only [Step.trace_of] at hrd ⊢
    exact profile_deliver_stop env logbooks _ _ _ s r hrd
  · exact hrd

/-- The profile loop: when the callback declines a dive, this is the last event
and the function returns `SUCCESS`. -/
theorem profile_loop_stop (env : Env) (l : oceanic_common_layout_t) (mp : Nat)
    (logbooks : Buffer) (bg pm rf : Nat) :
    ∀ (fuel : Nat) (s : ProfState), NoneBad (declined env.callback) s.trace →
    match profile_loop env l mp logbooks bg pm rf fuel s with
    | Step.stop r => EndsBad (declined env.callback) r.trace
        (r.outcome = Outcome.returned SUCCESS)
    | Step.next s' => NoneBad (declined env.callback) s'.trace := by
  intro fuel
  induction fuel with
  | zero =>
    intro s hs
    unfold profile_loop
    split_ifs
    · exact endsBad_of_noneBad _ _ _ hs
    · exact hs
  | succ n ih =>
    intro s hs
    unfold profile_loop
    split_ifs with hc
    · have hdv := profile_dive_stop env l mp logbooks pm rf s hs
      simp only
      generalize profile_dive env l mp logbooks pm rf s = pd at hdv
      rcases pd with ⟨s', ab⟩ | r
      · simp only at hdv ⊢
        split_ifs with hab
        · intro pre e post h hb
          exact ⟨(hdv.2 hab pre e post h hb).1, rfl⟩
        · exact ih s' (hdv.1 (by simpa using hab))
      · exact endsBad_of_noneBad _ _ _ hdv
    · exact hs

/-- Callback stop in the Oceanic engine: when the callback declines a dive, this is the last
event of the run and `oceanic_common_device_foreach` returns `SUCCESS`. -/
theorem oceanic_callback_stop (env : Env) (device : oceanic_common_device_t) (fuel : Nat) :
    EndsBad (declined env.callback) (oceanic_common_device_foreach env device fuel).trace
      ((oceanic_common_device_foreach env device fuel).outcome = Outcome.returned SUCCESS) := by
  unfold oceanic_common_device_foreach
  rcases hl : device.layout with _ | layout
  · exact endsBad_of_noneBad _ _ _ (noneBad_nil _)
  · simp only
    have hh := foreach_header_dives env layout
    rcases hhd : foreach_header env layout with h | r
    · rw [hhd] at hh
      simp only at hh ⊢
      have hlg := foreach_logbooks_dives env device layout fuel h hh
      rcases hlb : foreach_logbooks env device layout fuel h with sl | r
      · rw [hlb] at hlg
        simp only at hlg ⊢
        unfold foreach_profiles
        have hst := profile_start_trace env layout
          (window_end (logbook_window layout h.rb_logbook_first h.rb_logbook_last)) sl
        rcases hps : profile_start env layout
          (window_end (logbook_window layout h.rb_logbook_first h.rb_logbook_last)) sl with p | r
        · rw [hps] at hst
          simp only at hst ⊢
          have hlp := profile_loop_stop env layout device.multipage sl.logbooks sl.begin_
            p.progress_maximum fuel fuel p.state
            (by rw [hst]; exact noneBad_of_dives _ _ hlg)
          rcases hpl : profile_loop env layout device.multipage sl.logbooks sl.begin_
            p.progress_maximum fuel fuel p.state with s' | r
          · rw [hpl] at hlp
            simp only at hlp ⊢
            intro pre e post h1 h2
            exact absurd h2 (hlp pre e post h1)
          · rw [hpl] at hlp
            exact hlp
        · rw [hps] at hst
          simp only at hst ⊢
          exact endsBad_of_noneBad _ _ _ (by rw [hst]; exact noneBad_of_dives _ _ hlg)
      · rw [hlb] at hlg
        exact endsBad_of_noneBad _ _ _ (noneBad_of_dives _ _ hlg)
    · rw [hhd] at hh
      exact endsBad_of_noneBad _ _ _ (noneBad_of_dives _ _ hh)

/-- A `packet` call is never declined. -/
theorem suunto_declined_packet (callback : Option (List SuuntoEvent → List Nat → List Nat → Bool))
    (pre : List SuuntoEvent) (c : List Nat) (a n : Nat) :
    ¬ suunto_declined callback pre (SuuntoEvent.packet c a n) := by
  rintro ⟨cb, d, f, _, he, _⟩
  cases he

/-- A progress event of the Suunto engine is never declined. -/
theorem suunto_declined_progress
    (callback : Option (List SuuntoEvent → List Nat → List Nat → Bool))
    (pre : List SuuntoEvent) (a n : Nat) :
    ¬ suunto_declined callback pre (SuuntoEvent.progress a n) := by
  rintro ⟨cb, d, f, _, he, _⟩
  cases he

/-- A device-info event of the Suunto engine is never declined. -/
theorem suunto_declined_devinfo
    (callback : Option (List SuuntoEvent → List Nat → List Nat → Bool))
    (pre : List SuuntoEvent) (a b c : Nat) :
    ¬ suunto_declined callback pre (SuuntoEvent.devinfo a b c) := by
  rintro ⟨cb, d, f, _, he, _⟩
  cases he

/-- A callback invocation of the Suunto engine that the callback accepts is not
declined. -/
theorem suunto_declined_accept
    (callback : Option (List SuuntoEvent → List Nat → List Nat → Bool))
    (cb : List SuuntoEvent → List Nat → List Nat → Bool) (hcb : callback = some cb)
    (pre : List SuuntoEvent) (d f : List Nat) (h : (! cb pre d f) = false) :
    ¬ suunto_declined callback pre (SuuntoEvent.dive d f) := by
  rintro ⟨cb', d', f', h1, he, h2⟩
  rw [hcb] at h1
  cases h1
  cases he
  rw [h2] at h
  cases h

/-- The retry loop of `suunto_common2_transfer` keeps the trace free of declined
events. -/
theorem packet_retry_stop (cbk : Option (List SuuntoEvent → List Nat → List Nat → Bool))
    (packet : List SuuntoEvent → List Nat → Nat → Nat → device_status_t × List Nat)
    (command : List Nat) (csize asize size : Nat) :
    ∀ (fuel nretries : Nat) (trace : List SuuntoEvent) (r : device_status_t × List SuuntoEvent × List Nat),
      NoneBad (suunto_declined cbk) trace →
      suunto_packet_retry packet command csize asize size fuel nretries trace = some r →
      NoneBad (suunto_declined cbk) r.2.1 := by
  intro fuel
  induction fuel with
  | zero => intro nretries trace r _ h; simp [suunto_packet_retry] at h
  | succ fuel ih =>
    intro nretries trace r ht h
    have h1 := noneBad_snoc _ _ (SuuntoEvent.packet (command.take csize) asize size) ht
      (suunto_declined_packet _ _ _ _ _)
    simp only [suunto_packet_retry] at h
    split_ifs at h
    all_goals first
      | (cases h; exact h1)
      | exact ih _ _ r h1 h

/-- `suunto_common2_transfer` keeps the trace free of declined events. -/
theorem suunto_transfer_stop (env : SuuntoEnv) (fuel : Nat) (trace : List SuuntoEvent)
    (command : List Nat) (csize : Nat) (answer : List Nat) (asize size : Nat)
    (ht : NoneBad (suunto_declined env.callback) trace) :
    NoneBad (suunto_declined env.callback)
      (suunto_common2_transfer env fuel trace command csize answer asize size).trace := by
  unfold suunto_common2_transfer
  by_cases h : asize ≥ u32 (size + 4)
  · simp only [h, not_true_eq_false, if_false]
    rcases hp : env.packet with _ | packet
    · exact ht
    · simp only
      rcases hr : suunto_packet_retry packet command csize asize size fuel 0 trace with _ | r
      · exact ht
      · exact packet_retry_stop env.callback packet command csize asize size fuel 0 trace r ht hr
  · simp only [h, not_false_eq_true, if_true]
    exact ht

/-- `suunto_common2_device_version` keeps the trace free of declined events. -/
theorem suunto_version_stop (env : SuuntoEnv) (fuel : Nat) (trace : List SuuntoEvent)
    (data : List Nat) (size : Nat)
    (ht : NoneBad (suunto_declined env.callback) trace) :
    NoneBad (suunto_declined env.callback)
      (suunto_common2_device_version env fuel trace data size).trace := by
  unfold suunto_common2_device_version
  simp only []
  split_ifs
  all_goals first
    | exact ht
    | exact suunto_transfer_stop env fuel trace _ _ _ _ _ ht

/-- The loop of `suunto_common2_device_read` keeps the trace free of declined
events. -/
theorem suunto_read_loop_stop (env : SuuntoEnv) (size retryfuel : Nat) :
    ∀ (fuel : Nat) (trace : List SuuntoEvent) (nbytes address : Nat) (data : List Nat),
      NoneBad (suunto_declined env.callback) trace →
      NoneBad (suunto_declined env.callback)
        (suunto_read_loop env size retryfuel fuel trace nbytes address data).trace := by
  intro fuel
  induction fuel with
  | zero =>
    intro trace nbytes address data ht
    unfold suunto_read_loop
    split_ifs <;> exact ht
  | succ fuel ih =>
    intro trace nbytes address data ht
    unfold suunto_read_loop
    simp only []
    split_ifs
    all_goals first
      | exact ht
      | exact suunto_transfer_stop env retryfuel trace _ _ _ _ _ ht
      | exact ih _ _ _ _ (suunto_transfer_stop env retryfuel trace _ _ _ _ _ ht)

/-- `suunto_common2_device_read` keeps the trace free of declined events. -/
theorem suunto_read_stop (env : SuuntoEnv) (fuel : Nat) (trace : List SuuntoEvent)
    (address size : Nat) (ht : NoneBad (suunto_declined env.callback) trace) :
    NoneBad (suunto_declined env.callback)
      (suunto_common2_device_read env fuel trace address size).trace :=
  suunto_read_loop_stop env size fuel fuel trace 0 address [] ht

/-- The packet loop of one dive of the Suunto engine keeps the trace free of
declined events. -/
theorem suunto_dive_read_stop (env : SuuntoEnv) (pm remaining size retryfuel : Nat) :
    ∀ (fuel : Nat) (s : SuuntoReadState), NoneBad (suunto_declined env.callback) s.trace →
      match suunto_dive_read env pm remaining size retryfuel fuel s with
      | SuuntoStep.stop r => NoneBad (suunto_declined env.callback) r.trace
      | SuuntoStep.next s' => NoneBad (suunto_declined env.callback) s'.trace := by
  intro fuel
  induction fuel with
  | zero =>
    intro s hs
    unfold suunto_dive_read
    split_ifs <;> exact hs
  | succ fuel ih =>
    intro s hs
    rw [suunto_dive_read]
    by_cases hc : s.nbytes < size
    · simp only [hc, not_true_eq_false, if_false]
      generalize wrap_point Suunto.RB_PROFILE_BEGIN Suunto.RB_PROFILE_END s.address = address
      generalize suunto_packet_size address s.nbytes remaining = len
      generalize suunto_extra len = extra
      have hr := suunto_read_stop env retryfuel s.trace (usub (usub address len) extra)
        (u32 (len + extra)) hs
      generalize suunto_common2_device_read env retryfuel s.trace (usub (usub address len) extra)
        (u32 (len + extra)) = r at hr
      by_cases c1 : r.outcome ≠ Outcome.returned SUCCESS
      · rw [if_pos c1]; exact hr
      rw [if_neg c1]
      by_cases c2 : usub s.offset len < extra ∨
          ¬ s.data.writable (usub s.offset len - extra) (u32 (len + extra)) = true
      · rw [if_pos c2]; exact hr
      rw [if_neg c2]
      apply ih
      exact noneBad_snoc _ _ _ hr (suunto_declined_progress _ _ _ _)
    · simp only [hc, not_false_eq_true, if_true]
      exact hs

/-- One iteration of the dive loop of the Suunto engine keeps the trace free of
declined events, unless the callback declines the dive, which then is the last
event. -/
theorem suunto_dive_stop (env : SuuntoEnv) (device : suunto_common2_device_t)
    (model pm retryfuel readfuel : Nat) (s : SuuntoState)
    (hs : NoneBad (suunto_declined env.callback) s.trace) :
    match suunto_dive env device model pm retryfuel readfuel s with
    | SuuntoStep.stop r => NoneBad (suunto_declined env.callback) r.trace
    | SuuntoStep.next (s', stop) =>
      (stop = false → NoneBad (suunto_declined env.callback) s'.trace) ∧
      (stop = true → EndsBad (suunto_declined env.callback) s'.trace True) := by
  unfold suunto_dive
  simp only []
  generalize (if model = 0x15 then u32 (FP_OFFSET + 6) else FP_OFFSET) = fpo
  by_cases c1 : ringbuffer_defined s.current Suunto.RB_PROFILE_BEGIN Suunto.RB_PROFILE_END = true ∧
      ringbuffer_defined s.previous Suunto.RB_PROFILE_BEGIN Suunto.RB_PROFILE_END = true
  · rw [if_neg (not_not.mpr c1)]
    by_cases c2 : Suunto.RB_PROFILE_DISTANCE s.current s.previous true < 4 ∨
        Suunto.RB_PROFILE_DISTANCE s.current s.previous true > s.remaining
    · rw [if_pos c2]; exact hs
    rw [if_neg c2]
    have hrd := suunto_dive_read_stop env pm s.remaining
      (Suunto.RB_PROFILE_DISTANCE s.current s.previous true) retryfuel readfuel
      { data := s.data, nbytes := s.available, offset := s.offset, address := s.address,
        progress_current := s.progress_current, trace := s.trace } hs
    generalize suunto_dive_read env pm s.remaining _ retryfuel readfuel _ = pr at hrd
    rcases pr with r | r'
    · simp only at hrd ⊢
      split_ifs
      all_goals first | exact hrd | skip
      all_goals rcases hcb : env.callback with _ | cb
      all_goals simp only []
      all_goals rw [hcb] at hrd
      all_goals first
        | exact ⟨fun _ => hrd, fun h => by cases h⟩
        | skip
      all_goals try split_ifs
      all_goals first
        | exact hrd
        | exact ⟨fun h => noneBad_snoc _ _ _ hrd (suunto_declined_accept _ cb rfl _ _ _ h),
            fun _ => endsBad_snoc _ _ _ True hrd trivial⟩
    · exact hrd
  · rw [if_pos c1]; exact hs

/-- The dive loop of the Suunto engine: when the callback declines a dive, this
is the last event and the function returns `SUCCESS`. -/
theorem suunto_dive_loop_stop (env : SuuntoEnv) (device : suunto_common2_device_t)
    (model pm retryfuel readfuel : Nat) :
    ∀ (fuel : Nat) (s : SuuntoState), NoneBad (suunto_declined env.callback) s.trace →
      EndsBad (suunto_declined env.callback)
        (suunto_dive_loop env device model pm retryfuel readfuel fuel s).trace
        ((suunto_dive_loop env device model pm retryfuel readfuel fuel s).outcome
          = Outcome.returned SUCCESS) := by
  intro fuel
  induction fuel with
  | zero =>
    intro s hs
    unfold suunto_dive_loop
    split_ifs <;> exact endsBad_of_noneBad _ _ _ hs
  | succ n ih =>
    intro s hs
    unfold suunto_dive_loop
    split_ifs with hc
    · have hdv := suunto_dive_stop env device model pm retryfuel readfuel s hs
      simp only
      generalize suunto_dive env device model pm retryfuel readfuel s = pd at hdv
      rcases pd with ⟨s', ab⟩ | r
      · simp only at hdv ⊢
        split_ifs with hab
        · intro pre e post h hb
          exact ⟨(hdv.2 hab pre e post h hb).1, rfl⟩
        · exact ih s' (hdv.1 (by simpa using hab))
      · exact endsBad_of_noneBad _ _ _ hdv
    · exact endsBad_of_noneBad _ _ _ hs

/-- Callback stop in the Suunto engine: when the callback declines a dive, this is the last
event of the run and `suunto_common2_device_foreach` returns `SUCCESS`. -/
theorem suunto_callback_stop (env : SuuntoEnv) (device : suunto_common2_device_t) (fuel : Nat) :
    EndsBad (suunto_declined env.callback) (suunto_common2_device_foreach env device fuel).trace
      ((suunto_common2_device_foreach env device fuel).outcome = Outcome.returned SUCCESS) := by
  have h8 : (if SZ_MINIMUM > 4 then SZ_MINIMUM else 4) = 8 := by decide
  have h0 : NoneBad (suunto_declined env.callback)
      [SuuntoEvent.progress 0 suunto_progress_maximum] := by
    have := noneBad_snoc _ _ (SuuntoEvent.progress 0 suunto_progress_maximum)
      (noneBad_nil (suunto_declined env.callback)) (suunto_declined_progress _ _ _ _)
    simpa using this
  unfold suunto_common2_device_foreach
  simp only [h8]
  have h1 := suunto_version_stop env fuel _ (List.replicate SZ_VERSION 0) SZ_VERSION h0
  generalize suunto_common2_device_version env fuel
    [SuuntoEvent.progress 0 suunto_progress_maximum] (List.replicate SZ_VERSION 0) SZ_VERSION
    = rv at h1 ⊢
  by_cases c1 : rv.outcome ≠ Outcome.returned SUCCESS
  · rw [if_pos c1]; exact endsBad_of_noneBad _ _ _ h1
  rw [if_neg c1]
  have h2 := suunto_read_stop env fuel _ 0x0023 8
    (noneBad_snoc _ _ (SuuntoEvent.progress (u32 (0 + SZ_VERSION)) suunto_progress_maximum) h1
      (suunto_declined_progress _ _ _ _))
  generalize suunto_common2_device_read env fuel _ 0x0023 8 = rs at h2 ⊢
  by_cases c2 : rs.outcome ≠ Outcome.returned SUCCESS
  · rw [if_pos c2]; exact endsBad_of_noneBad _ _ _ h2
  rw [if_neg c2]
  have h3 := suunto_read_stop env fuel _ 0x0190 8
    (noneBad_snoc _ _ (SuuntoEvent.devinfo (rv.answer.getD 0 0)
        (array_uint24_be (rv.answer.drop 1)) (array_uint32_be rs.answer))
      (noneBad_snoc _ _ (SuuntoEvent.progress (u32 (u32 (0 + SZ_VERSION) + 8))
        suunto_progress_maximum) h2 (suunto_declined_progress _ _ _ _))
      (suunto_declined_devinfo _ _ _ _ _))
  generalize suunto_common2_device_read env fuel _ 0x0190 8 = rh at h3 ⊢
  by_cases c3 : rh.outcome ≠ Outcome.returned SUCCESS
  · rw [if_pos c3]; exact endsBad_of_noneBad _ _ _ h3
  rw [if_neg c3]
  split_ifs
  all_goals first
    | exact endsBad_of_noneBad _ _ _ h3
    | (apply suunto_dive_loop_stop
       exact noneBad_snoc _ _ _ h3 (suunto_declined_progress _ _ _ _))

/-- The delivery of an Aladin dive keeps the trace free of declined events,
unless the callback declines the dive, which then is the last event. -/
theorem aladin_deliver_stop (callback : Option (List Event → List Nat → List Nat → Bool))
    (device : Option uwatec_aladin_device_t) (buffer : List Nat) (len : Nat) (s : AladinState)
    (hs : NoneBad (declined callback) s.trace) :
    ((aladin_deliver callback device buffer len s).2 = false →
      NoneBad (declined callback) (aladin_deliver callback device buffer len s).1.trace) ∧
    ((aladin_deliver callback device buffer len s).2 = true →
      EndsBad (declined callback) (aladin_deliver callback device buffer len s).1.trace True) := by
  unfold aladin_deliver
  simp only []
  split_ifs
  · exact ⟨fun _ => hs, fun _ => endsBad_of_noneBad _ _ _ hs⟩
  · rcases callback with _ | cb
    · exact ⟨fun _ => hs, fun _ => endsBad_of_noneBad _ _ _ hs⟩
    · exact ⟨fun h => noneBad_snoc _ _ _ hs (declined_accept _ cb rfl _ _ _ h),
        fun _ => endsBad_snoc _ _ _ True hs trivial⟩

/-- One iteration of the dive loop of the Aladin extraction keeps the trace free
of declined events, unless the callback declines the dive, which then is the
last event. -/
theorem aladin_dive_stop (callback : Option (List Event → List Nat → List Nat → Bool))
    (device : Option uwatec_aladin_device_t) (data : List Nat) (eol eop searchfuel : Nat)
    (s : AladinState) (hs : NoneBad (declined callback) s.trace) :
    match aladin_dive callback device data eol eop searchfuel s with
    | Step.stop r => NoneBad (declined callback) r.trace
    | Step.next (s', stop) =>
      (stop = false → NoneBad (declined callback) s'.trace) ∧
      (stop = true → EndsBad (declined callback) s'.trace True) := by
  unfold aladin_dive
  simp only []
  by_cases hp : s.profiles = true
  · rw [if_neg (not_not.mpr hp)]
    rcases aladin_search data eop searchfuel s.current s.previous with _ | _ | ⟨current, previous, len⟩
    · exact hs
    · exact hs
    · simp only
      rcases aladin_profile data (aladin_buffer data eol s.i) current len with _ | ⟨len', buffer⟩
      · exact hs
      · exact aladin_deliver_stop callback device buffer len' _ hs
  · rw [if_pos hp]
    exact aladin_deliver_stop callback device _ 0 _ hs

/-- The dive loop of the Aladin extraction: when the callback declines a dive,
this is the last event and the function returns `SUCCESS`. -/
theorem aladin_dive_loop_stop (callback : Option (List Event → List Nat → List Nat → Bool))
    (device : Option uwatec_aladin_device_t) (data : List Nat) (ndives eol eop searchfuel : Nat) :
    ∀ (fuel : Nat) (s : AladinState), NoneBad (declined callback) s.trace →
      EndsBad (declined callback)
        (aladin_dive_loop callback device data ndives eol eop searchfuel fuel s).trace
        ((aladin_dive_loop callback device data ndives eol eop searchfuel fuel s).outcome
          = Outcome.returned SUCCESS) := by
  intro fuel
  induction fuel with
  | zero =>
    intro s hs
    unfold aladin_dive_loop
    split_ifs <;> exact endsBad_of_noneBad _ _ _ hs
  | succ n ih =>
    intro s hs
    unfold aladin_dive_loop
    split_ifs with hc
    · have hdv := aladin_dive_stop callback device data eol eop searchfuel s hs
      simp only
      generalize aladin_dive callback device data eol eop searchfuel s = pd at hdv
      rcases pd with ⟨s', ab⟩ | r
      · simp only at hdv ⊢
        split_ifs with hab
        · intro pre e post h hb
          exact ⟨(hdv.2 hab pre e post h hb).1, rfl⟩
        · exact ih s' (hdv.1 (by simpa using hab))
      · exact endsBad_of_noneBad _ _ _ hdv
    · exact endsBad_of_noneBad _ _ _ hs

/-- Callback stop in the Aladin extraction: when the callback declines a dive, this is the last
event of the run and `uwatec_aladin_extract_dives` returns `SUCCESS`. -/
theorem aladin_callback_stop (callback : Option (List Event → List Nat → List Nat → Bool))
    (device : Option uwatec_aladin_device_t) (data : List Nat) (fuel : Nat) :
    EndsBad (declined callback) (uwatec_aladin_extract_dives callback device data fuel).trace
      ((uwatec_aladin_extract_dives callback device data fuel).outcome
        = Outcome.returned SUCCESS) := by
  unfold uwatec_aladin_extract_dives
  simp only []
  split_ifs
  all_goals first
    | exact endsBad_of_noneBad _ _ _ (noneBad_nil _)
    | exact aladin_dive_loop_stop callback device data _ _ _ _ _ _ (noneBad_nil _)

/-- Claim C11. Callback stop: in the Oceanic engine
(`oceanic_common_device_foreach`), the Suunto engine
(`suunto_common2_device_foreach`) and the Aladin engine
(`uwatec_aladin_extract_dives`), when the dive callback returns false on an
invocation, whichever it is, that invocation is the last event of the run:
the callback is not invoked again and no further transport read is issued
(`post = []`), and the engine returns `SUCCESS`. The callback may depend on
everything that happened before its invocation (`pre`). -/
theorem callback_stop :
    (∀ (env : Env) (device : oceanic_common_device_t) (fuel : Nat)
        (cb : List Event → List Nat → List Nat → Bool) (pre post : List Event) (d f : List Nat),
      env.callback = some cb →
      (oceanic_common_device_foreach env device fuel).trace = pre ++ Event.dive d f :: post →
      cb pre d f = false →
      post = [] ∧
      (oceanic_common_device_foreach env device fuel).outcome = Outcome.returned SUCCESS) ∧
    (∀ (env : SuuntoEnv) (device : suunto_common2_device_t) (fuel : Nat)
        (cb : List SuuntoEvent → List Nat → List Nat → Bool) (pre post : List SuuntoEvent)
        (d f : List Nat),
      env.callback = some cb →
      (suunto_common2_device_foreach env device fuel).trace
        = pre ++ SuuntoEvent.dive d f :: post →
      cb pre d f = false →
      post = [] ∧
      (suunto_common2_device_foreach env device fuel).outcome = Outcome.returned SUCCESS) ∧
    (∀ (cb : List Event → List Nat → List Nat → Bool) (device : Option uwatec_aladin_device_t)
        (data : List Nat) (fuel : Nat) (pre post : List Event) (d f : List Nat),
      (uwatec_aladin_extract_dives (some cb) device data fuel).trace
        = pre ++ Event.dive d f :: post →
      cb pre d f = false →
      post = [] ∧
      (uwatec_aladin_extract_dives (some cb) device data fuel).outcome
        = Outcome.returned SUCCESS) := by
  refine ⟨?_, ?_, ?_⟩
  · intro env device fuel cb pre post d f hcb ht hd
    exact oceanic_callback_stop env device fuel pre (Event.dive d f) post ht
      ⟨cb, d, f, hcb, rfl, hd⟩
  · intro env device fuel cb pre post d f hcb ht hd
    exact suunto_callback_stop env device fuel pre (SuuntoEvent.dive d f) post ht
      ⟨cb, d, f, hcb, rfl, hd⟩
  · intro cb device data fuel pre post d f ht hd
    exact aladin_callback_stop (some cb) device data fuel pre (Event.dive d f) post ht
      ⟨cb, d, f, rfl, rfl, hd⟩

/-- Witness of C11: on the sample images a callback that declines the second dive
ends each engine with `SUCCESS` after two invocations, although more dives are
stored. -/
theorem callback_stop_witness :
    ((oceanic_common_device_foreach (image_env sample_image accept_first)
        (sample_device [0, 0, 0, 0, 0, 0, 0, 0] 4) 20).outcome = Outcome.returned SUCCESS ∧
     (dives (oceanic_common_device_foreach (image_env sample_image accept_first)
        (sample_device [0, 0, 0, 0, 0, 0, 0, 0] 4) 20).trace).length = 2) ∧
    ((suunto_common2_device_foreach (suunto_image_env suunto_sample suunto_accept_first)
        suunto_device 20).outcome = Outcome.returned SUCCESS ∧
     (suunto_dives (suunto_common2_device_foreach
        (suunto_image_env suunto_sample suunto_accept_first) suunto_device 20).trace).length
        = 2) ∧
    ((uwatec_aladin_extract_dives accept_first none aladin_sample 40).outcome
        = Outcome.returned SUCCESS ∧
     (dives (uwatec_aladin_extract_dives accept_first none aladin_sample 40).trace).length
        = 2) :=
  ⟨⟨(callback_stop.1 (image_env sample_image accept_first)
        (sample_device [0, 0, 0, 0, 0, 0, 0, 0] 4) 20 (fun pre _ _ => (dives pre).isEmpty)
        (oceanic_common_device_foreach (image_env sample_image accept_first)
          (sample_device [0, 0, 0, 0, 0, 0, 0, 0] 4) 20).trace.dropLast []
        (last_dive (oceanic_common_device_foreach (image_env sample_image accept_first)
          (sample_device [0, 0, 0, 0, 0, 0, 0, 0] 4) 20).trace).1
        (last_dive (oceanic_common_device_foreach (image_env sample_image accept_first)
          (sample_device [0, 0, 0, 0, 0, 0, 0, 0] 4) 20).trace).2
        rfl (by decide!) (by decide!)).2, by decide!⟩,
   ⟨(callback_stop.2.1 (suunto_image_env suunto_sample suunto_accept_first) suunto_device 20
        (fun pre _ _ => (suunto_dives pre).isEmpty)
        (suunto_common2_device_foreach (suunto_image_env suunto_sample suunto_accept_first)
          suunto_device 20).trace.dropLast []
        (suunto_last_dive (suunto_common2_device_foreach
          (suunto_image_env suunto_sample suunto_accept_first) suunto_device 20).trace).1
        (suunto_last_dive (suunto_common2_device_foreach
          (suunto_image_env suunto_sample suunto_accept_first) suunto_device 20).trace).2
        rfl (by decide!) (by decide!)).2, by decide!⟩,
   ⟨(callback_stop.2.2 (fun pre _ _ => (dives pre).isEmpty) none aladin_sample 40
        (uwatec_aladin_extract_dives accept_first none aladin_sample 40).trace.dropLast []
        (last_dive (uwatec_aladin_extract_dives accept_first none aladin_sample 40).trace).1
        (last_dive (uwatec_aladin_extract_dives accept_first none aladin_sample 40).trace).2
        (by decide!) (by decide!)).2, by decide!⟩⟩

/-! ## Progress events: properties -/

/-- The progress events of a trace that is put together. -/
theorem progress_events_append (t u : List Event) :
    progress_events (t ++ u) = progress_events t ++ progress_events u := by
  induction t with
  | nil => rfl
  | cons e t ih => cases e <;> simp [progress_events, ih]

/-- A read request is no progress event. -/
theorem progress_events_read (t : List Event) (a n : Nat) :
    progress_events (t ++ [Event.read a n]) = progress_events t := by
  simp [progress_events_append, progress_events]

/-- A callback invocation is no progress event. -/
theorem progress_events_dive (t : List Event) (d f : List Nat) :
    progress_events (t ++ [Event.dive d f]) = progress_events t := by
  simp [progress_events_append, progress_events]

/-- A device-info event is no progress event. -/
theorem progress_events_devinfo (t : List Event) (a b c : Nat) :
    progress_events (t ++ [Event.devinfo a b c]) = progress_events t := by
  simp [progress_events_append, progress_events]

/-- One more progress event. -/
theorem progress_events_progress (t : List Event) (c m : Nat) :
    progress_events (t ++ [Event.progress c m]) = progress_events t ++ [(c, m)] := by
  simp [progress_events_append, progress_events]

/-- A segment goes on with one more progress event that does not fall back. -/
theorem segment_snoc (c c' c'' pm : Nat) (ext : List (Nat × Nat))
    (h : Segment c c' pm ext) (hc : c' ≤ c'') : Segment c c'' pm (ext ++ [(c'', pm)]) := by
  obtain ⟨h1, h2, h3⟩ := h
  refine ⟨by omega, ?_, ?_⟩
  · intro p hp
    rcases List.mem_append.mp hp with hp | hp
    · obtain ⟨a, b, d⟩ := h2 p hp
      exact ⟨a, b, by omega⟩
    · simp only [List.mem_singleton] at hp
      subst hp
      exact ⟨rfl, by simp only; omega, Nat.le_refl _⟩
  · rw [List.pairwise_append]
    refine ⟨h3, List.pairwise_singleton _ _, ?_⟩
    intro p hp q hq
    simp only [List.mem_singleton] at hq
    subst hq
    have := (h2 p hp).2.2
    simp only
    omega

/-- The invariant stays when a read request is added. -/
theorem segInv_read (base : List (Nat × Nat)) (c0 pm c : Nat) (t : List Event) (a n : Nat)
    (h : SegInv base c0 pm c t) : SegInv base c0 pm c (t ++ [Event.read a n]) := by
  obtain ⟨ext, h1, h2⟩ := h
  exact ⟨ext, by rw [progress_events_read, h1], h2⟩

/-- The invariant stays when a callback invocation is added. -/
theorem segInv_dive (base : List (Nat × Nat)) (c0 pm c : Nat) (t : List Event) (d f : List Nat)
    (h : SegInv base c0 pm c t) : SegInv base c0 pm c (t ++ [Event.dive d f]) := by
  obtain ⟨ext, h1, h2⟩ := h
  exact ⟨ext, by rw [progress_events_dive, h1], h2⟩

/-- The invariant goes on with a progress event that does not fall back. -/
theorem segInv_progress (base : List (Nat × Nat)) (c0 pm c c' : Nat) (t : List Event)
    (h : SegInv base c0 pm c t) (hc : c ≤ c') :
    SegInv base c0 pm c' (t ++ [Event.progress c' pm]) := by
  obtain ⟨ext, h1, h2⟩ := h
  exact ⟨ext ++ [(c', pm)], by rw [progress_events_progress, h1, List.append_assoc],
    segment_snoc _ _ _ _ _ h2 hc⟩

/-- The value of `progress.maximum` at line 169 when nothing wraps around. -/
theorem progress_maximum_initial_eq (l : oceanic_common_layout_t) (mp : Nat)
    (hok : LayoutOk l mp) :
    progress_maximum_initial l = 32 + (l.rb_profile_end - l.rb_profile_begin)
      + (l.rb_logbook_end - l.rb_logbook_begin) := by
  obtain ⟨_, _, _, _, _, _, k3, k4, _, k5, k6, _⟩ := hok
  unfold progress_maximum_initial
  rw [usub_eq _ _ (by omega) (by omega), usub_eq _ _ (by omega) (by omega)]
  simp only [PAGESIZE]
  have e1 : u32 (2 * 16 + (l.rb_profile_end - l.rb_profile_begin))
      = 32 + (l.rb_profile_end - l.rb_profile_begin) := u32_eq _ (by omega)
  rw [e1, u32_eq _ (by omega)]

/-- The value of `progress.maximum` at line 267 when nothing wraps around. -/
theorem progress_maximum_logbook_eq (l : oceanic_common_layout_t) (mp : Nat) (w : Window)
    (hok : LayoutOk l mp) (hw : w.page_size ≤ 1073741824 + 64) :
    progress_maximum_logbook l w = 32 + (l.rb_profile_end - l.rb_profile_begin) + w.page_size := by
  obtain ⟨_, _, _, _, _, _, k3, k4, _, k5, k6, _⟩ := hok
  unfold progress_maximum_logbook
  rw [usub_eq _ _ (by omega) (by omega)]
  simp only [PAGESIZE]
  have e1 : u32 (2 * 16 + (l.rb_profile_end - l.rb_profile_begin))
      = 32 + (l.rb_profile_end - l.rb_profile_begin) := u32_eq _ (by omega)
  rw [e1, u32_eq _ (by omega)]

/-- The progress events of the header part of `oceanic_common_device_foreach`. -/
theorem foreach_header_progress (env : Env) (l : oceanic_common_layout_t) :
    match foreach_header env l with
    | Step.stop r =>
      progress_events r.trace = [(0, progress_maximum_initial l)] ∨
      progress_events r.trace = [(0, progress_maximum_initial l), (16, progress_maximum_initial l)]
    | Step.next h =>
      progress_events h.trace
        = [(0, progress_maximum_initial l), (16, progress_maximum_initial l)] ∧
      h.progress_current = 16 := by
  unfold foreach_header
  simp only []
  split_ifs
  all_goals first
    | exact Or.inl rfl
    | exact Or.inr rfl
    | exact ⟨rfl, rfl⟩

/-- One iteration of the logbook loop adds progress events to the segment and
keeps the progress counter below the number of bytes read. -/
theorem logbook_page_progress (env : Env) (l : oceanic_common_layout_t) (mp : Nat)
    (fp : List Nat) (w : Window) (pm sf : Nat) (s : LogState)
    (base : List (Nat × Nat)) (c0 : Nat)
    (hok : LayoutOk l mp) (hw : w.page_size % PAGESIZE = 0) (hw32 : w.page_size ≤ 1073741824 + 64)
    (hinv : LogAddrInv l w s) (hlt : s.nbytes < w.page_size)
    (hseg : SegInv base c0 pm s.progress_current s.trace)
    (hacc : s.progress_current ≤ 32 + s.nbytes) :
    match logbook_page env l mp fp w pm sf s with
    | Step.stop r => ∃ c', SegInv base c0 pm c' r.trace ∧ c' ≤ 32 + w.page_size
    | Step.next (s', _) => LogAddrInv l w s' ∧
        SegInv base c0 pm s'.progress_current s'.trace ∧ s'.progress_current ≤ 32 + s'.nbytes := by
  have hP : PAGESIZE = 16 := rfl
  obtain ⟨a1, a2, a3, a4, a5⟩ := hinv
  obtain ⟨_, _, k1, k2, _, _, k3, _, k4, k5, _, k6⟩ := hok
  have hwp : l.rb_logbook_begin < wrap_point l.rb_logbook_begin l.rb_logbook_end s.address ∧
      wrap_point l.rb_logbook_begin l.rb_logbook_end s.address ≤ l.rb_logbook_end ∧
      wrap_point l.rb_logbook_begin l.rb_logbook_end s.address % 16 = 0 := by
    unfold wrap_point; rw [hP] at *; split_ifs <;> omega
  obtain ⟨p1, p2, p3, p4, p5⟩ := packet_size_spec l.rb_logbook_begin mp
    (wrap_point l.rb_logbook_begin l.rb_logbook_end s.address) s.nbytes w.page_size
    k4 k6 hwp.1 (by omega) hlt hw32
  have p5' := p5 k1 (by rw [hP]; exact hwp.2.2) a4 hw
  unfold logbook_page
  simp only []
  generalize packet_size l.rb_logbook_begin mp
    (wrap_point l.rb_logbook_begin l.rb_logbook_end s.address) s.nbytes w.page_size = len at *
  generalize wrap_point l.rb_logbook_begin l.rb_logbook_end s.address = addr at *
  have hsub : usub addr len = addr - len := usub_eq _ _ (by omega) (by omega)
  have hnb : u32 (s.nbytes + len) = s.nbytes + len := u32_eq _ (by omega)
  have hpc : u32 (s.progress_current + len) = s.progress_current + len := u32_eq _ (by omega)
  have hrd := segInv_read base c0 pm _ _ (usub addr len) len hseg
  have hrp := segInv_progress base c0 pm _ (u32 (s.progress_current + len)) _ hrd
    (by rw [hpc]; omega)
  split_ifs with c1 c2
  · exact ⟨_, hrd, by omega⟩
  · generalize logbook_fixup w _ s.nbytes len (usub s.offset len) = fx
    rcases fx with _ | ⟨lb', off'⟩
    · exact ⟨_, hrp, by rw [hpc]; omega⟩
    · simp only
      generalize scan_entries lb' fp off' sf s.current s.begin_ = sc
      rcases sc with _ | _ | ⟨cur, bg, ab⟩
      · exact ⟨_, hrp, by rw [hpc]; omega⟩
      · exact ⟨_, hrp, by rw [hpc]; omega⟩
      · simp only
        refine ⟨⟨?_, ?_, ?_, ?_, ?_⟩, hrp, ?_⟩
        · simp only [hsub]; rw [hP] at *; omega
        · simp only [hsub]; omega
        · simp only [hsub]; omega
        · simp only [hnb]; rw [hP] at *; omega
        · simp only [hnb]; omega
        · simp only [hnb, hpc]; omega
  · exact ⟨_, hrd, by omega⟩

/-- The logbook loop adds progress events to the segment and keeps the progress
counter below the number of bytes read. -/
theorem logbook_loop_progress (env : Env) (l : oceanic_common_layout_t) (mp : Nat)
    (fp : List Nat) (w : Window) (pm sf : Nat) (base : List (Nat × Nat)) (c0 : Nat)
    (hok : LayoutOk l mp) (hw : w.page_size % PAGESIZE = 0) (hw32 : w.page_size ≤ 1073741824 + 64) :
    ∀ (fuel : Nat) (s : LogState), LogAddrInv l w s →
      SegInv base c0 pm s.progress_current s.trace → s.progress_current ≤ 32 + s.nbytes →
    match logbook_loop env l mp fp w pm sf fuel s with
    | Step.stop r => ∃ c', SegInv base c0 pm c' r.trace ∧ c' ≤ 32 + w.page_size
    | Step.next s' => SegInv base c0 pm s'.progress_current s'.trace ∧
        s'.progress_current ≤ 32 + w.page_size := by
  intro fuel
  induction fuel with
  | zero =>
    intro s hinv hseg hacc
    have := hinv.nb_le
    unfold logbook_loop
    split_ifs
    · exact ⟨_, hseg, by omega⟩
    · exact ⟨hseg, by omega⟩
  | succ n ih =>
    intro s hinv hseg hacc
    have := hinv.nb_le
    unfold logbook_loop
    split_ifs with hc
    · have hpage := logbook_page_progress env l mp fp w pm sf s base c0 hok hw hw32 hinv hc
        hseg hacc
      simp only
      generalize logbook_page env l mp fp w pm sf s = pg at hpage
      rcases pg with ⟨s', ab⟩ | r
      · simp only at hpage ⊢
        have := hpage.1.nb_le
        split_ifs
        · exact ⟨hpage.2.1, by have := hpage.2.2; omega⟩
        · exact ih s' hpage.1 hpage.2.1 hpage.2.2
      · exact hpage
    · exact ⟨hseg, by omega⟩

/-- The logbook part adds a segment that starts at 32 and carries the maximum of
line 267. -/
theorem foreach_logbooks_progress (env : Env) (device : oceanic_common_device_t)
    (l : oceanic_common_layout_t) (fuel : Nat) (h : Header) (base : List (Nat × Nat))
    (hok : LayoutOk l device.multipage)
    (hev : progress_events h.trace = base) (hpc : h.progress_current = 16) :
    match foreach_logbooks env device l fuel h with
    | Step.stop r => ∃ c', SegInv base 32
        (progress_maximum_logbook l (logbook_window l h.rb_logbook_first h.rb_logbook_last))
        c' r.trace ∧
        c' ≤ 32 + (logbook_window l h.rb_logbook_first h.rb_logbook_last).page_size
    | Step.next s => SegInv base 32
        (progress_maximum_logbook l (logbook_window l h.rb_logbook_first h.rb_logbook_last))
        s.progress_current s.trace ∧
        s.progress_current
          ≤ 32 + (logbook_window l h.rb_logbook_first h.rb_logbook_last).page_size := by
  obtain ⟨w1, w2, w3, w4, w5⟩ := window_aligned l h.rb_logbook_first h.rb_logbook_last
    hok.lb hok.le hok.logbook hok.le32
  have h32 : u32 (h.progress_current + PAGESIZE) = 32 := by rw [hpc]; rfl
  have hseg : SegInv base 32
      (progress_maximum_logbook l (logbook_window l h.rb_logbook_first h.rb_logbook_last)) 32
      (h.trace ++ [Event.progress 32
        (progress_maximum_logbook l (logbook_window l h.rb_logbook_first h.rb_logbook_last))]) :=
    ⟨[(32, _)], by rw [progress_events_progress, hev],
      Nat.le_refl _, by intro p hp; simp only [List.mem_singleton] at hp; subst hp;
                        exact ⟨rfl, Nat.le_refl _, Nat.le_refl _⟩,
      List.pairwise_singleton _ _⟩
  unfold foreach_logbooks
  simp only [h32]
  split_ifs
  · exact logbook_loop_progress env l device.multipage device.fingerprint _ _ _ base 32 hok w1 w5
      fuel _ ⟨w2, w3, w4, Nat.zero_mod _, Nat.zero_le _⟩ hseg (Nat.le_refl _)
  · exact ⟨32, hseg, by omega⟩

/-- The packet loop of one dive adds progress events to the segment; the bytes
that are still to be read fit between the progress counter and the maximum. -/
theorem profile_read_progress (env : Env) (l : oceanic_common_layout_t) (mp : Nat)
    (pm remaining size : Nat) (base : List (Nat × Nat)) (c0 : Nat)
    (hok : LayoutOk l mp) (hrem : remaining % PAGESIZE = 0) (hrem32 : remaining ≤ 1073741824 + 64)
    (hsize : size ≤ remaining) (hpm : pm < 4294967296) :
    ∀ (fuel : Nat) (s : ReadState), ReadAddrInv l remaining s →
      SegInv base c0 pm s.progress_current s.trace →
      s.progress_current + remaining ≤ pm + s.nbytes →
    match profile_read env l mp pm remaining size fuel s with
    | Step.stop r => ∃ c', SegInv base c0 pm c' r.trace ∧ c' ≤ pm
    | Step.next s' => ReadAddrInv l remaining s' ∧
        SegInv base c0 pm s'.progress_current s'.trace ∧
        s'.progress_current + remaining ≤ pm + s'.nbytes ∧ size ≤ s'.nbytes := by
  have hP : PAGESIZE = 16 := rfl
  obtain ⟨_, _, _, _, k1, k2, _, k3, k4, _, k5, k6⟩ := hok
  intro fuel
  induction fuel with
  | zero =>
    intro s hinv hseg hacc
    have := hinv.nb_le
    unfold profile_read
    split_ifs with hc
    · exact ⟨_, hseg, by omega⟩
    · exact ⟨hinv, hseg, hacc, by omega⟩
  | succ n ih =>
    intro s hinv hseg hacc
    obtain ⟨a1, a2, a3, a4, a5⟩ := hinv
    unfold profile_read
    split_ifs with hc
    · have hwp : l.rb_profile_begin < wrap_point l.rb_profile_begin l.rb_profile_end s.address ∧
          wrap_point l.rb_profile_begin l.rb_profile_end s.address ≤ l.rb_profile_end ∧
          wrap_point l.rb_profile_begin l.rb_profile_end s.address % 16 = 0 := by
        unfold wrap_point; rw [hP] at *; split_ifs <;> omega
      obtain ⟨p1, p2, p3, p4, p5⟩ := packet_size_spec l.rb_profile_begin mp
        (wrap_point l.rb_profile_begin l.rb_profile_end s.address) s.nbytes remaining
        k4 k6 hwp.1 (by omega) (by omega) hrem32
      have p5' := p5 k1 (by rw [hP]; exact hwp.2.2) a4 hrem
      simp only []
      generalize packet_size l.rb_profile_begin mp
        (wrap_point l.rb_profile_begin l.rb_profile_end s.address) s.nbytes remaining = len at *
      generalize wrap_point l.rb_profile_begin l.rb_profile_end s.address = addr at *
      have hsub : usub addr len = addr - len := usub_eq _ _ (by omega) (by omega)
      have hnb : u32 (s.nbytes + len) = s.nbytes + len := u32_eq _ (by omega)
      have hpc : u32 (s.progress_current + len) = s.progress_current + len :=
        u32_eq _ (by omega)
      have hrd := segInv_read base c0 pm _ _ (usub addr len) len hseg
      have hrp := segInv_progress base c0 pm _ (u32 (s.progress_current + len)) _ hrd
        (by rw [hpc]; omega)
      split_ifs with c1 c2
      · exact ⟨_, hrd, by omega⟩
      · apply ih
        · refine ⟨?_, ?_, ?_, ?_, ?_⟩
          · simp only [hsub]; rw [hP] at *; omega
          · simp only [hsub]; omega
          · simp only [hsub]; omega
          · simp only [hnb]; rw [hP] at *; omega
          · simp only [hnb]; omega
        · exact hrp
        · simp only [hnb, hpc]; omega
      · exact ⟨_, hrd, by omega⟩
    · exact ⟨⟨a1, a2, a3, a4, a5⟩, hseg, hacc, by omega⟩

/-- The delivery of a dive adds no progress event and keeps the account of the
bytes that are still to be read. -/
theorem profile_deliver_progress (env : Env) (l : oceanic_common_layout_t)
    (logbooks : Buffer) (current first size pm : Nat) (s : ProfState) (r : ReadState)
    (base : List (Nat × Nat)) (c0 : Nat)
    (hs : ProfAddrInv l s) (hr : ReadAddrInv l s.remaining r)
    (hsz : size ≤ r.nbytes) (hsz16 : size % PAGESIZE = 0)
    (hseg : SegInv base c0 pm r.progress_current r.trace)
    (hacc : r.progress_current + s.remaining ≤ pm + r.nbytes) :
    match profile_deliver env logbooks current first size s r with
    | Step.stop r' => ∃ c', SegInv base c0 pm c' r'.trace ∧ c' ≤ pm
    | Step.next (s', _) => ProfAddrInv l s' ∧
        SegInv base c0 pm s'.progress_current s'.trace ∧
        s'.progress_current + s'.remaining ≤ pm + s'.available := by
  have hP : PAGESIZE = 16 := rfl
  obtain ⟨a1, a2, a3, a4, a5⟩ := hr
  obtain ⟨_, _, _, b4, b5, _, _⟩ := hs
  have h1 : usub r.nbytes size = r.nbytes - size := usub_eq _ _ hsz (by omega)
  have h2 : usub s.remaining size = s.remaining - size := usub_eq _ _ (by omega) (by omega)
  have hinv : ∀ (p : Buffer) (o : Nat) (t : List Event), ProfAddrInv l
      { profiles := p, remaining := usub s.remaining size, available := usub r.nbytes size,
        previous := first, current := current, offset := o, address := r.address,
        progress_current := r.progress_current, trace := t } := by
    intro p o t
    rw [hP] at hsz16 a4 b4
    refine ⟨a1, a2, a3, ?_, ?_, ?_, ?_⟩
    · simp only [h2, hP]; omega
    · simp only [h2]; omega
    · simp only [h1, hP]; omega
    · simp only [h1, h2]; omega
  have hacc' : r.progress_current + usub s.remaining size ≤ pm + usub r.nbytes size := by
    rw [h1, h2]; omega
  have hstop : ∃ c', SegInv base c0 pm c' r.trace ∧ c' ≤ pm := ⟨_, hseg, by omega⟩
  unfold profile_deliver
  simp only []
  split_ifs
  all_goals first | exact hstop | skip
  all_goals rcases env.callback with _ | cb
  all_goals simp only []
  all_goals first
    | exact hstop
    | exact ⟨hinv _ _ _, hseg, hacc'⟩
    | exact ⟨hinv _ _ _, segInv_dive _ _ _ _ _ _ _ hseg, hacc'⟩

/-- One iteration of the profile loop adds progress events to the segment and
keeps the account of the bytes that are still to be read. -/
theorem profile_dive_progress (env : Env) (l : oceanic_common_layout_t) (mp : Nat)
    (logbooks : Buffer) (pm rf : Nat) (s : ProfState) (base : List (Nat × Nat)) (c0 : Nat)
    (hok : LayoutOk l mp) (hs : ProfAddrInv l s) (hpm : pm < 4294967296)
    (hseg : SegInv base c0 pm s.progress_current s.trace)
    (hacc : s.progress_current + s.remaining ≤ pm + s.available) :
    match profile_dive env l mp logbooks pm rf s with
    | Step.stop r' => ∃ c', SegInv base c0 pm c' r'.trace ∧ c' ≤ pm
    | Step.next (s', _) => ProfAddrInv l s' ∧
        SegInv base c0 pm s'.progress_current s'.trace ∧
        s'.progress_current + s'.remaining ≤ pm + s'.available := by
  have hstop : ∃ c', SegInv base c0 pm c' s.trace ∧ c' ≤ pm :=
    ⟨_, hseg, by have := hs.av_le; omega⟩
  unfold profile_dive
  simp only []
  split_ifs with c1 c2 c3 c4
  all_goals try exact hstop
  obtain ⟨q1, q2, _, _, _⟩ := profile_pointers_aligned l _ _ hok.pb hok.pe hok.pe32
    (get_profile_first_aligned (logbooks.load (usub s.current (PAGESIZE / 2)) (PAGESIZE / 2)) l)
    (get_profile_last_aligned (logbooks.load (usub s.current (PAGESIZE / 2)) (PAGESIZE / 2)) l)
    c2.1 c2.2
  have hrd := profile_read_progress env l mp pm s.remaining _ base c0 hok hs.rem_al hs.rem_32
    (Nat.le_of_not_gt c4) hpm rf
    { profiles := s.profiles, nbytes := s.available, offset := s.offset,
      address := s.address, progress_current := s.progress_current, trace := s.trace }
    ⟨hs.addr_al, hs.addr_lo, hs.addr_hi, hs.av_al, hs.av_le⟩ hseg hacc
  generalize profile_read env l mp pm s.remaining _ rf _ = pr at hrd
  rcases pr with r | r'
  · simp only at hrd ⊢
    exact profile_deliver_progress env l logbooks _ _ _ pm s r base c0 hs hrd.1 hrd.2.2.2 q1
      hrd.2.1 hrd.2.2.1
  · exact hrd

/-- The profile loop adds progress events to the segment, none of them above the
maximum. -/
theorem profile_loop_progress (env : Env) (l : oceanic_common_layout_t) (mp : Nat)
    (logbooks : Buffer) (bg pm rf : Nat) (base : List (Nat × Nat)) (c0 : Nat)
    (hok : LayoutOk l mp) (hpm : pm < 4294967296) :
    ∀ (fuel : Nat) (s : ProfState), ProfAddrInv l s →
      SegInv base c0 pm s.progress_current s.trace →
      s.progress_current + s.remaining ≤ pm + s.available →
    ∃ c', SegInv base c0 pm c'
      ((profile_loop env l mp logbooks bg pm rf fuel s).trace_of ProfState.trace) ∧ c' ≤ pm := by
  intro fuel
  induction fuel with
  | zero =>
    intro s hinv hseg hacc
    have := hinv.av_le
    unfold profile_loop
    split_ifs <;> exact ⟨_, hseg, by omega⟩
  | succ n ih =>
    intro s hinv hseg hacc
    have := hinv.av_le
    unfold profile_loop
    split_ifs with hc
    · have hd := profile_dive_progress env l mp logbooks pm rf s base c0 hok hinv hpm hseg hacc
      simp only
      generalize profile_dive env l mp logbooks pm rf s = pd at hd
      rcases pd with ⟨s', ab⟩ | r
      · simp only at hd ⊢
        split_ifs
        · exact ⟨_, hd.2.1, by have := hd.1.av_le; have := hd.2.2; omega⟩
        · exact ih s' hd.1 hd.2.1 hd.2.2
      · exact hd
    · exact ⟨_, hseg, by omega⟩

/-- The start of the profile part: the maximum of line 394 is the progress counter
plus the profile bytes that are to be read, at most the length of the profile
ring. -/
theorem profile_start_progress (env : Env) (l : oceanic_common_layout_t) (mp end_ : Nat)
    (s : LogState) (hok : LayoutOk l mp) (hpc : s.progress_current ≤ 1073741824 + 128) :
    match profile_start env l end_ s with
    | Step.stop r => r.trace = s.trace
    | Step.next p => p.state.trace = s.trace ∧ ProfAddrInv l p.state ∧
        p.state.progress_current = s.progress_current ∧
        p.progress_maximum = s.progress_current + p.state.remaining ∧
        p.state.available = 0 ∧
        p.state.remaining ≤ l.rb_profile_end - l.rb_profile_begin := by
  unfold profile_start
  simp only []
  split_ifs with c1 c2 c3 c4
  all_goals try rfl
  obtain ⟨q1, q2, q3, q4, q5⟩ := profile_pointers_aligned l _ _ hok.pb hok.pe hok.pe32
    (get_profile_first_aligned (s.logbooks.load s.begin_ (PAGESIZE / 2)) l)
    (get_profile_last_aligned (s.logbooks.load (end_ - PAGESIZE / 2) (PAGESIZE / 2)) l)
    c3.1 c3.2
  have hpe := hok.pe32
  exact ⟨rfl, ⟨q3, q4, Nat.le_of_lt q5, q1, by simp only; omega,
    Nat.zero_mod _, Nat.zero_le _⟩, rfl, u32_eq _ (by omega), rfl, q2⟩

/-- The empty segment. -/
theorem segment_nil (c pm : Nat) : Segment c c pm [] := by
  unfold Segment
  refine ⟨Nat.le_refl _, ?_, List.Pairwise.nil⟩
  intro p hp
  cases hp

/-- The progress events of a run of `oceanic_common_device_foreach`: the events of
the header part with the maximum of line 169, a segment with the maximum of
line 267 that starts at 32, and a segment with the maximum of line 394, which
is not above the maximum of line 267. -/
theorem foreach_progress_shape (env : Env) (device : oceanic_common_device_t)
    (layout : oceanic_common_layout_t) (fuel : Nat)
    (hlayout : device.layout = some layout) (hok : LayoutOk layout device.multipage) :
    match foreach_header env layout with
    | Step.stop _ =>
      progress_events (oceanic_common_device_foreach env device fuel).trace
        = [(0, progress_maximum_initial layout)] ∨
      progress_events (oceanic_common_device_foreach env device fuel).trace
        = [(0, progress_maximum_initial layout), (16, progress_maximum_initial layout)]
    | Step.next h => ∃ ext2 ext3 c2 c3 m2,
      progress_events (oceanic_common_device_foreach env device fuel).trace
        = [(0, progress_maximum_initial layout), (16, progress_maximum_initial layout)]
          ++ ext2 ++ ext3 ∧
      Segment 32 c2 (progress_maximum_logbook layout
        (logbook_window layout h.rb_logbook_first h.rb_logbook_last)) ext2 ∧
      Segment c2 c3 m2 ext3 ∧
      c2 ≤ progress_maximum_logbook layout
        (logbook_window layout h.rb_logbook_first h.rb_logbook_last) ∧
      c3 ≤ m2 ∧
      m2 ≤ progress_maximum_logbook layout
        (logbook_window layout h.rb_logbook_first h.rb_logbook_last) := by
  have hh := foreach_header_progress env layout
  unfold oceanic_common_device_foreach
  simp only [hlayout]
  rcases hhd : foreach_header env layout with h | r
  · rw [hhd] at hh
    simp only at hh ⊢
    obtain ⟨w1, w2, w3, w4, w5⟩ := window_aligned layout h.rb_logbook_first h.rb_logbook_last
      hok.lb hok.le hok.logbook hok.le32
    have hm1 := progress_maximum_logbook_eq layout device.multipage
      (logbook_window layout h.rb_logbook_first h.rb_logbook_last) hok w5
    have hpe := hok.pe32
    have hpp := hok.profile
    have hl := foreach_logbooks_progress env device layout fuel h _ hok hh.1 hh.2
    generalize progress_maximum_logbook layout
      (logbook_window layout h.rb_logbook_first h.rb_logbook_last) = M1 at *
    rcases hlb : foreach_logbooks env device layout fuel h with sl | r
    · rw [hlb] at hl
      simp only at hl ⊢
      obtain ⟨⟨ext2, e2, s2⟩, hc2⟩ := hl
      have hst := profile_start_progress env layout device.multipage
        (window_end (logbook_window layout h.rb_logbook_first h.rb_logbook_last)) sl hok
        (by omega)
      unfold foreach_profiles
      rcases hps : profile_start env layout
        (window_end (logbook_window layout h.rb_logbook_first h.rb_logbook_last)) sl with p | r
      · rw [hps] at hst
        simp only at hst ⊢
        obtain ⟨t1, t2, t3, t4, t5, t6⟩ := hst
        have hlp := profile_loop_progress env layout device.multipage sl.logbooks sl.begin_
          p.progress_maximum fuel
          ([(0, progress_maximum_initial layout), (16, progress_maximum_initial layout)] ++ ext2)
          sl.progress_current hok (by omega) fuel p.state t2
          ⟨[], by rw [t1, e2, List.append_nil], by rw [t3]; exact segment_nil _ _⟩
          (by rw [t3, t4, t5]; omega)
        obtain ⟨c3, ⟨ext3, e3, s3⟩, hc3⟩ := hlp
        refine ⟨ext2, ext3, sl.progress_current, c3, p.progress_maximum, ?_, s2, s3,
          by omega, hc3, by omega⟩
        rcases hpl : profile_loop env layout device.multipage sl.logbooks sl.begin_
          p.progress_maximum fuel fuel p.state with s' | r
        · rw [hpl] at e3
          exact e3
        · rw [hpl] at e3
          exact e3
      · rw [hps] at hst
        simp only at hst ⊢
        refine ⟨ext2, [], sl.progress_current, sl.progress_current, sl.progress_current, ?_,
          s2, segment_nil _ _, by omega, Nat.le_refl _, by omega⟩
        rw [hst, e2, List.append_nil]
    · rw [hlb] at hl
      simp only at hl ⊢
      obtain ⟨c2, ⟨ext2, e2, s2⟩, hc2⟩ := hl
      exact ⟨ext2, [], c2, c2, c2, by rw [e2, List.append_nil], s2, segment_nil _ _,
        by omega, Nat.le_refl _, by omega⟩
  · rw [hhd] at hh
    exact hh

/-- Claim C16. Progress bounds (Oceanic foreach): within one call of
`oceanic_common_device_foreach` on a well-formed layout, the values of
`progress.current` of the emitted progress events do not decrease, and every
emitted event has `progress.current <= progress.maximum`; for every transport,
callback and fuel and however the run ends. -/
theorem progress_bounds (env : Env) (device : oceanic_common_device_t)
    (layout : oceanic_common_layout_t) (fuel : Nat)
    (hlayout : device.layout = some layout) (hok : LayoutOk layout device.multipage) :
    (progress_events (oceanic_common_device_foreach env device fuel).trace).Pairwise
      (fun p q => p.1 ≤ q.1) ∧
    ∀ p ∈ progress_events (oceanic_common_device_foreach env device fuel).trace, p.1 ≤ p.2 := by
  have hsh := foreach_progress_shape env device layout fuel hlayout hok
  have hm0 := progress_maximum_initial_eq layout device.multipage hok
  generalize progress_maximum_initial layout = M0 at *
  rcases hhd : foreach_header env layout with h | r
  · rw [hhd] at hsh
    simp only at hsh
    obtain ⟨ext2, ext3, c2, c3, m2, e, ⟨a1, a2, a3⟩, ⟨b1, b2, b3⟩, h1, h2, h3⟩ := hsh
    rw [e]
    constructor
    · rw [List.pairwise_append, List.pairwise_append]
      refine ⟨⟨by simp, a3, ?_⟩, b3, ?_⟩
      · intro p hp q hq
        have := (a2 q hq).2.1
        simp only [List.mem_cons, List.mem_singleton, List.not_mem_nil, or_false] at hp
        rcases hp with hp | hp <;> subst hp <;> simp only <;> omega
      · intro p hp q hq
        have hq' := (b2 q hq).2.1
        rcases List.mem_append.mp hp with hp | hp
        · simp only [List.mem_cons, List.mem_singleton, List.not_mem_nil, or_false] at hp
          rcases hp with hp | hp <;> subst hp <;> simp only <;> omega
        · have := (a2 p hp).2.2
          omega
    · intro p hp
      rcases List.mem_append.mp hp with hp | hp
      · rcases List.mem_append.mp hp with hp | hp
        · simp only [List.mem_cons, List.mem_singleton, List.not_mem_nil, or_false] at hp
          rcases hp with hp | hp <;> subst hp <;> simp only <;> omega
        · obtain ⟨x1, x2, x3⟩ := a2 p hp
          omega
      · obtain ⟨x1, x2, x3⟩ := b2 p hp
        omega
  · rw [hhd] at hsh
    simp only at hsh
    rcases hsh with e | e
    · rw [e]
      exact ⟨by simp, by intro p hp; simp only [List.mem_singleton] at hp; subst hp; simp⟩
    · rw [e]
      refine ⟨by simp, ?_⟩
      intro p hp
      simp only [List.mem_cons, List.mem_singleton, List.not_mem_nil, or_false] at hp
      rcases hp with hp | hp <;> subst hp <;> simp only <;> omega

/-- Witness of C16: the run over the sample image, whose progress events are
`(0, 256)`, `(16, 256)`, `(32, 256)`, `(48, 256)`, `(64, 256)`, `(128, 192)`
and `(192, 192)`. -/
theorem progress_bounds_witness :
    (progress_events (oceanic_common_device_foreach (image_env sample_image accept_all)
      (sample_device [0, 0, 0, 0, 0, 0, 0, 0] 4) 20).trace).Pairwise (fun p q => p.1 ≤ q.1) ∧
    ∀ p ∈ progress_events (oceanic_common_device_foreach (image_env sample_image accept_all)
      (sample_device [0, 0, 0, 0, 0, 0, 0, 0] 4) 20).trace, p.1 ≤ p.2 :=
  progress_bounds (image_env sample_image accept_all) (sample_device [0, 0, 0, 0, 0, 0, 0, 0] 4)
    sample_layout 20 rfl sample_layout_ok

/-- The progress events of a trace of the Suunto engine that is put together. -/
theorem suunto_progress_events_append (t u : List SuuntoEvent) :
    suunto_progress_events (t ++ u) = suunto_progress_events t ++ suunto_progress_events u := by
  induction t with
  | nil => rfl
  | cons e t ih => cases e <;> simp [suunto_progress_events, ih]

/-- The retry loop of `suunto_common2_transfer` emits no progress event. -/
theorem packet_retry_progress
    (packet : List SuuntoEvent → List Nat → Nat → Nat → device_status_t × List Nat)
    (command : List Nat) (csize asize size : Nat) :
    ∀ (fuel nretries : Nat) (trace : List SuuntoEvent)
      (r : device_status_t × List SuuntoEvent × List Nat),
      suunto_packet_retry packet command csize asize size fuel nretries trace = some r →
      suunto_progress_events r.2.1 = suunto_progress_events trace := by
  intro fuel
  induction fuel with
  | zero => intro nretries trace r h; simp [suunto_packet_retry] at h
  | succ fuel ih =>
    intro nretries trace r h
    have h1 : suunto_progress_events
        (trace ++ [SuuntoEvent.packet (command.take csize) asize size])
        = suunto_progress_events trace := by
      simp [suunto_progress_events_append, suunto_progress_events]
    simp only [suunto_packet_retry] at h
    split_ifs at h
    all_goals first
      | (cases h; exact h1)
      | (rw [ih _ _ r h]; exact h1)

/-- `suunto_common2_transfer` emits no progress event. -/
theorem suunto_transfer_progress (env : SuuntoEnv) (fuel : Nat) (trace : List SuuntoEvent)
    (command : List Nat) (csize : Nat) (answer : List Nat) (asize size : Nat) :
    suunto_progress_events
      (suunto_common2_transfer env fuel trace command csize answer asize size).trace
      = suunto_progress_events trace := by
  unfold suunto_common2_transfer
  by_cases h : asize ≥ u32 (size + 4)
  · simp only [h, not_true_eq_false, if_false]
    rcases hp : env.packet with _ | packet
    · rfl
    · simp only
      rcases hr : suunto_packet_retry packet command csize asize size fuel 0 trace with _ | r
      · rfl
      · exact packet_retry_progress packet command csize asize size fuel 0 trace r hr
  · simp only [h, not_false_eq_true, if_true]

/-- `suunto_common2_device_version` emits no progress event. -/
theorem suunto_version_progress (env : SuuntoEnv) (fuel : Nat) (trace : List SuuntoEvent)
    (data : List Nat) (size : Nat) :
    suunto_progress_events (suunto_common2_device_version env fuel trace data size).trace
      = suunto_progress_events trace := by
  unfold suunto_common2_device_version
  simp only []
  split_ifs
  all_goals first
    | rfl
    | exact suunto_transfer_progress env fuel trace _ _ _ _ _

/-- The loop of `suunto_common2_device_read` emits no progress event. -/
theorem suunto_read_loop_progress (env : SuuntoEnv) (size retryfuel : Nat) :
    ∀ (fuel : Nat) (trace : List SuuntoEvent) (nbytes address : Nat) (data : List Nat),
      suunto_progress_events
        (suunto_read_loop env size retryfuel fuel trace nbytes address data).trace
        = suunto_progress_events trace := by
  intro fuel
  induction fuel with
  | zero =>
    intro trace nbytes address data
    unfold suunto_read_loop
    split_ifs <;> rfl
  | succ fuel ih =>
    intro trace nbytes address data
    unfold suunto_read_loop
    simp only []
    split_ifs
    all_goals first
      | rfl
      | exact suunto_transfer_progress env retryfuel trace _ _ _ _ _
      | (rw [ih]; exact suunto_transfer_progress env retryfuel trace _ _ _ _ _)

/-- `suunto_common2_device_read` emits no progress event. -/
theorem suunto_read_progress (env : SuuntoEnv) (fuel : Nat) (trace : List SuuntoEvent)
    (address size : Nat) :
    suunto_progress_events (suunto_common2_device_read env fuel trace address size).trace
      = suunto_progress_events trace :=
  suunto_read_loop_progress env size fuel fuel trace 0 address []

/-- The invariant goes on with a progress event that carries the maximum. -/
theorem suuntoMaxInv_progress (base : List (Nat × Nat)) (pm c : Nat) (t : List SuuntoEvent)
    (h : SuuntoMaxInv base pm t) : SuuntoMaxInv base pm (t ++ [SuuntoEvent.progress c pm]) := by
  obtain ⟨ext, h1, h2⟩ := h
  refine ⟨ext ++ [(c, pm)], ?_, ?_⟩
  · rw [suunto_progress_events_append, h1]
    simp [suunto_progress_events]
  · intro p hp
    rcases List.mem_append.mp hp with hp | hp
    · exact h2 p hp
    · simp only [List.mem_singleton] at hp
      subst hp
      rfl

/-- The invariant only looks at the progress events. -/
theorem suuntoMaxInv_congr (base : List (Nat × Nat)) (pm : Nat) (t u : List SuuntoEvent)
    (h : SuuntoMaxInv base pm t) (e : suunto_progress_events u = suunto_progress_events t) :
    SuuntoMaxInv base pm u := by
  obtain ⟨ext, h1, h2⟩ := h
  exact ⟨ext, by rw [e, h1], h2⟩

/-- The packet loop of one dive of the Suunto engine emits progress events with
the maximum `pm` only. -/
theorem suunto_dive_read_max (env : SuuntoEnv) (pm remaining size retryfuel : Nat)
    (base : List (Nat × Nat)) :
    ∀ (fuel : Nat) (s : SuuntoReadState), SuuntoMaxInv base pm s.trace →
      match suunto_dive_read env pm remaining size retryfuel fuel s with
      | SuuntoStep.stop r => SuuntoMaxInv base pm r.trace
      | SuuntoStep.next s' => SuuntoMaxInv base pm s'.trace := by
  intro fuel
  induction fuel with
  | zero =>
    intro s hs
    unfold suunto_dive_read
    split_ifs <;> exact hs
  | succ fuel ih =>
    intro s hs
    rw [suunto_dive_read]
    by_cases hc : s.nbytes < size
    · simp only [hc, not_true_eq_false, if_false]
      generalize wrap_point Suunto.RB_PROFILE_BEGIN Suunto.RB_PROFILE_END s.address = address
      generalize suunto_packet_size address s.nbytes remaining = len
      generalize suunto_extra len = extra
      have hr := suuntoMaxInv_congr base pm _ _ hs
        (suunto_read_progress env retryfuel s.trace (usub (usub address len) extra)
          (u32 (len + extra)))
      generalize suunto_common2_device_read env retryfuel s.trace (usub (usub address len) extra)
        (u32 (len + extra)) = r at hr
      by_cases c1 : r.outcome ≠ Outcome.returned SUCCESS
      · rw [if_pos c1]; exact hr
      rw [if_neg c1]
      by_cases c2 : usub s.offset len < extra ∨
          ¬ s.data.writable (usub s.offset len - extra) (u32 (len + extra)) = true
      · rw [if_pos c2]; exact hr
      rw [if_neg c2]
      apply ih
      exact suuntoMaxInv_progress _ _ _ _ hr
    · simp only [hc, not_false_eq_true, if_true]
      exact hs

/-- One iteration of the dive loop of the Suunto engine emits progress events
with the maximum `pm` only. -/
theorem suunto_dive_max (env : SuuntoEnv) (device : suunto_common2_device_t)
    (model pm retryfuel readfuel : Nat) (s : SuuntoState) (base : List (Nat × Nat))
    (hs : SuuntoMaxInv base pm s.trace) :
    match suunto_dive env device model pm retryfuel readfuel s with
    | SuuntoStep.stop r => SuuntoMaxInv base pm r.trace
    | SuuntoStep.next (s', _) => SuuntoMaxInv base pm s'.trace := by
  unfold suunto_dive
  simp only []
  generalize (if model = 0x15 then u32 (FP_OFFSET + 6) else FP_OFFSET) = fpo
  by_cases c1 : ringbuffer_defined s.current Suunto.RB_PROFILE_BEGIN Suunto.RB_PROFILE_END = true ∧
      ringbuffer_defined s.previous Suunto.RB_PROFILE_BEGIN Suunto.RB_PROFILE_END = true
  · rw [if_neg (not_not.mpr c1)]
    by_cases c2 : Suunto.RB_PROFILE_DISTANCE s.current s.previous true < 4 ∨
        Suunto.RB_PROFILE_DISTANCE s.current s.previous true > s.remaining
    · rw [if_pos c2]; exact hs
    rw [if_neg c2]
    have hrd := suunto_dive_read_max env pm s.remaining
      (Suunto.RB_PROFILE_DISTANCE s.current s.previous true) retryfuel base readfuel
      { data := s.data, nbytes := s.available, offset := s.offset, address := s.address,
        progress_current := s.progress_current, trace := s.trace } hs
    generalize suunto_dive_read env pm s.remaining _ retryfuel readfuel _ = pr at hrd
    rcases pr with r | r'
    · simp only at hrd ⊢
      split_ifs
      all_goals first | exact hrd | skip
      all_goals rcases hcb : env.callback with _ | cb
      all_goals simp only []
      all_goals first
        | exact hrd
        | skip
      all_goals try split_ifs
      all_goals first
        | exact hrd
        | exact suuntoMaxInv_congr base pm _ _ hrd
            (by simp [suunto_progress_events_append, suunto_progress_events])
    · exact hrd
  · rw [if_pos c1]; exact hs

/-- The dive loop of the Suunto engine emits progress events with the maximum
`pm` only. -/
theorem suunto_dive_loop_max (env : SuuntoEnv) (device : suunto_common2_device_t)
    (model pm retryfuel readfuel : Nat) (base : List (Nat × Nat)) :
    ∀ (fuel : Nat) (s : SuuntoState), SuuntoMaxInv base pm s.trace →
      SuuntoMaxInv base pm
        (suunto_dive_loop env device model pm retryfuel readfuel fuel s).trace := by
  intro fuel
  induction fuel with
  | zero =>
    intro s hs
    unfold suunto_dive_loop
    split_ifs <;> exact hs
  | succ n ih =>
    intro s hs
    unfold suunto_dive_loop
    split_ifs with hc
    · have hdv := suunto_dive_max env device model pm retryfuel readfuel s base hs
      simp only
      generalize suunto_dive env device model pm retryfuel readfuel s = pd at hdv
      rcases pd with ⟨s', ab⟩ | r
      · simp only at hdv ⊢
        split_ifs with hab
        · exact hdv
        · exact ih s' hdv
      · exact hdv
    · exact hs

/-- The maximum at line 290 of `suunto_common2.c` is not above the one of line
232. -/
theorem suunto_maximum_le (begin_ end_ : Nat) (mode : Bool)
    (hb : ringbuffer_defined begin_ Suunto.RB_PROFILE_BEGIN Suunto.RB_PROFILE_END = true)
    (he : ringbuffer_defined end_ Suunto.RB_PROFILE_BEGIN Suunto.RB_PROFILE_END = true) :
    usub suunto_progress_maximum
      (usub (Suunto.RB_PROFILE_END - Suunto.RB_PROFILE_BEGIN)
        (Suunto.RB_PROFILE_DISTANCE begin_ end_ mode)) ≤ suunto_progress_maximum := by
  simp only [ringbuffer_defined, decide_eq_true_eq] at hb he
  have hd := ringbuffer_distance_eq begin_ end_ Suunto.RB_PROFILE_BEGIN Suunto.RB_PROFILE_END
    mode hb he
  have hB : Suunto.RB_PROFILE_BEGIN = 410 := rfl
  have hE : Suunto.RB_PROFILE_END = 32766 := rfl
  have hM : suunto_progress_maximum = 32376 := rfl
  unfold Suunto.RB_PROFILE_DISTANCE
  rw [hB, hE] at hd hb he ⊢
  rw [hM]
  have hle : ringbuffer_distance begin_ end_ mode 410 32766 ≤ 32356 := by
    rw [hd]; split_ifs <;> omega
  generalize ringbuffer_distance begin_ end_ mode 410 32766 = dist at hle ⊢
  have e1 : u32 dist = dist := u32_eq _ (by omega)
  have e2 : usub (32766 - 410) dist = 32356 - dist := usub_eq _ _ (by omega) (by omega)
  have e3 : usub 32376 (32356 - dist) = 32376 - (32356 - dist) :=
    usub_eq _ _ (by omega) (by omega)
  rw [e1, e2, e3]
  omega

/-- Events that all carry the same maximum are ordered by their maxima. -/
theorem pairwise_same_max (pm : Nat) (ext : List (Nat × Nat)) (h : ∀ p ∈ ext, p.2 = pm) :
    ext.Pairwise (fun p q => q.2 ≤ p.2) := by
  induction ext with
  | nil => exact List.Pairwise.nil
  | cons x ext ih =>
    refine List.Pairwise.cons ?_ (ih (fun p hp => h p (List.mem_cons_of_mem _ hp)))
    intro q hq
    rw [h q (List.mem_cons_of_mem _ hq), h x (List.mem_cons_self _ _)]

/-- Events with one maximum, followed by events with a maximum that is not above
it, are ordered by their maxima. -/
theorem pairwise_two_max (m0 m1 : Nat) (base ext : List (Nat × Nat))
    (hb : ∀ p ∈ base, p.2 = m0) (he : ∀ p ∈ ext, p.2 = m1) (hle : m1 ≤ m0) :
    (base ++ ext).Pairwise (fun p q => q.2 ≤ p.2) := by
  rw [List.pairwise_append]
  refine ⟨pairwise_same_max m0 base hb, pairwise_same_max m1 ext he, ?_⟩
  intro p hp q hq
  rw [hb p hp, he q hq]
  exact hle

/-- The maxima of the progress events of a run of `suunto_common2_device_foreach`
never go up. -/
theorem suunto_foreach_maxima (env : SuuntoEnv) (device : suunto_common2_device_t)
    (fuel : Nat) :
    (suunto_progress_events (suunto_common2_device_foreach env device fuel).trace).Pairwise
      (fun p q => q.2 ≤ p.2) := by
  have h8 : (if SZ_MINIMUM > 4 then SZ_MINIMUM else 4) = 8 := by decide
  unfold suunto_common2_device_foreach
  simp only [h8]
  have h1 := suunto_version_progress env fuel [SuuntoEvent.progress 0 suunto_progress_maximum]
    (List.replicate SZ_VERSION 0) SZ_VERSION
  generalize suunto_common2_device_version env fuel
    [SuuntoEvent.progress 0 suunto_progress_maximum] (List.replicate SZ_VERSION 0) SZ_VERSION
    = rv at h1 ⊢
  have h1' : suunto_progress_events rv.trace = [(0, suunto_progress_maximum)] := h1
  by_cases c1 : rv.outcome ≠ Outcome.returned SUCCESS
  · rw [if_pos c1]
    simp only [h1']
    exact List.pairwise_singleton _ _
  rw [if_neg c1]
  have h2 := suunto_read_progress env fuel
    (rv.trace ++ [SuuntoEvent.progress (u32 (0 + SZ_VERSION)) suunto_progress_maximum]) 0x0023 8
  generalize suunto_common2_device_read env fuel _ 0x0023 8 = rs at h2 ⊢
  have h2' : suunto_progress_events rs.trace
      = [(0, suunto_progress_maximum), (u32 (0 + SZ_VERSION), suunto_progress_maximum)] := by
    rw [h2, suunto_progress_events_append, h1']; rfl
  by_cases c2 : rs.outcome ≠ Outcome.returned SUCCESS
  · rw [if_pos c2]
    simp only [h2']
    exact pairwise_same_max suunto_progress_maximum _ (by
      intro p hp
      simp only [List.mem_cons, List.mem_singleton, List.not_mem_nil, or_false] at hp
      rcases hp with hp | hp <;> subst hp <;> rfl)
  rw [if_neg c2]
  have h3 := suunto_read_progress env fuel
    (rs.trace ++ [SuuntoEvent.progress (u32 (u32 (0 + SZ_VERSION) + 8)) suunto_progress_maximum]
      ++ [SuuntoEvent.devinfo (rv.answer.getD 0 0) (array_uint24_be (rv.answer.drop 1))
        (array_uint32_be rs.answer)]) 0x0190 8
  generalize suunto_common2_device_read env fuel _ 0x0190 8 = rh at h3 ⊢
  have h3' : suunto_progress_events rh.trace
      = [(0, suunto_progress_maximum), (u32 (0 + SZ_VERSION), suunto_progress_maximum),
         (u32 (u32 (0 + SZ_VERSION) + 8), suunto_progress_maximum)] := by
    rw [h3, suunto_progress_events_append, suunto_progress_events_append, h2']; rfl
  have hbase : ∀ p ∈ [(0, suunto_progress_maximum),
      (u32 (0 + SZ_VERSION), suunto_progress_maximum),
      (u32 (u32 (0 + SZ_VERSION) + 8), suunto_progress_maximum)], p.2 = suunto_progress_maximum := by
    intro p hp
    simp only [List.mem_cons, List.mem_singleton, List.not_mem_nil, or_false] at hp
    rcases hp with hp | hp | hp <;> subst hp <;> rfl
  by_cases c3 : rh.outcome ≠ Outcome.returned SUCCESS
  · rw [if_pos c3]
    simp only [h3']
    exact pairwise_same_max suunto_progress_maximum _ hbase
  rw [if_neg c3]
  by_cases c4 : ringbuffer_defined (array_uint16_le (rh.answer.drop 6))
      Suunto.RB_PROFILE_BEGIN Suunto.RB_PROFILE_END = true ∧
      ringbuffer_defined (array_uint16_le (rh.answer.drop 4))
      Suunto.RB_PROFILE_BEGIN Suunto.RB_PROFILE_END = true
  · rw [if_neg (not_not.mpr c4)]
    have hle := suunto_maximum_le (array_uint16_le (rh.answer.drop 6))
      (array_uint16_le (rh.answer.drop 4)) (decide (array_uint16_le (rh.answer.drop 2) ≠ 0))
      c4.1 c4.2
    generalize usub suunto_progress_maximum
      (usub (Suunto.RB_PROFILE_END - Suunto.RB_PROFILE_BEGIN)
        (Suunto.RB_PROFILE_DISTANCE (array_uint16_le (rh.answer.drop 6))
          (array_uint16_le (rh.answer.drop 4))
          (decide (array_uint16_le (rh.answer.drop 2) ≠ 0)))) = m1 at hle ⊢
    have hinv := suunto_dive_loop_max env device (rv.answer.getD 0 0) m1 fuel fuel _ fuel
      { data := Buffer.zeros (SZ_MINIMUM + Suunto.RB_PROFILE_END - Suunto.RB_PROFILE_BEGIN)
        remaining := Suunto.RB_PROFILE_DISTANCE (array_uint16_le (rh.answer.drop 6))
          (array_uint16_le (rh.answer.drop 4)) (decide (array_uint16_le (rh.answer.drop 2) ≠ 0))
        available := 0
        current := array_uint16_le (rh.answer.drop 0)
        previous := array_uint16_le (rh.answer.drop 4)
        address := array_uint16_le (rh.answer.drop 4)
        offset := u32 (Suunto.RB_PROFILE_DISTANCE (array_uint16_le (rh.answer.drop 6))
          (array_uint16_le (rh.answer.drop 4)) (decide (array_uint16_le (rh.answer.drop 2) ≠ 0))
          + SZ_MINIMUM)
        progress_current := u32 (u32 (u32 (0 + SZ_VERSION) + 8) + 8)
        trace := rh.trace ++
          [SuuntoEvent.progress (u32 (u32 (u32 (0 + SZ_VERSION) + 8) + 8)) m1] }
      (suuntoMaxInv_progress _ m1 _ rh.trace ⟨[], by rw [h3', List.append_nil], by
        intro p hp; cases hp⟩)
    obtain ⟨ext, e1, e2⟩ := hinv
    rw [e1]
    exact pairwise_two_max suunto_progress_maximum m1 _ ext hbase e2 hle
  · rw [if_pos c4]
    simp only [h3']
    exact pairwise_same_max suunto_progress_maximum _ hbase

/-- Counterexample to C17: on the sample images the maximum of the progress events
goes down: from 256 to 192 in the Oceanic engine (line 394 of
`oceanic_common.c`) and from 32376 to 140 in the Suunto engine (line 290 of
`suunto_common2.c`). -/
theorem progress_maximum_counterexample :
    (progress_events (oceanic_common_device_foreach (image_env sample_image accept_all)
      (sample_device [0, 0, 0, 0, 0, 0, 0, 0] 4) 20).trace).map Prod.snd
      = [256, 256, 256, 256, 256, 192, 192] ∧
    (suunto_progress_events (suunto_common2_device_foreach
      (suunto_image_env suunto_sample (some (fun _ _ _ => true))) suunto_device 20).trace).map
      Prod.snd = [32376, 32376, 32376, 140, 140] := by
  decide!

/-- Claim C17, amended. Progress maximum: within one call of
`oceanic_common_device_foreach` and of `suunto_common2_device_foreach` the
values of `progress.maximum` carried by the emitted progress events never go
up: the maximum is lowered when the amount of data becomes known (lines 267
and 394 of `oceanic_common.c`, line 290 of `suunto_common2.c`). For the
Oceanic engine this holds on a well-formed layout when the logbook pointers,
if they lie inside the logbook ring, are multiples of `PAGESIZE / 2`. -/
theorem progress_maximum_monotone :
    (∀ (env : Env) (device : oceanic_common_device_t) (layout : oceanic_common_layout_t)
        (fuel : Nat),
      device.layout = some layout → LayoutOk layout device.multipage →
      (∀ h, foreach_header env layout = Step.next h →
        (layout.rb_logbook_begin ≤ h.rb_logbook_first ∧
         h.rb_logbook_first < layout.rb_logbook_end) →
        (layout.rb_logbook_begin ≤ h.rb_logbook_last ∧
         h.rb_logbook_last < layout.rb_logbook_end) →
        h.rb_logbook_first % (PAGESIZE / 2) = 0 ∧ h.rb_logbook_last % (PAGESIZE / 2) = 0) →
      (progress_events (oceanic_common_device_foreach env device fuel).trace).Pairwise
        (fun p q => q.2 ≤ p.2)) ∧
    (∀ (env : SuuntoEnv) (device : suunto_common2_device_t) (fuel : Nat),
      (suunto_progress_events (suunto_common2_device_foreach env device fuel).trace).Pairwise
        (fun p q => q.2 ≤ p.2)) := by
  refine ⟨?_, suunto_foreach_maxima⟩
  intro env device layout fuel hlayout hok hptr
  have hsh := foreach_progress_shape env device layout fuel hlayout hok
  have hm0 := progress_maximum_initial_eq layout device.multipage hok
  rcases hhd : foreach_header env layout with h | r
  · rw [hhd] at hsh
    simp only at hsh
    obtain ⟨ext2, ext3, c2, c3, m2, e, ⟨a1, a2, a3⟩, ⟨b1, b2, b3⟩, h1, h2, h3⟩ := hsh
    obtain ⟨w1, w2, w3, w4, w5⟩ := window_aligned layout h.rb_logbook_first h.rb_logbook_last
      hok.lb hok.le hok.logbook hok.le32
    have hm1 := progress_maximum_logbook_eq layout device.multipage
      (logbook_window layout h.rb_logbook_first h.rb_logbook_last) hok w5
    have hps : (logbook_window layout h.rb_logbook_first h.rb_logbook_last).page_size
        ≤ layout.rb_logbook_end - layout.rb_logbook_begin := by
      by_cases hin : (layout.rb_logbook_begin ≤ h.rb_logbook_first ∧
          h.rb_logbook_first < layout.rb_logbook_end) ∧
          (layout.rb_logbook_begin ≤ h.rb_logbook_last ∧
          h.rb_logbook_last < layout.rb_logbook_end)
      · obtain ⟨q1, q2⟩ := hptr h hhd hin.1 hin.2
        exact (windowOk_of_pointers layout _ _ device.multipage hok hin.1 hin.2 q1 q2).ps_le
      · have hle32 := hok.le32
        have hlog := hok.logbook
        rw [(window_empty layout h.rb_logbook_first h.rb_logbook_last hok.lb (by omega)
          (by omega)).1]
        exact Nat.zero_le _
    generalize progress_maximum_logbook layout
      (logbook_window layout h.rb_logbook_first h.rb_logbook_last) = M1 at *
    generalize progress_maximum_initial layout = M0 at *
    have hbase : ∀ p ∈ [(0, M0), (16, M0)], p.2 = M0 := by
      intro p hp
      simp only [List.mem_cons, List.mem_singleton, List.not_mem_nil, or_false] at hp
      rcases hp with hp | hp <;> subst hp <;> rfl
    rw [e, List.append_assoc, List.pairwise_append]
    refine ⟨pairwise_same_max M0 _ hbase,
      pairwise_two_max M1 m2 ext2 ext3 (fun p hp => (a2 p hp).1) (fun p hp => (b2 p hp).1) h3, ?_⟩
    intro p hp q hq
    rw [hbase p hp]
    rcases List.mem_append.mp hq with hq | hq
    · rw [(a2 q hq).1]; omega
    · rw [(b2 q hq).1]; omega
  · rw [hhd] at hsh
    simp only at hsh
    rcases hsh with e | e
    · rw [e]; exact List.pairwise_singleton _ _
    · rw [e]
      exact pairwise_same_max (progress_maximum_initial layout) _ (by
        intro p hp
        simp only [List.mem_cons, List.mem_singleton, List.not_mem_nil, or_false] at hp
        rcases hp with hp | hp <;> subst hp <;> rfl)

/-- Witness of C17: the run of the Oceanic engine over the sample image, whose
logbook pointers `0x28` and `0x20` are multiples of 8; its maxima are 256 five
times and then 192 twice. -/
theorem progress_maximum_monotone_witness :
    (progress_events (oceanic_common_device_foreach (image_env sample_image accept_all)
      (sample_device [0, 0, 0, 0, 0, 0, 0, 0] 4) 20).trace).Pairwise (fun p q => q.2 ≤ p.2) :=
  progress_maximum_monotone.1 (image_env sample_image accept_all)
    (sample_device [0, 0, 0, 0, 0, 0, 0, 0] 4) sample_layout 20 rfl sample_layout_ok
    (by
      intro h hh _ _
      obtain ⟨h', e1, e2, e3⟩ := foreach_header_image sample_image
        (image_env sample_image accept_all) sample_layout rfl
      rw [hh] at e1
      cases e1
      rw [e2, e3]
      decide)

/-! ## The fix-up of a full, unaligned ring: properties -/

/-- The sample layout is well-formed for `multipage = 1`. -/
theorem sample_layout_ok_one : LayoutOk sample_layout 1 :=
  ⟨by decide, by decide, by decide, by decide, by decide, by decide, by decide, by decide,
   by decide, by decide, by decide, by decide⟩

/-- The logbook download of `foreach_logbooks` starts with `foreach_first_chunk`: when the buffer can be allocated and the page window is not empty, the download is the first iteration followed by the rest of the loop. -/
theorem foreach_logbooks_first (env : Env) (device : oceanic_common_device_t)
    (l : oceanic_common_layout_t) (fuel : Nat) (h : Header)
    (hmalloc : ∀ n, env.malloc_ok n = true)
    (hps : 0 < (logbook_window l h.rb_logbook_first h.rb_logbook_last).page_size) :
    foreach_logbooks env device l (fuel + 1) h =
      match foreach_first_chunk env device l (fuel + 1) h with
      | Step.stop r => Step.stop r
      | Step.next (s, abort) =>
        if abort then Step.next s
        else logbook_loop env l device.multipage device.fingerprint
          (logbook_window l h.rb_logbook_first h.rb_logbook_last)
          (progress_maximum_logbook l (logbook_window l h.rb_logbook_first h.rb_logbook_last))
          (fuel + 1) fuel s := by
  unfold foreach_logbooks foreach_first_chunk
  simp only []
  rw [if_neg (by simp [hmalloc])]
  rw [logbook_loop]
  rw [if_neg (not_not.mpr hps)]
  all_goals rfl

/-! ## The VTPro probe and the wildcard matcher -/

/-- The loop of `oceanic_common_match` returns 1 exactly when every byte of the pattern from index `i` on, `count` of them, is zero or equal to the byte of the string. -/
theorem match_loop_spec (pattern string : List Nat) :
    ∀ (count i : Nat), (match_loop pattern string count i = 1 ↔
      ∀ j, j < count → pattern.getD (i + j) 0 = 0 ∨ pattern.getD (i + j) 0 = string.getD (i + j) 0) ∧
      (match_loop pattern string count i = 1 ∨ match_loop pattern string count i = 0) := by
  intro count
  induction count with
  | zero =>
    intro i
    simp [match_loop]
  | succ n ih =>
    intro i
    rw [match_loop]
    by_cases h : pattern.getD i 0 ≠ 0 ∧ pattern.getD i 0 ≠ string.getD i 0
    · rw [if_pos h]
      refine ⟨⟨fun h0 => absurd h0 (by decide), fun hall => ?_⟩, Or.inr rfl⟩
      have := hall 0 (Nat.succ_pos n)
      rw [Nat.add_zero] at this
      rcases this with e | e
      · exact absurd e h.1
      · exact absurd e h.2
    · rw [if_neg h]
      obtain ⟨h1, h2⟩ := ih (i + 1)
      refine ⟨?_, h2⟩
      rw [h1]
      constructor
      · intro hall j hj
        cases j with
        | zero =>
          rw [Nat.add_zero]
          by_cases e : pattern.getD i 0 = 0
          · exact Or.inl e
          · right
            by_contra e2
            exact h ⟨e, e2⟩
        | succ j =>
          have := hall j (by omega)
          have e : i + 1 + j = i + (j + 1) := by omega
          rw [e] at this
          exact this
      · intro hall j hj
        have := hall (j + 1) (by omega)
        have e : i + 1 + j = i + (j + 1) := by omega
        rw [e]
        exact this

/-- All `n` bytes of a complete read arrive in the array. -/
theorem received_full (n : Nat) (data : List Nat) (hlen : data.length = n)
    (hbytes : ∀ b ∈ data, b < 256) :
    received (List.replicate n 0) n n data = data := by
  unfold received
  apply List.ext_getElem
  · simp [hlen]
  · intro i h1 h2
    simp only [List.length_map, List.length_range, List.length_replicate] at h1
    have hi : (i : Int) < (n : Int) := by exact_mod_cast h1
    simp only [List.getElem_map, List.getElem_range, h1, hi, and_self, if_true]
    rw [List.getD_eq_getElem _ _ h2]
    exact Nat.mod_eq_of_lt (hbytes _ (List.getElem_mem _))

/-- Claim C24. `oceanic_vtpro_init` sends exactly the two bytes `AA 00`: the first
thing it does to the port is the write of `AA 00`, and it writes nothing else.
When that write is complete (returns 2) and 13 answer bytes `data` are
received, it returns `SUCCESS` if and only if the 13 bytes are the ASCII string
`MOD--OK_V2.00`, and `PROTOCOL` otherwise. -/
theorem vtpro_init_spec (port : Port) (trace : List SerialEvent) :
    (∃ rest, (oceanic_vtpro_init port trace).2 = trace ++ SerialEvent.write [0xAA, 0x00] :: rest ∧
      writes rest = 0) ∧
    (∀ data : List Nat, port.serial_write trace [0xAA, 0x00] = 2 →
      port.serial_read (trace ++ [SerialEvent.write [0xAA, 0x00]]) 13 = (13, data) →
      data.length = 13 → (∀ b ∈ data, b < 256) →
      ((oceanic_vtpro_init port trace).1 = SUCCESS ↔
        data = "MOD--OK_V2.00".toList.map Char.toNat) ∧
      (data ≠ "MOD--OK_V2.00".toList.map Char.toNat →
        (oceanic_vtpro_init port trace).1 = PROTOCOL)) := by
  have hstr : "MOD--OK_V2.00".toList.map Char.toNat =
      [0x4D, 0x4F, 0x44, 0x2D, 0x2D, 0x4F, 0x4B, 0x5F, 0x56, 0x32, 0x2E, 0x30, 0x30] := by
    decide
  constructor
  · unfold oceanic_vtpro_init
    simp only []
    split_ifs
    · exact ⟨[], by simp, rfl⟩
    · exact ⟨[SerialEvent.read 13], by simp, rfl⟩
    · exact ⟨[SerialEvent.read 13], by simp, rfl⟩
    · exact ⟨[SerialEvent.read 13], by simp, rfl⟩
  · intro data hw hr hlen hbytes
    rw [hstr]
    have hrec := received_full 13 data hlen hbytes
    unfold oceanic_vtpro_init
    simp only [hw, hr, ne_eq, not_true_eq_false, if_false]
    have hrec2 : received (List.replicate 13 0) 13 13 data = data := hrec
    rw [hrec2]
    by_cases h : data = [0x4D, 0x4F, 0x44, 0x2D, 0x2D, 0x4F, 0x4B, 0x5F, 0x56, 0x32, 0x2E, 0x30, 0x30]
    · simp [h]
    · simp [h]

/-- The C24 theorem at a port that answers `MOD--OK_V2.00`: the function returns
`SUCCESS`. -/
theorem vtpro_init_spec_witness :
    (oceanic_vtpro_init (init_port ("MOD--OK_V2.00".toList.map Char.toNat)) []).1 = SUCCESS :=
  (((vtpro_init_spec (init_port ("MOD--OK_V2.00".toList.map Char.toNat)) []).2
    ("MOD--OK_V2.00".toList.map Char.toNat) (by decide) (by decide) (by decide)
    (by decide)).1).2 rfl

/-- A successful `oceanic_vtpro_device_open` stores a device with the version bytes
received and the layout selected at lines 336-339. -/
theorem open_device (out_null : Bool) (setup : SerialSetup) (port : Port) (fuel : Nat)
    (h : (oceanic_vtpro_device_open out_null setup port fuel).outcome =
      Outcome.returned SUCCESS) :
    ∃ version, (oceanic_vtpro_device_open out_null setup port fuel).device =
      some { base := { oceanic_common_device_init oceanic_vtpro_device_backend with
                       multipage := MULTIPAGE
                       layout := some
                         (if oceanic_common_match oceanic_wisdom_version version PAGESIZE ≠ 0
                          then oceanic_wisdom_layout else oceanic_vtpro_layout) }
             version := version } := by
  unfold oceanic_vtpro_device_open at h ⊢
  by_cases h1 : out_null = true
  · rw [if_pos h1] at h
    exact absurd h (by decide)
  rw [if_neg h1] at h ⊢
  by_cases h2 : ¬ setup.malloc_ok = true
  · rw [if_pos h2] at h
    exact absurd h (by decide)
  rw [if_neg h2] at h ⊢
  by_cases h3 : setup.serial_open = -1
  · rw [if_pos h3] at h
    exact absurd h (by decide)
  rw [if_neg h3] at h ⊢
  by_cases h4 : setup.serial_configure = -1
  · rw [if_pos h4] at h
    exact absurd h (by decide)
  rw [if_neg h4] at h ⊢
  by_cases h5 : setup.serial_set_timeout = -1
  · rw [if_pos h5] at h
    exact absurd h (by decide)
  rw [if_neg h5] at h ⊢
  by_cases h6 : setup.serial_set_dtr = -1 ∨ setup.serial_set_rts = -1
  · rw [if_pos h6] at h
    exact absurd h (by decide)
  rw [if_neg h6] at h ⊢
  generalize oceanic_vtpro_init port [] = st at h ⊢
  by_cases h7 : st.1 ≠ SUCCESS
  · rw [if_pos h7] at h
    exact absurd (Outcome.returned.inj h) h7
  rw [if_neg h7] at h ⊢
  generalize oceanic_vtpro_device_version port _ fuel st.2 _ PAGESIZE = r at h ⊢
  by_cases h8 : r.outcome ≠ Outcome.returned SUCCESS
  · rw [if_pos h8] at h
    exact absurd h h8
  rw [if_neg h8] at h ⊢
  generalize oceanic_vtpro_calibrate port fuel r.trace = c at h ⊢
  by_cases h9 : c.outcome ≠ Outcome.returned SUCCESS
  · rw [if_pos h9] at h
    exact absurd h h9
  rw [if_neg h9] at h ⊢
  exact ⟨r.answer, rfl⟩

/-- Claim C26. `oceanic_common_match (pattern, string, n)` returns 1 if and only if
for every `i < n` the pattern byte is zero or equals the byte of the string,
and 0 otherwise. So it returns 1 for `n = 0`, for a pattern whose first `n`
bytes are zero, and when pattern and string are the same. When
`oceanic_vtpro_device_open` succeeds it stores a device whose layout is the
Wisdom layout exactly when the 16 bytes of the device version match the
pattern `oceanic_wisdom_version`, and the VTPro layout otherwise. -/
theorem match_spec :
    (∀ (pattern string : List Nat) (n : Nat),
      (oceanic_common_match pattern string n = 1 ↔
        ∀ i, i < n → pattern.getD i 0 = 0 ∨ pattern.getD i 0 = string.getD i 0) ∧
      (oceanic_common_match pattern string n ≠ 1 → oceanic_common_match pattern string n = 0)) ∧
    (∀ (pattern string : List Nat), oceanic_common_match pattern string 0 = 1) ∧
    (∀ (pattern string : List Nat) (n : Nat), (∀ i, i < n → pattern.getD i 0 = 0) →
      oceanic_common_match pattern string n = 1) ∧
    (∀ (s : List Nat) (n : Nat), oceanic_common_match s s n = 1) ∧
    (∀ (out_null : Bool) (setup : SerialSetup) (port : Port) (fuel : Nat),
      (oceanic_vtpro_device_open out_null setup port fuel).outcome = Outcome.returned SUCCESS →
      ∃ device, (oceanic_vtpro_device_open out_null setup port fuel).device = some device ∧
        (device.base.layout = some oceanic_wisdom_layout ↔
          ∀ i, i < 16 → oceanic_wisdom_version.getD i 0 = 0 ∨
            oceanic_wisdom_version.getD i 0 = device.version.getD i 0) ∧
        (device.base.layout ≠ some oceanic_wisdom_layout →
          device.base.layout = some oceanic_vtpro_layout)) := by
  have hm : ∀ (pattern string : List Nat) (n : Nat),
      (oceanic_common_match pattern string n = 1 ↔
        ∀ i, i < n → pattern.getD i 0 = 0 ∨ pattern.getD i 0 = string.getD i 0) := by
    intro pattern string n
    have h := (match_loop_spec pattern string n 0).1
    simp only [Nat.zero_add] at h
    exact h
  refine ⟨fun pattern string n => ⟨hm pattern string n, fun h => ?_⟩, fun _ _ => rfl,
    fun pattern string n h => (hm pattern string n).2 (fun i hi => Or.inl (h i hi)),
    fun s n => (hm s s n).2 (fun i hi => Or.inr rfl), ?_⟩
  · rcases (match_loop_spec pattern string n 0).2 with e | e
    · exact absurd e h
    · exact e
  · intro out_null setup port fuel h
    have hne : oceanic_wisdom_layout ≠ oceanic_vtpro_layout := by decide
    obtain ⟨version, hdev⟩ := open_device out_null setup port fuel h
    rw [hdev]
    refine ⟨_, rfl, ?_, ?_⟩
    · show (some (if oceanic_common_match oceanic_wisdom_version version PAGESIZE ≠ 0
          then oceanic_wisdom_layout else oceanic_vtpro_layout) = some oceanic_wisdom_layout) ↔ _
      rw [← hm oceanic_wisdom_version version 16]
      by_cases e : oceanic_common_match oceanic_wisdom_version version PAGESIZE ≠ 0
      · rw [if_pos e]
        have e1 : oceanic_common_match oceanic_wisdom_version version 16 = 1 := by
          rcases (match_loop_spec oceanic_wisdom_version version 16 0).2 with e2 | e2
          · exact e2
          · exact absurd e2 e
        exact ⟨fun _ => e1, fun _ => rfl⟩
      · rw [if_neg e]
        have e0 : oceanic_common_match oceanic_wisdom_version version 16 = 0 :=
          not_not.mp e
        constructor
        · intro e2
          exact absurd (Option.some.inj e2).symm hne
        · intro e2
          rw [e0] at e2
          exact absurd e2 (by decide)
    · show (some (if oceanic_common_match oceanic_wisdom_version version PAGESIZE ≠ 0
          then oceanic_wisdom_layout else oceanic_vtpro_layout) ≠ some oceanic_wisdom_layout) → 
        some (if oceanic_common_match oceanic_wisdom_version version PAGESIZE ≠ 0
          then oceanic_wisdom_layout else oceanic_vtpro_layout) = some oceanic_vtpro_layout
      by_cases e : oceanic_common_match oceanic_wisdom_version version PAGESIZE ≠ 0
      · rw [if_pos e]
        intro hx
        exact absurd rfl hx
      · rw [if_neg e]
        intro _
        rfl

/-- The C26 theorem at a device that identifies itself as `WISDOM r1A  256K`: the
open succeeds and selects the Wisdom layout. -/
theorem match_spec_witness :
    ∃ device, (oceanic_vtpro_device_open false ⟨true, 0, 0, 0, 0, 0⟩
        (vtpro_cable ("WISDOM r1A  256K".toList.map Char.toNat)) 3).device = some device ∧
      (device.base.layout = some oceanic_wisdom_layout ↔
        ∀ i, i < 16 → oceanic_wisdom_version.getD i 0 = 0 ∨
          oceanic_wisdom_version.getD i 0 = device.version.getD i 0) ∧
      (device.base.layout ≠ some oceanic_wisdom_layout →
        device.base.layout = some oceanic_vtpro_layout) :=
  match_spec.2.2.2.2 false ⟨true, 0, 0, 0, 0, 0⟩
    (vtpro_cable ("WISDOM r1A  256K".toList.map Char.toNat)) 3 (by decide!)

/-- A device that identifies itself as `WISDOM r1A  256K` gets the Wisdom layout,
one that identifies itself as `VTPRO  r2B  256K` the VTPro layout. -/
theorem open_layout_samples :
    ((oceanic_vtpro_device_open false ⟨true, 0, 0, 0, 0, 0⟩
        (vtpro_cable ("WISDOM r1A  256K".toList.map Char.toNat)) 3).device.map
      (fun d => (d.base.layout, d.version))) =
      some (some oceanic_wisdom_layout, "WISDOM r1A  256K".toList.map Char.toNat) ∧
    ((oceanic_vtpro_device_open false ⟨true, 0, 0, 0, 0, 0⟩
        (vtpro_cable ("VTPRO  r2B  256K".toList.map Char.toNat)) 3).device.map
      (fun d => (d.base.layout, d.version))) =
      some (some oceanic_vtpro_layout, "VTPRO  r2B  256K".toList.map Char.toNat) := by
  decide!

/-! ## Cancellation before foreach -/

/-- With the cancel flag set, `oceanic_vtpro_device_read` returns `CANCELLED`
without touching the port. -/
theorem vtpro_read_cancelled (port : Port) (device : oceanic_common_device_t) (fuel : Nat)
    (start : List SerialEvent) (address size : Nat)
    (hdev : device_is_oceanic_vtpro device = true) (ha : address % PAGESIZE = 0)
    (hs : size % PAGESIZE = 0) (hpos : 0 < size) (hfuel : 0 < fuel)
    (hc : port.cancelled start = true) :
    oceanic_vtpro_device_read port device fuel start address size =
      ⟨Outcome.returned CANCELLED, start, []⟩ := by
  obtain ⟨f, rfl⟩ : ∃ f, fuel = f + 1 := ⟨fuel - 1, by omega⟩
  have hsend : ∀ command csize, oceanic_vtpro_send port start command csize =
      (CANCELLED, start) := by
    intro command csize
    unfold oceanic_vtpro_send
    rw [if_pos hc]
  have hretry : ∀ command csize,
      vtpro_send_retry port command csize (f + 1) 0 start = some (CANCELLED, start) := by
    intro command csize
    unfold vtpro_send_retry
    rw [hsend]
    simp
  have htransfer : ∀ command csize answer asize,
      oceanic_vtpro_transfer port (f + 1) start command csize answer asize =
        ⟨Outcome.returned CANCELLED, start, answer⟩ := by
    intro command csize answer asize
    unfold oceanic_vtpro_transfer
    rw [hretry]
    simp
  have hstart : vtpro_read_loop port size (f + 1) (f + 1) start
      { nbytes := 0, address := address, offset := 0, data := [] } =
      ⟨Outcome.returned CANCELLED, start, []⟩ := by
    have h1 := (vtpro_read_first port size (f + 1) f start
      { nbytes := 0, address := address, offset := 0, data := [] } hpos).1
    rw [htransfer] at h1
    exact h1 (fun e => by cases e)
  have hd : ¬ (¬ device_is_oceanic_vtpro device = true) := not_not.mpr hdev
  have ha2 : ¬ (¬ (address % PAGESIZE = 0)) := not_not.mpr ha
  have hs2 : ¬ (¬ (size % PAGESIZE = 0)) := not_not.mpr hs
  unfold oceanic_vtpro_device_read
  rw [if_neg hd, if_neg ha2, if_neg hs2]
  exact hstart

/-- Claim C21. If the cancel flag of a VTPro device is set when
`oceanic_common_device_foreach` is called on it, the call returns `CANCELLED`,
invokes the dive callback zero times, asks the transport for at most one read
(the device id page) and performs no serial write or read at all: the serial
trace is the one from before the call. -/
theorem cancelled_before_foreach (port : Port) (device : oceanic_common_device_t)
    (callback : Option (List Event → List Nat → List Nat → Bool)) (malloc_ok : Nat → Bool)
    (bcd2dec : Nat → Nat) (fuel : Nat) (start : List SerialEvent)
    (layout : oceanic_common_layout_t)
    (hdev : device_is_oceanic_vtpro device = true) (hlayout : device.layout = some layout)
    (halign : layout.cf_devinfo % PAGESIZE = 0) (hfuel : 0 < fuel)
    (hc : port.cancelled start = true) :
    (vtpro_device_foreach port device callback malloc_ok bcd2dec fuel start).outcome =
      Outcome.returned CANCELLED ∧
    dives (vtpro_device_foreach port device callback malloc_ok bcd2dec fuel start).trace = [] ∧
    (reads (vtpro_device_foreach port device callback malloc_ok bcd2dec fuel start).trace).length
      ≤ 1 ∧
    (vtpro_device_foreach port device callback malloc_ok bcd2dec fuel start).serial = start := by
  have hread := vtpro_read_cancelled port device fuel start layout.cf_devinfo PAGESIZE hdev halign
    (by decide) (by decide) hfuel hc
  have hrun : oceanic_common_device_foreach
      { device_read := vtpro_read port device fuel start
        callback := callback
        malloc_ok := malloc_ok
        bcd2dec := bcd2dec } device fuel =
      ⟨Outcome.returned CANCELLED, [Event.progress 0 (progress_maximum_initial layout),
        Event.read layout.cf_devinfo PAGESIZE]⟩ := by
    unfold oceanic_common_device_foreach
    rw [hlayout]
    simp only []
    have hh : foreach_header
        { device_read := vtpro_read port device fuel start
          callback := callback
          malloc_ok := malloc_ok
          bcd2dec := bcd2dec } layout =
        Step.stop ⟨Outcome.returned CANCELLED, [Event.progress 0 (progress_maximum_initial layout),
          Event.read layout.cf_devinfo PAGESIZE]⟩ := by
      unfold foreach_header
      simp only [vtpro_read, vtpro_serial_trace, List.foldl, hread]
      simp
    rw [hh]
  have hab : vtpro_abnormal port device fuel start []
      [Event.progress 0 (progress_maximum_initial layout),
        Event.read layout.cf_devinfo PAGESIZE] = none := by
    simp only [vtpro_abnormal, List.nil_append, vtpro_serial_trace, List.foldl, hread]
  have hser : vtpro_serial_trace port device fuel start
      [Event.progress 0 (progress_maximum_initial layout),
        Event.read layout.cf_devinfo PAGESIZE] = start := by
    simp only [vtpro_serial_trace, List.foldl, hread]
  unfold vtpro_device_foreach
  simp only [hrun, hab, hser]
  simp [dives, reads]

/-- The C21 theorem at a VTPro device with the cancel flag set, on a port that
would serve every request. -/
theorem cancelled_before_foreach_witness :
    (vtpro_device_foreach cancelled_port (vtpro_device [0, 0, 0, 0, 0, 0, 0, 0]) accept_all
        (fun _ => true) (fun x => x) 8 []).outcome = Outcome.returned CANCELLED ∧
    dives (vtpro_device_foreach cancelled_port (vtpro_device [0, 0, 0, 0, 0, 0, 0, 0]) accept_all
        (fun _ => true) (fun x => x) 8 []).trace = [] ∧
    (reads (vtpro_device_foreach cancelled_port (vtpro_device [0, 0, 0, 0, 0, 0, 0, 0]) accept_all
        (fun _ => true) (fun x => x) 8 []).trace).length ≤ 1 ∧
    (vtpro_device_foreach cancelled_port (vtpro_device [0, 0, 0, 0, 0, 0, 0, 0]) accept_all
        (fun _ => true) (fun x => x) 8 []).serial = [] :=
  cancelled_before_foreach cancelled_port (vtpro_device [0, 0, 0, 0, 0, 0, 0, 0]) accept_all
    (fun _ => true) (fun x => x) 8 [] oceanic_vtpro_layout (by decide) rfl (by decide)
    (by decide) rfl

/-! ## The identity guard -/

/-- Claim C23, amended for the methods that have the guard. The methods
`version`, `read` and `close` of the VTPro backend table and all four methods
of the Aladin backend table (`set_fingerprint`, `dump`, `foreach`, `close`),
invoked on a device whose backend pointer is not that backend, return
`TYPE_MISMATCH` and change nothing: the port is not touched, no event is
emitted, the output array, the buffer and the device keep their content, and
the device is neither closed nor freed. The other three methods of the VTPro
table are the shared `oceanic_common_device_set_fingerprint`, `_dump` and
`_foreach`, which have no guard. -/
theorem identity_guard (port : Port) (fuel : Nat) (trace : List SerialEvent)
    (device : oceanic_vtpro_device_t) (other : uwatec_aladin_device_t)
    (hdevice : device.base.base.backend ≠ oceanic_vtpro_device_backend)
    (hother : other.base.backend ≠ uwatec_aladin_device_backend) :
    (∀ data size, oceanic_vtpro_device_version port device.base fuel trace data size =
      ⟨Outcome.returned TYPE_MISMATCH, trace, data⟩) ∧
    (∀ address size, oceanic_vtpro_device_read port device.base fuel trace address size =
      ⟨Outcome.returned TYPE_MISMATCH, trace, []⟩) ∧
    (∀ serial_close, oceanic_vtpro_device_close port device fuel trace serial_close =
      ⟨Outcome.returned TYPE_MISMATCH, trace, false, false⟩) ∧
    (∀ data size, uwatec_aladin_device_set_fingerprint other data size =
      (TYPE_MISMATCH, other)) ∧
    (∀ env systime buffer, uwatec_aladin_device_dump env port other systime fuel trace buffer =
      ⟨⟨Outcome.returned TYPE_MISMATCH, trace, [], buffer⟩, other, systime⟩) ∧
    (∀ env callback systime,
      uwatec_aladin_device_foreach env port callback other systime fuel trace =
        ⟨Outcome.returned TYPE_MISMATCH, trace, [], other, systime, []⟩) ∧
    (∀ serial_close, uwatec_aladin_device_close other trace serial_close =
      ⟨Outcome.returned TYPE_MISMATCH, trace, false, false⟩) := by
  have h1 : ¬ device_is_oceanic_vtpro device.base = true := by
    simp [device_is_oceanic_vtpro, hdevice]
  have h2 : ¬ device_is_uwatec_aladin other = true := by
    simp [device_is_uwatec_aladin, hother]
  refine ⟨?_, ?_, ?_, ?_, ?_, ?_, ?_⟩
  · intro data size
    unfold oceanic_vtpro_device_version
    rw [if_pos h1]
  · intro address size
    unfold oceanic_vtpro_device_read
    rw [if_pos h1]
  · intro serial_close
    unfold oceanic_vtpro_device_close
    rw [if_pos h1]
  · intro data size
    unfold uwatec_aladin_device_set_fingerprint
    rw [if_pos h2]
  · intro env systime buffer
    unfold uwatec_aladin_device_dump
    rw [if_pos h2]
  · intro env callback systime
    unfold uwatec_aladin_device_foreach
    rw [if_pos h2]
  · intro serial_close
    unfold uwatec_aladin_device_close
    rw [if_pos h2]

/-- The C23 theorem at an Aladin device handed to the VTPro methods and a VTPro
device handed to the Aladin methods. -/
theorem identity_guard_witness :
    (∀ data size, oceanic_vtpro_device_version nak_port
        (oceanic_common_device_init uwatec_aladin_device_backend) 3 [] data size =
      ⟨Outcome.returned TYPE_MISMATCH, [], data⟩) ∧
    (∀ data size, uwatec_aladin_device_set_fingerprint
        ⟨⟨oceanic_vtpro_device_backend⟩, 0, 0⟩ data size =
      (TYPE_MISMATCH, ⟨⟨oceanic_vtpro_device_backend⟩, 0, 0⟩)) :=
  ⟨(identity_guard nak_port 3 []
      ⟨oceanic_common_device_init uwatec_aladin_device_backend, []⟩
      ⟨⟨oceanic_vtpro_device_backend⟩, 0, 0⟩ (by decide) (by decide)).1,
    (identity_guard nak_port 3 []
      ⟨oceanic_common_device_init uwatec_aladin_device_backend, []⟩
      ⟨⟨oceanic_vtpro_device_backend⟩, 0, 0⟩ (by decide) (by decide)).2.2.2.1⟩

/-- Counterexample to C23. The entries `set_fingerprint` and `foreach` of the
VTPro backend table are `oceanic_common_device_set_fingerprint` and
`oceanic_common_device_foreach`. On a device that `oceanic_common_device_init`
set up for another backend table, the first returns `SUCCESS` and stores the
fingerprint, and the second runs the engine to the end and delivers dives;
neither returns `TYPE_MISMATCH`. -/
theorem identity_guard_counterexample :
    device_is_oceanic_vtpro (oceanic_common_device_init 7) = false ∧
    oceanic_common_device_set_fingerprint (oceanic_common_device_init 7)
        [1, 2, 3, 4, 5, 6, 7, 8] 8 =
      (SUCCESS, { oceanic_common_device_init 7 with fingerprint := [1, 2, 3, 4, 5, 6, 7, 8] }) ∧
    (oceanic_common_device_foreach (image_env sample_image accept_all)
      { oceanic_common_device_init 7 with layout := some sample_layout } 192).outcome =
      Outcome.returned SUCCESS ∧
    (dives (oceanic_common_device_foreach (image_env sample_image accept_all)
      { oceanic_common_device_init 7 with layout := some sample_layout } 192).trace).length
      = 4 := by
  decide!

/-! ## Cancel checks in the dump loops: properties -/

/-- No event, no read to check. -/
theorem headChecked_nil (port : Port) (trace : List SerialEvent) : HeadChecked port trace [] := by
  intro pre post h
  cases pre <;> cases h

/-- An event in front: it is checked when it is a read of one byte made with the
flag clear, or another event. -/
theorem headChecked_cons (port : Port) (trace ext : List SerialEvent) (e : SerialEvent)
    (he : e = SerialEvent.read 1 → port.cancelled trace = false)
    (h : HeadChecked port (trace ++ [e]) ext) : HeadChecked port trace (e :: ext) := by
  intro pre post hs
  cases pre with
  | nil =>
    simp only [List.nil_append, List.cons.injEq] at hs
    rw [List.append_nil]
    exact he hs.1
  | cons x pre =>
    simp only [List.cons_append, List.cons.injEq] at hs
    have := h pre post hs.2
    rw [hs.1, List.append_assoc] at this
    exact this

/-- An event behind: it is checked when it is a read of one byte made with the
flag clear, or another event. -/
theorem headChecked_snoc (port : Port) (e : SerialEvent) :
    ∀ (ext trace : List SerialEvent), HeadChecked port trace ext →
      (e = SerialEvent.read 1 → port.cancelled (trace ++ ext) = false) →
      HeadChecked port trace (ext ++ [e]) := by
  intro ext
  induction ext with
  | nil =>
    intro trace _ he
    rw [List.append_nil] at he
    exact headChecked_cons port trace [] e he (headChecked_nil port _)
  | cons x ext ih =>
    intro trace h he
    apply headChecked_cons port trace (ext ++ [e]) x
    · intro hx
      have := h [] ext (by rw [hx]; rfl)
      rw [List.append_nil] at this
      exact this
    · apply ih
      · intro pre post hs
        have := h (x :: pre) post (by rw [hs]; rfl)
        rw [List.append_assoc]
        exact this
      · rw [List.append_assoc]
        exact he

/-- The header loop of `uwatec_aladin_device_dump` only adds reads of one byte to
the serial trace, each made with the cancel flag clear. -/
theorem aladin_header_checked (port : Port) :
    ∀ (fuel i : Nat) (trace : List SerialEvent) (events : List DeviceEvent) (answer : List Nat),
      ∃ ext, (aladin_header_loop port fuel i trace events answer).serial = trace ++ ext ∧
        HeadChecked port trace ext := by
  intro fuel
  induction fuel with
  | zero =>
    intro i trace events answer
    refine ⟨[], ?_, headChecked_nil port trace⟩
    unfold aladin_header_loop
    by_cases hi : ¬ (i < 4)
    · rw [if_pos hi, List.append_nil]
      rfl
    · rw [if_neg hi, List.append_nil]
      rfl
  | succ fuel ih =>
    intro i trace events answer
    unfold aladin_header_loop
    by_cases hi : ¬ (i < 4)
    · rw [if_pos hi]
      exact ⟨[], (List.append_nil _).symm, headChecked_nil port trace⟩
    rw [if_neg hi]
    simp only []
    by_cases hc : port.cancelled trace = true
    · rw [if_pos hc]
      exact ⟨[], (List.append_nil _).symm, headChecked_nil port trace⟩
    rw [if_neg hc]
    have hc2 : port.cancelled trace = false := by
      cases h : port.cancelled trace
      · rfl
      · exact absurd h hc
    by_cases hrc : (port.serial_read trace 1).1 ≠ 1
    · rw [if_pos hrc]
      exact ⟨[SerialEvent.read 1], rfl,
        headChecked_cons port trace [] _ (fun _ => hc2) (headChecked_nil port _)⟩
    rw [if_neg hrc]
    have step : ∀ i2 events2 answer2, ∃ ext,
        (aladin_header_loop port fuel i2 (trace ++ [SerialEvent.read 1]) events2 answer2).serial =
          trace ++ ext ∧ HeadChecked port trace ext := by
      intro i2 events2 answer2
      obtain ⟨ext, h1, h2⟩ := ih i2 (trace ++ [SerialEvent.read 1]) events2 answer2
      refine ⟨SerialEvent.read 1 :: ext, ?_, headChecked_cons port trace ext _ (fun _ => hc2) h2⟩
      rw [h1, List.append_assoc]
      rfl
    split_ifs <;> exact step _ _ _

/-- Every read of one byte that `uwatec_aladin_device_dump` adds to the serial
trace was made with the cancel flag clear. -/
theorem aladin_dump_checked (env : DumpEnv) (port : Port) (device : uwatec_aladin_device_t)
    (systime : Int) (fuel : Nat) (trace : List SerialEvent) (buffer : List Nat) :
    ∃ ext, (uwatec_aladin_device_dump env port device systime fuel trace buffer).run.trace =
        trace ++ ext ∧ HeadChecked port trace ext := by
  unfold uwatec_aladin_device_dump
  by_cases h1 : ¬ device_is_uwatec_aladin device = true
  · rw [if_pos h1]
    exact ⟨[], (List.append_nil _).symm, headChecked_nil port trace⟩
  rw [if_neg h1]
  by_cases h2 : ¬ env.dc_buffer_clear = true
  · rw [if_pos h2]
    exact ⟨[], (List.append_nil _).symm, headChecked_nil port trace⟩
  rw [if_neg h2]
  by_cases h3 : ¬ env.dc_buffer_reserve = true
  · rw [if_pos h3]
    exact ⟨[], (List.append_nil _).symm, headChecked_nil port trace⟩
  rw [if_neg h3]
  simp only []
  obtain ⟨ext, h4, h5⟩ := aladin_header_checked port fuel 0 trace
    [DeviceEvent.progress 0 (UWATEC_ALADIN_MEMORY_SIZE + 2)]
    (List.replicate (UWATEC_ALADIN_MEMORY_SIZE + 2) 0)
  rcases hl : aladin_header_loop port fuel 0 trace
    [DeviceEvent.progress 0 (UWATEC_ALADIN_MEMORY_SIZE + 2)]
    (List.replicate (UWATEC_ALADIN_MEMORY_SIZE + 2) 0) with ⟨t, e, a⟩ | ⟨o, t, e⟩
  · rw [hl] at h4
    have h4 : t = trace ++ ext := h4
    have h6 : HeadChecked port trace (ext ++ [SerialEvent.read (UWATEC_ALADIN_MEMORY_SIZE + 2 - 4)]) :=
      headChecked_snoc port _ ext trace h5 (fun e => absurd e (by decide))
    simp only []
    split_ifs
    all_goals exact ⟨ext ++ [SerialEvent.read (UWATEC_ALADIN_MEMORY_SIZE + 2 - 4)],
      by rw [h4, List.append_assoc], h6⟩
  · rw [hl] at h4
    exact ⟨ext, h4, h5⟩

/-- With the cancel flag set, the header loop of `uwatec_aladin_device_dump` ends
the run at once. -/
theorem aladin_header_cancelled (port : Port) (fuel i : Nat) (trace : List SerialEvent)
    (events : List DeviceEvent) (answer : List Nat) (hi : i < 4)
    (hc : port.cancelled trace = true) :
    aladin_header_loop port (fuel + 1) i trace events answer =
      DumpStep.stop (Outcome.returned CANCELLED) trace events := by
  unfold aladin_header_loop
  rw [if_neg (not_not.mpr hi)]
  simp only []
  rw [if_pos hc]

/-- The header loop of `mares_nemo_device_dump` never ends the run with
`CANCELLED`. -/
theorem mares_header_status (port : Port) (events : List DeviceEvent) :
    ∀ (fuel i : Nat) (trace : List SerialEvent) (header : Nat),
      (mares_header_loop port events fuel i trace header).ended ≠
        some (Outcome.returned CANCELLED) := by
  intro fuel
  induction fuel with
  | zero =>
    intro i trace header
    unfold mares_header_loop
    split_ifs <;> simp [DumpStep.ended]
  | succ fuel ih =>
    intro i trace header
    unfold mares_header_loop
    by_cases hi : ¬ (i < 20)
    · rw [if_pos hi]
      simp [DumpStep.ended]
    rw [if_neg hi]
    simp only []
    by_cases hn : (port.serial_read trace 1).1 ≠ 1
    · rw [if_pos hn]
      simp only [DumpStep.ended, EXITCODE]
      split_ifs <;> simp
    rw [if_neg hn]
    split_ifs
    · exact ih _ _ _
    · exact ih _ _ _

/-- The packet loop of `mares_nemo_device_dump` never ends the run with
`CANCELLED`. -/
theorem mares_packet_status (port : Port) (memsize progress_maximum : Nat) :
    ∀ (fuel nbytes progress_current : Nat) (trace : List SerialEvent)
      (events : List DeviceEvent) (buffer : List Nat),
      (mares_packet_loop port memsize progress_maximum fuel nbytes progress_current trace
        events buffer).outcome ≠ Outcome.returned CANCELLED := by
  intro fuel
  induction fuel with
  | zero =>
    intro nbytes progress_current trace events buffer
    unfold mares_packet_loop
    split_ifs <;> simp
  | succ fuel ih =>
    intro nbytes progress_current trace events buffer
    unfold mares_packet_loop
    by_cases hi : ¬ (nbytes < memsize)
    · rw [if_pos hi]
      simp
    rw [if_neg hi]
    simp only []
    by_cases hn : (port.serial_read trace ((PACKETSIZE + 1) * 2)).1 ≠
        (((PACKETSIZE + 1) * 2 : Nat) : Int)
    · rw [if_pos hn]
      simp only [EXITCODE]
      split_ifs <;> simp
    rw [if_neg hn]
    split
    · simp
    · exact ih _ _ _ _ _

/-- The header loop of `mares_nemo_device_dump` only extends the serial trace. -/
theorem mares_header_extends (port : Port) (events : List DeviceEvent) :
    ∀ (fuel i : Nat) (trace : List SerialEvent) (header : Nat),
      ∃ ext, (mares_header_loop port events fuel i trace header).serial = trace ++ ext := by
  intro fuel
  induction fuel with
  | zero =>
    intro i trace header
    unfold mares_header_loop
    split_ifs <;> exact ⟨[], (List.append_nil _).symm⟩
  | succ fuel ih =>
    intro i trace header
    unfold mares_header_loop
    by_cases hi : ¬ (i < 20)
    · rw [if_pos hi]
      exact ⟨[], (List.append_nil _).symm⟩
    rw [if_neg hi]
    simp only []
    have step : ∀ i2 header2, ∃ ext,
        (mares_header_loop port events fuel i2 (trace ++ [SerialEvent.read 1]) header2).serial =
          trace ++ ext := by
      intro i2 header2
      obtain ⟨ext, h1⟩ := ih i2 (trace ++ [SerialEvent.read 1]) header2
      exact ⟨SerialEvent.read 1 :: ext, by rw [h1, List.append_assoc]; rfl⟩
    split_ifs
    · exact ⟨[SerialEvent.read 1], rfl⟩
    · exact step _ _
    · exact step _ _

/-- The first thing the header loop of `mares_nemo_device_dump` does is a read of
one byte. -/
theorem mares_header_first (port : Port) (events : List DeviceEvent) (fuel : Nat)
    (trace : List SerialEvent) (header : Nat) :
    ∃ ext, (mares_header_loop port events (fuel + 1) 0 trace header).serial =
      trace ++ SerialEvent.read 1 :: ext := by
  unfold mares_header_loop
  rw [if_neg (by decide)]
  simp only []
  have step : ∀ i2 header2, ∃ ext,
      (mares_header_loop port events fuel i2 (trace ++ [SerialEvent.read 1]) header2).serial =
        trace ++ SerialEvent.read 1 :: ext := by
    intro i2 header2
    obtain ⟨ext, h1⟩ := mares_header_extends port events fuel i2
      (trace ++ [SerialEvent.read 1]) header2
    exact ⟨ext, by rw [h1, List.append_assoc]; rfl⟩
  split_ifs
  · exact ⟨[], rfl⟩
  · exact step _ _
  · exact step _ _

/-- The packet loop of `mares_nemo_device_dump` only extends the serial trace. -/
theorem mares_packet_extends (port : Port) (memsize progress_maximum : Nat) :
    ∀ (fuel nbytes progress_current : Nat) (trace : List SerialEvent)
      (events : List DeviceEvent) (buffer : List Nat),
      ∃ ext, (mares_packet_loop port memsize progress_maximum fuel nbytes progress_current trace
        events buffer).trace = trace ++ ext := by
  intro fuel
  induction fuel with
  | zero =>
    intro nbytes progress_current trace events buffer
    unfold mares_packet_loop
    split_ifs <;> exact ⟨[], (List.append_nil _).symm⟩
  | succ fuel ih =>
    intro nbytes progress_current trace events buffer
    unfold mares_packet_loop
    by_cases hi : ¬ (nbytes < memsize)
    · rw [if_pos hi]
      exact ⟨[], (List.append_nil _).symm⟩
    rw [if_neg hi]
    simp only []
    by_cases hn : (port.serial_read trace ((PACKETSIZE + 1) * 2)).1 ≠
        (((PACKETSIZE + 1) * 2 : Nat) : Int)
    · rw [if_pos hn]
      exact ⟨[SerialEvent.read ((PACKETSIZE + 1) * 2)], rfl⟩
    rw [if_neg hn]
    split
    · exact ⟨[SerialEvent.read ((PACKETSIZE + 1) * 2)], rfl⟩
    · obtain ⟨ext, h1⟩ := ih (u32 (nbytes + PACKETSIZE)) (u32 (progress_current + PACKETSIZE))
        (trace ++ [SerialEvent.read ((PACKETSIZE + 1) * 2)])
        (events ++ [DeviceEvent.progress (u32 (progress_current + PACKETSIZE)) progress_maximum])
        (buffer ++ _)
      exact ⟨SerialEvent.read ((PACKETSIZE + 1) * 2) :: ext, by rw [h1, List.append_assoc]; rfl⟩

/-- Claim C22, amended for the loops that check the flag. The header loop of
`uwatec_aladin_device_dump` checks the cancel flag at the head of every
iteration: with the flag set before the call (and the buffer prepared) the
function returns `CANCELLED` without reading from the transport, and every
read of one byte that it makes is made with the flag clear. The function has
no packet loop: the rest of the package is read with one call.
`mares_nemo_device_dump` never looks at the flag: it never returns
`CANCELLED`, and once the buffer is prepared the first thing it does is a read
of one byte, whatever the flag says. -/
theorem dump_cancel_checks (env : DumpEnv) (port : Port) (fuel : Nat) (trace : List SerialEvent)
    (buffer : List Nat) (device : uwatec_aladin_device_t) (systime : Int)
    (other : mares_common_device_t) :
    (device_is_uwatec_aladin device = true → env.dc_buffer_clear = true →
      env.dc_buffer_reserve = true → 0 < fuel → port.cancelled trace = true →
      (uwatec_aladin_device_dump env port device systime fuel trace buffer).run.outcome =
        Outcome.returned CANCELLED ∧
      (uwatec_aladin_device_dump env port device systime fuel trace buffer).run.trace = trace) ∧
    (∀ pre post,
      (uwatec_aladin_device_dump env port device systime fuel trace buffer).run.trace =
        trace ++ pre ++ SerialEvent.read 1 :: post →
      port.cancelled (trace ++ pre) = false) ∧
    (mares_nemo_device_dump env port other fuel trace buffer).outcome ≠
      Outcome.returned CANCELLED ∧
    (other.layout ≠ none → env.dc_buffer_clear = true → env.dc_buffer_reserve = true →
      0 < fuel →
      ∃ rest, (mares_nemo_device_dump env port other fuel trace buffer).trace =
        trace ++ SerialEvent.read 1 :: rest) := by
  refine ⟨?_, ?_, ?_, ?_⟩
  · intro hdev hclear hreserve hfuel hc
    obtain ⟨f, rfl⟩ : ∃ f, fuel = f + 1 := ⟨fuel - 1, by omega⟩
    unfold uwatec_aladin_device_dump
    rw [if_neg (not_not.mpr hdev), if_neg (not_not.mpr hclear), if_neg (not_not.mpr hreserve)]
    simp only []
    rw [aladin_header_cancelled port f 0 trace _ _ (by decide) hc]
    exact ⟨rfl, rfl⟩
  · intro pre post h
    obtain ⟨ext, h1, h2⟩ := aladin_dump_checked env port device systime fuel trace buffer
    rw [h1, List.append_assoc] at h
    exact h2 pre post (List.append_cancel_left h)
  · unfold mares_nemo_device_dump
    cases hl : other.layout with
    | none => simp
    | some layout =>
      simp only []
      by_cases h1 : ¬ env.dc_buffer_clear = true
      · rw [if_pos h1]
        simp
      rw [if_neg h1]
      by_cases h2 : ¬ env.dc_buffer_reserve = true
      · rw [if_pos h2]
        simp
      rw [if_neg h2]
      have hh := mares_header_status port [DeviceEvent.progress 0 (u32 (layout.memsize + 20))]
        fuel 0 trace 0x00
      rcases hs : mares_header_loop port [DeviceEvent.progress 0 (u32 (layout.memsize + 20))]
        fuel 0 trace 0x00 with ⟨t, e, a⟩ | ⟨o, t, e⟩
      · simp only []
        exact mares_packet_status port _ _ _ _ _ _ _ _
      · rw [hs] at hh
        simp only []
        intro e2
        apply hh
        simp only [DumpStep.ended]
        rw [e2]
  · intro hlayout hclear hreserve hfuel
    obtain ⟨f, rfl⟩ : ∃ f, fuel = f + 1 := ⟨fuel - 1, by omega⟩
    unfold mares_nemo_device_dump
    cases hl : other.layout with
    | none => exact absurd hl hlayout
    | some layout =>
      simp only []
      rw [if_neg (not_not.mpr hclear), if_neg (not_not.mpr hreserve)]
      obtain ⟨ext, hh⟩ := mares_header_first port
        [DeviceEvent.progress 0 (u32 (layout.memsize + 20))] f trace 0x00
      rcases hs : mares_header_loop port [DeviceEvent.progress 0 (u32 (layout.memsize + 20))]
        (f + 1) 0 trace 0x00 with ⟨t, e, a⟩ | ⟨o, t, e⟩
      · rw [hs] at hh
        have hh : t = trace ++ SerialEvent.read 1 :: ext := hh
        simp only []
        obtain ⟨ext2, h2⟩ := mares_packet_extends port layout.memsize (u32 (layout.memsize + 20))
          (f + 1) 0 (u32 (0 + 20)) t
          (e ++ [DeviceEvent.progress (u32 (0 + 20)) (u32 (layout.memsize + 20))]) []
        refine ⟨ext ++ ext2, ?_⟩
        rw [hh] at h2
        rw [hh]
        simp only [List.append_assoc, List.cons_append] at h2 ⊢
        exact h2
      · rw [hs] at hh
        exact ⟨ext, hh⟩

/-- The C22 theorem at an Aladin device and a Mares Nemo device with the cancel
flag set: the Aladin dump returns `CANCELLED` and has read nothing, the Nemo
dump starts with a read. -/
theorem dump_cancel_checks_witness :
    ((uwatec_aladin_device_dump dump_env nemo_stream ⟨⟨uwatec_aladin_device_backend⟩, 0, 0⟩ (-1)
        600 [] []).run.outcome = Outcome.returned CANCELLED ∧
      (uwatec_aladin_device_dump dump_env nemo_stream ⟨⟨uwatec_aladin_device_backend⟩, 0, 0⟩ (-1)
        600 [] []).run.trace = []) ∧
    ∃ rest, (mares_nemo_device_dump dump_env nemo_stream nemo_device 600 [] []).trace =
      [] ++ SerialEvent.read 1 :: rest :=
  ⟨(dump_cancel_checks dump_env nemo_stream 600 [] [] ⟨⟨uwatec_aladin_device_backend⟩, 0, 0⟩ (-1)
      nemo_device).1 (by decide) rfl rfl (by decide) rfl,
    (dump_cancel_checks dump_env nemo_stream 600 [] [] ⟨⟨uwatec_aladin_device_backend⟩, 0, 0⟩ (-1)
      nemo_device).2.2.2 (by decide) rfl rfl (by decide)⟩

/-- Counterexample to C22. The cancel flag of a Mares Nemo device is set before the
call and stays set, and the data stream is in order. `mares_nemo_device_dump`
does not return `CANCELLED`: it makes its 20 reads of one byte and its 512
reads of a double packet and returns `SUCCESS` with a buffer of `0x4000`
bytes. -/
theorem mares_cancel_counterexample :
    nemo_stream.cancelled [] = true ∧
    (mares_nemo_device_dump dump_env nemo_stream nemo_device 600 [] []).outcome =
      Outcome.returned SUCCESS ∧
    (mares_nemo_device_dump dump_env nemo_stream nemo_device 600 [] []).trace =
      List.replicate 20 (SerialEvent.read 1) ++
        List.replicate 512 (SerialEvent.read ((PACKETSIZE + 1) * 2)) ∧
    (mares_nemo_device_dump dump_env nemo_stream nemo_device 600 [] []).buffer.length
      = 0x4000 := by
  decide!

/-! ## The Suunto dive loop, block by block: properties -/

/-- The run is the part in front of the dive loop, then the dive loop. -/
theorem suunto_foreach_eq (env : SuuntoEnv) (device : suunto_common2_device_t) (fuel : Nat) :
    suunto_common2_device_foreach env device fuel =
      match suunto_foreach_head env fuel with
      | SuuntoStep.stop r => r
      | SuuntoStep.next h =>
        suunto_dive_loop env device h.model h.progress_maximum fuel fuel fuel h.state := by
  unfold suunto_common2_device_foreach suunto_foreach_head
  simp only []
  split_ifs <;> rfl

/-- One iteration of the dive loop is the reading of the block, then the checks
and the delivery. -/
theorem suunto_dive_eq (env : SuuntoEnv) (device : suunto_common2_device_t)
    (model progress_maximum retryfuel readfuel : Nat) (s : SuuntoState) :
    suunto_dive env device model progress_maximum retryfuel readfuel s =
      match suunto_block env progress_maximum retryfuel readfuel s with
      | SuuntoStep.stop r => SuuntoStep.stop r
      | SuuntoStep.next b => suunto_finish env device model s b := by
  unfold suunto_dive suunto_block
  by_cases h1 : ¬ (ringbuffer_defined s.current Suunto.RB_PROFILE_BEGIN Suunto.RB_PROFILE_END ∧
      ringbuffer_defined s.previous Suunto.RB_PROFILE_BEGIN Suunto.RB_PROFILE_END)
  · rw [if_pos h1, if_pos h1]
  rw [if_neg h1, if_neg h1]
  simp only []
  by_cases h2 : Suunto.RB_PROFILE_DISTANCE s.current s.previous true < 4 ∨
      Suunto.RB_PROFILE_DISTANCE s.current s.previous true > s.remaining
  · rw [if_pos h2, if_pos h2]
  rw [if_neg h2, if_neg h2]
  rcases suunto_dive_read env progress_maximum s.remaining
      (Suunto.RB_PROFILE_DISTANCE s.current s.previous true) retryfuel readfuel
      { data := s.data, nbytes := s.available, offset := s.offset, address := s.address,
        progress_current := s.progress_current, trace := s.trace } with r | r
  · simp only []
    by_cases h3 : ¬ r.data.readable
        (r.offset + usub r.nbytes (Suunto.RB_PROFILE_DISTANCE s.current s.previous true)) 4 = true
    · rw [if_pos h3, if_pos h3]
    rw [if_neg h3, if_neg h3]
    rfl
  · rfl

/-! ## The Suunto engine invokes the callback in the dive loop only -/

/-- The callback invocations of a trace in two parts. -/
theorem suunto_dives_append (t u : List SuuntoEvent) :
    suunto_dives (t ++ u) = suunto_dives t ++ suunto_dives u := by
  induction t with
  | nil => rfl
  | cons e t ih => cases e <;> simp [suunto_dives, ih]

/-- The retry loop of `suunto_common2_transfer` does not invoke the callback. -/
theorem packet_retry_dives
    (packet : List SuuntoEvent → List Nat → Nat → Nat → device_status_t × List Nat)
    (command : List Nat) (csize asize size : Nat) :
    ∀ (fuel nretries : Nat) (trace : List SuuntoEvent)
      (r : device_status_t × List SuuntoEvent × List Nat),
      suunto_packet_retry packet command csize asize size fuel nretries trace = some r →
      suunto_dives r.2.1 = suunto_dives trace := by
  intro fuel
  induction fuel with
  | zero => intro nretries trace r h; simp [suunto_packet_retry] at h
  | succ fuel ih =>
    intro nretries trace r h
    have h1 : suunto_dives (trace ++ [SuuntoEvent.packet (command.take csize) asize size])
        = suunto_dives trace := by
      simp [suunto_dives_append, suunto_dives]
    simp only [suunto_packet_retry] at h
    split_ifs at h
    all_goals first
      | (cases h; exact h1)
      | (rw [ih _ _ r h]; exact h1)

/-- `suunto_common2_transfer` does not invoke the callback. -/
theorem suunto_transfer_dives (env : SuuntoEnv) (fuel : Nat) (trace : List SuuntoEvent)
    (command : List Nat) (csize : Nat) (answer : List Nat) (asize size : Nat) :
    suunto_dives (suunto_common2_transfer env fuel trace command csize answer asize size).trace
      = suunto_dives trace := by
  unfold suunto_common2_transfer
  by_cases h : asize ≥ u32 (size + 4)
  · simp only [h, not_true_eq_false, if_false]
    rcases hp : env.packet with _ | packet
    · rfl
    · simp only
      rcases hr : suunto_packet_retry packet command csize asize size fuel 0 trace with _ | r
      · rfl
      · exact packet_retry_dives packet command csize asize size fuel 0 trace r hr
  · simp only [h, not_false_eq_true, if_true]

/-- `suunto_common2_device_version` does not invoke the callback. -/
theorem suunto_version_dives (env : SuuntoEnv) (fuel : Nat) (trace : List SuuntoEvent)
    (data : List Nat) (size : Nat) :
    suunto_dives (suunto_common2_device_version env fuel trace data size).trace
      = suunto_dives trace := by
  unfold suunto_common2_device_version
  simp only []
  split_ifs
  all_goals first
    | rfl
    | exact suunto_transfer_dives env fuel trace _ _ _ _ _

/-- The loop of `suunto_common2_device_read` does not invoke the callback. -/
theorem suunto_read_loop_dives (env : SuuntoEnv) (size retryfuel : Nat) :
    ∀ (fuel : Nat) (trace : List SuuntoEvent) (nbytes address : Nat) (data : List Nat),
      suunto_dives (suunto_read_loop env size retryfuel fuel trace nbytes address data).trace
        = suunto_dives trace := by
  intro fuel
  induction fuel with
  | zero =>
    intro trace nbytes address data
    unfold suunto_read_loop
    split_ifs <;> rfl
  | succ fuel ih =>
    intro trace nbytes address data
    unfold suunto_read_loop
    simp only []
    split_ifs
    all_goals first
      | rfl
      | exact suunto_transfer_dives env retryfuel trace _ _ _ _ _
      | (rw [ih]; exact suunto_transfer_dives env retryfuel trace _ _ _ _ _)

/-- `suunto_common2_device_read` does not invoke the callback. -/
theorem suunto_read_dives (env : SuuntoEnv) (fuel : Nat) (trace : List SuuntoEvent)
    (address size : Nat) :
    suunto_dives (suunto_common2_device_read env fuel trace address size).trace
      = suunto_dives trace :=
  suunto_read_loop_dives env size fuel fuel trace 0 address []

/-- The packet loop of one dive does not invoke the callback. -/
theorem suunto_dive_read_dives (env : SuuntoEnv) (pm remaining size retryfuel : Nat) :
    ∀ (fuel : Nat) (s : SuuntoReadState),
      match suunto_dive_read env pm remaining size retryfuel fuel s with
      | SuuntoStep.stop r => suunto_dives r.trace = suunto_dives s.trace
      | SuuntoStep.next s' => suunto_dives s'.trace = suunto_dives s.trace := by
  intro fuel
  induction fuel with
  | zero =>
    intro s
    unfold suunto_dive_read
    split_ifs <;> rfl
  | succ fuel ih =>
    intro s
    rw [suunto_dive_read]
    by_cases hc : s.nbytes < size
    · simp only [hc, not_true_eq_false, if_false]
      generalize wrap_point Suunto.RB_PROFILE_BEGIN Suunto.RB_PROFILE_END s.address = address
      generalize suunto_packet_size address s.nbytes remaining = len
      generalize suunto_extra len = extra
      have hr := suunto_read_dives env retryfuel s.trace (usub (usub address len) extra)
        (u32 (len + extra))
      generalize suunto_common2_device_read env retryfuel s.trace (usub (usub address len) extra)
        (u32 (len + extra)) = r at hr
      by_cases c1 : r.outcome ≠ Outcome.returned SUCCESS
      · rw [if_pos c1]; exact hr
      rw [if_neg c1]
      by_cases c2 : usub s.offset len < extra ∨
          ¬ s.data.writable (usub s.offset len - extra) (u32 (len + extra)) = true
      · rw [if_pos c2]; exact hr
      rw [if_neg c2]
      have h2 := ih
        { data := s.data.fill (usub s.offset len - extra) (u32 (len + extra)) r.answer,
          nbytes := u32 (s.nbytes + len), offset := usub s.offset len,
          address := usub address len, progress_current := u32 (s.progress_current + len),
          trace := r.trace ++ [SuuntoEvent.progress (u32 (s.progress_current + len)) pm] }
      have h3 : suunto_dives
          (r.trace ++ [SuuntoEvent.progress (u32 (s.progress_current + len)) pm]) =
          suunto_dives s.trace := by
        rw [suunto_dives_append, hr]
        simp [suunto_dives]
      revert h2
      generalize suunto_dive_read env pm remaining size retryfuel fuel _ = res
      intro h2
      cases res with
      | next s' => exact h2.trans h3
      | stop r' => exact h2.trans h3
    · simp only [hc, not_false_eq_true, if_true]

/-- The reading of a dive block does not invoke the callback. -/
theorem suunto_block_dives (env : SuuntoEnv) (pm retryfuel readfuel : Nat) (s : SuuntoState) :
    match suunto_block env pm retryfuel readfuel s with
    | SuuntoStep.stop r => suunto_dives r.trace = suunto_dives s.trace
    | SuuntoStep.next b => suunto_dives b.read.trace = suunto_dives s.trace := by
  unfold suunto_block
  by_cases h1 : ¬ (ringbuffer_defined s.current Suunto.RB_PROFILE_BEGIN Suunto.RB_PROFILE_END ∧
      ringbuffer_defined s.previous Suunto.RB_PROFILE_BEGIN Suunto.RB_PROFILE_END)
  · rw [if_pos h1]
  rw [if_neg h1]
  simp only []
  by_cases h2 : Suunto.RB_PROFILE_DISTANCE s.current s.previous true < 4 ∨
      Suunto.RB_PROFILE_DISTANCE s.current s.previous true > s.remaining
  · rw [if_pos h2]
  rw [if_neg h2]
  have hd := suunto_dive_read_dives env pm s.remaining
      (Suunto.RB_PROFILE_DISTANCE s.current s.previous true) retryfuel readfuel
      { data := s.data, nbytes := s.available, offset := s.offset, address := s.address,
        progress_current := s.progress_current, trace := s.trace }
  revert hd
  generalize suunto_dive_read env pm s.remaining
      (Suunto.RB_PROFILE_DISTANCE s.current s.previous true) retryfuel readfuel
      { data := s.data, nbytes := s.available, offset := s.offset, address := s.address,
        progress_current := s.progress_current, trace := s.trace } = res
  intro hd
  cases res with
  | stop r => exact hd
  | next r =>
    simp only []
    by_cases h3 : ¬ r.data.readable
        (r.offset + usub r.nbytes (Suunto.RB_PROFILE_DISTANCE s.current s.previous true)) 4 = true
    · rw [if_pos h3]
      exact hd
    · rw [if_neg h3]
      exact hd

/-- The part of `suunto_common2_device_foreach` in front of the dive loop does not
invoke the callback. -/
theorem suunto_head_dives (env : SuuntoEnv) (fuel : Nat) :
    match suunto_foreach_head env fuel with
    | SuuntoStep.stop r => suunto_dives r.trace = []
    | SuuntoStep.next h => suunto_dives h.state.trace = [] := by
  unfold suunto_foreach_head
  simp only []
  have e1 := suunto_version_dives env fuel [SuuntoEvent.progress 0 suunto_progress_maximum]
    (List.replicate SZ_VERSION 0) SZ_VERSION
  have e1 : suunto_dives (suunto_common2_device_version env fuel
      [SuuntoEvent.progress 0 suunto_progress_maximum]
      (List.replicate SZ_VERSION 0) SZ_VERSION).trace = [] := by
    rw [e1]
    rfl
  revert e1
  generalize suunto_common2_device_version env fuel
    [SuuntoEvent.progress 0 suunto_progress_maximum] (List.replicate SZ_VERSION 0) SZ_VERSION = r1
  intro e1
  by_cases c1 : r1.outcome ≠ Outcome.returned SUCCESS
  · rw [if_pos c1]
    exact e1
  rw [if_neg c1]
  have e2 := suunto_read_dives env fuel
    (r1.trace ++ [SuuntoEvent.progress (u32 (0 + SZ_VERSION)) suunto_progress_maximum]) 0x0023
    (if SZ_MINIMUM > 4 then SZ_MINIMUM else 4)
  have e2 : suunto_dives (suunto_common2_device_read env fuel
      (r1.trace ++ [SuuntoEvent.progress (u32 (0 + SZ_VERSION)) suunto_progress_maximum]) 0x0023
      (if SZ_MINIMUM > 4 then SZ_MINIMUM else 4)).trace = [] := by
    rw [e2, suunto_dives_append, e1]
    rfl
  revert e2
  generalize suunto_common2_device_read env fuel
      (r1.trace ++ [SuuntoEvent.progress (u32 (0 + SZ_VERSION)) suunto_progress_maximum]) 0x0023
      (if SZ_MINIMUM > 4 then SZ_MINIMUM else 4) = r2
  intro e2
  by_cases c2 : r2.outcome ≠ Outcome.returned SUCCESS
  · rw [if_pos c2]
    exact e2
  rw [if_neg c2]
  generalize hd : SuuntoEvent.devinfo (r1.answer.getD 0 0) (array_uint24_be (r1.answer.drop 1))
    (array_uint32_be r2.answer) = devinfo
  generalize hp : SuuntoEvent.progress
    (u32 (u32 (0 + SZ_VERSION) + (if SZ_MINIMUM > 4 then SZ_MINIMUM else 4)))
    suunto_progress_maximum = progress
  have e3 := suunto_read_dives env fuel (r2.trace ++ [progress] ++ [devinfo]) 0x0190 8
  have e3 : suunto_dives (suunto_common2_device_read env fuel
      (r2.trace ++ [progress] ++ [devinfo]) 0x0190 8).trace = [] := by
    rw [e3, suunto_dives_append, suunto_dives_append, e2, ← hd, ← hp]
    rfl
  revert e3
  generalize suunto_common2_device_read env fuel (r2.trace ++ [progress] ++ [devinfo]) 0x0190 8
    = r3
  intro e3
  by_cases c3 : r3.outcome ≠ Outcome.returned SUCCESS
  · rw [if_pos c3]
    exact e3
  rw [if_neg c3]
  by_cases c4 : ¬ (ringbuffer_defined (array_uint16_le (List.drop 6 r3.answer))
        Suunto.RB_PROFILE_BEGIN Suunto.RB_PROFILE_END = true ∧
      ringbuffer_defined (array_uint16_le (List.drop 4 r3.answer))
        Suunto.RB_PROFILE_BEGIN Suunto.RB_PROFILE_END = true)
  · rw [if_pos c4]
    exact e3
  · rw [if_neg c4]
    show suunto_dives (r3.trace ++ [_]) = []
    rw [suunto_dives_append, e3]
    rfl

/-! ## Iterations of the Suunto dive loop -/

/-- The loop starts with `previous = end` and `current = last`. -/
theorem suunto_head_state (env : SuuntoEnv) (fuel : Nat) (h : SuuntoHead)
    (hh : suunto_foreach_head env fuel = SuuntoStep.next h) :
    h.state.previous = h.end_ ∧ h.state.current = h.last := by
  unfold suunto_foreach_head at hh
  simp only [] at hh
  generalize suunto_common2_device_version env fuel
    [SuuntoEvent.progress 0 suunto_progress_maximum] (List.replicate SZ_VERSION 0) SZ_VERSION = r1
    at hh
  by_cases c1 : r1.outcome ≠ Outcome.returned SUCCESS
  · rw [if_pos c1] at hh
    cases hh
  rw [if_neg c1] at hh
  generalize suunto_common2_device_read env fuel
      (r1.trace ++ [SuuntoEvent.progress (u32 (0 + SZ_VERSION)) suunto_progress_maximum]) 0x0023
      (if SZ_MINIMUM > 4 then SZ_MINIMUM else 4) = r2 at hh
  by_cases c2 : r2.outcome ≠ Outcome.returned SUCCESS
  · rw [if_pos c2] at hh
    cases hh
  rw [if_neg c2] at hh
  generalize suunto_common2_device_read env fuel _ 0x0190 8 = r3 at hh
  by_cases c3 : r3.outcome ≠ Outcome.returned SUCCESS
  · rw [if_pos c3] at hh
    cases hh
  rw [if_neg c3] at hh
  by_cases c4 : ¬ (ringbuffer_defined (array_uint16_le (List.drop 6 r3.answer))
        Suunto.RB_PROFILE_BEGIN Suunto.RB_PROFILE_END = true ∧
      ringbuffer_defined (array_uint16_le (List.drop 4 r3.answer))
        Suunto.RB_PROFILE_BEGIN Suunto.RB_PROFILE_END = true)
  · rw [if_pos c4] at hh
    cases hh
  rw [if_neg c4] at hh
  cases hh
  exact ⟨rfl, rfl⟩

/-- What an iteration of the dive loop that goes on has done: the block was read,
its `next` field equals `previous`, the bytes at `p + fp_offset` differ from
the fingerprint, the pointers moved on, and the callback, if there is one, got
the bytes at `p + 4` and the bytes at `p + fp_offset`. -/
theorem suunto_dive_next (env : SuuntoEnv) (device : suunto_common2_device_t)
    (model pm retryfuel readfuel : Nat) (s s' : SuuntoState) (stop : Bool)
    (h : suunto_dive env device model pm retryfuel readfuel s = SuuntoStep.next (s', stop)) :
    ∃ b, suunto_block env pm retryfuel readfuel s = SuuntoStep.next b ∧
      b.next = s.previous ∧ s'.previous = s.current ∧ s'.current = b.prev ∧
      b.read.data.readable (b.p + suunto_fp_offset model) device.fingerprint.length = true ∧
      b.read.data.load (b.p + suunto_fp_offset model) device.fingerprint.length
        ≠ device.fingerprint ∧
      ((env.callback = none ∧ s'.trace = b.read.trace ∧ stop = false) ∨
        (∃ cb, env.callback = some cb ∧
          b.read.data.readable (b.p + 4) (usub b.size 4) = true ∧
          s'.trace = b.read.trace ++ [SuuntoEvent.dive
            (b.read.data.load (b.p + 4) (usub b.size 4))
            (b.read.data.load (b.p + suunto_fp_offset model) device.fingerprint.length)] ∧
          stop = ! cb b.read.trace (b.read.data.load (b.p + 4) (usub b.size 4))
            (b.read.data.load (b.p + suunto_fp_offset model) device.fingerprint.length))) := by
  rw [suunto_dive_eq] at h
  rcases hb : suunto_block env pm retryfuel readfuel s with b | r
  swap
  · rw [hb] at h
    cases h
  rw [hb] at h
  simp only [] at h
  refine ⟨b, rfl, ?_⟩
  unfold suunto_finish at h
  by_cases c1 : b.next ≠ s.previous
  · rw [if_pos c1] at h
    cases h
  rw [if_neg c1] at h
  simp only [] at h
  have hoff : (if model = 0x15 then u32 (FP_OFFSET + 6) else FP_OFFSET) = suunto_fp_offset model :=
    rfl
  rw [hoff] at h
  by_cases c2 : ¬ b.read.data.readable (b.p + suunto_fp_offset model)
      device.fingerprint.length = true
  · rw [if_pos c2] at h
    cases h
  rw [if_neg c2] at h
  by_cases c3 : b.read.data.load (b.p + suunto_fp_offset model) device.fingerprint.length
      = device.fingerprint
  · rw [if_pos c3] at h
    cases h
  rw [if_neg c3] at h
  refine ⟨not_not.mp c1, ?_⟩
  rcases hc : env.callback with _ | cb
  · rw [hc] at h
    simp only [SuuntoStep.next.injEq, Prod.mk.injEq] at h
    obtain ⟨h1, h2⟩ := h
    subst h1
    exact ⟨rfl, rfl, not_not.mp c2, c3, Or.inl ⟨rfl, rfl, h2.symm⟩⟩
  · rw [hc] at h
    simp only [] at h
    by_cases c4 : ¬ b.read.data.readable (b.p + 4) (usub b.size 4) = true
    · rw [if_pos c4] at h
      cases h
    rw [if_neg c4] at h
    simp only [SuuntoStep.next.injEq, Prod.mk.injEq] at h
    obtain ⟨h1, h2⟩ := h
    subst h1
    exact ⟨rfl, rfl, not_not.mp c2, c3, Or.inr ⟨cb, rfl, not_not.mp c4, rfl, h2.symm⟩⟩

/-- When the checks behind the reading of a block end the run, the trace is the
one of the reading. -/
theorem suunto_finish_stop (env : SuuntoEnv) (device : suunto_common2_device_t) (model : Nat)
    (s : SuuntoState) (b : SuuntoBlock) (r : SuuntoRun)
    (h : suunto_finish env device model s b = SuuntoStep.stop r) :
    b.read.trace = r.trace := by
  unfold suunto_finish at h
  by_cases c1 : b.next ≠ s.previous
  · rw [if_pos c1] at h
    cases h
    rfl
  rw [if_neg c1] at h
  simp only [] at h
  have hoff : (if model = 0x15 then u32 (FP_OFFSET + 6) else FP_OFFSET) = suunto_fp_offset model :=
    rfl
  rw [hoff] at h
  by_cases c2 : ¬ b.read.data.readable (b.p + suunto_fp_offset model)
      device.fingerprint.length = true
  · rw [if_pos c2] at h
    cases h
    rfl
  rw [if_neg c2] at h
  by_cases c3 : b.read.data.load (b.p + suunto_fp_offset model) device.fingerprint.length
      = device.fingerprint
  · rw [if_pos c3] at h
    cases h
    rfl
  rw [if_neg c3] at h
  rcases hc : env.callback with _ | cb
  · rw [hc] at h
    cases h
  · rw [hc] at h
    simp only [] at h
    by_cases c4 : ¬ b.read.data.readable (b.p + 4) (usub b.size 4) = true
    · rw [if_pos c4] at h
      cases h
      rfl
    rw [if_neg c4] at h
    cases h

/-- An iteration of the dive loop that ends the run leaves the callback
invocations as they were when it started. -/
theorem suunto_dive_stop_dives (env : SuuntoEnv) (device : suunto_common2_device_t)
    (model pm retryfuel readfuel : Nat) (s : SuuntoState) (r : SuuntoRun)
    (h : suunto_dive env device model pm retryfuel readfuel s = SuuntoStep.stop r) :
    suunto_dives r.trace = suunto_dives s.trace := by
  rw [suunto_dive_eq] at h
  have hd := suunto_block_dives env pm retryfuel readfuel s
  rcases hb : suunto_block env pm retryfuel readfuel s with b | r2
  · rw [hb] at h hd
    simp only [] at h hd
    rw [← suunto_finish_stop env device model s b r h]
    exact hd
  · rw [hb] at h hd
    simp only [] at h hd
    cases h
    exact hd

/-- The state after `k + 1` iterations comes from the state after `k` iterations
by one iteration that goes on. -/
theorem suunto_steps_succ (env : SuuntoEnv) (device : suunto_common2_device_t)
    (model pm retryfuel readfuel : Nat) (s0 s' : SuuntoState) (k : Nat)
    (h : suunto_steps env device model pm retryfuel readfuel s0 (k + 1) = some s') :
    ∃ s, suunto_steps env device model pm retryfuel readfuel s0 k = some s ∧
      s.remaining ≠ 0 ∧
      suunto_dive env device model pm retryfuel readfuel s = SuuntoStep.next (s', false) := by
  unfold suunto_steps at h
  rcases hs : suunto_steps env device model pm retryfuel readfuel s0 k with _ | s
  · rw [hs] at h
    cases h
  rw [hs] at h
  simp only [] at h
  by_cases c : ¬ (s.remaining ≠ 0)
  · rw [if_pos c] at h
    cases h
  rw [if_neg c] at h
  refine ⟨s, rfl, not_not.mp c, ?_⟩
  rcases hd : suunto_dive env device model pm retryfuel readfuel s with ⟨s2, stop⟩ | r
  · rw [hd] at h
    cases stop with
    | false =>
      simp only [Option.some.injEq] at h
      rw [h]
    | true => cases h
  · rw [hd] at h
    cases h

/-- The dive loop, started with enough fuel, gets to the state after `k`
iterations and goes on from there. -/
theorem suunto_steps_loop (env : SuuntoEnv) (device : suunto_common2_device_t)
    (model pm retryfuel readfuel : Nat) (s0 : SuuntoState) :
    ∀ (k : Nat) (s : SuuntoState),
      suunto_steps env device model pm retryfuel readfuel s0 k = some s →
      ∀ fuel, k ≤ fuel →
        suunto_dive_loop env device model pm retryfuel readfuel fuel s0 =
          suunto_dive_loop env device model pm retryfuel readfuel (fuel - k) s := by
  intro k
  induction k with
  | zero =>
    intro s h fuel _
    simp only [suunto_steps, Option.some.injEq] at h
    rw [h]
    rfl
  | succ k ih =>
    intro s' h fuel hf
    obtain ⟨s, h1, h2, h3⟩ := suunto_steps_succ env device model pm retryfuel readfuel s0 s' k h
    rw [ih s h1 fuel (by omega)]
    obtain ⟨f, hf2⟩ : ∃ f, fuel - k = f + 1 := ⟨fuel - k - 1, by omega⟩
    have hf3 : fuel - (k + 1) = f := by omega
    rw [hf2, hf3]
    conv => lhs; unfold suunto_dive_loop
    rw [if_neg (not_not.mpr h2)]
    simp only [h3]
    rfl

/-- Every iteration invokes the callback at most once. -/
theorem suunto_steps_dives (env : SuuntoEnv) (device : suunto_common2_device_t)
    (model pm retryfuel readfuel : Nat) (s0 : SuuntoState) :
    ∀ (k : Nat) (s : SuuntoState),
      suunto_steps env device model pm retryfuel readfuel s0 k = some s →
      (suunto_dives s.trace).length ≤ (suunto_dives s0.trace).length + k := by
  intro k
  induction k with
  | zero =>
    intro s h
    simp only [suunto_steps, Option.some.injEq] at h
    rw [h]
    exact Nat.le_refl _
  | succ k ih =>
    intro s' h
    obtain ⟨s, h1, _, h3⟩ := suunto_steps_succ env device model pm retryfuel readfuel s0 s' k h
    have h4 := ih s h1
    obtain ⟨b, hb, _, _, _, _, _, hcb⟩ :=
      suunto_dive_next env device model pm retryfuel readfuel s s' false h3
    have hd := suunto_block_dives env pm retryfuel readfuel s
    rw [hb] at hd
    simp only [] at hd
    rcases hcb with ⟨_, ht, _⟩ | ⟨cb, _, _, ht, _⟩
    · rw [ht, hd]
      omega
    · rw [ht, suunto_dives_append, hd]
      simp only [suunto_dives, List.length_append, List.length_singleton]
      omega

/-! ## The Suunto continuity check -/

/-- What `suunto_iteration` stands for. -/
theorem suunto_iteration_iff (env : SuuntoEnv) (device : suunto_common2_device_t) (fuel k : Nat)
    (h : SuuntoHead) (s : SuuntoState) (b : SuuntoBlock) :
    suunto_iteration env device fuel k = some (h, s, b) ↔
      suunto_foreach_head env fuel = SuuntoStep.next h ∧
      suunto_steps env device h.model h.progress_maximum fuel fuel h.state k = some s ∧
      s.remaining ≠ 0 ∧
      suunto_block env h.progress_maximum fuel fuel s = SuuntoStep.next b := by
  unfold suunto_iteration
  rcases hh : suunto_foreach_head env fuel with h2 | r
  swap
  · simp
  simp only []
  rcases hs : suunto_steps env device h2.model h2.progress_maximum fuel fuel h2.state k with _ | s2
  · simp only [SuuntoStep.next.injEq]
    constructor
    · intro e
      cases e
    · rintro ⟨e1, e2, _⟩
      subst e1
      rw [hs] at e2
      cases e2
  simp only []
  by_cases c : ¬ (s2.remaining ≠ 0)
  · rw [if_pos c]
    simp only [SuuntoStep.next.injEq]
    constructor
    · intro e
      cases e
    · rintro ⟨e1, e2, e3, _⟩
      subst e1
      rw [hs] at e2
      cases e2
      exact absurd e3 c
  rw [if_neg c]
  rcases hb : suunto_block env h2.progress_maximum fuel fuel s2 with b2 | r
  · simp only [Option.some.injEq, Prod.mk.injEq, SuuntoStep.next.injEq]
    constructor
    · rintro ⟨e1, e2, e3⟩
      subst e1 e2 e3
      exact ⟨rfl, hs, not_not.mp c, hb⟩
    · rintro ⟨e1, e2, _, e4⟩
      subst e1
      rw [hs] at e2
      cases e2
      rw [hb] at e4
      cases e4
      exact ⟨rfl, rfl, rfl⟩
  · simp only [SuuntoStep.next.injEq]
    constructor
    · intro e
      cases e
    · rintro ⟨e1, e2, _, e4⟩
      subst e1
      rw [hs] at e2
      cases e2
      rw [hb] at e4
      cases e4

/-- A view is the view of an iteration. -/
theorem suunto_view_some (env : SuuntoEnv) (device : suunto_common2_device_t) (fuel k : Nat)
    (v : SuuntoView) (hv : suunto_view env device fuel k = some v) :
    ∃ h s b, suunto_iteration env device fuel k = some (h, s, b) ∧
      v.last = h.last ∧ v.end_ = h.end_ ∧ v.previous = s.previous ∧ v.current = s.current ∧
      v.before = s.trace ∧ v.size = b.size ∧ v.trace = b.read.trace ∧ v.prev = b.prev ∧
      v.next = b.next ∧
      v.fingerprint =
        (if b.read.data.readable (b.p + suunto_fp_offset h.model) device.fingerprint.length
          then some (b.read.data.load (b.p + suunto_fp_offset h.model) device.fingerprint.length)
          else none) ∧
      v.data =
        (if b.read.data.readable (b.p + 4) (usub b.size 4)
          then some (b.read.data.load (b.p + 4) (usub b.size 4))
          else none) := by
  unfold suunto_view at hv
  rcases hi : suunto_iteration env device fuel k with _ | ⟨h, s, b⟩
  · rw [hi] at hv
    cases hv
  rw [hi, Option.map_some'] at hv
  have hv2 := Option.some.inj hv
  rw [← hv2]
  refine ⟨h, s, b, rfl, rfl, rfl, rfl, rfl, rfl, rfl, rfl, rfl, rfl, rfl, ?_⟩
  dsimp only

/-- An iteration has a view. -/
theorem suunto_view_of (env : SuuntoEnv) (device : suunto_common2_device_t) (fuel k : Nat)
    (h : SuuntoHead) (s : SuuntoState) (b : SuuntoBlock)
    (hi : suunto_iteration env device fuel k = some (h, s, b)) :
    ∃ v, suunto_view env device fuel k = some v ∧ v.previous = s.previous ∧ v.prev = b.prev ∧
      v.next = b.next := by
  unfold suunto_view
  rw [hi]
  exact ⟨_, rfl, rfl, rfl, rfl⟩

/-- Claim C27, amended for the pointer that the `next` field is compared with. In
`suunto_common2_device_foreach` the `next` field of every dive block must equal
the variable `previous`: that is the header pointer `end` for the first block,
the header pointer `last` for the second block, and from the third block on
the `prev` field of the block read two iterations earlier (not the `prev`
field of the block read just before, which is where the block itself begins).
A loop that goes on to iteration `k + 1` has found the two equal in iteration
`k`; when they differ in iteration `k`, the engine returns `ERROR` with the
trace it had when the block was read: the block is not delivered, and at most
`k` dives have been delivered. -/
theorem suunto_continuity (env : SuuntoEnv) (device : suunto_common2_device_t) (fuel : Nat) :
    (∀ v, suunto_view env device fuel 0 = some v → v.previous = v.end_) ∧
    (∀ v, suunto_view env device fuel 1 = some v → v.previous = v.last) ∧
    (∀ k v, suunto_view env device fuel (k + 2) = some v →
      ∃ w, suunto_view env device fuel k = some w ∧ v.previous = w.prev) ∧
    (∀ k w, suunto_view env device fuel (k + 1) = some w →
      ∃ v, suunto_view env device fuel k = some v ∧ v.next = v.previous) ∧
    (∀ k v, k < fuel → suunto_view env device fuel k = some v → v.next ≠ v.previous →
      suunto_common2_device_foreach env device fuel = ⟨Outcome.returned ERROR, v.trace, []⟩ ∧
      suunto_dives v.trace = suunto_dives v.before ∧
      (suunto_dives v.trace).length ≤ k) := by
  -- the iteration in front of an iteration
  have back : ∀ k h s b, suunto_iteration env device fuel (k + 1) = some (h, s, b) →
      ∃ s0 b0, suunto_iteration env device fuel k = some (h, s0, b0) ∧
        b0.next = s0.previous ∧ s.previous = s0.current ∧ s.current = b0.prev := by
    intro k h s b hi
    obtain ⟨h1, h2, _, _⟩ := (suunto_iteration_iff env device fuel (k + 1) h s b).1 hi
    obtain ⟨s0, h5, h6, h7⟩ := suunto_steps_succ env device h.model h.progress_maximum fuel fuel
      h.state s k h2
    obtain ⟨b0, hb, e1, e2, e3, _⟩ := suunto_dive_next env device h.model h.progress_maximum
      fuel fuel s0 s false h7
    exact ⟨s0, b0, (suunto_iteration_iff env device fuel k h s0 b0).2 ⟨h1, h5, h6, hb⟩,
      e1, e2, e3⟩
  refine ⟨?_, ?_, ?_, ?_, ?_⟩
  · intro v hv
    obtain ⟨h, s, b, hi, _, e2, e3, _⟩ := suunto_view_some env device fuel 0 v hv
    obtain ⟨h1, h2, _, _⟩ := (suunto_iteration_iff env device fuel 0 h s b).1 hi
    simp only [suunto_steps, Option.some.injEq] at h2
    rw [e3, e2, ← h2]
    exact (suunto_head_state env fuel h h1).1
  · intro v hv
    obtain ⟨h, s, b, hi, e1, _, e3, _⟩ := suunto_view_some env device fuel 1 v hv
    obtain ⟨s0, b0, hi0, _, e5, _⟩ := back 0 h s b hi
    obtain ⟨h1, h2, _, _⟩ := (suunto_iteration_iff env device fuel 0 h s0 b0).1 hi0
    simp only [suunto_steps, Option.some.injEq] at h2
    rw [e3, e1, e5, ← h2]
    exact (suunto_head_state env fuel h h1).2
  · intro k v hv
    obtain ⟨h, s, b, hi, _, _, e3, _⟩ := suunto_view_some env device fuel (k + 2) v hv
    obtain ⟨s1, b1, hi1, _, e5, _⟩ := back (k + 1) h s b hi
    obtain ⟨s0, b0, hi0, _, _, e8⟩ := back k h s1 b1 hi1
    obtain ⟨w, hw, _, e10, _⟩ := suunto_view_of env device fuel k h s0 b0 hi0
    exact ⟨w, hw, by rw [e3, e5, e8, e10]⟩
  · intro k w hw
    obtain ⟨h, s, b, hi, _⟩ := suunto_view_some env device fuel (k + 1) w hw
    obtain ⟨s0, b0, hi0, e4, _, _⟩ := back k h s b hi
    obtain ⟨v, hv, e7, _, e9⟩ := suunto_view_of env device fuel k h s0 b0 hi0
    exact ⟨v, hv, by rw [e7, e9, e4]⟩
  · intro k v hk hv hne
    obtain ⟨h, s, b, hi, _, _, e3, _, e5, _, e7, _, e9, _⟩ :=
      suunto_view_some env device fuel k v hv
    obtain ⟨h1, h2, h3, h4⟩ := (suunto_iteration_iff env device fuel k h s b).1 hi
    have hd := suunto_block_dives env h.progress_maximum fuel fuel s
    rw [h4] at hd
    simp only [] at hd
    have hlen := suunto_steps_dives env device h.model h.progress_maximum fuel fuel h.state k s h2
    have hd0 := suunto_head_dives env fuel
    rw [h1] at hd0
    simp only [] at hd0
    rw [hd0] at hlen
    have hdive : suunto_dive env device h.model h.progress_maximum fuel fuel s =
        SuuntoStep.stop ⟨Outcome.returned ERROR, b.read.trace, []⟩ := by
      rw [suunto_dive_eq, h4]
      simp only []
      unfold suunto_finish
      rw [if_pos (by rw [← e9, ← e3]; exact hne)]
    refine ⟨?_, by rw [e7, e5]; exact hd, by rw [e7, hd]; simpa using hlen⟩
    rw [suunto_foreach_eq, h1]
    simp only []
    rw [suunto_steps_loop env device h.model h.progress_maximum fuel fuel h.state k s h2 fuel
      (by omega)]
    obtain ⟨f, hf⟩ : ∃ f, fuel - k = f + 1 := ⟨fuel - k - 1, by omega⟩
    rw [hf]
    unfold suunto_dive_loop
    rw [if_neg (not_not.mpr h3)]
    simp only [hdive]
    rw [e7]

/-! ## Callback invocations of the Suunto dive loop -/

/-- The size of a dive block whose pointers are read is at least 4 and an
`unsigned int`. -/
theorem suunto_block_size (env : SuuntoEnv) (pm retryfuel readfuel : Nat) (s : SuuntoState)
    (b : SuuntoBlock) (h : suunto_block env pm retryfuel readfuel s = SuuntoStep.next b) :
    4 ≤ b.size ∧ b.size < 4294967296 := by
  unfold suunto_block at h
  by_cases h1 : ¬ (ringbuffer_defined s.current Suunto.RB_PROFILE_BEGIN Suunto.RB_PROFILE_END ∧
      ringbuffer_defined s.previous Suunto.RB_PROFILE_BEGIN Suunto.RB_PROFILE_END)
  · rw [if_pos h1] at h
    cases h
  rw [if_neg h1] at h
  simp only [] at h
  by_cases h2 : Suunto.RB_PROFILE_DISTANCE s.current s.previous true < 4 ∨
      Suunto.RB_PROFILE_DISTANCE s.current s.previous true > s.remaining
  · rw [if_pos h2] at h
    cases h
  rw [if_neg h2] at h
  rcases hr : suunto_dive_read env pm s.remaining
      (Suunto.RB_PROFILE_DISTANCE s.current s.previous true) retryfuel readfuel
      { data := s.data, nbytes := s.available, offset := s.offset, address := s.address,
        progress_current := s.progress_current, trace := s.trace } with r | r
  · rw [hr] at h
    simp only [] at h
    by_cases h3 : ¬ r.data.readable
        (r.offset + usub r.nbytes (Suunto.RB_PROFILE_DISTANCE s.current s.previous true)) 4 = true
    · rw [if_pos h3] at h
      cases h
    rw [if_neg h3] at h
    cases h
    simp only []
    refine ⟨by omega, ?_⟩
    unfold Suunto.RB_PROFILE_DISTANCE
    exact u32_lt _
  · rw [hr] at h
    cases h

/-- The callback invocations of a run of the dive loop are those of the state it
starts in, then those of the loop. -/
theorem suunto_loop_dives (env : SuuntoEnv) (device : suunto_common2_device_t)
    (model pm retryfuel readfuel : Nat) :
    ∀ (fuel : Nat) (s : SuuntoState), ∃ ext,
      suunto_dives (suunto_dive_loop env device model pm retryfuel readfuel fuel s).trace =
        suunto_dives s.trace ++ ext := by
  intro fuel
  induction fuel with
  | zero =>
    intro s
    unfold suunto_dive_loop
    split_ifs <;> exact ⟨[], (List.append_nil _).symm⟩
  | succ fuel ih =>
    intro s
    unfold suunto_dive_loop
    by_cases c : ¬ (s.remaining ≠ 0)
    · rw [if_pos c]
      exact ⟨[], (List.append_nil _).symm⟩
    rw [if_neg c]
    simp only []
    rcases hd : suunto_dive env device model pm retryfuel readfuel s with ⟨s', stop⟩ | r
    · simp only []
      obtain ⟨b, hb, _, _, _, _, _, hcb⟩ :=
        suunto_dive_next env device model pm retryfuel readfuel s s' stop hd
      have hbd := suunto_block_dives env pm retryfuel readfuel s
      rw [hb] at hbd
      simp only [] at hbd
      have hs' : ∃ e1, suunto_dives s'.trace = suunto_dives s.trace ++ e1 := by
        rcases hcb with ⟨_, ht, _⟩ | ⟨cb, _, _, ht, _⟩
        · exact ⟨[], by rw [ht, hbd, List.append_nil]⟩
        · exact ⟨_, by rw [ht, suunto_dives_append, hbd]⟩
      obtain ⟨e1, he1⟩ := hs'
      cases stop with
      | true =>
        simp only [if_true]
        exact ⟨e1, he1⟩
      | false =>
        simp only [Bool.false_eq_true, if_false]
        obtain ⟨e2, he2⟩ := ih s'
        exact ⟨e1 ++ e2, by rw [he2, he1, List.append_assoc]⟩
    · simp only []
      exact ⟨[], by rw [suunto_dive_stop_dives env device model pm retryfuel readfuel s r hd,
        List.append_nil]⟩

/-- Without a callback a run of the dive loop has the callback invocations of the
state it starts in. -/
theorem suunto_loop_dives_none (env : SuuntoEnv) (device : suunto_common2_device_t)
    (model pm retryfuel readfuel : Nat) (hc : env.callback = none) :
    ∀ (fuel : Nat) (s : SuuntoState),
      suunto_dives (suunto_dive_loop env device model pm retryfuel readfuel fuel s).trace =
        suunto_dives s.trace := by
  intro fuel
  induction fuel with
  | zero =>
    intro s
    unfold suunto_dive_loop
    split_ifs <;> rfl
  | succ fuel ih =>
    intro s
    unfold suunto_dive_loop
    by_cases c : ¬ (s.remaining ≠ 0)
    · rw [if_pos c]
    rw [if_neg c]
    simp only []
    rcases hd : suunto_dive env device model pm retryfuel readfuel s with ⟨s', stop⟩ | r
    · simp only []
      obtain ⟨b, hb, _, _, _, _, _, hcb⟩ :=
        suunto_dive_next env device model pm retryfuel readfuel s s' stop hd
      have hbd := suunto_block_dives env pm retryfuel readfuel s
      rw [hb] at hbd
      simp only [] at hbd
      rcases hcb with ⟨_, ht, hstop⟩ | ⟨cb, hcb2, _⟩
      · subst hstop
        simp only [Bool.false_eq_true, if_false]
        rw [ih s', ht, hbd]
      · rw [hc] at hcb2
        cases hcb2
    · simp only []
      exact suunto_dive_stop_dives env device model pm retryfuel readfuel s r hd

/-! ## The Suunto fingerprint cut -/

/-- The value of `fp_offset`: `0x15`, and `0x1B` for the model `0x15`. -/
theorem suunto_fp_offset_eq (model : Nat) :
    suunto_fp_offset model = if model = 0x15 then 0x1B else 0x15 := by
  unfold suunto_fp_offset
  split_ifs
  · decide
  · rfl

/-- A block that passes the continuity check and holds the fingerprint of the
device ends the run with `SUCCESS`. -/
theorem suunto_finish_cut (env : SuuntoEnv) (device : suunto_common2_device_t) (model : Nat)
    (s : SuuntoState) (b : SuuntoBlock) (h1 : b.next = s.previous)
    (h2 : b.read.data.readable (b.p + suunto_fp_offset model) device.fingerprint.length = true)
    (h3 : b.read.data.load (b.p + suunto_fp_offset model) device.fingerprint.length
      = device.fingerprint) :
    suunto_finish env device model s b =
      SuuntoStep.stop ⟨Outcome.returned SUCCESS, b.read.trace, []⟩ := by
  unfold suunto_finish
  rw [if_neg (not_not.mpr h1)]
  simp only []
  have hoff : (if model = 0x15 then u32 (FP_OFFSET + 6) else FP_OFFSET) = suunto_fp_offset model :=
    rfl
  rw [hoff, if_neg (not_not.mpr h2), if_pos h3]

/-- A block that passes the continuity check and does not hold the fingerprint of
the device is handed to the callback: the bytes at `p + 4` and the bytes at
`p + fp_offset`. -/
theorem suunto_finish_deliver (env : SuuntoEnv) (device : suunto_common2_device_t) (model : Nat)
    (s : SuuntoState) (b : SuuntoBlock) (cb : List SuuntoEvent → List Nat → List Nat → Bool)
    (h1 : b.next = s.previous)
    (h2 : b.read.data.readable (b.p + suunto_fp_offset model) device.fingerprint.length = true)
    (h3 : b.read.data.load (b.p + suunto_fp_offset model) device.fingerprint.length
      ≠ device.fingerprint)
    (h4 : env.callback = some cb)
    (h5 : b.read.data.readable (b.p + 4) (usub b.size 4) = true) :
    ∃ s', suunto_finish env device model s b =
        SuuntoStep.next (s', ! cb b.read.trace (b.read.data.load (b.p + 4) (usub b.size 4))
          (b.read.data.load (b.p + suunto_fp_offset model) device.fingerprint.length)) ∧
      s'.trace = b.read.trace ++ [SuuntoEvent.dive (b.read.data.load (b.p + 4) (usub b.size 4))
          (b.read.data.load (b.p + suunto_fp_offset model) device.fingerprint.length)] := by
  unfold suunto_finish
  rw [if_neg (not_not.mpr h1)]
  simp only []
  have hoff : (if model = 0x15 then u32 (FP_OFFSET + 6) else FP_OFFSET) = suunto_fp_offset model :=
    rfl
  rw [hoff, if_neg (not_not.mpr h2), if_neg h3, h4]
  simp only []
  rw [if_neg (not_not.mpr h5)]
  exact ⟨_, rfl, rfl⟩

/-- The run that reaches iteration `k` with fuel left is the dive loop from the
state in which that iteration starts. -/
theorem suunto_run_from (env : SuuntoEnv) (device : suunto_common2_device_t) (fuel k : Nat)
    (h : SuuntoHead) (s : SuuntoState) (b : SuuntoBlock) (hk : k < fuel)
    (hi : suunto_iteration env device fuel k = some (h, s, b)) :
    suunto_common2_device_foreach env device fuel =
      match suunto_dive env device h.model h.progress_maximum fuel fuel s with
      | SuuntoStep.stop r => r
      | SuuntoStep.next (s', stop) =>
        if stop then ⟨Outcome.returned SUCCESS, s'.trace, []⟩
        else suunto_dive_loop env device h.model h.progress_maximum fuel fuel (fuel - k - 1) s' := by
  obtain ⟨h1, h2, h3, _⟩ := (suunto_iteration_iff env device fuel k h s b).1 hi
  rw [suunto_foreach_eq, h1]
  simp only []
  rw [suunto_steps_loop env device h.model h.progress_maximum fuel fuel h.state k s h2 fuel
    (by omega)]
  obtain ⟨f, hf⟩ : ∃ f, fuel - k = f + 1 := ⟨fuel - k - 1, by omega⟩
  rw [hf, Nat.add_sub_cancel]
  conv => lhs; unfold suunto_dive_loop
  rw [if_neg (not_not.mpr h3)]
  all_goals rfl

/-- Claim C28. For the dive block at `p` read in an iteration of the dive loop,
the fingerprint is the `sizeof (device->fingerprint)` bytes (7 on the devices
of this family) at `p + 0x15`, or at `p + 0x1B` when the model byte of the
version is `0x15`. When the block passes the continuity check and these bytes
equal the stored fingerprint, the engine returns `SUCCESS` at once, with the
trace it had when the block was read: the callback is invoked neither for this
dive nor for an older one. Otherwise the callback receives the `size - 4`
bytes at `p + 4` and exactly those fingerprint bytes. Hence a second run with
the fingerprint of the newest dive of the first run returns `SUCCESS` and
streams zero dives. -/
theorem suunto_fingerprint_cut (env : SuuntoEnv) (device : suunto_common2_device_t)
    (fuel : Nat) :
    (∀ k v, suunto_view env device fuel k = some v →
      ∃ h s b, suunto_iteration env device fuel k = some (h, s, b) ∧
        v.fingerprint =
          (if b.read.data.readable (b.p + (if h.model = 0x15 then 0x1B else 0x15))
              device.fingerprint.length
            then some (b.read.data.load (b.p + (if h.model = 0x15 then 0x1B else 0x15))
              device.fingerprint.length)
            else none) ∧
        v.data =
          (if b.read.data.readable (b.p + 4) (b.size - 4)
            then some (b.read.data.load (b.p + 4) (b.size - 4))
            else none)) ∧
    (∀ k v, k < fuel → suunto_view env device fuel k = some v → v.next = v.previous →
      v.fingerprint = some device.fingerprint →
      suunto_common2_device_foreach env device fuel = ⟨Outcome.returned SUCCESS, v.trace, []⟩ ∧
      suunto_dives v.trace = suunto_dives v.before ∧
      (suunto_dives v.trace).length ≤ k) ∧
    (∀ k v fp d cb, k < fuel → suunto_view env device fuel k = some v →
      v.next = v.previous → v.fingerprint = some fp → fp ≠ device.fingerprint →
      env.callback = some cb → v.data = some d →
      d.length = v.size - 4 ∧ fp.length = device.fingerprint.length ∧
      (cb v.trace d fp = false →
        suunto_common2_device_foreach env device fuel =
          ⟨Outcome.returned SUCCESS, v.trace ++ [SuuntoEvent.dive d fp], []⟩) ∧
      (cb v.trace d fp = true →
        suunto_trace_at env device fuel (k + 1) = some (v.trace ++ [SuuntoEvent.dive d fp]))) ∧
    (∀ d f rest,
      suunto_dives (suunto_common2_device_foreach env device fuel).trace = (d, f) :: rest →
      (suunto_common2_device_foreach env { device with fingerprint := f } fuel).outcome =
        Outcome.returned SUCCESS ∧
      suunto_dives
        (suunto_common2_device_foreach env { device with fingerprint := f } fuel).trace = []) := by
  refine ⟨?_, ?_, ?_, ?_⟩
  · intro k v hv
    obtain ⟨h, s, b, hi, _, _, _, _, _, _, _, _, _, e10, e11⟩ :=
      suunto_view_some env device fuel k v hv
    obtain ⟨_, _, _, hb⟩ := (suunto_iteration_iff env device fuel k h s b).1 hi
    obtain ⟨hs1, hs2⟩ := suunto_block_size env h.progress_maximum fuel fuel s b hb
    rw [suunto_fp_offset_eq] at e10
    rw [usub_eq b.size 4 hs1 hs2] at e11
    exact ⟨h, s, b, hi, e10, e11⟩
  · intro k v hk hv hnext hfp
    obtain ⟨h, s, b, hi, _, _, e3, _, e5, _, e7, _, e9, e10, _⟩ :=
      suunto_view_some env device fuel k v hv
    obtain ⟨h1, h2, h3, h4⟩ := (suunto_iteration_iff env device fuel k h s b).1 hi
    have hd := suunto_block_dives env h.progress_maximum fuel fuel s
    rw [h4] at hd
    simp only [] at hd
    have hlen := suunto_steps_dives env device h.model h.progress_maximum fuel fuel h.state k s h2
    have hd0 := suunto_head_dives env fuel
    rw [h1] at hd0
    simp only [] at hd0
    rw [hd0] at hlen
    rw [hfp] at e10
    by_cases c : b.read.data.readable (b.p + suunto_fp_offset h.model)
        device.fingerprint.length = true
    swap
    · rw [if_neg c] at e10
      cases e10
    rw [if_pos c] at e10
    have hdive : suunto_dive env device h.model h.progress_maximum fuel fuel s =
        SuuntoStep.stop ⟨Outcome.returned SUCCESS, b.read.trace, []⟩ := by
      rw [suunto_dive_eq, h4]
      exact suunto_finish_cut env device h.model s b (by rw [← e9, ← e3]; exact hnext) c
        (Option.some.inj e10).symm
    refine ⟨?_, by rw [e7, e5]; exact hd, by rw [e7, hd]; simpa using hlen⟩
    rw [suunto_run_from env device fuel k h s b hk hi, hdive, e7]
  · intro k v fp d cb hk hv hnext hfp hne hcb hdata
    obtain ⟨h, s, b, hi, _, _, e3, _, _, e6, e7, _, e9, e10, e11⟩ :=
      suunto_view_some env device fuel k v hv
    obtain ⟨h1, h2, h3, h4⟩ := (suunto_iteration_iff env device fuel k h s b).1 hi
    obtain ⟨hs1, hs2⟩ := suunto_block_size env h.progress_maximum fuel fuel s b h4
    rw [hfp] at e10
    by_cases c : b.read.data.readable (b.p + suunto_fp_offset h.model)
        device.fingerprint.length = true
    swap
    · rw [if_neg c] at e10
      cases e10
    rw [if_pos c] at e10
    have e10 := Option.some.inj e10
    rw [hdata] at e11
    by_cases c2 : b.read.data.readable (b.p + 4) (usub b.size 4) = true
    swap
    · rw [if_neg c2] at e11
      cases e11
    rw [if_pos c2] at e11
    have e11 := Option.some.inj e11
    obtain ⟨s', hfin, htrace⟩ := suunto_finish_deliver env device h.model s b cb
      (by rw [← e9, ← e3]; exact hnext) c (by rw [← e10]; exact hne) hcb c2
    rw [← e10, ← e11, ← e7] at hfin htrace
    have hdive : suunto_dive env device h.model h.progress_maximum fuel fuel s =
        SuuntoStep.next (s', ! cb v.trace d fp) := by
      rw [suunto_dive_eq, h4]
      exact hfin
    refine ⟨?_, ?_, ?_, ?_⟩
    · rw [e11, load_length, usub_eq b.size 4 hs1 hs2, e6]
    · rw [e10, load_length]
    · intro hfalse
      rw [suunto_run_from env device fuel k h s b hk hi, hdive]
      simp only [hfalse, Bool.not_false, if_true, htrace]
    · intro htrue
      rw [htrue] at hdive
      have hstep : suunto_steps env device h.model h.progress_maximum fuel fuel h.state (k + 1)
          = some s' := by
        conv => lhs; unfold suunto_steps
        rw [h2]
        simp only []
        rw [if_neg (not_not.mpr h3), hdive]
        rfl
      unfold suunto_trace_at
      rw [h1]
      simp only []
      rw [hstep, Option.map_some', htrace]
  · intro d f rest hdives
    rw [suunto_foreach_eq] at hdives
    have hd0 := suunto_head_dives env fuel
    rcases hh : suunto_foreach_head env fuel with h | r
    swap
    · rw [hh] at hdives hd0
      simp only [] at hdives hd0
      rw [hd0] at hdives
      cases hdives
    rw [hh] at hdives hd0
    simp only [] at hdives hd0
    -- the first iteration of the first run
    cases fuel with
    | zero =>
      unfold suunto_dive_loop at hdives
      split_ifs at hdives
      all_goals
        simp only [] at hdives
        rw [hd0] at hdives
        cases hdives
    | succ fuel =>
      by_cases c : ¬ (h.state.remaining ≠ 0)
      · unfold suunto_dive_loop at hdives
        rw [if_pos c] at hdives
        simp only [] at hdives
        rw [hd0] at hdives
        cases hdives
      have hbd := suunto_block_dives env h.progress_maximum (fuel + 1) (fuel + 1) h.state
      rcases hdv : suunto_dive env device h.model h.progress_maximum (fuel + 1) (fuel + 1)
        h.state with ⟨s', stop⟩ | r
      swap
      · unfold suunto_dive_loop at hdives
        rw [if_neg c] at hdives
        simp only [hdv] at hdives
        rw [suunto_dive_stop_dives env device h.model h.progress_maximum (fuel + 1) (fuel + 1)
          h.state r hdv, hd0] at hdives
        cases hdives
      obtain ⟨b, hb, e1, _, _, e4, e5, hcb⟩ := suunto_dive_next env device h.model
        h.progress_maximum (fuel + 1) (fuel + 1) h.state s' stop hdv
      rw [hb] at hbd
      simp only [] at hbd
      rw [hd0] at hbd
      -- the fingerprint of the first dive
      have hf : f = b.read.data.load (b.p + suunto_fp_offset h.model)
          device.fingerprint.length := by
        rcases hcb with ⟨hnone, _, _⟩ | ⟨cb, _, _, ht, _⟩
        · rw [suunto_loop_dives_none env device h.model h.progress_maximum (fuel + 1) (fuel + 1)
            hnone (fuel + 1) h.state, hd0] at hdives
          cases hdives
        · have hs' : suunto_dives s'.trace =
              [(b.read.data.load (b.p + 4) (usub b.size 4),
                b.read.data.load (b.p + suunto_fp_offset h.model) device.fingerprint.length)] := by
            rw [ht, suunto_dives_append, hbd]
            rfl
          unfold suunto_dive_loop at hdives
          rw [if_neg c] at hdives
          simp only [hdv] at hdives
          cases stop with
          | true =>
            simp only [if_true] at hdives
            rw [hs'] at hdives
            simp only [List.cons.injEq, Prod.mk.injEq] at hdives
            exact hdives.1.2.symm
          | false =>
            simp only [Bool.false_eq_true, if_false] at hdives
            obtain ⟨ext, hext⟩ := suunto_loop_dives env device h.model h.progress_maximum
              (fuel + 1) (fuel + 1) fuel s'
            rw [hext, hs'] at hdives
            simp only [List.singleton_append, List.cons.injEq, Prod.mk.injEq] at hdives
            exact hdives.1.2.symm
      have hlen : f.length = device.fingerprint.length := by rw [hf, load_length]
      -- the second run
      have hdive2 : suunto_dive env { device with fingerprint := f } h.model h.progress_maximum
          (fuel + 1) (fuel + 1) h.state =
          SuuntoStep.stop ⟨Outcome.returned SUCCESS, b.read.trace, []⟩ := by
        rw [suunto_dive_eq, hb]
        apply suunto_finish_cut env { device with fingerprint := f } h.model h.state b e1
        · show b.read.data.readable (b.p + suunto_fp_offset h.model) f.length = true
          rw [hlen]
          exact e4
        · show b.read.data.load (b.p + suunto_fp_offset h.model) f.length = f
          rw [hlen]
          exact hf.symm
      rw [suunto_foreach_eq, hh]
      simp only []
      unfold suunto_dive_loop
      rw [if_neg c]
      simp only [hdive2]
      exact ⟨trivial, hbd⟩

/-! ## The Suunto checks on the sample images -/

/-- The C27 theorem at `suunto_broken`, where the `next` field of the second block
holds the `prev` field of the first: the run returns `ERROR` when the second
block has been read, with the one dive delivered before. -/
theorem suunto_continuity_witness :
    suunto_common2_device_foreach (suunto_image_env suunto_broken (some (fun _ _ _ => true)))
        suunto_device 20 =
      ⟨Outcome.returned ERROR,
        ((suunto_view (suunto_image_env suunto_broken (some (fun _ _ _ => true)))
          suunto_device 20 1).getD default).trace, []⟩ ∧
    suunto_dives ((suunto_view (suunto_image_env suunto_broken (some (fun _ _ _ => true)))
        suunto_device 20 1).getD default).trace =
      suunto_dives ((suunto_view (suunto_image_env suunto_broken (some (fun _ _ _ => true)))
        suunto_device 20 1).getD default).before ∧
    (suunto_dives ((suunto_view (suunto_image_env suunto_broken (some (fun _ _ _ => true)))
        suunto_device 20 1).getD default).trace).length ≤ 1 :=
  (suunto_continuity (suunto_image_env suunto_broken (some (fun _ _ _ => true)))
    suunto_device 20).2.2.2.2 1
    ((suunto_view (suunto_image_env suunto_broken (some (fun _ _ _ => true)))
      suunto_device 20 1).getD default) (by decide) (by decide!) (by decide!)

/-- Counterexample to C27. In `suunto_sample` the first block read (the newest
dive, at `0x01EA`) has the `prev` field `0x01C2`, and the second block read
has the `next` field `0x01EA`, which is not the `prev` field of the block read
before it but the header pointer `last`. The engine accepts the chain: it
returns `SUCCESS` and delivers all three dives. -/
theorem suunto_continuity_counterexample :
    (suunto_view (suunto_image_env suunto_sample (some (fun _ _ _ => true)))
      suunto_device 20 0).map (fun v => v.prev) = some 0x01C2 ∧
    (suunto_view (suunto_image_env suunto_sample (some (fun _ _ _ => true)))
      suunto_device 20 1).map (fun v => (v.next, v.previous, v.last)) =
      some (0x01EA, 0x01EA, 0x01EA) ∧
    (suunto_common2_device_foreach (suunto_image_env suunto_sample (some (fun _ _ _ => true)))
      suunto_device 20).outcome = Outcome.returned SUCCESS ∧
    (suunto_dives (suunto_common2_device_foreach
      (suunto_image_env suunto_sample (some (fun _ _ _ => true))) suunto_device 20).trace).length
      = 3 := by
  decide!

/-- The C28 theorem at `suunto_sample`: the first run delivers three dives, the
newest with the fingerprint `FF 00 01 02 03 04 05`; the second run, with that
fingerprint, returns `SUCCESS` and delivers nothing. -/
theorem suunto_fingerprint_cut_witness :
    (suunto_common2_device_foreach (suunto_image_env suunto_sample (some (fun _ _ _ => true)))
        { suunto_device with fingerprint := [0xFF, 0x00, 0x01, 0x02, 0x03, 0x04, 0x05] }
        20).outcome = Outcome.returned SUCCESS ∧
    suunto_dives (suunto_common2_device_foreach
        (suunto_image_env suunto_sample (some (fun _ _ _ => true)))
        { suunto_device with fingerprint := [0xFF, 0x00, 0x01, 0x02, 0x03, 0x04, 0x05] }
        20).trace = [] :=
  (suunto_fingerprint_cut (suunto_image_env suunto_sample (some (fun _ _ _ => true)))
    suunto_device 20).2.2.2
    ((suunto_dives (suunto_common2_device_foreach
      (suunto_image_env suunto_sample (some (fun _ _ _ => true))) suunto_device 20).trace).headD
      ([], [])).1
    [0xFF, 0x00, 0x01, 0x02, 0x03, 0x04, 0x05]
    (suunto_dives (suunto_common2_device_foreach
      (suunto_image_env suunto_sample (some (fun _ _ _ => true))) suunto_device 20).trace).tail
    (by decide!)

/-! ## The search for a start marker -/

/-- One step back stays inside the profile ring. -/
theorem aladin_back_eq (c : Nat) (hc : c < 0x600) :
    aladin_back c = if c = 0 then 0x5FF else c - 1 := by
  unfold aladin_back Aladin.RB_PROFILE_BEGIN Aladin.RB_PROFILE_END
  by_cases h : c = 0
  · rw [if_pos h, if_pos h]
    decide
  · rw [if_neg h, if_neg h]
    exact usub_eq c 1 (by omega) (by omega)

/-- A step back from a pointer other than `eop` comes one step nearer to `eop`. -/
theorem aladin_back_measure (c eop : Nat) (h1 : c < 0x600) (h2 : eop < 0x600) (h3 : c ≠ eop) :
    ((if c = 0 then 0x5FF else c - 1) + 0x600 - eop) % 0x600 + 1 = (c + 0x600 - eop) % 0x600 := by
  by_cases h : c = 0
  · rw [if_pos h]
    omega
  · rw [if_neg h]
    omega

/-- The search loop ends within one turn of the profile ring: with the pointers
inside the ring and fuel for the steps back to `eop`, it gives pointers inside
the ring and a length below the size of the ring; a length of at least one
comes with a start marker at `current`, `previous = current`, and is the
distance from there to the old value of `previous`. -/
theorem aladin_search_live (data : List Nat) (eop : Nat) (he : eop < 0x600) :
    ∀ (fuel c p : Nat), c < 0x600 → p < 0x600 →
      (aladin_back c + 0x600 - eop) % 0x600 < fuel →
      ∃ c2 p2 len, aladin_search data eop fuel c p = some (some (c2, p2, len)) ∧
        c2 < 0x600 ∧ p2 < 0x600 ∧ len < 0x600 ∧
        (1 ≤ len → image_byte data (HEADER + c2) = 0xFF ∧ p2 = c2 ∧
          len = (p + 0x600 - c2) % 0x600) := by
  intro fuel
  induction fuel with
  | zero =>
    intro c p _ _ h
    exact absurd h (by omega)
  | succ fuel ih =>
    intro c p hc hp hfuel
    have hb := aladin_back_eq c hc
    have hb2 : aladin_back c < 0x600 := by
      rw [hb]
      split_ifs <;> omega
    unfold aladin_search
    simp only []
    have hfold : usub (if c = Aladin.RB_PROFILE_BEGIN then Aladin.RB_PROFILE_END else c) 1
        = aladin_back c := rfl
    rw [hfold]
    generalize aladin_back c = c1 at hb2 hfuel ⊢
    by_cases hm : image_byte data (HEADER + c1) = 0xFF
    · rw [if_pos hm]
      have hd1 : ringbuffer_defined c1 Aladin.RB_PROFILE_BEGIN Aladin.RB_PROFILE_END = true := by
        simp [ringbuffer_defined, Aladin.RB_PROFILE_BEGIN, Aladin.RB_PROFILE_END, hb2]
      have hd2 : ringbuffer_defined p Aladin.RB_PROFILE_BEGIN Aladin.RB_PROFILE_END = true := by
        simp [ringbuffer_defined, Aladin.RB_PROFILE_BEGIN, Aladin.RB_PROFILE_END, hp]
      rw [if_neg (not_not.mpr ⟨hd1, hd2⟩)]
      have hdist : Aladin.RB_PROFILE_DISTANCE c1 p = (p + 0x600 - c1) % 0x600 := by
        unfold Aladin.RB_PROFILE_DISTANCE Aladin.RB_PROFILE_BEGIN Aladin.RB_PROFILE_END
        rw [ringbuffer_distance_eq c1 p 0 0x600 false ⟨Nat.zero_le _, hb2⟩ ⟨Nat.zero_le _, hp⟩]
        have : (if c1 = p then (if false = true then 0x600 - 0 else 0)
            else if c1 < p then p - c1 else 0x600 - 0 - (c1 - p)) = (p + 0x600 - c1) % 0x600 := by
          clear hfuel ih hfold hm
          simp only [Bool.false_eq_true, if_false]
          by_cases e1 : c1 = p
          · rw [if_pos e1]
            omega
          · rw [if_neg e1]
            by_cases e2 : c1 < p
            · rw [if_pos e2]
              omega
            · rw [if_neg e2]
              omega
        rw [this]
        exact u32_eq _ (by omega)
      refine ⟨c1, c1, _, rfl, hb2, hb2, ?_, fun _ => ⟨hm, rfl, hdist⟩⟩
      rw [hdist]
      omega
    · rw [if_neg hm]
      by_cases hne : c1 ≠ eop
      · rw [if_neg (not_not.mpr hne)]
        have hb3 := aladin_back_eq c1 hb2
        have hm2 := aladin_back_measure c1 eop hb2 he hne
        rw [← hb3] at hm2
        exact ih c1 p hb2 hp (by omega)
      · rw [if_pos hne]
        exact ⟨c1, p, 0, rfl, hb2, hp, by omega, fun h => absurd h (by omega)⟩

/-! ## The Aladin buffer: properties -/

/-- The 18 bytes in front of the profile data, one by one. -/
theorem aladin_buffer_eq (data : List Nat) (eol i : Nat) :
    aladin_buffer data eol i =
      [image_byte data (HEADER + 0x07ed), image_byte data (HEADER + 0x07ed + 1),
       image_byte data (HEADER + 0x07ed + 2), image_byte data (HEADER + 0x07bc),
       image_byte data (HEADER + aladin_offset eol i),
       image_byte data (HEADER + aladin_offset eol i + 1),
       image_byte data (HEADER + aladin_offset eol i + 2),
       image_byte data (HEADER + aladin_offset eol i + 3),
       image_byte data (HEADER + aladin_offset eol i + 4),
       image_byte data (HEADER + aladin_offset eol i + 5),
       image_byte data (HEADER + aladin_offset eol i + 6),
       image_byte data (HEADER + aladin_offset eol i + 10),
       image_byte data (HEADER + aladin_offset eol i + 9),
       image_byte data (HEADER + aladin_offset eol i + 8),
       image_byte data (HEADER + aladin_offset eol i + 7),
       image_byte data (HEADER + aladin_offset eol i + 11), 0, 0] := by
  have h3 : List.range 3 = [0, 1, 2] := rfl
  have h1 : List.range 1 = [0] := rfl
  have h12 : List.range 12 = [0, 1, 2, 3, 4, 5, 6, 7, 8, 9, 10, 11] := rfl
  unfold aladin_buffer image_bytes array_reverse_bytes
  simp only [h3, h1, h12, List.map, Nat.add_zero]
  rfl

/-- The offset of the logbook entry is the slot `(eol + 37 - i) mod 37` behind the
profile ring. -/
theorem aladin_offset_eq (eol i : Nat) (he : eol < 37) (hi : i < 37) :
    aladin_offset eol i = 0x600 + 12 * ((eol + 37 - i) % 37) := by
  unfold aladin_offset Aladin.RB_PROFILE_END
  rw [u32_eq (eol + 37) (by omega), usub_eq (eol + 37) i (by omega) (by omega)]
  have h : (eol + 37 - i) % 37 < 37 := Nat.mod_lt _ (by decide)
  rw [u32_eq ((eol + 37 - i) % 37 * 12) (by omega), u32_eq _ (by omega)]
  omega

/-- The number of bytes of a piece of the image. -/
theorem image_bytes_length (data : List Nat) (pos n : Nat) :
    (image_bytes data pos n).length = n := by
  simp [image_bytes]

/-- The byte number `j` of a piece of the image. -/
theorem image_bytes_getD (data : List Nat) (pos n j : Nat) (hj : j < n) :
    (image_bytes data pos n).getD j 0 = image_byte data (pos + j) := by
  simp [image_bytes, List.getD_eq_getElem?_getD, List.getElem?_map, List.getElem?_range hj]

/-- The length in two bytes, little endian. -/
theorem len_bytes (len : Nat) (h : len < 0x600) :
    (len &&& 0xFF) + 256 * ((len >>> 8) &&& 0xFF) = len := by
  have h1 : len &&& 0xFF = len % 256 := Nat.and_pow_two_sub_one_eq_mod len 8
  have h2 : (len >>> 8) &&& 0xFF = (len >>> 8) % 256 := Nat.and_pow_two_sub_one_eq_mod _ 8
  have h3 : len >>> 8 = len / 256 := Nat.shiftRight_eq_div_pow len 8
  rw [h1, h2, h3]
  omega

/-- Lines 388-404: with a marker at `c` the profile data behind the 18 bytes are
the `len - 1` bytes of the ring that follow the marker, wrapping at `0x600`,
and the bytes 16 and 17 hold their number. -/
theorem aladin_profile_spec (data buffer : List Nat) (c len : Nat)
    (hb : buffer.length = 18) (h16 : buffer.getD 16 0 = 0) (h17 : buffer.getD 17 0 = 0)
    (hc0 : 1 ≤ len → c < 0x600) (hlen : len < 0x600) :
    ∃ len2 buffer2, aladin_profile data buffer c len = some (len2, buffer2) ∧
      buffer2.length = len2 + 18 ∧ len2 < 0x600 ∧ (1 ≤ len2 → 1 ≤ len) ∧
      buffer2.take 16 = buffer.take 16 ∧
      buffer2.getD 16 0 + 256 * buffer2.getD 17 0 = len2 ∧
      ∀ j, j < len2 → buffer2.getD (18 + j) 0 = image_byte data (HEADER + (c + 1 + j) % 0x600) := by
  unfold aladin_profile
  by_cases h1 : len ≥ 1
  swap
  · rw [if_neg h1]
    refine ⟨len, buffer, rfl, by omega, hlen, fun h => h, rfl, ?_, fun j hj => absurd hj (by omega)⟩
    rw [h16, h17]
    omega
  rw [if_pos h1]
  simp only []
  have hc : c < 0x600 := hc0 h1
  have hd : ringbuffer_defined c Aladin.RB_PROFILE_BEGIN Aladin.RB_PROFILE_END = true := by
    simp [ringbuffer_defined, Aladin.RB_PROFILE_BEGIN, Aladin.RB_PROFILE_END, hc]
  rw [if_neg (not_not.mpr hd)]
  have hl : usub len 1 = len - 1 := usub_eq len 1 h1 (by omega)
  have hn : Aladin.RB_PROFILE_NEXT c = if c + 1 < 0x600 then c + 1 else 0 := by
    unfold Aladin.RB_PROFILE_NEXT Aladin.RB_PROFILE_BEGIN Aladin.RB_PROFILE_END
    rw [ringbuffer_increment_eq c 1 0 0x600 ⟨Nat.zero_le _, hc⟩ (by omega)]
    by_cases e : c + 1 < 0x600
    · rw [if_pos e, if_pos e]
      exact u32_eq _ (by omega)
    · rw [if_neg e, if_neg e]
      have : c + 1 - (0x600 - 0) = 0 := by omega
      rw [this]
      rfl
  rw [hl, hn]
  generalize hbegin : (if c + 1 < 0x600 then c + 1 else 0) = begin_
  have hbg : begin_ < 0x600 ∧ begin_ = (c + 1) % 0x600 := by
    rw [← hbegin]
    by_cases e : c + 1 < 0x600
    · rw [if_pos e]
      omega
    · rw [if_neg e]
      omega
  generalize hlen2 : len - 1 = len2
  have hlen3 : len2 < 0x600 := by omega
  have hA : (buffer.take 16 ++ [len2 &&& 0xFF, (len2 >>> 8) &&& 0xFF]).length = 18 := by
    simp [hb]
  have hu : u32 (begin_ + len2) = begin_ + len2 := u32_eq _ (by omega)
  rw [hu]
  have htake : ∀ rest : List Nat,
      (buffer.take 16 ++ [len2 &&& 0xFF, (len2 >>> 8) &&& 0xFF] ++ rest).take 16 =
        buffer.take 16 := by
    intro rest
    rw [List.append_assoc, List.take_append_of_le_length (by simp [hb])]
    simp
  have hbytes : ∀ rest : List Nat,
      (buffer.take 16 ++ [len2 &&& 0xFF, (len2 >>> 8) &&& 0xFF] ++ rest).getD 16 0 +
        256 * (buffer.take 16 ++ [len2 &&& 0xFF, (len2 >>> 8) &&& 0xFF] ++ rest).getD 17 0
        = len2 := by
    intro rest
    rw [List.getD_append _ _ _ 16 (by rw [hA]; omega),
      List.getD_append _ _ _ 17 (by rw [hA]; omega),
      List.getD_append_right _ _ _ 16 (by simp [hb]),
      List.getD_append_right _ _ _ 17 (by simp [hb])]
    have e16 : 16 - (List.take 16 buffer).length = 0 := by simp [hb]
    have e17 : 17 - (List.take 16 buffer).length = 1 := by simp [hb]
    rw [e16, e17]
    exact len_bytes len2 hlen3
  have hget : ∀ (rest : List Nat) (j : Nat),
      (buffer.take 16 ++ [len2 &&& 0xFF, (len2 >>> 8) &&& 0xFF] ++ rest).getD (18 + j) 0 =
        rest.getD j 0 := by
    intro rest j
    rw [List.getD_append_right _ _ _ (18 + j) (by rw [hA]; omega), hA]
    have e : 18 + j - 18 = j := by omega
    rw [e]
  by_cases hw : begin_ + len2 > Aladin.RB_PROFILE_END
  · rw [if_pos hw]
    have hw2 : begin_ + len2 > 0x600 := hw
    have ha : usub Aladin.RB_PROFILE_END begin_ = 0x600 - begin_ :=
      usub_eq _ _ (by unfold Aladin.RB_PROFILE_END; omega) (by decide)
    have hb2 : usub (begin_ + len2) Aladin.RB_PROFILE_END = begin_ + len2 - 0x600 :=
      usub_eq _ _ (by unfold Aladin.RB_PROFILE_END; omega) (by omega)
    rw [ha, hb2]
    refine ⟨len2, _, rfl, ?_, hlen3, fun _ => h1, ?_, ?_, ?_⟩
    · simp only [List.length_append, image_bytes_length, hA]
      omega
    · rw [List.append_assoc (buffer.take 16 ++ [len2 &&& 0xFF, (len2 >>> 8) &&& 0xFF])]
      exact htake _
    · rw [List.append_assoc (buffer.take 16 ++ [len2 &&& 0xFF, (len2 >>> 8) &&& 0xFF])]
      exact hbytes _
    · intro j hj
      rw [List.append_assoc (buffer.take 16 ++ [len2 &&& 0xFF, (len2 >>> 8) &&& 0xFF]), hget]
      by_cases hja : j < 0x600 - begin_
      · rw [List.getD_append _ _ _ j (by rw [image_bytes_length]; exact hja),
          image_bytes_getD _ _ _ _ hja]
        have e : HEADER + begin_ + j = HEADER + (c + 1 + j) % 0x600 := by omega
        rw [e]
      · rw [List.getD_append_right _ _ _ j (by rw [image_bytes_length]; omega),
          image_bytes_length, image_bytes_getD _ _ _ _ (by omega)]
        have e : HEADER + (j - (0x600 - begin_)) = HEADER + (c + 1 + j) % 0x600 := by omega
        rw [e]
  · rw [if_neg hw]
    have hw2 : ¬ begin_ + len2 > 0x600 := hw
    refine ⟨len2, _, rfl, ?_, hlen3, fun _ => h1, htake _, hbytes _, ?_⟩
    · simp only [List.length_append, image_bytes_length, hA]
      omega
    · intro j hj
      rw [hget, image_bytes_getD _ _ _ _ hj]
      have e : HEADER + begin_ + j = HEADER + (c + 1 + j) % 0x600 := by omega
      rw [e]

/-! ## The Aladin dive block -/

/-- The block made of the 18 bytes of `aladin_buffer` (up to the length in the
bytes 16 and 17) and `len` profile bytes that follow a marker is a dive block
as described. -/
theorem aladin_block_ok (data buffer : List Nat) (i len : Nat) (hi : i < 37)
    (hlen : buffer.length = len + 18) (hlt : len < 0x600)
    (htake : buffer.take 16 = (aladin_buffer data (aladin_eol data) i).take 16)
    (hbytes : buffer.getD 16 0 + 256 * buffer.getD 17 0 = len)
    (hprofile : ∃ m, m < 0x600 ∧ (1 ≤ len → image_byte data (HEADER + m) = 0xFF) ∧
      ∀ j, j < len → buffer.getD (18 + j) 0 = image_byte data (HEADER + (m + 1 + j) % 0x600)) :
    AladinBlockOk data i (buffer.take (u32 (len + 18)), (buffer.drop 11).take 4) ∧
    array_uint32_le (buffer.drop 11) = aladin_slot_timestamp data i := by
  have he : aladin_eol data < 37 := Nat.mod_lt _ (by decide)
  have hfull : buffer.take (u32 (len + 18)) = buffer := by
    rw [u32_eq _ (by omega)]
    exact List.take_of_length_le (by omega)
  have hoff : HEADER + aladin_offset (aladin_eol data) i =
      HEADER + 0x600 + 12 * ((aladin_eol data + 37 - i) % 37) := by
    rw [aladin_offset_eq _ _ he hi]
    omega
  rw [aladin_buffer_eq, hoff] at htake
  have hslot : aladin_slot data i =
      image_bytes data (HEADER + 0x600 + 12 * ((aladin_eol data + 37 - i) % 37)) 12 := rfl
  have h12 : List.range 12 = [0, 1, 2, 3, 4, 5, 6, 7, 8, 9, 10, 11] := rfl
  have h3 : List.range 3 = [0, 1, 2] := rfl
  have hslot2 : aladin_slot data i = _ := hslot
  unfold image_bytes at hslot2
  rw [h12] at hslot2
  simp only [List.map, Nat.add_zero] at hslot2
  have hser : image_bytes data (HEADER + 0x7ed) 3 =
      [image_byte data (HEADER + 0x7ed), image_byte data (HEADER + 0x7ed + 1),
        image_byte data (HEADER + 0x7ed + 2)] := by
    unfold image_bytes
    rw [h3]
    simp only [List.map, Nat.add_zero]
  generalize HEADER + 0x600 + 12 * ((aladin_eol data + 37 - i) % 37) = o at htake hslot2
  have hsplit : buffer = buffer.take 16 ++ buffer.drop 16 := (List.take_append_drop 16 buffer).symm
  rw [htake] at hsplit
  simp only [List.take, List.cons_append, List.nil_append] at hsplit
  have hts : array_uint32_le (buffer.drop 11) = aladin_slot_timestamp data i := by
    unfold aladin_slot_timestamp
    rw [hslot2, hsplit]
    simp only [List.drop, array_uint32_le, array_uint32_be, List.getD_cons_zero,
      List.getD_cons_succ]
    omega
  refine ⟨⟨?_, ?_, ?_, ?_, ?_, ?_, ?_⟩, hts⟩
  · show (buffer.take (u32 (len + 18))).length = _
    rw [hfull, hbytes, hlen]
  · show (buffer.take (u32 (len + 18))).take 3 = _
    rw [hfull, hser, hsplit]
    rfl
  · show (buffer.take (u32 (len + 18))).getD 3 0 = _
    rw [hfull, hsplit]
    rfl
  · show ((buffer.take (u32 (len + 18))).drop 4).take 12 = _
    rw [hfull, hslot2, hsplit]
    rfl
  · show array_uint32_le ((buffer.take (u32 (len + 18))).drop 11) = _
    rw [hfull]
    exact hts
  · show ∃ m, m < 0x600 ∧
      (1 ≤ (buffer.take (u32 (len + 18))).getD 16 0 +
          256 * (buffer.take (u32 (len + 18))).getD 17 0 → image_byte data (HEADER + m) = 0xFF) ∧
      ∀ j, j < (buffer.take (u32 (len + 18))).getD 16 0 +
          256 * (buffer.take (u32 (len + 18))).getD 17 0 →
        (buffer.take (u32 (len + 18))).getD (18 + j) 0 =
          image_byte data (HEADER + (m + 1 + j) % 0x600)
    rw [hfull, hbytes]
    exact hprofile
  · show (buffer.drop 11).take 4 = ((buffer.take (u32 (len + 18))).drop 11).take 4
    rw [hfull]

/-! ## One iteration of the Aladin dive loop -/

/-- Whatever the search loop gives: a length below the size of the ring, and with
a length of at least one a start marker at `current`, inside the ring. -/
theorem aladin_search_safe (data : List Nat) (eop : Nat) :
    ∀ (fuel c p c2 p2 len : Nat),
      aladin_search data eop fuel c p = some (some (c2, p2, len)) →
      len < 0x600 ∧ (1 ≤ len → c2 < 0x600 ∧ image_byte data (HEADER + c2) = 0xFF) := by
  intro fuel
  induction fuel with
  | zero =>
    intro c p c2 p2 len h
    simp [aladin_search] at h
  | succ fuel ih =>
    intro c p c2 p2 len h
    unfold aladin_search at h
    simp only [] at h
    have hfold : usub (if c = Aladin.RB_PROFILE_BEGIN then Aladin.RB_PROFILE_END else c) 1
        = aladin_back c := rfl
    rw [hfold] at h
    generalize aladin_back c = c1 at h
    by_cases hm : image_byte data (HEADER + c1) = 0xFF
    · rw [if_pos hm] at h
      by_cases hd : ¬ (ringbuffer_defined c1 Aladin.RB_PROFILE_BEGIN Aladin.RB_PROFILE_END = true ∧
          ringbuffer_defined p Aladin.RB_PROFILE_BEGIN Aladin.RB_PROFILE_END = true)
      · rw [if_pos hd] at h
        cases h
      rw [if_neg hd] at h
      have hd2 := not_not.mp hd
      simp only [ringbuffer_defined, Aladin.RB_PROFILE_BEGIN, Aladin.RB_PROFILE_END,
        decide_eq_true_eq] at hd2
      simp only [Option.some.injEq, Prod.mk.injEq] at h
      obtain ⟨e1, _, e3⟩ := h
      subst e1
      have hdist : Aladin.RB_PROFILE_DISTANCE c1 p < 0x600 := by
        unfold Aladin.RB_PROFILE_DISTANCE Aladin.RB_PROFILE_BEGIN Aladin.RB_PROFILE_END
        rw [ringbuffer_distance_eq c1 p 0 0x600 false hd2.1 hd2.2]
        have hv : (if c1 = p then (if false = true then 0x600 - 0 else 0)
            else if c1 < p then p - c1 else 0x600 - 0 - (c1 - p)) < 0x600 := by
          simp only [Bool.false_eq_true, if_false]
          by_cases e1 : c1 = p
          · rw [if_pos e1]
            omega
          · rw [if_neg e1]
            by_cases e2 : c1 < p
            · rw [if_pos e2]
              omega
            · rw [if_neg e2]
              omega
        rw [u32_eq _ (by omega)]
        exact hv
      rw [← e3]
      exact ⟨hdist, fun _ => ⟨hd2.1.2, hm⟩⟩
    · rw [if_neg hm] at h
      by_cases hne : ¬ (c1 ≠ eop)
      · rw [if_pos hne] at h
        simp only [Option.some.injEq, Prod.mk.injEq] at h
        obtain ⟨_, _, e3⟩ := h
        rw [← e3]
        exact ⟨by omega, fun h0 => absurd h0 (by omega)⟩
      · rw [if_neg hne] at h
        exact ih c1 p c2 p2 len h

/-- The 18 bytes in front of the profile data: their number and the zero length. -/
theorem aladin_buffer_facts (data : List Nat) (eol i : Nat) :
    (aladin_buffer data eol i).length = 18 ∧ (aladin_buffer data eol i).getD 16 0 = 0 ∧
      (aladin_buffer data eol i).getD 17 0 = 0 := by
  rw [aladin_buffer_eq]
  exact ⟨rfl, rfl, rfl⟩

/-- One iteration of the dive loop that goes on hands a dive block as described
to `aladin_deliver`, with the timestamp of its logbook slot, and counts the
iteration. -/
theorem aladin_dive_spec (callback : Option (List Event → List Nat → List Nat → Bool))
    (device : Option uwatec_aladin_device_t) (data : List Nat) (eop searchfuel : Nat)
    (s s' : AladinState) (stop : Bool) (hi : s.i < 37)
    (h : aladin_dive callback device data (aladin_eol data) eop searchfuel s =
      Step.next (s', stop)) :
    ∃ len buffer s1, (s', stop) = aladin_deliver callback device buffer len s1 ∧
      s1.i = s.i + 1 ∧ s1.trace = s.trace ∧ 18 ≤ buffer.length ∧
      AladinBlockOk data s.i (buffer.take (u32 (len + 18)), (buffer.drop 11).take 4) ∧
      array_uint32_le (buffer.drop 11) = aladin_slot_timestamp data s.i := by
  obtain ⟨hb1, hb2, hb3⟩ := aladin_buffer_facts data (aladin_eol data) s.i
  have hi1 : u32 (s.i + 1) = s.i + 1 := u32_eq _ (by omega)
  unfold aladin_dive at h
  simp only [] at h
  by_cases hp : ¬ s.profiles = true
  · rw [if_pos hp] at h
    have hok := aladin_block_ok data (aladin_buffer data (aladin_eol data) s.i) s.i 0 hi
      (by rw [hb1]) (by omega) rfl (by rw [hb2, hb3])
      ⟨0, by omega, fun h0 => absurd h0 (by omega), fun j hj => absurd hj (by omega)⟩
    exact ⟨0, _, _, (Step.next.inj h).symm, hi1, rfl, by omega, hok.1, hok.2⟩
  rw [if_neg hp] at h
  rcases hs : aladin_search data eop searchfuel s.current s.previous with _ | _ | ⟨c2, p2, len⟩
  · rw [hs] at h
    cases h
  · rw [hs] at h
    cases h
  rw [hs] at h
  simp only [] at h
  obtain ⟨hl1, hl2⟩ := aladin_search_safe data eop searchfuel s.current s.previous c2 p2 len hs
  obtain ⟨len2, buffer2, hpr, q1, q2, q3, q4, q5, q6⟩ := aladin_profile_spec data
    (aladin_buffer data (aladin_eol data) s.i) c2 len hb1 hb2 hb3 (fun h0 => (hl2 h0).1) hl1
  rw [hpr] at h
  simp only [] at h
  have hm : ∃ m, m < 0x600 ∧ (1 ≤ len2 → image_byte data (HEADER + m) = 0xFF) ∧
      ∀ j, j < len2 → buffer2.getD (18 + j) 0 = image_byte data (HEADER + (m + 1 + j) % 0x600) := by
    by_cases h0 : 1 ≤ len2
    · exact ⟨c2, (hl2 (q3 h0)).1, fun _ => (hl2 (q3 h0)).2, q6⟩
    · exact ⟨0, by omega, fun h1 => absurd h1 h0, fun j hj => absurd hj (by omega)⟩
  have hok := aladin_block_ok data buffer2 s.i len2 hi q1 q2 q4 q5 hm
  exact ⟨len2, buffer2, _, (Step.next.inj h).symm, hi1, rfl, by omega, hok.1, hok.2⟩

/-- One iteration of the dive loop that ends the run leaves the trace as it
was. -/
theorem aladin_dive_stop_trace (callback : Option (List Event → List Nat → List Nat → Bool))
    (device : Option uwatec_aladin_device_t) (data : List Nat) (eol eop searchfuel : Nat)
    (s : AladinState) (r : Run)
    (h : aladin_dive callback device data eol eop searchfuel s = Step.stop r) :
    r.trace = s.trace := by
  unfold aladin_dive at h
  simp only [] at h
  by_cases hp : ¬ s.profiles = true
  · rw [if_pos hp] at h
    cases h
  rw [if_neg hp] at h
  rcases hs : aladin_search data eop searchfuel s.current s.previous with _ | _ | ⟨c2, p2, len⟩
  · rw [hs] at h
    cases h
    rfl
  · rw [hs] at h
    cases h
    rfl
  rw [hs] at h
  simp only [] at h
  rcases hpr : aladin_profile data (aladin_buffer data eol s.i) c2 len with _ | ⟨len2, buffer2⟩
  · rw [hpr] at h
    cases h
    rfl
  · rw [hpr] at h
    cases h

/-- With the pointers inside the profile ring and fuel for one turn of the ring,
an iteration of the dive loop goes on, with the pointers inside the ring. -/
theorem aladin_dive_live (callback : Option (List Event → List Nat → List Nat → Bool))
    (device : Option uwatec_aladin_device_t) (data : List Nat) (eol eop searchfuel : Nat)
    (s : AladinState) (he : eop < 0x600) (hc : s.current < 0x600) (hp : s.previous < 0x600)
    (hfuel : 0x600 ≤ searchfuel) :
    ∃ s' stop, aladin_dive callback device data eol eop searchfuel s = Step.next (s', stop) ∧
      s'.current < 0x600 ∧ s'.previous < 0x600 := by
  obtain ⟨hb1, hb2, hb3⟩ := aladin_buffer_facts data eol s.i
  have hdel : ∀ buffer len (s1 : AladinState),
      (aladin_deliver callback device buffer len s1).1.current = s1.current ∧
      (aladin_deliver callback device buffer len s1).1.previous = s1.previous := by
    intro buffer len s1
    unfold aladin_deliver
    simp only []
    split_ifs
    · exact ⟨rfl, rfl⟩
    · rcases callback with _ | cb
      · exact ⟨rfl, rfl⟩
      · exact ⟨rfl, rfl⟩
  unfold aladin_dive
  simp only []
  by_cases hpf : ¬ s.profiles = true
  · rw [if_pos hpf]
    have hd := hdel (aladin_buffer data eol s.i) 0 { s with i := u32 (s.i + 1) }
    generalize aladin_deliver callback device (aladin_buffer data eol s.i) 0
      { s with i := u32 (s.i + 1) } = res at hd ⊢
    exact ⟨res.1, res.2, rfl, by rw [hd.1]; exact hc, by rw [hd.2]; exact hp⟩
  rw [if_neg hpf]
  have hback : aladin_back s.current < 0x600 := by
    rw [aladin_back_eq _ hc]
    split_ifs <;> omega
  obtain ⟨c2, p2, len, hs, r1, r2, r3, _⟩ := aladin_search_live data eop he searchfuel
    s.current s.previous hc hp (by
      have : (aladin_back s.current + 0x600 - eop) % 0x600 < 0x600 := Nat.mod_lt _ (by decide)
      omega)
  rw [hs]
  simp only []
  obtain ⟨len2, buffer2, hpr, _⟩ := aladin_profile_spec data (aladin_buffer data eol s.i) c2 len
    hb1 hb2 hb3 (fun _ => r1) r3
  rw [hpr]
  simp only []
  have hd := hdel buffer2 len2
    { i := u32 (s.i + 1), profiles := if c2 = eop then false else s.profiles, previous := p2,
      current := c2, trace := s.trace }
  generalize aladin_deliver callback device buffer2 len2
    { i := u32 (s.i + 1), profiles := if c2 = eop then false else s.profiles, previous := p2,
      current := c2, trace := s.trace } = res at hd ⊢
  exact ⟨res.1, res.2, rfl, by rw [hd.1]; exact r1, by rw [hd.2]; exact r2⟩

/-! ## The Aladin dive loop -/

/-- The 32-bit value at the start of a list is in its first four bytes. -/
theorem array_uint32_le_take (l : List Nat) :
    array_uint32_le (l.take 4) = array_uint32_le l := by
  have h : ∀ k, k < 4 → (l.take 4).getD k 0 = l.getD k 0 := by
    intro k hk
    rw [List.getD_eq_getElem?_getD, List.getD_eq_getElem?_getD, List.getElem?_take_of_lt hk]
  unfold array_uint32_le
  rw [h 0 (by omega), h 1 (by omega), h 2 (by omega), h 3 (by omega)]

/-- What `aladin_deliver` does: it stops at a dive that is not newer than the
timestamp of the device; otherwise it goes on without a callback, or hands the
block and its fingerprint to the callback. -/
theorem aladin_deliver_spec (callback : Option (List Event → List Nat → List Nat → Bool))
    (device : Option uwatec_aladin_device_t) (buffer : List Nat) (len : Nat) (s1 : AladinState) :
    ((aladin_deliver callback device buffer len s1) = (s1, true) ∧
      ∃ dev, device = some dev ∧ array_uint32_le (buffer.drop 11) ≤ dev.timestamp) ∨
    ((∀ dev, device = some dev → dev.timestamp < array_uint32_le (buffer.drop 11)) ∧
      ((callback = none ∧ aladin_deliver callback device buffer len s1 = (s1, false)) ∨
       (∃ cb, callback = some cb ∧
        aladin_deliver callback device buffer len s1 =
          ({ s1 with trace := s1.trace ++ [Event.dive (buffer.take (u32 (len + 18)))
              ((buffer.drop 11).take 4)] },
            ! cb s1.trace (buffer.take (u32 (len + 18))) ((buffer.drop 11).take 4))))) := by
  unfold aladin_deliver
  simp only []
  by_cases hw : device.isSome = true ∧
      array_uint32_le (buffer.drop 11) ≤ (device.map (fun d => d.timestamp)).getD 0
  · rw [if_pos hw]
    left
    refine ⟨rfl, ?_⟩
    rcases device with _ | dev
    · exact absurd hw.1 (by simp)
    · exact ⟨dev, rfl, hw.2⟩
  · rw [if_neg hw]
    right
    constructor
    · intro dev hdev
      subst hdev
      simp only [Option.isSome_some, true_and, Option.map_some', Option.getD_some, not_le] at hw
      exact hw
    · rcases callback with _ | cb
      · exact Or.inl ⟨rfl, rfl⟩
      · exact Or.inr ⟨cb, rfl, rfl⟩

/-- The dive number `j` of a trace with one more dive. -/
theorem dives_snoc_get (t : List Event) (d f : List Nat) (j : Nat) (x : List Nat × List Nat)
    (h : (dives (t ++ [Event.dive d f]))[j]? = some x) :
    (dives t)[j]? = some x ∨ (j = (dives t).length ∧ x = (d, f)) := by
  rw [dives_append] at h
  have hd : dives [Event.dive d f] = [(d, f)] := rfl
  rw [hd] at h
  by_cases hj : j < (dives t).length
  · rw [List.getElem?_append_left hj] at h
    exact Or.inl h
  · rw [List.getElem?_append_right (by omega)] at h
    right
    by_cases hj2 : j = (dives t).length
    · subst hj2
      simp only [Nat.sub_self, List.getElem?_cons_zero, Option.some.injEq] at h
      exact ⟨rfl, h.symm⟩
    · have : j - (dives t).length = (j - (dives t).length - 1) + 1 := by omega
      rw [this] at h
      simp at h

/-- The dive loop of the Aladin extraction delivers at most `ndives` dives, the
dive number `j` being the block of iteration `j`. -/
theorem aladin_loop_safe (callback : Option (List Event → List Nat → List Nat → Bool))
    (device : Option uwatec_aladin_device_t) (data : List Nat) (ndives eop searchfuel : Nat)
    (hn : ndives ≤ 37) :
    ∀ (fuel : Nat) (s : AladinState), s.i ≤ ndives →
      (dives s.trace).length = (if callback.isSome then s.i else 0) →
      (∀ j d, (dives s.trace)[j]? = some d → AladinGood device data j d) →
      (dives (aladin_dive_loop callback device data ndives (aladin_eol data) eop searchfuel
        fuel s).trace).length ≤ ndives ∧
      ∀ j d, (dives (aladin_dive_loop callback device data ndives (aladin_eol data) eop
        searchfuel fuel s).trace)[j]? = some d → AladinGood device data j d := by
  intro fuel
  induction fuel with
  | zero =>
    intro s h1 h2 h3
    have hlen : (dives s.trace).length ≤ ndives := by
      rw [h2]
      split_ifs <;> omega
    unfold aladin_dive_loop
    split_ifs <;> exact ⟨hlen, h3⟩
  | succ fuel ih =>
    intro s h1 h2 h3
    have hlen : (dives s.trace).length ≤ ndives := by
      rw [h2]
      split_ifs <;> omega
    unfold aladin_dive_loop
    by_cases hc : ¬ (s.i < ndives)
    · rw [if_pos hc]
      exact ⟨hlen, h3⟩
    rw [if_neg hc]
    simp only []
    have hi : s.i < ndives := not_not.mp hc
    rcases hd : aladin_dive callback device data (aladin_eol data) eop searchfuel s with
      ⟨s', stop⟩ | r
    swap
    · simp only []
      rw [aladin_dive_stop_trace callback device data _ eop searchfuel s r hd]
      exact ⟨hlen, h3⟩
    simp only []
    obtain ⟨len, buffer, s1, hdel, e1, e2, hb, hok, hts⟩ :=
      aladin_dive_spec callback device data eop searchfuel s s' stop (by omega) hd
    -- the state behind the delivery
    have hs' : s'.i = s.i + 1 ∧
        (dives s'.trace).length = (if callback.isSome then s'.i else 0) ∧
        (∀ j d, (dives s'.trace)[j]? = some d → AladinGood device data j d) ∨
        (stop = true ∧ s'.trace = s.trace) := by
      rcases aladin_deliver_spec callback device buffer len s1 with
        ⟨hw, _⟩ | ⟨hnew, ⟨hnone, hw⟩ | ⟨cb, hcb, hw⟩⟩
      · rw [hw] at hdel
        simp only [Prod.mk.injEq] at hdel
        right
        exact ⟨hdel.2, by rw [hdel.1, e2]⟩
      · rw [hw] at hdel
        simp only [Prod.mk.injEq] at hdel
        left
        rw [hdel.1, e1, e2]
        refine ⟨rfl, ?_, h3⟩
        rw [h2, hnone]
        rfl
      · rw [hw] at hdel
        simp only [Prod.mk.injEq] at hdel
        left
        rw [hdel.1]
        refine ⟨e1, ?_, ?_⟩
        · show (dives (s1.trace ++ [_])).length = _
          rw [dives_append, e2, List.length_append, h2, hcb, e1]
          rfl
        · intro j d hj
          rcases dives_snoc_get s1.trace _ _ j d hj with h | ⟨hj1, hj2⟩
          · rw [e2] at h
            exact h3 j d h
          · rw [e2, h2, hcb] at hj1
            simp only [Option.isSome_some, if_true] at hj1
            rw [hj1, hj2]
            refine ⟨hok, ?_, ?_⟩
            · show array_uint32_le ((buffer.drop 11).take 4) = _
              rw [array_uint32_le_take]
              exact hts
            · intro dev hdev
              show dev.timestamp < array_uint32_le ((buffer.drop 11).take 4)
              rw [array_uint32_le_take]
              exact hnew dev hdev
    rcases hs' with ⟨g1, g2, g3⟩ | ⟨g1, g2⟩
    · have hlen' : (dives s'.trace).length ≤ ndives := by
        rw [g2, g1]
        split_ifs <;> omega
      cases stop with
      | true =>
        simp only [if_true]
        exact ⟨hlen', g3⟩
      | false =>
        simp only [Bool.false_eq_true, if_false]
        exact ih s' (by omega) g2 g3
    · subst g1
      simp only [if_true]
      rw [g2]
      exact ⟨hlen, h3⟩

/-! ## The Aladin extraction, watermark and slot count -/

/-- The dive loop of the Aladin extraction, with a device: when the logbook slot
of iteration `i` is not newer than the timestamp of the device, a loop that
has not passed iteration `i` returns `SUCCESS` and has delivered at most `i`
dives. -/
theorem aladin_loop_watermark (callback : Option (List Event → List Nat → List Nat → Bool))
    (dev : uwatec_aladin_device_t) (data : List Nat) (ndives eop searchfuel i : Nat)
    (hn : ndives ≤ 37) (he : eop < 0x600) (hsf : 0x600 ≤ searchfuel) (hi : i < ndives)
    (hts : aladin_slot_timestamp data i ≤ dev.timestamp) :
    ∀ (fuel : Nat) (s : AladinState), s.i ≤ i → i - s.i < fuel →
      s.current < 0x600 → s.previous < 0x600 → (dives s.trace).length ≤ s.i →
      (aladin_dive_loop callback (some dev) data ndives (aladin_eol data) eop searchfuel
        fuel s).outcome = Outcome.returned SUCCESS ∧
      (dives (aladin_dive_loop callback (some dev) data ndives (aladin_eol data) eop searchfuel
        fuel s).trace).length ≤ i := by
  intro fuel
  induction fuel with
  | zero =>
    intro s _ h _ _ _
    exact absurd h (by omega)
  | succ fuel ih =>
    intro s h1 h2 h3 h4 h5
    unfold aladin_dive_loop
    rw [if_neg (not_not.mpr (by omega : s.i < ndives))]
    simp only []
    obtain ⟨s', stop, hd, r1, r2⟩ := aladin_dive_live callback (some dev) data (aladin_eol data)
      eop searchfuel s he h3 h4 hsf
    rw [hd]
    simp only []
    obtain ⟨len, buffer, s1, hdel, e1, e2, _, _, hts2⟩ :=
      aladin_dive_spec callback (some dev) data eop searchfuel s s' stop (by omega) hd
    rcases aladin_deliver_spec callback (some dev) buffer len s1 with
      ⟨hw, _⟩ | ⟨hnew, hrest⟩
    · rw [hw] at hdel
      simp only [Prod.mk.injEq] at hdel
      rw [hdel.1, hdel.2]
      simp only [if_true]
      rw [e2]
      exact ⟨trivial, by omega⟩
    · have hlt : s.i < i := by
        by_contra hge
        have hsi : s.i = i := by omega
        have := hnew dev rfl
        rw [hts2, hsi] at this
        omega
      have hs' : s'.i = s.i + 1 ∧ (dives s'.trace).length ≤ s.i + 1 := by
        rcases hrest with ⟨_, hw⟩ | ⟨cb, _, hw⟩
        · rw [hw] at hdel
          simp only [Prod.mk.injEq] at hdel
          rw [hdel.1, e1, e2]
          exact ⟨rfl, by omega⟩
        · rw [hw] at hdel
          simp only [Prod.mk.injEq] at hdel
          rw [hdel.1]
          refine ⟨e1, ?_⟩
          show (dives (s1.trace ++ [_])).length ≤ _
          rw [dives_append, e2, List.length_append]
          have : (dives [Event.dive (List.take (u32 (len + 18)) buffer)
              (List.take 4 (List.drop 11 buffer))]).length = 1 := rfl
          omega
      cases stop with
      | true =>
        simp only [if_true]
        exact ⟨trivial, by omega⟩
      | false =>
        simp only [Bool.false_eq_true, if_false]
        exact ih s' (by omega) (by omega) r1 r2 (by omega)

/-- The dive loop of the Aladin extraction, without a device and with a callback
that always asks for more: it returns `SUCCESS` and has delivered `ndives`
dives. -/
theorem aladin_loop_all (cb : List Event → List Nat → List Nat → Bool)
    (data : List Nat) (ndives eop searchfuel : Nat)
    (hcb : ∀ t d f, cb t d f = true)
    (hn : ndives ≤ 37) (he : eop < 0x600) (hsf : 0x600 ≤ searchfuel) :
    ∀ (fuel : Nat) (s : AladinState), s.i ≤ ndives → ndives - s.i ≤ fuel →
      s.current < 0x600 → s.previous < 0x600 → (dives s.trace).length = s.i →
      (aladin_dive_loop (some cb) none data ndives (aladin_eol data) eop searchfuel
        fuel s).outcome = Outcome.returned SUCCESS ∧
      (dives (aladin_dive_loop (some cb) none data ndives (aladin_eol data) eop searchfuel
        fuel s).trace).length = ndives := by
  intro fuel
  induction fuel with
  | zero =>
    intro s h1 h2 _ _ h5
    unfold aladin_dive_loop
    rw [if_pos (by omega : ¬ (s.i < ndives))]
    exact ⟨rfl, by rw [h5]; omega⟩
  | succ fuel ih =>
    intro s h1 h2 h3 h4 h5
    unfold aladin_dive_loop
    by_cases hc : ¬ (s.i < ndives)
    · rw [if_pos hc]
      exact ⟨rfl, by rw [h5]; omega⟩
    rw [if_neg hc]
    simp only []
    obtain ⟨s', stop, hd, r1, r2⟩ := aladin_dive_live (some cb) none data (aladin_eol data)
      eop searchfuel s he h3 h4 hsf
    rw [hd]
    simp only []
    obtain ⟨len, buffer, s1, hdel, e1, e2, _, _, _⟩ :=
      aladin_dive_spec (some cb) none data eop searchfuel s s' stop (by omega) hd
    rcases aladin_deliver_spec (some cb) none buffer len s1 with
      ⟨_, dev, hdev, _⟩ | ⟨_, ⟨hnone, _⟩ | ⟨cb2, hcb2, hw⟩⟩
    · cases hdev
    · cases hnone
    · rw [hw] at hdel
      simp only [Prod.mk.injEq] at hdel
      have hcb3 : cb2 = cb := (Option.some.inj hcb2).symm
      rw [hcb3, hcb] at hdel
      rw [hdel.2]
      simp only [Bool.not_true, Bool.false_eq_true, if_false]
      apply ih s'
      · rw [hdel.1]
        show s1.i ≤ ndives
        omega
      · rw [hdel.1]
        show ndives - s1.i ≤ fuel
        omega
      · exact r1
      · exact r2
      · rw [hdel.1]
        show (dives (s1.trace ++ [_])).length = s1.i
        rw [dives_append, e2, List.length_append, h5, e1]
        rfl

/-- The start of `uwatec_aladin_extract_dives`: with a device of the backend (or
none) and an image of full size, whose pointer to the last profile byte lies
inside the profile ring, the function is the dive loop, started at `eop`. -/
theorem aladin_extract_eq (callback : Option (List Event → List Nat → List Nat → Bool))
    (device : Option uwatec_aladin_device_t) (data : List Nat) (fuel : Nat)
    (hdev : ∀ dev, device = some dev → device_is_uwatec_aladin dev = true)
    (hsize : UWATEC_ALADIN_MEMORY_SIZE ≤ data.length) (hlast : aladin_last data < 0x600) :
    uwatec_aladin_extract_dives callback device data fuel =
      aladin_dive_loop callback device data (aladin_ndives data) (aladin_eol data)
        (Aladin.RB_PROFILE_NEXT (aladin_last data)) fuel fuel
        { i := 0, profiles := true, previous := Aladin.RB_PROFILE_NEXT (aladin_last data),
          current := Aladin.RB_PROFILE_NEXT (aladin_last data), trace := [] } := by
  unfold uwatec_aladin_extract_dives
  have h1 : ¬ (device.isSome = true ∧ ¬ (device.map device_is_uwatec_aladin).getD false = true) := by
    rintro ⟨h0, h⟩
    rcases device with _ | dev
    · simp at h0
    · exact h (by simpa using hdev dev rfl)
  rw [if_neg h1, if_neg (by omega : ¬ (data.length < UWATEC_ALADIN_MEMORY_SIZE))]
  simp only []
  have hfold : u32 (image_byte data (HEADER + 0x7f6) +
      ((((image_byte data (HEADER + 0x7f7)) &&& 0x0F) >>> 1) <<< 8)) = aladin_last data := rfl
  rw [hfold]
  have hd : ringbuffer_defined (aladin_last data) Aladin.RB_PROFILE_BEGIN Aladin.RB_PROFILE_END
      = true := by
    simp [ringbuffer_defined, Aladin.RB_PROFILE_BEGIN, Aladin.RB_PROFILE_END, hlast]
  rw [if_neg (not_not.mpr hd)]
  have hnd : (if array_uint16_be (image_bytes data (HEADER + 0x7f2) 2) > 37 then 37
      else array_uint16_be (image_bytes data (HEADER + 0x7f2) 2)) = aladin_ndives data := by
    unfold aladin_ndives
    split_ifs <;> omega
  rw [hnd]
  rfl

/-- The pointer `eop` lies inside the profile ring. -/
theorem aladin_eop_lt (data : List Nat) (hlast : aladin_last data < 0x600) :
    Aladin.RB_PROFILE_NEXT (aladin_last data) < 0x600 := by
  unfold Aladin.RB_PROFILE_NEXT Aladin.RB_PROFILE_BEGIN Aladin.RB_PROFILE_END
  rw [ringbuffer_increment_eq _ 1 0 0x600 ⟨Nat.zero_le _, hlast⟩ (by omega)]
  by_cases e : aladin_last data + 1 < 0x600
  · rw [if_pos e, u32_eq _ (by omega)]
    exact e
  · rw [if_neg e]
    have : aladin_last data + 1 - (0x600 - 0) = 0 := by omega
    rw [this]
    decide

/-- The Aladin extraction delivers at most `min (ndives, 37)` dives, the dive
number `j` being the block of the logbook slot `j` counted from the newest. -/
theorem aladin_extract_safe (callback : Option (List Event → List Nat → List Nat → Bool))
    (device : Option uwatec_aladin_device_t) (data : List Nat) (fuel : Nat) :
    (dives (uwatec_aladin_extract_dives callback device data fuel).trace).length
      ≤ aladin_ndives data ∧
    ∀ j d, (dives (uwatec_aladin_extract_dives callback device data fuel).trace)[j]? = some d →
      AladinGood device data j d := by
  have hnil : (dives ([] : List Event)).length ≤ aladin_ndives data ∧
      ∀ j d, (dives ([] : List Event))[j]? = some d → AladinGood device data j d :=
    ⟨Nat.zero_le _, fun j d h => by simp [dives] at h⟩
  unfold uwatec_aladin_extract_dives
  by_cases h1 : device.isSome = true ∧ ¬ (device.map device_is_uwatec_aladin).getD false = true
  · rw [if_pos h1]
    exact hnil
  rw [if_neg h1]
  by_cases h2 : data.length < UWATEC_ALADIN_MEMORY_SIZE
  · rw [if_pos h2]
    exact hnil
  rw [if_neg h2]
  simp only []
  by_cases h3 : ¬ ringbuffer_defined (u32 (image_byte data (HEADER + 0x7f6) +
      ((((image_byte data (HEADER + 0x7f7)) &&& 0x0F) >>> 1) <<< 8)))
      Aladin.RB_PROFILE_BEGIN Aladin.RB_PROFILE_END = true
  · rw [if_pos h3]
    exact hnil
  rw [if_neg h3]
  have hnd : (if array_uint16_be (image_bytes data (HEADER + 0x7f2) 2) > 37 then 37
      else array_uint16_be (image_bytes data (HEADER + 0x7f2) 2)) = aladin_ndives data := by
    unfold aladin_ndives
    split_ifs <;> omega
  rw [hnd]
  have heol : (image_byte data (HEADER + 0x7f4) + 37 - 1) % 37 = aladin_eol data := rfl
  rw [heol]
  exact aladin_loop_safe callback device data (aladin_ndives data) _ fuel
    (by unfold aladin_ndives; omega) fuel _ (Nat.zero_le _)
    (by show (dives ([] : List Event)).length = _; split_ifs <;> rfl)
    (fun j d h => by simp [dives] at h)

/-! ## The Aladin watermark and the block layout -/

/-- Claim C29. Aladin watermark and slot count: `uwatec_aladin_extract_dives`
invokes the callback at most `min (ndives, 37)` times, with `ndives` the
big-endian 16-bit value at `HEADER + 0x7f2`. When a device is supplied, the
dive number `j` that is delivered has the timestamp of the logbook slot `j`
(counted from the newest), and that is strictly greater than the timestamp of
the device; and when the slot `i` has a timestamp that is not greater, the
function returns `SUCCESS` having delivered at most `i` dives, so neither that
slot nor an older one. Without a device and with a callback that always
returns true it returns `SUCCESS` having delivered exactly `min (ndives, 37)`
dives. The two statements about the return value are for an image of 2048
bytes whose pointer to the last profile byte lies inside the profile ring (so
that the ring functions are defined), and are proved for runs with fuel for
one turn of the ring. -/
theorem aladin_watermark (callback : Option (List Event → List Nat → List Nat → Bool))
    (device : Option uwatec_aladin_device_t) (data : List Nat) (fuel : Nat) :
    (dives (uwatec_aladin_extract_dives callback device data fuel).trace).length ≤
      min (array_uint16_be (image_bytes data (HEADER + 0x7f2) 2)) 37 ∧
    (∀ dev j d, device = some dev →
      (dives (uwatec_aladin_extract_dives callback device data fuel).trace)[j]? = some d →
      array_uint32_le (d.1.drop 11) = aladin_slot_timestamp data j ∧
      array_uint32_le d.2 = aladin_slot_timestamp data j ∧
      dev.timestamp < aladin_slot_timestamp data j) ∧
    (∀ dev i, device = some dev → device_is_uwatec_aladin dev = true →
      UWATEC_ALADIN_MEMORY_SIZE ≤ data.length → aladin_last data < 0x600 → 0x600 ≤ fuel →
      i < min (array_uint16_be (image_bytes data (HEADER + 0x7f2) 2)) 37 →
      aladin_slot_timestamp data i ≤ dev.timestamp →
      (uwatec_aladin_extract_dives callback device data fuel).outcome =
        Outcome.returned SUCCESS ∧
      (dives (uwatec_aladin_extract_dives callback device data fuel).trace).length ≤ i) ∧
    (∀ cb, device = none → callback = some cb → (∀ t d f, cb t d f = true) →
      UWATEC_ALADIN_MEMORY_SIZE ≤ data.length → aladin_last data < 0x600 → 0x600 ≤ fuel →
      (uwatec_aladin_extract_dives callback device data fuel).outcome =
        Outcome.returned SUCCESS ∧
      (dives (uwatec_aladin_extract_dives callback device data fuel).trace).length =
        min (array_uint16_be (image_bytes data (HEADER + 0x7f2) 2)) 37) := by
  have hsafe := aladin_extract_safe callback device data fuel
  have hn : aladin_ndives data ≤ 37 := by unfold aladin_ndives; omega
  refine ⟨hsafe.1, ?_, ?_, ?_⟩
  · intro dev j d hdev hj
    obtain ⟨hok, h2, h3⟩ := hsafe.2 j d hj
    refine ⟨hok.2.2.2.2.1, h2, ?_⟩
    rw [← h2]
    exact h3 dev hdev
  · intro dev i hdev hguard hsize hlast hfuel hi hts
    subst hdev
    rw [aladin_extract_eq callback (some dev) data fuel
      (fun d hd => by cases hd; exact hguard) hsize hlast]
    exact aladin_loop_watermark callback dev data (aladin_ndives data) _ fuel i hn
      (aladin_eop_lt data hlast) hfuel hi hts fuel _ (Nat.zero_le _)
      (by show i - 0 < fuel; omega)
      (aladin_eop_lt data hlast) (aladin_eop_lt data hlast) (Nat.le_refl _)
  · intro cb hdev hcb hall hsize hlast hfuel
    subst hdev hcb
    rw [aladin_extract_eq (some cb) none data fuel (fun d hd => by cases hd) hsize hlast]
    exact aladin_loop_all cb data (aladin_ndives data) _ fuel hall hn
      (aladin_eop_lt data hlast) hfuel fuel _ (Nat.zero_le _)
      (by show aladin_ndives data - 0 ≤ fuel; omega)
      (aladin_eop_lt data hlast) (aladin_eop_lt data hlast) rfl

/-- The C29 theorem at `aladin_dated`, with a device whose timestamp lies between
those of the slots 1 and 2: the run returns `SUCCESS` having delivered at most
two dives; and without a device all five dives are delivered. -/
theorem aladin_watermark_witness :
    ((uwatec_aladin_extract_dives accept_all
        (some ⟨⟨uwatec_aladin_device_backend⟩, 3600000000, 0⟩) aladin_dated 1536).outcome =
        Outcome.returned SUCCESS ∧
      (dives (uwatec_aladin_extract_dives accept_all
        (some ⟨⟨uwatec_aladin_device_backend⟩, 3600000000, 0⟩) aladin_dated 1536).trace).length
        ≤ 2) ∧
    ((uwatec_aladin_extract_dives accept_all none aladin_dated 1536).outcome =
        Outcome.returned SUCCESS ∧
      (dives (uwatec_aladin_extract_dives accept_all none aladin_dated 1536).trace).length =
        min (array_uint16_be (image_bytes aladin_dated (HEADER + 0x7f2) 2)) 37) :=
  ⟨(aladin_watermark accept_all (some ⟨⟨uwatec_aladin_device_backend⟩, 3600000000, 0⟩)
      aladin_dated 1536).2.2.1 ⟨⟨uwatec_aladin_device_backend⟩, 3600000000, 0⟩ 2 rfl
      (by decide) (by decide!) (by decide!) (by decide) (by decide!) (by decide!),
   (aladin_watermark accept_all none aladin_dated 1536).2.2.2 (fun _ _ _ => true) rfl rfl
      (fun _ _ _ => rfl) (by decide!) (by decide!) (by decide)⟩

/-- Claim C30. Aladin dive block layout: the `j`-th block that
`uwatec_aladin_extract_dives` hands to the callback (`j = 0` for the newest)
has `len + 18` bytes, with `len` the 16-bit little-endian value in its bytes
16 and 17; it consists of the 3 serial bytes at `HEADER + 0x7ed`, the type byte
at `HEADER + 0x7bc`, the 12 bytes of the logbook slot `(eol + 37 - j) mod 37`
with the bytes 7 to 10 reversed (the 32-bit little-endian value in the bytes 11
to 14 of the block is the big-endian value in the bytes 7 to 10 of the slot),
the length, and `len` bytes of the profile ring that start one past a start
marker `0xFF` and wrap from `0x600` to 0; the fingerprint is the bytes 11 to
14 of the block. -/
theorem aladin_block_layout (callback : Option (List Event → List Nat → List Nat → Bool))
    (device : Option uwatec_aladin_device_t) (data : List Nat) (fuel j : Nat)
    (d : List Nat × List Nat)
    (h : (dives (uwatec_aladin_extract_dives callback device data fuel).trace)[j]? = some d) :
    AladinBlockOk data j d :=
  ((aladin_extract_safe callback device data fuel).2 j d h).1

/-- The C30 theorem at the second dive of `aladin_sample`, a block of 21 bytes
with three profile bytes. -/
theorem aladin_block_layout_witness :
    AladinBlockOk aladin_sample 1
      ((dives (uwatec_aladin_extract_dives accept_all none aladin_sample 40).trace).getD 1
        ([], [])) :=
  aladin_block_layout accept_all none aladin_sample 40 1
    ((dives (uwatec_aladin_extract_dives accept_all none aladin_sample 40).trace).getD 1
      ([], []))
    (by decide!)

/-- The second dive of `aladin_sample`: 21 bytes, of which the last three are the
profile bytes behind the start marker at the ring offset `0x08`. -/
theorem aladin_block_sample :
    ((dives (uwatec_aladin_extract_dives accept_all none aladin_sample 40).trace).getD 1
        ([], [])).1.length = 21 ∧
    ((dives (uwatec_aladin_extract_dives accept_all none aladin_sample 40).trace).getD 1
        ([], [])).1.drop 16 = [3, 0, (HEADER + 0x09) % 251, (HEADER + 0x0A) % 251,
          (HEADER + 0x0B) % 251] := by
  decide!

/-! ## The VTPro page read: properties -/

/-- `checksum_add_uint8` is the sum of the bytes modulo 256. -/
theorem sum8_foldl (l : List Nat) : ∀ init : Nat,
    l.foldl (fun acc b => (acc + b) % 256) (init % 256) = (init + l.sum) % 256 := by
  induction l with
  | nil => intro init; simp
  | cons a l ih =>
    intro init
    simp only [List.foldl_cons, List.sum_cons]
    rw [ih]
    omega

/-- `checksum_add_uint8` with a zero start is the sum of the bytes modulo 256. -/
theorem sum8_eq (data : List Nat) (size : Nat) :
    checksum_add_uint8 data size 0 = (data.take size).sum % 256 := by
  unfold checksum_add_uint8
  rw [sum8_foldl]
  simp

/-- The events of one `oceanic_vtpro_send`. -/
theorem send_events (port : Port) (trace : List SerialEvent) (command : List Nat)
    (csize : Nat) :
    ∃ ev, (oceanic_vtpro_send port trace command csize).2 = trace ++ ev ∧
      SendEvents (command.take csize) ev ∧
      ((oceanic_vtpro_send port trace command csize).1 = SUCCESS →
        SerialEvent.write (command.take csize) ∈ ev) := by
  unfold oceanic_vtpro_send
  by_cases c0 : port.cancelled trace = true
  · refine ⟨[], ?_, ?_, ?_⟩
    · simp [c0]
    · intro e he; simp at he
    · simp [c0]
  · simp only [c0, if_false]
    by_cases c1 : to_unsigned (port.serial_write trace (command.take csize)) ≠ csize
    · refine ⟨[SerialEvent.write (command.take csize)], ?_, ?_, ?_⟩
      · simp [c1]
      · intro e he; simp at he; exact Or.inl he
      · intro _; simp
    · refine ⟨[SerialEvent.write (command.take csize), SerialEvent.read 1], ?_, ?_, ?_⟩
      · simp only [c1, if_false]
        split_ifs <;> first | contradiction | simp
      · intro e he
        simp at he
        rcases he with he | he
        · exact Or.inl he
        · exact Or.inr he
      · intro _; simp

/-- The events of the retry loop of `oceanic_vtpro_transfer`. -/
theorem retry_events (port : Port) (command : List Nat) (csize : Nat) :
    ∀ (fuel nretries : Nat) (trace : List SerialEvent) (rc : device_status_t)
      (t : List SerialEvent),
      vtpro_send_retry port command csize fuel nretries trace = some (rc, t) →
      ∃ ev, t = trace ++ ev ∧ SendEvents (command.take csize) ev ∧
        (rc = SUCCESS → SerialEvent.write (command.take csize) ∈ ev) := by
  intro fuel
  induction fuel with
  | zero => intro nretries trace rc t h; simp [vtpro_send_retry] at h
  | succ fuel ih =>
    intro nretries trace rc t h
    obtain ⟨ev, hev, hse, hw⟩ := send_events port trace command csize
    rw [vtpro_send_retry] at h
    rcases hrc : oceanic_vtpro_send port trace command csize with ⟨rc1, t1⟩
    rw [hrc] at h hev hw
    simp only at h hev hw
    by_cases c1 : ¬ (rc1 ≠ SUCCESS)
    · rw [if_pos c1] at h
      simp only [Option.some.injEq, Prod.mk.injEq] at h
      obtain ⟨h1, h2⟩ := h
      subst h1 h2
      exact ⟨ev, hev, hse, hw⟩
    · rw [if_neg c1] at h
      by_cases c2 : rc1 ≠ TIMEOUT ∧ rc1 ≠ PROTOCOL
      · rw [if_pos c2] at h
        simp only [Option.some.injEq, Prod.mk.injEq] at h
        obtain ⟨h1, h2⟩ := h
        subst h1 h2
        exact ⟨ev, hev, hse, hw⟩
      · rw [if_neg c2] at h
        by_cases c3 : nretries ≥ MAXRETRIES
        · rw [if_pos c3] at h
          simp only [Option.some.injEq, Prod.mk.injEq] at h
          obtain ⟨h1, h2⟩ := h
          subst h1 h2
          exact ⟨ev, hev, hse, hw⟩
        · rw [if_neg c3] at h
          obtain ⟨ev2, hev2, hse2, hw2⟩ := ih _ _ _ _ h
          refine ⟨ev ++ ev2, ?_, ?_, ?_⟩
          · rw [hev2, hev, List.append_assoc]
          · intro e he
            rcases List.mem_append.mp he with he | he
            · exact hse e he
            · exact hse2 e he
          · intro hs
            exact List.mem_append.mpr (Or.inr (hw2 hs))

/-- Sends hold no transfer: the transfers of events that start with the sends of
a command are those of the events behind them. -/
theorem transfers_send (port : Port) (c : List Nat) :
    ∀ (ev : List SerialEvent) (pre : List SerialEvent) (w : List Nat),
      SendEvents c ev →
      ∃ w2, (SerialEvent.write c ∈ ev → w2 = c) ∧ (SerialEvent.write c ∉ ev → w2 = w) ∧
        ∀ rest, vtpro_transfers port pre w (ev ++ rest) =
          vtpro_transfers port (pre ++ ev) w2 rest := by
  intro ev
  induction ev with
  | nil => intro pre w _; exact ⟨w, by simp, by simp, by simp⟩
  | cons e ev ih =>
    intro pre w h
    have hev : SendEvents c ev := fun x hx => h x (List.mem_cons_of_mem _ hx)
    rcases h e (List.mem_cons_self _ _) with he | he
    · subst he
      obtain ⟨w2, h1, h0, h2⟩ := ih (pre ++ [SerialEvent.write c]) c hev
      refine ⟨w2, ?_, ?_, ?_⟩
      · intro hm
        by_cases hin : SerialEvent.write c ∈ ev
        · exact h1 hin
        · exact h0 hin
      · intro hm
        exact absurd (List.mem_cons_self _ _) hm
      · intro rest
        rw [List.cons_append, vtpro_transfers, h2 rest, List.append_assoc, List.singleton_append]
    · subst he
      obtain ⟨w2, h1, h0, h2⟩ := ih (pre ++ [SerialEvent.read 1]) w hev
      refine ⟨w2, ?_, ?_, ?_⟩
      · intro hm
        rcases List.mem_cons.mp hm with hm | hm
        · cases hm
        · exact h1 hm
      · intro hm
        exact h0 (fun hx => hm (List.mem_cons_of_mem _ hx))
      · intro rest
        rw [List.cons_append, vtpro_transfers, if_pos rfl, h2 rest, List.append_assoc,
          List.singleton_append]

/-- `EXITCODE` is never `SUCCESS`. -/
theorem exitcode_ne_success (n : Int) : EXITCODE n ≠ SUCCESS := by
  unfold EXITCODE
  split_ifs <;> decide

/-- One `oceanic_vtpro_transfer` of a six-byte command with an answer of more
than one byte, as `vtpro_transfers` sees it: it returns, it writes the command
only, and it shows as one transfer when the command was acknowledged, complete
exactly when the transfer succeeds. -/
theorem transfer_events (port : Port) (fuel : Nat) (trace : List SerialEvent)
    (command : List Nat) (asize : Nat)
    (hfuel : MAXRETRIES + 1 ≤ fuel) (hlen : command.length = 6) (hsize : asize ≠ 1) :
    ∃ ev rc,
      (oceanic_vtpro_transfer port fuel trace command 6
        (List.replicate ((PAGESIZE + 1) * MULTIPAGE) 0) asize).outcome = Outcome.returned rc ∧
      (oceanic_vtpro_transfer port fuel trace command 6
        (List.replicate ((PAGESIZE + 1) * MULTIPAGE) 0) asize).trace = trace ++ ev ∧
      (∀ w, SerialEvent.write w ∈ ev → w = command) ∧
      ∀ w0,
        (rc ≠ SUCCESS → vtpro_transfers port trace w0 ev = [] ∨
          ∃ n a, to_unsigned n ≠ asize ∧
            vtpro_transfers port trace w0 ev = [⟨command, asize, n, a⟩]) ∧
        (rc = SUCCESS → ∃ n, to_unsigned n = asize ∧
          ∀ rest, vtpro_transfers port trace w0 (ev ++ rest) =
            ⟨command, asize, n, (oceanic_vtpro_transfer port fuel trace command 6
              (List.replicate ((PAGESIZE + 1) * MULTIPAGE) 0) asize).answer⟩ ::
              vtpro_transfers port (trace ++ ev) command rest) := by
  obtain ⟨rc1, t, hretry, _⟩ := send_retry_bound port command 6 fuel 0 trace (by decide)
    (by omega)
  obtain ⟨ev1, ht, hse, hw⟩ := retry_events port command 6 fuel 0 trace rc1 t hretry
  have htake : command.take 6 = command := List.take_of_length_le (by omega)
  rw [htake] at hse hw
  have hspec := vtpro_transfer_of_retry port fuel trace command 6
    (List.replicate ((PAGESIZE + 1) * MULTIPAGE) 0) asize rc1 t hretry
  have hwr : ∀ w, SerialEvent.write w ∈ ev1 → w = command := by
    intro w hm
    rcases hse _ hm with h | h
    · cases h; rfl
    · cases h
  by_cases hrc : rc1 = SUCCESS
  · obtain ⟨h1, h2, h3⟩ := hspec.2 hrc
    have hw2c : ∀ w0, ∃ w2, w2 = command ∧ ∀ rest, vtpro_transfers port trace w0 (ev1 ++ rest) =
        vtpro_transfers port (trace ++ ev1) w2 rest := by
      intro w0
      obtain ⟨w2, hw2, _, htr⟩ := transfers_send port command ev1 trace w0 hse
      exact ⟨w2, hw2 (hw hrc), htr⟩
    have hstep : ∀ w0 rest, vtpro_transfers port trace w0 (ev1 ++ [SerialEvent.read asize] ++ rest) =
        ⟨command, asize, (port.serial_read t asize).1,
          received (List.replicate ((PAGESIZE + 1) * MULTIPAGE) 0) asize
            (port.serial_read t asize).1 (port.serial_read t asize).2⟩ ::
          vtpro_transfers port (trace ++ (ev1 ++ [SerialEvent.read asize])) command rest := by
      intro w0 rest
      obtain ⟨w2, e2, htr⟩ := hw2c w0
      subst e2
      rw [List.append_assoc, htr, List.singleton_append, vtpro_transfers, if_neg hsize, ← ht,
        ← List.append_assoc, ← ht]
    by_cases hn : to_unsigned (port.serial_read t asize).1 ≠ asize
    · rw [if_pos hn] at h2
      refine ⟨ev1 ++ [SerialEvent.read asize], EXITCODE (port.serial_read t asize).1, h2, ?_, ?_, ?_⟩
      · rw [h1, ht, List.append_assoc]
      · intro w hm
        rcases List.mem_append.mp hm with hm | hm
        · exact hwr w hm
        · simp at hm
      · intro w0
        refine ⟨fun _ => Or.inr ⟨(port.serial_read t asize).1,
          received (List.replicate ((PAGESIZE + 1) * MULTIPAGE) 0) asize
            (port.serial_read t asize).1 (port.serial_read t asize).2, hn, ?_⟩,
          fun h => absurd h (exitcode_ne_success _)⟩
        have := hstep w0 []
        rw [List.append_nil] at this
        rw [this, vtpro_transfers]
    · rw [if_neg hn] at h2
      refine ⟨ev1 ++ [SerialEvent.read asize], SUCCESS, h2, ?_, ?_, ?_⟩
      · rw [h1, ht, List.append_assoc]
      · intro w hm
        rcases List.mem_append.mp hm with hm | hm
        · exact hwr w hm
        · simp at hm
      · intro w0
        refine ⟨fun h => absurd rfl h, fun _ => ⟨_, not_not.mp hn, ?_⟩⟩
        intro rest
        rw [h3]
        exact hstep w0 rest
  · have h1 := hspec.1 hrc
    refine ⟨ev1, rc1, by rw [h1], by rw [h1, ht], hwr, ?_⟩
    intro w0
    refine ⟨fun _ => Or.inl ?_, fun h => absurd h hrc⟩
    obtain ⟨w2, _, _, htr⟩ := transfers_send port command ev1 trace w0 hse
    have := htr []
    rw [List.append_nil] at this
    rw [this, vtpro_transfers]

/-- The first element of a `bind` over a range. -/
theorem range_bind_succ (f : Nat → List Nat) (n : Nat) :
    (List.range (n + 1)).flatMap f = f 0 ++ (List.range n).flatMap (fun i => f (i + 1)) := by
  rw [List.range_succ_eq_map, List.flatMap_cons, List.flatMap_map]

/-- The `for` loop of `oceanic_vtpro_device_read` over `count` pages from page `j`
of the answer: when every checksum matches, the counters have advanced by the
pages, the payloads are appended in their order, and every seventeenth byte is
the 8-bit sum of the sixteen payload bytes before it. -/
theorem pages_spec (answer : List Nat) : ∀ (count j : Nat) (s : PageState),
    s.offset = (PAGESIZE + 1) * j → (PAGESIZE + 1) * (j + count) < 4294967296 →
    s.nbytes + PAGESIZE * count < 4294967296 → s.address + PAGESIZE * count < 4294967296 →
    (vtpro_pages answer count s).1 = true →
    (vtpro_pages answer count s).2.nbytes = s.nbytes + PAGESIZE * count ∧
    (vtpro_pages answer count s).2.address = s.address + PAGESIZE * count ∧
    (vtpro_pages answer count s).2.data = s.data ++ (List.range count).flatMap (fun i =>
      (answer.drop ((PAGESIZE + 1) * (j + i))).take PAGESIZE) ∧
    ∀ i < count, answer.getD ((PAGESIZE + 1) * (j + i) + PAGESIZE) 0 =
      ((answer.drop ((PAGESIZE + 1) * (j + i))).take PAGESIZE).sum % 256 := by
  intro count
  induction count with
  | zero =>
    intro j s _ _ _ _ _
    rw [vtpro_pages]
    simp
  | succ count ih =>
    intro j s hoff hj hn ha hok
    rw [vtpro_pages] at hok ⊢
    by_cases hcrc : answer.getD (s.offset + PAGESIZE) 0 ≠
        checksum_add_uint8 (answer.drop s.offset) PAGESIZE 0x00
    · rw [if_pos hcrc] at hok
      exact absurd hok (by simp)
    · rw [if_neg hcrc] at hok ⊢
      have hoff2 : s.offset = 17 * j := hoff
      have hj2 : 17 * (j + (count + 1)) < 4294967296 := hj
      have hn2 : s.nbytes + 16 * (count + 1) < 4294967296 := hn
      have ha2 : s.address + 16 * (count + 1) < 4294967296 := ha
      have e1 : u32 (s.nbytes + PAGESIZE) = s.nbytes + 16 :=
        u32_eq _ (by show s.nbytes + 16 < 4294967296; omega)
      have e2 : u32 (s.address + PAGESIZE) = s.address + 16 :=
        u32_eq _ (by show s.address + 16 < 4294967296; omega)
      have e3 : u32 (s.offset + (PAGESIZE + 1)) = (PAGESIZE + 1) * (j + 1) := by
        rw [u32_eq _ (by show s.offset + 17 < 4294967296; omega)]
        show s.offset + 17 = 17 * (j + 1)
        omega
      rw [e1, e2, e3] at hok ⊢
      obtain ⟨h1, h2, h3, h4⟩ := ih (j + 1)
        { nbytes := s.nbytes + 16, address := s.address + 16,
          offset := (PAGESIZE + 1) * (j + 1),
          data := s.data ++ (answer.drop s.offset).take PAGESIZE } rfl
        (by show 17 * (j + 1 + count) < 4294967296; omega)
        (by show s.nbytes + 16 + 16 * count < 4294967296; omega)
        (by show s.address + 16 + 16 * count < 4294967296; omega) hok
      simp only at h1 h2 h3 h4
      refine ⟨?_, ?_, ?_, ?_⟩
      · rw [h1]; show s.nbytes + 16 + 16 * count = s.nbytes + 16 * (count + 1); omega
      · rw [h2]; show s.address + 16 + 16 * count = s.address + 16 * (count + 1); omega
      · have e : (fun i => List.take PAGESIZE (List.drop ((PAGESIZE + 1) * (j + 1 + i)) answer)) =
            (fun i => List.take PAGESIZE (List.drop ((PAGESIZE + 1) * (j + (i + 1))) answer)) := by
          funext i
          rw [Nat.add_assoc, Nat.add_comm 1 i]
        rw [h3, range_bind_succ, List.append_assoc, hoff, e]
        rfl
      · intro i hi
        rcases Nat.eq_zero_or_pos i with h0 | h0
        · subst h0
          show answer.getD ((PAGESIZE + 1) * j + PAGESIZE) 0 =
            ((answer.drop ((PAGESIZE + 1) * j)).take PAGESIZE).sum % 256
          rw [← hoff, not_not.mp hcrc, sum8_eq]
        · have := h4 (i - 1) (by omega)
          have e : j + 1 + (i - 1) = j + i := by omega
          rw [e] at this
          exact this

/-- The high and the low byte of the C expressions of a page-read command. -/
theorem hi_lo_bytes (x : Nat) :
    (x >>> 8) &&& 0xFF = x / 256 % 256 ∧ x &&& 0xFF = x % 256 := by
  constructor
  · rw [Nat.shiftRight_eq_div_pow]
    exact Nat.and_pow_two_sub_one_eq_mod _ 8
  · exact Nat.and_pow_two_sub_one_eq_mod _ 8

/-- The number of packets of a transfer when `c` pages are left. -/
theorem npackets_eq (size nbytes c : Nat) (h : size = nbytes + 16 * c)
    (hsize : size < 4294967296) :
    vtpro_npackets size nbytes = min 4 c := by
  unfold vtpro_npackets
  rw [usub_eq _ _ (by omega) hsize]
  have e : (size - nbytes) / PAGESIZE = c := by
    show (size - nbytes) / 16 = c
    omega
  simp only [e, MULTIPAGE]
  split_ifs <;> omega

/-- The command of a transfer of `np` pages from page `f`. -/
theorem read_command_eq (f np : Nat) (h1 : 1 ≤ np) (h2 : f + np < 4294967296) :
    vtpro_read_command (16 * f) np = vtpro_page_command f (f + np - 1) := by
  unfold vtpro_read_command vtpro_page_command
  have e1 : 16 * f / PAGESIZE = f := by
    show 16 * f / 16 = f
    omega
  have e2 : usub (u32 (f + np)) 1 = f + np - 1 := by
    rw [u32_eq _ h2, usub_eq _ _ (by omega) h2]
  simp only [e1, e2, (hi_lo_bytes f).1, (hi_lo_bytes f).2, (hi_lo_bytes (f + np - 1)).1,
    (hi_lo_bytes (f + np - 1)).2]

/-- The first transfer of a read of `c` pages from page `f`. -/
theorem page_first (f c : Nat) (h : 1 ≤ c) :
    vtpro_first f 0 = f ∧ vtpro_last f c 0 = f + min 4 c - 1 := by
  unfold vtpro_first vtpro_last
  simp only [MULTIPAGE]
  omega

/-- Transfer `k` of what is left after the first transfer is transfer `k + 1`. -/
theorem page_shift (f c k : Nat) (h : k < (c - min 4 c + 3) / 4) :
    vtpro_first (f + min 4 c) k = vtpro_first f (k + 1) ∧
    vtpro_last (f + min 4 c) (c - min 4 c) k = vtpro_last f c (k + 1) := by
  unfold vtpro_first vtpro_last
  simp only [MULTIPAGE]
  omega

/-- The `while` loop of `oceanic_vtpro_device_read` with `c` pages left from page
`f`, as it is seen on the port: it returns; every command it writes is the
command of one of the `(c + 3) / 4` transfers; the transfers it makes are the
first of them, in their order, and all of them when it succeeds; its output is
then the payloads of all pages; and a page with a wrong checksum makes it
return `PROTOCOL`. -/
theorem read_loop_spec (port : Port) (size retryfuel : Nat)
    (hretry : MAXRETRIES + 1 ≤ retryfuel) (hsize : size < 4294967296) :
    ∀ (fuel : Nat) (trace : List SerialEvent) (s : PageState) (f c : Nat),
      s.address = 16 * f → size = s.nbytes + 16 * c → 16 * (f + c) < 4294967296 →
      (c + 3) / 4 ≤ fuel →
      ∃ ev rc,
        (vtpro_read_loop port size retryfuel fuel trace s).outcome = Outcome.returned rc ∧
        (vtpro_read_loop port size retryfuel fuel trace s).trace = trace ++ ev ∧
        (∀ w, SerialEvent.write w ∈ ev → ∃ k, k < (c + 3) / 4 ∧
          w = vtpro_page_command (vtpro_first f k) (vtpro_last f c k)) ∧
        ∀ w0,
          (vtpro_transfers port trace w0 ev).length ≤ (c + 3) / 4 ∧
          (∀ k t, (vtpro_transfers port trace w0 ev)[k]? = some t →
            t.command = vtpro_page_command (vtpro_first f k) (vtpro_last f c k) ∧
            t.asize = (PAGESIZE + 1) * (vtpro_last f c k + 1 - vtpro_first f k)) ∧
          (rc = SUCCESS →
            (vtpro_transfers port trace w0 ev).length = (c + 3) / 4 ∧
            (vtpro_read_loop port size retryfuel fuel trace s).answer =
              s.data ++ (vtpro_transfers port trace w0 ev).flatMap vtpro_payloads) ∧
          (∀ t ∈ vtpro_transfers port trace w0 ev, ∀ i, vtpro_bad_page t i →
            rc = PROTOCOL) := by
  intro fuel
  induction fuel with
  | zero =>
    intro trace s f c ha hs hb hfuel
    have hc : c = 0 := by omega
    subst hc
    have hlt : ¬ (s.nbytes < size) := by omega
    rw [vtpro_read_loop]
    simp only [hlt, not_false_eq_true, if_true]
    refine ⟨[], SUCCESS, rfl, by simp, by simp, ?_⟩
    intro w0
    simp [vtpro_transfers]
  | succ fuel ih =>
    intro trace s f c ha hs hb hfuel
    by_cases hlt : s.nbytes < size
    · have hc : 1 ≤ c := by omega
      have hnp := npackets_eq size s.nbytes c hs hsize
      have hnp1 : 1 ≤ min 4 c := by omega
      have hnp4 : min 4 c ≤ 4 := by omega
      have hnpc : min 4 c ≤ c := by omega
      have hasz : u32 ((PAGESIZE + 1) * min 4 c) = 17 * min 4 c :=
        u32_eq _ (by show 17 * min 4 c < 4294967296; omega)
      have hcmd := read_command_eq f (min 4 c) hnp1 (by omega)
      obtain ⟨hf0, hl0⟩ := page_first f c hc
      obtain ⟨ev1, rc1, ho1, ht1, hw1, htr1⟩ := transfer_events port retryfuel trace
        (vtpro_page_command f (f + min 4 c - 1)) (17 * min 4 c) hretry rfl (by omega)
      generalize hr : oceanic_vtpro_transfer port retryfuel trace
        (vtpro_page_command f (f + min 4 c - 1)) 6
        (List.replicate ((PAGESIZE + 1) * MULTIPAGE) 0) (17 * min 4 c) = r at ho1 ht1 htr1
      rw [vtpro_read_loop]
      simp only [hlt, not_true_eq_false, if_false, hnp, hasz, ha, hcmd, hr]
      have hk0 : 0 < (c + 3) / 4 := by omega
      have hwr : ∀ w, SerialEvent.write w ∈ ev1 → ∃ k, k < (c + 3) / 4 ∧
          w = vtpro_page_command (vtpro_first f k) (vtpro_last f c k) := by
        intro w hm
        refine ⟨0, hk0, ?_⟩
        rw [hf0, hl0]
        exact hw1 w hm
      have hsz0 : 17 * min 4 c = (PAGESIZE + 1) * (vtpro_last f c 0 + 1 - vtpro_first f 0) := by
        rw [hf0, hl0]
        show 17 * min 4 c = 17 * (f + min 4 c - 1 + 1 - f)
        have : f + min 4 c - 1 + 1 - f = min 4 c := by omega
        rw [this]
      have hc0 : vtpro_page_command f (f + min 4 c - 1) =
          vtpro_page_command (vtpro_first f 0) (vtpro_last f c 0) := by rw [hf0, hl0]
      by_cases hrc : rc1 = SUCCESS
      · subst hrc
        rw [if_neg (not_not.mpr ho1)]
        have hps := pages_spec r.answer (min 4 c) 0
          { nbytes := s.nbytes, address := 16 * f, offset := 0, data := s.data } rfl
          (by show 17 * (0 + min 4 c) < 4294967296; omega)
          (by show s.nbytes + 16 * min 4 c < 4294967296; omega)
          (by show 16 * f + 16 * min 4 c < 4294967296; omega)
        rcases hp : vtpro_pages r.answer (min 4 c)
          { nbytes := s.nbytes, address := 16 * f, offset := 0, data := s.data } with ⟨ok, s2⟩
        rw [hp] at hps
        have hone : ∀ w0, ∃ n, to_unsigned n = 17 * min 4 c ∧
            vtpro_transfers port trace w0 ev1 =
              [⟨vtpro_page_command f (f + min 4 c - 1), 17 * min 4 c, n, r.answer⟩] := by
          intro w0
          obtain ⟨n, hn, hcons⟩ := (htr1 w0).2 rfl
          refine ⟨n, hn, ?_⟩
          have := hcons []
          rw [List.append_nil] at this
          rw [this, vtpro_transfers]
        cases ok with
        | false =>
          refine ⟨ev1, PROTOCOL, rfl, ht1, hwr, ?_⟩
          intro w0
          obtain ⟨n, hn, h0⟩ := hone w0
          rw [h0]
          refine ⟨by simp; omega, ?_, fun h => absurd h (by decide), fun _ _ _ _ => rfl⟩
          intro k t h
          rcases k with _ | k
          · simp at h
            subst h
            exact ⟨hc0, hsz0⟩
          · simp at h
        | true =>
          obtain ⟨hp1, hp2, hp3, hp4⟩ := hps rfl
          simp only at hp1 hp2 hp3 hp4 ⊢
          obtain ⟨ev2, rc2, ho2, ht2, hw2, htr2⟩ := ih r.trace s2 (f + min 4 c) (c - min 4 c)
            (by rw [hp2]; show 16 * f + 16 * min 4 c = 16 * (f + min 4 c); omega)
            (by rw [hp1]; show size = s.nbytes + 16 * min 4 c + 16 * (c - min 4 c); omega)
            (by omega) (by omega)
          refine ⟨ev1 ++ ev2, rc2, ho2, by rw [ht2, ht1, List.append_assoc], ?_, ?_⟩
          · intro w hm
            rcases List.mem_append.mp hm with hm | hm
            · exact hwr w hm
            · obtain ⟨k, hk, e⟩ := hw2 w hm
              obtain ⟨e1, e2⟩ := page_shift f c k hk
              exact ⟨k + 1, by omega, by rw [e, e1, e2]⟩
          · intro w0
            obtain ⟨n, hn, hcons⟩ := (htr1 w0).2 rfl
            rw [hcons ev2, ← ht1]
            obtain ⟨hlen, hget, hsucc, hbad⟩ :=
              htr2 (vtpro_page_command f (f + min 4 c - 1))
            refine ⟨by rw [List.length_cons]; omega, ?_, ?_, ?_⟩
            · intro k t h
              rcases k with _ | k
              · simp at h
                subst h
                exact ⟨hc0, hsz0⟩
              · rw [List.getElem?_cons_succ] at h
                have hk : k < (c - min 4 c + 3) / 4 := by
                  have := (List.getElem?_eq_some_iff.mp h).1
                  omega
                obtain ⟨e1, e2⟩ := page_shift f c k hk
                rw [← e1, ← e2]
                exact hget k t h
            · intro hrc
              obtain ⟨h1, h2⟩ := hsucc hrc
              refine ⟨by rw [List.length_cons, h1]; omega, ?_⟩
              rw [h2, hp3, List.flatMap_cons, List.append_assoc]
              congr 2
              unfold vtpro_payloads
              have e : 17 * min 4 c / (PAGESIZE + 1) = min 4 c := by
                show 17 * min 4 c / 17 = min 4 c
                omega
              simp only [e]
              congr 1
              funext i
              unfold vtpro_payload
              simp only [Nat.zero_add]
            · intro t hm i hb
              rcases List.mem_cons.mp hm with hm | hm
              · subst hm
                obtain ⟨_, hi, hne⟩ := hb
                simp only at hi hne
                have e : 17 * min 4 c / (PAGESIZE + 1) = min 4 c := by
                  show 17 * min 4 c / 17 = min 4 c
                  omega
                rw [e] at hi
                have := hp4 i hi
                rw [Nat.zero_add] at this
                exact absurd this hne
              · exact hbad t hm i hb
      · have hne : r.outcome ≠ Outcome.returned SUCCESS := by
          rw [ho1]
          intro h
          injection h with h
          exact hrc h
        rw [if_pos hne]
        refine ⟨ev1, rc1, ho1, ht1, hwr, ?_⟩
        intro w0
        rcases (htr1 w0).1 hrc with h0 | ⟨n, a, hn, h0⟩
        · rw [h0]
          refine ⟨by simp, ?_, fun h => absurd h hrc, ?_⟩
          · intro k t h; simp at h
          · intro t h; simp at h
        · rw [h0]
          refine ⟨by simp; omega, ?_, fun h => absurd h hrc, ?_⟩
          · intro k t h
            rcases k with _ | k
            · simp at h
              subst h
              exact ⟨hc0, hsz0⟩
            · simp at h
          · intro t h i hbad
            simp at h
            subst h
            exact absurd hbad.1 hn
    · have hc : c = 0 := by omega
      subst hc
      rw [vtpro_read_loop]
      simp only [hlt, not_false_eq_true, if_true]
      refine ⟨[], SUCCESS, rfl, by simp, by simp, ?_⟩
      intro w0
      simp [vtpro_transfers]

/-- Claim C25, amended. VTPro page read: for every `address` and `size` that are
multiples of `PAGESIZE`, with `address + size` below `2^32`, the call
`oceanic_vtpro_device_read` returns (with fuel for the retries of a transfer
and for `ceil(size / (PAGESIZE*MULTIPAGE))` transfers). Everything it writes is
the 6-byte command `34, hi(first), lo(first), hi(last), lo(last), 00` of one of
these transfers. The transfers it makes (acknowledged commands, each followed
by the read of the answer) are at most that many, and transfer `k` has the
command of the pages `first k` to `last k` and asks for seventeen bytes for
each of them. When the call returns `SUCCESS` it has made exactly
`ceil(size / (PAGESIZE*MULTIPAGE))` transfers, and its output is the
concatenation of the 16-byte payloads of all pages, in the order of the
transfers. When a page that arrived has a seventeenth byte other than the 8-bit
sum of its sixteen payload bytes, the call returns `PROTOCOL`. The page ranges:
`0 <= last - first <= MULTIPAGE - 1`, the first range starts at
`address/PAGESIZE`, each range starts behind the one before, and the last one
ends at `(address+size)/PAGESIZE - 1`. -/
theorem page_read_spec (port : Port) (device : oceanic_common_device_t) (fuel : Nat)
    (trace : List SerialEvent) (address size : Nat)
    (hdev : device_is_oceanic_vtpro device = true)
    (ha : address % PAGESIZE = 0) (hs : size % PAGESIZE = 0)
    (hb : address + size < 4294967296)
    (hfuel : MAXRETRIES + 1 ≤ fuel ∧ vtpro_ntransfers size ≤ fuel) :
    (∃ ev rc,
      (oceanic_vtpro_device_read port device fuel trace address size).outcome =
        Outcome.returned rc ∧
      (oceanic_vtpro_device_read port device fuel trace address size).trace = trace ++ ev ∧
      (∀ w, SerialEvent.write w ∈ ev → ∃ k, k < vtpro_ntransfers size ∧
        w = vtpro_page_command (vtpro_first (address / PAGESIZE) k)
          (vtpro_last (address / PAGESIZE) (size / PAGESIZE) k)) ∧
      (vtpro_transfers port trace [] ev).length ≤ vtpro_ntransfers size ∧
      (∀ k t, (vtpro_transfers port trace [] ev)[k]? = some t →
        t.command = vtpro_page_command (vtpro_first (address / PAGESIZE) k)
          (vtpro_last (address / PAGESIZE) (size / PAGESIZE) k) ∧
        t.asize = (PAGESIZE + 1) * (vtpro_last (address / PAGESIZE) (size / PAGESIZE) k + 1 -
          vtpro_first (address / PAGESIZE) k)) ∧
      (rc = SUCCESS →
        (vtpro_transfers port trace [] ev).length = vtpro_ntransfers size ∧
        (oceanic_vtpro_device_read port device fuel trace address size).answer =
          (vtpro_transfers port trace [] ev).flatMap vtpro_payloads) ∧
      (∀ t ∈ vtpro_transfers port trace [] ev, ∀ i, vtpro_bad_page t i → rc = PROTOCOL)) ∧
    (∀ k, k < vtpro_ntransfers size →
      vtpro_first (address / PAGESIZE) k ≤ vtpro_last (address / PAGESIZE) (size / PAGESIZE) k ∧
      vtpro_last (address / PAGESIZE) (size / PAGESIZE) k ≤
        vtpro_first (address / PAGESIZE) k + (MULTIPAGE - 1)) ∧
    (0 < size →
      vtpro_first (address / PAGESIZE) 0 = address / PAGESIZE ∧
      vtpro_last (address / PAGESIZE) (size / PAGESIZE) (vtpro_ntransfers size - 1) =
        (address + size) / PAGESIZE - 1) ∧
    (∀ k, k + 1 < vtpro_ntransfers size →
      vtpro_first (address / PAGESIZE) (k + 1) =
        vtpro_last (address / PAGESIZE) (size / PAGESIZE) k + 1) := by
  have ha2 : address % 16 = 0 := ha
  have hs2 : size % 16 = 0 := hs
  have hN : vtpro_ntransfers size = (size / PAGESIZE + 3) / 4 := by
    show (size + (16 * 4 - 1)) / (16 * 4) = (size / 16 + 3) / 4
    omega
  have hf : address / PAGESIZE = address / 16 := rfl
  have hc : size / PAGESIZE = size / 16 := rfl
  refine ⟨?_, ?_, ?_, ?_⟩
  · unfold oceanic_vtpro_device_read
    simp only [hdev, not_true_eq_false, if_false, ha, hs]
    obtain ⟨ev, rc, h1, h2, h3, h4⟩ := read_loop_spec port size fuel hfuel.1 (by omega) fuel trace
      { nbytes := 0, address := address, offset := 0, data := [] } (address / 16) (size / 16)
      (by show address = 16 * (address / 16); omega)
      (by show size = 0 + 16 * (size / 16); omega) (by omega)
      (by have := hfuel.2; rw [hN, hc] at this; exact this)
    obtain ⟨h5, h6, h7, h8⟩ := h4 []
    rw [hN, hf, hc]
    refine ⟨ev, rc, h1, h2, h3, h5, h6, ?_, h8⟩
    intro hrc
    obtain ⟨h9, h10⟩ := h7 hrc
    exact ⟨h9, by rw [h10]; rfl⟩
  · intro k hk
    rw [hN] at hk
    unfold vtpro_first vtpro_last
    simp only [hf, hc, MULTIPAGE] at hk ⊢
    omega
  · intro h0
    have hsum : (address + size) / PAGESIZE = (address + size) / 16 := rfl
    rw [hN]
    unfold vtpro_first vtpro_last
    simp only [hf, hc, hsum, MULTIPAGE]
    omega
  · intro k hk
    rw [hN] at hk
    unfold vtpro_first vtpro_last
    simp only [hf, hc, MULTIPAGE] at hk ⊢
    omega

/-- The C25 theorem at the read of the 96 bytes from address 16 of a memory
image behind a port that answers every page-read command. -/
theorem page_read_spec_witness :
    (∃ ev rc,
      (oceanic_vtpro_device_read (memory_port page_image)
        (vtpro_device [0, 0, 0, 0, 0, 0, 0, 0]) 3 [] 16 96).outcome = Outcome.returned rc ∧
      (oceanic_vtpro_device_read (memory_port page_image)
        (vtpro_device [0, 0, 0, 0, 0, 0, 0, 0]) 3 [] 16 96).trace = [] ++ ev ∧
      (∀ w, SerialEvent.write w ∈ ev → ∃ k, k < vtpro_ntransfers 96 ∧
        w = vtpro_page_command (vtpro_first (16 / PAGESIZE) k)
          (vtpro_last (16 / PAGESIZE) (96 / PAGESIZE) k)) ∧
      (vtpro_transfers (memory_port page_image) [] [] ev).length ≤ vtpro_ntransfers 96 ∧
      (∀ k t, (vtpro_transfers (memory_port page_image) [] [] ev)[k]? = some t →
        t.command = vtpro_page_command (vtpro_first (16 / PAGESIZE) k)
          (vtpro_last (16 / PAGESIZE) (96 / PAGESIZE) k) ∧
        t.asize = (PAGESIZE + 1) * (vtpro_last (16 / PAGESIZE) (96 / PAGESIZE) k + 1 -
          vtpro_first (16 / PAGESIZE) k)) ∧
      (rc = SUCCESS →
        (vtpro_transfers (memory_port page_image) [] [] ev).length = vtpro_ntransfers 96 ∧
        (oceanic_vtpro_device_read (memory_port page_image)
          (vtpro_device [0, 0, 0, 0, 0, 0, 0, 0]) 3 [] 16 96).answer =
          (vtpro_transfers (memory_port page_image) [] [] ev).flatMap vtpro_payloads) ∧
      (∀ t ∈ vtpro_transfers (memory_port page_image) [] [] ev, ∀ i,
        vtpro_bad_page t i → rc = PROTOCOL)) ∧
    (∀ k, k < vtpro_ntransfers 96 →
      vtpro_first (16 / PAGESIZE) k ≤ vtpro_last (16 / PAGESIZE) (96 / PAGESIZE) k ∧
      vtpro_last (16 / PAGESIZE) (96 / PAGESIZE) k ≤
        vtpro_first (16 / PAGESIZE) k + (MULTIPAGE - 1)) ∧
    (0 < 96 →
      vtpro_first (16 / PAGESIZE) 0 = 16 / PAGESIZE ∧
      vtpro_last (16 / PAGESIZE) (96 / PAGESIZE) (vtpro_ntransfers 96 - 1) =
        (16 + 96) / PAGESIZE - 1) ∧
    (∀ k, k + 1 < vtpro_ntransfers 96 →
      vtpro_first (16 / PAGESIZE) (k + 1) =
        vtpro_last (16 / PAGESIZE) (96 / PAGESIZE) k + 1) :=
  page_read_spec (memory_port page_image) (vtpro_device [0, 0, 0, 0, 0, 0, 0, 0]) 3 [] 16 96
    (by decide) (by decide) (by decide) (by decide) (by decide)

/-- The read of the 96 bytes from address 16 of the memory image, in full: two
transfers, of the pages 1 to 4 and 5 to 6, and the bytes 16 to 111 of the image
as the output. -/
theorem page_read_sample :
    oceanic_vtpro_device_read (memory_port page_image)
        (vtpro_device [0, 0, 0, 0, 0, 0, 0, 0]) 3 [] 16 96 =
      ⟨Outcome.returned SUCCESS,
       [SerialEvent.write [0x34, 0, 1, 0, 4, 0], SerialEvent.read 1, SerialEvent.read 68,
        SerialEvent.write [0x34, 0, 5, 0, 6, 0], SerialEvent.read 1, SerialEvent.read 34],
       (List.range 112).drop 16⟩ ∧
    vtpro_ntransfers 96 = 2 ∧
    (vtpro_transfers (memory_port page_image) [] []
      (oceanic_vtpro_device_read (memory_port page_image)
        (vtpro_device [0, 0, 0, 0, 0, 0, 0, 0]) 3 [] 16 96).trace).map
        (fun t => (t.command, t.asize, t.n)) =
      [([0x34, 0, 1, 0, 4, 0], 68, 68), ([0x34, 0, 5, 0, 6, 0], 34, 34)] := by
  decide!

/-- Counterexample to C25. The read of 128 bytes from address 0 needs
`ceil(128 / 64) = 2` transfers; on a port whose answers have wrong checksums
the call returns `PROTOCOL` after one transfer, with nothing stored. -/
theorem page_read_counterexample :
    128 % PAGESIZE = 0 ∧ vtpro_ntransfers 128 = 2 ∧
    oceanic_vtpro_device_read garbled_port (vtpro_device [0, 0, 0, 0, 0, 0, 0, 0]) 3 [] 0 128 =
      ⟨Outcome.returned PROTOCOL,
       [SerialEvent.write [0x34, 0, 0, 0, 3, 0], SerialEvent.read 1, SerialEvent.read 68],
       []⟩ ∧
    (vtpro_transfers garbled_port [] []
      (oceanic_vtpro_device_read garbled_port
        (vtpro_device [0, 0, 0, 0, 0, 0, 0, 0]) 3 [] 0 128).trace).length = 1 := by
  decide!

/-! ## The page window: properties -/

/-- Claim C34. Oceanic page window arithmetic: for a layout whose logbook bounds
are multiples of `PAGESIZE` (and fit an `unsigned int` with room to spare) and
for logbook pointers inside the ring that are multiples of `PAGESIZE / 2`, the
computed `rb_logbook_page_size` is a multiple of `PAGESIZE` and satisfies
`entry_size <= page_size <= L`, and the markers `begin` and `end` of the linear
buffer satisfy `0 <= begin <= end <= page_size` and `end - begin == entry_size`. -/
theorem page_window_arithmetic (l : oceanic_common_layout_t) (first last : Nat)
    (hlb : l.rb_logbook_begin % PAGESIZE = 0) (hle : l.rb_logbook_end % PAGESIZE = 0)
    (h32 : l.rb_logbook_end ≤ 1073741824)
    (hfirst : l.rb_logbook_begin ≤ first ∧ first < l.rb_logbook_end)
    (hlast : l.rb_logbook_begin ≤ last ∧ last < l.rb_logbook_end)
    (hf8 : first % (PAGESIZE / 2) = 0) (hl8 : last % (PAGESIZE / 2) = 0) :
    (logbook_window l first last).page_size % PAGESIZE = 0 ∧
    (logbook_window l first last).entry_size ≤ (logbook_window l first last).page_size ∧
    (logbook_window l first last).page_size ≤ l.rb_logbook_end - l.rb_logbook_begin ∧
    0 ≤ window_begin (logbook_window l first last) ∧
    window_begin (logbook_window l first last) ≤ window_end (logbook_window l first last) ∧
    window_end (logbook_window l first last) ≤ (logbook_window l first last).page_size ∧
    window_end (logbook_window l first last) - window_begin (logbook_window l first last) =
      (logbook_window l first last).entry_size := by
  obtain ⟨pad, h1, h2, h3, h4, h5, h6, h7, h8, h9, h10, h11, h12, h13, h14, h15, h16, h17⟩ :=
    window_entries_spec l first last _ rfl hlb hle (by omega) h32 hfirst hlast hf8 hl8
  refine ⟨h17, ?_, h16, Nat.zero_le _, ?_, ?_, ?_⟩
  · rw [h15]; omega
  · omega
  · rw [h15, h12]; omega
  · omega

/-- The C34 theorem at the VTPro layout with the pointers `0x248` and `0x430`. -/
theorem page_window_arithmetic_witness :
    (logbook_window oceanic_vtpro_layout 0x248 0x430).page_size % PAGESIZE = 0 ∧
    (logbook_window oceanic_vtpro_layout 0x248 0x430).entry_size ≤
      (logbook_window oceanic_vtpro_layout 0x248 0x430).page_size ∧
    (logbook_window oceanic_vtpro_layout 0x248 0x430).page_size ≤
      oceanic_vtpro_layout.rb_logbook_end - oceanic_vtpro_layout.rb_logbook_begin ∧
    0 ≤ window_begin (logbook_window oceanic_vtpro_layout 0x248 0x430) ∧
    window_begin (logbook_window oceanic_vtpro_layout 0x248 0x430) ≤
      window_end (logbook_window oceanic_vtpro_layout 0x248 0x430) ∧
    window_end (logbook_window oceanic_vtpro_layout 0x248 0x430) ≤
      (logbook_window oceanic_vtpro_layout 0x248 0x430).page_size ∧
    window_end (logbook_window oceanic_vtpro_layout 0x248 0x430) -
      window_begin (logbook_window oceanic_vtpro_layout 0x248 0x430) =
      (logbook_window oceanic_vtpro_layout 0x248 0x430).entry_size :=
  page_window_arithmetic oceanic_vtpro_layout 0x248 0x430 (by decide) (by decide) (by decide)
    (by decide) (by decide) (by decide) (by decide)

/-- The page window of the VTPro layout for the pointers `0x248` and `0x430`: the
entries `0x248` to `0x438` in the pages `0x240` to `0x440`, with one padding
entry in front. -/
theorem page_window_sample :
    (logbook_window oceanic_vtpro_layout 0x248 0x430).entry_size = 0x1F0 ∧
    (logbook_window oceanic_vtpro_layout 0x248 0x430).page_size = 0x200 ∧
    window_begin (logbook_window oceanic_vtpro_layout 0x248 0x430) = 8 ∧
    window_end (logbook_window oceanic_vtpro_layout 0x248 0x430) = 0x1F8 := by
  decide!

/-! ## The Mares dump: properties -/

/-- The reads of events that follow one another. -/
theorem port_reads_append (port : Port) : ∀ (a pre b : List SerialEvent),
    port_reads port pre (a ++ b) = port_reads port pre a ++ port_reads port (pre ++ a) b := by
  intro a
  induction a with
  | nil => intro pre b; simp [port_reads]
  | cons e a ih =>
    intro pre b
    cases e with
    | write d =>
      rw [List.cons_append, port_reads, port_reads, ih, List.append_assoc, List.singleton_append]
    | read k =>
      rw [List.cons_append, port_reads, port_reads, ih, List.append_assoc, List.singleton_append,
        List.cons_append]

/-- A byte array of one byte after a read of one byte that arrived. -/
theorem received_one (h : Nat) (data : List Nat) :
    received [h] 1 1 data = [data.getD 0 0 % 256] := by
  have h1 : List.range 1 = [0] := rfl
  simp [received, h1]

/-- The header loop of `mares_nemo_device_dump` as it is seen on the port: it
makes reads of one byte only, and when it is left the last 20 of them, counting
the `i` matches it started with, arrived and gave `0xEE`. -/
theorem mares_header_view (port : Port) (events : List DeviceEvent) :
    ∀ (fuel i : Nat) (trace : List SerialEvent) (header : Nat), i ≤ 20 →
      ∃ ext, (mares_header_loop port events fuel i trace header).serial = trace ++ ext ∧
        (∀ r ∈ port_reads port trace ext, r.size = 1) ∧
        ((mares_header_loop port events fuel i trace header).ended = none →
          (20 ≤ (port_reads port trace ext).length ∧
            ∀ r ∈ (port_reads port trace ext).drop ((port_reads port trace ext).length - 20),
              nemo_sync r) ∨
          (20 ≤ (port_reads port trace ext).length + i ∧
            (port_reads port trace ext).length < 20 ∧
            ∀ r ∈ port_reads port trace ext, nemo_sync r)) := by
  intro fuel
  induction fuel with
  | zero =>
    intro i trace header hi
    unfold mares_header_loop
    by_cases h : ¬ (i < 20)
    · rw [if_pos h]
      refine ⟨[], by simp [DumpStep.serial], by simp [port_reads], fun _ => Or.inr ?_⟩
      simp only [port_reads, List.length_nil, List.not_mem_nil, false_implies, implies_true,
        and_true]
      omega
    · rw [if_neg h]
      exact ⟨[], by simp [DumpStep.serial], by simp [port_reads],
        fun h => by simp [DumpStep.ended] at h⟩
  | succ fuel ih =>
    intro i trace header hi
    unfold mares_header_loop
    by_cases h : ¬ (i < 20)
    · rw [if_pos h]
      refine ⟨[], by simp [DumpStep.serial], by simp [port_reads], fun _ => Or.inr ?_⟩
      simp only [port_reads, List.length_nil, List.not_mem_nil, false_implies, implies_true,
        and_true]
      omega
    · rw [if_neg h]
      simp only []
      by_cases hn : (port.serial_read trace 1).1 ≠ 1
      · rw [if_pos hn]
        refine ⟨[SerialEvent.read 1], by simp [DumpStep.serial], ?_,
          fun h => by simp [DumpStep.ended] at h⟩
        intro r hr
        simp [port_reads] at hr
        rw [hr]
      · rw [if_neg hn]
        have hn1 : (port.serial_read trace 1).1 = 1 := not_not.mp hn
        have hrec : received [header] 1 (port.serial_read trace 1).1 (port.serial_read trace 1).2
            = [(port.serial_read trace 1).2.getD 0 0 % 256] := by
          rw [hn1, received_one]
        have hrec0 : received (List.replicate 1 0) 1 (port.serial_read trace 1).1
            (port.serial_read trace 1).2 = [(port.serial_read trace 1).2.getD 0 0 % 256] := by
          rw [hn1]
          exact received_one 0 _
        rw [hrec]
        simp only [List.getD_cons_zero]
        have hview : ∀ ext2, port_reads port trace (SerialEvent.read 1 :: ext2) =
            ⟨1, 1, [(port.serial_read trace 1).2.getD 0 0 % 256]⟩ ::
              port_reads port (trace ++ [SerialEvent.read 1]) ext2 := by
          intro ext2
          rw [port_reads, hrec0, hn1]
        by_cases hee : (port.serial_read trace 1).2.getD 0 0 % 256 = 0xEE
        · rw [if_pos hee]
          have hu : u32 (i + 1) = i + 1 := u32_eq _ (by omega)
          rw [hu]
          obtain ⟨ext2, h1, h2, h3⟩ := ih (i + 1) (trace ++ [SerialEvent.read 1])
            ((port.serial_read trace 1).2.getD 0 0 % 256) (by omega)
          refine ⟨SerialEvent.read 1 :: ext2, by rw [h1, List.append_assoc]; rfl, ?_, ?_⟩
          · intro r hr
            rw [hview] at hr
            rcases List.mem_cons.mp hr with hr | hr
            · rw [hr]
            · exact h2 r hr
          · intro hend
            rw [hview, hee]
            generalize port_reads port (trace ++ [SerialEvent.read 1]) ext2 = v at h2 h3
            have hs : nemo_sync ⟨1, 1, [0xEE]⟩ := ⟨rfl, rfl⟩
            rcases h3 hend with ⟨ha, hb⟩ | ⟨ha, hb, hc⟩
            · left
              refine ⟨by simp only [List.length_cons]; omega, ?_⟩
              have e : (⟨1, 1, [0xEE]⟩ :: v : List PortRead).length - 20 = (v.length - 20) + 1 := by
                simp only [List.length_cons]; omega
              rw [e, List.drop_succ_cons]
              exact hb
            · by_cases hl : v.length + 1 < 20
              · right
                refine ⟨by simp only [List.length_cons]; omega,
                  by simp only [List.length_cons]; omega, ?_⟩
                intro r hr
                rcases List.mem_cons.mp hr with hr | hr
                · rw [hr]; exact hs
                · exact hc r hr
              · left
                refine ⟨by simp only [List.length_cons]; omega, ?_⟩
                have e : (⟨1, 1, [0xEE]⟩ :: v : List PortRead).length - 20 = 0 := by
                  simp only [List.length_cons]; omega
                rw [e, List.drop_zero]
                intro r hr
                rcases List.mem_cons.mp hr with hr | hr
                · rw [hr]; exact hs
                · exact hc r hr
        · rw [if_neg hee]
          obtain ⟨ext2, h1, h2, h3⟩ := ih 0 (trace ++ [SerialEvent.read 1])
            ((port.serial_read trace 1).2.getD 0 0 % 256) (by omega)
          refine ⟨SerialEvent.read 1 :: ext2, by rw [h1, List.append_assoc]; rfl, ?_, ?_⟩
          · intro r hr
            rw [hview] at hr
            rcases List.mem_cons.mp hr with hr | hr
            · rw [hr]
            · exact h2 r hr
          · intro hend
            rw [hview]
            generalize port_reads port (trace ++ [SerialEvent.read 1]) ext2 = v at h2 h3
            rcases h3 hend with ⟨ha, hb⟩ | ⟨ha, hb, hc⟩
            · left
              refine ⟨by simp only [List.length_cons]; omega, ?_⟩
              have e : (⟨1, 1, [(port.serial_read trace 1).2.getD 0 0 % 256]⟩ :: v :
                  List PortRead).length - 20 = (v.length - 20) + 1 := by
                simp only [List.length_cons]; omega
              rw [e, List.drop_succ_cons]
              exact hb
            · omega

/-- The choice that `mares_nemo_device_dump` makes for a pair that arrived in
full (lines 214-235), in terms of the two checksums: nothing for a rejected
pair, otherwise the first copy when its checksum matches and else the
second. -/
theorem nemo_select (n : Int) (p : List Nat) :
    (if p.getD PACKETSIZE 0 = checksum_add_uint8 p PACKETSIZE 0x00 ∧
        p.getD (PACKETSIZE * 2 + 1) 0 =
          checksum_add_uint8 (p.drop (PACKETSIZE + 1)) PACKETSIZE 0x00 then
      (if p.take PACKETSIZE ≠ (p.drop (PACKETSIZE + 1)).take PACKETSIZE then none
       else some (p.take PACKETSIZE))
    else if p.getD PACKETSIZE 0 = checksum_add_uint8 p PACKETSIZE 0x00 then
      some (p.take PACKETSIZE)
    else if p.getD (PACKETSIZE * 2 + 1) 0 =
        checksum_add_uint8 (p.drop (PACKETSIZE + 1)) PACKETSIZE 0x00 then
      some ((p.drop (PACKETSIZE + 1)).take PACKETSIZE)
    else none) =
    (if nemo_rejected ⟨(PACKETSIZE + 1) * 2, n, p⟩ = true then none
     else some (if nemo_first_ok ⟨(PACKETSIZE + 1) * 2, n, p⟩ = true
       then nemo_first ⟨(PACKETSIZE + 1) * 2, n, p⟩
       else nemo_second ⟨(PACKETSIZE + 1) * 2, n, p⟩)) := by
  rw [sum8_eq, sum8_eq]
  unfold nemo_rejected nemo_first_ok nemo_second_ok nemo_first nemo_second
  simp only []
  generalize p.getD PACKETSIZE 0 = c1
  generalize (p.take PACKETSIZE).sum % 256 = s1
  generalize p.getD (PACKETSIZE * 2 + 1) 0 = c2
  generalize ((p.drop (PACKETSIZE + 1)).take PACKETSIZE).sum % 256 = s2
  generalize p.take PACKETSIZE = l1
  generalize (p.drop (PACKETSIZE + 1)).take PACKETSIZE = l2
  by_cases h1 : c1 = s1 <;> by_cases h2 : c2 = s2 <;> by_cases h3 : l1 = l2 <;>
    simp [h1, h2, h3]

/-- The length of the array after a read. -/
theorem received_length (buf : List Nat) (size : Nat) (n : Int) (data : List Nat) :
    (received buf size n data).length = buf.length := by
  simp [received]

/-- A pair that is not rejected adds one copy of `PACKETSIZE` bytes with a
matching checksum. -/
theorem nemo_block_spec (r : PortRead) (hlen : r.bytes.length = (PACKETSIZE + 1) * 2)
    (hn : r.n = (((PACKETSIZE + 1) * 2 : Nat) : Int)) (hr : nemo_rejected r = false) :
    (nemo_block r).length = PACKETSIZE ∧
    ((nemo_first_ok r = true ∧ nemo_block r = nemo_first r) ∨
     (nemo_first_ok r = false ∧ nemo_second_ok r = true ∧ nemo_block r = nemo_second r)) := by
  have hl1 : (nemo_first r).length = PACKETSIZE := by
    unfold nemo_first
    rw [List.length_take, hlen]
    decide
  have hl2 : (nemo_second r).length = PACKETSIZE := by
    unfold nemo_second
    rw [List.length_take, List.length_drop, hlen]
    decide
  unfold nemo_block
  rw [if_pos ⟨hn, hr⟩]
  unfold nemo_rejected at hr
  by_cases h1 : nemo_first_ok r = true
  · rw [if_pos h1]
    exact ⟨hl1, Or.inl ⟨h1, rfl⟩⟩
  · rw [if_neg h1]
    have h1f : nemo_first_ok r = false := by simpa using h1
    have h2 : nemo_second_ok r = true := by
      rw [h1f] at hr
      simpa using hr
    exact ⟨hl2, Or.inr ⟨h1f, h2, rfl⟩⟩

/-- The packet loop of `mares_nemo_device_dump` as it is seen on the port: it
reads pairs only; a pair that arrived and is rejected makes it return
`PROTOCOL`; the buffer grows by the blocks of the pairs; and when it returns
`SUCCESS` every pair arrived, none was rejected, and the pairs make up what was
missing of `memsize`. -/
theorem mares_packet_view (port : Port) (memsize progress_maximum : Nat)
    (hm : memsize % 32 = 0) (hm32 : memsize ≤ 2147483648) :
    ∀ (fuel nbytes progress_current : Nat) (trace : List SerialEvent)
      (events : List DeviceEvent) (buffer : List Nat),
      nbytes % 32 = 0 → nbytes ≤ memsize →
      ∃ ext,
        (mares_packet_loop port memsize progress_maximum fuel nbytes progress_current trace
          events buffer).trace = trace ++ ext ∧
        (∀ r ∈ port_reads port trace ext,
          r.size = (PACKETSIZE + 1) * 2 ∧ r.bytes.length = (PACKETSIZE + 1) * 2) ∧
        (∀ r ∈ port_reads port trace ext, r.n = (((PACKETSIZE + 1) * 2 : Nat) : Int) →
          nemo_rejected r = true →
          (mares_packet_loop port memsize progress_maximum fuel nbytes progress_current trace
            events buffer).outcome = Outcome.returned PROTOCOL) ∧
        (mares_packet_loop port memsize progress_maximum fuel nbytes progress_current trace
          events buffer).buffer = buffer ++ (port_reads port trace ext).flatMap nemo_block ∧
        ((mares_packet_loop port memsize progress_maximum fuel nbytes progress_current trace
          events buffer).outcome = Outcome.returned SUCCESS →
          nbytes + 32 * (port_reads port trace ext).length = memsize ∧
          ∀ r ∈ port_reads port trace ext, r.n = (((PACKETSIZE + 1) * 2 : Nat) : Int) ∧
            nemo_rejected r = false) := by
  intro fuel
  induction fuel with
  | zero =>
    intro nbytes pc trace events buffer h32 hle
    unfold mares_packet_loop
    by_cases h : ¬ (nbytes < memsize)
    · rw [if_pos h]
      refine ⟨[], by simp, by simp [port_reads], by simp [port_reads], by simp [port_reads], ?_⟩
      intro _
      simp only [port_reads, List.length_nil, List.not_mem_nil, false_implies, implies_true,
        and_true]
      omega
    · rw [if_neg h]
      refine ⟨[], by simp, by simp [port_reads], by simp [port_reads], by simp [port_reads], ?_⟩
      intro h0
      simp at h0
  | succ fuel ih =>
    intro nbytes pc trace events buffer h32 hle
    unfold mares_packet_loop
    by_cases h : ¬ (nbytes < memsize)
    · rw [if_pos h]
      refine ⟨[], by simp, by simp [port_reads], by simp [port_reads], by simp [port_reads], ?_⟩
      intro _
      simp only [port_reads, List.length_nil, List.not_mem_nil, false_implies, implies_true,
        and_true]
      omega
    · rw [if_neg h]
      simp only []
      generalize hp : received (List.replicate ((PACKETSIZE + 1) * 2) 0) ((PACKETSIZE + 1) * 2)
        (port.serial_read trace ((PACKETSIZE + 1) * 2)).1
        (port.serial_read trace ((PACKETSIZE + 1) * 2)).2 = p
      have hplen : p.length = (PACKETSIZE + 1) * 2 := by
        rw [← hp, received_length, List.length_replicate]
      have hview : ∀ ext2, port_reads port trace (SerialEvent.read ((PACKETSIZE + 1) * 2) :: ext2)
          = ⟨(PACKETSIZE + 1) * 2, (port.serial_read trace ((PACKETSIZE + 1) * 2)).1, p⟩ ::
            port_reads port (trace ++ [SerialEvent.read ((PACKETSIZE + 1) * 2)]) ext2 := by
        intro ext2
        rw [port_reads, hp]
      by_cases hn : (port.serial_read trace ((PACKETSIZE + 1) * 2)).1 ≠
          (((PACKETSIZE + 1) * 2 : Nat) : Int)
      · rw [if_pos hn]
        refine ⟨[SerialEvent.read ((PACKETSIZE + 1) * 2)], rfl, ?_, ?_, ?_, ?_⟩
        · intro r hr
          rw [hview] at hr
          simp [port_reads] at hr
          rw [hr]
          exact ⟨rfl, hplen⟩
        · intro r hr hrn
          rw [hview] at hr
          simp [port_reads] at hr
          rw [hr] at hrn
          exact absurd hrn hn
        · rw [hview]
          simp only [port_reads, List.flatMap_cons, List.flatMap_nil, List.append_nil]
          unfold nemo_block
          rw [if_neg (fun h => hn h.1), List.append_nil]
        · intro h0
          simp only [Outcome.returned.injEq] at h0
          exact absurd h0 (exitcode_ne_success _)
      · rw [if_neg hn]
        have hn66 := not_not.mp hn
        rw [nemo_select (port.serial_read trace ((PACKETSIZE + 1) * 2)).1 p]
        generalize hr0 : (⟨(PACKETSIZE + 1) * 2, (port.serial_read trace ((PACKETSIZE + 1) * 2)).1,
          p⟩ : PortRead) = r0 at hview
        have hr0n : r0.n = (((PACKETSIZE + 1) * 2 : Nat) : Int) := by rw [← hr0]; exact hn66
        have hr0s : r0.size = (PACKETSIZE + 1) * 2 ∧ r0.bytes.length = (PACKETSIZE + 1) * 2 := by
          rw [← hr0]; exact ⟨rfl, hplen⟩
        by_cases hrej : nemo_rejected r0 = true
        · rw [if_pos hrej]
          simp only []
          refine ⟨[SerialEvent.read ((PACKETSIZE + 1) * 2)], rfl, ?_, ?_, ?_, ?_⟩
          · intro r hr
            rw [hview] at hr
            simp [port_reads] at hr
            rw [hr]
            exact hr0s
          · intro _ _ _ _
            first | rfl | trivial
          · rw [hview]
            simp only [port_reads, List.flatMap_cons, List.flatMap_nil, List.append_nil]
            unfold nemo_block
            rw [if_neg (fun h => by rw [hrej] at h; exact absurd h.2 (by decide)),
              List.append_nil]
          · intro h0
            simp at h0
        · rw [if_neg hrej]
          simp only []
          have hrej2 : nemo_rejected r0 = false := by simpa using hrej
          have hu : u32 (nbytes + PACKETSIZE) = nbytes + 32 :=
            u32_eq _ (by show nbytes + 32 < 4294967296; omega)
          rw [hu]
          obtain ⟨ext2, h1, h2, h3, h4, h5⟩ := ih (nbytes + 32) (u32 (pc + PACKETSIZE))
            (trace ++ [SerialEvent.read ((PACKETSIZE + 1) * 2)])
            (events ++ [DeviceEvent.progress (u32 (pc + PACKETSIZE)) progress_maximum])
            (buffer ++ (if nemo_first_ok r0 = true then nemo_first r0 else nemo_second r0))
            (by omega) (by omega)
          refine ⟨SerialEvent.read ((PACKETSIZE + 1) * 2) :: ext2, ?_, ?_, ?_, ?_, ?_⟩
          · rw [h1, List.append_assoc]; rfl
          · intro r hr
            rw [hview] at hr
            rcases List.mem_cons.mp hr with hr | hr
            · rw [hr]; exact hr0s
            · exact h2 r hr
          · intro r hr hrn hrr
            rw [hview] at hr
            rcases List.mem_cons.mp hr with hr | hr
            · rw [hr, hrej2] at hrr
              exact absurd hrr (by decide)
            · exact h3 r hr hrn hrr
          · have e : nemo_block r0 =
                (if nemo_first_ok r0 = true then nemo_first r0 else nemo_second r0) := by
              unfold nemo_block
              rw [if_pos ⟨hr0n, hrej2⟩]
            rw [h4, hview, List.flatMap_cons, List.append_assoc, e]
          · intro h0
            obtain ⟨h6, h7⟩ := h5 h0
            rw [hview]
            refine ⟨by simp only [List.length_cons]; omega, ?_⟩
            intro r hr
            rcases List.mem_cons.mp hr with hr | hr
            · rw [hr]; exact ⟨hr0n, hrej2⟩
            · exact h7 r hr

/-- The header loop of `mares_nemo_device_dump` never ends the run with
`SUCCESS`. -/
theorem mares_header_fails (port : Port) (events : List DeviceEvent) :
    ∀ (fuel i : Nat) (trace : List SerialEvent) (header : Nat),
      (mares_header_loop port events fuel i trace header).ended ≠
        some (Outcome.returned SUCCESS) := by
  intro fuel
  induction fuel with
  | zero =>
    intro i trace header
    unfold mares_header_loop
    split_ifs <;> simp [DumpStep.ended]
  | succ fuel ih =>
    intro i trace header
    unfold mares_header_loop
    by_cases hi : ¬ (i < 20)
    · rw [if_pos hi]
      simp [DumpStep.ended]
    rw [if_neg hi]
    simp only []
    by_cases hn : (port.serial_read trace 1).1 ≠ 1
    · rw [if_pos hn]
      simp only [DumpStep.ended, EXITCODE]
      split_ifs <;> simp
    rw [if_neg hn]
    split_ifs
    · exact ih _ _ _
    · exact ih _ _ _

/-- Claim C40. Mares Nemo duplicate-packet selection, for a device with the layout
`mares_nemo_layout` and a buffer that could be prepared. What
`mares_nemo_device_dump` reads from the port is reads of one byte (the header)
followed by reads of the 66 bytes of a pair; a pair is read only after 20
consecutive bytes `0xEE`. A pair that arrived and of which neither checksum
matches, or of which both checksums match while the two copies differ, makes
the function return `PROTOCOL`. The buffer is the concatenation of one 32-byte
copy out of every other pair that arrived: a copy whose checksum matches, the
first one when both match. When the function returns `SUCCESS` it has read 512
pairs, all of them arrived and none was rejected, and the buffer holds
`0x4000` bytes. -/
theorem nemo_duplicate_packets (env : DumpEnv) (port : Port) (device : mares_common_device_t)
    (fuel : Nat) (trace : List SerialEvent) (buffer : List Nat)
    (hlayout : device.layout = some mares_nemo_layout)
    (hclear : env.dc_buffer_clear = true) (hreserve : env.dc_buffer_reserve = true) :
    ∃ ext hdr pks,
      (mares_nemo_device_dump env port device fuel trace buffer).trace = trace ++ ext ∧
      port_reads port trace ext = hdr ++ pks ∧
      (∀ r ∈ hdr, r.size = 1) ∧
      (∀ r ∈ pks, r.size = (PACKETSIZE + 1) * 2) ∧
      (pks ≠ [] → 20 ≤ hdr.length ∧ ∀ r ∈ hdr.drop (hdr.length - 20), nemo_sync r) ∧
      (∀ r ∈ pks, r.n = (((PACKETSIZE + 1) * 2 : Nat) : Int) → nemo_rejected r = true →
        (mares_nemo_device_dump env port device fuel trace buffer).outcome =
          Outcome.returned PROTOCOL) ∧
      (mares_nemo_device_dump env port device fuel trace buffer).buffer =
        pks.flatMap nemo_block ∧
      (∀ r ∈ pks, r.n = (((PACKETSIZE + 1) * 2 : Nat) : Int) → nemo_rejected r = false →
        (nemo_block r).length = PACKETSIZE ∧
        ((nemo_first_ok r = true ∧ nemo_block r = nemo_first r) ∨
         (nemo_first_ok r = false ∧ nemo_second_ok r = true ∧ nemo_block r = nemo_second r))) ∧
      ((mares_nemo_device_dump env port device fuel trace buffer).outcome =
          Outcome.returned SUCCESS →
        pks.length = 512 ∧
        (mares_nemo_device_dump env port device fuel trace buffer).buffer.length = 0x4000 ∧
        ∀ r ∈ pks, r.n = (((PACKETSIZE + 1) * 2 : Nat) : Int) ∧ nemo_rejected r = false) := by
  unfold mares_nemo_device_dump
  simp only [hlayout, hclear, hreserve, not_true_eq_false, if_false]
  obtain ⟨ext1, h1, h2, h3⟩ := mares_header_view port
    [DeviceEvent.progress 0 (u32 (mares_nemo_layout.memsize + 20))] fuel 0 trace 0x00 (by omega)
  rcases hh : mares_header_loop port
    [DeviceEvent.progress 0 (u32 (mares_nemo_layout.memsize + 20))] fuel 0 trace 0x00 with
    ⟨t1, e1, a1⟩ | ⟨o1, t1, e1⟩
  · rw [hh] at h1 h3
    simp only [DumpStep.serial] at h1
    simp only []
    obtain ⟨ext2, k1, k2, k3, k4, k5⟩ := mares_packet_view port mares_nemo_layout.memsize
      (u32 (mares_nemo_layout.memsize + 20)) (by decide) (by decide) fuel 0 (u32 (0 + 20)) t1
      (e1 ++ [DeviceEvent.progress (u32 (0 + 20)) (u32 (mares_nemo_layout.memsize + 20))]) []
      (by decide) (by decide)
    generalize mares_packet_loop port mares_nemo_layout.memsize
      (u32 (mares_nemo_layout.memsize + 20)) fuel 0 (u32 (0 + 20)) t1
      (e1 ++ [DeviceEvent.progress (u32 (0 + 20)) (u32 (mares_nemo_layout.memsize + 20))]) []
      = run at k1 k3 k4 k5
    rw [h1] at k1 k2 k3 k4 k5
    have hsync : 20 ≤ (port_reads port trace ext1).length ∧
        ∀ r ∈ (port_reads port trace ext1).drop ((port_reads port trace ext1).length - 20),
          nemo_sync r := by
      rcases h3 (by simp [DumpStep.ended]) with h | h
      · exact h
      · omega
    have hblock : ∀ r ∈ port_reads port (trace ++ ext1) ext2,
        r.n = (((PACKETSIZE + 1) * 2 : Nat) : Int) → nemo_rejected r = false →
        (nemo_block r).length = PACKETSIZE ∧
        ((nemo_first_ok r = true ∧ nemo_block r = nemo_first r) ∨
         (nemo_first_ok r = false ∧ nemo_second_ok r = true ∧ nemo_block r = nemo_second r)) :=
      fun r hr hn hj => nemo_block_spec r (k2 r hr).2 hn hj
    refine ⟨ext1 ++ ext2, port_reads port trace ext1, port_reads port (trace ++ ext1) ext2,
      by rw [k1, List.append_assoc], port_reads_append port ext1 trace ext2, h2,
      fun r hr => (k2 r hr).1, fun _ => hsync, k3, by rw [k4, List.nil_append], hblock, ?_⟩
    intro hs
    obtain ⟨k6, k7⟩ := k5 hs
    have hlen : (port_reads port (trace ++ ext1) ext2).length = 512 := by
      have : mares_nemo_layout.memsize = 16384 := rfl
      omega
    refine ⟨hlen, ?_, k7⟩
    rw [k4, List.nil_append]
    have hall : ∀ (l : List PortRead), (∀ r ∈ l, (nemo_block r).length = 32) →
        (l.flatMap nemo_block).length = 32 * l.length := by
      intro l
      induction l with
      | nil => intro _; rfl
      | cons a l ihl =>
        intro hl
        rw [List.flatMap_cons, List.length_append, hl a (List.mem_cons_self _ _),
          ihl (fun r hr => hl r (List.mem_cons_of_mem _ hr)), List.length_cons]
        omega
    rw [hall _ (fun r hr => (hblock r hr (k7 r hr).1 (k7 r hr).2).1), hlen]
  · rw [hh] at h1 h3
    simp only [DumpStep.serial] at h1
    simp only []
    refine ⟨ext1, port_reads port trace ext1, [], h1, by rw [List.append_nil], h2,
      by simp, fun h => absurd rfl h, by simp, by simp, by simp, ?_⟩
    intro hs
    exfalso
    have := mares_header_fails port
      [DeviceEvent.progress 0 (u32 (mares_nemo_layout.memsize + 20))] fuel 0 trace 0x00
    rw [hh] at this
    simp only [DumpStep.ended] at this
    rw [hs] at this
    exact this rfl

/-- The C40 theorem at a device with the Nemo layout on a port whose pairs have a
damaged second checksum. -/
theorem nemo_duplicate_packets_witness :
    ∃ ext hdr pks,
      (mares_nemo_device_dump dump_env nemo_damaged nemo_device 600 [] []).trace = [] ++ ext ∧
      port_reads nemo_damaged [] ext = hdr ++ pks ∧
      (∀ r ∈ hdr, r.size = 1) ∧
      (∀ r ∈ pks, r.size = (PACKETSIZE + 1) * 2) ∧
      (pks ≠ [] → 20 ≤ hdr.length ∧ ∀ r ∈ hdr.drop (hdr.length - 20), nemo_sync r) ∧
      (∀ r ∈ pks, r.n = (((PACKETSIZE + 1) * 2 : Nat) : Int) → nemo_rejected r = true →
        (mares_nemo_device_dump dump_env nemo_damaged nemo_device 600 [] []).outcome =
          Outcome.returned PROTOCOL) ∧
      (mares_nemo_device_dump dump_env nemo_damaged nemo_device 600 [] []).buffer =
        pks.flatMap nemo_block ∧
      (∀ r ∈ pks, r.n = (((PACKETSIZE + 1) * 2 : Nat) : Int) → nemo_rejected r = false →
        (nemo_block r).length = PACKETSIZE ∧
        ((nemo_first_ok r = true ∧ nemo_block r = nemo_first r) ∨
         (nemo_first_ok r = false ∧ nemo_second_ok r = true ∧ nemo_block r = nemo_second r))) ∧
      ((mares_nemo_device_dump dump_env nemo_damaged nemo_device 600 [] []).outcome =
          Outcome.returned SUCCESS →
        pks.length = 512 ∧
        (mares_nemo_device_dump dump_env nemo_damaged nemo_device 600 [] []).buffer.length
          = 0x4000 ∧
        ∀ r ∈ pks, r.n = (((PACKETSIZE + 1) * 2 : Nat) : Int) ∧ nemo_rejected r = false) :=
  nemo_duplicate_packets dump_env nemo_damaged nemo_device 600 [] [] rfl rfl rfl

/-- The dump of the stream with the damaged second checksums: every pair gives
its first copy, and the run returns `SUCCESS` with `0x4000` bytes that start
with `1, 2, 3`. -/
theorem nemo_damaged_sample :
    (mares_nemo_device_dump dump_env nemo_damaged nemo_device 600 [] []).outcome =
      Outcome.returned SUCCESS ∧
    (mares_nemo_device_dump dump_env nemo_damaged nemo_device 600 [] []).buffer.length
      = 0x4000 ∧
    (mares_nemo_device_dump dump_env nemo_damaged nemo_device 600 [] []).buffer.take 3
      = [1, 2, 3] ∧
    nemo_first_ok ⟨66, 66, (nemo_damaged.serial_read [] 66).2⟩ = true ∧
    nemo_second_ok ⟨66, 66, (nemo_damaged.serial_read [] 66).2⟩ = false := by
  decide!

/-! ## The Aladin header: properties -/

/-- The number of `WAITING` events of events that follow one another. -/
theorem waitings_append (a b : List DeviceEvent) : waitings (a ++ b) = waitings a + waitings b := by
  induction a with
  | nil => simp [waitings]
  | cons e a ih =>
    cases e <;> simp [waitings, ih] <;> omega

/-- The number of `WAITING` events of a run of them. -/
theorem waitings_replicate (n : Nat) : waitings (List.replicate n DeviceEvent.waiting) = n := by
  induction n with
  | zero => rfl
  | succ n ih => rw [List.replicate_succ, waitings, ih]

/-- The byte that a read of one byte stores at position `i` of the answer
array. -/
theorem answer_byte (answer : List Nat) (i : Nat) (data : List Nat) (hi : i < answer.length) :
    (answer.take i ++ received (answer.drop i) 1 1 data).getD i 0 = data.getD 0 0 % 256 ∧
    (answer.take i ++ received (answer.drop i) 1 1 data).length = answer.length := by
  have hl : (answer.take i).length = i := by rw [List.length_take]; omega
  have hd : 0 < (answer.drop i).length := by rw [List.length_drop]; omega
  constructor
  · rw [List.getD_eq_getElem?_getD, List.getElem?_append_right (by omega), hl, Nat.sub_self]
    unfold received
    rw [List.getElem?_map, List.getElem?_range hd]
    simp
  · rw [List.length_append, hl, received_length, List.length_drop]
    omega

/-- The header loop of `uwatec_aladin_device_dump` fed with the bytes `bytes`, none
of which completes the header before the last: the loop makes one read for
each of them, emits one `WAITING` event for each mismatch, and goes on from
the match position after them. -/
theorem header_feed (port : Port) :
    ∀ (bytes : List Nat) (fuel i : Nat) (trace : List SerialEvent) (events : List DeviceEvent)
      (answer : List Nat),
      (∀ k, k < bytes.length →
        port.cancelled (trace ++ List.replicate k (SerialEvent.read 1)) = false ∧
        port.serial_read (trace ++ List.replicate k (SerialEvent.read 1)) 1 =
          (1, [bytes.getD k 0])) →
      (∀ b ∈ bytes, b < 256) → 4 ≤ answer.length → aladin_unfinished i bytes = true →
      ∃ answer2, answer2.length = answer.length ∧
        aladin_header_loop port (bytes.length + fuel) i trace events answer =
          aladin_header_loop port fuel (aladin_position i bytes)
            (trace ++ List.replicate bytes.length (SerialEvent.read 1))
            (events ++ List.replicate (aladin_mismatches i bytes) DeviceEvent.waiting) answer2 := by
  intro bytes
  induction bytes with
  | nil =>
    intro fuel i trace events answer _ _ _ _
    refine ⟨answer, rfl, ?_⟩
    simp [aladin_position, aladin_mismatches]
  | cons b t ih =>
    intro fuel i trace events answer hport hb hlen hun
    simp only [aladin_unfinished, Bool.and_eq_true, decide_eq_true_eq] at hun
    obtain ⟨hi, hun2⟩ := hun
    have h0 := hport 0 (by simp)
    simp only [List.replicate_zero, List.append_nil, List.getD_cons_zero] at h0
    have hb256 : b % 256 = b := Nat.mod_eq_of_lt (hb b (List.mem_cons_self _ _))
    have hfuel : (b :: t).length + fuel = (t.length + fuel) + 1 := by
      simp only [List.length_cons]; omega
    rw [hfuel, aladin_header_loop]
    simp only [hi, not_true_eq_false, if_false, h0.1, Bool.false_eq_true, h0.2]
    obtain ⟨ha1, ha2⟩ := answer_byte answer i [b] (by omega)
    simp only [List.getD_cons_zero, hb256] at ha1
    rw [if_neg (by simp), ha1]
    have hport2 : ∀ k, k < t.length →
        port.cancelled ((trace ++ [SerialEvent.read 1]) ++ List.replicate k (SerialEvent.read 1))
          = false ∧
        port.serial_read ((trace ++ [SerialEvent.read 1]) ++
          List.replicate k (SerialEvent.read 1)) 1 = (1, [t.getD k 0]) := by
      intro k hk
      have := hport (k + 1) (by simp only [List.length_cons]; omega)
      rw [List.replicate_succ, List.getD_cons_succ] at this
      rw [List.append_assoc, List.singleton_append]
      exact this
    have htr : trace ++ List.replicate (b :: t).length (SerialEvent.read 1) =
        (trace ++ [SerialEvent.read 1]) ++ List.replicate t.length (SerialEvent.read 1) := by
      rw [List.length_cons, List.replicate_succ, List.append_assoc, List.singleton_append]
    have hbt : ∀ x ∈ t, x < 256 := fun x hx => hb x (List.mem_cons_of_mem _ hx)
    unfold aladin_expected at hun2
    unfold aladin_position aladin_mismatches aladin_expected
    by_cases hm : b = (if i < 3 then 0x55 else 0x00)
    · rw [if_pos hm, if_pos hm, if_pos hm, u32_eq _ (by omega)]
      rw [if_pos hm] at hun2
      obtain ⟨a2, hl2, e2⟩ := ih fuel (i + 1) (trace ++ [SerialEvent.read 1]) events _
        hport2 hbt (by rw [ha2]; exact hlen) hun2
      exact ⟨a2, by rw [hl2, ha2], by rw [e2, htr]⟩
    · rw [if_neg hm, if_neg hm, if_neg hm]
      rw [if_neg hm] at hun2
      obtain ⟨a2, hl2, e2⟩ := ih fuel 0 (trace ++ [SerialEvent.read 1])
        (events ++ [DeviceEvent.waiting]) _ hport2 hbt (by rw [ha2]; exact hlen) hun2
      refine ⟨a2, by rw [hl2, ha2], ?_⟩
      rw [e2, htr, List.replicate_succ]
      simp only [List.append_assoc, List.singleton_append]

/-- The header loop of `uwatec_aladin_device_dump` for any port: it makes reads of
one byte only, and the number of `WAITING` events it adds is the number of
mismatches among the header bytes that were received. -/
theorem header_waitings (port : Port) :
    ∀ (fuel i : Nat) (trace : List SerialEvent) (events : List DeviceEvent) (answer : List Nat),
      4 ≤ answer.length →
      ∃ ext, (aladin_header_loop port fuel i trace events answer).serial = trace ++ ext ∧
        (∀ r ∈ port_reads port trace ext, r.size = 1) ∧
        waitings (aladin_header_loop port fuel i trace events answer).emitted =
          waitings events + aladin_mismatches i (header_bytes (port_reads port trace ext)) := by
  intro fuel
  induction fuel with
  | zero =>
    intro i trace events answer hlen
    unfold aladin_header_loop
    by_cases h : ¬ (i < 4)
    · rw [if_pos h]
      exact ⟨[], by simp [DumpStep.serial], by simp [port_reads],
        by simp [DumpStep.emitted, port_reads, header_bytes, aladin_mismatches]⟩
    · rw [if_neg h]
      exact ⟨[], by simp [DumpStep.serial], by simp [port_reads],
        by simp [DumpStep.emitted, port_reads, header_bytes, aladin_mismatches]⟩
  | succ fuel ih =>
    intro i trace events answer hlen
    unfold aladin_header_loop
    by_cases h : ¬ (i < 4)
    · rw [if_pos h]
      exact ⟨[], by simp [DumpStep.serial], by simp [port_reads],
        by simp [DumpStep.emitted, port_reads, header_bytes, aladin_mismatches]⟩
    rw [if_neg h]
    simp only []
    by_cases hc : port.cancelled trace = true
    · rw [if_pos hc]
      exact ⟨[], by simp [DumpStep.serial], by simp [port_reads],
        by simp [DumpStep.emitted, port_reads, header_bytes, aladin_mismatches]⟩
    rw [if_neg hc]
    by_cases hn : (port.serial_read trace 1).1 ≠ 1
    · rw [if_pos hn]
      refine ⟨[SerialEvent.read 1], by simp [DumpStep.serial], ?_, ?_⟩
      · intro r hr
        simp [port_reads] at hr
        rw [hr]
      · simp [DumpStep.emitted, port_reads, header_bytes, List.filter_cons, hn, aladin_mismatches]
    rw [if_neg hn]
    have hn1 : (port.serial_read trace 1).1 = 1 := not_not.mp hn
    have hi : i < 4 := not_not.mp h
    rw [hn1]
    obtain ⟨ha1, ha2⟩ := answer_byte answer i (port.serial_read trace 1).2 (by omega)
    rw [ha1]
    have hrec0 : received (List.replicate 1 0) 1 (port.serial_read trace 1).1
        (port.serial_read trace 1).2 = [(port.serial_read trace 1).2.getD 0 0 % 256] := by
      rw [hn1]
      exact received_one 0 _
    have hview : ∀ ext2, header_bytes (port_reads port trace (SerialEvent.read 1 :: ext2)) =
        ((port.serial_read trace 1).2.getD 0 0 % 256) ::
          header_bytes (port_reads port (trace ++ [SerialEvent.read 1]) ext2) := by
      intro ext2
      rw [port_reads, hrec0, hn1]
      simp [header_bytes, List.filter_cons]
    have hsize : ∀ ext2, (∀ r ∈ port_reads port (trace ++ [SerialEvent.read 1]) ext2, r.size = 1) →
        ∀ r ∈ port_reads port trace (SerialEvent.read 1 :: ext2), r.size = 1 := by
      intro ext2 h2 r hr
      rw [port_reads] at hr
      rcases List.mem_cons.mp hr with hr | hr
      · rw [hr]
      · exact h2 r hr
    by_cases hm : (port.serial_read trace 1).2.getD 0 0 % 256 = (if i < 3 then 0x55 else 0x00)
    · rw [if_pos hm, u32_eq _ (by omega)]
      obtain ⟨ext2, h1, h2, h3⟩ := ih (i + 1) (trace ++ [SerialEvent.read 1]) events
        (answer.take i ++ received (answer.drop i) 1 1 (port.serial_read trace 1).2)
        (by rw [ha2]; exact hlen)
      refine ⟨SerialEvent.read 1 :: ext2, by rw [h1, List.append_assoc]; rfl, hsize ext2 h2, ?_⟩
      rw [h3, hview, aladin_mismatches, aladin_expected, if_pos hm]
    · rw [if_neg hm]
      obtain ⟨ext2, h1, h2, h3⟩ := ih 0 (trace ++ [SerialEvent.read 1])
        (events ++ [DeviceEvent.waiting])
        (answer.take i ++ received (answer.drop i) 1 1 (port.serial_read trace 1).2)
        (by rw [ha2]; exact hlen)
      refine ⟨SerialEvent.read 1 :: ext2, by rw [h1, List.append_assoc]; rfl, hsize ext2 h2, ?_⟩
      rw [h3, hview, aladin_mismatches, aladin_expected, if_neg hm, waitings_append]
      simp only [waitings]
      omega

/-- A read of more than one byte adds no header byte. -/
theorem header_bytes_snoc (rs : List PortRead) (r : PortRead) (h : r.size ≠ 1) :
    header_bytes (rs ++ [r]) = header_bytes rs := by
  unfold header_bytes
  rw [List.filter_append, List.filter_cons]
  simp [h]

/-- The number of `WAITING` events of `uwatec_aladin_device_dump`, for any port: the
number of mismatches among the header bytes that were received. -/
theorem dump_waitings (env : DumpEnv) (port : Port) (device : uwatec_aladin_device_t)
    (systime : Int) (fuel : Nat) (trace : List SerialEvent) (buffer : List Nat) :
    ∃ ext, (uwatec_aladin_device_dump env port device systime fuel trace buffer).run.trace =
        trace ++ ext ∧
      waitings (uwatec_aladin_device_dump env port device systime fuel trace buffer).run.events =
        aladin_mismatches 0 (header_bytes (port_reads port trace ext)) := by
  have hnil : waitings [] = aladin_mismatches 0 (header_bytes (port_reads port trace [])) := by
    simp [waitings, port_reads, header_bytes, aladin_mismatches]
  unfold uwatec_aladin_device_dump
  by_cases h1 : ¬ device_is_uwatec_aladin device = true
  · rw [if_pos h1]
    exact ⟨[], (List.append_nil _).symm, hnil⟩
  rw [if_neg h1]
  by_cases h2 : ¬ env.dc_buffer_clear = true
  · rw [if_pos h2]
    exact ⟨[], (List.append_nil _).symm, hnil⟩
  rw [if_neg h2]
  by_cases h3 : ¬ env.dc_buffer_reserve = true
  · rw [if_pos h3]
    exact ⟨[], (List.append_nil _).symm, hnil⟩
  rw [if_neg h3]
  simp only []
  obtain ⟨ext, h4, h5, h6⟩ := header_waitings port fuel 0 trace
    [DeviceEvent.progress 0 (UWATEC_ALADIN_MEMORY_SIZE + 2)]
    (List.replicate (UWATEC_ALADIN_MEMORY_SIZE + 2) 0)
    (by rw [List.length_replicate]; decide)
  rcases hl : aladin_header_loop port fuel 0 trace
    [DeviceEvent.progress 0 (UWATEC_ALADIN_MEMORY_SIZE + 2)]
    (List.replicate (UWATEC_ALADIN_MEMORY_SIZE + 2) 0) with ⟨t, e, a⟩ | ⟨o, t, e⟩
  · rw [hl] at h4 h6
    simp only [DumpStep.serial] at h4
    simp only [DumpStep.emitted, waitings, Nat.zero_add] at h6
    simp only []
    have hb : header_bytes (port_reads port trace
        (ext ++ [SerialEvent.read (UWATEC_ALADIN_MEMORY_SIZE + 2 - 4)])) =
        header_bytes (port_reads port trace ext) := by
      rw [port_reads_append, port_reads, port_reads]
      have hsz : UWATEC_ALADIN_MEMORY_SIZE + 2 - 4 ≠ 1 := by decide
      exact header_bytes_snoc _ _ hsz
    refine ⟨ext ++ [SerialEvent.read (UWATEC_ALADIN_MEMORY_SIZE + 2 - 4)], ?_, ?_⟩
    · split_ifs <;> simp only [h4, List.append_assoc]
    · rw [hb, ← h6]
      split_ifs <;> simp only [waitings_append, waitings, Nat.add_zero]
  · rw [hl] at h4 h6
    simp only [DumpStep.serial] at h4
    simp only [DumpStep.emitted, waitings, Nat.zero_add] at h6
    exact ⟨ext, h4, h6⟩

/-- Reads of one byte ask for as many bytes as there are reads. -/
theorem asked_replicate (k : Nat) : asked (List.replicate k (SerialEvent.read 1)) = k := by
  induction k with
  | zero => rfl
  | succ k ih => rw [List.replicate_succ, asked, ih]; omega

/-- On a stream port the reads of one byte give the bytes of the stream, one after
the other. -/
theorem stream_port_bytes (bytes rest : List Nat) (k : Nat) (hk : k < bytes.length) :
    (stream_port (bytes ++ rest)).cancelled ([] ++ List.replicate k (SerialEvent.read 1)) = false ∧
    (stream_port (bytes ++ rest)).serial_read ([] ++ List.replicate k (SerialEvent.read 1)) 1 =
      (1, [bytes.getD k 0]) := by
  refine ⟨rfl, ?_⟩
  have hd : ((bytes ++ rest).drop k).take 1 = [bytes.getD k 0] := by
    rw [List.drop_append_of_le_length (by omega)]
    rcases hdk : bytes.drop k with _ | ⟨x, xs⟩
    · have := congrArg List.length hdk
      rw [List.length_drop] at this
      simp at this
      omega
    · have hx : bytes.getD k 0 = x := by
        rw [List.getD_eq_getElem?_getD, ← List.head?_drop, hdk]
        rfl
      rw [hx]
      rfl
  unfold stream_port
  simp only [List.nil_append, asked_replicate, hd]
  rfl

/-- The match position after bytes that follow one another. -/
theorem aladin_position_append : ∀ (a : List Nat) (i : Nat) (b : List Nat),
    aladin_position i (a ++ b) = aladin_position (aladin_position i a) b := by
  intro a
  induction a with
  | nil => intro i b; rfl
  | cons x a ih => intro i b; rw [List.cons_append, aladin_position, aladin_position, ih]

/-- The mismatches among bytes that follow one another. -/
theorem aladin_mismatches_append : ∀ (a : List Nat) (i : Nat) (b : List Nat),
    aladin_mismatches i (a ++ b) =
      aladin_mismatches i a + aladin_mismatches (aladin_position i a) b := by
  intro a
  induction a with
  | nil => intro i b; simp [aladin_mismatches, aladin_position]
  | cons x a ih =>
    intro i b
    rw [List.cons_append, aladin_mismatches, aladin_mismatches, aladin_position]
    by_cases h : x = aladin_expected i
    · rw [if_pos h, if_pos h, if_pos h, ih]
    · rw [if_neg h, if_neg h, if_neg h, ih]
      omega

/-- The header stays incomplete over bytes that follow one another. -/
theorem aladin_unfinished_append : ∀ (a : List Nat) (i : Nat) (b : List Nat),
    aladin_unfinished i a = true → aladin_unfinished (aladin_position i a) b = true →
    aladin_unfinished i (a ++ b) = true := by
  intro a
  induction a with
  | nil => intro i b _ h; exact h
  | cons x a ih =>
    intro i b h1 h2
    rw [List.cons_append]
    simp only [aladin_unfinished, Bool.and_eq_true, decide_eq_true_eq] at h1 ⊢
    exact ⟨h1.1, ih _ b h1.2 h2⟩

/-- The match position never passes 4 while the header is incomplete. -/
theorem aladin_position_le : ∀ (a : List Nat) (i : Nat), i ≤ 4 →
    aladin_unfinished i a = true → aladin_position i a ≤ 4 := by
  intro a
  induction a with
  | nil => intro i h _; exact h
  | cons x a ih =>
    intro i h hu
    simp only [aladin_unfinished, Bool.and_eq_true, decide_eq_true_eq] at hu
    rw [aladin_position]
    apply ih _ _ hu.2
    have := hu.1
    split_ifs <;> omega

/-- The trace and the events of `uwatec_aladin_device_dump` in terms of its header
loop. -/
theorem dump_of_header (env : DumpEnv) (port : Port) (device : uwatec_aladin_device_t)
    (systime : Int) (fuel : Nat) (trace : List SerialEvent) (buffer : List Nat)
    (hdev : device_is_uwatec_aladin device = true) (hclear : env.dc_buffer_clear = true)
    (hreserve : env.dc_buffer_reserve = true) :
    (∀ t e a, aladin_header_loop port fuel 0 trace
        [DeviceEvent.progress 0 (UWATEC_ALADIN_MEMORY_SIZE + 2)]
        (List.replicate (UWATEC_ALADIN_MEMORY_SIZE + 2) 0) = DumpStep.next t e a →
      (uwatec_aladin_device_dump env port device systime fuel trace buffer).run.trace =
        t ++ [SerialEvent.read (UWATEC_ALADIN_MEMORY_SIZE + 2 - 4)] ∧
      waitings (uwatec_aladin_device_dump env port device systime fuel trace buffer).run.events =
        waitings e) ∧
    (∀ o t e, aladin_header_loop port fuel 0 trace
        [DeviceEvent.progress 0 (UWATEC_ALADIN_MEMORY_SIZE + 2)]
        (List.replicate (UWATEC_ALADIN_MEMORY_SIZE + 2) 0) = DumpStep.stop o t e →
      (uwatec_aladin_device_dump env port device systime fuel trace buffer).run.trace = t) := by
  unfold uwatec_aladin_device_dump
  simp only [hdev, hclear, hreserve, not_true_eq_false, if_false]
  constructor
  · intro t e a h
    rw [h]
    simp only []
    split_ifs <;> exact ⟨rfl, by simp only [waitings_append, waitings, Nat.add_zero]⟩
  · intro o t e h
    rw [h]

/-- The dump on a stream whose first bytes complete the header with their last
byte: one read for every header byte, then the read of the rest of the
package; one `WAITING` event for every mismatch. -/
theorem dump_synced (env : DumpEnv) (device : uwatec_aladin_device_t) (systime : Int)
    (fuel : Nat) (buffer : List Nat) (bytes rest : List Nat)
    (hdev : device_is_uwatec_aladin device = true) (hclear : env.dc_buffer_clear = true)
    (hreserve : env.dc_buffer_reserve = true) (hb : ∀ b ∈ bytes, b < 256)
    (hun : aladin_unfinished 0 bytes = true) (hp : aladin_position 0 bytes = 4)
    (hfuel : bytes.length ≤ fuel) :
    (uwatec_aladin_device_dump env (stream_port (bytes ++ rest)) device systime fuel []
        buffer).run.trace =
      List.replicate bytes.length (SerialEvent.read 1) ++
        [SerialEvent.read (UWATEC_ALADIN_MEMORY_SIZE + 2 - 4)] ∧
    waitings (uwatec_aladin_device_dump env (stream_port (bytes ++ rest)) device systime fuel []
        buffer).run.events = aladin_mismatches 0 bytes := by
  obtain ⟨f, rfl⟩ : ∃ f, fuel = bytes.length + f := ⟨fuel - bytes.length, by omega⟩
  obtain ⟨a2, _, e2⟩ := header_feed (stream_port (bytes ++ rest)) bytes f 0 []
    [DeviceEvent.progress 0 (UWATEC_ALADIN_MEMORY_SIZE + 2)]
    (List.replicate (UWATEC_ALADIN_MEMORY_SIZE + 2) 0)
    (fun k hk => stream_port_bytes bytes rest k hk) hb
    (by rw [List.length_replicate]; decide) hun
  rw [hp] at e2
  have e3 : aladin_header_loop (stream_port (bytes ++ rest)) f 4
      ([] ++ List.replicate bytes.length (SerialEvent.read 1))
      ([DeviceEvent.progress 0 (UWATEC_ALADIN_MEMORY_SIZE + 2)] ++
        List.replicate (aladin_mismatches 0 bytes) DeviceEvent.waiting) a2 =
      DumpStep.next ([] ++ List.replicate bytes.length (SerialEvent.read 1))
        ([DeviceEvent.progress 0 (UWATEC_ALADIN_MEMORY_SIZE + 2)] ++
          List.replicate (aladin_mismatches 0 bytes) DeviceEvent.waiting) a2 := by
    cases f <;> rw [aladin_header_loop] <;> rw [if_pos (by decide)]
  rw [e3] at e2
  obtain ⟨h1, h2⟩ := (dump_of_header env (stream_port (bytes ++ rest)) device systime
    (bytes.length + f) [] buffer hdev hclear hreserve).1 _ _ _ e2
  refine ⟨by rw [h1, List.nil_append], ?_⟩
  rw [h2, waitings_append, waitings_replicate]
  simp [waitings]

/-- The dump on a stream whose first bytes leave the header incomplete: one read
for every one of these bytes, and then one more read of one byte. -/
theorem dump_unsynced (env : DumpEnv) (device : uwatec_aladin_device_t) (systime : Int)
    (fuel : Nat) (buffer : List Nat) (bytes rest : List Nat)
    (hdev : device_is_uwatec_aladin device = true) (hclear : env.dc_buffer_clear = true)
    (hreserve : env.dc_buffer_reserve = true) (hb : ∀ b ∈ bytes, b < 256)
    (hun : aladin_unfinished 0 bytes = true) (hp : aladin_position 0 bytes < 4)
    (hfuel : bytes.length < fuel) :
    ∃ ext, (uwatec_aladin_device_dump env (stream_port (bytes ++ rest)) device systime fuel []
        buffer).run.trace =
      List.replicate bytes.length (SerialEvent.read 1) ++ SerialEvent.read 1 :: ext := by
  obtain ⟨f, rfl⟩ : ∃ f, fuel = bytes.length + (f + 1) := ⟨fuel - bytes.length - 1, by omega⟩
  obtain ⟨a2, _, e2⟩ := header_feed (stream_port (bytes ++ rest)) bytes (f + 1) 0 []
    [DeviceEvent.progress 0 (UWATEC_ALADIN_MEMORY_SIZE + 2)]
    (List.replicate (UWATEC_ALADIN_MEMORY_SIZE + 2) 0)
    (fun k hk => stream_port_bytes bytes rest k hk) hb
    (by rw [List.length_replicate]; decide) hun
  rw [List.nil_append] at e2
  generalize hT : List.replicate bytes.length (SerialEvent.read 1) = T at e2 ⊢
  generalize ([DeviceEvent.progress 0 (UWATEC_ALADIN_MEMORY_SIZE + 2)] ++
    List.replicate (aladin_mismatches 0 bytes) DeviceEvent.waiting) = E at e2
  generalize aladin_position 0 bytes = P at e2 hp
  have hstep : ∃ ext, (aladin_header_loop (stream_port (bytes ++ rest)) (f + 1) P T E a2).serial
      = T ++ SerialEvent.read 1 :: ext := by
    rw [aladin_header_loop, if_neg (by omega)]
    simp only []
    rw [if_neg (by simp [stream_port])]
    have step : ∀ i2 e3 a3, ∃ ext,
        (aladin_header_loop (stream_port (bytes ++ rest)) f i2 (T ++ [SerialEvent.read 1]) e3
          a3).serial = T ++ SerialEvent.read 1 :: ext := by
      intro i2 e3 a3
      obtain ⟨ext, h1, _⟩ := aladin_header_checked (stream_port (bytes ++ rest)) f i2
        (T ++ [SerialEvent.read 1]) e3 a3
      exact ⟨ext, by rw [h1, List.append_assoc]; rfl⟩
    split_ifs <;> first | exact ⟨[], rfl⟩ | exact step _ _ _
  obtain ⟨ext, hser⟩ := hstep
  have hd := dump_of_header env (stream_port (bytes ++ rest)) device systime
    (bytes.length + (f + 1)) [] buffer hdev hclear hreserve
  rw [e2] at hd
  rcases hl : aladin_header_loop (stream_port (bytes ++ rest)) (f + 1) P T E a2 with
    ⟨t, e, a⟩ | ⟨o, t, e⟩
  · rw [hl] at hser hd
    simp only [DumpStep.serial] at hser
    refine ⟨ext ++ [SerialEvent.read (UWATEC_ALADIN_MEMORY_SIZE + 2 - 4)], ?_⟩
    rw [(hd.1 t e a rfl).1, hser]
    simp only [List.append_assoc, List.cons_append]
  · rw [hl] at hser hd
    simp only [DumpStep.serial] at hser
    exact ⟨ext, by rw [hd.2 o t e rfl, hser]⟩

/-- Claim C32. Aladin preamble resynchronisation. For the received byte stream
`55 55 12 55 55 55 00` followed by the image, `uwatec_aladin_device_dump` makes
exactly seven reads of one byte, emits exactly one `WAITING` event, and then
reads the remaining 2046 bytes with one read, which gets the first bytes of
the image. In general, for any port, the number of `WAITING` events emitted is
the number of received header bytes that did not match the expected byte at
the match position they met. -/
theorem aladin_resync (env : DumpEnv) (port : Port) (device : uwatec_aladin_device_t)
    (systime : Int) (fuel : Nat) (trace : List SerialEvent) (buffer image : List Nat) :
    (∃ ext, (uwatec_aladin_device_dump env port device systime fuel trace buffer).run.trace =
        trace ++ ext ∧
      waitings (uwatec_aladin_device_dump env port device systime fuel trace buffer).run.events =
        aladin_mismatches 0 (header_bytes (port_reads port trace ext))) ∧
    (device_is_uwatec_aladin device = true → env.dc_buffer_clear = true →
      env.dc_buffer_reserve = true → 7 ≤ fuel →
      (uwatec_aladin_device_dump env
        (stream_port ([0x55, 0x55, 0x12, 0x55, 0x55, 0x55, 0x00] ++ image)) device systime fuel []
        buffer).run.trace = List.replicate 7 (SerialEvent.read 1) ++ [SerialEvent.read 2046] ∧
      waitings (uwatec_aladin_device_dump env
        (stream_port ([0x55, 0x55, 0x12, 0x55, 0x55, 0x55, 0x00] ++ image)) device systime fuel []
        buffer).run.events = 1 ∧
      (stream_port ([0x55, 0x55, 0x12, 0x55, 0x55, 0x55, 0x00] ++ image)).serial_read
        (List.replicate 7 (SerialEvent.read 1)) 2046 =
        (Int.ofNat (image.take 2046).length, image.take 2046)) := by
  refine ⟨dump_waitings env port device systime fuel trace buffer, ?_⟩
  intro hdev hclear hreserve hfuel
  obtain ⟨h1, h2⟩ := dump_synced env device systime fuel buffer
    [0x55, 0x55, 0x12, 0x55, 0x55, 0x55, 0x00] image hdev hclear hreserve (by decide)
    (by decide) (by decide) hfuel
  refine ⟨h1, h2, ?_⟩
  unfold stream_port
  simp only [asked_replicate]
  rfl

/-- The C32 theorem at a stream with an image of ten bytes. -/
theorem aladin_resync_witness :
    (∃ ext, (uwatec_aladin_device_dump dump_env
        (stream_port ([0x55, 0x55, 0x12, 0x55, 0x55, 0x55, 0x00] ++ List.range 10))
        ⟨⟨uwatec_aladin_device_backend⟩, 0, 0⟩ 0 9 [] []).run.trace = [] ++ ext ∧
      waitings (uwatec_aladin_device_dump dump_env
        (stream_port ([0x55, 0x55, 0x12, 0x55, 0x55, 0x55, 0x00] ++ List.range 10))
        ⟨⟨uwatec_aladin_device_backend⟩, 0, 0⟩ 0 9 [] []).run.events =
        aladin_mismatches 0 (header_bytes (port_reads
          (stream_port ([0x55, 0x55, 0x12, 0x55, 0x55, 0x55, 0x00] ++ List.range 10)) [] ext))) ∧
    (uwatec_aladin_device_dump dump_env
      (stream_port ([0x55, 0x55, 0x12, 0x55, 0x55, 0x55, 0x00] ++ List.range 10))
      ⟨⟨uwatec_aladin_device_backend⟩, 0, 0⟩ 0 9 [] []).run.trace =
      List.replicate 7 (SerialEvent.read 1) ++ [SerialEvent.read 2046] ∧
    waitings (uwatec_aladin_device_dump dump_env
      (stream_port ([0x55, 0x55, 0x12, 0x55, 0x55, 0x55, 0x00] ++ List.range 10))
      ⟨⟨uwatec_aladin_device_backend⟩, 0, 0⟩ 0 9 [] []).run.events = 1 ∧
    (stream_port ([0x55, 0x55, 0x12, 0x55, 0x55, 0x55, 0x00] ++ List.range 10)).serial_read
      (List.replicate 7 (SerialEvent.read 1)) 2046 =
      (Int.ofNat ((List.range 10).take 2046).length, (List.range 10).take 2046) :=
  ⟨(aladin_resync dump_env
      (stream_port ([0x55, 0x55, 0x12, 0x55, 0x55, 0x55, 0x00] ++ List.range 10))
      ⟨⟨uwatec_aladin_device_backend⟩, 0, 0⟩ 0 9 [] [] (List.range 10)).1,
    (aladin_resync dump_env
      (stream_port ([0x55, 0x55, 0x12, 0x55, 0x55, 0x55, 0x00] ++ List.range 10))
      ⟨⟨uwatec_aladin_device_backend⟩, 0, 0⟩ 0 9 [] [] (List.range 10)).2
      (by decide) rfl rfl (by decide)⟩

/-- The match position after the four bytes of the preamble. -/
theorem aladin_preamble_position (p : Nat) (hp : p < 4) :
    aladin_unfinished p [0x55, 0x55, 0x55, 0x00] = true ∧
    aladin_position p [0x55, 0x55, 0x55, 0x00] = (if p = 0 then 4 else 0) := by
  interval_cases p <;> exact ⟨by decide, by decide⟩

/-- Where the header loop of the dump stands behind an occurrence of the preamble:
with the bytes `pre` in front of `55 55 55 00`, none of which completes the
header before its last byte, the event behind the reads of these bytes is the
read of the rest of the package exactly when the match position after `pre`
is 0. -/
theorem preamble_iff (env : DumpEnv) (device : uwatec_aladin_device_t) (systime : Int)
    (fuel : Nat) (buffer : List Nat) (pre rest : List Nat)
    (hdev : device_is_uwatec_aladin device = true) (hclear : env.dc_buffer_clear = true)
    (hreserve : env.dc_buffer_reserve = true) (hb : ∀ b ∈ pre, b < 256)
    (hun : aladin_unfinished 0 pre = true) (hfuel : pre.length + 4 < fuel) :
    ((uwatec_aladin_device_dump env (stream_port (pre ++ [0x55, 0x55, 0x55, 0x00] ++ rest))
        device systime fuel [] buffer).run.trace[pre.length + 4]? =
        some (SerialEvent.read 2046) ↔ aladin_position 0 pre = 0) ∧
    (aladin_position 0 pre = 0 →
      (uwatec_aladin_device_dump env (stream_port (pre ++ [0x55, 0x55, 0x55, 0x00] ++ rest))
        device systime fuel [] buffer).run.trace =
        List.replicate (pre.length + 4) (SerialEvent.read 1) ++ [SerialEvent.read 2046]) := by
  have hle := aladin_position_le pre 0 (by omega) hun
  have hlen : (pre ++ [0x55, 0x55, 0x55, 0x00]).length = pre.length + 4 := by simp
  have hb2 : ∀ b ∈ pre ++ [0x55, 0x55, 0x55, 0x00], b < 256 := by
    intro b hm
    rcases List.mem_append.mp hm with h | h
    · exact hb b h
    · simp at h
      omega
  by_cases h4 : aladin_position 0 pre = 4
  · -- the header is complete at the end of `pre`
    obtain ⟨h1, _⟩ := dump_synced env device systime fuel buffer pre
      ([0x55, 0x55, 0x55, 0x00] ++ rest) hdev hclear hreserve hb hun h4 (by omega)
    rw [List.append_assoc]
    rw [h1]
    refine ⟨⟨fun h => ?_, fun h => by omega⟩, fun h => by omega⟩
    rw [List.getElem?_eq_none (by simp)] at h
    exact absurd h (by simp)
  · obtain ⟨hu4, hp4⟩ := aladin_preamble_position (aladin_position 0 pre) (by omega)
    have hun2 := aladin_unfinished_append pre 0 [0x55, 0x55, 0x55, 0x00] hun hu4
    have hpos := aladin_position_append pre 0 [0x55, 0x55, 0x55, 0x00]
    rw [hp4] at hpos
    by_cases h0 : aladin_position 0 pre = 0
    · rw [if_pos h0] at hpos
      obtain ⟨h1, _⟩ := dump_synced env device systime fuel buffer
        (pre ++ [0x55, 0x55, 0x55, 0x00]) rest hdev hclear hreserve hb2 hun2 hpos (by omega)
      rw [hlen] at h1
      rw [h1]
      refine ⟨⟨fun _ => h0, fun _ => ?_⟩, fun _ => rfl⟩
      rw [List.getElem?_append_right (by simp)]
      simp
      rfl
    · rw [if_neg h0] at hpos
      obtain ⟨ext, h1⟩ := dump_unsynced env device systime fuel buffer
        (pre ++ [0x55, 0x55, 0x55, 0x00]) rest hdev hclear hreserve hb2 hun2 (by omega)
        (by omega)
      rw [hlen] at h1
      rw [h1]
      refine ⟨⟨fun h => ?_, fun h => absurd h h0⟩, fun h => absurd h h0⟩
      rw [List.getElem?_append_right (by simp)] at h
      simp at h

/-- Claim C33, amended for the match position. On a received byte stream in which
the bytes `pre` are followed by `55 55 55 00`, where no byte of `pre`
completes the header before the last, the header loop of
`uwatec_aladin_device_dump` finishes at the end of that occurrence (the read
of the rest of the package follows the reads of these bytes) if and only if
the match position after `pre` is 0. It is 0 at the start of the stream and
after bytes other than `55`; it is not 0 after a single `55`, so that the
preamble is missed in `55 55 55 55 00`. -/
theorem aladin_preamble (env : DumpEnv) (device : uwatec_aladin_device_t) (systime : Int)
    (fuel : Nat) (buffer : List Nat) (pre rest : List Nat)
    (hdev : device_is_uwatec_aladin device = true) (hclear : env.dc_buffer_clear = true)
    (hreserve : env.dc_buffer_reserve = true) (hb : ∀ b ∈ pre, b < 256)
    (hun : aladin_unfinished 0 pre = true) (hfuel : pre.length + 4 < fuel) :
    ((uwatec_aladin_device_dump env (stream_port (pre ++ [0x55, 0x55, 0x55, 0x00] ++ rest))
        device systime fuel [] buffer).run.trace[pre.length + 4]? =
        some (SerialEvent.read 2046) ↔ aladin_position 0 pre = 0) ∧
    (aladin_position 0 pre = 0 →
      (uwatec_aladin_device_dump env (stream_port (pre ++ [0x55, 0x55, 0x55, 0x00] ++ rest))
        device systime fuel [] buffer).run.trace =
        List.replicate (pre.length + 4) (SerialEvent.read 1) ++ [SerialEvent.read 2046]) ∧
    ((∀ b ∈ pre, b ≠ 0x55) → aladin_position 0 pre = 0) ∧
    aladin_position 0 [] = 0 ∧ aladin_position 0 [0x55] = 1 := by
  obtain ⟨h1, h2⟩ := preamble_iff env device systime fuel buffer pre rest hdev hclear hreserve
    hb hun hfuel
  refine ⟨h1, h2, ?_, rfl, rfl⟩
  clear h1 h2 hun hb hfuel
  induction pre with
  | nil => intro _; rfl
  | cons x t ih =>
    intro h
    have hx := h x (List.mem_cons_self _ _)
    have e : aladin_expected 0 = 0x55 := rfl
    rw [aladin_position, e, if_neg hx]
    exact ih (fun b hb => h b (List.mem_cons_of_mem _ hb))

/-- The C33 theorem at the stream `12 55 55 55 00` followed by ten bytes. -/
theorem aladin_preamble_witness :
    ((uwatec_aladin_device_dump dump_env
        (stream_port ([0x12] ++ [0x55, 0x55, 0x55, 0x00] ++ List.range 10))
        ⟨⟨uwatec_aladin_device_backend⟩, 0, 0⟩ 0 9 [] []).run.trace[[0x12].length + 4]? =
        some (SerialEvent.read 2046) ↔ aladin_position 0 [0x12] = 0) ∧
    (aladin_position 0 [0x12] = 0 →
      (uwatec_aladin_device_dump dump_env
        (stream_port ([0x12] ++ [0x55, 0x55, 0x55, 0x00] ++ List.range 10))
        ⟨⟨uwatec_aladin_device_backend⟩, 0, 0⟩ 0 9 [] []).run.trace =
        List.replicate ([0x12].length + 4) (SerialEvent.read 1) ++ [SerialEvent.read 2046]) ∧
    ((∀ b ∈ [0x12], b ≠ 0x55) → aladin_position 0 [0x12] = 0) ∧
    aladin_position 0 [] = 0 ∧ aladin_position 0 [0x55] = 1 :=
  aladin_preamble dump_env ⟨⟨uwatec_aladin_device_backend⟩, 0, 0⟩ 0 9 [] [0x12] (List.range 10)
    (by decide) rfl rfl (by decide) (by decide) (by decide)

/-- Counterexample to C33. The stream `55 55 55 55 00` followed by an image of 2046
bytes contains the preamble `55 55 55 00`, preceded by one extra `55`. The
header loop does not finish at the end of the occurrence: the event behind the
five reads of one byte is not the read of the 2046 bytes. -/
theorem aladin_preamble_counterexample :
    (uwatec_aladin_device_dump dump_env
      (stream_port ([0x55] ++ [0x55, 0x55, 0x55, 0x00] ++ List.replicate 2046 0))
      ⟨⟨uwatec_aladin_device_backend⟩, 0, 0⟩ 0 3000 [] []).run.trace[5]? ≠
      some (SerialEvent.read 2046) := by
  intro h
  have := (preamble_iff dump_env ⟨⟨uwatec_aladin_device_backend⟩, 0, 0⟩ 0 3000 []
    [0x55] (List.replicate 2046 0) (by decide) rfl rfl (by decide) (by decide) (by decide)).1.mp h
  exact absurd this (by decide)

/-- The stream `55 55 55 55 00` followed by eight zero bytes, in full: the loop
takes every byte for a header byte, emits a `WAITING` event for the fourth
`55`, for the `00` and for each of the eight bytes behind it, and ends with
`TIMEOUT` when the stream is used up. -/
theorem aladin_preamble_sample :
    (uwatec_aladin_device_dump dump_env
      (stream_port ([0x55, 0x55, 0x55, 0x55, 0x00] ++ List.replicate 8 0))
      ⟨⟨uwatec_aladin_device_backend⟩, 0, 0⟩ 0 40 [] []).run.outcome =
      Outcome.returned TIMEOUT ∧
    (uwatec_aladin_device_dump dump_env
      (stream_port ([0x55, 0x55, 0x55, 0x55, 0x00] ++ List.replicate 8 0))
      ⟨⟨uwatec_aladin_device_backend⟩, 0, 0⟩ 0 40 [] []).run.trace =
      List.replicate 14 (SerialEvent.read 1) ∧
    waitings (uwatec_aladin_device_dump dump_env
      (stream_port ([0x55, 0x55, 0x55, 0x55, 0x00] ++ List.replicate 8 0))
      ⟨⟨uwatec_aladin_device_backend⟩, 0, 0⟩ 0 40 [] []).run.events = 10 := by
  decide!

/-! ## The Aladin fingerprint: properties -/

/-- A run of the Aladin extraction that delivered a dive had an image of full
size whose pointer to the last profile byte lies inside the profile ring. -/
theorem aladin_delivered_guards (callback : Option (List Event → List Nat → List Nat → Bool))
    (device : Option uwatec_aladin_device_t) (data : List Nat) (fuel j : Nat)
    (d : List Nat × List Nat)
    (h : (dives (uwatec_aladin_extract_dives callback device data fuel).trace)[j]? = some d) :
    UWATEC_ALADIN_MEMORY_SIZE ≤ data.length ∧ aladin_last data < 0x600 := by
  unfold uwatec_aladin_extract_dives at h
  by_cases c0 : device.isSome ∧ ¬ (device.map device_is_uwatec_aladin).getD false
  · rw [if_pos c0] at h
    simp [dives] at h
  · rw [if_neg c0] at h
    by_cases c1 : data.length < UWATEC_ALADIN_MEMORY_SIZE
    · rw [if_pos c1] at h
      simp [dives] at h
    · rw [if_neg c1] at h
      simp only at h
      by_cases c2 : ¬ ringbuffer_defined (u32 (image_byte data (HEADER + 0x7f6) +
          ((((image_byte data (HEADER + 0x7f7)) &&& 0x0F) >>> 1) <<< 8)))
          Aladin.RB_PROFILE_BEGIN Aladin.RB_PROFILE_END
      · rw [if_pos c2] at h
        simp [dives] at h
      · refine ⟨Nat.le_of_not_lt c1, ?_⟩
        have c3 := not_not.mp c2
        unfold ringbuffer_defined at c3
        simp only [decide_eq_true_eq] at c3
        exact c3.2

/-- The fingerprint of a delivered dive has four bytes. -/
theorem aladin_fingerprint_length (data : List Nat) (j : Nat) (d : List Nat × List Nat)
    (h : AladinBlockOk data j d) : d.2.length = 4 := by
  obtain ⟨h1, _, _, _, _, _, h7⟩ := h
  rw [h7, List.length_take, List.length_drop]
  omega

/-- An extraction with a device whose timestamp is not older than the timestamp
of the newest logbook slot returns `SUCCESS` with zero dives. -/
theorem aladin_seeded_run (callback : Option (List Event → List Nat → List Nat → Bool))
    (dev : uwatec_aladin_device_t) (data : List Nat) (fuel : Nat)
    (hguard : device_is_uwatec_aladin dev = true)
    (hsize : UWATEC_ALADIN_MEMORY_SIZE ≤ data.length) (hlast : aladin_last data < 0x600)
    (hfuel : 0x600 ≤ fuel) (hnd : 0 < aladin_ndives data)
    (hts : aladin_slot_timestamp data 0 ≤ dev.timestamp) :
    (uwatec_aladin_extract_dives callback (some dev) data fuel).outcome =
      Outcome.returned SUCCESS ∧
    dives (uwatec_aladin_extract_dives callback (some dev) data fuel).trace = [] := by
  have hn : aladin_ndives data ≤ 37 := by unfold aladin_ndives; omega
  suffices h : (uwatec_aladin_extract_dives callback (some dev) data fuel).outcome =
      Outcome.returned SUCCESS ∧
      (dives (uwatec_aladin_extract_dives callback (some dev) data fuel).trace).length ≤ 0 from
    ⟨h.1, List.length_eq_zero.mp (Nat.le_zero.mp h.2)⟩
  rw [aladin_extract_eq callback (some dev) data fuel
    (fun x hx => by cases hx; exact hguard) hsize hlast]
  exact aladin_loop_watermark callback dev data (aladin_ndives data) _ fuel 0 hn
    (aladin_eop_lt data hlast) hfuel hnd hts fuel _ (Nat.zero_le _)
    (by show 0 - 0 < fuel; omega)
    (aladin_eop_lt data hlast) (aladin_eop_lt data hlast) (Nat.le_refl _)

/-- Claim C31. Aladin fingerprint round trip: for a dive number `j` delivered by
`uwatec_aladin_extract_dives`, the fingerprint has four bytes, its 32-bit
little-endian value is the 32-bit big-endian value of the timestamp field
(bytes 7 to 10) of the logbook slot of the dive, and passing it with size 4
to `uwatec_aladin_device_set_fingerprint` on an Aladin device returns
`SUCCESS` and sets the timestamp of the device to that value; a second
extraction over the same image, with the device seeded with the fingerprint
of the newest dive (number 0) of the first run, returns `SUCCESS` with zero
dives delivered, whatever its callback (proved for runs with fuel for one turn
of the ring); `uwatec_aladin_device_set_fingerprint` returns `ERROR` exactly
when the size is neither 0 nor 4, and size 0 resets the timestamp to 0. -/
theorem aladin_fingerprint_round_trip
    (callback callback2 : Option (List Event → List Nat → List Nat → Bool))
    (device : Option uwatec_aladin_device_t) (dev : uwatec_aladin_device_t)
    (data : List Nat) (fuel fuel2 : Nat)
    (hdev : device_is_uwatec_aladin dev = true) :
    (∀ j d, (dives (uwatec_aladin_extract_dives callback device data fuel).trace)[j]? = some d →
      d.2.length = 4 ∧
      array_uint32_le d.2 = array_uint32_be ((aladin_slot data j).drop 7) ∧
      uwatec_aladin_device_set_fingerprint dev d.2 4 =
        (SUCCESS, { dev with timestamp := array_uint32_be ((aladin_slot data j).drop 7) })) ∧
    (∀ d, (dives (uwatec_aladin_extract_dives callback device data fuel).trace)[0]? = some d →
      0x600 ≤ fuel2 →
      (uwatec_aladin_extract_dives callback2
        (some (uwatec_aladin_device_set_fingerprint dev d.2 4).2) data fuel2).outcome =
        Outcome.returned SUCCESS ∧
      dives (uwatec_aladin_extract_dives callback2
        (some (uwatec_aladin_device_set_fingerprint dev d.2 4).2) data fuel2).trace = []) ∧
    (∀ fp size, (uwatec_aladin_device_set_fingerprint dev fp size).1 = ERROR ↔
      (size ≠ 0 ∧ size ≠ 4)) ∧
    (∀ fp, uwatec_aladin_device_set_fingerprint dev fp 0 =
      (SUCCESS, { dev with timestamp := 0 })) := by
  have hsafe := aladin_extract_safe callback device data fuel
  have hn : aladin_ndives data ≤ 37 := by unfold aladin_ndives; omega
  have hset : ∀ fp, uwatec_aladin_device_set_fingerprint dev fp 4 =
      (SUCCESS, { dev with timestamp := array_uint32_le fp }) := by
    intro fp
    unfold uwatec_aladin_device_set_fingerprint
    simp [hdev]
  refine ⟨?_, ?_, ?_, ?_⟩
  · intro j d hj
    obtain ⟨hok, h2, _⟩ := hsafe.2 j d hj
    refine ⟨aladin_fingerprint_length data j d hok, h2, ?_⟩
    rw [hset, h2]
    rfl
  · intro d h0 hfuel
    obtain ⟨hok, h2, _⟩ := hsafe.2 0 d h0
    obtain ⟨hsize, hlast⟩ := aladin_delivered_guards callback device data fuel 0 d h0
    have hlen : 0 < (dives (uwatec_aladin_extract_dives callback device data fuel).trace).length := by
      rcases hl : dives (uwatec_aladin_extract_dives callback device data fuel).trace with _ | ⟨x, t⟩
      · rw [hl] at h0; simp at h0
      · simp
    have hnd : 0 < aladin_ndives data := Nat.lt_of_lt_of_le hlen hsafe.1
    have hts : aladin_slot_timestamp data 0 ≤
        (uwatec_aladin_device_set_fingerprint dev d.2 4).2.timestamp := by
      rw [hset]
      show aladin_slot_timestamp data 0 ≤ array_uint32_le d.2
      omega
    have hguard : device_is_uwatec_aladin
        (uwatec_aladin_device_set_fingerprint dev d.2 4).2 = true := by
      rw [hset]
      exact hdev
    exact aladin_seeded_run callback2 _ data fuel2 hguard hsize hlast hfuel hnd hts
  · intro fp size
    unfold uwatec_aladin_device_set_fingerprint
    simp only [hdev, not_true_eq_false, if_false]
    by_cases c1 : size ≠ 0 ∧ size ≠ 4
    · simp [c1]
    · rw [if_neg c1]
      by_cases c2 : size ≠ 0
      · rw [if_pos c2]; simp [c1]
      · rw [if_neg c2]; simp [c1]
  · intro fp
    unfold uwatec_aladin_device_set_fingerprint
    simp [hdev]

/-- The C31 theorem at `aladin_pair` and a device of the Aladin backend: the
second extraction, seeded with the fingerprint of the newest dive of a first
run without a device, returns `SUCCESS` with zero dives. -/
theorem aladin_fingerprint_round_trip_witness :
    device_is_uwatec_aladin ⟨⟨uwatec_aladin_device_backend⟩, 0, 0⟩ = true ∧
    (uwatec_aladin_extract_dives accept_all
      (some (uwatec_aladin_device_set_fingerprint ⟨⟨uwatec_aladin_device_backend⟩, 0, 0⟩
        ((dives (uwatec_aladin_extract_dives accept_all none aladin_pair 40).trace).getD 0
          ([], [])).2 4).2) aladin_pair 1536).outcome = Outcome.returned SUCCESS ∧
    dives (uwatec_aladin_extract_dives accept_all
      (some (uwatec_aladin_device_set_fingerprint ⟨⟨uwatec_aladin_device_backend⟩, 0, 0⟩
        ((dives (uwatec_aladin_extract_dives accept_all none aladin_pair 40).trace).getD 0
          ([], [])).2 4).2) aladin_pair 1536).trace = [] :=
  ⟨rfl, (aladin_fingerprint_round_trip accept_all accept_all none
    ⟨⟨uwatec_aladin_device_backend⟩, 0, 0⟩ aladin_pair 40 1536 rfl).2.1
      ((dives (uwatec_aladin_extract_dives accept_all none aladin_pair 40).trace).getD 0
        ([], []))
      (by decide!) (by decide)⟩

/-- The first run over `aladin_pair` returns `SUCCESS` with two dives; the
fingerprint of the newest is the timestamp field of its logbook slot reversed,
which sets the timestamp of the device to the big-endian value of the field;
and the second run, seeded with it, returns `SUCCESS` with zero dives. -/
theorem aladin_fingerprint_sample :
    (uwatec_aladin_extract_dives accept_all none aladin_pair 40).outcome =
      Outcome.returned SUCCESS ∧
    (dives (uwatec_aladin_extract_dives accept_all none aladin_pair 40).trace).length = 2 ∧
    ((dives (uwatec_aladin_extract_dives accept_all none aladin_pair 40).trace).getD 0
      ([], [])).2 = (((aladin_slot aladin_pair 0).drop 7).take 4).reverse ∧
    (uwatec_aladin_device_set_fingerprint ⟨⟨uwatec_aladin_device_backend⟩, 0, 0⟩
      ((dives (uwatec_aladin_extract_dives accept_all none aladin_pair 40).trace).getD 0
        ([], [])).2 4).2.timestamp = array_uint32_be ((aladin_slot aladin_pair 0).drop 7) ∧
    (uwatec_aladin_extract_dives accept_all
      (some (uwatec_aladin_device_set_fingerprint ⟨⟨uwatec_aladin_device_backend⟩, 0, 0⟩
        ((dives (uwatec_aladin_extract_dives accept_all none aladin_pair 40).trace).getD 0
          ([], [])).2 4).2) aladin_pair 40) = ⟨Outcome.returned SUCCESS, []⟩ := by
  decide!

/-! ## The Aladin profile scan: properties -/

/-- The search loop step by step: its number of steps `N` is at least one, the
`N - 1` places passed hold no marker, the last place holds a marker or is
`eop`, the loop gives its result with fuel `N` and no less, and the way back to
`eop` is shorter by `N`. -/
theorem aladin_search_count (data : List Nat) (eop : Nat) (he : eop < 0x600) :
    ∀ (fuel c p : Nat), c < 0x600 → p < 0x600 →
      (aladin_back c + 0x600 - eop) % 0x600 < fuel →
      1 ≤ aladin_search_steps data eop fuel c ∧
      ((c + 0x600 - aladin_search_steps data eop fuel c) % 0x600 + 0x600 - eop) % 0x600
        + aladin_search_steps data eop fuel c = (aladin_back c + 0x600 - eop) % 0x600 + 1 ∧
      (∀ j, 1 ≤ j → j < aladin_search_steps data eop fuel c →
        image_byte data (HEADER + (c + 0x600 - j) % 0x600) ≠ 0xFF) ∧
      (image_byte data (HEADER + (c + 0x600 - aladin_search_steps data eop fuel c) % 0x600)
          ≠ 0xFF → (c + 0x600 - aladin_search_steps data eop fuel c) % 0x600 = eop) ∧
      (∀ f, aladin_search data eop f c p =
        if f < aladin_search_steps data eop fuel c then some none
        else some (some
          (if image_byte data (HEADER + (c + 0x600 - aladin_search_steps data eop fuel c) % 0x600)
              = 0xFF then
            ((c + 0x600 - aladin_search_steps data eop fuel c) % 0x600,
              (c + 0x600 - aladin_search_steps data eop fuel c) % 0x600,
              (p + 0x600 - (c + 0x600 - aladin_search_steps data eop fuel c) % 0x600) % 0x600)
          else ((c + 0x600 - aladin_search_steps data eop fuel c) % 0x600, p, 0)))) := by
  intro fuel
  induction fuel with
  | zero =>
    intro c p _ _ h
    exact absurd h (by omega)
  | succ fuel ih =>
    intro c p hc hp hfuel
    have hb := aladin_back_eq c hc
    have hb2 : aladin_back c < 0x600 := by
      rw [hb]
      split_ifs <;> omega
    have hc1 : (c + 0x600 - 1) % 0x600 = aladin_back c := by
      rw [hb]
      split_ifs <;> omega
    have hsteps : aladin_search_steps data eop (fuel + 1) c =
        if image_byte data (HEADER + aladin_back c) = 0xFF then 1
        else if ¬ (aladin_back c ≠ eop) then 1
        else aladin_search_steps data eop fuel (aladin_back c) + 1 := rfl
    have hsearch : ∀ f, aladin_search data eop (f + 1) c p =
        if image_byte data (HEADER + aladin_back c) = 0xFF then
          if ¬ (ringbuffer_defined (aladin_back c) Aladin.RB_PROFILE_BEGIN Aladin.RB_PROFILE_END ∧
              ringbuffer_defined p Aladin.RB_PROFILE_BEGIN Aladin.RB_PROFILE_END) then none
          else some (some (aladin_back c, aladin_back c,
            Aladin.RB_PROFILE_DISTANCE (aladin_back c) p))
        else if ¬ (aladin_back c ≠ eop) then some (some (aladin_back c, p, 0))
        else aladin_search data eop f (aladin_back c) p := fun f => rfl
    have hzero : aladin_search data eop 0 c p = some none := rfl
    generalize aladin_back c = c1 at hb2 hfuel hc1 hsteps hsearch
    have hd1 : ringbuffer_defined c1 Aladin.RB_PROFILE_BEGIN Aladin.RB_PROFILE_END = true := by
      simp [ringbuffer_defined, Aladin.RB_PROFILE_BEGIN, Aladin.RB_PROFILE_END, hb2]
    have hd2 : ringbuffer_defined p Aladin.RB_PROFILE_BEGIN Aladin.RB_PROFILE_END = true := by
      simp [ringbuffer_defined, Aladin.RB_PROFILE_BEGIN, Aladin.RB_PROFILE_END, hp]
    have hdist : Aladin.RB_PROFILE_DISTANCE c1 p = (p + 0x600 - c1) % 0x600 := by
      unfold Aladin.RB_PROFILE_DISTANCE Aladin.RB_PROFILE_BEGIN Aladin.RB_PROFILE_END
      rw [ringbuffer_distance_eq c1 p 0 0x600 false ⟨Nat.zero_le _, hb2⟩ ⟨Nat.zero_le _, hp⟩]
      have : (if c1 = p then (if false = true then 0x600 - 0 else 0)
          else if c1 < p then p - c1 else 0x600 - 0 - (c1 - p)) = (p + 0x600 - c1) % 0x600 := by
        clear hfuel ih hsteps hsearch
        simp only [Bool.false_eq_true, if_false]
        by_cases e1 : c1 = p
        · rw [if_pos e1]
          omega
        · rw [if_neg e1]
          by_cases e2 : c1 < p
          · rw [if_pos e2]
            omega
          · rw [if_neg e2]
            omega
      rw [this]
      exact u32_eq _ (by omega)
    by_cases hm : image_byte data (HEADER + c1) = 0xFF
    · rw [if_pos hm] at hsteps
      rw [hsteps, hc1]
      refine ⟨Nat.le_refl _, ?_, ?_, ?_, ?_⟩
      · omega
      · intro j h1 h2
        omega
      · intro h
        exact absurd hm h
      · intro f
        rcases f with _ | f
        · rw [hzero, if_pos (by omega)]
        · rw [hsearch, if_pos hm, if_neg (not_not.mpr ⟨hd1, hd2⟩), if_neg (by omega), if_pos hm,
            hdist]
    · rw [if_neg hm] at hsteps
      by_cases hne : c1 ≠ eop
      · rw [if_neg (not_not.mpr hne)] at hsteps
        have hb3 := aladin_back_eq c1 hb2
        have hm2 := aladin_back_measure c1 eop hb2 he hne
        rw [← hb3] at hm2
        obtain ⟨i1, i2, i3, i4, i5⟩ := ih c1 p hb2 hp (by omega)
        have hmod : (aladin_back c1 + 0x600 - eop) % 0x600 < 0x600 := Nat.mod_lt _ (by decide)
        generalize aladin_search_steps data eop fuel c1 = n1 at i1 i2 i3 i4 i5 hsteps
        have hn1 : n1 < 0x600 := by omega
        have hpos : (c + 0x600 - (n1 + 1)) % 0x600 = (c1 + 0x600 - n1) % 0x600 := by
          omega
        rw [hsteps, hpos]
        refine ⟨by omega, ?_, ?_, i4, ?_⟩
        · omega
        · intro j h1 h2
          by_cases hj : j = 1
          · rw [hj, hc1]
            exact hm
          · have := i3 (j - 1) (by omega) (by omega)
            have e : (c + 0x600 - j) % 0x600 = (c1 + 0x600 - (j - 1)) % 0x600 := by omega
            rw [e]
            exact this
        · intro f
          rcases f with _ | f
          · rw [hzero, if_pos (by omega)]
          · rw [hsearch, if_neg hm, if_neg (not_not.mpr hne), i5 f]
            by_cases hf : f < n1
            · have hf2 : f + 1 < n1 + 1 := by omega
              rw [if_pos hf, if_pos hf2]
            · have hf2 : ¬ (f + 1 < n1 + 1) := by omega
              rw [if_neg hf, if_neg hf2]
      · rw [if_pos hne] at hsteps
        rw [hsteps, hc1]
        refine ⟨Nat.le_refl _, ?_, ?_, ?_, ?_⟩
        · omega
        · intro j h1 h2
          omega
        · intro _
          exact not_not.mp hne
        · intro f
          rcases f with _ | f
          · rw [hzero, if_pos (by omega)]
          · rw [hsearch, if_neg hm, if_pos hne, if_neg (by omega), if_neg hm]

/-- The length that `aladin_profile` gives is the length it is given, less the
start marker. -/
theorem aladin_profile_len (data buffer : List Nat) (c len len2 : Nat) (buffer2 : List Nat)
    (hlen : len < 0x600) (h : aladin_profile data buffer c len = some (len2, buffer2)) :
    len2 = len - 1 := by
  unfold aladin_profile at h
  by_cases h1 : len ≥ 1
  · rw [if_pos h1] at h
    simp only [] at h
    have hu : usub len 1 = len - 1 := usub_eq len 1 h1 (by omega)
    rw [hu] at h
    split_ifs at h
    · simp only [Option.some.injEq, Prod.mk.injEq] at h
      exact h.1.symm
    · simp only [Option.some.injEq, Prod.mk.injEq] at h
      exact h.1.symm
  · rw [if_neg h1] at h
    simp only [Option.some.injEq, Prod.mk.injEq] at h
    omega

/-- The pointers and the counter of the state that `aladin_deliver` gives are
those of the state it is given, and the trace grows at its end. -/
theorem aladin_deliver_state (callback : Option (List Event → List Nat → List Nat → Bool))
    (device : Option uwatec_aladin_device_t) (buffer : List Nat) (len : Nat) (s1 : AladinState) :
    (aladin_deliver callback device buffer len s1).1.current = s1.current ∧
    (aladin_deliver callback device buffer len s1).1.previous = s1.previous ∧
    (aladin_deliver callback device buffer len s1).1.profiles = s1.profiles ∧
    (aladin_deliver callback device buffer len s1).1.i = s1.i := by
  unfold aladin_deliver
  simp only []
  split_ifs
  · exact ⟨rfl, rfl, rfl, rfl⟩
  · rcases callback with _ | cb
    · exact ⟨rfl, rfl, rfl, rfl⟩
    · exact ⟨rfl, rfl, rfl, rfl⟩

/-- One iteration of the dive loop that scans the profile ring: the search loop
ends at `aladin_scan_end`; with a marker there the profile has the bytes from
there to `previous`, less the marker, and without one no byte. -/
theorem aladin_dive_scan (callback : Option (List Event → List Nat → List Nat → Bool))
    (device : Option uwatec_aladin_device_t) (data : List Nat) (eol eop searchfuel : Nat)
    (s : AladinState) (he : eop < 0x600) (hc : s.current < 0x600) (hp : s.previous < 0x600)
    (hfuel : 0x600 ≤ searchfuel) (hpf : s.profiles = true) :
    ∃ len buffer,
      aladin_dive callback device data eol eop searchfuel s =
        Step.next (aladin_deliver callback device buffer len
          { i := u32 (s.i + 1)
            profiles := if aladin_scan_end data eop searchfuel s.current = eop then false
              else s.profiles
            previous :=
              if image_byte data (HEADER + aladin_scan_end data eop searchfuel s.current) = 0xFF
              then aladin_scan_end data eop searchfuel s.current else s.previous
            current := aladin_scan_end data eop searchfuel s.current
            trace := s.trace }) ∧
      buffer.length = len + 18 ∧
      len = (if image_byte data (HEADER + aladin_scan_end data eop searchfuel s.current) = 0xFF
        then (s.previous + 0x600 - aladin_scan_end data eop searchfuel s.current) % 0x600 - 1
        else 0) ∧
      ∀ j, j < len → buffer.getD (18 + j) 0 =
        image_byte data (HEADER + (aladin_scan_end data eop searchfuel s.current + 1 + j) % 0x600) := by
  obtain ⟨hb1, hb2, hb3⟩ := aladin_buffer_facts data eol s.i
  have hmod : (aladin_back s.current + 0x600 - eop) % 0x600 < 0x600 := Nat.mod_lt _ (by decide)
  obtain ⟨i1, i2, i3, i4, i5⟩ := aladin_search_count data eop he searchfuel s.current s.previous
    hc hp (by omega)
  have i6 := i5 searchfuel
  rw [if_neg (by omega)] at i6
  have hce : aladin_scan_end data eop searchfuel s.current < 0x600 := Nat.mod_lt _ (by decide)
  have hfold : (s.current + 0x600 - aladin_search_steps data eop searchfuel s.current) % 0x600
      = aladin_scan_end data eop searchfuel s.current := rfl
  rw [hfold] at i6
  unfold aladin_dive
  simp only []
  rw [if_neg (not_not.mpr hpf), i6]
  generalize aladin_scan_end data eop searchfuel s.current = c at hce ⊢
  by_cases hm : image_byte data (HEADER + c) = 0xFF
  · simp only [if_pos hm]
    have hl : (s.previous + 0x600 - c) % 0x600 < 0x600 := Nat.mod_lt _ (by decide)
    obtain ⟨len2, buffer2, hpr, q1, q2, q3, q4, q5, q6⟩ := aladin_profile_spec data
      (aladin_buffer data eol s.i) c ((s.previous + 0x600 - c) % 0x600) hb1 hb2 hb3
      (fun _ => hce) hl
    have hlen := aladin_profile_len data _ c _ len2 buffer2 hl hpr
    rw [hpr]
    exact ⟨len2, buffer2, rfl, q1, hlen, q6⟩
  · simp only [if_neg hm]
    have hpr : aladin_profile data (aladin_buffer data eol s.i) c 0 =
        some (0, aladin_buffer data eol s.i) := by
      unfold aladin_profile
      rw [if_neg (by omega)]
    rw [hpr]
    exact ⟨0, aladin_buffer data eol s.i, rfl, by rw [hb1], rfl, fun j hj => absurd hj (by omega)⟩

/-- One iteration of the dive loop keeps the invariant of the scan, and the steps
of its search loop are taken from the steps that are left. -/
theorem aladin_dive_inv (callback : Option (List Event → List Nat → List Nat → Bool))
    (device : Option uwatec_aladin_device_t) (data : List Nat) (eol eop searchfuel : Nat)
    (s : AladinState) (he : eop < 0x600) (hinv : AladinScanInv eop s)
    (hfuel : 0x600 ≤ searchfuel) :
    ∃ s' stop, aladin_dive callback device data eol eop searchfuel s = Step.next (s', stop) ∧
      AladinScanInv eop s' ∧ s'.i = u32 (s.i + 1) ∧
      aladin_budget eop s' +
        (if s.profiles = true then aladin_search_steps data eop searchfuel s.current else 0) =
        aladin_budget eop s := by
  obtain ⟨hc, hp, hpc, hpe⟩ := hinv
  by_cases hpf : s.profiles = true
  · obtain ⟨len, buffer, hd, _, _, _⟩ := aladin_dive_scan callback device data eol eop searchfuel
      s he hc hp hfuel hpf
    have hmod : (aladin_back s.current + 0x600 - eop) % 0x600 < 0x600 := Nat.mod_lt _ (by decide)
    obtain ⟨i1, i2, i3, i4, i5⟩ := aladin_search_count data eop he searchfuel s.current s.previous
      hc hp (by omega)
    have hfold : (s.current + 0x600 - aladin_search_steps data eop searchfuel s.current) % 0x600
        = aladin_scan_end data eop searchfuel s.current := rfl
    rw [hfold] at i2 i4
    have hce : aladin_scan_end data eop searchfuel s.current < 0x600 := Nat.mod_lt _ (by decide)
    rw [hd]
    obtain ⟨d1, d2, d3, d4⟩ := aladin_deliver_state callback device buffer len
      { i := u32 (s.i + 1)
        profiles := if aladin_scan_end data eop searchfuel s.current = eop then false
          else s.profiles
        previous :=
          if image_byte data (HEADER + aladin_scan_end data eop searchfuel s.current) = 0xFF
          then aladin_scan_end data eop searchfuel s.current else s.previous
        current := aladin_scan_end data eop searchfuel s.current
        trace := s.trace }
    generalize aladin_deliver callback device buffer len _ = res at d1 d2 d3 d4 ⊢
    simp only [] at d1 d2 d3 d4
    refine ⟨res.1, res.2, rfl, ⟨?_, ?_, ?_, ?_⟩, d4, ?_⟩
    · rw [d1]; exact hce
    · rw [d2]
      split_ifs
      · exact hce
      · exact hp
    · intro h
      rw [d3] at h
      rw [d1, d2]
      by_cases he2 : aladin_scan_end data eop searchfuel s.current = eop
      · rw [if_pos he2] at h
        cases h
      · by_cases hm : image_byte data (HEADER + aladin_scan_end data eop searchfuel s.current) = 0xFF
        · rw [if_pos hm]
        · exact absurd (i4 hm) he2
    · intro h
      rw [d3] at h
      rw [d1]
      by_cases he2 : aladin_scan_end data eop searchfuel s.current = eop
      · exact he2
      · rw [if_neg he2, hpf] at h
        cases h
    · rw [if_pos hpf]
      unfold aladin_budget
      rw [d3, d1, if_pos hpf]
      by_cases he2 : aladin_scan_end data eop searchfuel s.current = eop
      · rw [if_pos he2, if_neg (by decide)]
        rw [he2] at i2
        omega
      · rw [if_neg he2, if_pos hpf]
        have hm2 := aladin_back_measure _ eop hce he he2
        rw [← aladin_back_eq _ hce] at hm2
        omega
  · have hd : aladin_dive callback device data eol eop searchfuel s =
        Step.next (aladin_deliver callback device (aladin_buffer data eol s.i) 0
          { s with i := u32 (s.i + 1) }) := by
      unfold aladin_dive
      simp only []
      rw [if_pos hpf]
    rw [hd]
    obtain ⟨d1, d2, d3, d4⟩ := aladin_deliver_state callback device (aladin_buffer data eol s.i) 0
      { s with i := u32 (s.i + 1) }
    generalize aladin_deliver callback device (aladin_buffer data eol s.i) 0 _ = res
      at d1 d2 d3 d4 ⊢
    simp only [] at d1 d2 d3 d4
    refine ⟨res.1, res.2, rfl, ⟨?_, ?_, ?_, ?_⟩, d4, ?_⟩
    · rw [d1]; exact hc
    · rw [d2]; exact hp
    · intro h
      rw [d3] at h
      exact absurd h hpf
    · intro h
      rw [d1]
      exact hpe (by rw [d3] at h; exact h)
    · unfold aladin_budget
      simp only [d3, if_neg hpf]

/-- The states of the dive loop keep the invariant of the scan. -/
theorem aladin_steps_inv (callback : Option (List Event → List Nat → List Nat → Bool))
    (device : Option uwatec_aladin_device_t) (data : List Nat) (ndives eol eop searchfuel : Nat)
    (he : eop < 0x600) (hfuel : 0x600 ≤ searchfuel) :
    ∀ (k : Nat) (s0 s : AladinState), AladinScanInv eop s0 →
      aladin_steps callback device data ndives eol eop searchfuel k s0 = some s →
      AladinScanInv eop s := by
  intro k
  induction k with
  | zero =>
    intro s0 s h0 h
    simp only [aladin_steps, Option.some.injEq] at h
    rw [← h]
    exact h0
  | succ k ih =>
    intro s0 s h0 h
    rw [aladin_steps] at h
    by_cases hi : ¬ (s0.i < ndives)
    · rw [if_pos hi] at h
      cases h
    · rw [if_neg hi] at h
      obtain ⟨s', stop, hd, hinv, _, _⟩ := aladin_dive_inv callback device data eol eop searchfuel
        s0 he h0 hfuel
      rw [hd] at h
      simp only [] at h
      cases stop with
      | true => simp at h
      | false =>
        simp only [Bool.false_eq_true, if_false] at h
        exact ih s' s hinv h

/-- The search steps of the iterations of the dive loop are not more than the
steps that are left at its start. -/
theorem aladin_steps_sum (callback : Option (List Event → List Nat → List Nat → Bool))
    (device : Option uwatec_aladin_device_t) (data : List Nat) (ndives eol eop searchfuel : Nat)
    (he : eop < 0x600) (hfuel : 0x600 ≤ searchfuel) :
    ∀ (K : Nat) (s0 : AladinState), AladinScanInv eop s0 →
      ((List.range K).map (fun k => aladin_count data ndives eop searchfuel
        (aladin_steps callback device data ndives eol eop searchfuel k s0))).sum
        ≤ aladin_budget eop s0 := by
  intro K
  induction K with
  | zero =>
    intro s0 _
    simp
  | succ K ih =>
    intro s0 h0
    rw [List.range_succ_eq_map, List.map_cons, List.sum_cons, List.map_map]
    obtain ⟨s', stop, hd, hinv, _, hbud⟩ := aladin_dive_inv callback device data eol eop searchfuel
      s0 he h0 hfuel
    have h00 : aladin_steps callback device data ndives eol eop searchfuel 0 s0 = some s0 := rfl
    have hcount : ∀ s : AladinState, aladin_count data ndives eop searchfuel (some s) =
        if s.i < ndives ∧ s.profiles = true then aladin_search_steps data eop searchfuel s.current
        else 0 := fun _ => rfl
    rw [h00]
    by_cases hi : ¬ (s0.i < ndives)
    · have hz : ∀ k, aladin_steps callback device data ndives eol eop searchfuel (k + 1) s0
          = none := by
        intro k
        rw [aladin_steps, if_pos hi]
      have hf : ((fun k => aladin_count data ndives eop searchfuel
          (aladin_steps callback device data ndives eol eop searchfuel k s0)) ∘ Nat.succ)
          = fun _ => 0 := by
        funext k
        show aladin_count data ndives eop searchfuel
          (aladin_steps callback device data ndives eol eop searchfuel (k + 1) s0) = 0
        rw [hz]
        rfl
      rw [hf]
      have hc0 : aladin_count data ndives eop searchfuel (some s0) = 0 := by
        rw [hcount, if_neg (fun h => hi h.1)]
      rw [hc0]
      simp
    · have hc0 : aladin_count data ndives eop searchfuel (some s0) =
          (if s0.profiles = true then aladin_search_steps data eop searchfuel s0.current
            else 0) := by
        rw [hcount]
        by_cases hpf : s0.profiles = true
        · rw [if_pos ⟨not_not.mp hi, hpf⟩, if_pos hpf]
        · rw [if_neg (fun h => hpf h.2), if_neg hpf]
      rw [hc0]
      cases stop with
      | true =>
        have hz : ∀ k, aladin_steps callback device data ndives eol eop searchfuel (k + 1) s0
            = none := by
          intro k
          rw [aladin_steps, if_neg hi, hd]
          simp
        have hf : ((fun k => aladin_count data ndives eop searchfuel
            (aladin_steps callback device data ndives eol eop searchfuel k s0)) ∘ Nat.succ)
            = fun _ => 0 := by
          funext k
          show aladin_count data ndives eop searchfuel
            (aladin_steps callback device data ndives eol eop searchfuel (k + 1) s0) = 0
          rw [hz]
          rfl
        rw [hf]
        simp
        omega
      | false =>
        have hz : ∀ k, aladin_steps callback device data ndives eol eop searchfuel (k + 1) s0
            = aladin_steps callback device data ndives eol eop searchfuel k s' := by
          intro k
          rw [aladin_steps, if_neg hi, hd]
          simp
        have hf : ((fun k => aladin_count data ndives eop searchfuel
            (aladin_steps callback device data ndives eol eop searchfuel k s0)) ∘ Nat.succ)
            = fun k => aladin_count data ndives eop searchfuel
              (aladin_steps callback device data ndives eol eop searchfuel k s') := by
          funext k
          show aladin_count data ndives eop searchfuel
            (aladin_steps callback device data ndives eol eop searchfuel (k + 1) s0) = _
          rw [hz]
        rw [hf]
        have := ih s' hinv
        omega

/-- The dive loop passes through its states: from the state after `k` iterations
it goes on as a dive loop with `k` iterations less. -/
theorem aladin_loop_steps (callback : Option (List Event → List Nat → List Nat → Bool))
    (device : Option uwatec_aladin_device_t) (data : List Nat) (ndives eol eop searchfuel : Nat) :
    ∀ (k fuel : Nat) (s0 s : AladinState),
      aladin_steps callback device data ndives eol eop searchfuel k s0 = some s → k ≤ fuel →
      aladin_dive_loop callback device data ndives eol eop searchfuel fuel s0 =
        aladin_dive_loop callback device data ndives eol eop searchfuel (fuel - k) s := by
  intro k
  induction k with
  | zero =>
    intro fuel s0 s h _
    simp only [aladin_steps, Option.some.injEq] at h
    rw [h]
    rfl
  | succ k ih =>
    intro fuel s0 s h hk
    rw [aladin_steps] at h
    by_cases hi : ¬ (s0.i < ndives)
    · rw [if_pos hi] at h
      cases h
    · rw [if_neg hi] at h
      rcases fuel with _ | fuel
      · omega
      rw [aladin_dive_loop, if_neg hi]
      rcases hd : aladin_dive callback device data eol eop searchfuel s0 with ⟨s', stop⟩ | r
      · rw [hd] at h
        simp only [] at h
        cases stop with
        | true => simp at h
        | false =>
          simp only [Bool.false_eq_true, if_false] at h
          simp only [Bool.false_eq_true, if_false]
          rw [ih fuel s' s h (by omega)]
          have e : fuel + 1 - (k + 1) = fuel - k := by omega
          rw [e]
      · rw [hd] at h
        cases h

/-- With the invariant of the scan and fuel for one turn of the ring and for the
iterations that are left, the dive loop returns `SUCCESS`. -/
theorem aladin_loop_returns (callback : Option (List Event → List Nat → List Nat → Bool))
    (device : Option uwatec_aladin_device_t) (data : List Nat) (ndives eol eop searchfuel : Nat)
    (hn : ndives ≤ 37) (he : eop < 0x600) (hsf : 0x600 ≤ searchfuel) :
    ∀ (fuel : Nat) (s : AladinState), AladinScanInv eop s → ndives - s.i ≤ fuel →
      (aladin_dive_loop callback device data ndives eol eop searchfuel fuel s).outcome =
        Outcome.returned SUCCESS := by
  intro fuel
  induction fuel with
  | zero =>
    intro s _ hf
    rw [aladin_dive_loop, if_pos (by omega)]
  | succ fuel ih =>
    intro s hinv hf
    rw [aladin_dive_loop]
    by_cases hi : ¬ (s.i < ndives)
    · rw [if_pos hi]
    · rw [if_neg hi]
      obtain ⟨s', stop, hd, hinv', hi', _⟩ := aladin_dive_inv callback device data eol eop
        searchfuel s he hinv hsf
      rw [hd]
      cases stop with
      | true => rfl
      | false =>
        simp only [Bool.false_eq_true, if_false]
        have e : u32 (s.i + 1) = s.i + 1 := u32_eq _ (by omega)
        exact ih s' hinv' (by rw [hi', e]; omega)

/-- A block that `aladin_deliver` hands to the callback is not longer than the
buffer with its `len + 18` bytes. -/
theorem aladin_deliver_fits (callback : Option (List Event → List Nat → List Nat → Bool))
    (device : Option uwatec_aladin_device_t) (buffer : List Nat) (len : Nat) (s1 : AladinState)
    (hlen : len ≤ 0x5FE)
    (h : ∀ d ∈ dives s1.trace, d.1.length ≤ 18 + 0x5FE) :
    ∀ d ∈ dives (aladin_deliver callback device buffer len s1).1.trace,
      d.1.length ≤ 18 + 0x5FE := by
  unfold aladin_deliver
  simp only []
  split_ifs
  · exact h
  · rcases callback with _ | cb
    · exact h
    · intro d hd
      simp only [dives_append, List.mem_append] at hd
      rcases hd with hd | hd
      · exact h d hd
      · have hd2 : dives [Event.dive (buffer.take (u32 (len + 18))) ((buffer.drop 11).take 4)]
            = [(buffer.take (u32 (len + 18)), (buffer.drop 11).take 4)] := rfl
        rw [hd2] at hd
        simp only [List.mem_singleton] at hd
        rw [hd]
        simp only [List.length_take]
        have e : u32 (len + 18) = len + 18 := u32_eq _ (by omega)
        rw [e]
        omega

/-- One iteration of the dive loop hands no block to the callback that is longer
than `18 + 0x5FE` bytes. -/
theorem aladin_dive_fits (callback : Option (List Event → List Nat → List Nat → Bool))
    (device : Option uwatec_aladin_device_t) (data : List Nat) (eol eop searchfuel : Nat)
    (s s' : AladinState) (stop : Bool)
    (hd : aladin_dive callback device data eol eop searchfuel s = Step.next (s', stop))
    (h : ∀ d ∈ dives s.trace, d.1.length ≤ 18 + 0x5FE) :
    ∀ d ∈ dives s'.trace, d.1.length ≤ 18 + 0x5FE := by
  obtain ⟨hb1, hb2, hb3⟩ := aladin_buffer_facts data eol s.i
  unfold aladin_dive at hd
  simp only [] at hd
  by_cases hp : ¬ s.profiles = true
  · rw [if_pos hp] at hd
    have e := Step.next.inj hd
    have := aladin_deliver_fits callback device (aladin_buffer data eol s.i) 0
      { s with i := u32 (s.i + 1) } (by omega) h
    rw [e] at this
    exact this
  rw [if_neg hp] at hd
  rcases hs : aladin_search data eop searchfuel s.current s.previous with _ | _ | ⟨c2, p2, len⟩
  · rw [hs] at hd
    cases hd
  · rw [hs] at hd
    cases hd
  rw [hs] at hd
  simp only [] at hd
  obtain ⟨hl1, hl2⟩ := aladin_search_safe data eop searchfuel s.current s.previous c2 p2 len hs
  obtain ⟨len2, buffer2, hpr, q1, q2, q3, q4, q5, q6⟩ := aladin_profile_spec data
    (aladin_buffer data eol s.i) c2 len hb1 hb2 hb3 (fun h0 => (hl2 h0).1) hl1
  have hlen := aladin_profile_len data _ c2 len len2 buffer2 hl1 hpr
  rw [hpr] at hd
  simp only [] at hd
  have e := Step.next.inj hd
  have := aladin_deliver_fits callback device buffer2 len2
    { i := u32 (s.i + 1), profiles := if c2 = eop then false else s.profiles, previous := p2,
      current := c2, trace := s.trace } (by omega) h
  rw [e] at this
  exact this

/-- The dive loop hands no block to the callback that is longer than
`18 + 0x5FE` bytes. -/
theorem aladin_loop_fits (callback : Option (List Event → List Nat → List Nat → Bool))
    (device : Option uwatec_aladin_device_t) (data : List Nat) (ndives eol eop searchfuel : Nat) :
    ∀ (fuel : Nat) (s : AladinState), (∀ d ∈ dives s.trace, d.1.length ≤ 18 + 0x5FE) →
      ∀ d ∈ dives (aladin_dive_loop callback device data ndives eol eop searchfuel fuel s).trace,
        d.1.length ≤ 18 + 0x5FE := by
  intro fuel
  induction fuel with
  | zero =>
    intro s h
    rw [aladin_dive_loop]
    split_ifs <;> exact h
  | succ fuel ih =>
    intro s h
    rw [aladin_dive_loop]
    by_cases hi : ¬ (s.i < ndives)
    · rw [if_pos hi]
      exact h
    · rw [if_neg hi]
      rcases hd : aladin_dive callback device data eol eop searchfuel s with ⟨s', stop⟩ | r
      · have h' := aladin_dive_fits callback device data eol eop searchfuel s s' stop hd h
        cases stop with
        | true => exact h'
        | false =>
          simp only [Bool.false_eq_true, if_false]
          exact ih s' h'
      · simp only []
        rw [aladin_dive_stop_trace callback device data eol eop searchfuel s r hd]
        exact h

/-- The Aladin extraction hands no block to the callback that is longer than
`18 + 0x5FE` bytes. -/
theorem aladin_extract_fits (callback : Option (List Event → List Nat → List Nat → Bool))
    (device : Option uwatec_aladin_device_t) (data : List Nat) (fuel : Nat) :
    ∀ d ∈ dives (uwatec_aladin_extract_dives callback device data fuel).trace,
      d.1.length ≤ 18 + 0x5FE := by
  have hnil : ∀ d ∈ dives ([] : List Event), d.1.length ≤ 18 + 0x5FE := by
    intro d hd
    simp [dives] at hd
  unfold uwatec_aladin_extract_dives
  by_cases c0 : device.isSome ∧ ¬ (device.map device_is_uwatec_aladin).getD false
  · rw [if_pos c0]
    exact hnil
  · rw [if_neg c0]
    by_cases c1 : data.length < UWATEC_ALADIN_MEMORY_SIZE
    · rw [if_pos c1]
      exact hnil
    · rw [if_neg c1]
      simp only []
      split_ifs <;>
        first
        | exact hnil
        | exact aladin_loop_fits callback device data _ _ _ fuel fuel _ hnil

/-- The state in which the dive loop is entered has the invariant of the scan. -/
theorem aladin_start_inv (data : List Nat) (hlast : aladin_last data < 0x600) :
    AladinScanInv (Aladin.RB_PROFILE_NEXT (aladin_last data)) (aladin_start data) :=
  ⟨aladin_eop_lt data hlast, aladin_eop_lt data hlast, fun _ => rfl, fun h => by cases h⟩

/-- The facts of one iteration of the dive loop that scans the profile ring, from
a state with the invariant of the scan. -/
theorem aladin_scan_facts (callback : Option (List Event → List Nat → List Nat → Bool))
    (device : Option uwatec_aladin_device_t) (data : List Nat) (eol eop searchfuel : Nat)
    (s : AladinState) (he : eop < 0x600) (hinv : AladinScanInv eop s)
    (hfuel : 0x600 ≤ searchfuel) (hpf : s.profiles = true) :
    ∃ N c len buffer,
      N = aladin_search_steps data eop searchfuel s.current ∧ 1 ≤ N ∧ N ≤ 0x600 ∧
      (∀ f, aladin_search data eop f s.current s.previous = some none ↔ f < N) ∧
      c = (s.current + 0x600 - N) % 0x600 ∧
      (∀ j, 1 ≤ j → j < N →
        image_byte data (HEADER + (s.current + 0x600 - j) % 0x600) ≠ 0xFF) ∧
      (image_byte data (HEADER + c) ≠ 0xFF → c = eop) ∧
      aladin_dive callback device data eol eop searchfuel s =
        Step.next (aladin_deliver callback device buffer len
          { i := u32 (s.i + 1)
            profiles := if c = eop then false else s.profiles
            previous := if image_byte data (HEADER + c) = 0xFF then c else s.previous
            current := c
            trace := s.trace }) ∧
      buffer.length = len + 18 ∧
      (image_byte data (HEADER + c) = 0xFF → N < 0x600 → len + 1 = N) ∧
      (image_byte data (HEADER + c) = 0xFF → N = 0x600 →
        len = 0 ∧ c = eop ∧ s.current = eop) ∧
      (image_byte data (HEADER + c) ≠ 0xFF → len = 0) ∧
      (∀ j, j < len →
        buffer.getD (18 + j) 0 = image_byte data (HEADER + (c + 1 + j) % 0x600)) := by
  obtain ⟨hc, hp, hpc, hpe⟩ := hinv
  have hmod : (aladin_back s.current + 0x600 - eop) % 0x600 < 0x600 := Nat.mod_lt _ (by decide)
  obtain ⟨i1, i2, i3, i4, i5⟩ := aladin_search_count data eop he searchfuel s.current s.previous
    hc hp (by omega)
  obtain ⟨len, buffer, hd, hbl, hlen, hbytes⟩ := aladin_dive_scan callback device data eol eop
    searchfuel s he hc hp hfuel hpf
  have hfold : aladin_scan_end data eop searchfuel s.current =
      (s.current + 0x600 - aladin_search_steps data eop searchfuel s.current) % 0x600 := rfl
  rw [hfold] at hd hlen hbytes
  have hprev := hpc hpf
  refine ⟨aladin_search_steps data eop searchfuel s.current,
    (s.current + 0x600 - aladin_search_steps data eop searchfuel s.current) % 0x600,
    len, buffer, rfl, i1, by omega, ?_, rfl, i3, i4, hd, hbl, ?_, ?_, ?_, hbytes⟩
  · intro f
    rw [i5 f]
    by_cases hf : f < aladin_search_steps data eop searchfuel s.current
    · rw [if_pos hf]
      exact ⟨fun _ => hf, fun _ => rfl⟩
    · rw [if_neg hf]
      exact ⟨fun h => (by cases h), fun h => absurd h hf⟩
  · intro hm hN
    rw [if_pos hm, hprev] at hlen
    omega
  · intro hm hN
    rw [if_pos hm, hprev] at hlen
    have hcur : s.current = eop := by
      by_contra hne
      have hm2 := aladin_back_measure s.current eop hc he hne
      rw [← aladin_back_eq _ hc] at hm2
      omega
    refine ⟨by omega, ?_, hcur⟩
    rw [hN, ← hcur]
    omega
  · intro hm
    rw [if_neg hm] at hlen
    exact hlen

/-- Claim C39, amended. Aladin profile scan, for an image of at least 2048 bytes
whose pointer to the last profile byte lies inside the profile ring, a device
of the Aladin backend (or none) and fuel for one turn of the ring:
`uwatec_aladin_extract_dives` returns `SUCCESS`; the steps of the backward
marker search, summed over the iterations of the dive loop, are at most
`0x600` (an iteration that finds the scan switched off makes no step, and the
scan is switched off when the cursor is back at `eop`); every delivered block
has at most `18 + 0x5FE` bytes, so it fits the buffer of `18 + 0x600` bytes;
and in every iteration `k` that scans, from the state `s`: the search makes
`N` steps with `1 <= N <= 0x600` (it returns with fuel `N` and no less), it
ends at `c = (current - N) mod 0x600`, the `N - 1` places passed hold no marker,
and `c` holds the marker `0xFF` or is `eop`; with a marker at `c` and
`N < 0x600`, `len + 1 = N`, so `len` is the number of ring bytes strictly
between `c` and the previous boundary, and these are the profile bytes of the
block; with a marker at `c` and `N = 0x600`, which is the case of a cursor
that started at `eop` and found the only marker at `eop`, `len` is 0 and not
`0x5FF`; without a marker `len` is 0. As `len + 1 <= N` for every marker
found, the sum of `len + 1` over these dives is at most `0x600`. -/
theorem aladin_profile_scan (callback : Option (List Event → List Nat → List Nat → Bool))
    (device : Option uwatec_aladin_device_t) (data : List Nat) (fuel : Nat)
    (hdev : ∀ dev, device = some dev → device_is_uwatec_aladin dev = true)
    (hsize : UWATEC_ALADIN_MEMORY_SIZE ≤ data.length) (hlast : aladin_last data < 0x600)
    (hfuel : 0x600 ≤ fuel) :
    (uwatec_aladin_extract_dives callback device data fuel).outcome =
      Outcome.returned SUCCESS ∧
    (∀ K, ((List.range K).map (aladin_scanned callback device data fuel)).sum ≤ 0x600) ∧
    (∀ d ∈ dives (uwatec_aladin_extract_dives callback device data fuel).trace,
      d.1.length ≤ 18 + 0x5FE) ∧
    (∀ k s, aladin_state callback device data fuel k = some s →
      (k ≤ fuel → uwatec_aladin_extract_dives callback device data fuel =
        aladin_dive_loop callback device data (aladin_ndives data) (aladin_eol data)
          (Aladin.RB_PROFILE_NEXT (aladin_last data)) fuel (fuel - k) s) ∧
      (s.i < aladin_ndives data → s.profiles = false →
        aladin_scanned callback device data fuel k = 0 ∧
        aladin_dive callback device data (aladin_eol data)
          (Aladin.RB_PROFILE_NEXT (aladin_last data)) fuel s =
          Step.next (aladin_deliver callback device (aladin_buffer data (aladin_eol data) s.i) 0
            { s with i := u32 (s.i + 1) })) ∧
      (s.i < aladin_ndives data → s.profiles = true →
        ∃ N c len buffer,
          N = aladin_scanned callback device data fuel k ∧ 1 ≤ N ∧ N ≤ 0x600 ∧
          (∀ f, aladin_search data (Aladin.RB_PROFILE_NEXT (aladin_last data)) f
            s.current s.previous = some none ↔ f < N) ∧
          c = (s.current + 0x600 - N) % 0x600 ∧
          (∀ j, 1 ≤ j → j < N →
            image_byte data (HEADER + (s.current + 0x600 - j) % 0x600) ≠ 0xFF) ∧
          (image_byte data (HEADER + c) ≠ 0xFF →
            c = Aladin.RB_PROFILE_NEXT (aladin_last data)) ∧
          aladin_dive callback device data (aladin_eol data)
            (Aladin.RB_PROFILE_NEXT (aladin_last data)) fuel s =
            Step.next (aladin_deliver callback device buffer len
              { i := u32 (s.i + 1)
                profiles := if c = Aladin.RB_PROFILE_NEXT (aladin_last data) then false
                  else s.profiles
                previous := if image_byte data (HEADER + c) = 0xFF then c else s.previous
                current := c
                trace := s.trace }) ∧
          buffer.length = len + 18 ∧
          (image_byte data (HEADER + c) = 0xFF → N < 0x600 → len + 1 = N) ∧
          (image_byte data (HEADER + c) = 0xFF → N = 0x600 →
            len = 0 ∧ c = Aladin.RB_PROFILE_NEXT (aladin_last data) ∧
            s.current = Aladin.RB_PROFILE_NEXT (aladin_last data)) ∧
          (image_byte data (HEADER + c) ≠ 0xFF → len = 0) ∧
          (∀ j, j < len →
            buffer.getD (18 + j) 0 = image_byte data (HEADER + (c + 1 + j) % 0x600)))) := by
  have he := aladin_eop_lt data hlast
  have hinv0 := aladin_start_inv data hlast
  have hn : aladin_ndives data ≤ 37 := by unfold aladin_ndives; omega
  have heq := aladin_extract_eq callback device data fuel hdev hsize hlast
  refine ⟨?_, ?_, aladin_extract_fits callback device data fuel, ?_⟩
  · rw [heq]
    exact aladin_loop_returns callback device data (aladin_ndives data) (aladin_eol data) _ fuel
      hn he hfuel fuel (aladin_start data) hinv0 (by omega)
  · intro K
    have h := aladin_steps_sum callback device data (aladin_ndives data) (aladin_eol data) _ fuel
      he hfuel K (aladin_start data) hinv0
    have hb : aladin_budget (Aladin.RB_PROFILE_NEXT (aladin_last data)) (aladin_start data)
        ≤ 0x600 := by
      unfold aladin_budget
      have : (aladin_back (aladin_start data).current + 0x600
          - Aladin.RB_PROFILE_NEXT (aladin_last data)) % 0x600 < 0x600 := Nat.mod_lt _ (by decide)
      split_ifs <;> omega
    exact Nat.le_trans h hb
  · intro k s hs
    have hinv := aladin_steps_inv callback device data (aladin_ndives data) (aladin_eol data) _
      fuel he hfuel k (aladin_start data) s hinv0 hs
    have hscan : aladin_scanned callback device data fuel k =
        if s.i < aladin_ndives data ∧ s.profiles = true then
          aladin_search_steps data (Aladin.RB_PROFILE_NEXT (aladin_last data)) fuel s.current
        else 0 := by
      unfold aladin_scanned
      rw [hs]
      rfl
    refine ⟨?_, ?_, ?_⟩
    · intro hk
      rw [heq]
      exact aladin_loop_steps callback device data (aladin_ndives data) (aladin_eol data) _ fuel
        k fuel (aladin_start data) s hs hk
    · intro hi hpf
      refine ⟨?_, ?_⟩
      · rw [hscan, if_neg (fun h => by rw [hpf] at h; cases h.2)]
      · unfold aladin_dive
        simp only []
        rw [if_pos (by rw [hpf]; decide)]
    · intro hi hpf
      obtain ⟨N, c, len, buffer, h1, h2⟩ := aladin_scan_facts callback device data
        (aladin_eol data) _ fuel s he hinv hfuel hpf
      refine ⟨N, c, len, buffer, ?_, h2⟩
      rw [hscan, if_pos ⟨hi, hpf⟩]
      exact h1

/-- The only start marker of `aladin_ring` inside the profile ring sits at the
ring offset `0x10`. -/
theorem aladin_ring_marker (j : Nat) (hj : j < 0x600)
    (h : image_byte aladin_ring (HEADER + j) = 0xFF) : j = 0x10 := by
  by_contra hne
  have h0 : image_byte aladin_ring (HEADER + j) = 0 := by
    unfold image_byte aladin_ring HEADER
    rw [List.getD_eq_getElem?_getD]
    simp only [List.getElem?_set, List.length_set, List.length_replicate]
    have e1 : ¬ (4 + 0x10 = 4 + j) := by omega
    have e2 : ¬ (4 + 0x7f6 = 4 + j) := by omega
    have e3 : ¬ (4 + 0x7f4 = 4 + j) := by omega
    have e4 : ¬ (4 + 0x7f3 = 4 + j) := by omega
    rw [if_neg e1, if_neg e2, if_neg e3, if_neg e4]
    rw [List.getElem?_replicate]
    split_ifs <;> rfl
  rw [h0] at h
  cases h

/-- The facts about `aladin_ring` that are read off the image. -/
theorem aladin_ring_facts :
    UWATEC_ALADIN_MEMORY_SIZE ≤ aladin_ring.length ∧ aladin_last aladin_ring = 0x0F ∧
    Aladin.RB_PROFILE_NEXT (aladin_last aladin_ring) = 0x10 ∧ aladin_ndives aladin_ring = 1 ∧
    image_byte aladin_ring (HEADER + 0x10) = 0xFF := by
  decide!

/-- The C39 theorem at `aladin_pair`, without a device and with fuel for one turn
of the ring: the extraction returns `SUCCESS`, and its search steps are at most
`0x600` in total. -/
theorem aladin_profile_scan_witness :
    UWATEC_ALADIN_MEMORY_SIZE ≤ aladin_pair.length ∧ aladin_last aladin_pair < 0x600 ∧
    (uwatec_aladin_extract_dives accept_all none aladin_pair 1536).outcome =
      Outcome.returned SUCCESS ∧
    (∀ K, ((List.range K).map (aladin_scanned accept_all none aladin_pair 1536)).sum ≤ 0x600) :=
  ⟨by decide!, by decide!,
    (aladin_profile_scan accept_all none aladin_pair 1536 (fun _ h => by cases h) (by decide!)
      (by decide!) (by decide)).1,
    (aladin_profile_scan accept_all none aladin_pair 1536 (fun _ h => by cases h) (by decide!)
      (by decide!) (by decide)).2.1⟩

/-- The run over `aladin_pair`: the first search makes five steps from `eop =
0x11` to the marker at `0x0C` and the second four steps to the marker at
`0x08`; the blocks have four and three profile bytes. -/
theorem aladin_profile_scan_sample :
    (List.range 3).map (aladin_scanned accept_all none aladin_pair 1536) = [5, 4, 0] ∧
    (dives (uwatec_aladin_extract_dives accept_all none aladin_pair 1536).trace).map
      (fun d => d.1.length) = [18 + 4, 18 + 3] := by
  decide!

/-- The whole-ring case of claim C39 fails: in `aladin_ring` the only start marker
sits at `eop = 0x10`, so that the search of the one dive goes once around the
ring and the dive would occupy the `0x5FF` bytes strictly between the marker
and `eop`; but `RB_PROFILE_DISTANCE (eop, eop)` is 0, and the block that is
delivered has 18 bytes, with a profile length of 0. -/
theorem aladin_whole_ring_counterexample :
    image_byte aladin_ring (HEADER + 0x10) = 0xFF ∧
    Aladin.RB_PROFILE_NEXT (aladin_last aladin_ring) = 0x10 ∧
    (∀ j, j < 0x600 → image_byte aladin_ring (HEADER + j) = 0xFF → j = 0x10) ∧
    aladin_scanned accept_all none aladin_ring 0x600 0 = 0x600 ∧
    ∃ d fp, dives (uwatec_aladin_extract_dives accept_all none aladin_ring 0x600).trace
        = [(d, fp)] ∧
      d.length = 18 ∧ d.getD 16 0 + 256 * d.getD 17 0 = 0 := by
  obtain ⟨hsize, hlast, heop, hnd, hmark⟩ := aladin_ring_facts
  have hlast2 : aladin_last aladin_ring < 0x600 := by rw [hlast]; decide
  have he : (0x10 : Nat) < 0x600 := by decide
  have hinv := aladin_start_inv aladin_ring hlast2
  rw [heop] at hinv
  have hcur : (aladin_start aladin_ring).current = 0x10 := heop
  have hprev : (aladin_start aladin_ring).previous = 0x10 := heop
  obtain ⟨N, c, len, buffer, h1, h2, h3, h4, h5, h6, h7, h8, h9, h10, h11, h12, h13⟩ :=
    aladin_scan_facts accept_all none aladin_ring (aladin_eol aladin_ring) 0x10 0x600
      (aladin_start aladin_ring) he hinv (Nat.le_refl _) rfl
  rw [hcur] at h1 h5 h6
  have hc : c < 0x600 := by rw [h5]; exact Nat.mod_lt _ (by decide)
  have hN : N = 0x600 := by
    by_contra hne
    have hc2 : c ≠ 0x10 := by omega
    by_cases hm : image_byte aladin_ring (HEADER + c) = 0xFF
    · exact hc2 (aladin_ring_marker c hc hm)
    · exact hc2 (h7 hm)
  have hc3 : c = 0x10 := by omega
  have hm : image_byte aladin_ring (HEADER + c) = 0xFF := by rw [hc3]; exact hmark
  have hlen : len = 0 := (h11 hm hN).1
  have hscan : aladin_scanned accept_all none aladin_ring 0x600 0 = 0x600 := by
    show aladin_count aladin_ring (aladin_ndives aladin_ring)
      (Aladin.RB_PROFILE_NEXT (aladin_last aladin_ring)) 0x600 (some (aladin_start aladin_ring))
      = 0x600
    rw [hnd, heop]
    show (if (aladin_start aladin_ring).i < 1 ∧ (aladin_start aladin_ring).profiles = true then
      aladin_search_steps aladin_ring 0x10 0x600 (aladin_start aladin_ring).current else 0) = 0x600
    rw [if_pos ⟨by decide, rfl⟩, hcur, ← h1, hN]
  have hrun : uwatec_aladin_extract_dives accept_all none aladin_ring 0x600 =
      ⟨Outcome.returned SUCCESS,
        [Event.dive (buffer.take (u32 (len + 18))) ((buffer.drop 11).take 4)]⟩ := by
    rw [aladin_extract_eq accept_all none aladin_ring 0x600 (fun _ h => by cases h) hsize hlast2]
    rw [hnd, heop]
    have hfuel : (0x600 : Nat) = 1534 + 1 + 1 := rfl
    have hstart : ({ i := 0, profiles := true, previous := 0x10, current := 0x10, trace := [] }
        : AladinState) = aladin_start aladin_ring := by
      unfold aladin_start
      rw [heop]
    rw [hstart]
    generalize hs0 : aladin_start aladin_ring = s0 at h8 hstart
    have hi0 : s0.i = 0 := by rw [← hs0]; rfl
    have ht0 : s0.trace = [] := by rw [← hs0]; rfl
    show aladin_dive_loop accept_all none aladin_ring 1 (aladin_eol aladin_ring) 0x10 0x600
      (1534 + 1 + 1) s0 = _
    rw [aladin_dive_loop, if_neg (by rw [hi0]; decide), h8]
    simp only [aladin_deliver, accept_all, Option.isSome_none, Bool.false_eq_true, false_and,
      if_false, Bool.not_true]
    rw [aladin_dive_loop]
    simp only []
    rw [hi0, if_pos (show ¬ (u32 (0 + 1) < 1) by decide), ht0]
    rfl
  refine ⟨hmark, heop, fun j hj h => aladin_ring_marker j hj h, hscan,
    buffer.take (u32 (len + 18)), (buffer.drop 11).take 4, ?_, ?_, ?_⟩
  · rw [hrun]
    rfl
  · rw [hlen, List.length_take, h9, hlen]
    decide
  · have hok := (aladin_extract_safe accept_all none aladin_ring 0x600).2 0
      (buffer.take (u32 (len + 18)), (buffer.drop 11).take 4) (by rw [hrun]; rfl)
    have hl := hok.1.1
    have hl2 : (buffer.take (u32 (len + 18))).length = 18 := by
      rw [hlen, List.length_take, h9, hlen]
      decide
    simp only [] at hl
    omega

/-! ## The Suunto accounting: properties -/

/-- The size of a packet of the packet loop, for an address in the ring and a
dive that is not read yet. -/
theorem suunto_packet_len (address nbytes remaining : Nat)
    (ha : Suunto.RB_PROFILE_BEGIN ≤ address ∧ address ≤ Suunto.RB_PROFILE_END)
    (hn : nbytes < remaining)
    (hr : remaining ≤ Suunto.RB_PROFILE_END - Suunto.RB_PROFILE_BEGIN) :
    1 ≤ suunto_packet_size
      (wrap_point Suunto.RB_PROFILE_BEGIN Suunto.RB_PROFILE_END address) nbytes remaining ∧
    suunto_packet_size
      (wrap_point Suunto.RB_PROFILE_BEGIN Suunto.RB_PROFILE_END address) nbytes remaining
      ≤ SZ_PACKET ∧
    nbytes + suunto_packet_size
      (wrap_point Suunto.RB_PROFILE_BEGIN Suunto.RB_PROFILE_END address) nbytes remaining
      ≤ remaining ∧
    Suunto.RB_PROFILE_BEGIN + suunto_packet_size
      (wrap_point Suunto.RB_PROFILE_BEGIN Suunto.RB_PROFILE_END address) nbytes remaining
      ≤ wrap_point Suunto.RB_PROFILE_BEGIN Suunto.RB_PROFILE_END address ∧
    wrap_point Suunto.RB_PROFILE_BEGIN Suunto.RB_PROFILE_END address
      ≤ Suunto.RB_PROFILE_END := by
  have hB : Suunto.RB_PROFILE_BEGIN = 410 := rfl
  have hE : Suunto.RB_PROFILE_END = 32766 := rfl
  have hP : SZ_PACKET = 120 := rfl
  rw [hB, hE] at ha hr ⊢
  rw [hP]
  unfold suunto_packet_size wrap_point
  rw [hB, hP]
  simp only [u32, usub]
  split_ifs <;> omega

/-- The extra bytes make a read of `max (len, SZ_MINIMUM)` bytes. -/
theorem suunto_extra_eq (len : Nat) (h : len ≤ SZ_PACKET) :
    suunto_extra len ≤ SZ_MINIMUM ∧ u32 (len + suunto_extra len) = len + suunto_extra len ∧
    len + suunto_extra len = max len SZ_MINIMUM := by
  have hP : SZ_PACKET = 120 := rfl
  have hM : SZ_MINIMUM = 8 := rfl
  rw [hP] at h
  unfold suunto_extra
  rw [hM]
  simp only [u32, usub]
  split_ifs <;> omega

/-- The packet loop of a dive keeps its invariant: every read has its bounds, and
when the loop is left the dive is read, with `nbytes` grown by the sum of the
lengths `len` of the reads. -/
theorem suunto_dive_read_inv (env : SuuntoEnv) (pm remaining size retryfuel : Nat)
    (hsz : size ≤ remaining)
    (hrem : remaining ≤ Suunto.RB_PROFILE_END - Suunto.RB_PROFILE_BEGIN) :
    ∀ (fuel : Nat) (s : SuuntoReadState), SuuntoReadInv remaining s →
      (∀ r ∈ suunto_dive_reads env pm remaining size retryfuel fuel s, SuuntoReadOk r) ∧
      ∀ s', suunto_dive_read env pm remaining size retryfuel fuel s = SuuntoStep.next s' →
        SuuntoReadInv remaining s' ∧ size ≤ s'.nbytes ∧
        s.nbytes + ((suunto_dive_reads env pm remaining size retryfuel fuel s).map
          (fun r => r.len)).sum = s'.nbytes := by
  intro fuel
  induction fuel with
  | zero =>
    intro s hinv
    rw [suunto_dive_reads, suunto_dive_read]
    by_cases hc : s.nbytes < size
    · simp only [hc, not_true_eq_false, if_false]
      refine ⟨fun r hr => by simp at hr, fun s' h => by cases h⟩
    · simp only [hc, not_false_eq_true, if_true]
      refine ⟨fun r hr => by simp at hr, fun s' h => ?_⟩
      cases h
      exact ⟨hinv, Nat.le_of_not_lt hc, by simp⟩
  | succ fuel ih =>
    intro s hinv
    rw [suunto_dive_reads, suunto_dive_read]
    by_cases hc : s.nbytes < size
    · simp only [hc, not_true_eq_false, if_false]
      obtain ⟨i1, i2, i3, i4, i5⟩ := hinv
      obtain ⟨p1, p2, p3, p4, p5⟩ := suunto_packet_len s.address s.nbytes remaining ⟨i4, i5⟩
        (by omega) hrem
      generalize wrap_point Suunto.RB_PROFILE_BEGIN Suunto.RB_PROFILE_END s.address = address
        at p1 p2 p3 p4 p5
      generalize suunto_packet_size address s.nbytes remaining = len at p1 p2 p3 p4 p5
      obtain ⟨x1, x2, x3⟩ := suunto_extra_eq len p2
      generalize suunto_extra len = extra at x1 x2 x3
      have hB : Suunto.RB_PROFILE_BEGIN = 410 := rfl
      have hE : Suunto.RB_PROFILE_END = 32766 := rfl
      have hP : SZ_PACKET = 120 := rfl
      have hM : SZ_MINIMUM = 8 := rfl
      have ho : usub s.offset len = s.offset - len := usub_eq _ _ (by omega) (by omega)
      have ha : usub address len = address - len := usub_eq _ _ (by omega) (by omega)
      have hn : u32 (s.nbytes + len) = s.nbytes + len := u32_eq _ (by omega)
      rw [ho, ha, hn, x2]
      have hok : SuuntoReadOk ⟨usub (address - len) extra, s.offset - len, len, extra,
          len + extra⟩ := by
        unfold SuuntoReadOk
        refine ⟨p1, rfl, x3, ?_, ?_, ?_⟩
        · show len + extra ≤ SZ_PACKET
          omega
        · show extra ≤ s.offset - len
          omega
        · show s.offset - len + len ≤ SZ_MINIMUM + Suunto.RB_PROFILE_END - Suunto.RB_PROFILE_BEGIN
          omega
      generalize suunto_common2_device_read env retryfuel s.trace (usub (address - len) extra)
        (len + extra) = r
      by_cases c1 : r.outcome ≠ Outcome.returned SUCCESS
      · rw [if_pos c1, if_pos c1]
        refine ⟨fun r hr => ?_, fun s' h => by cases h⟩
        simp only [List.mem_singleton] at hr
        rw [hr]
        exact hok
      rw [if_neg c1, if_neg c1]
      by_cases c2 : s.offset - len < extra ∨
          ¬ s.data.writable (s.offset - len - extra) (len + extra) = true
      · rw [if_pos c2, if_pos c2]
        refine ⟨fun r hr => ?_, fun s' h => by cases h⟩
        simp only [List.mem_singleton] at hr
        rw [hr]
        exact hok
      rw [if_neg c2, if_neg c2]
      have hinv' : SuuntoReadInv remaining
          { data := s.data.fill (s.offset - len - extra) (len + extra) r.answer,
            nbytes := s.nbytes + len, offset := s.offset - len,
            address := address - len, progress_current := u32 (s.progress_current + len),
            trace := r.trace ++ [SuuntoEvent.progress (u32 (s.progress_current + len)) pm] } := by
        unfold SuuntoReadInv
        simp only []
        rw [fill_size]
        refine ⟨i1, by omega, by omega, by omega, by omega⟩
      obtain ⟨h1, h2⟩ := ih _ hinv'
      refine ⟨fun r hr => ?_, fun s' h => ?_⟩
      · rcases List.mem_cons.mp hr with hr | hr
        · rw [hr]
          exact hok
        · exact h1 r hr
      · obtain ⟨q1, q2, q3⟩ := h2 s' h
        refine ⟨q1, q2, ?_⟩
        simp only [List.map_cons, List.sum_cons]
        simp only [] at q3
        omega
    · simp only [hc, not_false_eq_true, if_true]
      refine ⟨fun r hr => by simp at hr, fun s' h => ?_⟩
      cases h
      exact ⟨hinv, Nat.le_of_not_lt hc, by simp⟩

/-- A packet loop that ends the run does not end it with `SUCCESS`. -/
theorem suunto_dive_read_fails (env : SuuntoEnv) (pm remaining size retryfuel : Nat) :
    ∀ (fuel : Nat) (s : SuuntoReadState) (r : SuuntoRun),
      suunto_dive_read env pm remaining size retryfuel fuel s = SuuntoStep.stop r →
      r.outcome ≠ Outcome.returned SUCCESS := by
  intro fuel
  induction fuel with
  | zero =>
    intro s r h
    rw [suunto_dive_read] at h
    by_cases hc : s.nbytes < size
    · simp only [hc, not_true_eq_false, if_false] at h
      cases h
      intro hx
      cases hx
    · simp only [hc, not_false_eq_true, if_true] at h
      cases h
  | succ fuel ih =>
    intro s r h
    rw [suunto_dive_read] at h
    by_cases hc : s.nbytes < size
    · simp only [hc, not_true_eq_false, if_false] at h
      generalize wrap_point Suunto.RB_PROFILE_BEGIN Suunto.RB_PROFILE_END s.address = address at h
      generalize suunto_packet_size address s.nbytes remaining = len at h
      generalize suunto_extra len = extra at h
      generalize suunto_common2_device_read env retryfuel s.trace (usub (usub address len) extra)
        (u32 (len + extra)) = r1 at h
      by_cases c1 : r1.outcome ≠ Outcome.returned SUCCESS
      · rw [if_pos c1] at h
        cases h
        exact c1
      rw [if_neg c1] at h
      by_cases c2 : usub s.offset len < extra ∨
          ¬ s.data.writable (usub s.offset len - extra) (u32 (len + extra)) = true
      · rw [if_pos c2] at h
        cases h
        intro hx
        cases hx
      rw [if_neg c2] at h
      exact ih _ r h
    · simp only [hc, not_false_eq_true, if_true] at h
      cases h

/-- What the reading of a dive block gives, from a state with the invariant of
the dive loop: the size of the dive is the distance from `current` to
`previous` and passes the check of line 312, every read has its bounds, the
packet loop keeps its invariant and has read the dive, and the sum of the
lengths `len` of its reads is what `nbytes` has grown by. -/
theorem suunto_block_inv (env : SuuntoEnv) (pm retryfuel readfuel : Nat) (s : SuuntoState)
    (hinv : SuuntoInv s) :
    (∀ r ∈ suunto_block_reads env pm retryfuel readfuel s, SuuntoReadOk r) ∧
    ∀ b, suunto_block env pm retryfuel readfuel s = SuuntoStep.next b →
      b.size = Suunto.RB_PROFILE_DISTANCE s.current s.previous true ∧
      4 ≤ b.size ∧ b.size ≤ s.remaining ∧
      SuuntoReadInv s.remaining b.read ∧ b.size ≤ b.read.nbytes ∧
      s.available + ((suunto_block_reads env pm retryfuel readfuel s).map
        (fun r => r.len)).sum = b.read.nbytes ∧
      b.p = b.read.offset + (b.read.nbytes - b.size) := by
  obtain ⟨hrem, hread⟩ := hinv
  unfold suunto_block_reads suunto_block
  by_cases c0 : ¬ (ringbuffer_defined s.current Suunto.RB_PROFILE_BEGIN Suunto.RB_PROFILE_END
      = true ∧ ringbuffer_defined s.previous Suunto.RB_PROFILE_BEGIN Suunto.RB_PROFILE_END = true)
  · rw [if_pos c0, if_pos c0]
    exact ⟨fun r hr => by simp at hr, fun b h => by cases h⟩
  rw [if_neg c0, if_neg c0]
  simp only []
  by_cases c1 : Suunto.RB_PROFILE_DISTANCE s.current s.previous true < 4 ∨
      Suunto.RB_PROFILE_DISTANCE s.current s.previous true > s.remaining
  · rw [if_pos c1, if_pos c1]
    exact ⟨fun r hr => by simp at hr, fun b h => by cases h⟩
  rw [if_neg c1, if_neg c1]
  have hsz : Suunto.RB_PROFILE_DISTANCE s.current s.previous true ≤ s.remaining := by omega
  have hsz4 : 4 ≤ Suunto.RB_PROFILE_DISTANCE s.current s.previous true := by omega
  obtain ⟨h1, h2⟩ := suunto_dive_read_inv env pm s.remaining
    (Suunto.RB_PROFILE_DISTANCE s.current s.previous true) retryfuel hsz hrem readfuel _ hread
  refine ⟨h1, fun b h => ?_⟩
  rcases hd : suunto_dive_read env pm s.remaining
      (Suunto.RB_PROFILE_DISTANCE s.current s.previous true) retryfuel readfuel
      { data := s.data, nbytes := s.available, offset := s.offset, address := s.address,
        progress_current := s.progress_current, trace := s.trace } with s' | r
  · rw [hd] at h
    simp only [] at h
    obtain ⟨q1, q2, q3⟩ := h2 s' hd
    by_cases c2 : ¬ s'.data.readable (s'.offset +
        usub s'.nbytes (Suunto.RB_PROFILE_DISTANCE s.current s.previous true)) 4 = true
    · rw [if_pos c2] at h
      cases h
    · rw [if_neg c2] at h
      cases h
      have hu : usub s'.nbytes (Suunto.RB_PROFILE_DISTANCE s.current s.previous true) =
          s'.nbytes - Suunto.RB_PROFILE_DISTANCE s.current s.previous true := by
        have hE : Suunto.RB_PROFILE_END = 32766 := rfl
        have := q1.2.1
        exact usub_eq _ _ q2 (by omega)
      exact ⟨rfl, hsz4, hsz, q1, q2, q3, by simp only []; rw [hu]⟩
  · rw [hd] at h
    cases h

/-- The state behind an iteration of the dive loop that goes on: the variables as
lines 365-378 leave them. -/
theorem suunto_finish_state (env : SuuntoEnv) (device : suunto_common2_device_t) (model : Nat)
    (s s' : SuuntoState) (b : SuuntoBlock) (stop : Bool)
    (h : suunto_finish env device model s b = SuuntoStep.next (s', stop)) :
    s'.data = b.read.data ∧ s'.remaining = usub s.remaining b.size ∧
    s'.available = usub b.read.nbytes b.size ∧ s'.address = b.read.address ∧
    s'.offset = b.read.offset := by
  unfold suunto_finish at h
  by_cases c1 : b.next ≠ s.previous
  · rw [if_pos c1] at h
    cases h
  rw [if_neg c1] at h
  simp only [] at h
  by_cases c2 : ¬ b.read.data.readable
      (b.p + if model = 0x15 then u32 (FP_OFFSET + 6) else FP_OFFSET)
      device.fingerprint.length = true
  · rw [if_pos c2] at h
    cases h
  rw [if_neg c2] at h
  by_cases c3 : b.read.data.load
      (b.p + if model = 0x15 then u32 (FP_OFFSET + 6) else FP_OFFSET)
      device.fingerprint.length = device.fingerprint
  · rw [if_pos c3] at h
    cases h
  rw [if_neg c3] at h
  rcases hcb : env.callback with _ | cb
  · rw [hcb] at h
    simp only [] at h
    cases h
    exact ⟨rfl, rfl, rfl, rfl, rfl⟩
  · rw [hcb] at h
    simp only [] at h
    by_cases c4 : ¬ b.read.data.readable (b.p + 4) (usub b.size 4) = true
    · rw [if_pos c4] at h
      cases h
    · rw [if_neg c4] at h
      cases h
      exact ⟨rfl, rfl, rfl, rfl, rfl⟩

/-- An iteration of the dive loop that goes on keeps the invariant of the loop;
`remaining` goes down by the size of the dive, and the bytes read beyond the
dive are `available`. -/
theorem suunto_dive_inv (env : SuuntoEnv) (device : suunto_common2_device_t)
    (model pm retryfuel readfuel : Nat) (s s' : SuuntoState) (stop : Bool)
    (hinv : SuuntoInv s)
    (h : suunto_dive env device model pm retryfuel readfuel s = SuuntoStep.next (s', stop)) :
    SuuntoInv s' ∧
    ∃ b, suunto_block env pm retryfuel readfuel s = SuuntoStep.next b ∧
      4 ≤ b.size ∧ s'.remaining + b.size = s.remaining ∧
      s'.available + b.size = b.read.nbytes ∧
      s.available + ((suunto_block_reads env pm retryfuel readfuel s).map
        (fun r => r.len)).sum = b.read.nbytes := by
  rw [suunto_dive_eq] at h
  rcases hb : suunto_block env pm retryfuel readfuel s with b | r
  · rw [hb] at h
    simp only [] at h
    obtain ⟨f1, f2, f3, f4, f5⟩ := suunto_finish_state env device model s s' b stop h
    obtain ⟨b1, b2, b3, b4, b5, b6, b7⟩ := (suunto_block_inv env pm retryfuel readfuel s hinv).2 b hb
    obtain ⟨r1, r2, r3, r4, r5⟩ := b4
    have hE : Suunto.RB_PROFILE_END = 32766 := rfl
    have hB : Suunto.RB_PROFILE_BEGIN = 410 := rfl
    have hrem := hinv.1
    have u1 : usub s.remaining b.size = s.remaining - b.size := usub_eq _ _ b3 (by omega)
    have u2 : usub b.read.nbytes b.size = b.read.nbytes - b.size := usub_eq _ _ b5 (by omega)
    rw [u1] at f2
    rw [u2] at f3
    refine ⟨⟨by omega, ?_⟩, b, rfl, b2, by omega, by omega, b6⟩
    unfold SuuntoReadInv
    simp only []
    rw [f1, f2, f3, f4, f5]
    exact ⟨r1, by omega, by omega, r4, r5⟩
  · rw [hb] at h
    cases h

/-- The state in which the dive loop starts has the invariant of the loop;
`remaining` is the distance from `begin` to `end`, and no byte is available. -/
theorem suunto_head_inv (env : SuuntoEnv) (fuel : Nat) (h : SuuntoHead)
    (hh : suunto_foreach_head env fuel = SuuntoStep.next h) :
    SuuntoInv h.state ∧
    h.state.remaining = Suunto.RB_PROFILE_DISTANCE h.begin_ h.end_ (decide (h.count ≠ 0)) ∧
    h.state.available = 0 := by
  unfold suunto_foreach_head at hh
  simp only [] at hh
  generalize suunto_common2_device_version env fuel
    [SuuntoEvent.progress 0 suunto_progress_maximum] (List.replicate SZ_VERSION 0) SZ_VERSION = r1
    at hh
  by_cases c1 : r1.outcome ≠ Outcome.returned SUCCESS
  · rw [if_pos c1] at hh
    cases hh
  rw [if_neg c1] at hh
  generalize suunto_common2_device_read env fuel
      (r1.trace ++ [SuuntoEvent.progress (u32 (0 + SZ_VERSION)) suunto_progress_maximum]) 0x0023
      (if SZ_MINIMUM > 4 then SZ_MINIMUM else 4) = r2 at hh
  by_cases c2 : r2.outcome ≠ Outcome.returned SUCCESS
  · rw [if_pos c2] at hh
    cases hh
  rw [if_neg c2] at hh
  generalize suunto_common2_device_read env fuel _ 0x0190 8 = r3 at hh
  by_cases c3 : r3.outcome ≠ Outcome.returned SUCCESS
  · rw [if_pos c3] at hh
    cases hh
  rw [if_neg c3] at hh
  by_cases c4 : ¬ (ringbuffer_defined (array_uint16_le (List.drop 6 r3.answer))
        Suunto.RB_PROFILE_BEGIN Suunto.RB_PROFILE_END = true ∧
      ringbuffer_defined (array_uint16_le (List.drop 4 r3.answer))
        Suunto.RB_PROFILE_BEGIN Suunto.RB_PROFILE_END = true)
  · rw [if_pos c4] at hh
    cases hh
  rw [if_neg c4] at hh
  cases hh
  obtain ⟨hb, he⟩ := not_not.mp c4
  simp only [ringbuffer_defined, decide_eq_true_eq] at hb he
  have hd := ringbuffer_distance_eq (array_uint16_le (List.drop 6 r3.answer))
    (array_uint16_le (List.drop 4 r3.answer)) Suunto.RB_PROFILE_BEGIN Suunto.RB_PROFILE_END
    (decide (array_uint16_le (List.drop 2 r3.answer) ≠ 0)) hb he
  have hB : Suunto.RB_PROFILE_BEGIN = 410 := rfl
  have hE : Suunto.RB_PROFILE_END = 32766 := rfl
  have hM : SZ_MINIMUM = 8 := rfl
  have hle : ringbuffer_distance (array_uint16_le (List.drop 6 r3.answer))
      (array_uint16_le (List.drop 4 r3.answer))
      (decide (array_uint16_le (List.drop 2 r3.answer) ≠ 0))
      Suunto.RB_PROFILE_BEGIN Suunto.RB_PROFILE_END ≤ 32356 := by
    rw [hd]
    split_ifs <;> omega
  have hdist : Suunto.RB_PROFILE_DISTANCE (array_uint16_le (List.drop 6 r3.answer))
      (array_uint16_le (List.drop 4 r3.answer))
      (decide (array_uint16_le (List.drop 2 r3.answer) ≠ 0)) ≤ 32356 := by
    unfold Suunto.RB_PROFILE_DISTANCE
    rw [u32_eq _ (by omega)]
    exact hle
  refine ⟨⟨?_, ?_, ?_, ?_, ?_, ?_⟩, rfl, rfl⟩
  · show Suunto.RB_PROFILE_DISTANCE _ _ _ ≤ _
    omega
  · rfl
  · show 0 ≤ Suunto.RB_PROFILE_DISTANCE _ _ _
    omega
  · show u32 (Suunto.RB_PROFILE_DISTANCE _ _ _ + SZ_MINIMUM) + 0 =
      Suunto.RB_PROFILE_DISTANCE _ _ _ + SZ_MINIMUM
    rw [u32_eq _ (by omega)]
    rfl
  · exact he.1
  · exact Nat.le_of_lt he.2

/-- The reads of iteration `k` are those of the block that is read from the state
in which the iteration starts. -/
theorem suunto_reads_eq (env : SuuntoEnv) (device : suunto_common2_device_t) (fuel k : Nat)
    (h : SuuntoHead) (s : SuuntoState)
    (hh : suunto_foreach_head env fuel = SuuntoStep.next h)
    (hs : suunto_steps env device h.model h.progress_maximum fuel fuel h.state k = some s)
    (hr : s.remaining ≠ 0) :
    suunto_reads env device fuel k = suunto_block_reads env h.progress_maximum fuel fuel s := by
  unfold suunto_reads
  rw [hh]
  simp only []
  rw [hs]
  simp only []
  rw [if_neg (not_not.mpr hr)]

/-- The accounts of the dive loop: in the state in which iteration `k` starts the
invariant of the loop holds, the lengths `len` of all reads so far are the
bytes taken from `remaining` and those that are available; and with a
callback, the `k` dives delivered so far have the sizes taken from
`remaining`, each dive being handed over without its four pointer bytes. -/
theorem suunto_steps_account (env : SuuntoEnv) (device : suunto_common2_device_t) (fuel : Nat)
    (h : SuuntoHead) (hh : suunto_foreach_head env fuel = SuuntoStep.next h) :
    ∀ (k : Nat) (s : SuuntoState),
      suunto_steps env device h.model h.progress_maximum fuel fuel h.state k = some s →
      SuuntoInv s ∧
      ((List.range k).map (fun j =>
        ((suunto_reads env device fuel j).map (fun r => r.len)).sum)).sum + s.remaining =
        h.state.remaining + s.available ∧
      (∀ cb, env.callback = some cb →
        ((suunto_dives s.trace).map (fun d => d.1.length + 4)).sum + s.remaining =
          h.state.remaining ∧
        (suunto_dives s.trace).length = k) := by
  obtain ⟨hinv0, _, hav0⟩ := suunto_head_inv env fuel h hh
  have hd0 := suunto_head_dives env fuel
  rw [hh] at hd0
  simp only [] at hd0
  intro k
  induction k with
  | zero =>
    intro s hs
    simp only [suunto_steps, Option.some.injEq] at hs
    rw [← hs]
    refine ⟨hinv0, ?_, fun cb _ => ?_⟩
    · rw [hav0]
      simp
    · rw [hd0]
      simp
  | succ k ih =>
    intro s' hs'
    obtain ⟨s, h1, h2, h3⟩ := suunto_steps_succ env device h.model h.progress_maximum fuel fuel
      h.state s' k hs'
    obtain ⟨i1, i2, i3⟩ := ih s h1
    obtain ⟨j1, b, j2, j3, j4, j5, j6⟩ := suunto_dive_inv env device h.model h.progress_maximum
      fuel fuel s s' false i1 h3
    have hreads := suunto_reads_eq env device fuel k h s hh h1 h2
    refine ⟨j1, ?_, fun cb hcb => ?_⟩
    · rw [List.range_succ, List.map_append, List.sum_append]
      simp only [List.map_cons, List.map_nil, List.sum_cons, List.sum_nil, Nat.add_zero]
      rw [hreads]
      omega
    · obtain ⟨b2, n1, n2, n3, n4, n5, n6, n7⟩ := suunto_dive_next env device h.model
        h.progress_maximum fuel fuel s s' false h3
      rw [j2] at n1
      have hbb : b = b2 := SuuntoStep.next.inj n1
      subst hbb
      have hbd := suunto_block_dives env h.progress_maximum fuel fuel s
      rw [j2] at hbd
      simp only [] at hbd
      obtain ⟨i4, i5⟩ := i3 cb hcb
      rcases n7 with ⟨hnone, _, _⟩ | ⟨cb2, hcb2, n8, n9, n10⟩
      · rw [hnone] at hcb
        cases hcb
      · rw [n9, suunto_dives_append, hbd]
        have hone : suunto_dives [SuuntoEvent.dive
            (b.read.data.load (b.p + 4) (usub b.size 4))
            (b.read.data.load (b.p + suunto_fp_offset h.model) device.fingerprint.length)] =
            [(b.read.data.load (b.p + 4) (usub b.size 4),
              b.read.data.load (b.p + suunto_fp_offset h.model) device.fingerprint.length)] := rfl
        rw [hone, List.map_append, List.sum_append, List.length_append]
        simp only [List.map_cons, List.map_nil, List.sum_cons, List.sum_nil, Nat.add_zero,
          List.length_cons, List.length_nil, load_length]
        have hE : Suunto.RB_PROFILE_END = 32766 := rfl
        have hrem := i1.1
        have hu : usub b.size 4 = b.size - 4 := usub_eq _ _ j3 (by omega)
        rw [hu]
        refine ⟨by omega, by omega⟩

/-- The states of the dive loop come to an end, or there is one for every number
of iterations. -/
theorem suunto_steps_last (env : SuuntoEnv) (device : suunto_common2_device_t)
    (model pm retryfuel readfuel : Nat) (s0 : SuuntoState) :
    ∀ n : Nat, (∃ s, suunto_steps env device model pm retryfuel readfuel s0 n = some s) ∨
      ∃ k s, k < n ∧ suunto_steps env device model pm retryfuel readfuel s0 k = some s ∧
        suunto_steps env device model pm retryfuel readfuel s0 (k + 1) = none := by
  intro n
  induction n with
  | zero => exact Or.inl ⟨s0, rfl⟩
  | succ n ih =>
    rcases ih with ⟨s, hs⟩ | ⟨k, s, hk, hs, hn⟩
    · rcases hn : suunto_steps env device model pm retryfuel readfuel s0 (n + 1) with _ | s'
      · exact Or.inr ⟨n, s, by omega, hs, hn⟩
      · exact Or.inl ⟨s', rfl⟩
    · exact Or.inr ⟨k, s, by omega, hs, hn⟩

/-- The reading of a dive block that ends the run does not end it with
`SUCCESS`. -/
theorem suunto_block_fails (env : SuuntoEnv) (pm retryfuel readfuel : Nat) (s : SuuntoState)
    (r : SuuntoRun) (h : suunto_block env pm retryfuel readfuel s = SuuntoStep.stop r) :
    r.outcome ≠ Outcome.returned SUCCESS := by
  unfold suunto_block at h
  by_cases c0 : ¬ (ringbuffer_defined s.current Suunto.RB_PROFILE_BEGIN Suunto.RB_PROFILE_END
      = true ∧ ringbuffer_defined s.previous Suunto.RB_PROFILE_BEGIN Suunto.RB_PROFILE_END = true)
  · rw [if_pos c0] at h
    cases h
    intro hx
    cases hx
  rw [if_neg c0] at h
  simp only [] at h
  by_cases c1 : Suunto.RB_PROFILE_DISTANCE s.current s.previous true < 4 ∨
      Suunto.RB_PROFILE_DISTANCE s.current s.previous true > s.remaining
  · rw [if_pos c1] at h
    cases h
    intro hx
    cases hx
  rw [if_neg c1] at h
  rcases hd : suunto_dive_read env pm s.remaining
      (Suunto.RB_PROFILE_DISTANCE s.current s.previous true) retryfuel readfuel
      { data := s.data, nbytes := s.available, offset := s.offset, address := s.address,
        progress_current := s.progress_current, trace := s.trace } with s' | r'
  · rw [hd] at h
    simp only [] at h
    by_cases c2 : ¬ s'.data.readable (s'.offset +
        usub s'.nbytes (Suunto.RB_PROFILE_DISTANCE s.current s.previous true)) 4 = true
    · rw [if_pos c2] at h
      cases h
      intro hx
      cases hx
    · rw [if_neg c2] at h
      cases h
  · rw [hd] at h
    simp only [] at h
    have e := SuuntoStep.stop.inj h
    rw [← e]
    exact suunto_dive_read_fails env pm s.remaining _ retryfuel readfuel _ r' hd

/-- When the checks behind the reading of a block end the run with `SUCCESS`, the
bytes at `p + fp_offset` are the fingerprint of the device. -/
theorem suunto_finish_success (env : SuuntoEnv) (device : suunto_common2_device_t) (model : Nat)
    (s : SuuntoState) (b : SuuntoBlock) (r : SuuntoRun)
    (h : suunto_finish env device model s b = SuuntoStep.stop r)
    (hs : r.outcome = Outcome.returned SUCCESS) :
    b.read.data.readable (b.p + suunto_fp_offset model) device.fingerprint.length = true ∧
    b.read.data.load (b.p + suunto_fp_offset model) device.fingerprint.length
      = device.fingerprint := by
  unfold suunto_finish at h
  unfold suunto_fp_offset
  by_cases c1 : b.next ≠ s.previous
  · rw [if_pos c1] at h
    cases h
    cases hs
  rw [if_neg c1] at h
  simp only [] at h
  by_cases c2 : ¬ b.read.data.readable
      (b.p + if model = 0x15 then u32 (FP_OFFSET + 6) else FP_OFFSET)
      device.fingerprint.length = true
  · rw [if_pos c2] at h
    cases h
    cases hs
  rw [if_neg c2] at h
  by_cases c3 : b.read.data.load
      (b.p + if model = 0x15 then u32 (FP_OFFSET + 6) else FP_OFFSET)
      device.fingerprint.length = device.fingerprint
  · exact ⟨not_not.mp c2, c3⟩
  rw [if_neg c3] at h
  rcases hcb : env.callback with _ | cb
  · rw [hcb] at h
    cases h
  · rw [hcb] at h
    simp only [] at h
    by_cases c4 : ¬ b.read.data.readable (b.p + 4) (usub b.size 4) = true
    · rw [if_pos c4] at h
      cases h
      cases hs
    · rw [if_neg c4] at h
      cases h

/-- A run that returns `SUCCESS`, with a callback that always asks for more and
without a block that holds the fingerprint of the device, has left the dive
loop with `remaining == 0`: its trace is the trace of the state in which an
iteration would start. -/
theorem suunto_success_end (env : SuuntoEnv) (device : suunto_common2_device_t) (fuel : Nat)
    (h : SuuntoHead) (cb : List SuuntoEvent → List Nat → List Nat → Bool)
    (hh : suunto_foreach_head env fuel = SuuntoStep.next h)
    (hcb : env.callback = some cb) (hall : ∀ t d f, cb t d f = true)
    (hno : ∀ k, k < fuel →
      (suunto_view env device fuel k).bind (fun v => v.fingerprint) ≠ some device.fingerprint)
    (hs : (suunto_common2_device_foreach env device fuel).outcome = Outcome.returned SUCCESS) :
    ∃ K s, suunto_steps env device h.model h.progress_maximum fuel fuel h.state K = some s ∧
      s.remaining = 0 ∧ (suunto_common2_device_foreach env device fuel).trace = s.trace := by
  have hrun : suunto_common2_device_foreach env device fuel =
      suunto_dive_loop env device h.model h.progress_maximum fuel fuel fuel h.state := by
    rw [suunto_foreach_eq, hh]
  rcases suunto_steps_last env device h.model h.progress_maximum fuel fuel h.state (fuel + 1)
    with ⟨s', hs'⟩ | ⟨k, s, hk, hsk, hnone⟩
  · obtain ⟨s, h1, h2, h3⟩ := suunto_steps_succ env device h.model h.progress_maximum fuel fuel
      h.state s' fuel hs'
    rw [hrun, suunto_steps_loop env device h.model h.progress_maximum fuel fuel h.state fuel s h1
      fuel (Nat.le_refl _), Nat.sub_self, suunto_dive_loop, if_neg (not_not.mpr h2)] at hs
    cases hs
  · rw [hrun, suunto_steps_loop env device h.model h.progress_maximum fuel fuel h.state k s hsk
      fuel (by omega)] at hs ⊢
    by_cases hr : s.remaining = 0
    · refine ⟨k, s, hsk, hr, ?_⟩
      unfold suunto_dive_loop
      rw [if_pos (by rw [hr]; simp)]
    · exfalso
      rcases hf : fuel - k with _ | f
      · rw [hf, suunto_dive_loop, if_neg (not_not.mpr hr)] at hs
        cases hs
      · rw [hf, suunto_dive_loop, if_neg (not_not.mpr hr)] at hs
        rw [suunto_steps, hsk] at hnone
        simp only [] at hnone
        rw [if_neg (not_not.mpr hr)] at hnone
        rcases hd : suunto_dive env device h.model h.progress_maximum fuel fuel s with
          ⟨s2, stop⟩ | r
        · rw [hd] at hnone hs
          cases stop with
          | false => cases hnone
          | true =>
            obtain ⟨b, _, _, _, _, _, _, n7⟩ := suunto_dive_next env device h.model
              h.progress_maximum fuel fuel s s2 true hd
            rcases n7 with ⟨hn, _, _⟩ | ⟨cb2, hcb2, _, _, n10⟩
            · rw [hn] at hcb
              cases hcb
            · rw [hcb] at hcb2
              cases hcb2
              rw [hall] at n10
              cases n10
        · rw [hd] at hs
          simp only [] at hs
          rw [suunto_dive_eq] at hd
          rcases hb : suunto_block env h.progress_maximum fuel fuel s with b | r2
          · rw [hb] at hd
            simp only [] at hd
            obtain ⟨f1, f2⟩ := suunto_finish_success env device h.model s b r hd hs
            have hit := (suunto_iteration_iff env device fuel k h s b).2 ⟨hh, hsk, hr, hb⟩
            have hv : (suunto_view env device fuel k).bind (fun v => v.fingerprint) =
                some device.fingerprint := by
              unfold suunto_view
              rw [hit]
              simp only [Option.map_some', Option.some_bind]
              rw [if_pos f1, f2]
            exact hno k (by omega) hv
          · rw [hb] at hd
            simp only [] at hd
            have e := SuuntoStep.stop.inj hd
            rw [← e] at hs
            exact suunto_block_fails env h.progress_maximum fuel fuel s r2 hb hs

/-- A dive whose size does not pass the check of line 312 ends the run with
`ERROR`. -/
theorem suunto_size_rejected (env : SuuntoEnv) (device : suunto_common2_device_t) (fuel k : Nat)
    (h : SuuntoHead) (s : SuuntoState)
    (hh : suunto_foreach_head env fuel = SuuntoStep.next h)
    (hs : suunto_steps env device h.model h.progress_maximum fuel fuel h.state k = some s)
    (hk : k < fuel) (hr : s.remaining ≠ 0)
    (hc : ringbuffer_defined s.current Suunto.RB_PROFILE_BEGIN Suunto.RB_PROFILE_END = true)
    (hp : ringbuffer_defined s.previous Suunto.RB_PROFILE_BEGIN Suunto.RB_PROFILE_END = true)
    (hsize : Suunto.RB_PROFILE_DISTANCE s.current s.previous true < 4 ∨
      Suunto.RB_PROFILE_DISTANCE s.current s.previous true > s.remaining) :
    (suunto_common2_device_foreach env device fuel).outcome = Outcome.returned ERROR := by
  rw [suunto_foreach_eq, hh]
  simp only []
  rw [suunto_steps_loop env device h.model h.progress_maximum fuel fuel h.state k s hs fuel
    (by omega)]
  obtain ⟨f, hf⟩ : ∃ f, fuel - k = f + 1 := ⟨fuel - k - 1, by omega⟩
  rw [hf, suunto_dive_loop, if_neg (not_not.mpr hr)]
  have hd : suunto_dive env device h.model h.progress_maximum fuel fuel s =
      SuuntoStep.stop ⟨Outcome.returned ERROR, s.trace, []⟩ := by
    unfold suunto_dive
    rw [if_neg (not_not.mpr ⟨hc, hp⟩)]
    simp only []
    rw [if_pos hsize]
  rw [hd]

/-- Claim C37. Suunto traversal accounting, for a run of
`suunto_common2_device_foreach` that has read a header with `begin` and `end`
inside `[0x019A, 0x7FFE)`. The size of the dive of an iteration whose block is
read is `RB_PROFILE_DISTANCE (current, previous, 1)`, with `4 <= size <=
remaining`; an iteration that starts with pointers inside the ring and a size
outside these bounds makes the run return `ERROR`. Every read of the packet
loop has a length `len >= 1`, asks for `max (len, 8) <= 0x78` bytes, and stores
them to `[offset - extra, offset + len)` with `offset - extra >= 0` and
`offset + len` inside the array `data`. When the run returns `SUCCESS` with a
callback that always returns true and without a block that holds the
fingerprint of the device, the sizes of the delivered dives (each is handed
over without its four pointer bytes) sum exactly to
`RB_PROFILE_DISTANCE (begin, end, count != 0)`, and so do the lengths `len` of
the reads of all iterations. -/
theorem suunto_accounting (env : SuuntoEnv) (device : suunto_common2_device_t) (fuel : Nat) :
    (∀ k h s b, suunto_iteration env device fuel k = some (h, s, b) →
      b.size = Suunto.RB_PROFILE_DISTANCE s.current s.previous true ∧
      4 ≤ b.size ∧ b.size ≤ s.remaining) ∧
    (∀ k h s, suunto_foreach_head env fuel = SuuntoStep.next h →
      suunto_steps env device h.model h.progress_maximum fuel fuel h.state k = some s →
      k < fuel → s.remaining ≠ 0 →
      ringbuffer_defined s.current Suunto.RB_PROFILE_BEGIN Suunto.RB_PROFILE_END = true →
      ringbuffer_defined s.previous Suunto.RB_PROFILE_BEGIN Suunto.RB_PROFILE_END = true →
      (Suunto.RB_PROFILE_DISTANCE s.current s.previous true < 4 ∨
        Suunto.RB_PROFILE_DISTANCE s.current s.previous true > s.remaining) →
      (suunto_common2_device_foreach env device fuel).outcome = Outcome.returned ERROR) ∧
    (∀ k, ∀ r ∈ suunto_reads env device fuel k,
      1 ≤ r.len ∧ r.size = r.len + r.extra ∧ r.size = max r.len SZ_MINIMUM ∧
      r.size ≤ SZ_PACKET ∧ r.extra ≤ r.offset ∧
      r.offset + r.len ≤ SZ_MINIMUM + Suunto.RB_PROFILE_END - Suunto.RB_PROFILE_BEGIN) ∧
    (∀ cb, env.callback = some cb → (∀ t d f, cb t d f = true) →
      (∀ k, k < fuel → (suunto_view env device fuel k).bind (fun v => v.fingerprint) ≠
        some device.fingerprint) →
      (suunto_common2_device_foreach env device fuel).outcome = Outcome.returned SUCCESS →
      ∃ h, suunto_foreach_head env fuel = SuuntoStep.next h ∧
        ((suunto_dives (suunto_common2_device_foreach env device fuel).trace).map
          (fun d => d.1.length + 4)).sum =
          Suunto.RB_PROFILE_DISTANCE h.begin_ h.end_ (decide (h.count ≠ 0)) ∧
        ((List.range (suunto_dives (suunto_common2_device_foreach env device fuel).trace).length).map
          (fun k => ((suunto_reads env device fuel k).map (fun r => r.len)).sum)).sum =
          Suunto.RB_PROFILE_DISTANCE h.begin_ h.end_ (decide (h.count ≠ 0))) := by
  refine ⟨?_, ?_, ?_, ?_⟩
  · intro k h s b hi
    obtain ⟨hh, hs, hr, hb⟩ := (suunto_iteration_iff env device fuel k h s b).1 hi
    obtain ⟨hinv, _, _⟩ := suunto_steps_account env device fuel h hh k s hs
    obtain ⟨b1, b2, b3, _⟩ := (suunto_block_inv env h.progress_maximum fuel fuel s hinv).2 b hb
    exact ⟨b1, b2, b3⟩
  · intro k h s hh hs hk hr hc hp hsize
    exact suunto_size_rejected env device fuel k h s hh hs hk hr hc hp hsize
  · intro k r hr
    unfold suunto_reads at hr
    rcases hh : suunto_foreach_head env fuel with h | r0
    · rw [hh] at hr
      simp only [] at hr
      rcases hs : suunto_steps env device h.model h.progress_maximum fuel fuel h.state k with
        _ | s
      · rw [hs] at hr
        simp at hr
      · rw [hs] at hr
        simp only [] at hr
        by_cases hrem : ¬ (s.remaining ≠ 0)
        · rw [if_pos hrem] at hr
          simp at hr
        · rw [if_neg hrem] at hr
          obtain ⟨hinv, _, _⟩ := suunto_steps_account env device fuel h hh k s hs
          exact (suunto_block_inv env h.progress_maximum fuel fuel s hinv).1 r hr
    · rw [hh] at hr
      simp at hr
  · intro cb hcb hall hno hs
    rcases hh : suunto_foreach_head env fuel with h | r0
    · obtain ⟨K, s, hK, hrem, htrace⟩ := suunto_success_end env device fuel h cb hh hcb hall hno hs
      obtain ⟨hinv, a1, a2⟩ := suunto_steps_account env device fuel h hh K s hK
      obtain ⟨a3, a4⟩ := a2 cb hcb
      obtain ⟨_, h0, _⟩ := suunto_head_inv env fuel h hh
      have hav : s.available = 0 := by
        have := hinv.2.2.1
        simp only [] at this
        omega
      refine ⟨h, rfl, ?_, ?_⟩
      · rw [htrace, ← h0]
        omega
      · rw [htrace, a4, ← h0]
        omega
    · rw [suunto_foreach_eq, hh] at hs
      simp only [] at hs
      have hd := suunto_head_dives env fuel
      exfalso
      unfold suunto_foreach_head at hh
      simp only [] at hh
      generalize suunto_common2_device_version env fuel
        [SuuntoEvent.progress 0 suunto_progress_maximum] (List.replicate SZ_VERSION 0)
        SZ_VERSION = r1 at hh
      by_cases c1 : r1.outcome ≠ Outcome.returned SUCCESS
      · rw [if_pos c1] at hh
        cases hh
        exact c1 hs
      rw [if_neg c1] at hh
      generalize suunto_common2_device_read env fuel
        (r1.trace ++ [SuuntoEvent.progress (u32 (0 + SZ_VERSION)) suunto_progress_maximum])
        0x0023 (if SZ_MINIMUM > 4 then SZ_MINIMUM else 4) = r2 at hh
      by_cases c2 : r2.outcome ≠ Outcome.returned SUCCESS
      · rw [if_pos c2] at hh
        cases hh
        exact c2 hs
      rw [if_neg c2] at hh
      generalize suunto_common2_device_read env fuel _ 0x0190 8 = r3 at hh
      by_cases c3 : r3.outcome ≠ Outcome.returned SUCCESS
      · rw [if_pos c3] at hh
        cases hh
        exact c3 hs
      rw [if_neg c3] at hh
      by_cases c4 : ¬ (ringbuffer_defined (array_uint16_le (List.drop 6 r3.answer))
            Suunto.RB_PROFILE_BEGIN Suunto.RB_PROFILE_END = true ∧
          ringbuffer_defined (array_uint16_le (List.drop 4 r3.answer))
            Suunto.RB_PROFILE_BEGIN Suunto.RB_PROFILE_END = true)
      · rw [if_pos c4] at hh
        cases hh
        cases hs
      rw [if_neg c4] at hh
      cases hh

/-- The C37 theorem at `suunto_sample`, with a callback that always returns true
and a device whose fingerprint is in no dive: the sizes of the delivered dives
and the lengths of the reads sum to the distance from `begin` to `end`. -/
theorem suunto_accounting_witness :
    ∃ h, suunto_foreach_head (suunto_image_env suunto_sample (some (fun _ _ _ => true))) 20 =
        SuuntoStep.next h ∧
      ((suunto_dives (suunto_common2_device_foreach
        (suunto_image_env suunto_sample (some (fun _ _ _ => true))) suunto_device 20).trace).map
          (fun d => d.1.length + 4)).sum =
        Suunto.RB_PROFILE_DISTANCE h.begin_ h.end_ (decide (h.count ≠ 0)) ∧
      ((List.range (suunto_dives (suunto_common2_device_foreach
        (suunto_image_env suunto_sample (some (fun _ _ _ => true))) suunto_device 20).trace).length).map
          (fun k => ((suunto_reads (suunto_image_env suunto_sample (some (fun _ _ _ => true)))
            suunto_device 20 k).map (fun r => r.len)).sum)).sum =
        Suunto.RB_PROFILE_DISTANCE h.begin_ h.end_ (decide (h.count ≠ 0)) :=
  (suunto_accounting (suunto_image_env suunto_sample (some (fun _ _ _ => true)))
    suunto_device 20).2.2.2 (fun _ _ _ => true) rfl (fun _ _ _ => rfl) (by decide!) (by decide!)

/-- The run over `suunto_sample`: three dives of 40 bytes between `begin = 0x019A`
and `end = 0x0212`; the first iteration reads the 120 bytes with one read, the
other two read nothing. -/
theorem suunto_accounting_sample :
    (suunto_common2_device_foreach (suunto_image_env suunto_sample (some (fun _ _ _ => true)))
      suunto_device 20).outcome = Outcome.returned SUCCESS ∧
    (suunto_dives (suunto_common2_device_foreach
      (suunto_image_env suunto_sample (some (fun _ _ _ => true))) suunto_device 20).trace).map
        (fun d => d.1.length + 4) = [40, 40, 40] ∧
    (List.range 4).map
      (suunto_reads (suunto_image_env suunto_sample (some (fun _ _ _ => true))) suunto_device 20) =
      [[⟨0x019A, 8, 120, 0, 120⟩], [], [], []] ∧
    Suunto.RB_PROFILE_DISTANCE 0x019A 0x0212 true = 120 := by
  decide!

/-- The place of a dive block in the array `data`: the block of an iteration that
starts with `remaining` bytes left ends at `remaining + SZ_MINIMUM`, inside
the array; its bytes from `fp_offset` on lie inside the block when the dive
has at least `fp_offset` plus the length of the fingerprint bytes. -/
theorem suunto_block_position (env : SuuntoEnv) (device : suunto_common2_device_t)
    (fuel k : Nat) (h : SuuntoHead) (s : SuuntoState) (b : SuuntoBlock)
    (hi : suunto_iteration env device fuel k = some (h, s, b)) :
    b.p + b.size = s.remaining + SZ_MINIMUM ∧
    s.remaining + SZ_MINIMUM ≤ SZ_MINIMUM + Suunto.RB_PROFILE_END - Suunto.RB_PROFILE_BEGIN ∧
    b.read.data.size = SZ_MINIMUM + Suunto.RB_PROFILE_END - Suunto.RB_PROFILE_BEGIN ∧
    (suunto_fp_offset h.model + device.fingerprint.length ≤ b.size →
      b.p + suunto_fp_offset h.model + device.fingerprint.length ≤ b.p + b.size ∧
      b.p + suunto_fp_offset h.model + device.fingerprint.length ≤ b.read.data.size) := by
  obtain ⟨hh, hs, hr, hb⟩ := (suunto_iteration_iff env device fuel k h s b).1 hi
  obtain ⟨hinv, _, _⟩ := suunto_steps_account env device fuel h hh k s hs
  obtain ⟨b1, b2, b3, b4, b5, b6, b7⟩ :=
    (suunto_block_inv env h.progress_maximum fuel fuel s hinv).2 b hb
  obtain ⟨r1, r2, r3, r4, r5⟩ := b4
  have hrem := hinv.1
  have hE : Suunto.RB_PROFILE_END = 32766 := rfl
  have hB : Suunto.RB_PROFILE_BEGIN = 410 := rfl
  refine ⟨by omega, by omega, r1, fun hfp => ⟨by omega, by omega⟩⟩

/-- The run over `suunto_short`: the first dive has a size of four bytes, which
the check of line 312 accepts, and its `next` field equals `end`; its block
lies in the last four bytes of the array `data`, so that the bytes at
`p + fp_offset` lie outside the array, and the comparison with the
fingerprint is a read outside the array. -/
theorem suunto_short_dive_fault :
    (suunto_common2_device_foreach (suunto_image_env suunto_short (some (fun _ _ _ => true)))
      suunto_device 20).outcome = Outcome.fault ∧
    (suunto_view (suunto_image_env suunto_short (some (fun _ _ _ => true))) suunto_device 20
      0).map (fun v => (v.current, v.previous, v.size, v.next, v.fingerprint)) =
      some (0x01FC, 0x0200, 4, 0x0200, none) ∧
    suunto_reads (suunto_image_env suunto_short (some (fun _ _ _ => true))) suunto_device 20 0 =
      [⟨0x019A, 0x7E06, 0x66, 0, 0x66⟩] ∧
    SZ_MINIMUM + Suunto.RB_PROFILE_END - Suunto.RB_PROFILE_BEGIN = 0x7E6C ∧
    0x7E06 + (0x66 - 4) + FP_OFFSET + suunto_device.fingerprint.length = 0x7E6C + 0x18 := by
  decide!

/-! ## Filled buffers and bounded loops: properties -/

/-- The log of the scan is the scan: the scan performs an invalid read exactly
when one of the logged entries is not a determinate part of the buffer. -/
theorem scan_reads_fault (lb : Buffer) (fp : List Nat) (off bg : Nat) :
    ∀ (sf cur : Nat), scan_entries lb fp off sf cur bg = none ↔
      ∃ p ∈ scan_reads lb fp off sf cur bg, lb.readable p (PAGESIZE / 2) = false := by
  intro sf
  induction sf with
  | zero =>
    intro cur
    unfold scan_entries scan_reads
    split_ifs <;> simp
  | succ sf ih =>
    intro cur
    unfold scan_entries scan_reads
    by_cases h0 : ¬ (cur ≠ off ∧ cur ≠ bg)
    · rw [if_pos h0, if_pos h0]
      simp
    · rw [if_neg h0, if_neg h0]
      simp only []
      by_cases h1 : ¬ lb.readable (usub cur (PAGESIZE / 2)) (PAGESIZE / 2)
      · rw [if_pos h1, if_pos h1]
        simp only [List.mem_singleton, exists_eq_left, true_iff]
        simpa using h1
      · rw [if_neg h1, if_neg h1]
        have h1' : lb.readable (usub cur (PAGESIZE / 2)) (PAGESIZE / 2) = true := by
          simpa using h1
        by_cases h2 : array_isequal (lb.load (usub cur (PAGESIZE / 2)) (PAGESIZE / 2))
            (PAGESIZE / 2) 0xFF
        · rw [if_pos h2, if_pos h2]
          simp [h1']
        · rw [if_neg h2, if_neg h2]
          by_cases h3 : lb.load (usub cur (PAGESIZE / 2)) (PAGESIZE / 2) = fp
          · rw [if_pos h3, if_pos h3]
            simp [h1']
          · rw [if_neg h3, if_neg h3, ih]
            simp [h1']

/-- The entry scan over a filled part of the buffer: every entry examined lies
between the target, the larger one of `offset` and `begin`, and the start of
the scan, and is determinate; the scan performs no invalid read, ends at the
target or at an entry on the way to it, and runs out of fuel only with less
fuel than entries. -/
theorem scan_entries_filled (lb : Buffer) (fp : List Nat) (off bg : Nat) :
    ∀ (sf cur : Nat), max off bg ≤ cur → (cur - max off bg) % 8 = 0 → cur ≤ lb.size →
      cur < 4294967296 →
      (∀ i, max off bg ≤ i → i < cur → (lb.cell i).isSome = true) →
      (∀ p ∈ scan_reads lb fp off sf cur bg, max off bg ≤ p ∧ p + 8 ≤ cur ∧
        (p - max off bg) % 8 = 0 ∧ lb.readable p (PAGESIZE / 2) = true) ∧
      match scan_entries lb fp off sf cur bg with
      | none => False
      | some none => 8 * sf < cur - max off bg
      | some (some (c, b, ab)) => max off bg ≤ c ∧ c ≤ cur ∧ (c - max off bg) % 8 = 0 ∧
          ((ab = false ∧ c = max off bg ∧ b = bg) ∨ (ab = true ∧ b = c + 8 ∧ c + 8 ≤ cur)) := by
  have hP : PAGESIZE / 2 = 8 := rfl
  intro sf
  induction sf with
  | zero =>
    intro cur h1 h2 h3 h4 h5
    unfold scan_entries scan_reads
    by_cases h0 : ¬ (cur ≠ off ∧ cur ≠ bg)
    · rw [if_pos h0, if_pos h0]
      refine ⟨fun p hp => by simp at hp, ?_⟩
      show max off bg ≤ cur ∧ cur ≤ cur ∧ (cur - max off bg) % 8 = 0 ∧
        ((false = false ∧ cur = max off bg ∧ bg = bg) ∨ (false = true ∧ bg = cur + 8 ∧ cur + 8 ≤ cur))
      refine ⟨h1, Nat.le_refl _, h2, Or.inl ⟨rfl, ?_, rfl⟩⟩
      clear * - h0 h1
      omega
    · rw [if_neg h0, if_neg h0]
      refine ⟨fun p hp => by simp at hp, ?_⟩
      simp only
      clear * - h0 h1 h2
      omega
  | succ sf ih =>
    intro cur h1 h2 h3 h4 h5
    unfold scan_entries scan_reads
    by_cases h0 : ¬ (cur ≠ off ∧ cur ≠ bg)
    · rw [if_pos h0, if_pos h0]
      refine ⟨fun p hp => by simp at hp, ?_⟩
      show max off bg ≤ cur ∧ cur ≤ cur ∧ (cur - max off bg) % 8 = 0 ∧
        ((false = false ∧ cur = max off bg ∧ bg = bg) ∨ (false = true ∧ bg = cur + 8 ∧ cur + 8 ≤ cur))
      refine ⟨h1, Nat.le_refl _, h2, Or.inl ⟨rfl, ?_, rfl⟩⟩
      clear * - h0 h1
      omega
    · rw [if_neg h0, if_neg h0]
      simp only []
      have h8 : max off bg + 8 ≤ cur := by
        clear * - h0 h1 h2
        omega
      rw [hP, usub_eq cur 8 (by clear * - h8; omega) h4]
      have hr : lb.readable (cur - 8) 8 = true := by
        unfold Buffer.readable
        simp only [Bool.and_eq_true, decide_eq_true_eq, List.all_eq_true, List.mem_range]
        refine ⟨by clear * - h8 h3; omega, fun i hi => ?_⟩
        exact h5 _ (by clear * - h8 hi; omega) (by clear * - h8 hi; omega)
      have hnr : ¬ ¬ lb.readable (cur - 8) 8 = true := by simp [hr]
      rw [if_neg hnr, if_neg hnr]
      have hu : u32 (cur - 8 + 8) = cur - 8 + 8 := u32_eq _ (by clear * - h8 h4; omega)
      have hhead : max off bg ≤ cur - 8 ∧ cur - 8 + 8 ≤ cur ∧ (cur - 8 - max off bg) % 8 = 0 ∧
          lb.readable (cur - 8) 8 = true :=
        ⟨by clear * - h8; omega, by clear * - h8; omega, by clear * - h8 h2; omega, hr⟩
      by_cases c1 : array_isequal (lb.load (cur - 8) 8) 8 0xFF
      · rw [if_pos c1, if_pos c1]
        refine ⟨fun p hp => ?_, ?_⟩
        · simp only [List.mem_singleton] at hp
          rw [hp]
          exact hhead
        · rw [hu]
          exact ⟨hhead.1, by clear * - h8; omega, hhead.2.2.1,
            Or.inr ⟨rfl, rfl, by clear * - h8; omega⟩⟩
      · rw [if_neg c1, if_neg c1]
        by_cases c2 : lb.load (cur - 8) 8 = fp
        · rw [if_pos c2, if_pos c2]
          refine ⟨fun p hp => ?_, ?_⟩
          · simp only [List.mem_singleton] at hp
            rw [hp]
            exact hhead
          · rw [hu]
            exact ⟨hhead.1, by clear * - h8; omega, hhead.2.2.1,
              Or.inr ⟨rfl, rfl, by clear * - h8; omega⟩⟩
        · rw [if_neg c2, if_neg c2]
          obtain ⟨i1, i2⟩ := ih (cur - 8) hhead.1 hhead.2.2.1 (by clear * - h3; omega)
            (by clear * - h4; omega) (fun i hi1 hi2 => h5 i hi1 (by clear * - hi2; omega))
          refine ⟨fun p hp => ?_, ?_⟩
          · simp only [List.mem_cons] at hp
            rcases hp with hp | hp
            · rw [hp]
              exact hhead
            · obtain ⟨j1, j2, j3, j4⟩ := i1 p hp
              exact ⟨j1, by clear * - j2 h8; omega, j3, j4⟩
          · revert i2
            rcases scan_entries lb fp off sf (cur - 8) bg with _ | _ | ⟨c, b, ab⟩
            · exact fun h => h
            · simp only
              intro h
              clear * - h h8
              omega
            · simp only
              rintro ⟨j1, j2, j3, j4⟩
              refine ⟨j1, by clear * - j2; omega, j3, ?_⟩
              rcases j4 with j4 | ⟨j4, j5, j6⟩
              · exact Or.inl j4
              · exact Or.inr ⟨j4, j5, by clear * - j6 h8; omega⟩

/-- The fix-up of a full, unaligned ring after the first packet, which may be
the whole ring. -/
theorem fixup_rotate (w : Window) (lbA : Buffer) (len o1 L : Nat)
    (hfix : w.full = true ∧ w.unaligned = true)
    (hpad : usub w.page_end w.entry_end = 8) (hsz : lbA.size = L)
    (h1 : o1 + len = L) (h2 : 16 ≤ len) (h4 : L < 4294967296) :
    logbook_fixup w lbA 0 len o1
      = some ((lbA.memmove 0 (o1 + (len - 8)) 8).memmove (o1 + 8) o1 (len - 8), o1 + 8) := by
  unfold logbook_fixup
  rw [if_pos hfix, if_pos rfl]
  simp only [hpad]
  rw [usub_eq _ _ (by omega) (by omega), u32_eq _ (by omega)]
  rw [if_neg, if_neg]
  · simp only [Buffer.writable, memmove_size, hsz, decide_eq_true_eq, not_or, not_not]
    constructor <;> omega
  · simp only [Buffer.writable, overlaps, hsz, decide_eq_true_eq, not_or, not_not,
      Bool.not_eq_true, decide_eq_false_iff_not]
    refine ⟨by omega, by omega, by omega⟩

/-- One iteration of the logbook loop whose packet lies inside the buffer: the
read fails, or the fix-up and the scan decide how the iteration ends. -/
theorem logbook_page_unfold (env : Env) (l : oceanic_common_layout_t) (mp : Nat)
    (fp : List Nat) (w : Window) (pm sf : Nat) (s : LogState) (len addr : Nat)
    (haddr : addr = wrap_point l.rb_logbook_begin l.rb_logbook_end s.address)
    (hlen : len = packet_size l.rb_logbook_begin mp addr s.nbytes w.page_size)
    (h1 : len ≤ addr) (h2 : addr < 4294967296) (h3 : len ≤ s.offset)
    (h4 : s.offset ≤ s.logbooks.size) (h5 : s.offset < 4294967296)
    (h6 : s.nbytes + len < 4294967296) :
    logbook_page env l mp fp w pm sf s =
      if (env.device_read s.trace (addr - len) len).1 ≠ SUCCESS then
        Step.stop ⟨Outcome.returned (env.device_read s.trace (addr - len) len).1,
          s.trace ++ [Event.read (addr - len) len]⟩
      else
        match logbook_fixup w
          (s.logbooks.fill (s.offset - len) len (env.device_read s.trace (addr - len) len).2)
          s.nbytes len (s.offset - len) with
        | none => Step.stop ⟨Outcome.fault, s.trace ++ [Event.read (addr - len) len]
            ++ [Event.progress (u32 (s.progress_current + len)) pm]⟩
        | some (lb1, off1) =>
          match scan_entries lb1 fp off1 sf s.current s.begin_ with
          | none => Step.stop ⟨Outcome.fault, s.trace ++ [Event.read (addr - len) len]
              ++ [Event.progress (u32 (s.progress_current + len)) pm]⟩
          | some none => Step.stop ⟨Outcome.diverge, s.trace ++ [Event.read (addr - len) len]
              ++ [Event.progress (u32 (s.progress_current + len)) pm]⟩
          | some (some (cur, bg, ab)) =>
            Step.next
              ({ logbooks := lb1, begin_ := bg, nbytes := s.nbytes + len, current := cur,
                 offset := off1, address := addr - len,
                 progress_current := u32 (s.progress_current + len),
                 trace := s.trace ++ [Event.read (addr - len) len]
                   ++ [Event.progress (u32 (s.progress_current + len)) pm] }, ab) := by
  unfold logbook_page
  simp only []
  rw [← haddr, ← hlen, usub_eq _ _ h1 h2, usub_eq _ _ h3 h5, u32_eq _ h6]
  have hwr : ¬ ¬ s.logbooks.writable (s.offset - len) len = true := by
    simp [Buffer.writable]
    omega
  rw [if_neg hwr]
  try rfl

/-- One iteration of the logbook loop under the fill invariant, whatever
`device_read` answers: the packet is stored inside the buffer; the iteration
performs no invalid memory access, and its scan runs out of fuel only when the
fuel is less than the number of entries; when the iteration goes on, at least
one page has been read, the invariant holds again unless the scan has set
`abort`, the cursor has not passed `offset` or `begin`, and every entry that
the scan has examined lies inside the valid entries, at or above `offset`, and
is determinate. -/
theorem logbook_page_fill (env : Env) (l : oceanic_common_layout_t) (mp : Nat)
    (fp : List Nat) (w : Window) (pm sf : Nat) (s : LogState)
    (hok : LayoutOk l mp) (hw : WindowOk l w) (hinv : LogFill l w s)
    (hlt : s.nbytes < w.page_size) :
    packet_size l.rb_logbook_begin mp
      (wrap_point l.rb_logbook_begin l.rb_logbook_end s.address) s.nbytes w.page_size
        ≤ s.offset ∧
    s.offset ≤ w.page_size ∧ s.current ≤ window_end w ∧
    (∀ r, logbook_page env l mp fp w pm sf s = Step.stop r →
      r.outcome ≠ Outcome.fault ∧ (r.outcome = Outcome.diverge → 8 * sf < w.page_size)) ∧
    (∀ s' ab, logbook_page env l mp fp w pm sf s = Step.next (s', ab) →
      s.nbytes + 16 ≤ s'.nbytes ∧ (ab = false → LogFill l w s') ∧
      (ab = true → LogDone w s') ∧
      window_begin w ≤ s'.current ∧ s'.offset ≤ s'.current ∧ s'.current ≤ s.current ∧
      ∀ p ∈ scan_reads s'.logbooks fp s'.offset sf s.current s.begin_,
        window_begin w ≤ p ∧ s'.offset ≤ p ∧ p + 8 ≤ window_end w ∧ p + 8 ≤ s.current ∧
        s'.logbooks.readable p (PAGESIZE / 2) = true) := by
  have hP : PAGESIZE = 16 := rfl
  obtain ⟨L, pad, fx, A1, A2, A3, A4, A5, A6, A7, A8, A9, A10, A11, A12, A13, A14, A15, A16, A17,
    A18, A19, A20, A21, A22, A23, A24, A25⟩ := windowOk_arith l w hw hok.logbook
  obtain ⟨⟨a1, a2, a3, a4, a5⟩, i2, i3, i4, i5, i6, i7⟩ := hinv
  have k1 := hok.lb
  have k2 := hok.le
  have k3 := hok.logbook
  have k4 := hok.mp1
  have k5 := hok.le32
  have k6 := hok.mp32
  rw [hP] at a1 a4 k1 k2
  have hA15 : fx = 8 → window_end w = w.page_size := fun h => by
    have := A15 h; clear * - this; omega
  obtain ⟨addr, haddr⟩ : ∃ addr, addr = wrap_point l.rb_logbook_begin l.rb_logbook_end s.address :=
    ⟨_, rfl⟩
  obtain ⟨q1, q2, q3, q4⟩ : l.rb_logbook_begin < addr ∧ addr ≤ l.rb_logbook_end ∧
      addr % 16 = 0 ∧
      ((s.address = l.rb_logbook_begin ∧ addr = l.rb_logbook_end) ∨
       (s.address ≠ l.rb_logbook_begin ∧ addr = s.address)) := by
    rw [haddr]; unfold wrap_point
    split_ifs with h <;> (clear * - a1 a2 a3 k1 k2 k3 h; omega)
  have hps32 : w.page_size ≤ 1073741824 := by clear * - A16 A2 k5; omega
  obtain ⟨p1, p2, p3, p4, p5⟩ := packet_size_spec l.rb_logbook_begin mp addr s.nbytes w.page_size
    k4 k6 q1 (le_trans q2 k5) hlt (by clear * - hps32; omega)
  have p5' := p5 (by rw [hP]; exact k1) (by rw [hP]; exact q3) (by rw [hP]; exact a4)
    (by rw [hP]; exact A17)
  clear p5
  rw [hP] at p2 p5'
  obtain ⟨len, hlen⟩ : ∃ len, len = packet_size l.rb_logbook_begin mp addr s.nbytes w.page_size :=
    ⟨_, rfl⟩
  rw [← hlen] at p1 p2 p3 p4 p5'
  have p3' : l.rb_logbook_begin + len ≤ addr := by clear * - p3 q1; omega
  clear p3
  have p16 : 16 ≤ len := by clear * - p1 p5'; omega
  -- the offset
  obtain ⟨fy, hfy⟩ : ∃ fy, fy =
      (if w.full = true ∧ w.unaligned = true ∧ 0 < s.nbytes then 8 else 0) := ⟨_, rfl⟩
  have hfy1 : (fy = 8 ∧ fx = 8 ∧ 0 < s.nbytes) ∨ (fy = 0 ∧ fx = 8 ∧ s.nbytes = 0) ∨
      (fy = 0 ∧ fx = 0) := by
    by_cases hf : w.full = true ∧ w.unaligned = true
    · have hf8 := A7.mpr hf
      by_cases hn : 0 < s.nbytes
      · rw [if_pos ⟨hf.1, hf.2, hn⟩] at hfy
        exact Or.inl ⟨hfy, hf8, hn⟩
      · rw [if_neg (fun h => hn h.2.2)] at hfy
        exact Or.inr (Or.inl ⟨hfy, hf8, by clear * - hn; omega⟩)
    · rw [if_neg (fun h => hf ⟨h.1, h.2.1⟩)] at hfy
      refine Or.inr (Or.inr ⟨hfy, ?_⟩)
      rcases A6 with h | h
      · exact h
      · exact absurd (A7.mp h) hf
  have i3' : s.offset + s.nbytes = w.page_size + fy := by
    rw [hfy]
    rcases i3 with h | h
    · exact h
    · exfalso
      clear * - h hlt
      omega
  have hoffle : s.offset ≤ w.page_size := by clear * - i3' hfy1 a4; omega
  obtain ⟨o1, ho1⟩ : ∃ o1, s.offset = o1 + len := ⟨s.offset - len, by clear * - i3' p4 hfy1; omega⟩
  obtain ⟨a0, ha0⟩ : ∃ a0, addr = a0 + len := ⟨addr - len, by clear * - p3'; omega⟩
  have e1 : s.offset - len = o1 := by clear * - ho1; omega
  have e2 : addr - len = a0 := by clear * - ha0; omega
  have hB8 : window_begin w % 8 = 0 := by clear * - A9; omega
  have hE8 : window_end w % 8 = 0 := by clear * - A8 hB8 A11; omega
  have hoff8 : s.offset % 8 = 0 := by clear * - i3' A17 a4 hfy1; omega
  have ho18 : o1 % 8 = 0 := by clear * - hoff8 ho1 p5'; omega
  have hcur8 : s.current % 8 = 0 := by clear * - i7 hoff8 hE8 hB8; omega
  have hcurE : s.current ≤ window_end w := by clear * - i7 A8; omega
  have hpage := logbook_page_unfold env l mp fp w pm sf s len addr haddr hlen
    (by clear * - ha0; omega) (by clear * - q2 k5; omega) (by clear * - ho1; omega)
    (by rw [i2]; exact hoffle) (by clear * - hoffle hps32; omega)
    (by clear * - p4 hps32; omega)
  rw [e1, e2] at hpage
  refine ⟨by rw [← haddr, ← hlen]; clear * - ho1; omega, hoffle, hcurE, ?_⟩
  generalize env.device_read s.trace a0 len = rd at hpage
  obtain ⟨rc, data⟩ := rd
  simp only at hpage
  by_cases hrc : rc ≠ SUCCESS
  · rw [if_pos hrc] at hpage
    rw [hpage]
    constructor
    · intro r hr
      have e := Step.stop.inj hr
      rw [← e]
      exact ⟨by simp, by simp⟩
    · intro s' ab hn
      cases hn
  · rw [if_neg hrc] at hpage
    generalize hlbA : s.logbooks.fill o1 len data = lbA at hpage
    have hszA : lbA.size = w.page_size := by rw [← hlbA, fill_size]; exact i2
    have hfillA : ∀ i, o1 ≤ i → i < o1 + len → (lbA.cell i).isSome = true := by
      intro i h1 h2
      rw [← hlbA, fill_cell, if_pos ⟨h1, h2⟩]
      rfl
    have hkeepA : ∀ i, ¬ (o1 ≤ i ∧ i < o1 + len) → lbA.cell i = s.logbooks.cell i := by
      intro i h
      rw [← hlbA, fill_cell, if_neg h]
    have hold : ∀ i, o1 ≤ i → i < w.page_size → (lbA.cell i).isSome = true := by
      intro i h1 h2
      by_cases hin : o1 ≤ i ∧ i < o1 + len
      · exact hfillA i hin.1 hin.2
      · rw [hkeepA i hin]
        exact i4 i (by clear * - hin h1 ho1; omega) h2
    -- the buffer and the offset after the fix-up
    obtain ⟨lb', off', hfix, hsz', hoffc, hfill', hlow'⟩ : ∃ lb' off',
        logbook_fixup w lbA s.nbytes len o1 = some (lb', off') ∧ lb'.size = w.page_size ∧
        ((fx = 8 ∧ s.nbytes = 0 ∧ off' = o1 + 8) ∨
         (fx = 8 ∧ 0 < s.nbytes ∧ s.nbytes + len = w.page_size ∧ off' = 0) ∨
         (fx = 8 ∧ 0 < s.nbytes ∧ s.nbytes + len < w.page_size ∧ off' = o1) ∨
         (fx = 0 ∧ off' = o1)) ∧
        (∀ i, off' ≤ i → i < w.page_size → (lb'.cell i).isSome = true) ∧
        (fx = 8 → ∀ i, i < 8 → (lb'.cell i).isSome = true) := by
      rcases hfy1 with ⟨f1, f2, f3⟩ | ⟨f1, f2, f3⟩ | ⟨f1, f2⟩
      · -- a later packet of a full, unaligned ring
        have hf := A7.mp f2
        have hne : s.nbytes ≠ 0 := by clear * - f3; omega
        have ho8 : 8 ≤ o1 := by clear * - i3' f1 ho1 p4; omega
        have hlow : ∀ i, i < 8 → (lbA.cell i).isSome = true := by
          intro i hi
          rw [hkeepA i (by clear * - hi ho8; omega)]
          exact i5 hf.1 hf.2 f3 i hi
        by_cases he : s.nbytes + len = w.page_size
        · refine ⟨lbA, 0, ?_, hszA, Or.inr (Or.inl ⟨f2, f3, he, rfl⟩), ?_, fun _ => hlow⟩
          · unfold logbook_fixup
            rw [if_pos hf, if_neg hne, u32_eq _ (by clear * - p4 hps32; omega), if_pos he]
          · intro i _ h2
            by_cases h8 : i < 8
            · exact hlow i h8
            · exact hold i (by clear * - h8 he i3' f1 ho1; omega) h2
        · refine ⟨lbA, o1, ?_, hszA,
            Or.inr (Or.inr (Or.inl ⟨f2, f3, by clear * - he p4; omega, rfl⟩)), hold,
            fun _ => hlow⟩
          unfold logbook_fixup
          rw [if_pos hf, if_neg hne, u32_eq _ (by clear * - p4 hps32; omega), if_neg he]
      · -- the first packet of a full, unaligned ring
        have hf := A7.mp f2
        obtain ⟨g1, g2, g3, g4⟩ := A15 f2
        have hpad : usub w.page_end w.entry_end = 8 := by
          rw [usub_eq _ _ (by clear * - A3; omega) (by clear * - A3 A4 A21 k5; omega)]
          clear * - A3 g4
          omega
        have hL : o1 + len = L := by clear * - i3' f1 f3 ho1 g1; omega
        have hrot := fixup_rotate w lbA len o1 L hf hpad (by rw [hszA]; exact g1) hL p16
          (by clear * - g1 hps32; omega)
        rw [f3]
        refine ⟨_, _, hrot, ?_, Or.inl ⟨f2, rfl, rfl⟩, ?_, ?_⟩
        · rw [memmove_size, memmove_size]
          exact hszA
        · intro i h1 h2
          rw [memmove_cell, if_pos ⟨h1, by clear * - h2 hL g1 p16; omega⟩, memmove_cell]
          split_ifs with hc
          · exact hfillA _ (by clear * - p16; omega) (by clear * - hc p16; omega)
          · exact hfillA _ (by clear * - h1; omega) (by clear * - h1 h2 hL g1 p16; omega)
        · intro _ i hi
          rw [memmove_cell, if_neg (by clear * - hi; omega), memmove_cell,
            if_pos ⟨Nat.zero_le _, by clear * - hi; omega⟩]
          exact hfillA _ (by clear * - p16; omega) (by clear * - hi p16; omega)
      · -- every other ring
        have hf : ¬ (w.full = true ∧ w.unaligned = true) := by
          intro h
          have := A7.mpr h
          clear * - this f2
          omega
        refine ⟨lbA, o1, ?_, hszA, Or.inr (Or.inr (Or.inr ⟨f2, rfl⟩)), hold, ?_⟩
        · unfold logbook_fixup
          rw [if_neg hf]
        · intro h
          exfalso
          clear * - h f2
          omega
    rw [hfix] at hpage
    simp only at hpage
    -- the scan
    have hoff'8 : off' % 8 = 0 := by clear * - hoffc ho18; omega
    have hoffE : off' ≤ window_end w := by
      clear * - hoffc ho1 i3' hfy1 p16 p4 A14 hA15; omega
    have hoffO : off' ≤ s.offset := by clear * - hoffc ho1 p16; omega
    have htarget : max off' (window_begin w) ≤ s.current := by
      clear * - i7 hoffO hoffE A8; omega
    obtain ⟨sc1, sc2⟩ := scan_entries_filled lb' fp off' (window_begin w) sf s.current htarget
      (by clear * - htarget hcur8 hoff'8 hB8; omega)
      (by rw [hsz']; clear * - hcurE A13; omega) (by clear * - hcurE A13 hps32; omega)
      (fun i h1 h2 => hfill' i (by clear * - h1; omega) (by clear * - h2 hcurE A13; omega))
    rw [i6] at hpage ⊢
    rw [hpage]
    rcases hsc : scan_entries lb' fp off' sf s.current (window_begin w) with _ | _ | ⟨c, b, ab0⟩
    · rw [hsc] at sc2
      exact sc2.elim
    · rw [hsc] at sc2
      simp only at sc2 ⊢
      constructor
      · intro r hr
        have e := Step.stop.inj hr
        rw [← e]
        refine ⟨by simp, fun _ => ?_⟩
        clear * - sc2 hcurE A13
        omega
      · intro s' ab hn
        cases hn
    · rw [hsc] at sc2
      simp only at sc2 ⊢
      obtain ⟨r1, r2, r3, r4⟩ := sc2
      constructor
      · intro r hr
        cases hr
      · intro s' ab hn
        have e := Prod.mk.inj (Step.next.inj hn)
        obtain ⟨e3, e4⟩ := e
        rw [← e3, ← e4]
        refine ⟨by show s.nbytes + 16 ≤ s.nbytes + len; clear * - p16; omega, ?_, ?_,
          by show window_begin w ≤ c; clear * - r1; omega,
          by show off' ≤ c; clear * - r1; omega, r2, ?_⟩
        · intro hab
          rcases r4 with ⟨_, r5, r6⟩ | ⟨r5, _, _⟩
          · have hfx' : (if w.full = true ∧ w.unaligned = true ∧ 0 < s.nbytes + len then 8
                else 0) = fx := by
              rw [← A5]
              by_cases hf : w.full = true ∧ w.unaligned = true
              · rw [if_pos hf, if_pos ⟨hf.1, hf.2, by clear * - p16; omega⟩]
              · rw [if_neg hf, if_neg (fun h => hf ⟨h.1, h.2.1⟩)]
            refine ⟨⟨?_, ?_, ?_, ?_, ?_⟩, hsz', ?_, hfill', ?_, r6, ?_⟩
            · show a0 % PAGESIZE = 0
              rw [hP]; clear * - ha0 q3 p5'; omega
            · show l.rb_logbook_begin ≤ a0
              clear * - p3' ha0; omega
            · show a0 ≤ l.rb_logbook_end
              clear * - ha0 q2; omega
            · show (s.nbytes + len) % PAGESIZE = 0
              rw [hP]; clear * - a4 p5'; omega
            · show s.nbytes + len ≤ w.page_size
              exact p4
            · show off' + (s.nbytes + len) = w.page_size +
                  (if w.full = true ∧ w.unaligned = true ∧ 0 < s.nbytes + len then 8 else 0) ∨
                (off' = 0 ∧ s.nbytes + len = w.page_size)
              rw [hfx']
              clear * - hoffc i3' hfy1 ho1
              omega
            · intro h1 h2 _
              exact hlow' (A7.mpr ⟨h1, h2⟩)
            · show c = max (min off' (window_end w)) (window_begin w)
              clear * - r5 hoffE
              omega
          · rw [r5] at hab
            cases hab
        · intro hab
          rcases r4 with ⟨r5, _, _⟩ | ⟨_, r5, r6⟩
          · rw [r5] at hab
            cases hab
          · refine ⟨?_, ?_, hsz', ?_⟩
            · show b ≤ window_end w
              clear * - r5 r6 hcurE
              omega
            · show (window_end w - b) % 8 = 0
              clear * - r5 r6 hcurE r1 r3 hoff'8 hB8 hE8
              omega
            · intro i h1 h2
              have h3 : b ≤ i := h1
              exact hfill' i (by clear * - h3 r5 r1; omega) (by clear * - h2 A13; omega)
        · intro p hp
          obtain ⟨j1, j2, j3, j4⟩ := sc1 p hp
          exact ⟨by clear * - j1; omega, by show off' ≤ p; clear * - j1; omega,
            by clear * - j2 hcurE; omega, j2, j4⟩

/-- Behind its allocation `foreach_logbooks` is the logbook loop from the state
`logbook_initial`. -/
theorem foreach_logbooks_eq (env : Env) (device : oceanic_common_device_t)
    (l : oceanic_common_layout_t) (fuel : Nat) (h : Header) :
    foreach_logbooks env device l fuel h =
      if ¬ env.malloc_ok (logbook_window l h.rb_logbook_first h.rb_logbook_last).page_size then
        Step.stop ⟨Outcome.returned MEMORY, h.trace ++ [Event.progress
          (u32 (h.progress_current + PAGESIZE))
          (progress_maximum_logbook l
            (logbook_window l h.rb_logbook_first h.rb_logbook_last))]⟩
      else
        logbook_loop env l device.multipage device.fingerprint
          (logbook_window l h.rb_logbook_first h.rb_logbook_last)
          (progress_maximum_logbook l (logbook_window l h.rb_logbook_first h.rb_logbook_last))
          fuel fuel (logbook_initial device l h) := rfl

/-- The states of the view are the states of the loop: after `k` iterations that
went on, the loop is the loop from the state `k` with the fuel that is left. -/
theorem logbook_loop_steps (env : Env) (l : oceanic_common_layout_t) (mp : Nat)
    (fp : List Nat) (w : Window) (pm sf : Nat) :
    ∀ (k fuel : Nat) (s0 s : LogState), logbook_steps env l mp fp w pm sf k s0 = some s →
      k ≤ fuel →
      logbook_loop env l mp fp w pm sf fuel s0 = logbook_loop env l mp fp w pm sf (fuel - k) s := by
  intro k
  induction k with
  | zero =>
    intro fuel s0 s h _
    have e : s0 = s := Option.some.inj h
    rw [e]
    rfl
  | succ k ih =>
    intro fuel s0 s h hk
    obtain ⟨f, hf⟩ : ∃ f, fuel = f + 1 := ⟨fuel - 1, by omega⟩
    rw [hf]
    rw [logbook_steps] at h
    rw [logbook_loop]
    by_cases c : ¬ (s0.nbytes < w.page_size)
    · rw [if_pos c] at h
      cases h
    · rw [if_neg c] at h
      rw [if_neg c]
      rcases hp : logbook_page env l mp fp w pm sf s0 with ⟨s1, ab⟩ | r
      · rw [hp] at h
        simp only [] at h
        by_cases ha : ab = true
        · rw [if_pos ha] at h
          cases h
        · rw [if_neg ha] at h
          simp only []
          rw [if_neg ha, ih f s1 s h (by omega)]
          have e : f + 1 - (k + 1) = f - k := by omega
          rw [e]
      · rw [hp] at h
        cases h

/-- The fill invariant holds in every state of the view. -/
theorem logbook_steps_fill (env : Env) (l : oceanic_common_layout_t) (mp : Nat)
    (fp : List Nat) (w : Window) (pm sf : Nat) (hok : LayoutOk l mp) (hw : WindowOk l w) :
    ∀ (k : Nat) (s0 s : LogState), LogFill l w s0 →
      logbook_steps env l mp fp w pm sf k s0 = some s → LogFill l w s := by
  intro k
  induction k with
  | zero =>
    intro s0 s h0 h
    have e : s0 = s := Option.some.inj h
    rw [← e]
    exact h0
  | succ k ih =>
    intro s0 s h0 h
    rw [logbook_steps] at h
    by_cases c : ¬ (s0.nbytes < w.page_size)
    · rw [if_pos c] at h
      cases h
    · rw [if_neg c] at h
      obtain ⟨_, _, _, _, hn⟩ := logbook_page_fill env l mp fp w pm sf s0 hok hw h0
        (not_not.mp c)
      rcases hp : logbook_page env l mp fp w pm sf s0 with ⟨s1, ab⟩ | r
      · rw [hp] at h
        simp only [] at h
        by_cases ha : ab = true
        · rw [if_pos ha] at h
          cases h
        · rw [if_neg ha] at h
          exact ih s1 s ((hn s1 ab hp).2.1 (by simpa using ha)) h
      · rw [hp] at h
        cases h

/-- A state with the fill invariant in which all bytes have been read holds the
valid entries. -/
theorem logFill_done (l : oceanic_common_layout_t) (w : Window) (s : LogState)
    (hlog : l.rb_logbook_begin < l.rb_logbook_end) (hw : WindowOk l w) (h : LogFill l w s)
    (hn : ¬ (s.nbytes < w.page_size)) : LogDone w s := by
  obtain ⟨L, pad, fx, A1, A2, A3, A4, A5, A6, A7, A8, A9, A10, A11, A12, A13, A14, A15, A16, A17,
    A18, A19, A20, A21, A22, A23, A24, A25⟩ := windowOk_arith l w hw hlog
  obtain ⟨⟨a1, a2, a3, a4, a5⟩, i2, i3, i4, i5, i6, i7⟩ := h
  have hnb : s.nbytes = w.page_size := by omega
  have hpos : 0 < s.nbytes := by omega
  refine ⟨by rw [i6]; omega, by rw [i6]; omega, i2, ?_⟩
  intro i h1 h2
  by_cases hf : w.full = true ∧ w.unaligned = true
  · by_cases h8 : i < 8
    · exact i5 hf.1 hf.2 hpos i h8
    · rw [if_pos ⟨hf.1, hf.2, hpos⟩] at i3
      exact i4 i (by omega) (by omega)
  · rw [if_neg (fun h => hf ⟨h.1, h.2.1⟩)] at i3
    exact i4 i (by omega) (by omega)

/-- The logbook loop under the fill invariant performs no invalid memory access,
whatever `device_read` answers, it runs out of fuel only when the fuel is
less than the number of entries of the buffer, and it leaves the valid
entries behind. -/
theorem logbook_loop_fill (env : Env) (l : oceanic_common_layout_t) (mp : Nat)
    (fp : List Nat) (w : Window) (pm sf : Nat) (hok : LayoutOk l mp) (hw : WindowOk l w) :
    ∀ (fuel : Nat) (s : LogState), LogFill l w s →
      ∀ r, logbook_loop env l mp fp w pm sf fuel s = Step.stop r →
        r.outcome ≠ Outcome.fault ∧
        (r.outcome = Outcome.diverge →
          8 * sf < w.page_size ∨ s.nbytes + 16 * fuel < w.page_size) := by
  intro fuel
  induction fuel with
  | zero =>
    intro s _ r h
    rw [logbook_loop] at h
    by_cases c : ¬ (s.nbytes < w.page_size)
    · rw [if_pos c] at h
      cases h
    · rw [if_neg c] at h
      have e := Step.stop.inj h
      rw [← e]
      exact ⟨by simp, fun _ => Or.inr (by omega)⟩
  | succ fuel ih =>
    intro s h0 r h
    rw [logbook_loop] at h
    by_cases c : ¬ (s.nbytes < w.page_size)
    · rw [if_pos c] at h
      cases h
    · rw [if_neg c] at h
      obtain ⟨_, _, _, hs, hn⟩ := logbook_page_fill env l mp fp w pm sf s hok hw h0
        (not_not.mp c)
      rcases hp : logbook_page env l mp fp w pm sf s with ⟨s1, ab⟩ | r1
      · rw [hp] at h
        simp only [] at h
        by_cases ha : ab = true
        · rw [if_pos ha] at h
          cases h
        · rw [if_neg ha] at h
          obtain ⟨n1, n2, _⟩ := hn s1 ab hp
          obtain ⟨g1, g2⟩ := ih s1 (n2 (by simpa using ha)) r h
          refine ⟨g1, fun hd => ?_⟩
          rcases g2 hd with g | g
          · exact Or.inl g
          · exact Or.inr (by omega)
      · rw [hp] at h
        simp only [] at h
        have e := Step.stop.inj h
        rw [← e]
        obtain ⟨g1, g2⟩ := hs r1 hp
        exact ⟨g1, fun hd => Or.inl (g2 hd)⟩

/-- The logbook loop under the fill invariant leaves the valid entries behind. -/
theorem logbook_loop_entries (env : Env) (l : oceanic_common_layout_t) (mp : Nat)
    (fp : List Nat) (w : Window) (pm sf : Nat) (hok : LayoutOk l mp) (hw : WindowOk l w) :
    ∀ (fuel : Nat) (s : LogState), LogFill l w s →
      ∀ s', logbook_loop env l mp fp w pm sf fuel s = Step.next s' → LogDone w s' := by
  intro fuel
  induction fuel with
  | zero =>
    intro s h0 s' h
    rw [logbook_loop] at h
    by_cases c : ¬ (s.nbytes < w.page_size)
    · rw [if_pos c] at h
      have e := Step.next.inj h
      rw [← e]
      exact logFill_done l w s hok.logbook hw h0 c
    · rw [if_neg c] at h
      cases h
  | succ fuel ih =>
    intro s h0 s' h
    rw [logbook_loop] at h
    by_cases c : ¬ (s.nbytes < w.page_size)
    · rw [if_pos c] at h
      have e := Step.next.inj h
      rw [← e]
      exact logFill_done l w s hok.logbook hw h0 c
    · rw [if_neg c] at h
      obtain ⟨_, _, _, hs, hn⟩ := logbook_page_fill env l mp fp w pm sf s hok hw h0
        (not_not.mp c)
      rcases hp : logbook_page env l mp fp w pm sf s with ⟨s1, ab⟩ | r1
      · rw [hp] at h
        simp only [] at h
        obtain ⟨n1, n2, n3, _⟩ := hn s1 ab hp
        by_cases ha : ab = true
        · rw [if_pos ha] at h
          have e := Step.next.inj h
          rw [← e]
          exact n3 ha
        · rw [if_neg ha] at h
          exact ih s1 (n2 (by simpa using ha)) s' h
      · rw [hp] at h
        cases h

/-- The logbook loop starts with the fill invariant. -/
theorem logbook_initial_fill (device : oceanic_common_device_t) (l : oceanic_common_layout_t)
    (h : Header) (hok : LayoutOk l device.multipage)
    (hw : WindowOk l (logbook_window l h.rb_logbook_first h.rb_logbook_last)) :
    LogFill l (logbook_window l h.rb_logbook_first h.rb_logbook_last)
      (logbook_initial device l h) := by
  obtain ⟨w1, w2, w3, w4, w5⟩ := window_aligned l h.rb_logbook_first h.rb_logbook_last
    hok.lb hok.le hok.logbook hok.le32
  obtain ⟨L, pad, fx, A1, A2, A3, A4, A5, A6, A7, A8, A9, A10, A11, A12, A13, A14, A15, A16, A17,
    A18, A19, A20, A21, A22, A23, A24, A25⟩ := windowOk_arith l _ hw hok.logbook
  refine ⟨⟨w2, w3, w4, Nat.zero_mod _, Nat.zero_le _⟩, rfl, Or.inl ?_, ?_, ?_, rfl, ?_⟩
  · show (logbook_window l h.rb_logbook_first h.rb_logbook_last).page_size + 0 =
      (logbook_window l h.rb_logbook_first h.rb_logbook_last).page_size +
        (if _ ∧ _ ∧ 0 < 0 then 8 else 0)
    rw [if_neg (fun h => absurd h.2.2 (by decide))]
  · intro i h1 h2
    exfalso
    have h3 : (logbook_window l h.rb_logbook_first h.rb_logbook_last).page_size ≤ i := h1
    omega
  · intro _ _ h3
    exact absurd h3 (Nat.lt_irrefl 0)
  · show window_end (logbook_window l h.rb_logbook_first h.rb_logbook_last) =
      max (min (logbook_window l h.rb_logbook_first h.rb_logbook_last).page_size
        (window_end (logbook_window l h.rb_logbook_first h.rb_logbook_last)))
        (window_begin (logbook_window l h.rb_logbook_first h.rb_logbook_last))
    omega

/-- For a well-formed layout and logbook pointers inside the ring that are
multiples of `PAGESIZE / 2`, the logbook part of
`oceanic_common_device_foreach` hands on a buffer whose valid entries
`[begin, end)` are whole entries and determinate, whatever `device_read`
answers. -/
theorem foreach_logbooks_done (env : Env) (device : oceanic_common_device_t)
    (l : oceanic_common_layout_t) (fuel : Nat) (h : Header) (s : LogState)
    (hok : LayoutOk l device.multipage)
    (hfirst : l.rb_logbook_begin ≤ h.rb_logbook_first ∧ h.rb_logbook_first < l.rb_logbook_end)
    (hlast : l.rb_logbook_begin ≤ h.rb_logbook_last ∧ h.rb_logbook_last < l.rb_logbook_end)
    (hf8 : h.rb_logbook_first % (PAGESIZE / 2) = 0)
    (hl8 : h.rb_logbook_last % (PAGESIZE / 2) = 0)
    (hs : foreach_logbooks env device l fuel h = Step.next s) :
    LogDone (logbook_window l h.rb_logbook_first h.rb_logbook_last) s ∧
    (logbook_window l h.rb_logbook_first h.rb_logbook_last).page_size ≤ 1073741824 := by
  have hwok := windowOk_of_pointers l h.rb_logbook_first h.rb_logbook_last device.multipage hok
    hfirst hlast hf8 hl8
  obtain ⟨L, pad, fx, A1, A2, A3, A4, A5, A6, A7, A8, A9, A10, A11, A12, A13, A14, A15, A16, A17,
    A18, A19, A20, A21, A22, A23, A24, A25⟩ := windowOk_arith l _ hwok hok.logbook
  have k5 := hok.le32
  refine ⟨?_, by omega⟩
  rw [foreach_logbooks_eq] at hs
  by_cases hm : ¬ env.malloc_ok (logbook_window l h.rb_logbook_first h.rb_logbook_last).page_size
  · rw [if_pos hm] at hs
    cases hs
  · rw [if_neg hm] at hs
    exact logbook_loop_entries env l device.multipage device.fingerprint _ _ fuel hok hwok fuel _
      (logbook_initial_fill device l h hok hwok) s hs

/-- Claim C35. The Oceanic entry scan reads only downloaded data. For a
well-formed layout (ring bounds that are multiples of `PAGESIZE`) and logbook
pointers inside the logbook ring that are multiples of `PAGESIZE / 2`, and for
every `device_read`, callback and fuel: the logbook part of
`oceanic_common_device_foreach` (lines 208-377) performs no invalid memory
access, and with fuel for every entry of the buffer it does not run out of
fuel. In every iteration `k` of the logbook loop the buffer has `page_size`
bytes and the packet of `len` bytes is stored to `[offset - len, offset)` with
`len <= offset <= page_size`; `current` lies in `[begin, end]`; and when the
iteration goes on, the cursor has stopped at or above the new `offset` and at
or above `begin`, and every entry `[p, p + PAGESIZE / 2)` that the scan has
examined lies at or above `begin` and `offset`, ends at or below `end` and
the old `current`, and is a determinate part of the buffer: all of its bytes
were stored by a `device_read` (or copied from such bytes by the rotation of
the full ring). -/
theorem logbook_scan_filled (env : Env) (device : oceanic_common_device_t)
    (l : oceanic_common_layout_t) (fuel : Nat) (h : Header) (w : Window)
    (hw : w = logbook_window l h.rb_logbook_first h.rb_logbook_last)
    (hok : LayoutOk l device.multipage)
    (hfirst : l.rb_logbook_begin ≤ h.rb_logbook_first ∧ h.rb_logbook_first < l.rb_logbook_end)
    (hlast : l.rb_logbook_begin ≤ h.rb_logbook_last ∧ h.rb_logbook_last < l.rb_logbook_end)
    (hf8 : h.rb_logbook_first % (PAGESIZE / 2) = 0)
    (hl8 : h.rb_logbook_last % (PAGESIZE / 2) = 0) :
    (∀ r, foreach_logbooks env device l fuel h = Step.stop r →
      r.outcome ≠ Outcome.fault ∧ (w.page_size ≤ 8 * fuel → r.outcome ≠ Outcome.diverge)) ∧
    (∀ k s, logbook_state env device l fuel h k = some s → s.nbytes < w.page_size →
      s.logbooks.size = w.page_size ∧
      packet_size l.rb_logbook_begin device.multipage
        (wrap_point l.rb_logbook_begin l.rb_logbook_end s.address) s.nbytes w.page_size
          ≤ s.offset ∧
      s.offset ≤ w.page_size ∧
      s.begin_ = window_begin w ∧ s.begin_ ≤ s.current ∧ s.current ≤ window_end w ∧
      window_end w ≤ w.page_size ∧
      (∀ r, logbook_page env l device.multipage device.fingerprint w
          (progress_maximum_logbook l w) fuel s = Step.stop r → r.outcome ≠ Outcome.fault) ∧
      (∀ s' ab, logbook_page env l device.multipage device.fingerprint w
          (progress_maximum_logbook l w) fuel s = Step.next (s', ab) →
        s.begin_ ≤ s'.current ∧ s'.offset ≤ s'.current ∧ s'.current ≤ s.current ∧
        ∀ p ∈ scan_reads s'.logbooks device.fingerprint s'.offset fuel s.current s.begin_,
          s.begin_ ≤ p ∧ s'.offset ≤ p ∧ p + PAGESIZE / 2 ≤ window_end w ∧
          p + PAGESIZE / 2 ≤ s.current ∧
          s'.logbooks.readable p (PAGESIZE / 2) = true)) := by
  have hwok : WindowOk l w := by
    rw [hw]
    exact windowOk_of_pointers l h.rb_logbook_first h.rb_logbook_last device.multipage hok
      hfirst hlast hf8 hl8
  have hinit : LogFill l w (logbook_initial device l h) := by
    rw [hw]
    exact logbook_initial_fill device l h hok (by rw [← hw]; exact hwok)
  obtain ⟨L, pad, fx, A1, A2, A3, A4, A5, A6, A7, A8, A9, A10, A11, A12, A13, A14, A15, A16, A17,
    A18, A19, A20, A21, A22, A23, A24, A25⟩ := windowOk_arith l w hwok hok.logbook
  constructor
  · intro r hr
    rw [foreach_logbooks_eq, ← hw] at hr
    by_cases hm : ¬ env.malloc_ok w.page_size
    · rw [if_pos hm] at hr
      have e := Step.stop.inj hr
      rw [← e]
      exact ⟨by simp, fun _ => by simp⟩
    · rw [if_neg hm] at hr
      obtain ⟨g1, g2⟩ := logbook_loop_fill env l device.multipage device.fingerprint w
        (progress_maximum_logbook l w) fuel hok hwok fuel _ hinit r hr
      refine ⟨g1, fun hps hd => ?_⟩
      have g3 : 8 * fuel < w.page_size ∨ 0 + 16 * fuel < w.page_size := g2 hd
      clear * - g3 hps
      omega
  · intro k s hs hlt
    unfold logbook_state at hs
    simp only [] at hs
    rw [← hw] at hs
    by_cases hm : ¬ env.malloc_ok w.page_size
    · rw [if_pos hm] at hs
      cases hs
    · rw [if_neg hm] at hs
      have hfill := logbook_steps_fill env l device.multipage device.fingerprint w
        (progress_maximum_logbook l w) fuel hok hwok k _ s hinit hs
      obtain ⟨c1, c2, c3, c4, c5⟩ := logbook_page_fill env l device.multipage device.fingerprint
        w (progress_maximum_logbook l w) fuel s hok hwok hfill hlt
      have hb := hfill.begin_
      have hc := hfill.cur
      refine ⟨hfill.size, c1, c2, hb, by clear * - hb hc; omega, c3, A13,
        fun r hr => (c4 r hr).1, ?_⟩
      intro s' ab hn
      obtain ⟨n1, n2, _, n3, n4, n5, n6⟩ := c5 s' ab hn
      refine ⟨by rw [hb]; exact n3, n4, n5, ?_⟩
      intro p hp
      obtain ⟨j1, j2, j3, j4, j5⟩ := n6 p hp
      exact ⟨by rw [hb]; exact j1, j2, j3, j4, j5⟩

/-- Witness of `logbook_scan_filled`: the pointers `first = 0x28`, `last = 0x20`
of `sample_image` with `multipage = 1`, a full ring of 32 bytes that is not
page-aligned, read in two packets of 16 bytes with the rotation after the
first. -/
theorem logbook_scan_filled_witness :
    (∀ r, foreach_logbooks (image_env sample_image accept_all)
        (sample_device [0, 0, 0, 0, 0, 0, 0, 0] 1) sample_layout 32
        { rb_logbook_first := 0x28, rb_logbook_last := 0x20, progress_current := 16,
          trace := [] } = Step.stop r →
      r.outcome ≠ Outcome.fault ∧ (0x20 ≤ 8 * 32 → r.outcome ≠ Outcome.diverge)) ∧
    (∀ k s, logbook_state (image_env sample_image accept_all)
        (sample_device [0, 0, 0, 0, 0, 0, 0, 0] 1) sample_layout 32
        { rb_logbook_first := 0x28, rb_logbook_last := 0x20, progress_current := 16,
          trace := [] } k = some s → s.nbytes < 0x20 →
      s.logbooks.size = 0x20 ∧
      packet_size 0x20 1 (wrap_point 0x20 0x40 s.address) s.nbytes 0x20 ≤ s.offset ∧
      s.offset ≤ 0x20 ∧
      s.begin_ = 0 ∧ s.begin_ ≤ s.current ∧ s.current ≤ 0x20 ∧ 0x20 ≤ 0x20 ∧
      (∀ r, logbook_page (image_env sample_image accept_all) sample_layout 1
          [0, 0, 0, 0, 0, 0, 0, 0]
          { entry_begin := 0x28, entry_end := 0x28, entry_size := 0x20, full := true,
            page_begin := 0x30, page_end := 0x30, page_size := 0x20, unaligned := true }
          0x100 32 s = Step.stop r → r.outcome ≠ Outcome.fault) ∧
      (∀ s' ab, logbook_page (image_env sample_image accept_all) sample_layout 1
          [0, 0, 0, 0, 0, 0, 0, 0]
          { entry_begin := 0x28, entry_end := 0x28, entry_size := 0x20, full := true,
            page_begin := 0x30, page_end := 0x30, page_size := 0x20, unaligned := true }
          0x100 32 s = Step.next (s', ab) →
        s.begin_ ≤ s'.current ∧ s'.offset ≤ s'.current ∧ s'.current ≤ s.current ∧
        ∀ p ∈ scan_reads s'.logbooks [0, 0, 0, 0, 0, 0, 0, 0] s'.offset 32 s.current s.begin_,
          s.begin_ ≤ p ∧ s'.offset ≤ p ∧ p + PAGESIZE / 2 ≤ 0x20 ∧
          p + PAGESIZE / 2 ≤ s.current ∧
          s'.logbooks.readable p (PAGESIZE / 2) = true)) :=
  logbook_scan_filled (image_env sample_image accept_all)
    (sample_device [0, 0, 0, 0, 0, 0, 0, 0] 1) sample_layout 32
    { rb_logbook_first := 0x28, rb_logbook_last := 0x20, progress_current := 16, trace := [] }
    { entry_begin := 0x28, entry_end := 0x28, entry_size := 0x20, full := true,
      page_begin := 0x30, page_end := 0x30, page_size := 0x20, unaligned := true }
    rfl sample_layout_ok_one (by decide) (by decide) (by decide) (by decide)

/-- The logbook loop over `sample_image` with the pointers `first = 0x28`,
`last = 0x20`: `(nbytes, offset, current, begin)` before every iteration and
the entries that the scans examine, `24` after the first packet and the
rotation, `16, 8, 0` after the second packet; and the same ring with the
pointers `first = 0x38`, `last = 0x30` and `multipage = 4`, which is read in
one packet: the rotation leaves `offset = 8`, and the scan examines `24, 16,
8`. -/
theorem logbook_scan_sample :
    (List.range 4).map (fun k => (logbook_state (image_env sample_image accept_all)
        (sample_device [0, 0, 0, 0, 0, 0, 0, 0] 1) sample_layout 32
        { rb_logbook_first := 0x28, rb_logbook_last := 0x20, progress_current := 16,
          trace := [] } k).map (fun s => (s.nbytes, s.offset, s.current, s.begin_))) =
      [some (0, 32, 32, 0), some (16, 24, 24, 0), some (32, 0, 0, 0), none] ∧
    (List.range 2).map (fun k => (logbook_state (image_env sample_image accept_all)
        (sample_device [0, 0, 0, 0, 0, 0, 0, 0] 1) sample_layout 32
        { rb_logbook_first := 0x28, rb_logbook_last := 0x20, progress_current := 16,
          trace := [] } k).bind (fun s => (logbook_state (image_env sample_image accept_all)
        (sample_device [0, 0, 0, 0, 0, 0, 0, 0] 1) sample_layout 32
        { rb_logbook_first := 0x28, rb_logbook_last := 0x20, progress_current := 16,
          trace := [] } (k + 1)).map (fun s' =>
            scan_reads s'.logbooks [0, 0, 0, 0, 0, 0, 0, 0] s'.offset 32 s.current s.begin_))) =
      [some [24], some [16, 8, 0]] ∧
    (List.range 3).map (fun k => (logbook_state (image_env sample_image accept_all)
        (sample_device [0, 0, 0, 0, 0, 0, 0, 0] 4) sample_layout 32
        { rb_logbook_first := 0x38, rb_logbook_last := 0x30, progress_current := 16,
          trace := [] } k).map (fun s => (s.nbytes, s.offset, s.current, s.begin_))) =
      [some (0, 32, 32, 0), some (32, 8, 8, 0), none] ∧
    ((logbook_state (image_env sample_image accept_all)
        (sample_device [0, 0, 0, 0, 0, 0, 0, 0] 4) sample_layout 32
        { rb_logbook_first := 0x38, rb_logbook_last := 0x30, progress_current := 16,
          trace := [] } 1).map (fun s' =>
            (scan_reads s'.logbooks [0, 0, 0, 0, 0, 0, 0, 0] s'.offset 32 32 0,
              (List.range 32).map (fun i => (s'.logbooks.cell i).isSome)))) =
      some ([24, 16, 8], List.replicate 32 true) := by
  decide!

/-- A read request adds its size to the total. -/
theorem read_total_read (t : List Event) (a n : Nat) :
    read_total (t ++ [Event.read a n]) = read_total t + n := by
  unfold read_total
  rw [reads_append]
  simp [reads]

/-- A progress event is not a read request. -/
theorem read_total_progress (t : List Event) (a n : Nat) :
    read_total (t ++ [Event.progress a n]) = read_total t := by
  unfold read_total
  rw [reads_append]
  simp [reads]

/-- A callback invocation is not a read request. -/
theorem read_total_dive (t : List Event) (d f : List Nat) :
    read_total (t ++ [Event.dive d f]) = read_total t := by
  unfold read_total
  rw [reads_append]
  simp [reads]

/-- The packet loop of one dive under the fill invariant, whatever `device_read`
answers: every packet is stored inside the buffer, above the room for the
logbook entries; the loop performs no invalid memory access, runs out of fuel
only when the fuel is less than the number of pages of the dive, and does not
ask for more bytes than are still to come; when it goes on, the invariant
holds and the bytes of the dive are there. -/
theorem profile_read_fill (env : Env) (l : oceanic_common_layout_t) (mp : Nat)
    (pm remaining size D total C : Nat)
    (hok : LayoutOk l mp) (hrem : remaining % PAGESIZE = 0) (hrem32 : remaining ≤ 1073741824 + 64)
    (hsize : size ≤ remaining) (htot : remaining + D ≤ total) (htot32 : total < 4294967296) :
    ∀ (fuel : Nat) (r : ReadState), ReadFill l remaining D total C r →
      (∀ w ∈ profile_read_log env l mp pm remaining size fuel r,
        0 < w.2 ∧ w.2 + D ≤ w.1 ∧ w.1 ≤ total) ∧
      (∀ x, profile_read env l mp pm remaining size fuel r = Step.stop x →
        x.outcome ≠ Outcome.fault ∧
        (x.outcome = Outcome.diverge → r.nbytes + 16 * fuel < size) ∧
        read_total x.trace ≤ C) ∧
      (∀ r', profile_read env l mp pm remaining size fuel r = Step.next r' →
        ReadFill l remaining D total C r' ∧ size ≤ r'.nbytes) := by
  have hP : PAGESIZE = 16 := rfl
  obtain ⟨_, _, _, _, k1, k2, _, k3, k4, _, k5, k6⟩ := hok
  have hdone : ∀ (fuel : Nat) (r : ReadState), ReadFill l remaining D total C r →
      ¬ (r.nbytes < size) →
      (∀ w ∈ profile_read_log env l mp pm remaining size fuel r,
        0 < w.2 ∧ w.2 + D ≤ w.1 ∧ w.1 ≤ total) ∧
      (∀ x, profile_read env l mp pm remaining size fuel r = Step.stop x →
        x.outcome ≠ Outcome.fault ∧
        (x.outcome = Outcome.diverge → r.nbytes + 16 * fuel < size) ∧
        read_total x.trace ≤ C) ∧
      (∀ r', profile_read env l mp pm remaining size fuel r = Step.next r' →
        ReadFill l remaining D total C r' ∧ size ≤ r'.nbytes) := by
    intro fuel r h hc
    unfold profile_read profile_read_log
    rw [if_pos hc, if_pos hc]
    refine ⟨?_, ?_, ?_⟩
    · intro w hw
      simp at hw
    · intro x hx
      cases hx
    · intro r' hr'
      have e := Step.next.inj hr'
      rw [← e]
      exact ⟨h, by omega⟩
  intro fuel
  induction fuel with
  | zero =>
    intro r h
    by_cases hc : ¬ (r.nbytes < size)
    · exact hdone 0 r h hc
    · rw [profile_read, profile_read_log, if_neg hc, if_neg hc]
      have hb := h.bytes
      refine ⟨?_, ?_, ?_⟩
      · intro w hw
        simp at hw
      · intro x hx
        have e := Step.stop.inj hx
        rw [← e]
        exact ⟨by simp, fun _ => by omega, by show read_total r.trace ≤ C; omega⟩
      · intro r' hr'
        cases hr'
  | succ fuel ih =>
    intro r h
    by_cases hc : ¬ (r.nbytes < size)
    · exact hdone (fuel + 1) r h hc
    · obtain ⟨⟨a1, a2, a3, a4, a5⟩, b2, b3, b4, b5⟩ := h
      rw [profile_read, profile_read_log, if_neg hc, if_neg hc]
      have hwp : l.rb_profile_begin < wrap_point l.rb_profile_begin l.rb_profile_end r.address ∧
          wrap_point l.rb_profile_begin l.rb_profile_end r.address ≤ l.rb_profile_end ∧
          wrap_point l.rb_profile_begin l.rb_profile_end r.address % 16 = 0 := by
        unfold wrap_point; rw [hP] at *; split_ifs <;> omega
      obtain ⟨p1, p2, p3, p4, p5⟩ := packet_size_spec l.rb_profile_begin mp
        (wrap_point l.rb_profile_begin l.rb_profile_end r.address) r.nbytes remaining
        k4 k6 hwp.1 (by omega) (by omega) hrem32
      have p5' := p5 k1 (by rw [hP]; exact hwp.2.2) a4 hrem
      clear p5
      dsimp only
      generalize packet_size l.rb_profile_begin mp
        (wrap_point l.rb_profile_begin l.rb_profile_end r.address) r.nbytes remaining = len at *
      generalize wrap_point l.rb_profile_begin l.rb_profile_end r.address = addr at *
      rw [hP] at p5' a1 a4 hrem k1 k2
      have hsub : usub addr len = addr - len := usub_eq _ _ (by omega) (by omega)
      have hsub2 : usub r.offset len = r.offset - len := usub_eq _ _ (by omega) (by omega)
      have hnb : u32 (r.nbytes + len) = r.nbytes + len := u32_eq _ (by omega)
      rw [hsub, hsub2, hnb]
      have hhead : 0 < len ∧ len + D ≤ r.offset ∧ r.offset ≤ total := by omega
      by_cases hrc : (env.device_read r.trace (addr - len) len).1 ≠ SUCCESS
      · rw [if_pos hrc, if_pos hrc]
        refine ⟨?_, ?_, ?_⟩
        · intro w hw
          simp only [List.mem_singleton] at hw
          rw [hw]
          exact hhead
        · intro x hx
          have e := Step.stop.inj hx
          rw [← e]
          refine ⟨by simp, fun hd => by simp at hd, ?_⟩
          show read_total (r.trace ++ [Event.read (addr - len) len]) ≤ C
          rw [read_total_read]
          omega
        · intro r' hr'
          cases hr'
      · rw [if_neg hrc, if_neg hrc]
        have hwr : ¬ ¬ r.profiles.writable (r.offset - len) len = true := by
          simp only [Buffer.writable, decide_eq_true_eq, not_not]
          omega
        rw [if_neg hwr, if_neg hwr]
        obtain ⟨i1, i2, i3⟩ := ih
          { profiles := r.profiles.fill (r.offset - len) len (env.device_read r.trace (addr - len) len).2, nbytes := r.nbytes + len,
            offset := r.offset - len, address := addr - len,
            progress_current := u32 (r.progress_current + len),
            trace := r.trace ++ [Event.read (addr - len) len]
              ++ [Event.progress (u32 (r.progress_current + len)) pm] }
          ⟨⟨by show (addr - len) % PAGESIZE = 0; rw [hP]; omega,
            by show l.rb_profile_begin ≤ addr - len; omega,
            by show addr - len ≤ l.rb_profile_end; omega,
            by show (r.nbytes + len) % PAGESIZE = 0; rw [hP]; omega,
            by show r.nbytes + len ≤ remaining; omega⟩,
           by show (r.profiles.fill (r.offset - len) len (env.device_read r.trace (addr - len) len).2).size = total
              rw [fill_size]; exact b2,
           by show r.offset - len = remaining - (r.nbytes + len) + D; omega,
           by
            intro j hj
            show ((r.profiles.fill (r.offset - len) len (env.device_read r.trace (addr - len) len).2).cell (r.offset - len + j)).isSome
              = true
            have hj' : j < r.nbytes + len := hj
            rw [fill_cell]
            by_cases hin : j < len
            · rw [if_pos ⟨by omega, by omega⟩]
              rfl
            · rw [if_neg (by omega)]
              have e : r.offset - len + j = r.offset + (j - len) := by omega
              rw [e]
              exact b4 (j - len) (by omega),
           by
            show read_total (r.trace ++ [Event.read (addr - len) len]
              ++ [Event.progress (u32 (r.progress_current + len)) pm])
                + (remaining - (r.nbytes + len)) = C
            rw [read_total_progress, read_total_read]
            omega⟩
        refine ⟨?_, ?_, fun r' hr' => i3 r' hr'⟩
        · intro w hw
          simp only [List.mem_cons] at hw
          rcases hw with hw | hw
          · rw [hw]
            exact hhead
          · exact i1 w hw
        · intro x hx
          obtain ⟨g1, g2, g3⟩ := i2 x hx
          refine ⟨g1, fun hd => ?_, g3⟩
          have := g2 hd
          have e : r.nbytes + len + 16 * fuel < size := this
          omega

/-- The packet loop of a dive starts with the fill invariant. -/
theorem profile_readstate_fill (l : oceanic_common_layout_t) (logbooks : Buffer)
    (begin_ total S R0 : Nat) (s : ProfState) (hs : ProfFill l logbooks begin_ total S R0 s) :
    ReadFill l s.remaining (s.current - begin_) total (R0 + S)
      { profiles := s.profiles, nbytes := s.available, offset := s.offset,
        address := s.address, progress_current := s.progress_current, trace := s.trace } :=
  ⟨⟨hs.addr.addr_al, hs.addr.addr_lo, hs.addr.addr_hi, hs.addr.av_al, hs.addr.av_le⟩,
    hs.size, hs.off, hs.filled, hs.bytes⟩

/-- Delivering a dive under the fill invariants: the bytes that belong to the
next dive are moved and the logbook entry is stored inside the buffer, the
block handed to the callback is a determinate part of the buffer, and the
invariant of the profile loop holds for the entry in front. -/
theorem profile_deliver_fill (env : Env) (l : oceanic_common_layout_t) (logbooks : Buffer)
    (begin_ total S R0 current first size : Nat) (s : ProfState) (r : ReadState)
    (hs : ProfFill l logbooks begin_ total S R0 s)
    (hcur : current + 8 = s.current) (hcb : begin_ ≤ current)
    (hr : ReadFill l s.remaining (s.current - begin_) total (R0 + S) r)
    (hsz : size ≤ r.nbytes) (hsz16 : size % PAGESIZE = 0) (hszr : size ≤ s.remaining) :
    ∃ s' st, profile_deliver env logbooks current first size s r = Step.next (s', st) ∧
      ProfFill l logbooks begin_ total S R0 s' ∧ s'.current = current := by
  have hP : PAGESIZE = 16 := rfl
  have hP2 : PAGESIZE / 2 = 8 := rfl
  obtain ⟨⟨a1, a2, a3, a4, a5⟩, b2, b3, b4, b5⟩ := hr
  obtain ⟨⟨_, _, _, c4, c5, _, _⟩, d2, d3, d4, d5, d6, d7, d8, d9, d10, d11, d12, d13⟩ := hs
  rw [hP] at a4 c4 hsz16
  have h1 : usub r.nbytes size = r.nbytes - size := usub_eq _ _ hsz (by omega)
  have h2 : usub s.remaining size = s.remaining - size := usub_eq _ _ hszr (by omega)
  have h3 : usub r.offset 8 = r.offset - 8 := usub_eq _ _ (by omega) (by omega)
  unfold profile_deliver
  simp only [h1, h2, h3, hP2]
  have c1 : ¬ (r.nbytes - size ≠ 0 ∧ (r.offset < 8 ∨
      ¬ r.profiles.writable (r.offset - 8) (r.nbytes - size) = true ∨
      ¬ r.profiles.writable r.offset (r.nbytes - size) = true)) := by
    simp only [Buffer.writable, decide_eq_true_eq]
    omega
  rw [if_neg c1]
  obtain ⟨p1, hp1, hp1s, hp1b, hp1c⟩ : ∃ p1 : Buffer,
      (if r.nbytes - size ≠ 0 then r.profiles.memmove (r.offset - 8) r.offset (r.nbytes - size)
        else r.profiles) = p1 ∧ p1.size = r.profiles.size ∧
      (∀ j, r.nbytes - size ≤ j → p1.cell (r.offset + j) = r.profiles.cell (r.offset + j)) ∧
      (∀ j, j < r.nbytes - size →
        p1.cell (r.offset - 8 + j) = r.profiles.cell (r.offset + j)) := by
    refine ⟨_, rfl, ?_, ?_, ?_⟩
    · split_ifs <;> rfl
    · intro j hj
      split_ifs
      · rw [memmove_cell, if_neg (by omega)]
      · rfl
    · intro j hj
      rw [if_pos (by omega), memmove_cell, if_pos ⟨by omega, by omega⟩]
      have e : r.offset - 8 + j - (r.offset - 8) = j := by omega
      rw [e]
  rw [hp1]
  have c2 : p1.writable (r.offset - 8 + (r.nbytes - size)) 8 = true := by
    simp only [Buffer.writable, decide_eq_true_eq, hp1s]
    omega
  rw [if_neg (not_not.mpr c2)]
  have hfill : ∀ (t : List Event) (pc : Nat), read_total t = read_total r.trace →
      ProfFill l logbooks begin_ total S R0
        { profiles := p1.store (r.offset - 8 + (r.nbytes - size)) 8
            (fun i => logbooks.cell (current + i)),
          remaining := s.remaining - size, available := r.nbytes - size, previous := first,
          current := current, offset := r.offset - 8, address := r.address,
          progress_current := pc, trace := t } := by
    intro t pc ht
    refine ⟨⟨a1, a2, a3, ?_, ?_, ?_, ?_⟩, ?_, hcb, ?_, ?_, ?_, ?_, d8, ?_, ?_, ?_, ?_, ?_⟩
    · show (s.remaining - size) % PAGESIZE = 0
      rw [hP]; omega
    · show s.remaining - size ≤ 1073741824 + 64
      omega
    · show (r.nbytes - size) % PAGESIZE = 0
      rw [hP]; omega
    · show r.nbytes - size ≤ s.remaining - size
      omega
    · show (p1.store _ _ _).size = total
      rw [store_size, hp1s]
      exact b2
    · show (current - begin_) % 8 = 0
      omega
    · show current < 4294967296
      omega
    · show r.offset - 8 = s.remaining - size - (r.nbytes - size) + (current - begin_)
      omega
    · show s.remaining - size + (current - begin_) ≤ total
      omega
    · show s.remaining - size ≤ S
      omega
    · intro j hj
      have hj' : j < r.nbytes - size := hj
      show ((p1.store (r.offset - 8 + (r.nbytes - size)) 8
        (fun i => logbooks.cell (current + i))).cell (r.offset - 8 + j)).isSome = true
      rw [store_cell, if_neg (by omega), hp1c j hj']
      exact b4 j (by omega)
    · intro i hi1 hi2
      have hi3 : i < current := hi2
      exact d11 i hi1 (by omega)
    · show current ≤ logbooks.size
      omega
    · show read_total t + (s.remaining - size - (r.nbytes - size)) = R0 + S
      rw [ht]
      omega
  rcases hcbk : env.callback with _ | cb
  · exact ⟨_, false, rfl, hfill _ _ rfl, rfl⟩
  · simp only []
    have e : u32 (size + 8) = 8 + size := by rw [u32_eq _ (by omega)]; omega
    rw [e]
    have c3 : (p1.store (r.offset - 8 + (r.nbytes - size)) 8
        (fun i => logbooks.cell (current + i))).readable
        (r.offset - 8 + (r.nbytes - size)) (8 + size) = true := by
      apply readable_of_cells
      · rw [store_size, hp1s]; omega
      · intro i hi
        apply Option.isSome_iff_exists.mp
        rw [store_cell]
        by_cases hi8 : i < 8
        · rw [if_pos (by omega)]
          have e1 : r.offset - 8 + (r.nbytes - size) + i - (r.offset - 8 + (r.nbytes - size))
              = i := by omega
          rw [e1]
          exact d11 (current + i) (by omega) (by omega)
        · rw [if_neg (by omega)]
          have e1 : r.offset - 8 + (r.nbytes - size) + i
              = r.offset + (r.nbytes - size + i - 8) := by omega
          rw [e1, hp1b _ (by omega)]
          exact b4 _ (by omega)
    rw [if_neg (not_not.mpr c3)]
    exact ⟨_, _, rfl, hfill _ _ (read_total_dive _ _ _), rfl⟩

/-- One iteration of the profile loop for a determinate logbook entry whose
pointers lie in the profile ring: the two checks, the packet loop and the
delivery. -/
theorem profile_dive_unfold (env : Env) (l : oceanic_common_layout_t) (mp : Nat)
    (logbooks : Buffer) (pm rf : Nat) (s : ProfState)
    (h1 : 8 ≤ s.current) (h2 : s.current < 4294967296)
    (h3 : logbooks.readable (s.current - 8) 8 = true)
    (h4 : ringbuffer_defined (get_profile_first (logbooks.load (s.current - 8) 8) l)
        l.rb_profile_begin l.rb_profile_end = true ∧
      ringbuffer_defined (get_profile_last (logbooks.load (s.current - 8) 8) l)
        l.rb_profile_begin l.rb_profile_end = true) :
    profile_dive env l mp logbooks pm rf s =
      if RB_PROFILE_INCR (get_profile_last (logbooks.load (s.current - 8) 8) l) PAGESIZE l
          ≠ s.previous then Step.stop ⟨Outcome.returned ERROR, s.trace⟩
      else if u32 (RB_PROFILE_DISTANCE (get_profile_first (logbooks.load (s.current - 8) 8) l)
          (get_profile_last (logbooks.load (s.current - 8) 8) l) l + PAGESIZE) > s.remaining then
        Step.stop ⟨Outcome.returned ERROR, s.trace⟩
      else
        match profile_read env l mp pm s.remaining
            (u32 (RB_PROFILE_DISTANCE (get_profile_first (logbooks.load (s.current - 8) 8) l)
              (get_profile_last (logbooks.load (s.current - 8) 8) l) l + PAGESIZE)) rf
            { profiles := s.profiles, nbytes := s.available, offset := s.offset,
              address := s.address, progress_current := s.progress_current,
              trace := s.trace } with
        | Step.stop r => Step.stop r
        | Step.next r =>
          profile_deliver env logbooks (s.current - 8)
            (get_profile_first (logbooks.load (s.current - 8) 8) l)
            (u32 (RB_PROFILE_DISTANCE (get_profile_first (logbooks.load (s.current - 8) 8) l)
              (get_profile_last (logbooks.load (s.current - 8) 8) l) l + PAGESIZE)) s r := by
  have hP2 : PAGESIZE / 2 = 8 := rfl
  unfold profile_dive
  simp only [hP2]
  rw [usub_eq _ _ h1 h2, if_neg (not_not.mpr h3), if_neg (not_not.mpr h4)]
  try rfl

/-- One iteration of the profile loop under the fill invariant, for an entry
whose pointers lie in the profile ring and whatever `device_read` answers: the
iteration performs no invalid memory access, runs out of fuel only when the
fuel is less than the number of pages of the profile ring, and does not ask
for more bytes than `rb_profile_size` in total; when it goes on, the invariant
holds for the entry in front. -/
theorem profile_dive_fill (env : Env) (l : oceanic_common_layout_t) (mp : Nat)
    (logbooks : Buffer) (begin_ total S R0 pm rf : Nat) (s : ProfState)
    (hok : LayoutOk l mp) (hs : ProfFill l logbooks begin_ total S R0 s)
    (hne : s.current ≠ begin_)
    (hptr : ringbuffer_defined (get_profile_first (logbooks.load (s.current - 8) 8) l)
        l.rb_profile_begin l.rb_profile_end = true ∧
      ringbuffer_defined (get_profile_last (logbooks.load (s.current - 8) 8) l)
        l.rb_profile_begin l.rb_profile_end = true) :
    (∀ x, profile_dive env l mp logbooks pm rf s = Step.stop x →
      x.outcome ≠ Outcome.fault ∧
      (x.outcome = Outcome.diverge → 16 * rf < l.rb_profile_end - l.rb_profile_begin) ∧
      read_total x.trace ≤ R0 + S) ∧
    (∀ s' st, profile_dive env l mp logbooks pm rf s = Step.next (s', st) →
      ProfFill l logbooks begin_ total S R0 s' ∧ s'.current + 8 = s.current) := by
  have hP : PAGESIZE = 16 := rfl
  have g1 := hs.cur_lo
  have g2 := hs.cur8
  have g3 := hs.cur32
  have g4 := hs.lsize
  have g5 := hs.bytes
  have g6 := hs.tot
  have hread : logbooks.readable (s.current - 8) 8 = true := by
    apply readable_of_cells
    · omega
    · intro i hi
      apply Option.isSome_iff_exists.mp
      exact hs.entries _ (by omega) (by omega)
  rw [profile_dive_unfold env l mp logbooks pm rf s (by omega) g3 hread hptr]
  obtain ⟨q1, q2, _, _, _⟩ := profile_pointers_aligned l _ _ hok.pb hok.pe hok.pe32
    (get_profile_first_aligned (logbooks.load (s.current - 8) 8) l)
    (get_profile_last_aligned (logbooks.load (s.current - 8) 8) l) hptr.1 hptr.2
  generalize u32 (RB_PROFILE_DISTANCE (get_profile_first (logbooks.load (s.current - 8) 8) l)
    (get_profile_last (logbooks.load (s.current - 8) 8) l) l + PAGESIZE) = size at q1 q2 ⊢
  generalize get_profile_first (logbooks.load (s.current - 8) 8) l = first
  by_cases c3 : RB_PROFILE_INCR (get_profile_last (logbooks.load (s.current - 8) 8) l) PAGESIZE l
      ≠ s.previous
  · rw [if_pos c3]
    constructor
    · intro x hx
      have e := Step.stop.inj hx
      rw [← e]
      exact ⟨by simp, fun hd => by simp at hd, by show read_total s.trace ≤ R0 + S; omega⟩
    · intro s' st hn
      cases hn
  · rw [if_neg c3]
    by_cases c4 : size > s.remaining
    · rw [if_pos c4]
      constructor
      · intro x hx
        have e := Step.stop.inj hx
        rw [← e]
        exact ⟨by simp, fun hd => by simp at hd, by show read_total s.trace ≤ R0 + S; omega⟩
      · intro s' st hn
        cases hn
    · rw [if_neg c4]
      have hrf := profile_readstate_fill l logbooks begin_ total S R0 s hs
      obtain ⟨i1, i2, i3⟩ := profile_read_fill env l mp pm s.remaining size (s.current - begin_)
        total (R0 + S) hok hs.addr.rem_al hs.addr.rem_32 (Nat.le_of_not_gt c4) g6 hs.tot32 rf _ hrf
      rcases hpr : profile_read env l mp pm s.remaining size rf
        { profiles := s.profiles, nbytes := s.available, offset := s.offset,
          address := s.address, progress_current := s.progress_current,
          trace := s.trace } with r | x0
      · obtain ⟨j1, j2⟩ := i3 r hpr
        obtain ⟨s1, st1, hd, hf, hc⟩ := profile_deliver_fill env l logbooks begin_ total S R0
          (s.current - 8) first size s r hs (by omega) (by omega) j1 j2 q1
          (Nat.le_of_not_gt c4)
        simp only []
        rw [hd]
        constructor
        · intro x hx
          cases hx
        · intro s' st hn
          have e := Prod.mk.inj (Step.next.inj hn)
          rw [← e.1]
          exact ⟨hf, by rw [hc]; omega⟩
      · obtain ⟨j1, j2, j3⟩ := i2 x0 hpr
        simp only []
        constructor
        · intro x hx
          have e := Step.stop.inj hx
          rw [← e]
          refine ⟨j1, fun hd => ?_, j3⟩
          have := j2 hd
          have e2 : s.available + 16 * rf < size := this
          omega
        · intro s' st hn
          cases hn

/-- The profile loop under the fill invariant, for entries whose pointers lie in
the profile ring and whatever `device_read` and the callback answer: the loop
performs no invalid memory access, runs out of fuel only when the fuel is
less than the number of pages of the ring or the number of entries, and does
not ask for more bytes than `rb_profile_size` in total. -/
theorem profile_loop_fill (env : Env) (l : oceanic_common_layout_t) (mp : Nat)
    (logbooks : Buffer) (begin_ total S R0 pm rf : Nat) (hok : LayoutOk l mp) :
    ∀ (fuel : Nat) (s : ProfState), ProfFill l logbooks begin_ total S R0 s →
      (∀ c, begin_ ≤ c → c + 8 ≤ s.current → (c - begin_) % 8 = 0 →
        ringbuffer_defined (get_profile_first (logbooks.load c 8) l)
          l.rb_profile_begin l.rb_profile_end = true ∧
        ringbuffer_defined (get_profile_last (logbooks.load c 8) l)
          l.rb_profile_begin l.rb_profile_end = true) →
      (∀ x, profile_loop env l mp logbooks begin_ pm rf fuel s = Step.stop x →
        x.outcome ≠ Outcome.fault ∧
        (x.outcome = Outcome.diverge →
          16 * rf < l.rb_profile_end - l.rb_profile_begin ∨ 8 * fuel < s.current - begin_) ∧
        read_total x.trace ≤ R0 + S) ∧
      (∀ s', profile_loop env l mp logbooks begin_ pm rf fuel s = Step.next s' →
        read_total s'.trace ≤ R0 + S) := by
  intro fuel
  induction fuel with
  | zero =>
    intro s hs hptr
    have g1 := hs.cur_lo
    have g5 := hs.bytes
    rw [profile_loop]
    by_cases c : ¬ (s.current ≠ begin_)
    · rw [if_pos c]
      constructor
      · intro x hx
        cases hx
      · intro s' hn
        have e := Step.next.inj hn
        rw [← e]
        omega
    · rw [if_neg c]
      constructor
      · intro x hx
        have e := Step.stop.inj hx
        rw [← e]
        exact ⟨by simp, fun _ => Or.inr (by omega), by show read_total s.trace ≤ R0 + S; omega⟩
      · intro s' hn
        cases hn
  | succ fuel ih =>
    intro s hs hptr
    have g1 := hs.cur_lo
    have g2 := hs.cur8
    have g5 := hs.bytes
    rw [profile_loop]
    by_cases c : ¬ (s.current ≠ begin_)
    · rw [if_pos c]
      constructor
      · intro x hx
        cases hx
      · intro s' hn
        have e := Step.next.inj hn
        rw [← e]
        omega
    · rw [if_neg c]
      have hne : s.current ≠ begin_ := not_not.mp c
      obtain ⟨d1, d2⟩ := profile_dive_fill env l mp logbooks begin_ total S R0 pm rf s hok hs hne
        (hptr (s.current - 8) (by omega) (by omega) (by omega))
      rcases hp : profile_dive env l mp logbooks pm rf s with ⟨s1, st⟩ | x0
      · obtain ⟨e1, e2⟩ := d2 s1 st hp
        have f5 := e1.bytes
        simp only []
        by_cases hst : st = true
        · rw [if_pos hst]
          constructor
          · intro x hx
            have e := Step.stop.inj hx
            rw [← e]
            exact ⟨by simp, fun hd => by simp at hd,
              by show read_total s1.trace ≤ R0 + S; omega⟩
          · intro s' hn
            cases hn
        · rw [if_neg hst]
          obtain ⟨i1, i2⟩ := ih s1 e1
            (fun c h1 h2 h3 => hptr c h1 (by omega) h3)
          refine ⟨fun x hx => ?_, i2⟩
          obtain ⟨j1, j2, j3⟩ := i1 x hx
          refine ⟨j1, fun hd => ?_, j3⟩
          rcases j2 hd with j | j
          · exact Or.inl j
          · exact Or.inr (by omega)
      · obtain ⟨j1, j2, j3⟩ := d1 x0 hp
        simp only []
        constructor
        · intro x hx
          have e := Step.stop.inj hx
          rw [← e]
          exact ⟨j1, fun hd => Or.inl (j2 hd), j3⟩
        · intro s' hn
          cases hn

/-- The fill invariant holds in every state of the profile loop. -/
theorem profile_steps_fill (env : Env) (l : oceanic_common_layout_t) (mp : Nat)
    (logbooks : Buffer) (begin_ total S R0 pm rf : Nat) (hok : LayoutOk l mp) :
    ∀ (k : Nat) (s st : ProfState), ProfFill l logbooks begin_ total S R0 s →
      (∀ c, begin_ ≤ c → c + 8 ≤ s.current → (c - begin_) % 8 = 0 →
        ringbuffer_defined (get_profile_first (logbooks.load c 8) l)
          l.rb_profile_begin l.rb_profile_end = true ∧
        ringbuffer_defined (get_profile_last (logbooks.load c 8) l)
          l.rb_profile_begin l.rb_profile_end = true) →
      profile_steps env l mp logbooks begin_ pm rf k s = some st →
      ProfFill l logbooks begin_ total S R0 st ∧ st.current ≤ s.current := by
  intro k
  induction k with
  | zero =>
    intro s st hs _ h
    have e : s = st := Option.some.inj h
    rw [← e]
    exact ⟨hs, Nat.le_refl _⟩
  | succ k ih =>
    intro s st hs hptr h
    have g1 := hs.cur_lo
    have g2 := hs.cur8
    rw [profile_steps] at h
    by_cases c : s.current = begin_
    · rw [if_pos c] at h
      cases h
    · rw [if_neg c] at h
      obtain ⟨d1, d2⟩ := profile_dive_fill env l mp logbooks begin_ total S R0 pm rf s hok hs c
        (hptr (s.current - 8) (by omega) (by omega) (by omega))
      rcases hp : profile_dive env l mp logbooks pm rf s with ⟨s1, st1⟩ | x0
      · obtain ⟨e1, e2⟩ := d2 s1 st1 hp
        rw [hp] at h
        cases st1
        · simp only [] at h
          obtain ⟨i1, i2⟩ := ih s1 st e1 (fun c h1 h2 h3 => hptr c h1 (by omega) h3) h
          exact ⟨i1, by omega⟩
        · cases h
      · rw [hp] at h
        cases h

/-- The profile loop starts with the fill invariant: for determinate logbook
entries `[begin, end)` whose first and last pointers lie in the profile ring,
the start of the profile download performs no invalid memory access, and the
buffer it allocates has `rb_profile_size + (end - begin)` bytes, with
`rb_profile_size` not above the size of the profile ring. -/
theorem profile_start_fill (env : Env) (l : oceanic_common_layout_t) (mp end_ : Nat)
    (s : LogState) (hok : LayoutOk l mp)
    (hle : s.begin_ ≤ end_) (hal : (end_ - s.begin_) % 8 = 0)
    (hsz : end_ ≤ s.logbooks.size) (h32 : s.logbooks.size ≤ 1073741824)
    (hfilled : ∀ i, s.begin_ ≤ i → i < end_ → (s.logbooks.cell i).isSome = true)
    (hptr : ∀ c, s.begin_ ≤ c → c + 8 ≤ end_ → (c - s.begin_) % 8 = 0 →
      ringbuffer_defined (get_profile_first (s.logbooks.load c 8) l)
        l.rb_profile_begin l.rb_profile_end = true ∧
      ringbuffer_defined (get_profile_last (s.logbooks.load c 8) l)
        l.rb_profile_begin l.rb_profile_end = true) :
    (∀ x, profile_start env l end_ s = Step.stop x →
      x.outcome ≠ Outcome.fault ∧ x.outcome ≠ Outcome.diverge ∧ x.trace = s.trace) ∧
    (∀ p, profile_start env l end_ s = Step.next p →
      ProfFill l s.logbooks s.begin_ (p.state.remaining + (end_ - s.begin_)) p.state.remaining
        (read_total s.trace) p.state ∧
      p.state.current = end_ ∧
      p.state.profiles.size = p.state.remaining + (end_ - s.begin_) ∧
      p.state.remaining ≤ l.rb_profile_end - l.rb_profile_begin ∧
      p.state.trace = s.trace) := by
  have hP : PAGESIZE = 16 := rfl
  have hP2 : PAGESIZE / 2 = 8 := rfl
  have k5 := hok.pe32
  unfold profile_start
  simp only [hP2]
  by_cases hbe : s.begin_ = end_
  · rw [if_pos hbe]
    constructor
    · intro x hx
      have e := Step.stop.inj hx
      rw [← e]
      exact ⟨by simp, by simp, rfl⟩
    · intro p hn
      cases hn
  · rw [if_neg hbe]
    have hr1 : s.logbooks.readable s.begin_ 8 = true := by
      apply readable_of_cells
      · omega
      · intro i hi
        apply Option.isSome_iff_exists.mp
        exact hfilled _ (by omega) (by omega)
    have hr2 : s.logbooks.readable (end_ - 8) 8 = true := by
      apply readable_of_cells
      · omega
      · intro i hi
        apply Option.isSome_iff_exists.mp
        exact hfilled _ (by omega) (by omega)
    have c2 : ¬ (¬ s.logbooks.readable s.begin_ 8 = true ∨ end_ < 8 ∨
        ¬ s.logbooks.readable (end_ - 8) 8 = true) := by
      rw [hr1, hr2]
      simp only [not_true_eq_false, false_or, or_false, not_lt]
      omega
    rw [if_neg c2]
    have hp1 := (hptr s.begin_ (Nat.le_refl _) (by omega) (by omega)).1
    have hp2 := (hptr (end_ - 8) (by omega) (by omega) (by omega)).2
    rw [if_neg (not_not.mpr ⟨hp1, hp2⟩)]
    obtain ⟨q1, q2, q3, q4, q5⟩ := profile_pointers_aligned l _ _ hok.pb hok.pe hok.pe32
      (get_profile_first_aligned (s.logbooks.load s.begin_ 8) l)
      (get_profile_last_aligned (s.logbooks.load (end_ - 8) 8) l) hp1 hp2
    generalize u32 (RB_PROFILE_DISTANCE (get_profile_first (s.logbooks.load s.begin_ 8) l)
      (get_profile_last (s.logbooks.load (end_ - 8) 8) l) l + PAGESIZE) = S at q1 q2 ⊢
    generalize RB_PROFILE_INCR (get_profile_last (s.logbooks.load (end_ - 8) 8) l) PAGESIZE l
      = pe at q3 q4 q5 ⊢
    have hu : usub end_ s.begin_ = end_ - s.begin_ := usub_eq _ _ hle (by omega)
    have ht : u32 (S + (end_ - s.begin_)) = S + (end_ - s.begin_) := u32_eq _ (by omega)
    rw [hu, ht]
    by_cases hm : ¬ env.malloc_ok (S + (end_ - s.begin_)) = true
    · rw [if_pos hm]
      constructor
      · intro x hx
        have e := Step.stop.inj hx
        rw [← e]
        exact ⟨by simp, by simp, rfl⟩
      · intro p hn
        cases hn
    · rw [if_neg hm]
      constructor
      · intro x hx
        cases hx
      · intro p hn
        have e := Step.next.inj hn
        rw [← e]
        refine ⟨⟨⟨q3, q4, Nat.le_of_lt q5, q1, ?_, Nat.zero_mod _, Nat.zero_le _⟩, rfl, hle, hal,
          ?_, ?_, ?_, ?_, Nat.le_refl _, ?_, hfilled, hsz, ?_⟩, rfl, rfl, q2, rfl⟩
        · show S ≤ 1073741824 + 64
          omega
        · show end_ < 4294967296
          omega
        · show S + (end_ - s.begin_) = S - 0 + (end_ - s.begin_)
          omega
        · show S + (end_ - s.begin_) ≤ S + (end_ - s.begin_)
          omega
        · show S + (end_ - s.begin_) < 4294967296
          omega
        · intro j hj
          exact absurd hj (Nat.not_lt_zero _)
        · show read_total s.trace + (S - 0) = read_total s.trace + S
          omega

/-- Claim C36. The Oceanic profile loop is bounded and in-bounds. Let the
logbook entries `[begin, end)` of the linear buffer be whole entries and
determinate (what the logbook part hands over), and let the profile pointers
of every entry lie in the profile ring of a well-formed layout. Then, for
every `device_read` and callback: the profile part of
`oceanic_common_device_foreach` (lines 379-501) performs no invalid memory
access, and with fuel for every entry and every page of the ring it does not
run out of fuel, so the outer loop and every packet loop terminate. Once the
buffer is allocated it has `rb_profile_size + (end - begin)` bytes with
`rb_profile_size` at most the size of the ring, and the run asks for at most
`rb_profile_size` profile bytes. In every state `k` of the outer loop
`available <= remaining <= rb_profile_size`, `offset` is the number of bytes
still to come, `(remaining - available) + (current - begin)`, so that it does
not go below zero and `offset + available` stays inside the buffer, and the
bytes asked for so far are `rb_profile_size - (remaining - available)`. For
an entry that passes the size check, every packet of `len > 0` bytes goes to
`[offset - len, offset)` with `len + PAGESIZE / 2 <= offset` and `offset`
inside the buffer, and when the packet loop ends, `rb_entry_size <= nbytes <=
remaining` (neither subtraction of lines 478-479 underflows),
`PAGESIZE / 2 <= offset`, and the bytes moved by `memmove` and the entry
stored behind them end at `offset + (nbytes - rb_entry_size)`, inside the
buffer. -/
theorem profile_loop_bounded (env : Env) (device : oceanic_common_device_t)
    (l : oceanic_common_layout_t) (fuel end_ : Nat) (s : LogState)
    (hok : LayoutOk l device.multipage)
    (hle : s.begin_ ≤ end_) (hal : (end_ - s.begin_) % (PAGESIZE / 2) = 0)
    (hsz : end_ ≤ s.logbooks.size) (h32 : s.logbooks.size ≤ 1073741824)
    (hfilled : ∀ i, s.begin_ ≤ i → i < end_ → (s.logbooks.cell i).isSome = true)
    (hptr : ∀ c, s.begin_ ≤ c → c + PAGESIZE / 2 ≤ end_ → (c - s.begin_) % (PAGESIZE / 2) = 0 →
      ringbuffer_defined (get_profile_first (s.logbooks.load c (PAGESIZE / 2)) l)
        l.rb_profile_begin l.rb_profile_end = true ∧
      ringbuffer_defined (get_profile_last (s.logbooks.load c (PAGESIZE / 2)) l)
        l.rb_profile_begin l.rb_profile_end = true) :
    (foreach_profiles env device l fuel end_ s).outcome ≠ Outcome.fault ∧
    (end_ - s.begin_ ≤ 8 * fuel → l.rb_profile_end - l.rb_profile_begin ≤ 16 * fuel →
      (foreach_profiles env device l fuel end_ s).outcome ≠ Outcome.diverge) ∧
    (∀ p, profile_start env l end_ s = Step.next p →
      p.state.remaining ≤ l.rb_profile_end - l.rb_profile_begin ∧
      p.state.profiles.size = p.state.remaining + (end_ - s.begin_) ∧
      read_total (foreach_profiles env device l fuel end_ s).trace
        ≤ read_total s.trace + p.state.remaining ∧
      ∀ k st, profile_steps env l device.multipage s.logbooks s.begin_ p.progress_maximum fuel k
          p.state = some st →
        st.profiles.size = p.state.remaining + (end_ - s.begin_) ∧
        st.available ≤ st.remaining ∧ st.remaining ≤ p.state.remaining ∧
        s.begin_ ≤ st.current ∧ st.current ≤ end_ ∧
        st.offset = st.remaining - st.available + (st.current - s.begin_) ∧
        st.offset + st.available ≤ st.profiles.size ∧
        read_total st.trace + (st.remaining - st.available)
          = read_total s.trace + p.state.remaining ∧
        (st.current ≠ s.begin_ →
          ∀ size, size = u32 (RB_PROFILE_DISTANCE
              (get_profile_first (s.logbooks.load (st.current - PAGESIZE / 2) (PAGESIZE / 2)) l)
              (get_profile_last (s.logbooks.load (st.current - PAGESIZE / 2) (PAGESIZE / 2)) l) l
              + PAGESIZE) →
            size ≤ st.remaining →
            (∀ w ∈ profile_read_log env l device.multipage p.progress_maximum st.remaining size
                fuel { profiles := st.profiles, nbytes := st.available, offset := st.offset,
                       address := st.address, progress_current := st.progress_current,
                       trace := st.trace },
              0 < w.2 ∧ w.2 + PAGESIZE / 2 ≤ w.1 ∧ w.1 ≤ st.profiles.size) ∧
            (∀ r, profile_read env l device.multipage p.progress_maximum st.remaining size fuel
                { profiles := st.profiles, nbytes := st.available, offset := st.offset,
                  address := st.address, progress_current := st.progress_current,
                  trace := st.trace } = Step.next r →
              size ≤ r.nbytes ∧ r.nbytes ≤ st.remaining ∧ PAGESIZE / 2 ≤ r.offset ∧
              r.offset + (r.nbytes - size) ≤ r.profiles.size ∧
              r.profiles.size = st.profiles.size))) := by
  have hP2 : PAGESIZE / 2 = 8 := rfl
  rw [hP2] at hal
  simp only [hP2] at hptr ⊢
  obtain ⟨t1, t2⟩ := profile_start_fill env l device.multipage end_ s hok hle hal hsz h32
    hfilled hptr
  have hrun : ∀ p, profile_start env l end_ s = Step.next p →
      (foreach_profiles env device l fuel end_ s).outcome ≠ Outcome.fault ∧
      (end_ - s.begin_ ≤ 8 * fuel → l.rb_profile_end - l.rb_profile_begin ≤ 16 * fuel →
        (foreach_profiles env device l fuel end_ s).outcome ≠ Outcome.diverge) ∧
      read_total (foreach_profiles env device l fuel end_ s).trace
        ≤ read_total s.trace + p.state.remaining := by
    intro p hp
    obtain ⟨u1, u2, u3, u4, u5⟩ := t2 p hp
    obtain ⟨v1, v2⟩ := profile_loop_fill env l device.multipage s.logbooks s.begin_ _ _ _
      p.progress_maximum fuel hok fuel p.state u1
      (fun c h1 h2 h3 => hptr c h1 (by rw [u2] at h2; exact h2) h3)
    unfold foreach_profiles
    rw [hp]
    simp only []
    rcases hl : profile_loop env l device.multipage s.logbooks s.begin_ p.progress_maximum
      fuel fuel p.state with s' | x
    · simp only []
      exact ⟨by simp, fun _ _ => by simp, v2 s' hl⟩
    · simp only []
      obtain ⟨j1, j2, j3⟩ := v1 x hl
      refine ⟨j1, fun h1 h2 hd => ?_, j3⟩
      rcases j2 hd with j | j
      · omega
      · rw [u2] at j
        omega
  refine ⟨?_, ?_, ?_⟩
  · rcases hp : profile_start env l end_ s with p | x
    · exact (hrun p hp).1
    · unfold foreach_profiles
      rw [hp]
      exact (t1 x hp).1
  · rcases hp : profile_start env l end_ s with p | x
    · exact (hrun p hp).2.1
    · unfold foreach_profiles
      rw [hp]
      exact fun _ _ => (t1 x hp).2.1
  · intro p hp
    obtain ⟨u1, u2, u3, u4, u5⟩ := t2 p hp
    refine ⟨u4, u3, (hrun p hp).2.2, ?_⟩
    intro k st hst
    obtain ⟨w1, w2⟩ := profile_steps_fill env l device.multipage s.logbooks s.begin_ _ _ _
      p.progress_maximum fuel hok k p.state st u1
      (fun c h1 h2 h3 => hptr c h1 (by rw [u2] at h2; exact h2) h3) hst
    have g1 := w1.size
    have g2 := w1.addr.av_le
    have g3 := w1.rem_le
    have g4 := w1.cur_lo
    have g5 := w1.off
    have g6 := w1.tot
    have g7 := w1.bytes
    have g8 := w1.cur8
    refine ⟨g1, g2, g3, g4, by omega, g5, by omega, g7, ?_⟩
    intro hne size hsize hfit
    have hrf := profile_readstate_fill l s.logbooks s.begin_ _ _ _ st w1
    obtain ⟨i1, i2, i3⟩ := profile_read_fill env l device.multipage p.progress_maximum
      st.remaining size (st.current - s.begin_) _ _ hok w1.addr.rem_al w1.addr.rem_32 hfit g6
      w1.tot32 fuel _ hrf
    constructor
    · intro w hw
      obtain ⟨x1, x2, x3⟩ := i1 w hw
      exact ⟨x1, by omega, by omega⟩
    · intro r hr
      obtain ⟨⟨⟨_, _, _, _, y5⟩, y2, y3, _, _⟩, x2⟩ := i3 r hr
      exact ⟨x2, y5, by omega, by omega, by omega⟩

/-- Witness of `profile_loop_bounded`: the profile part of a run over
`sample_image` with `multipage = 4`, from the state that the logbook part
hands over, four entries in `[0, 32)`. -/
theorem profile_loop_bounded_witness :
    (foreach_profiles (image_env sample_image accept_all)
      (sample_device [0, 0, 0, 0, 0, 0, 0, 0] 4) sample_layout 32 32 sample_logstate).outcome
        ≠ Outcome.fault ∧
    (32 - sample_logstate.begin_ ≤ 8 * 32 → 0x100 - 0x40 ≤ 16 * 32 →
      (foreach_profiles (image_env sample_image accept_all)
        (sample_device [0, 0, 0, 0, 0, 0, 0, 0] 4) sample_layout 32 32 sample_logstate).outcome
          ≠ Outcome.diverge) :=
  (fun h => ⟨h.1, h.2.1⟩)
    (profile_loop_bounded (image_env sample_image accept_all)
      (sample_device [0, 0, 0, 0, 0, 0, 0, 0] 4) sample_layout 32 32 sample_logstate
      sample_layout_ok (by decide!) (by decide!) (by decide!) (by decide!)
      (fun i _ h => (by decide! : ∀ i, i < 32 →
        (sample_logstate.logbooks.cell i).isSome = true) i h)
      (fun c _ h2 h3 => (by decide! : ∀ c, c < 25 → c % 8 = 0 →
        ringbuffer_defined (get_profile_first (sample_logstate.logbooks.load c (PAGESIZE / 2))
          sample_layout) sample_layout.rb_profile_begin sample_layout.rb_profile_end = true ∧
        ringbuffer_defined (get_profile_last (sample_logstate.logbooks.load c (PAGESIZE / 2))
          sample_layout) sample_layout.rb_profile_begin sample_layout.rb_profile_end = true) c
        (by
          have e : PAGESIZE / 2 = 8 := rfl
          rw [e] at h2
          omega)
        (by
          have e : PAGESIZE / 2 = 8 := rfl
          have e0 : sample_logstate.begin_ = 0 := by decide!
          rw [e, e0] at h3
          omega)))

/-- The profile part of the run over `sample_image` from `sample_logstate`, with
`multipage = 1` and with `multipage = 4`: the run returns `SUCCESS` and asks for
the 128 profile bytes (32 bytes were asked for by the logbook part);
`(remaining, available, offset, current)` in every state of the outer loop;
and the packets `(offset, len)` of the four dives. With `multipage = 4` the
first two packets of 64 bytes hold all four dives. -/
theorem profile_loop_sample :
    (sample_logstate.begin_, sample_logstate.logbooks.size, read_total sample_logstate.trace)
      = (0, 32, 32) ∧
    (List.map (fun mp =>
      ((foreach_profiles (image_env sample_image accept_all)
        (sample_device [0, 0, 0, 0, 0, 0, 0, 0] mp) sample_layout 32 32 sample_logstate).outcome,
       read_total (foreach_profiles (image_env sample_image accept_all)
        (sample_device [0, 0, 0, 0, 0, 0, 0, 0] mp) sample_layout 32 32 sample_logstate).trace))
      [1, 4]) = [(Outcome.returned SUCCESS, 160), (Outcome.returned SUCCESS, 160)] ∧
    (List.map (fun mp =>
      match profile_start (image_env sample_image accept_all) sample_layout 32
          sample_logstate with
      | Step.next p => (List.range 6).map (fun k =>
          (profile_steps (image_env sample_image accept_all) sample_layout mp
            sample_logstate.logbooks sample_logstate.begin_ p.progress_maximum 32 k p.state).map
            (fun st => (st.remaining, st.available, st.offset, st.current)))
      | Step.stop _ => []) [1, 4]) =
      [[some (128, 0, 160, 32), some (96, 0, 120, 24), some (48, 0, 64, 16), some (32, 0, 40, 8),
        some (0, 0, 0, 0), none],
       [some (128, 0, 160, 32), some (96, 32, 88, 24), some (48, 48, 16, 16), some (32, 32, 8, 8),
        some (0, 0, 0, 0), none]] ∧
    (List.map (fun mp =>
      match profile_start (image_env sample_image accept_all) sample_layout 32
          sample_logstate with
      | Step.next p => (List.range 4).map (fun k =>
          match profile_steps (image_env sample_image accept_all) sample_layout mp
            sample_logstate.logbooks sample_logstate.begin_ p.progress_maximum 32 k p.state with
          | some st => profile_read_log (image_env sample_image accept_all) sample_layout mp
              p.progress_maximum st.remaining
              (u32 (RB_PROFILE_DISTANCE
                (get_profile_first (sample_logstate.logbooks.load (st.current - PAGESIZE / 2)
                  (PAGESIZE / 2)) sample_layout)
                (get_profile_last (sample_logstate.logbooks.load (st.current - PAGESIZE / 2)
                  (PAGESIZE / 2)) sample_layout) sample_layout + PAGESIZE)) 32
              { profiles := st.profiles, nbytes := st.available, offset := st.offset,
                address := st.address, progress_current := st.progress_current,
                trace := st.trace }
          | none => [])
      | Step.stop _ => []) [1, 4]) =
      [[[(160, 16), (144, 16)], [(120, 16), (104, 16), (88, 16)], [(64, 16)],
        [(40, 16), (24, 16)]],
       [[(160, 64)], [(88, 64)], [], []]] := by
  decide!

end Divecomputer
